import Mathlib

/-!
# Zeus: bytecode compiler and virtual machine

A shallow embedding of the parts of `src/src/compiler.c` and `src/src/vm/vm.c`
that emit, patch, read and execute bytecode, together with theorems about
them.

Conventions of the embedding.

* C integers are Lean `Int`/`Nat` values with explicit wrap-around
  (`wrapU`, `wrapS`); bitwise `|` works on two's complement bit patterns.
* A `DynArr` is a `List`; reading past its end is `none`.
* Pointers into the VM's fixed arrays (`stack`, `frame_stack`) are indices;
  the arrays themselves are functions from the index, so slots above
  `stack_top`/`frame_ptr` keep their stale contents exactly as in C.
* `longjmp(vm->exit_jmp, n)` is the result `Res.longjmp n`.
* An `LZOHTable` is the list of its entries, each a key with its value, in
  the order of insertion; a lookup compares keys as `robin_hood_lookup` does
  (`key_size == slot.key_size && memcmp(...) == 0`). The placement of the
  entries in slots (hash, probe distance, growth) is not embedded.
-/

namespace Zeus

/-! ## Machine integers -/

/-- Conversion of an integer to an unsigned type of `w` bits. -/
def wrapU (w : Nat) (x : Int) : Int := x % (2 : Int) ^ w

/-- Conversion of an integer to a signed two's complement type of `w` bits. -/
def wrapS (w : Nat) (x : Int) : Int :=
  if x % (2 : Int) ^ w < (2 : Int) ^ (w - 1) then x % (2 : Int) ^ w
  else x % (2 : Int) ^ w - (2 : Int) ^ w

/-- Bit pattern of a 32-bit C `int`/`unsigned int`. -/
def bits32 (x : Int) : Nat := (x % (2 : Int) ^ 32).toNat

/-- The C operator `|` on two 32-bit operands, as a bit pattern. -/
def or32 (x y : Int) : Nat := bits32 x ||| bits32 y

/-- Conversion of an integer to `size_t` (64 bits). -/
def to_size_t (x : Int) : Nat := (x % (2 : Int) ^ 64).toNat

def UINT16_MAX : Nat := 65535

/-! ## Byte encoding of immediates -/

/-- `descompose_i16` (compiler.c): `bytes[0] = (value >> 8) & 0xff`,
`bytes[1] = value & 0xff`, for an `int16_t` value. The arithmetic right shift
is the floor division of `Int`, and `& 0xff` its non-negative remainder. -/
def descompose_i16 (value : Int) : List Nat :=
  [((value / 2 ^ 8) % 256).toNat, (value % 256).toNat]

/-- `descompose_i32` (compiler.c), for an `int32_t` value. -/
def descompose_i32 (value : Int) : List Nat :=
  [((value / 2 ^ 24) % 256).toNat, ((value / 2 ^ 16) % 256).toNat,
   ((value / 2 ^ 8) % 256).toNat, (value % 256).toNat]

/-- `compose_i16` (vm.c):
`(int16_t)((uint16_t)bytes[0] << 8) | ((uint16_t)bytes[1])`, converted to the
return type `int16_t`. The cast binds tighter than `|`. -/
def compose_i16 (b0 b1 : Nat) : Int :=
  wrapS 16 (or32 (wrapS 16 (wrapU 16 b0 * 256)) (wrapU 16 b1))

/-- `compose_i32` (vm.c):
`(int32_t)((uint32_t)bytes[0] << 24) | ((uint32_t)bytes[1] << 16) |
 ((uint32_t)bytes[2] << 8) | ((uint32_t)bytes[3])`, converted to `int32_t`. -/
def compose_i32 (b0 b1 b2 b3 : Nat) : Int :=
  wrapS 32 (bits32 (wrapS 32 (wrapU 32 (wrapU 32 b0 * 2 ^ 24)))
    ||| bits32 (wrapU 32 (wrapU 32 b1 * 2 ^ 16))
    ||| bits32 (wrapU 32 (wrapU 32 b2 * 2 ^ 8))
    ||| bits32 (wrapU 32 b3) : Nat)

/-! ## Values, objects and descriptors (vm.h, obj.h) -/

def LOCALS_LENGTH : Nat := 255
def FRAME_LENGTH : Nat := 255
def STACK_LENGTH : Nat := LOCALS_LENGTH * FRAME_LENGTH

def OK_VMRESULT : Nat := 0
def ERR_VMRESULT : Nat := 1

/-- Modelled from the spec: `value.h` is not among the sources. A `Value` is
the tagged union of the data model; the payload of a float is kept as its bit
pattern and an object pointer is an index into the heap. -/
inductive Value where
  | empty
  | bool (b : Bool)
  | int (i : Int)
  | float (bits : Nat)
  | obj (ptr : Nat)
deriving DecidableEq, Repr

/-- Modelled from the spec: the zero-initialised `Value` of vm.c and vmu.c
(`value.h` is not among the sources); the spec says that a `THROW` without a
value pushes empty. -/
def Value.zero : Value := Value.empty

/-- A pointer to an `OutValue`: the closure object that owns the array and the
index inside `closure->out_values`. -/
structure OutPtr where
  closure_obj : Nat
  idx : Nat
deriving DecidableEq, Repr

/-- Modelled from the spec: `closure.h` is not among the sources; the fields are
the ones vm.c and vmu.c assign (`at` is spelled `at_`). -/
structure OutValue where
  linked : Bool
  at_ : Int
  value : Value
  prev : Option OutPtr
  next : Option OutPtr
  closure_obj : Nat
deriving DecidableEq, Repr

/-- The object kinds of obj.h. -/
inductive ObjType where
  | STR_OBJ_TYPE | ARRAY_OBJ_TYPE | LIST_OBJ_TYPE | DICT_OBJ_TYPE
  | RECORD_OBJ_TYPE | NATIVE_OBJ_TYPE | NATIVE_FN_OBJ_TYPE | FN_OBJ_TYPE
  | CLOSURE_OBJ_TYPE | NATIVE_MODULE_OBJ_TYPE | MODULE_OBJ_TYPE
deriving DecidableEq, Repr

/-- Heap objects. `closure` holds the `Closure` the `ClosureObj` points to
(its `MetaClosure` pointer and its `out_values` array); `list` holds the items
of a `ListObj`; `nbarray` is a `NativeObj` whose native is an `NBArrayNative`,
with its bytes (`len` is their number); the contents of the kinds gathered
under `other` (arrays, dicts, the other natives, native modules) play no part
in the instructions embedded here. -/
inductive Obj where
  | str (buff : String)
  | record (attrs : Option (List (String × Value)))
  | native_fn (arity : Nat) (name : String) (target : Value)
  | fn (fn : Nat)
  | closure (meta : Nat) (out_values : List OutValue)
  | module (module : Nat)
  | list (items : List Value)
  | nbarray (bytes : List Nat)
  | other (type : ObjType)
deriving DecidableEq, Repr

def Obj.type : Obj → ObjType
  | .str _ => .STR_OBJ_TYPE
  | .record _ => .RECORD_OBJ_TYPE
  | .native_fn _ _ _ => .NATIVE_FN_OBJ_TYPE
  | .fn _ => .FN_OBJ_TYPE
  | .closure _ _ => .CLOSURE_OBJ_TYPE
  | .module _ => .MODULE_OBJ_TYPE
  | .list _ => .LIST_OBJ_TYPE
  | .nbarray _ => .NATIVE_OBJ_TYPE
  | .other t => t

/-- The `Fn` descriptor: name, arity, chunks, integer and float constants and
the owning module. Float constants are kept as bit patterns. -/
structure Fn where
  name : String
  arity : Nat
  chunks : List Nat
  iconsts : List Int
  fconsts : List Nat
  module : Nat
deriving DecidableEq, Repr

/-- `MetaClosure`: the `at` of every `MetaOutValue` and the function. -/
structure MetaClosure where
  meta_out_values : List Int
  fn : Nat
deriving DecidableEq, Repr

inductive SubModuleSymbol where
  | FUNCTION (fn : Nat)
  | CLOSURE (meta : Nat)
  | NATIVE_MODULE (native_module : Nat)
  | MODULE (module : Nat)
deriving DecidableEq, Repr

inductive GlobalAccess where
  | PRIVATE | PUBLIC
deriving DecidableEq, Repr

structure GlobalValue where
  access : GlobalAccess
  value : Value
deriving DecidableEq, Repr

/-- A `Module` with the parts of its `submodule` the VM uses: static strings,
symbols, globals (a table from name to `GlobalValue`) and the resolved flag;
`entry_fn` points to the entry function and `prev` links the modules stack. -/
structure Module where
  name : String
  entry_fn : Nat
  strings : List String
  symbols : List SubModuleSymbol
  globals : List (String × GlobalValue)
  resolved : Bool
  prev : Option Nat
deriving DecidableEq, Repr

/-- `Frame` of vm.h; `locals` is an index into the value stack. -/
structure Frame where
  ip : Nat
  last_offset : Nat
  fn : Option Nat
  closure : Option Nat
  locals : Nat
  outs_head : Option OutPtr
  outs_tail : Option OutPtr
deriving DecidableEq, Repr

/-- `Exception` of vm.h; `stack_top` and `frame` are indices into the value
stack and the frame stack. -/
structure Exception where
  catch_ip : Nat
  throw_value : Value
  stack_top : Nat
  frame : Nat
deriving DecidableEq, Repr

/-- The state of the virtual machine. `stack` and `frame_stack` are the fixed
arrays, `stack_top` and `frame_ptr` the pointers into them. `heap` holds the
objects, `fns`, `metas` and `modules` the descriptors pointers refer to,
`runtime_strs` is the intern table of strings (key bytes to `StrObj`), and
`stderr` collects the messages of `vmu_error`/`vmu_internal_error`. -/
structure VM where
  exit_code : Nat
  stack : Nat → Value
  stack_top : Nat
  frame_stack : Nat → Frame
  frame_ptr : Nat
  exception_stack : List Exception
  modules_stack_len : Int
  modules_stack : Option Nat
  heap : List Obj
  fns : List Fn
  metas : List MetaClosure
  modules : List Module
  runtime_strs : List (List Char × Nat)
  stderr : List String

/-! ## The execution monad -/

/-- Result of running VM code: normal completion, a `longjmp` to
`vm->exit_jmp` with the given value, undefined behaviour of the C code (null
or out-of-bounds access), or an instruction left out of this embedding. -/
inductive Res (α : Type) where
  | ok (a : α) (vm : VM)
  | longjmp (val : Nat) (vm : VM)
  | ub
  | unmodelled

abbrev Exec (α : Type) := VM → Res α

def Exec.bind {α β : Type} (m : Exec α) (f : α → Exec β) : Exec β := fun vm =>
  match m vm with
  | .ok a vm1 => f a vm1
  | .longjmp v vm1 => .longjmp v vm1
  | .ub => .ub
  | .unmodelled => .unmodelled

instance : Monad Exec where
  pure a := fun vm => .ok a vm
  bind := Exec.bind

def get_vm : Exec VM := fun vm => .ok vm vm
def set_vm (vm : VM) : Exec Unit := fun _ => .ok () vm
def undefined_behaviour {α : Type} : Exec α := fun _ => .ub
def not_modelled {α : Type} : Exec α := fun _ => .unmodelled

/-- Dereference of a pointer that may be null or dangling. -/
def deref {α : Type} : Option α → Exec α
  | some a => pure a
  | none => undefined_behaviour

/-- `vmu_error` (vmu.c): prints the message, sets the exit code and jumps to
the dispatcher entry with value 1. -/
def vmu_error {α : Type} (msg : String) : Exec α := fun vm =>
  .longjmp 1 { vm with exit_code := ERR_VMRESULT, stderr := vm.stderr ++ ["Runtime error: " ++ msg] }

/-- `vmu_internal_error` (vmu.c). -/
def vmu_internal_error {α : Type} (msg : String) : Exec α := fun vm =>
  .longjmp 1 { vm with exit_code := ERR_VMRESULT, stderr := vm.stderr ++ ["FATAL RUNTIME ERROR: " ++ msg] }

/-! ## Stack, frame and chunk primitives (vm.c) -/

/-- `current_frame`: the index of the current frame in `frame_stack` and its
contents. -/
def current_frame : Exec (Nat × Frame) := fun vm =>
  if vm.frame_ptr = 0 then vmu_error "Frame stack is empty" vm
  else .ok (vm.frame_ptr - 1, vm.frame_stack (vm.frame_ptr - 1)) vm

/-- Assignment through a `Frame *`. -/
def set_frame (i : Nat) (f : Frame) : Exec Unit := fun vm =>
  .ok () { vm with frame_stack := Function.update vm.frame_stack i f }

/-- The chunks of `frame->fn`. -/
def frame_chunks (f : Frame) : Exec (List Nat) := fun vm =>
  match f.fn with
  | none => .ub
  | some i =>
    match vm.fns[i]? with
    | none => .ub
    | some fn => .ok fn.chunks vm

/-- `advance`. -/
def advance : Exec Nat := do
  let (i, frame) ← current_frame
  let chunks ← frame_chunks frame
  if frame.ip ≥ chunks.length then vmu_error "IP excceded chunks length"
  let chunk ← deref chunks[frame.ip]?
  set_frame i { frame with ip := frame.ip + 1 }
  pure chunk

/-- `advance_save`. -/
def advance_save : Exec Nat := do
  let (i, frame) ← current_frame
  let chunks ← frame_chunks frame
  if frame.ip ≥ chunks.length then vmu_error "IP excceded chunks length"
  let chunk ← deref chunks[frame.ip]?
  set_frame i { frame with ip := frame.ip + 1, last_offset := frame.ip + 1 - 1 }
  pure chunk

/-- `read_i16`: the two `advance` calls of the initialiser are taken in
textual order. -/
def read_i16 : Exec Int := do
  let b0 ← advance
  let b1 ← advance
  pure (compose_i16 b0 b1)

/-- `read_i32`. -/
def read_i32 : Exec Int := do
  let b0 ← advance
  let b1 ← advance
  let b2 ← advance
  let b3 ← advance
  pure (compose_i32 b0 b1 b2 b3)

/-- The `Fn` of the current frame (`VM_CURRENT_FN`). -/
def current_fn : Exec Fn := do
  let (_, frame) ← current_frame
  let i ← deref frame.fn
  let vm ← get_vm
  deref vm.fns[i]?

/-- The module of the current function (`VM_CURRENT_MODULE`). -/
def current_module : Exec (Nat × Module) := do
  let fn ← current_fn
  let vm ← get_vm
  let m ← deref vm.modules[fn.module]?
  pure (fn.module, m)

/-- `read_i64_const`: `DYNARR_GET_AS(constants, int64_t, (size_t)idx)` with the
`int16_t` index read from the chunks. -/
def read_i64_const : Exec Int := do
  let fn ← current_fn
  let idx ← read_i16
  deref fn.iconsts[to_size_t idx]?

/-- `read_float_const`. -/
def read_float_const : Exec Nat := do
  let fn ← current_fn
  let idx ← read_i16
  deref fn.fconsts[to_size_t idx]?

/-- `read_str`. -/
def read_str : Exec String := do
  let (_, m) ← current_module
  let idx := to_size_t (← read_i16)
  if idx ≥ m.strings.length then vmu_error "Illegal module static strings access index"
  deref m.strings[idx]?

/-- `peek`. -/
def peek : Exec Value := fun vm =>
  if vm.stack_top = 0 then vmu_error "Stack is empty" vm
  else .ok (vm.stack (vm.stack_top - 1)) vm

/-- `peek_at_ptr`: the guard is `vm->stack_top - 1 - offset <= vm->stack`. -/
def peek_at_ptr (offset : Nat) : Exec Nat := fun vm =>
  if vm.stack_top = 0 then vmu_internal_error "Stack is empty" vm
  else if (vm.stack_top : Int) - 1 - offset ≤ 0 then
    vmu_internal_error "Illegal stack peek offset" vm
  else .ok (vm.stack_top - 1 - offset) vm

/-- `peek_at`. -/
def peek_at (offset : Nat) : Exec Value := fun vm =>
  if vm.stack_top = 0 then vmu_internal_error "Stack is empty" vm
  else if (vm.stack_top : Int) - 1 - offset ≤ 0 then
    vmu_internal_error "Illegal stack peek offset" vm
  else .ok (vm.stack (vm.stack_top - 1 - offset)) vm

/-- `push`. -/
def push (value : Value) : Exec Unit := fun vm =>
  if vm.stack_top ≥ STACK_LENGTH then vmu_error "Stack over flow" vm
  else .ok () { vm with stack := Function.update vm.stack vm.stack_top value,
                        stack_top := vm.stack_top + 1 }

/-- `pop`. -/
def pop : Exec Value := fun vm =>
  if vm.stack_top = 0 then vmu_error "Stack under flow" vm
  else .ok (vm.stack (vm.stack_top - 1)) { vm with stack_top := vm.stack_top - 1 }

/-- Allocation of a heap object; the pointer is the index of the new object.
Collection cycles are not part of this embedding: objects are never freed. -/
def alloc_obj (o : Obj) : Exec Nat := fun vm =>
  .ok vm.heap.length { vm with heap := vm.heap ++ [o] }

/-- `vmu_create_fn` (vmu.c). -/
def vmu_create_fn (fn : Nat) : Exec Nat := alloc_obj (.fn fn)

/-- `push_fn`. -/
def push_fn (fn : Nat) : Exec Nat := do
  let fn_obj ← vmu_create_fn fn
  push (.obj fn_obj)
  pure fn_obj

/-- `pop_frame`. -/
def pop_frame : Exec Unit := fun vm =>
  if vm.frame_ptr = 0 then vmu_error "Frame stack is empty" vm
  else .ok () { vm with frame_ptr := vm.frame_ptr - 1 }

/-- `frame_local`: the address `locals + 1 + which` of a local, an index
into the value stack. -/
def frame_local (which : Nat) : Exec Nat := do
  let (_, frame) ← current_frame
  let vm ← get_vm
  let loc := frame.locals + 1 + which
  if loc ≥ vm.stack_top then vmu_error "Index for frame local pass value stack top"
  pure loc

/-- Assignment through a `Value *` that points into the value stack. -/
def store (ptr : Nat) (value : Value) : Exec Unit := fun vm =>
  .ok () { vm with stack := Function.update vm.stack ptr value }

/-- Read through a `Value *` that points into the value stack. -/
def load (ptr : Nat) : Exec Value := fun vm => .ok (vm.stack ptr) vm

/-- The object a value points to, when it is an object value. -/
def value_obj (vm : VM) : Value → Option Obj
  | .obj ptr => vm.heap[ptr]?
  | _ => none

/-- Modelled from the spec: `is_value_str` of `types_utils.h`, which is not
among the sources: the value is an object of kind String. -/
def is_value_str (vm : VM) (v : Value) : Bool :=
  match value_obj vm v with
  | some (.str _) => true
  | _ => false

/-- Modelled from the spec: `is_value_record` of `types_utils.h`. -/
def is_value_record (vm : VM) (v : Value) : Bool :=
  match value_obj vm v with
  | some (.record _) => true
  | _ => false

/-- Modelled from the spec: `is_value_module` of `types_utils.h`. -/
def is_value_module (vm : VM) (v : Value) : Bool :=
  match value_obj vm v with
  | some (.module _) => true
  | _ => false

/-- Modelled from the spec: `is_callable` of `types_utils.h`, which is not
among the sources: the slot holds a function, a closure or a native
function, the kinds `CALL` accepts. -/
def is_callable (vm : VM) (v : Value) : Bool :=
  match value_obj vm v with
  | some (.fn _) => true
  | some (.closure _ _) => true
  | some (.native_fn _ _ _) => true
  | _ => false

/-- `push_frame`: returns the index of the new frame. -/
def push_frame (argsc : Nat) : Exec Nat := fun vm =>
  if vm.frame_ptr ≥ FRAME_LENGTH then vmu_error "Frame stack is full" vm
  else if (vm.stack_top : Int) - 1 - argsc < 0 then
    vmu_internal_error "Frame locals out of value stack" vm
  else if !is_callable vm (vm.stack (vm.stack_top - 1 - argsc)) then
    vmu_internal_error "Frame locals must point to function" vm
  else
    .ok vm.frame_ptr
      { vm with
        frame_stack := Function.update vm.frame_stack vm.frame_ptr
          { ip := 0, last_offset := 0, fn := none, closure := none,
            locals := vm.stack_top - 1 - argsc, outs_head := none, outs_tail := none },
        frame_ptr := vm.frame_ptr + 1 }

/-- Assignment to fields of the frame at index `i`. -/
def modify_frame (i : Nat) (g : Frame → Frame) : Exec Unit := fun vm =>
  .ok () { vm with frame_stack := Function.update vm.frame_stack i (g (vm.frame_stack i)) }

/-- `call_fn`. -/
def call_fn (argsc : Nat) (fn : Nat) : Exec Unit := do
  let vm ← get_vm
  let f ← deref vm.fns[fn]?
  if argsc ≠ f.arity then
    vmu_error "Failed to call function. Declared with other number of parameter(s)"
  let frame ← push_frame argsc
  modify_frame frame (fun fr => { fr with fn := some fn })

/-- `call_closure`: `closure` is the closure object. -/
def call_closure (argsc : Nat) (closure : Nat) : Exec Unit := do
  let vm ← get_vm
  match vm.heap[closure]? with
  | some (.closure mc _) =>
    let m ← deref vm.metas[mc]?
    let f ← deref vm.fns[m.fn]?
    if argsc ≠ f.arity then
      vmu_error "Failed to call closure. Declared with other number of parameter(s)"
    let frame ← push_frame argsc
    modify_frame frame (fun fr => { fr with fn := some m.fn, closure := some closure })
  | _ => undefined_behaviour

/-! ## Captured values (vm.c, vmu.c) -/

/-- Read through an `OutValue *`. -/
def get_out (p : OutPtr) : Exec OutValue := fun vm =>
  match vm.heap[p.closure_obj]? with
  | some (.closure _ outs) =>
    match outs[p.idx]? with
    | some o => .ok o vm
    | none => .ub
  | _ => .ub

/-- Assignment to fields of an `OutValue` through a pointer. -/
def modify_out (p : OutPtr) (g : OutValue → OutValue) : Exec Unit := fun vm =>
  match vm.heap[p.closure_obj]? with
  | some (.closure mc outs) =>
    match outs[p.idx]? with
    | some o =>
      .ok () { vm with heap := vm.heap.set p.closure_obj (.closure mc (outs.set p.idx (g o))) }
    | none => .ub
  | _ => .ub

/-- `add_out_value_to_current_frame`. -/
def add_out_value_to_current_frame (value : OutPtr) : Exec Unit := do
  let (i, frame) ← current_frame
  match frame.outs_tail with
  | some tail =>
    modify_out tail (fun o => { o with next := some value })
    modify_out value (fun o => { o with prev := some tail })
  | none =>
    modify_frame i (fun fr => { fr with outs_head := some value })
  modify_frame i (fun fr => { fr with outs_tail := some value })

/-- `remove_value_from_current_frame`. -/
def remove_value_from_current_frame (value : OutPtr) : Exec Unit := do
  let (i, frame) ← current_frame
  let v ← get_out value
  if some value = frame.outs_head then
    modify_frame i (fun fr => { fr with outs_head := v.next })
  if some value = frame.outs_tail then
    modify_frame i (fun fr => { fr with outs_tail := v.prev })
  match v.prev with
  | some prev => modify_out prev (fun o => { o with next := v.next })
  | none => pure ()
  match v.next with
  | some next => modify_out next (fun o => { o with prev := v.prev })
  | none => pure ()

/-- `vmu_create_closure` (vmu.c): every `OutValue` starts unlinked, with
`at = -1` and a zero value. -/
def vmu_create_closure (mc : Nat) : Exec Nat := do
  let vm ← get_vm
  let m ← deref vm.metas[mc]?
  let closure_obj := vm.heap.length
  alloc_obj (.closure mc (List.replicate m.meta_out_values.length
    { linked := false, at_ := -1, value := Value.zero, prev := none, next := none,
      closure_obj := closure_obj }))

/-- The body of the loop of `init_closure` from index `i` on; `ats` are the
`at` fields of the remaining `MetaOutValue`s. The argument of `frame_local`
is a `uint8_t`. -/
def init_closure_loop (closure_obj : Nat) : List Int → Nat → Exec Unit
  | [], _ => pure ()
  | a :: ats, i => do
    let ptr ← frame_local (wrapU 8 a).toNat
    let v ← load ptr
    modify_out ⟨closure_obj, i⟩ (fun o =>
      { o with linked := true, at_ := a, value := v, prev := none, next := none })
    add_out_value_to_current_frame ⟨closure_obj, i⟩
    init_closure_loop closure_obj ats (i + 1)

/-- `init_closure`. -/
def init_closure (mc : Nat) : Exec Nat := do
  let closure_obj ← vmu_create_closure mc
  let vm ← get_vm
  let m ← deref vm.metas[mc]?
  init_closure_loop closure_obj m.meta_out_values 0
  pure closure_obj

/-- The search loop shared by `OP_OGET` and `OP_OSET`: the first index below
`len` whose `OutValue` has `at == index`. -/
def find_out (out_values : List OutValue) (len : Nat) (index : Nat) : Option Nat :=
  (List.range len).find? (fun i =>
    match out_values[i]? with
    | some o => o.at_ == (index : Int)
    | none => false)

/-! ## Opcodes -/

/-- Modelled from the spec: `opcode.h` is not among the sources. The opcodes
are those of the spec's catalogue, in its order, under the names the sources
use (`TRYO`, `TRYC` for `TRY_OPEN`, `TRY_CLOSE`); the byte of an opcode is its
position in this list. -/
inductive OpCode where
  | EMPTY | FALSE | TRUE | CINT | INT | FLOAT | STRING | STTE | WTTE | ETTE
  | ARRAY | LIST | DICT | RECORD | IARRAY | ILIST | IDICT | IRECORD | CONCAT
  | MULSTR | ADD | SUB | MUL | DIV | MOD | BNOT | LSH | RSH | BAND | BXOR | BOR
  | LT | GT | LE | GE | EQ | NE | OR | AND | NOT | NNOT | LSET | LGET | OSET
  | OGET | GDEF | GASET | GSET | GGET | NGET | SGET | ASET | RSET | POP | JMP
  | JIF | JIT | CALL | ACCESS | INDEX | RET | IS | TRYO | TRYC | THROW | HLT
deriving DecidableEq, Repr

/-- The byte of an opcode. -/
def OpCode.byte (op : OpCode) : Nat := op.toCtorIdx

/-- The opcode of a byte, if any. -/
def decode (chunk : Nat) : Option OpCode :=
  if chunk < 66 then some (OpCode.ofNat chunk) else none

/-! ## Instruction handlers of `execute` (vm.c)

Every handler returns `none` when the C code leaves the `switch` with `break`
and `some code` when it returns `code` from `execute`. -/

/-- Adds a signed jump value to `current_frame(vm)->ip` (a `size_t`). -/
def add_ip (jmp_value : Int) : Exec Unit := do
  let (i, frame) ← current_frame
  set_frame i { frame with ip := to_size_t ((frame.ip : Int) + jmp_value) }

def op_int : Exec (Option Nat) := do
  let i64 ← read_i64_const
  push (.int i64)
  pure none

def op_float : Exec (Option Nat) := do
  let value ← read_float_const
  push (.float value)
  pure none

def op_cint : Exec (Option Nat) := do
  let i64 ← advance
  push (.int i64)
  pure none

/-- `OP_ADD`; the sum of two ints wraps to 64 bits, and the cases with a
float operand are left out. -/
def op_add : Exec (Option Nat) := do
  let right_value ← pop
  let left_value ← pop
  match left_value, right_value with
  | .int left, .int right => do push (.int (wrapS 64 (left + right))); pure none
  | .float _, .float _ => not_modelled
  | .float _, .int _ => not_modelled
  | .int _, .float _ => not_modelled
  | _, _ => vmu_error "Unsuported types using + operator"

def op_or : Exec (Option Nat) := do
  let jmp_value ← read_i16
  let value ← peek
  match value with
  | .bool b =>
    if b then do add_ip jmp_value; pure none
    else do let _ ← pop; pure none
  | _ => vmu_error "Unsupported types using 'or' operator"

def op_and : Exec (Option Nat) := do
  let jmp_value ← read_i16
  let value ← peek
  match value with
  | .bool b =>
    if !b then do add_ip jmp_value; pure none
    else do let _ ← pop; pure none
  | _ => vmu_error "Unsupported types using 'and' operator"

def op_not : Exec (Option Nat) := do
  let value ← pop
  match value with
  | .bool b => do push (.bool (!b)); pure none
  | _ => vmu_error "Expect boolean at right side"

def op_lset : Exec (Option Nat) := do
  let value ← peek
  let index ← advance
  let ptr ← frame_local index
  store ptr value
  pure none

def op_lget : Exec (Option Nat) := do
  let index ← advance
  let ptr ← frame_local index
  let value ← load ptr
  push value
  pure none

/-- The closure of the current frame with its `MetaClosure`
(`VM_CURRENT_CLOSURE`, `closure->out_values`, `closure->meta`). -/
def current_closure : Exec (Nat × List OutValue × MetaClosure) := do
  let (_, frame) ← current_frame
  let c ← deref frame.closure
  let vm ← get_vm
  match vm.heap[c]? with
  | some (.closure mc outs) =>
    let m ← deref vm.metas[mc]?
    pure (c, outs, m)
  | _ => undefined_behaviour

def op_oset : Exec (Option Nat) := do
  let index ← advance
  let value ← peek
  let (c, out_values, m) ← current_closure
  match find_out out_values m.meta_out_values.length index with
  | some i => modify_out ⟨c, i⟩ (fun o => { o with value := value })
  | none => pure ()
  let _ ← pop
  pure none

def op_oget : Exec (Option Nat) := do
  let index ← advance
  let (_, out_values, m) ← current_closure
  match find_out out_values m.meta_out_values.length index with
  | some i =>
    let o ← deref out_values[i]?
    push o.value
  | none => pure ()
  pure none

/-- Assignment to the current module's globals table. -/
def set_globals (mi : Nat) (g : List (String × GlobalValue)) : Exec Unit := fun vm =>
  match vm.modules[mi]? with
  | some m => .ok () { vm with modules := vm.modules.set mi { m with globals := g } }
  | none => .ub

def op_gdef : Exec (Option Nat) := do
  let key ← read_str
  let value ← pop
  let (mi, m) ← current_module
  if (m.globals.lookup key).isSome then
    vmu_error "Cannot define global: already exists"
  set_globals mi (m.globals ++ [(key, { access := .PRIVATE, value := value })])
  pure none

def op_gset : Exec (Option Nat) := do
  let key ← read_str
  let value ← peek
  let (mi, m) ← current_module
  match m.globals.lookup key with
  | some gv =>
    set_globals mi (m.globals.map (fun kv =>
      if kv.1 = key then (kv.1, { gv with value := value }) else kv))
    pure none
  | none => vmu_error "Global does not exists"

/-- Pushes a module on the modules stack (`OP_GGET`, `OP_SGET`). -/
def push_module_stack (mi : Nat) : Exec Unit := fun vm =>
  match vm.modules[mi]? with
  | some m =>
    .ok () { vm with
      modules := vm.modules.set mi { m with prev := vm.modules_stack },
      modules_stack_len := vm.modules_stack_len + 1,
      modules_stack := some mi }
  | none => .ub

def op_gget : Exec (Option Nat) := do
  let key ← read_str
  let (_, m) ← current_module
  match m.globals.lookup key with
  | none => vmu_error "Global symbol does not exists"
  | some global_value =>
    let value := global_value.value
    let vm ← get_vm
    match value_obj vm value with
    | some (.module mi) =>
      let module ← deref vm.modules[mi]?
      if !module.resolved then
        let (i, frame) ← current_frame
        set_frame i { frame with ip := frame.last_offset }
        push_module_stack mi
        (fun vm1 => Res.longjmp 3 vm1)
      else do push value; pure none
    | _ => do push value; pure none

def op_sget : Exec (Option Nat) := do
  let index := to_size_t (← read_i32)
  let (_, module) ← current_module
  if index ≥ module.symbols.length then
    vmu_error "Failed to get module symbol: index out of bounds"
  let symbol ← deref module.symbols[index]?
  match symbol with
  | .FUNCTION fn =>
    let fn_obj ← vmu_create_fn fn
    push (.obj fn_obj)
    pure none
  | .CLOSURE meta_closure =>
    let closure_obj ← init_closure meta_closure
    push (.obj closure_obj)
    pure none
  | .NATIVE_MODULE _ => not_modelled
  | .MODULE mi =>
    let module_obj ← alloc_obj (.module mi)
    push (.obj module_obj)
    let vm ← get_vm
    let module ← deref vm.modules[mi]?
    if !module.resolved then
      push_module_stack mi
      (fun vm1 => Res.longjmp 3 vm1)
    else pure none

def op_jmp : Exec (Option Nat) := do
  let jmp_value ← read_i16
  add_ip jmp_value
  pure none

def op_jif : Exec (Option Nat) := do
  let jmp_value ← read_i16
  let value ← pop
  match value with
  | .bool b => do add_ip (if b then 0 else jmp_value); pure none
  | _ => vmu_error "Expect boolean as conditional value"

def op_jit : Exec (Option Nat) := do
  let jmp_value ← read_i16
  let value ← pop
  match value with
  | .bool b => do add_ip (if b then jmp_value else 0); pure none
  | _ => vmu_error "Expect boolean as conditional value"

/-- `OP_CALL`; the call of the raw native function is left out. -/
def op_call : Exec (Option Nat) := do
  let args_count ← advance
  let callable_value ← peek_at args_count
  match callable_value with
  | .obj ptr =>
    let vm ← get_vm
    let callable_obj ← deref vm.heap[ptr]?
    match callable_obj with
    | .native_fn arity _ _ =>
      if arity ≠ args_count then
        vmu_error "Failed to call native function. Declared with other number of parameter(s)"
      else not_modelled
    | .fn fn => do call_fn args_count fn; pure none
    | .closure _ _ => do call_closure args_count ptr; pure none
    | _ => vmu_error "Target is not callable"
  | _ => vmu_error "Target is not callable"

/-- The loop at the head of `OP_RET`,
`while(current_out) \x7b next_out = current_out->next; current_out->linked = 0;
remove_value_from_current_frame(current_out, vm); current_out = next_out; \x7d`,
bounded by `fuel` iterations. -/
def ret_close_loop : Nat → Option OutPtr → Exec Unit
  | _, none => pure ()
  | 0, some _ => pure ()
  | fuel + 1, some current_out => do
    let o ← get_out current_out
    let next_out := o.next
    modify_out current_out (fun o => { o with linked := false })
    remove_value_from_current_frame current_out
    ret_close_loop fuel next_out

/-- Marks the module on top of the modules stack resolved and pops it
(`OP_RET`). -/
def pop_module_stack : Exec Unit := fun vm =>
  match vm.modules_stack with
  | none => .ub
  | some mi =>
    match vm.modules[mi]? with
    | none => .ub
    | some m =>
      .ok () { vm with
        modules_stack_len := vm.modules_stack_len - 1,
        modules_stack := m.prev,
        modules := vm.modules.set mi { m with prev := none, resolved := true } }

/-- `OP_RET`. In the source `current_out` is initialised to `NULL`, which is
what the loop is started with here. -/
def op_ret : Exec (Option Nat) := do
  let vm0 ← get_vm
  ret_close_loop vm0.heap.length none
  let result_value ← pop
  let (_, frame) ← current_frame
  (fun vm => Res.ok () { vm with stack_top := frame.locals })
  pop_frame
  let vm ← get_vm
  if vm.modules_stack_len > 1 then
    pop_module_stack
    pure none
  else if vm.frame_ptr = 0 then
    pure (some vm.exit_code)
  else do
    push result_value
    pure none

def op_tryo : Exec (Option Nat) := do
  let catch_ip := to_size_t (← read_i16)
  let (i, _) ← current_frame
  (fun vm => Res.ok none { vm with
    exception_stack :=
      { catch_ip := catch_ip, throw_value := Value.zero, stack_top := vm.stack_top, frame := i }
        :: vm.exception_stack })

def op_tryc : Exec (Option Nat) := fun vm =>
  match vm.exception_stack with
  | _ :: prev => .ok none { vm with exception_stack := prev }
  | [] => vmu_internal_error "Exception stack is empty" vm

/-- The message lookup of `OP_THROW` for a thrown value: fails when the value
is a record whose `msg` attribute is not a string. -/
def throw_msg_of (raw_value : Value) : Exec (Option String) := do
  let vm ← get_vm
  match value_obj vm raw_value with
  | some (.str buff) => pure (some buff)
  | some (.record (some attrs)) =>
    match attrs.lookup "msg" with
    | some msg_value =>
      match value_obj vm msg_value with
      | some (.str buff) => pure (some buff)
      | _ => vmu_error "Expect record attribute 'msg' to be of type 'str'"
    | none => pure none
  | _ => pure none

def op_throw : Exec (Option Nat) := do
  let has_value ← advance
  let (raw_value, throw_msg) ← (do
    if has_value ≠ 0 then
      let raw_value ← pop
      let msg ← throw_msg_of raw_value
      pure (raw_value, msg)
    else pure (Value.zero, none) : Exec (Value × Option String))
  let vm ← get_vm
  match vm.exception_stack with
  | exception :: prev =>
    (fun vm1 => Res.longjmp 2
      { vm1 with exception_stack := { exception with throw_value := raw_value } :: prev })
  | [] => vmu_error (throw_msg.getD "")

/-! ## Tables (lzohtable.c) and strings (vmu.c) -/

/-- The bytes a `char *` string points to: its characters, one per byte,
followed by the terminating NUL. -/
def c_buffer (s : String) : List Char := s.data ++ [Char.ofNat 0]

/-- `lzohtable_lookup`: the entry whose key has `key_size` bytes, equal to the
first `key_size` bytes at `key`. -/
def lzohtable_lookup {α : Type} (key_size : Nat) (key : List Char)
    (table : List (List Char × α)) : Option α :=
  table.lookup (key.take key_size)

/-- `lzohtable_put_ck`: the value of an existing key is replaced
(`robin_hood_insert` returns 2), a new key gets an entry with a copy of the
key bytes. -/
def lzohtable_put_ck {α : Type} (key_size : Nat) (key : List Char) (value : α)
    (table : List (List Char × α)) : List (List Char × α) :=
  if (table.lookup (key.take key_size)).isSome then
    table.map (fun kv => if kv.1 = key.take key_size then (kv.1, value) else kv)
  else table ++ [(key.take key_size, value)]

/-- `LZOHTABLE_REMOVE`, that is `lzohtable_remove_help` without a clean-up
helper: the entry `robin_hood_lookup` finds for the key, if any, is removed. -/
def lzohtable_remove {α : Type} (key_size : Nat) (key : List Char)
    (table : List (List Char × α)) : List (List Char × α) :=
  table.eraseP (fun kv => kv.1 == key.take key_size)

/-- The key length of `vmu_create_str`,
`((((size_t)0) - (raw_str_len == 0)) & 1) | ((((size_t)0) - (raw_str_len > 0)) & raw_str_len)`. -/
def create_str_key_len (raw_str_len : Nat) : Nat :=
  (to_size_t (0 - (if raw_str_len = 0 then 1 else 0)) &&& 1) |||
    (to_size_t (0 - (if raw_str_len > 0 then 1 else 0)) &&& raw_str_len)

/-- `vmu_create_str`: the returned flag (1 when the string was in the intern
table) and the `StrObj`. The `runtime` flag of the object is not embedded. -/
def vmu_create_str (raw_str : String) : Exec (Nat × Nat) := do
  let len := create_str_key_len raw_str.length
  let vm ← get_vm
  match lzohtable_lookup len (c_buffer raw_str) vm.runtime_strs with
  | some str_obj => pure (1, str_obj)
  | none =>
    let str_obj ← alloc_obj (.str raw_str)
    (fun vm1 => Res.ok () { vm1 with
      runtime_strs := lzohtable_put_ck len (c_buffer raw_str) str_obj vm1.runtime_strs })
    pure (0, str_obj)

/-- `vmu_destroy_str` for a non-null `StrObj`: the entry of the intern table
for key `buff` with length `len` is removed. The release of the buffer and of
the object is not embedded. -/
def vmu_destroy_str (str_obj : Nat) : Exec Unit := do
  let vm ← get_vm
  match vm.heap[str_obj]? with
  | some (.str buff) =>
    set_vm { vm with
      runtime_strs := lzohtable_remove buff.length (c_buffer buff) vm.runtime_strs }
  | _ => undefined_behaviour

/-- The object pointer of an object value (`VALUE_TO_OBJ`). -/
def value_to_obj : Value → Exec Nat
  | .obj ptr => pure ptr
  | _ => undefined_behaviour

/-- The buffer of a `StrObj`. -/
def str_buff (str_obj : Nat) : Exec String := do
  let vm ← get_vm
  match vm.heap[str_obj]? with
  | some (.str buff) => pure buff
  | _ => undefined_behaviour

/-- `vmu_str_concat`. -/
def vmu_str_concat (a_str_obj b_str_obj : Nat) : Exec Nat := do
  let a_buff ← str_buff a_str_obj
  let b_buff ← str_buff b_str_obj
  let (_, new_str_obj) ← vmu_create_str (a_buff ++ b_buff)
  pure new_str_obj

/-- The items of a `ListObj`. -/
def list_items (list_obj : Nat) : Exec (List Value) := do
  let vm ← get_vm
  match vm.heap[list_obj]? with
  | some (.list items) => pure items
  | _ => undefined_behaviour

/-- `vmu_create_list`. -/
def vmu_create_list : Exec Nat := alloc_obj (.list [])

/-- `vmu_list_join`. -/
def vmu_list_join (a_list_obj b_list_obj : Nat) : Exec Nat := do
  let a_list ← list_items a_list_obj
  let b_list ← list_items b_list_obj
  alloc_obj (.list (a_list ++ b_list))

/-- `vmu_list_insert_new`. -/
def vmu_list_insert_new (value : Value) (list_obj : Nat) : Exec Nat := do
  let items ← list_items list_obj
  alloc_obj (.list (items ++ [value]))

/-- Modelled from the spec: `is_value_list` of `types_utils.h`. -/
def is_value_list (vm : VM) (v : Value) : Bool :=
  match value_obj vm v with
  | some (.list _) => true
  | _ => false

/-- Modelled from the spec: `is_value_array` of `types_utils.h`. -/
def is_value_array (vm : VM) (v : Value) : Bool :=
  match value_obj vm v with
  | some (.other .ARRAY_OBJ_TYPE) => true
  | _ => false

/-- Assignment to a heap object through its pointer. -/
def set_obj (ptr : Nat) (o : Obj) : Exec Unit := fun vm =>
  .ok () { vm with heap := vm.heap.set ptr o }

/-- `vmu_record_set_attr`. -/
def vmu_record_set_attr (key : String) (value : Value) (record_obj : Nat) : Exec Unit := do
  let vm ← get_vm
  match vm.heap[record_obj]? with
  | some (.record attrs) =>
    match attrs with
    | some table =>
      if (table.lookup key).isSome then
        set_obj record_obj (.record (some (table.map (fun kv =>
          if kv.1 = key then (kv.1, value) else kv))))
      else
        vmu_error ("Failed to update record: attribute '" ++ key ++ "' does not exist")
    | none => vmu_error ("Failed to update record: attribute '" ++ key ++ "' does not exist")
  | _ => undefined_behaviour

/-- `vmu_record_get_attr`. -/
def vmu_record_get_attr (key : String) (record_obj : Nat) : Exec Value := do
  let vm ← get_vm
  match vm.heap[record_obj]? with
  | some (.record attrs) =>
    match attrs.bind (fun table => table.lookup key) with
    | some out_value => pure out_value
    | none =>
      vmu_error ("Failed to get attribute: record does not contain attribute '" ++ key ++ "'")
  | _ => undefined_behaviour

/-! ## Further instruction handlers of `execute` (vm.c) -/

def op_string : Exec (Option Nat) := do
  let str ← read_str
  let (_, str_obj) ← vmu_create_str str
  push (.obj str_obj)
  pure none

def op_list : Exec (Option Nat) := do
  let list_obj ← vmu_create_list
  push (.obj list_obj)
  pure none

/-- `OP_CONCAT`; the branches that build an array are left out. -/
def op_concat : Exec (Option Nat) := do
  let right_value ← peek_at 0
  let left_value ← peek_at 1
  let vm ← get_vm
  if is_value_str vm left_value && is_value_str vm right_value then
    let left_str_obj ← value_to_obj left_value
    let right_str_obj ← value_to_obj right_value
    let result_str_obj ← vmu_str_concat left_str_obj right_str_obj
    let _ ← pop
    let _ ← pop
    push (.obj result_str_obj)
    pure none
  else if is_value_array vm left_value && is_value_array vm right_value then
    not_modelled
  else if is_value_list vm left_value && is_value_list vm right_value then
    let left_list_obj ← value_to_obj left_value
    let right_list_obj ← value_to_obj right_value
    let new_list_obj ← vmu_list_join left_list_obj right_list_obj
    let _ ← pop
    let _ ← pop
    push (.obj new_list_obj)
    pure none
  else if is_value_array vm left_value || is_value_array vm right_value then
    not_modelled
  else if is_value_list vm left_value || is_value_list vm right_value then
    let (list_value, raw_value) :=
      if is_value_list vm left_value then (left_value, right_value)
      else (right_value, left_value)
    let list_obj ← value_to_obj list_value
    let new_list_obj ← vmu_list_insert_new raw_value list_obj
    let _ ← pop
    let _ ← pop
    push (.obj new_list_obj)
    pure none
  else vmu_error "Illegal operands for concatenation"

/-- `OP_DIV`; the quotient of two ints is the `/` of `int64_t`, which
truncates toward zero and is undefined when it overflows (`INT64_MIN / -1`).
The cases with a float operand are left out. -/
def op_div : Exec (Option Nat) := do
  let right_value ← pop
  let left_value ← pop
  match left_value, right_value with
  | .int left, .int right => do
    if right = 0 then vmu_error "Division by zero is undefined"
    if left = -2 ^ 63 ∧ right = -1 then undefined_behaviour
    push (.int (Int.tdiv left right))
    pure none
  | .float _, .float _ => not_modelled
  | .float _, .int _ => not_modelled
  | .int _, .float _ => not_modelled
  | _, _ => vmu_error "Unsuported types using / operator"

/-- `OP_SUB`; the difference of two ints wraps to 64 bits, and the cases with a
float operand are left out. -/
def op_sub : Exec (Option Nat) := do
  let right_value ← pop
  let left_value ← pop
  match left_value, right_value with
  | .int left, .int right => do push (.int (wrapS 64 (left - right))); pure none
  | .float _, .float _ => not_modelled
  | .float _, .int _ => not_modelled
  | .int _, .float _ => not_modelled
  | _, _ => vmu_error "Unsuported types using - operator"

/-- `OP_MOD`; the remainder of two ints is the `%` of `int64_t`, whose sign is
that of the dividend and which is undefined for the divisor 0 and when the
quotient overflows (`INT64_MIN % -1`). The handler has no case for floats. -/
def op_mod : Exec (Option Nat) := do
  let right_value ← pop
  let left_value ← pop
  match left_value, right_value with
  | .int left, .int right => do
    if right = 0 then undefined_behaviour
    if left = -2 ^ 63 ∧ right = -1 then undefined_behaviour
    push (.int (Int.tmod left right))
    pure none
  | _, _ => vmu_error "Unsuported types using 'mod' operator"

/-- `OP_LT`; the cases with a float operand are left out. -/
def op_lt : Exec (Option Nat) := do
  let right_value ← pop
  let left_value ← pop
  match left_value, right_value with
  | .int left, .int right => do push (.bool (decide (left < right))); pure none
  | .float _, .float _ => not_modelled
  | .float _, .int _ => not_modelled
  | .int _, .float _ => not_modelled
  | _, _ => vmu_error "Unsuported types using < operator"

/-- `OP_GE`; the cases with a float operand are left out. -/
def op_ge : Exec (Option Nat) := do
  let right_value ← pop
  let left_value ← pop
  match left_value, right_value with
  | .int left, .int right => do push (.bool (decide (left ≥ right))); pure none
  | .float _, .float _ => not_modelled
  | .float _, .int _ => not_modelled
  | .int _, .float _ => not_modelled
  | _, _ => vmu_error "Unsuported types using >= operator"

/-- The comparison shared by `OP_EQ` and `OP_NE`: `some b` when the handler
compares the operands and `b` says they are equal. Strings are compared as
pointers. The cases with a float operand are left out. -/
def eq_operands (op : String) (left_value right_value : Value) : Exec Bool := do
  let vm ← get_vm
  match left_value, right_value with
  | .bool left, .bool right => pure (left == right)
  | .int left, .int right => pure (left == right)
  | .float _, .float _ => not_modelled
  | .float _, .int _ => not_modelled
  | .int _, .float _ => not_modelled
  | _, _ =>
    if is_value_str vm left_value && is_value_str vm right_value then
      let left ← value_to_obj left_value
      let right ← value_to_obj right_value
      pure (left == right)
    else vmu_error ("Unsuported types using " ++ op ++ " operator")

def op_eq : Exec (Option Nat) := do
  let right_value ← pop
  let left_value ← pop
  let b ← eq_operands "==" left_value right_value
  push (.bool b)
  pure none

def op_ne : Exec (Option Nat) := do
  let right_value ← pop
  let left_value ← pop
  let b ← eq_operands "!=" left_value right_value
  push (.bool (!b))
  pure none

/-- The `switch` of `OP_ASET` on the type of the target object; the
assignments to arrays, lists and dicts are left out after their checks of the
index. -/
def aset_obj (target : Nat) (idx_value value : Value) : Exec Unit := do
  let vm ← get_vm
  let target_obj ← deref vm.heap[target]?
  match target_obj with
  | .other .ARRAY_OBJ_TYPE =>
    match idx_value with
    | .int _ => not_modelled
    | _ => vmu_error "Expect index value of type 'int'"
  | .list _ =>
    match idx_value with
    | .int _ => not_modelled
    | _ => vmu_error "Expect index value of type 'int'"
  | .other .DICT_OBJ_TYPE => not_modelled
  | .nbarray bytes =>
    match idx_value with
    | .int idx =>
      match value with
      | .int assing_value =>
        if idx < 0 ∨ to_size_t idx ≥ bytes.length then vmu_error "Index out of bounds"
        set_obj target (.nbarray (bytes.set (to_size_t idx) (wrapU 8 assing_value).toNat))
      | _ => vmu_error "Expect assignment value of type 'int'"
    | _ => vmu_error "Expect index value of type 'int'"
  | _ => vmu_error "Illegal assignment target"

/-- `OP_ASET`. -/
def op_aset : Exec (Option Nat) := do
  let indexable_value ← peek_at 0
  let idx_value ← peek_at 1
  let value ← peek_at 2
  match indexable_value with
  | .obj target => aset_obj target idx_value value
  | _ => vmu_error "Illegal assignment target, expect: array, list, dict, nbarray"
  let _ ← pop
  let _ ← pop
  pure none

def op_rset : Exec (Option Nat) := do
  let key ← read_str
  let target_value ← pop
  let raw_value ← peek
  let vm ← get_vm
  if !is_value_record vm target_value then vmu_error "Expect record in assignment"
  let record_obj ← value_to_obj target_value
  vmu_record_set_attr key raw_value record_obj
  pure none

/-- `OP_ACCESS`; the lookups of native functions on strings, arrays, lists and
dicts and the access to native modules are left out. -/
def op_access : Exec (Option Nat) := do
  let target_value ← peek
  match target_value with
  | .obj target =>
    let key ← read_str
    let vm ← get_vm
    let target_obj ← deref vm.heap[target]?
    match target_obj with
    | .str _ => not_modelled
    | .other .ARRAY_OBJ_TYPE => not_modelled
    | .list _ => not_modelled
    | .other .DICT_OBJ_TYPE => not_modelled
    | .record _ =>
      let out_value ← vmu_record_get_attr key target
      let _ ← pop
      push out_value
      pure none
    | .other .NATIVE_MODULE_OBJ_TYPE => not_modelled
    | .module mi =>
      let module ← deref vm.modules[mi]?
      match module.globals.lookup key with
      | none => vmu_error ("Module '" ++ module.name ++ "' do not have '" ++ key ++ "' symbol")
      | some global_value =>
        if global_value.access = .PRIVATE then
          vmu_error ("Symbol '" ++ key ++ "' in module '" ++ module.name ++ "' is private")
        let _ ← pop
        push global_value.value
        pure none
    | _ => vmu_error "Illegal access target"
  | _ => vmu_error "Expect object as target of access"

/-- Modelled from the spec: `is_value_native_module` of `types_utils.h`. -/
def is_value_native_module (vm : VM) (v : Value) : Bool :=
  match value_obj vm v with
  | some (.other .NATIVE_MODULE_OBJ_TYPE) => true
  | _ => false

/-- A new access for the global `key` of a globals table
(`global_value->access = ...` through the pointer the lookup gave). -/
def set_access (key : String) (access : GlobalAccess)
    (globals : List (String × GlobalValue)) : List (String × GlobalValue) :=
  globals.map (fun kv => if kv.1 = key then (kv.1, { kv.2 with access := access }) else kv)

/-- `OP_GASET`; the messages are kept without the number of an illegal access
type. -/
def op_gaset : Exec (Option Nat) := do
  let (mi, module) ← current_module
  let key ← read_str
  match module.globals.lookup key with
  | none => vmu_error ("Global symbol '" ++ key ++ "' does not exists")
  | some global_value =>
    let value := global_value.value
    let access_type ← advance
    let vm ← get_vm
    if is_value_native_module vm value || is_value_module vm value then
      vmu_error "Modules cannot modify its access"
    if access_type = 0 then set_globals mi (set_access key .PRIVATE module.globals)
    else if access_type = 1 then set_globals mi (set_access key .PUBLIC module.globals)
    else vmu_error "Illegal access type"
    pure none

/-- `OP_IS`. -/
def op_is : Exec (Option Nat) := do
  let value ← pop
  let type ← advance
  match value with
  | .obj ptr =>
    let vm ← get_vm
    let obj ← deref vm.heap[ptr]?
    match obj.type with
    | .STR_OBJ_TYPE => push (.bool (type == 4))
    | .ARRAY_OBJ_TYPE => push (.bool (type == 5))
    | .LIST_OBJ_TYPE => push (.bool (type == 6))
    | .DICT_OBJ_TYPE => push (.bool (type == 7))
    | .RECORD_OBJ_TYPE => push (.bool (type == 8))
    | .NATIVE_FN_OBJ_TYPE => push (.bool (type == 9))
    | .FN_OBJ_TYPE => push (.bool (type == 9))
    | .CLOSURE_OBJ_TYPE => push (.bool (type == 9))
    | _ => vmu_internal_error "Illegal object type"
  | .empty => push (.bool (type == 0))
  | .bool _ => push (.bool (type == 1))
  | .int _ => push (.bool (type == 2))
  | .float _ => push (.bool (type == 3))
  pure none

/-- The `switch` of `execute` on a fetched chunk. A chunk that is no opcode
falls to `default`, whose `assert` of a string literal does nothing. -/
def dispatch (chunk : Nat) : Exec (Option Nat) :=
  match decode chunk with
  | none => pure none
  | some .EMPTY => do push .empty; pure none
  | some .FALSE => do push (.bool false); pure none
  | some .TRUE => do push (.bool true); pure none
  | some .CINT => op_cint
  | some .INT => op_int
  | some .FLOAT => op_float
  | some .ADD => op_add
  | some .OR => op_or
  | some .AND => op_and
  | some .NOT => op_not
  | some .LSET => op_lset
  | some .LGET => op_lget
  | some .OSET => op_oset
  | some .OGET => op_oget
  | some .GDEF => op_gdef
  | some .GSET => op_gset
  | some .GGET => op_gget
  | some .SGET => op_sget
  | some .POP => do let _ ← pop; pure none
  | some .JMP => op_jmp
  | some .JIF => op_jif
  | some .JIT => op_jit
  | some .CALL => op_call
  | some .RET => op_ret
  | some .TRYO => op_tryo
  | some .TRYC => op_tryc
  | some .THROW => op_throw
  | some .HLT => pure (some 0)
  | some .STRING => op_string
  | some .LIST => op_list
  | some .CONCAT => op_concat
  | some .DIV => op_div
  | some .SUB => op_sub
  | some .MOD => op_mod
  | some .LT => op_lt
  | some .GE => op_ge
  | some .EQ => op_eq
  | some .NE => op_ne
  | some .ASET => op_aset
  | some .RSET => op_rset
  | some .ACCESS => op_access
  | some .GASET => op_gaset
  | some .IS => op_is
  | some _ => not_modelled

/-- One turn of the loop of `execute`. -/
def execute_one : Exec (Option Nat) := do
  let chunk ← advance_save
  dispatch chunk

/-! ## The dispatcher entry `vm_execute` -/

/-- What one turn of the dispatch loop leads to: the loop goes on, `vm_execute`
returns an exit code, the C code has undefined behaviour, or the instruction
is not embedded. -/
inductive Outcome where
  | running (vm : VM)
  | halted (code : Nat) (vm : VM)
  | ub
  | unmodelled

/-- `get_symbol` for `FUNCTION_SUBMODULE_SYM_TYPE`. -/
def get_symbol_fn (index : Nat) (module : Nat) : Exec Nat := do
  let vm ← get_vm
  let m ← deref vm.modules[module]?
  if index ≥ m.symbols.length then
    vmu_error "Failed to get module symbol: index out of bounds"
  let symbol ← deref m.symbols[index]?
  match symbol with
  | .FUNCTION fn => pure fn
  | _ => vmu_error "Failed to get module symbol: mismatch types"

/-- `case 2` of `vm_execute`, up to the call of `execute`: the landing of a
throw. -/
def land_throw : Exec Unit := do
  let vm ← get_vm
  match vm.exception_stack with
  | [] => undefined_behaviour
  | exception :: prev =>
    let throw_value := exception.throw_value
    let frame := exception.frame
    modify_frame frame (fun fr => { fr with ip := exception.catch_ip })
    (fun vm1 => Res.ok () { vm1 with
      stack_top := exception.stack_top,
      frame_ptr := frame + 1,
      exception_stack := prev })
    push throw_value

/-- `case 3` of `vm_execute`, up to the call of `execute`: the entry function
of the module on top of the modules stack is called. -/
def land_import : Exec Unit := do
  let vm ← get_vm
  let module ← deref vm.modules_stack
  let import_fn ← get_symbol_fn 0 module
  let _ ← push_fn import_fn
  call_fn 0 import_fn

/-- `case 0` of `vm_execute`, up to the call of `execute`. -/
def vm_start (module : Nat) : Exec Unit := do
  let vm ← get_vm
  let m ← deref vm.modules[module]?
  set_vm { vm with
    modules := vm.modules.set module { m with resolved := true },
    exit_code := OK_VMRESULT,
    stack_top := 0,
    frame_ptr := 0,
    modules_stack_len := 1,
    modules_stack := some module }
  let _ ← push_fn m.entry_fn
  call_fn 0 m.entry_fn

/-- The outcome of code that runs in `vm_execute` before `execute` is entered
again; an error in it jumps back to `case 1`. -/
def landed (r : Res Unit) : Outcome :=
  match r with
  | .ok _ vm => .running vm
  | .longjmp 1 vm => .halted vm.exit_code vm
  | .longjmp _ _ => .ub
  | .ub => .ub
  | .unmodelled => .unmodelled

/-- The `switch` of `vm_execute` on the value `setjmp` returns after a
`longjmp`. -/
def after_longjmp (val : Nat) (vm : VM) : Outcome :=
  match val with
  | 1 => .halted vm.exit_code vm
  | 2 => landed (land_throw vm)
  | 3 => landed (land_import vm)
  | _ => .ub

/-- One instruction: a turn of the loop of `execute`, followed, when the
handler jumped to `vm->exit_jmp`, by the matching case of `vm_execute`. -/
def step (vm : VM) : Outcome :=
  match execute_one vm with
  | .ok none vm1 => .running vm1
  | .ok (some code) vm1 => .halted code vm1
  | .longjmp val vm1 => after_longjmp val vm1
  | .ub => .ub
  | .unmodelled => .unmodelled

/-- At most `n` instructions from a state. -/
def run : Nat → VM → Outcome
  | 0, vm => .running vm
  | n + 1, vm =>
    match step vm with
    | .running vm1 => run n vm1
    | o => o

/-- `vm_execute` with at most `n` instructions. -/
def vm_execute (n : Nat) (module : Nat) (vm : VM) : Outcome :=
  match landed (vm_start module vm) with
  | .running vm1 => run n vm1
  | o => o

/-! ## Vocabulary for statements about the VM -/

/-- The current frame. -/
def VM.frame (vm : VM) : Frame := vm.frame_stack (vm.frame_ptr - 1)

/-- The state with the `ip` of the current frame replaced. -/
def VM.set_ip (vm : VM) (ip : Nat) : VM :=
  { vm with
    frame_stack := Function.update vm.frame_stack (vm.frame_ptr - 1) { vm.frame with ip := ip } }

/-- The state with the current frame replaced. -/
def VM.with_frame (vm : VM) (f : Frame) : VM :=
  { vm with frame_stack := Function.update vm.frame_stack (vm.frame_ptr - 1) f }

/-- The state after `advance_save` fetched the chunk at `ip`. -/
def VM.fetched (vm : VM) : VM :=
  vm.with_frame { vm.frame with ip := vm.frame.ip + 1, last_offset := vm.frame.ip }

/-- The current frame exists and runs function `f` of the state. -/
def VM.runs (vm : VM) (f : Fn) : Prop :=
  vm.frame_ptr ≠ 0 ∧ ∃ fi, vm.frame.fn = some fi ∧ vm.fns[fi]? = some f

/-- The chunk at the `ip` of the current frame is opcode `op`, followed by
the operand bytes `operands`. -/
def VM.at_op (vm : VM) (f : Fn) (op : OpCode) (operands : List Nat) : Prop :=
  vm.runs f ∧ ∃ chunk, f.chunks[vm.frame.ip]? = some chunk ∧ decode chunk = some op ∧
    ∀ i (h : i < operands.length), f.chunks[vm.frame.ip + 1 + i]? = some (operands.get ⟨i, h⟩)

/-- The callee of a `CALL`: the object at `ptr` is a function object of `Fn`
`gi` (then the frame gets no closure), or a closure whose `MetaClosure` names
`gi` (then the frame's closure is that object). -/
def VM.callee (vm : VM) (ptr gi : Nat) (clo : Option Nat) : Prop :=
  (vm.heap[ptr]? = some (.fn gi) ∧ clo = none) ∨
  (∃ mc outs m, vm.heap[ptr]? = some (.closure mc outs) ∧ vm.metas[mc]? = some m ∧
    m.fn = gi ∧ clo = some ptr)

/-- The outcome is a runtime error: `vm_execute` returns `ERR_VMRESULT`. -/
def Outcome.is_error : Outcome → Prop
  | .halted code _ => code = ERR_VMRESULT
  | _ => False

instance (o : Outcome) : Decidable o.is_error :=
  match o with
  | .halted code _ => inferInstanceAs (Decidable (code = ERR_VMRESULT))
  | .running _ => isFalse (fun h => h)
  | .ub => isFalse (fun h => h)
  | .unmodelled => isFalse (fun h => h)

/-! ## The compiler's unit and emitter (compiler.c)

A `Unit` owns the function being emitted, its label table, the pending jumps
and marks, and the stacks of loops and blocks, innermost first (`loops` holds
the `id` of every `Loop`). The label table, an `LZOHTable` keyed by the
formatted name, is a list of pairs searched by name. Source locations are left
out: they play no part in the emitted chunks. -/


namespace compiler

structure Label where
  offset : Nat
  name : String
deriving DecidableEq, Repr

structure Jmp where
  update_offset : Nat
  jump_offset : Nat
  label_name : String
deriving DecidableEq, Repr

structure Mark where
  update_offset : Nat
  label_name : String
deriving DecidableEq, Repr

/-- `Block`: the number of statements of a block and the cursor into them. -/
structure Block where
  stmts_len : Nat
  current_stmt : Nat
deriving DecidableEq, Repr

structure Unit where
  counter : Int
  labels : List (String × Label)
  jmps : List Jmp
  marks : List Mark
  fn : Fn
  loops : List Int := []
  blocks : List Block := []
deriving DecidableEq, Repr

/-- The compiler state the emitter uses: the stack of units (its head is the
current unit) and the static strings of the module being compiled. -/
structure Compiler where
  units_stack : List Unit
  strings : List String
deriving DecidableEq, Repr

/-- Result of compiler code: completion, an abort through `error` or
`internal_error` (`longjmp(compiler->buf, 1)`), or undefined behaviour. -/
inductive CRes (α : Type) where
  | ok (a : α) (c : Compiler)
  | error (msg : String)
  | ub

abbrev Comp (α : Type) := Compiler → CRes α

def Comp.bind {α β : Type} (m : Comp α) (f : α → Comp β) : Comp β := fun c =>
  match m c with
  | .ok a c1 => f a c1
  | .error msg => .error msg
  | .ub => .ub

instance : Monad Comp where
  pure a := fun c => .ok a c
  bind := Comp.bind

/-- `internal_error`. -/
def internal_error {α : Type} (msg : String) : Comp α := fun _ => .error msg

/-- `current_unit`. -/
def current_unit : Comp Unit := fun c =>
  match c.units_stack with
  | u :: _ => .ok u c
  | [] => .ub

/-- Assignment through the pointer to the current unit. -/
def set_unit (u : Unit) : Comp PUnit := fun c =>
  match c.units_stack with
  | _ :: rest => .ok ⟨⟩ { c with units_stack := u :: rest }
  | [] => .ub

/-- `generate_id`. -/
def generate_id : Comp Int := do
  let u ← current_unit
  set_unit { u with counter := wrapS 32 (u.counter + 1) }
  pure u.counter

/-- `chunks_len`. -/
def chunks_len : Comp Nat := do
  let u ← current_unit
  pure u.fn.chunks.length

/-- `dynarr_insert` on the current chunks. -/
def insert_chunk (chunk : Nat) : Comp PUnit := do
  let u ← current_unit
  set_unit { u with fn := { u.fn with chunks := u.fn.chunks ++ [chunk] } }

/-- `write_chunk`; the parameter is a `uint8_t`. -/
def write_chunk (chunk : Nat) : Comp Nat := do
  insert_chunk (chunk % 256)
  let len ← chunks_len
  pure (len - 1)

/-- `write_i16`. -/
def write_i16 (value : Int) : Comp Nat := do
  match descompose_i16 value with
  | [b0, b1] =>
    insert_chunk b0
    insert_chunk b1
    let len ← chunks_len
    pure (len - 2)
  | _ => fun _ => .ub

/-- `write_i32`. -/
def write_i32 (value : Int) : Comp Nat := do
  match descompose_i32 value with
  | [b0, b1, b2, b3] =>
    insert_chunk b0
    insert_chunk b1
    insert_chunk b2
    insert_chunk b3
    let len ← chunks_len
    pure (len - 4)
  | _ => fun _ => .ub

/-- `write_iconst`: the index is passed as `(int16_t)(dynarr_len(iconsts) - 1)`. -/
def write_iconst (value : Int) : Comp Nat := do
  let u ← current_unit
  if u.fn.iconsts.length ≥ UINT16_MAX then
    internal_error "Number of constants exceeded in procedure"
  set_unit { u with fn := { u.fn with iconsts := u.fn.iconsts ++ [value] } }
  write_i16 (wrapS 16 (((u.fn.iconsts ++ [value]).length : Int) - 1))

/-- `write_fconst`. -/
def write_fconst (value : Nat) : Comp Nat := do
  let u ← current_unit
  if u.fn.fconsts.length ≥ UINT16_MAX then
    internal_error "Number of constants exceeded in procedure"
  set_unit { u with fn := { u.fn with fconsts := u.fn.fconsts ++ [value] } }
  write_i16 (wrapS 16 (((u.fn.fconsts ++ [value]).length : Int) - 1))

/-- `update_i16`: the `uint16_t` value is handed to `descompose_i16`, whose
parameter is an `int16_t`. Writes past the end of the chunks are dropped. -/
def update_i16 (offset : Nat) (value : Int) : Comp PUnit := do
  let u ← current_unit
  if offset ≥ u.fn.chunks.length then
    internal_error "Index out of bounds while updating chunks in procedure"
  match descompose_i16 (wrapS 16 value) with
  | [b0, b1] =>
    set_unit { u with fn := { u.fn with
      chunks := (u.fn.chunks.set offset b0).set (offset + 1) b1 } }
  | _ => fun _ => .ub

/-- `write_str`: the guard `if(static_strs_len >= UINT16_MAX)` has an empty
body; the index is passed as `(int16_t)static_strs_len`. -/
def write_str (raw_str : String) : Comp PUnit := fun c =>
  let static_strs_len := c.strings.length
  match write_i16 (wrapS 16 static_strs_len) { c with strings := c.strings ++ [raw_str] } with
  | .ok _ c1 => .ok ⟨⟩ c1
  | .error msg => .error msg
  | .ub => .ub

/-- `label`, with the name already formatted. -/
def label (name : String) : Comp PUnit := do
  let u ← current_unit
  let offset ← chunks_len
  if (u.labels.lookup name).isSome then
    internal_error "Already exists label in current unit"
  set_unit { u with labels := u.labels ++ [(name, { offset := offset, name := name })] }

/-- `mark`, with the name already formatted. -/
def mark (name : String) : Comp PUnit := do
  let update_offset ← write_i16 0
  let u ← current_unit
  set_unit { u with marks := u.marks ++ [{ update_offset := update_offset, label_name := name }] }

/-- The common body of `jmp`, `jif`, `jit`, `or` and `and`, which differ in
the opcode only. -/
def jmp_like (op : OpCode) (name : String) : Comp PUnit := do
  let _ ← write_chunk op.byte
  let update_offset ← write_i16 0
  let jmp_offset ← chunks_len
  let u ← current_unit
  set_unit { u with jmps := u.jmps ++
    [{ update_offset := update_offset, jump_offset := jmp_offset, label_name := name }] }

def jmp (name : String) : Comp PUnit := jmp_like .JMP name
def jif (name : String) : Comp PUnit := jmp_like .JIF name
def jit (name : String) : Comp PUnit := jmp_like .JIT name
def or (name : String) : Comp PUnit := jmp_like .OR name
def and (name : String) : Comp PUnit := jmp_like .AND name

/-- `create_unit`: a unit with no labels, jumps, marks, loops or blocks around
the function. -/
def create_unit (fn : Fn) : Unit :=
  { counter := 0, labels := [], jmps := [], marks := [], fn := fn, loops := [], blocks := [] }

/-- `push_unit`. -/
def push_unit (fn : Fn) : Comp PUnit := fun c =>
  .ok ⟨⟩ { c with units_stack := create_unit fn :: c.units_stack }

/-- The first loop of `pop_unit`: every pending jump is patched with
`(uint16_t)(label->offset - jmp->jump_offset)`, a `size_t` difference. -/
def resolve_jmps (labels : List (String × Label)) : List Jmp → Comp PUnit
  | [] => pure ⟨⟩
  | j :: js => do
    match labels.lookup j.label_name with
    | none => internal_error "Unknown label"
    | some l =>
      let jmp_value := to_size_t ((l.offset : Int) - j.jump_offset)
      update_i16 j.update_offset (wrapU 16 jmp_value)
      resolve_jmps labels js

/-- The second loop of `pop_unit`: every mark is patched with
`(uint16_t)label->offset`. -/
def resolve_marks (labels : List (String × Label)) : List Mark → Comp PUnit
  | [] => pure ⟨⟩
  | m :: ms => do
    match labels.lookup m.label_name with
    | none => internal_error "Unknown label"
    | some l =>
      update_i16 m.update_offset (wrapU 16 l.offset)
      resolve_marks labels ms

/-- `pop_unit`. -/
def pop_unit : Comp Fn := do
  let unit ← current_unit
  resolve_jmps unit.labels unit.jmps
  resolve_marks unit.labels unit.marks
  let u ← current_unit
  (fun c => CRes.ok u.fn { c with units_stack := c.units_stack.tail })

/-- `write_chunk` for every chunk of a list, in order. -/
def write_chunks : List Nat → Comp PUnit
  | [] => pure ⟨⟩
  | b :: bs => do
    let _ ← write_chunk b
    write_chunks bs

/-- The compiler state with chunks appended to the current function. -/
def Compiler.emit (c : Compiler) (bytes : List Nat) : Compiler :=
  match c.units_stack with
  | u :: rest =>
    { c with units_stack := { u with fn := { u.fn with chunks := u.fn.chunks ++ bytes } } :: rest }
  | [] => c

/-- The chunks of the current function. -/
def Compiler.chunks (c : Compiler) : List Nat :=
  match c.units_stack with
  | u :: _ => u.fn.chunks
  | [] => []

end compiler

/-! ## Statement compilation: a fragment (compiler.c)

Expression statements, declarations, `throw`, `try`/`catch`, blocks, `export`,
`return`, `continue` and `for x upto|downto e`, over literals, local
identifiers, logical expressions and `is`, inside a procedure, inside an
anonymous function or at the top of a module. The scope manager is not among
the sources; it is threaded through as a value. Source locations are left
out. -/

namespace compiler

inductive ScopeType where
  | GLOBAL | FN | BLOCK | TRY | CATCH | WHILE | FOR
deriving DecidableEq, Repr

/-- Modelled from the spec: a scope of `scope_manager/scope.h`, which is not
among the sources: its kind, the locals declared in it (in order) and its
`returned` flag. -/
structure LocalScope where
  type : ScopeType
  locals : List String
  returned : Bool
deriving DecidableEq, Repr

/-- Modelled from the spec: the scope manager, a stack of scopes with the
innermost scope first. -/
abbrev ScopeManager := List LocalScope

/-- Modelled from the spec: `scope_manager_push`. -/
def scope_manager_push (type : ScopeType) (m : ScopeManager) : ScopeManager :=
  { type := type, locals := [], returned := false } :: m

/-- Modelled from the spec: `scope_manager_pop`. -/
def scope_manager_pop (m : ScopeManager) : ScopeManager := m.tail

/-- Modelled from the spec: `scope_manager_locals_count`, the number of locals
declared in the innermost scope ("one `POP` per local declared within"). -/
def scope_manager_locals_count (m : ScopeManager) : Nat :=
  match m with
  | s :: _ => s.locals.length
  | [] => 0

/-- Modelled from the spec: `LOCAL_SCOPE_LOCALS_COUNT`. -/
def LOCAL_SCOPE_LOCALS_COUNT (s : LocalScope) : Nat := s.locals.length

/-- Modelled from the spec: the locals of the current function, outermost
first: a function scope opens a fresh local window. -/
def function_locals : ScopeManager → List String
  | [] => []
  | s :: rest =>
    match s.type with
    | .FN => s.locals
    | .GLOBAL => []
    | _ => function_locals rest ++ s.locals

/-- Modelled from the spec: `scope_manager_define_local`; the definition fails
when the innermost scope already has the name. -/
def scope_manager_define_local (name : String) (m : ScopeManager) : Comp ScopeManager :=
  match m with
  | s :: rest =>
    if name ∈ s.locals then fun _ => .error "Already exists symbol"
    else pure ({ s with locals := s.locals ++ [name] } :: rest)
  | [] => fun _ => .ub

/-- Modelled from the spec: the frame-local offset of a local of the current
function, the dense index of its innermost declaration. -/
def local_offset (name : String) (m : ScopeManager) : Option Nat :=
  let ls := function_locals m
  match ls.reverse.indexOf? name with
  | some i => some (ls.length - 1 - i)
  | none => none

/-- `error`. -/
def error {α : Type} (msg : String) : Comp α := fun _ => .error msg

/-- The operator of a logical expression. -/
inductive LogicalOp where
  | OR | AND
deriving DecidableEq, Repr

/-- The type keyword of an `is` expression. -/
inductive TypeKeyword where
  | EMPTY | BOOL | INT | FLOAT | STR | ARRAY | LIST | DICT | RECORD | PROC
deriving DecidableEq, Repr

/-- The chunk `compile_expr` writes after `OP_IS` for a type keyword. -/
def TypeKeyword.tag : TypeKeyword → Nat
  | .EMPTY => 0
  | .BOOL => 1
  | .INT => 2
  | .FLOAT => 3
  | .STR => 4
  | .ARRAY => 5
  | .LIST => 6
  | .DICT => 7
  | .RECORD => 8
  | .PROC => 9

/-- Expressions of the fragment: the literals `empty`, `true`/`false`, an
integer, an identifier that names a local of the current function, the
logical expressions `left or right` and `left and right`, and `left is T`. -/
inductive Expr where
  | EMPTY
  | BOOL (value : Bool)
  | INT (value : Int)
  | IDENTIFIER (name : String)
  | LOGICAL (left : Expr) (operator : LogicalOp) (right : Expr)
  | IS (left_expr : Expr) (type_token : TypeKeyword)
deriving Repr

/-- Statements of the fragment. `try_stmts` and `catch_stmts` are null or a
list of statements, as in `TryStmt`; so are the `stmts` of a block. A
declaration is an immutable one (`let`), initialised when it has an
initial value. `EXPORT` lists the exported names. `RETURN` has the returned
expression or null. `FOR_RANGE` has the name of the induction variable, the
initial expression, whether the keyword is `upto` (else `downto`), the bound
and the statements of the body. -/
inductive Stmt where
  | EXPR (expr : Expr)
  | VAR_DECL (name : String) (initial_value_expr : Option Expr)
  | THROW (value_expr : Option Expr)
  | TRY (try_stmts : Option (List Stmt)) (catch_stmts : Option (List Stmt))
  | BLOCK (stmts : Option (List Stmt))
  | EXPORT (symbols : List String)
  | RETURN (ret_expr : Option Expr)
  | CONTINUE
  | FOR_RANGE (symbol : String) (left_expr : Expr) (upto : Bool) (right_expr : Expr)
      (stmts : List Stmt)
deriving Repr

/-- `compile_expr` on the fragment. -/
def compile_expr : Expr → ScopeManager → Comp PUnit
  | .EMPTY, _ => do let _ ← write_chunk OpCode.EMPTY.byte
  | .BOOL value, _ => do
    let _ ← write_chunk (if value then OpCode.TRUE.byte else OpCode.FALSE.byte)
  | .INT value, _ => do
    let _ ← write_chunk OpCode.INT.byte
    let _ ← write_iconst value
  | .IDENTIFIER name, m =>
    match local_offset name m with
    | some offset => do
      let _ ← write_chunk OpCode.LGET.byte
      let _ ← write_chunk offset
    | none => error "Symbol not found"
  | .LOGICAL left operator right, m => do
    compile_expr left m
    match operator with
    | .OR => do
      let id ← generate_id
      or s!"OR_END_{id}"
      compile_expr right m
      label s!"OR_END_{id}"
    | .AND => do
      let id ← generate_id
      and s!"AND_END_{id}"
      compile_expr right m
      label s!"AND_END_{id}"
  | .IS left_expr type_token, m => do
    compile_expr left_expr m
    let _ ← write_chunk OpCode.IS.byte
    let _ ← write_chunk type_token.tag

/-- `pop_locals`: one `POP` per local of the innermost scope. -/
def pop_locals (m : ScopeManager) : Comp PUnit :=
  write_chunks (List.replicate (scope_manager_locals_count m) OpCode.POP.byte)

/-- `pop_scope_locals`: one `POP` per local of the given scope. -/
def pop_scope_locals (scope : LocalScope) : Comp PUnit :=
  write_chunks (List.replicate (LOCAL_SCOPE_LOCALS_COUNT scope) OpCode.POP.byte)

/-- The innermost scope was marked as returned. -/
def scope_returned (m : ScopeManager) : Bool :=
  match m with
  | s :: _ => s.returned
  | [] => false

/-- `propagate_return` on the scopes that enclose the given one (`scope->prev`
onwards): every enclosing block scope met first is marked as returned, and
then the scope the walk stops at, when it is a local one. Modelled from the
spec: `IS_BLOCK_SCOPE` and `IS_LOCAL_SCOPE` of `scope_manager/scope.h`, which
is not among the sources, are taken as "the scope's kind is block" and "the
scope is not the global one". -/
def propagate_return : ScopeManager → ScopeManager
  | [] => []
  | s :: rest =>
    if s.type = .BLOCK then { s with returned := true } :: propagate_return rest
    else if s.type ≠ .GLOBAL then { s with returned := true } :: rest
    else s :: rest

/-- Modelled from the spec: `scope_manager_define_global`; the names defined in
the global scope are kept in its `locals`, and the definition fails when the
name is already there. -/
def scope_manager_define_global (name : String) (m : ScopeManager) : Comp ScopeManager :=
  match m with
  | s :: rest =>
    if name ∈ s.locals then fun _ => .error "Already exists symbol"
    else pure ({ s with locals := s.locals ++ [name] } :: rest)
  | [] => fun _ => .ub

/-- `write_str_alloc`: as `write_str`, for a name of the source. -/
def write_str_alloc (raw_str : String) : Comp PUnit := write_str raw_str

/-- The loop of the `EXPORT_STMT_TYPE` case: for every exported name `OP_GASET`,
the name as a static string and the access type 1. -/
def compile_export : List String → Comp PUnit
  | [] => pure ⟨⟩
  | symbol :: symbols => do
    let _ ← write_chunk OpCode.GASET.byte
    write_str_alloc symbol
    let _ ← write_chunk 1
    compile_export symbols

/-- `push_block`. -/
def push_block : Comp PUnit := do
  let u ← current_unit
  set_unit { u with blocks := { stmts_len := 0, current_stmt := 0 } :: u.blocks }

/-- `pop_block`; when the stack of blocks is empty the `assert` fails, or,
where it is compiled out, a null pointer is read. -/
def pop_block : Comp PUnit := do
  let u ← current_unit
  match u.blocks with
  | _ :: prev => set_unit { u with blocks := prev }
  | [] => fun _ => .ub

/-- `peek_block`; when the stack of blocks is empty the `assert` fails, or,
where it is compiled out, the caller reads through the null pointer returned. -/
def peek_block : Comp Block := do
  let u ← current_unit
  match u.blocks with
  | block :: _ => pure block
  | [] => fun _ => .ub

/-- Assignment through the `Block *` a statement loop got from `push_block`:
while the loop runs that block is the innermost one. -/
def set_block (g : Block → Block) : Comp PUnit := do
  let u ← current_unit
  match u.blocks with
  | block :: prev => set_unit { u with blocks := g block :: prev }
  | [] => fun _ => .ub

/-- `push_loop`. -/
def push_loop (loop_id : Int) : Comp PUnit := do
  let u ← current_unit
  set_unit { u with loops := loop_id :: u.loops }

/-- `pop_loop`. -/
def pop_loop : Comp PUnit := do
  let u ← current_unit
  match u.loops with
  | _ :: prev => set_unit { u with loops := prev }
  | [] => fun _ => .ub

/-- `current_loop(compiler)->id`. -/
def current_loop : Comp Int := do
  let u ← current_unit
  match u.loops with
  | id :: _ => pure id
  | [] => fun _ => .ub

/-- Modelled from the spec: `scope_manager_is_global_scope`, which is not among
the sources: the innermost scope is the global one. -/
def scope_manager_is_global_scope (m : ScopeManager) : Bool :=
  match m with
  | s :: _ => decide (s.type = .GLOBAL)
  | [] => false

/-- Modelled from the spec: `scope_manager_is_scope_type`, which is not among
the sources: a scope of the kind encloses the current position inside the
current function ("`stop` and `continue` within the innermost loop"). -/
def scope_manager_is_scope_type (type : ScopeType) : ScopeManager → Bool
  | [] => false
  | s :: rest =>
    if s.type = type then true
    else if s.type = .FN ∨ s.type = .GLOBAL then false
    else scope_manager_is_scope_type type rest

mutual

/-- `compile_stmt` on the fragment. In the `try` case `try_scope` is the scope
record the C code keeps a pointer to; `pop_scope_locals` reads it after the
scope was popped, and it is taken to hold the locals the try scope had. In the
`return` case the check for a returned module is left out: no expression of
the fragment names a module. -/
def compile_stmt : Stmt → ScopeManager → Comp ScopeManager
  | .EXPR expr, m => do
    compile_expr expr m
    let _ ← write_chunk OpCode.POP.byte
    pure m
  | .VAR_DECL name initial_value_expr, m => do
    match initial_value_expr with
    | some e => compile_expr e m
    | none => do let _ ← write_chunk OpCode.EMPTY.byte
    match m with
    | s :: _ =>
      if s.type = .GLOBAL then do
        if initial_value_expr.isNone then
          error "Immutable global variables must be initialized in declaration place"
        let m1 ← scope_manager_define_global name m
        let _ ← write_chunk OpCode.GDEF.byte
        write_str_alloc name
        pure m1
      else scope_manager_define_local name m
    | [] => fun _ => .ub
  | .THROW value_expr, m => do
    match m with
    | s :: _ => if s.type = .GLOBAL then error "Cannot use throw statements in global scope"
    | [] => fun _ => .ub
    match value_expr with
    | some e => compile_expr e m
    | none => pure ⟨⟩
    let _ ← write_chunk OpCode.THROW.byte
    let _ ← write_chunk (if value_expr.isSome then 1 else 0)
    pure m
  | .TRY try_stmts catch_stmts, m => do
    match m with
    | s :: _ =>
      if s.type = .CATCH then error "Cannot use try statements inside catch scopes"
    | [] => fun _ => .ub
    let try_id ← generate_id
    let m1 := scope_manager_push .TRY m
    let m2 ← (match try_stmts with
      | some stmts => do
        push_block
        let _ ← write_chunk OpCode.TRYO.byte
        mark s!"CATCH({try_id})"
        set_block (fun block => { block with stmts_len := stmts.length })
        let m2 ← compile_stmts "Cannot exists statements after the scope returned" stmts 0 m1
        pop_locals m2
        let _ ← write_chunk OpCode.TRYC.byte
        if catch_stmts.isSome then jmp s!"CATCH({try_id})_END"
        pop_block
        pure m2
      | none => pure m1 : Comp ScopeManager)
    let try_scope ← (match m2 with
      | s :: _ => pure s
      | [] => fun _ => .ub : Comp LocalScope)
    let m3 := scope_manager_push .CATCH (scope_manager_pop m2)
    let m4 ← (match catch_stmts with
      | some stmts => do
        push_block
        label s!"CATCH({try_id})"
        pop_scope_locals try_scope
        set_block (fun block => { block with stmts_len := stmts.length })
        let m4 ← compile_stmts "Cannot exists statements after the scope returned" stmts 0 m3
        pop_locals m4
        label s!"CATCH({try_id})_END"
        pop_block
        pure m4
      | none => do
        label s!"CATCH({try_id})"
        pop_scope_locals try_scope
        pure m3 : Comp ScopeManager)
    pure (scope_manager_pop m4)
  | .BLOCK stmts, m => do
    let m1 := scope_manager_push .BLOCK m
    push_block
    set_block (fun block => { block with stmts_len := (stmts.getD []).length })
    let m2 ← (match stmts with
      | some stmts => compile_stmts "Cannot exists statements after the scope returned" stmts 0 m1
      | none => pure m1 : Comp ScopeManager)
    let m3 : ScopeManager :=
      match m2 with
      | s :: rest => s :: propagate_return rest
      | [] => []
    pop_locals m3
    pop_block
    pure (scope_manager_pop m3)
  | .EXPORT symbols, m => do
    compile_export symbols
    pure m
  | .RETURN ret_expr, m => do
    if scope_manager_is_global_scope m then
      error "Return statements not allowed in global scope"
    let block ← peek_block
    if block.current_stmt < block.stmts_len then
      error "Return statements must be the last in the scope"
    let m1 ← (match m with
      | s :: rest => pure ({ s with returned := true } :: rest)
      | [] => fun _ => .ub : Comp ScopeManager)
    match ret_expr with
    | some e => compile_expr e m1
    | none => pure ⟨⟩
    let _ ← write_chunk OpCode.RET.byte
    pure m1
  | .CONTINUE, m => do
    if scope_manager_is_scope_type .WHILE m then
      let id ← current_loop
      jmp s!".WHILE({id})_TEST"
    else if scope_manager_is_scope_type .FOR m then
      let id ← current_loop
      jmp s!".FOR({id})_TEST"
    else error "Continue statements only allowed in while and for loops"
    pure m
  | .FOR_RANGE symbol left_expr upto right_expr stmts, m => do
    let for_id ← generate_id
    let m1 := scope_manager_push .BLOCK m
    let m2 ← scope_manager_define_local symbol m1
    let offset ← (match local_offset symbol m2 with
      | some offset => pure offset
      | none => fun _ => .ub : Comp Nat)
    let m3 := scope_manager_push .FOR m2
    push_loop for_id
    push_block
    set_block (fun block => { block with stmts_len := stmts.length })
    compile_expr left_expr m3
    label s!".FOR({for_id})_TEST"
    let _ ← write_chunk OpCode.LGET.byte
    let _ ← write_chunk offset
    compile_expr right_expr m3
    let _ ← write_chunk (if upto then OpCode.GE.byte else OpCode.LT.byte)
    jit s!".FOR_RANGE({for_id})_END"
    let m4 ← compile_stmts "Cannot exists statements after the scope returned" stmts 0 m3
    pop_locals m4
    let _ ← write_chunk OpCode.LGET.byte
    let _ ← write_chunk offset
    let _ ← write_chunk OpCode.CINT.byte
    let _ ← write_chunk 1
    let _ ← write_chunk (if upto then OpCode.ADD.byte else OpCode.SUB.byte)
    let _ ← write_chunk OpCode.LSET.byte
    let _ ← write_chunk offset
    let _ ← write_chunk OpCode.POP.byte
    jmp s!".FOR({for_id})_TEST"
    label s!".FOR({for_id})_END"
    pop_block
    pop_loop
    pop_locals m4
    let m5 := scope_manager_pop m4
    label s!".FOR_RANGE({for_id})_END"
    pop_locals m5
    pure (scope_manager_pop m5)

/-- The statement loops of `compile_stmt` from the statement of index `i` on:
before every statement the `returned` flag of the innermost scope is checked
and the cursor of the block is set to `i + 1`. -/
def compile_stmts (msg : String) : List Stmt → Nat → ScopeManager → Comp ScopeManager
  | [], _, m => pure m
  | stmt :: stmts, i, m => do
    if scope_returned m then error msg
    set_block (fun block => { block with current_stmt := i + 1 })
    let m1 ← compile_stmt stmt m
    compile_stmts msg stmts (i + 1) m1

end

/-- The statement loop of `compiler_compile` and `compiler_import`, which
checks no flag. -/
def compile_all : List Stmt → ScopeManager → Comp ScopeManager
  | [], m => pure m
  | stmt :: stmts, m => do
    let m1 ← compile_stmt stmt m
    compile_all stmts m1

/-- The compilation of the statements of a module in `compiler_compile` and
`compiler_import`, up to the entry function it leaves: the unit of the entry
function is pushed, the statements are compiled in the global scope, the
implicit `EMPTY`, `RET` is appended and the unit is popped. -/
def compile_entry (name : String) (stmts : List Stmt) (module : Nat) : Comp Fn := do
  let fn : Fn :=
    { name := name, arity := 0, chunks := [], iconsts := [], fconsts := [], module := module }
  push_unit fn
  let _ ← compile_all stmts [{ type := .GLOBAL, locals := [], returned := false }]
  let _ ← write_chunk OpCode.EMPTY.byte
  let _ ← write_chunk OpCode.RET.byte
  pop_unit

/-- The test `i + 1 >= stmts_len && stmt->type == RETURN_STMT_TYPE` of the
statement loops of procedures and anonymous functions, which clears
`must_return`: the last statement is a `return`. -/
def last_is_return : List Stmt → Bool
  | [] => false
  | [.RETURN _] => true
  | [_] => false
  | _ :: stmts => last_is_return stmts

/-- The `FUNCTION_STMT_TYPE` case of `compile_stmt` for a procedure whose body
is in the fragment, up to the function it leaves: the unit and a block are
pushed, the parameters are defined as locals, the body is compiled, the
implicit `EMPTY`, `RET` is appended unless the last statement is a `return`,
and the block and the unit are popped. The registration of the function in the
module is left out. -/
def compile_function (name : String) (params : List String) (stmts : List Stmt)
    (module : Nat) : Comp Fn := do
  let fn : Fn :=
    { name := name, arity := params.length, chunks := [], iconsts := [], fconsts := [],
      module := module }
  let m := scope_manager_push .FN [{ type := .GLOBAL, locals := [], returned := false }]
  push_unit fn
  push_block
  let m1 ← params.foldlM (fun acc p => scope_manager_define_local p acc) m
  set_block (fun block => { block with stmts_len := stmts.length })
  let _ ← compile_stmts "Cannot exists statements after the scope returned" stmts 0 m1
  if !last_is_return stmts then
    let _ ← write_chunk OpCode.EMPTY.byte
    let _ ← write_chunk OpCode.RET.byte
  pop_block
  pop_unit

/-- The `ANON_EXPRTYPE` case of `compile_expr` for an anonymous function whose
body is in the fragment, inside the scopes `m`, up to the function it leaves:
the function scope and the unit are pushed, the parameters are defined as
locals, the statements of the body are compiled, the implicit `EMPTY`, `RET`
is appended unless the last statement is a `return`, and the unit is popped.
No block is pushed and the statement loop checks no flag. The registration of
the function and of its `MetaClosure` in the module is left out. -/
def compile_anon (params : List String) (stmts : List Stmt) (module : Nat)
    (m : ScopeManager) : Comp Fn := do
  let fn : Fn :=
    { name := "anonymous", arity := params.length, chunks := [], iconsts := [], fconsts := [],
      module := module }
  let m1 := scope_manager_push .FN m
  push_unit fn
  let m2 ← params.foldlM (fun acc p => scope_manager_define_local p acc) m1
  let _ ← compile_all stmts m2
  if !last_is_return stmts then
    let _ ← write_chunk OpCode.EMPTY.byte
    let _ ← write_chunk OpCode.RET.byte
  pop_unit

/-- The function a compilation leaves, or an empty function when it failed. -/
def compiled (r : CRes Fn) : Fn :=
  match r with
  | .ok fn _ => fn
  | _ => { name := "", arity := 0, chunks := [], iconsts := [], fconsts := [], module := 0 }

end compiler

/-! ## Concrete inputs -/

/-- A function with three chunks. -/
def c2_fn : Fn :=
  { name := "f", arity := 0, chunks := [0, 1, 2], iconsts := [], fconsts := [], module := 0 }

/-- A compiler state whose current function is `c2_fn`. -/
def c2_compiler : compiler.Compiler :=
  { units_stack := [compiler.create_unit c2_fn], strings := [] }

/-- A pool of 32768 integer constants. -/
def c3_pool : List Int := List.replicate 32768 0

/-- A table of 32768 static strings. -/
def c3_strings : List String := List.replicate 32768 ""

/-- A function with the integer constant pool `pool` whose chunks end with the
opcode `INT`, ready for its operand. -/
def c3_fn (pool : List Int) : Fn :=
  { name := "f", arity := 0, chunks := [OpCode.INT.byte], iconsts := pool, fconsts := [],
    module := 0 }

/-- A compiler state whose current function is `c3_fn pool`, in a module with
the static strings `strs`. -/
def c3_compiler (pool : List Int) (strs : List String) : compiler.Compiler :=
  { units_stack := [compiler.create_unit (c3_fn pool)], strings := strs }

/-- The function `c3_fn pool` after `write_iconst 42` with a pool of 32768
entries. -/
def c3_fn_written (pool : List Int) : Fn :=
  { c3_fn pool with chunks := [OpCode.INT.byte, 128, 0], iconsts := pool ++ [42] }

/-- A loop-free function body of 32768 `POP` chunks. -/
def c1_body : List Nat := List.replicate 32768 OpCode.POP.byte

/-- The emission of a forward jump over `body` to a label placed right after
it: `jmp "L"`, the chunks of `body`, `label "L"`. -/
def c1_emit (body : List Nat) : compiler.Comp PUnit := do
  compiler.jmp "L"
  compiler.write_chunks body
  compiler.label "L"

/-- A compiler state right after `push_unit` of an empty function. -/
def c1_start : compiler.Compiler :=
  { units_stack := [compiler.create_unit
      { name := "f", arity := 0, chunks := [], iconsts := [], fconsts := [], module := 0 }],
    strings := [] }

/-- The function of the unit of `c1_emit` with the two bytes after the opcode
`JMP` set to `b0`, `b1`. -/
def c1_fn (body : List Nat) (b0 b1 : Nat) : Fn :=
  { name := "f", arity := 0, chunks := [OpCode.JMP.byte, b0, b1] ++ body, iconsts := [],
    fconsts := [], module := 0 }

/-- The unit `c1_emit` leaves: the jump at offset 0 with its placeholder at
offset 1, and the label at the end of the body. -/
def c1_unit (body : List Nat) : compiler.Unit :=
  { counter := 0,
    labels := [("L", { offset := 3 + body.length, name := "L" })],
    jmps := [{ update_offset := 1, jump_offset := 3, label_name := "L" }],
    marks := [],
    fn := c1_fn body 0 0 }

/-- The frame a zeroed `VM` holds in every slot. -/
def Frame.zero : Frame :=
  { ip := 0, last_offset := 0, fn := none, closure := none, locals := 0,
    outs_head := none, outs_tail := none }

/-- The zeroed `VM` of `vm_create` with the descriptors of a program and the
objects the compiler created for it. -/
def VM.init (fns : List Fn) (metas : List MetaClosure) (modules : List Module)
    (heap : List Obj) : VM :=
  { exit_code := 0, stack := fun _ => Value.zero, stack_top := 0,
    frame_stack := fun _ => Frame.zero, frame_ptr := 0, exception_stack := [],
    modules_stack_len := 0, modules_stack := none, heap := heap, fns := fns, metas := metas,
    modules := modules, runtime_strs := [], stderr := [] }

/-- The state an outcome carries; the zeroed `VM` when it carries none. -/
def Outcome.vm : Outcome → VM
  | .running vm => vm
  | .halted _ vm => vm
  | _ => VM.init [] [] [] []

/-- The top `n` slots of the value stack, topmost first. -/
def VM.top (vm : VM) (n : Nat) : List Value :=
  (List.range n).map (fun i => vm.stack (vm.stack_top - 1 - i))

/-- Entry function of the recursion program: `f()` as an expression statement,
then the implicit `EMPTY`, `RET`. -/
def rec_main : Fn :=
  { name := "entry", arity := 0, module := 0, fconsts := [], iconsts := [],
    chunks := [OpCode.GGET.byte, 0, 0, OpCode.CALL.byte, 0, OpCode.POP.byte,
               OpCode.EMPTY.byte, OpCode.RET.byte] }

/-- `proc f() { f() }`: it calls itself through its global, then the implicit
`EMPTY`, `RET`. -/
def rec_f : Fn :=
  { name := "f", arity := 0, module := 0, fconsts := [], iconsts := [],
    chunks := [OpCode.GGET.byte, 0, 0, OpCode.CALL.byte, 0, OpCode.POP.byte,
               OpCode.EMPTY.byte, OpCode.RET.byte] }

/-- The module of the recursion program: the compiler registered the function
object of `f` (heap object 0) as the global `f`. -/
def rec_module : Module :=
  { name := "main", entry_fn := 0, strings := ["f"], symbols := [.FUNCTION 0, .FUNCTION 1],
    globals := [("f", { access := .PRIVATE, value := .obj 0 })], resolved := false,
    prev := none }

/-- The recursion program loaded in a fresh VM. -/
def rec_vm : VM := VM.init [rec_main, rec_f] [] [rec_module] [.fn 1]

/-- The recursion program after `n` instructions of `vm_execute`. -/
def rec_state (n : Nat) : VM := (vm_execute n 0 rec_vm).vm

/-- Entry function of S2 without the `println` wrappers:
`let add3 = make_adder(3)`, `add3(4)`, `add3(10)`, then the implicit
`EMPTY`, `RET`. -/
def s2_main : Fn :=
  { name := "entry", arity := 0, module := 0, fconsts := [], iconsts := [3, 4, 10],
    chunks := [OpCode.GGET.byte, 0, 0, OpCode.INT.byte, 0, 0, OpCode.CALL.byte, 1,
               OpCode.GDEF.byte, 0, 1,
               OpCode.GGET.byte, 0, 2, OpCode.INT.byte, 0, 1, OpCode.CALL.byte, 1,
               OpCode.POP.byte,
               OpCode.GGET.byte, 0, 3, OpCode.INT.byte, 0, 2, OpCode.CALL.byte, 1,
               OpCode.POP.byte,
               OpCode.EMPTY.byte, OpCode.RET.byte] }

/-- `proc make_adder(x) { ret anon(y) { ret x + y } }`: `SGET` of the closure
symbol, `RET`. -/
def s2_make_adder : Fn :=
  { name := "make_adder", arity := 1, module := 0, fconsts := [], iconsts := [],
    chunks := [OpCode.SGET.byte, 0, 0, 0, 3, OpCode.RET.byte] }

/-- `anon(y) { ret x + y }`: `OGET` of the captured `x`, `LGET` of `y`, `ADD`,
`RET`. -/
def s2_anon : Fn :=
  { name := "anonymous", arity := 1, module := 0, fconsts := [], iconsts := [],
    chunks := [OpCode.OGET.byte, 0, OpCode.LGET.byte, 0, OpCode.ADD.byte, OpCode.RET.byte] }

/-- The module of S2: the compiler registered the function object of
`make_adder` (heap object 0) as a global, and the closure metadata of the
anonymous function as symbol 3. -/
def s2_module : Module :=
  { name := "main", entry_fn := 0, strings := ["make_adder", "add3", "add3", "add3"],
    symbols := [.FUNCTION 0, .FUNCTION 1, .FUNCTION 2, .CLOSURE 0],
    globals := [("make_adder", { access := .PRIVATE, value := .obj 0 })], resolved := false,
    prev := none }

/-- S2 loaded in a fresh VM; the anonymous function captures local 0. -/
def s2_vm : VM :=
  VM.init [s2_main, s2_make_adder, s2_anon] [{ meta_out_values := [0], fn := 2 }] [s2_module]
    [.fn 1]

/-- S2 after `n` instructions of `vm_execute`. -/
def s2_state (n : Nat) : VM := (vm_execute n 0 s2_vm).vm

/-- `anon() { ret x }` with `x` captured from the enclosing procedure: `OGET`
of local 0, `RET`. -/
def cap_anon : Fn :=
  { name := "anonymous", arity := 0, module := 0, fconsts := [], iconsts := [],
    chunks := [OpCode.OGET.byte, 0, OpCode.RET.byte] }

/-- `proc mk(x) { let g = anon() { ret x }; x = 5; ret g }`: the closure is
created (local 1), then `x` (local 0) is reassigned, then the closure is
returned. -/
def c7_mk : Fn :=
  { name := "mk", arity := 1, module := 0, fconsts := [], iconsts := [5],
    chunks := [OpCode.SGET.byte, 0, 0, 0, 3, OpCode.INT.byte, 0, 0, OpCode.LSET.byte, 0,
               OpCode.POP.byte, OpCode.LGET.byte, 1, OpCode.RET.byte] }

/-- Entry function of the program of C7: `let g = mk(3)`, `g()`, then the
implicit `EMPTY`, `RET`. -/
def c7_main : Fn :=
  { name := "entry", arity := 0, module := 0, fconsts := [], iconsts := [3],
    chunks := [OpCode.GGET.byte, 0, 0, OpCode.INT.byte, 0, 0, OpCode.CALL.byte, 1,
               OpCode.GDEF.byte, 0, 1, OpCode.GGET.byte, 0, 2, OpCode.CALL.byte, 0,
               OpCode.POP.byte, OpCode.EMPTY.byte, OpCode.RET.byte] }

/-- The module of the programs of C7 and C8: the function object of `mk` is
heap object 0, the closure metadata of the anonymous function symbol 3. -/
def cap_module : Module :=
  { name := "main", entry_fn := 0, strings := ["mk", "g", "g"],
    symbols := [.FUNCTION 0, .FUNCTION 1, .FUNCTION 2, .CLOSURE 0],
    globals := [("mk", { access := .PRIVATE, value := .obj 0 })], resolved := false,
    prev := none }

/-- The program of C7 after `n` instructions of `vm_execute`. -/
def c7_state (n : Nat) : VM :=
  (vm_execute n 0 (VM.init [c7_main, c7_mk, cap_anon] [{ meta_out_values := [0], fn := 2 }]
    [cap_module] [.fn 1])).vm

/-- `proc mk(x) { let g = anon() { ret x }; x = 5; ret g() }`: as `c7_mk`, but
the closure is called while the frame of `mk` is still live. -/
def c8_mk : Fn :=
  { name := "mk", arity := 1, module := 0, fconsts := [], iconsts := [5],
    chunks := [OpCode.SGET.byte, 0, 0, 0, 3, OpCode.INT.byte, 0, 0, OpCode.LSET.byte, 0,
               OpCode.POP.byte, OpCode.LGET.byte, 1, OpCode.CALL.byte, 0, OpCode.RET.byte] }

/-- Entry function of the program of C8: `mk(3)` as an expression statement,
then the implicit `EMPTY`, `RET`. -/
def c8_main : Fn :=
  { name := "entry", arity := 0, module := 0, fconsts := [], iconsts := [3],
    chunks := [OpCode.GGET.byte, 0, 0, OpCode.INT.byte, 0, 0, OpCode.CALL.byte, 1,
               OpCode.POP.byte, OpCode.EMPTY.byte, OpCode.RET.byte] }

/-- The program of C8 after `n` instructions of `vm_execute`. -/
def c8_state (n : Nat) : VM :=
  (vm_execute n 0 (VM.init [c8_main, c8_mk, cap_anon] [{ meta_out_values := [0], fn := 2 }]
    [cap_module] [.fn 1])).vm

/-- The `OutValue` of the closure of the programs of C7 and C8 as
`init_closure` leaves it: flagged linked, bound to local 0, holding the value
3 that the local had when the closure was created. -/
def cap_out : OutValue :=
  { linked := true, at_ := 0, value := .int 3, prev := none, next := none, closure_obj := 2 }

/-- A compiler state with no unit yet. -/
def c10_compiler : compiler.Compiler := { units_stack := [], strings := [] }

/-- `proc f() { try { throw } catch { empty } }`, compiled. -/
def c10_f : Fn :=
  compiler.compiled (compiler.compile_function "f" []
    [.TRY (some [.THROW none]) (some [.EXPR .EMPTY])] 0 c10_compiler)

/-- `proc f() { try { empty } catch { empty } }`, compiled. -/
def c10_f_normal : Fn :=
  compiler.compiled (compiler.compile_function "f" []
    [.TRY (some [.EXPR .EMPTY]) (some [.EXPR .EMPTY])] 0 c10_compiler)

/-- The program `f()` around `c10_f` after `n` instructions of `vm_execute`;
entry function and module are those of the recursion program. -/
def c10_state (n : Nat) : VM :=
  (vm_execute n 0 (VM.init [rec_main, c10_f] [] [rec_module] [.fn 1])).vm

/-- The program `f()` around `c10_f_normal` after `n` instructions. -/
def c10_state_normal (n : Nat) : VM :=
  (vm_execute n 0 (VM.init [rec_main, c10_f_normal] [] [rec_module] [.fn 1])).vm

/-- `proc f(r) { try { throw r } catch { empty } }`, compiled. -/
def c9_f : Fn :=
  compiler.compiled (compiler.compile_function "f" ["r"]
    [.TRY (some [.THROW (some (.IDENTIFIER "r"))]) (some [.EXPR .EMPTY])] 0 c10_compiler)

/-- Entry function of the program of C9: `f(r)` as an expression statement,
then the implicit `EMPTY`, `RET`. -/
def c9_main : Fn :=
  { name := "entry", arity := 0, module := 0, fconsts := [], iconsts := [],
    chunks := [OpCode.GGET.byte, 0, 0, OpCode.GGET.byte, 0, 1, OpCode.CALL.byte, 1,
               OpCode.POP.byte, OpCode.EMPTY.byte, OpCode.RET.byte] }

/-- The module of the program of C9 once the global `r` holds the record
`{ msg: 5 }` (heap object 1); the function object of `f` is heap object 0. -/
def c9_module : Module :=
  { name := "main", entry_fn := 0, strings := ["f", "r"],
    symbols := [.FUNCTION 0, .FUNCTION 1],
    globals := [("f", { access := .PRIVATE, value := .obj 0 }),
                ("r", { access := .PRIVATE, value := .obj 1 })],
    resolved := false, prev := none }

/-- The program of C9 after `n` instructions of `vm_execute`. -/
def c9_state (n : Nat) : VM :=
  (vm_execute n 0 (VM.init [c9_main, c9_f] [] [c9_module]
    [.fn 1, .record (some [("msg", .int 5)])])).vm

/-- The thrown value is a record whose `msg` attribute is not a string, the
case in which `OP_THROW` raises a runtime error before it looks at the
exception stack. -/
def bad_throw_msg (vm : VM) (v : Value) : Prop :=
  ∃ attrs msg_value, value_obj vm v = some (.record (some attrs)) ∧
    attrs.lookup "msg" = some msg_value ∧ is_value_str vm msg_value = false

/-- The program of C9 with a record whose `msg` attribute is the string
"boom", after `n` instructions of `vm_execute`. -/
def c9_state_str (n : Nat) : VM :=
  (vm_execute n 0 (VM.init [c9_main, c9_f] [] [c9_module]
    [.fn 1, .record (some [("msg", .obj 2)]), .str "boom"])).vm

/-- The exception frame that `TRY_OPEN` of `c9_f` records. -/
def c9_exception : Exception :=
  { catch_ip := 11, throw_value := Value.zero, stack_top := 3, frame := 1 }

/-! ## Vocabulary for captured values -/

/-- What a closure object holds of its captured values: the index of its
`MetaClosure` and, for every `OutValue` of its array, the pair of the fields
`at` and `value`. -/
def captured (vm : VM) (c : Nat) : Option (Nat × List (Int × Value)) :=
  match vm.heap[c]? with
  | some (.closure mc outs) => some (mc, outs.map (fun o => (o.at_, o.value)))
  | _ => none

/-- The opcode the next turn of the loop of `execute` fetches. -/
def VM.next_op (vm : VM) : Option OpCode :=
  match advance_save vm with
  | .ok chunk _ => decode chunk
  | _ => none

/-- The state after `n` instructions, when none of them is `OSET` and each
leaves the dispatch loop running. -/
def run_without_oset : Nat → VM → Option VM
  | 0, vm => some vm
  | n + 1, vm =>
    if vm.next_op = some .OSET then none
    else
      match step vm with
      | .running vm1 => run_without_oset n vm1
      | _ => none

/-- The closure descriptors are the same in `vm1` as in `vm`, every closure
object of `vm` whose address satisfies `P` holds the same captured values in
`vm1`, and every entry of the intern table of `vm` is an entry of the intern
table of `vm1`. -/
def Keeps (P : Nat → Prop) (vm vm1 : VM) : Prop :=
  vm1.metas = vm.metas ∧
    (∀ c x, P c → captured vm c = some x → captured vm1 c = some x) ∧
    ∀ k p, vm.runtime_strs.lookup k = some p → vm1.runtime_strs.lookup k = some p

/-- The state code leaves behind, when it completes or jumps to
`vm->exit_jmp`. -/
def Res.state {α : Type} : Res α → Option VM
  | .ok _ vm => some vm
  | .longjmp _ vm => some vm
  | _ => none

/-- Every state the code `m` leaves, normally or through `longjmp`, keeps the
captured values of the state it started from. -/
structure Pres {α : Type} (P : Nat → Prop) (m : Exec α) : Prop where
  keeps : ∀ vm vm1, (m vm).state = some vm1 → Keeps P vm vm1

/-- The `OutValue` behind a pointer, when the pointer is valid. -/
def out_at (vm : VM) (p : OutPtr) : Option OutValue :=
  match vm.heap[p.closure_obj]? with
  | some (.closure _ outs) => outs[p.idx]?
  | _ => none

/-- The `MetaClosure` of a closure object and the length of its `out_values`. -/
def closure_shape (vm : VM) (c : Nat) : Option (Nat × Nat) :=
  match vm.heap[c]? with
  | some (.closure mc outs) => some (mc, outs.length)
  | _ => none

/-! ## Programs with imported modules -/

/-- Entry function of a main module whose source is `import m` followed by the
expression statement `m`: `GGET` of the global holding the module object,
`POP`, then the implicit `EMPTY`, `RET`. -/
def imp_main : Fn :=
  { name := "entry", arity := 0, module := 0, fconsts := [], iconsts := [],
    chunks := [OpCode.GGET.byte, 0, 0, OpCode.POP.byte, OpCode.EMPTY.byte, OpCode.RET.byte] }

/-- The main module of the import programs: its global `m` holds the module
object (heap object 0) of module 1. -/
def imp_main_module : Module :=
  { name := "main", entry_fn := 0, strings := ["m"], symbols := [.FUNCTION 0, .MODULE 1],
    globals := [("m", { access := .PRIVATE, value := .obj 0 })], resolved := false,
    prev := none }

/-- Entry function of module `m` of C12, whose source is `proc f() \x7b \x7d`
followed by the call `f()`: `GGET f`, `CALL 0`, `POP`, `EMPTY`, `RET`. -/
def c12_m_entry : Fn :=
  { name := "entry", arity := 0, module := 1, fconsts := [], iconsts := [],
    chunks := [OpCode.GGET.byte, 0, 0, OpCode.CALL.byte, 0, OpCode.POP.byte,
               OpCode.EMPTY.byte, OpCode.RET.byte] }

/-- `proc f() \x7b \x7d` of module `m`: the implicit `EMPTY`, `RET`. -/
def c12_f : Fn :=
  { name := "f", arity := 0, module := 1, fconsts := [], iconsts := [],
    chunks := [OpCode.EMPTY.byte, OpCode.RET.byte] }

/-- Module `m` of C12: its global `f` holds the function object of `f` (heap
object 1). -/
def c12_m_module : Module :=
  { name := "m", entry_fn := 1, strings := ["f"], symbols := [.FUNCTION 1, .FUNCTION 2],
    globals := [("f", { access := .PRIVATE, value := .obj 1 })], resolved := false,
    prev := none }

/-- The program of C12 after `n` instructions of `vm_execute`. -/
def c12_state (n : Nat) : VM :=
  (vm_execute n 0 (VM.init [imp_main, c12_m_entry, c12_f] [] [imp_main_module, c12_m_module]
    [.module 1, .fn 2])).vm

/-- Entry function of module `m` of C11, whose source is `import x` followed
by `try \x7b x \x7d catch \x7b \x7d`: `TRYO`, `GGET x`, `POP`, `TRYC`, `JMP` over
the empty catch block, then the implicit `EMPTY`, `RET`. -/
def c11_m_entry : Fn :=
  { name := "entry", arity := 0, module := 1, fconsts := [], iconsts := [],
    chunks := [OpCode.TRYO.byte, 0, 11, OpCode.GGET.byte, 0, 0, OpCode.POP.byte,
               OpCode.TRYC.byte, OpCode.JMP.byte, 0, 0, OpCode.EMPTY.byte, OpCode.RET.byte] }

/-- Module `m` of C11: its global `x` holds the module object of module 2
(heap object 1). -/
def c11_m_module : Module :=
  { name := "m", entry_fn := 1, strings := ["x"], symbols := [.FUNCTION 1, .MODULE 2],
    globals := [("x", { access := .PRIVATE, value := .obj 1 })], resolved := false,
    prev := none }

/-- Entry function of module `x` of C11, whose source is
`proc g() \x7b throw \x7d` followed by the call `g()`. -/
def c11_x_entry : Fn :=
  { name := "entry", arity := 0, module := 2, fconsts := [], iconsts := [],
    chunks := [OpCode.GGET.byte, 0, 0, OpCode.CALL.byte, 0, OpCode.POP.byte,
               OpCode.EMPTY.byte, OpCode.RET.byte] }

/-- `proc g() \x7b throw \x7d` of module `x`. -/
def c11_g : Fn :=
  { name := "g", arity := 0, module := 2, fconsts := [], iconsts := [],
    chunks := [OpCode.THROW.byte, 0, OpCode.EMPTY.byte, OpCode.RET.byte] }

/-- Module `x` of C11: its global `g` holds the function object of `g` (heap
object 2). -/
def c11_x_module : Module :=
  { name := "x", entry_fn := 2, strings := ["g"], symbols := [.FUNCTION 2, .FUNCTION 3],
    globals := [("g", { access := .PRIVATE, value := .obj 2 })], resolved := false,
    prev := none }

/-- The program of C11 after `n` instructions of `vm_execute`. -/
def c11_state (n : Nat) : VM :=
  (vm_execute n 0 (VM.init [imp_main, c11_m_entry, c11_x_entry, c11_g] []
    [imp_main_module, c11_m_module, c11_x_module] [.module 1, .module 2, .fn 3])).vm

/-- The resolved flags of the modules of a state. -/
def VM.resolved_flags (vm : VM) : List Bool := vm.modules.map (fun m => m.resolved)

/-! ## Vocabulary and programs for strings -/

/-- The intern table holds the `StrObj` `p` under the key `vmu_create_str`
uses for the content `s`. -/
def interned (vm : VM) (s : String) (p : Nat) : Prop :=
  lzohtable_lookup (create_str_key_len s.length) (c_buffer s) vm.runtime_strs = some p

instance (vm : VM) (s : String) (p : Nat) : Decidable (interned vm s p) := by
  unfold interned
  infer_instance

/-- Entry function of S6 without the `println` wrapper: `let x = "hello"`,
`let y = "hel" ++ "lo"`, `x == y`, then the implicit `EMPTY`, `RET`. -/
def s6_main : Fn :=
  { name := "entry", arity := 0, module := 0, fconsts := [], iconsts := [],
    chunks := [OpCode.STRING.byte, 0, 0, OpCode.GDEF.byte, 0, 1,
               OpCode.STRING.byte, 0, 2, OpCode.STRING.byte, 0, 3, OpCode.CONCAT.byte,
               OpCode.GDEF.byte, 0, 4,
               OpCode.GGET.byte, 0, 1, OpCode.GGET.byte, 0, 4, OpCode.EQ.byte,
               OpCode.POP.byte, OpCode.EMPTY.byte, OpCode.RET.byte] }

/-- The module of S6 with its static strings. -/
def s6_module : Module :=
  { name := "main", entry_fn := 0, strings := ["hello", "x", "hel", "lo", "y"],
    symbols := [.FUNCTION 0], globals := [], resolved := false, prev := none }

/-- S6 after `n` instructions of `vm_execute`. -/
def s6_state (n : Nat) : VM := (vm_execute n 0 (VM.init [s6_main] [] [s6_module] [])).vm

/-! ## Programs for `EQ`, `DIV`, `CONCAT`, `ASET`, `RSET` and `ACCESS` -/

/-- A main module with no static strings and no globals. -/
def plain_module : Module :=
  { name := "main", entry_fn := 0, strings := [], symbols := [.FUNCTION 0], globals := [],
    resolved := false, prev := none }

/-- An entry function that loads the integer constants `INT64_MIN` and -1 and
divides the first by the second, as an expression statement, then the implicit
`EMPTY`, `RET`. -/
def c16_main : Fn :=
  { name := "entry", arity := 0, module := 0, fconsts := [], iconsts := [-2 ^ 63, -1],
    chunks := [OpCode.INT.byte, 0, 0, OpCode.INT.byte, 0, 1, OpCode.DIV.byte, OpCode.POP.byte,
               OpCode.EMPTY.byte, OpCode.RET.byte] }

/-- The program of `c16_main` after `n` instructions of `vm_execute`. -/
def c16_state (n : Nat) : VM := (vm_execute n 0 (VM.init [c16_main] [] [plain_module] [])).vm

/-- The value of the global `key` of module `mi`. -/
def VM.global (vm : VM) (mi : Nat) (key : String) : Option Value :=
  (vm.modules[mi]?).bind (fun m => (m.globals.lookup key).map (fun g => g.value))

/-- Entry function of the statement `b[1] = 256`, where the global `b` holds a
byte array: the assigned value, the index, the target, `ASET`, `POP`, then the
implicit `EMPTY`, `RET`. -/
def c18_main : Fn :=
  { name := "entry", arity := 0, module := 0, fconsts := [], iconsts := [256],
    chunks := [OpCode.INT.byte, 0, 0, OpCode.CINT.byte, 1, OpCode.GGET.byte, 0, 0,
               OpCode.ASET.byte, OpCode.POP.byte, OpCode.EMPTY.byte, OpCode.RET.byte] }

/-- A main module whose global `b` holds heap object 0. -/
def c18_module : Module :=
  { name := "main", entry_fn := 0, strings := ["b"], symbols := [.FUNCTION 0],
    globals := [("b", { access := .PRIVATE, value := .obj 0 })], resolved := false,
    prev := none }

/-- The program `b[1] = 256`, with `b` a byte array of four bytes 7, after `n`
instructions of `vm_execute`. -/
def c18_state (n : Nat) : VM :=
  (vm_execute n 0 (VM.init [c18_main] [] [c18_module] [.nbarray [7, 7, 7, 7]])).vm

/-- Entry function of the statement `r.msg = 7`, where the global `r` holds a
record: the assigned value, the target, `RSET msg`, `POP`, then the implicit
`EMPTY`, `RET`. -/
def c19_main : Fn :=
  { name := "entry", arity := 0, module := 0, fconsts := [], iconsts := [],
    chunks := [OpCode.CINT.byte, 7, OpCode.GGET.byte, 0, 0, OpCode.RSET.byte, 0, 1,
               OpCode.POP.byte, OpCode.EMPTY.byte, OpCode.RET.byte] }

/-- A main module whose global `r` holds heap object 0. -/
def c19_module : Module :=
  { name := "main", entry_fn := 0, strings := ["r", "msg"], symbols := [.FUNCTION 0],
    globals := [("r", { access := .PRIVATE, value := .obj 0 })], resolved := false,
    prev := none }

/-- The program `r.msg = 7`, with `r` the record of attributes `msg: 5` and
`code: 1`, after `n` instructions of `vm_execute`. -/
def c19_state (n : Nat) : VM :=
  (vm_execute n 0 (VM.init [c19_main] [] [c19_module]
    [.record (some [("msg", .int 5), ("code", .int 1)])])).vm

/-- Entry function of `main.ze` of S5 without the `println` wrappers:
`a.shared` as an expression statement, then
`try \x7b a.hidden \x7d catch \x7b "private" \x7d`: `TRYO` with the catch block at
offset 21, `GGET a`, `ACCESS hidden`, `POP`, `TRYC`, `JMP` over the catch block,
the catch block `STRING private`, `POP`, then the implicit `EMPTY`, `RET`. -/
def s5_main : Fn :=
  { name := "entry", arity := 0, module := 0, fconsts := [], iconsts := [],
    chunks := [OpCode.GGET.byte, 0, 0, OpCode.ACCESS.byte, 0, 1, OpCode.POP.byte,
               OpCode.TRYO.byte, 0, 21, OpCode.GGET.byte, 0, 0, OpCode.ACCESS.byte, 0, 2,
               OpCode.POP.byte, OpCode.TRYC.byte, OpCode.JMP.byte, 0, 4,
               OpCode.STRING.byte, 0, 3, OpCode.POP.byte, OpCode.EMPTY.byte, OpCode.RET.byte] }

/-- The main module of S5: its global `a` holds the module object (heap object
0) of module 1. -/
def s5_main_module : Module :=
  { name := "main", entry_fn := 0, strings := ["a", "shared", "hidden", "private"],
    symbols := [.FUNCTION 0, .MODULE 1],
    globals := [("a", { access := .PRIVATE, value := .obj 0 })], resolved := false,
    prev := none }

/-! ## The allocation hook (vm.c) -/

/-- The accounting of the allocation hook: `allocated_bytes` and
`allocation_limit_size` of the VM, both `size_t`, and beside them
`live_bytes`, which no C variable holds: the total size of the blocks handed
out through `vm_alloc`/`vm_realloc` and not yet released through
`vm_dealloc`. -/
structure Accounting where
  allocated_bytes : Nat
  allocation_limit_size : Nat
  live_bytes : Nat
deriving DecidableEq, Repr

/-- `vm_dealloc` of a block of `size` bytes. -/
def vm_dealloc (size : Nat) (a : Accounting) : Accounting :=
  let new_allocated_bytes := to_size_t ((a.allocated_bytes : Int) - size)
  { allocated_bytes := new_allocated_bytes,
    allocation_limit_size :=
      if new_allocated_bytes < a.allocation_limit_size / 2 then a.allocation_limit_size / 2
      else a.allocation_limit_size,
    live_bytes := a.live_bytes - size }

/-- What `vmu_gc` does to the accounting: the destructors of the swept objects
release their blocks through `MEMORY_DEALLOC(VMU_FRONT_ALLOCATOR, ...)`, that
is through `vm_dealloc`, one call per block; `released` lists the sizes. -/
def gc_release (released : List Nat) (a : Accounting) : Accounting :=
  released.foldl (fun acc size => vm_dealloc size acc) a

/-- `vm_alloc` of `size` bytes; `released` are the blocks a collection
releases if this call triggers one, `alloc_ok` says whether the underlying
allocator returns a block. The result is `none` when `vmu_error` is raised. -/
def vm_alloc (size : Nat) (released : List Nat) (alloc_ok : Bool) (a : Accounting) :
    Option Accounting :=
  let new_allocated_bytes := to_size_t ((a.allocated_bytes : Int) + size)
  let a1 :=
    if new_allocated_bytes ≥ a.allocation_limit_size then
      let bytes_before := a.allocated_bytes
      let a1 := gc_release released a
      let bytes_after := a1.allocated_bytes
      let freeded_bytes := to_size_t ((bytes_after : Int) - bytes_before)
      if freeded_bytes < size then
        { a1 with allocation_limit_size := to_size_t ((a1.allocation_limit_size : Int) * 2) }
      else a1
    else a
  if alloc_ok then
    some { a1 with allocated_bytes := new_allocated_bytes, live_bytes := a1.live_bytes + size }
  else none

/-- `vm_realloc` of a block from `old_size` to `new_size` bytes. -/
def vm_realloc (old_size new_size : Nat) (released : List Nat) (alloc_ok : Bool)
    (a : Accounting) : Option Accounting :=
  let size : Int := wrapS 64 ((new_size : Int) - old_size)
  let new_allocated_bytes := to_size_t ((a.allocated_bytes : Int) + size)
  let a1 :=
    if new_allocated_bytes > a.allocation_limit_size then
      let bytes_before := a.allocated_bytes
      let a1 := gc_release released a
      let bytes_after := a1.allocated_bytes
      let freeded_bytes := to_size_t ((bytes_after : Int) - bytes_before)
      if freeded_bytes < to_size_t size then
        { a1 with allocation_limit_size := to_size_t ((a1.allocation_limit_size : Int) * 2) }
      else a1
    else if new_allocated_bytes < a.allocation_limit_size / 2 then
      { a with allocation_limit_size := a.allocation_limit_size / 2 }
    else a
  if alloc_ok then
    some { a1 with allocated_bytes := new_allocated_bytes,
                   live_bytes := a1.live_bytes - old_size + new_size }
  else none

/-- `ALLOCATE_START_LIMIT`, 16 MiB. -/
def ALLOCATE_START_LIMIT : Nat := 16 * 1024 * 1024

/-- An accounting in which 16 MiB minus 8 bytes are allocated in live blocks,
one of them an array's values of 4096 bytes that no root reaches. -/
def c26_accounting : Accounting :=
  { allocated_bytes := ALLOCATE_START_LIMIT - 8, allocation_limit_size := ALLOCATE_START_LIMIT,
    live_bytes := ALLOCATE_START_LIMIT - 8 }

/-! ## Import resolution (compiler.c) -/

/-- What `resolve_import_names` asks of the file system: `utils_files_exists`,
whether `utils_files_is_directory` returns non-zero, and
`utils_files_parent_pathname` (utils.c, over `access`, `stat` and `dirname`). -/
structure Files where
  utils_files_exists : String → Bool
  utils_files_is_directory : String → Bool
  utils_files_parent_pathname : String → String

/-- What `resolve_import_names` leaves: the returned `source_pathname` with
the list of search paths after `add_new_search_path` and the search path
stored through `out_main_search_pathname`; a compile error raised through
`error`; or undefined behaviour of the C code. -/
inductive Resolved where
  | ok (source_pathname : String) (search_pathnames : List String)
      (main_search_pathname : String)
  | error (msg : String)
  | ub
deriving DecidableEq, Repr

/-- The first loop of `resolve_import_names`: the names joined by `/`. -/
def join_names : List String → String
  | [] => ""
  | [name] => name
  | name :: names => name ++ "/" ++ join_names names

/-- The `target_pathname` of `resolve_import_names`. -/
def target_pathname (names : List String) : String := join_names names ++ ".ze"

/-- `add_new_search_path`: the list of search paths afterwards and the entry
returned. -/
def add_new_search_path (fs : Files) (search_pathnames : List String)
    (source_pathname : String) : List String × String :=
  let parent_pathname := fs.utils_files_parent_pathname source_pathname
  if parent_pathname ∈ search_pathnames then (search_pathnames, parent_pathname)
  else (search_pathnames ++ [parent_pathname], parent_pathname)

/-- The pathname a turn of the loop builds from a search path: the target is
appended, after a `/` unless the search path ends with one. -/
def candidate_pathname (search_pathname target : String) : String :=
  if search_pathname.data.getLast? = some '/' then search_pathname ++ target
  else search_pathname ++ "/" ++ target

/-- The `do`/`while` loop of `resolve_import_names`, which makes at most
`dynarr_len(search_pathnames) + 1` turns; `turns` bounds them. The search path
of a turn is a pointer: that of the main search path first, then the one
`dynarr_get_raw(search_pathnames, i)` gave at the end of the turn before, which
for `i` equal to the length points past the last entry and is not read,
because the loop condition then fails. Reading the last byte of an empty search
path is undefined. -/
def resolve_loop (fs : Files) (target module_name : String) (search_pathnames : List String) :
    Nat → Option String → Nat → Resolved
  | 0, _, _ => .ub
  | turns + 1, search_pathname, i =>
    match search_pathname with
    | none => .ub
    | some sp =>
      if sp.data = [] then .ub
      else
        let pathname := candidate_pathname sp target
        if fs.utils_files_exists pathname then
          let (new_search_pathnames, found) := add_new_search_path fs search_pathnames pathname
          if fs.utils_files_is_directory pathname then
            .error ("file with name '" ++ module_name ++ "' found at '" ++ pathname ++
              "' but is a directory")
          else .ok pathname new_search_pathnames found
        else if i < search_pathnames.length then
          resolve_loop fs target module_name search_pathnames turns search_pathnames[i]? (i + 1)
        else .error ("Module '" ++ module_name ++ "' not found")

/-- `resolve_import_names`. -/
def resolve_import_names (fs : Files) (names : List String) (main_search_pathname : String)
    (search_pathnames : List String) : Resolved :=
  match names.getLast? with
  | none => .ub
  | some module_name =>
    resolve_loop fs (target_pathname names) module_name search_pathnames
      (search_pathnames.length + 1) (some main_search_pathname) 0

/-- The statement of the spec, from its words: the first search path, main
first and then the list in order, under which the file exists. -/
def first_search_path_with_file (fs : Files) (target : String) (main_search_pathname : String)
    (search_pathnames : List String) : Option String :=
  (main_search_pathname :: search_pathnames).find?
    (fun sp => fs.utils_files_exists (candidate_pathname sp target))

/-- A file system given by the files and the directories it holds; the parent
of a pathname is what precedes its last `/`. -/
def files_of (files dirs : List String) : Files :=
  { utils_files_exists := fun p => decide (p ∈ files ∨ p ∈ dirs),
    utils_files_is_directory := fun p => decide (p ∈ dirs),
    utils_files_parent_pathname := fun p =>
      String.mk ((p.data.reverse.dropWhile (fun c => c != '/')).drop 1).reverse }

/-! ## Import of built-in native modules (compiler.c) -/

/-- The state `import_native` and the import statement work on. `initialized`
holds the names of the native modules whose static pointer
(`os_native_module`, ...) is set: the statics belong to the process and are
shared by the compilers of all modules. `globals` are the globals of the
module being compiled and `module_symbols` the module symbols its scope
manager has defined; `objs` counts the `NativeModuleObj`s created. -/
structure NativeImports where
  initialized : List String
  globals : List (String × GlobalValue)
  module_symbols : List String
  objs : Nat
deriving DecidableEq, Repr

/-- The built-in native modules `import_native` knows; `raylib` only when the
program is built with `RAYLIB`. -/
def native_module_names (raylib : Bool) : List String :=
  ["os", "math", "random", "time", "io", "nbarray"] ++ (if raylib then ["raylib"] else [])

/-- `import_native`: the returned flag and the state afterwards. Every branch
of the C function has the shape given here for its name. Modelled from the
spec: `vm_factory_module_globals_add_obj`, which is not among the sources,
registers a global with the given access whose value is the object. -/
def import_native (raylib : Bool) (name : String) (st : NativeImports) : Nat × NativeImports :=
  if name ∈ native_module_names raylib then
    if name ∉ st.initialized then
      (1, { st with
        initialized := st.initialized ++ [name],
        globals := st.globals ++ [(name, { access := .PRIVATE, value := .obj st.objs })],
        objs := st.objs + 1 })
    else (1, st)
  else (0, st)

/-- The `IMPORT_STMT_TYPE` case of `compile_stmt` for one name, as far as
the import of a native module goes: `some` of the state when the statement is
done with it, `none` when the name is no native module and file resolution
takes over. Modelled from the spec: `scope_manager_define_module` defines a module
symbol under the declaration name. -/
def import_stmt_native (raylib : Bool) (search_name : String) (alt_name : Option String)
    (st : NativeImports) : Option NativeImports :=
  let declaration_name := alt_name.getD search_name
  match import_native raylib search_name st with
  | (0, _) => none
  | (_, st1) => some { st1 with module_symbols := st1.module_symbols ++ [declaration_name] }

/-- The state in which the compilation of a module starts: the statics are
what the compilations before left, the module has no globals yet and its scope
manager no module symbols. -/
def NativeImports.next_module (st : NativeImports) : NativeImports :=
  { st with globals := [], module_symbols := [] }

/-- The state in which the first compilation of a process starts. -/
def NativeImports.start : NativeImports :=
  { initialized := [], globals := [], module_symbols := [], objs := 0 }

/-! ## Garbage collector (vmu.c)

The collector is embedded on its own state: the value stack up to its top, the
modules stack, the globals of the modules and the objects with their headers.
An object pointer is an index into `objs`; a destroyed object leaves `none`
there. The tables of dicts, records and globals are lists of their entries,
visited in the order of the list. The three `ObjList`s are the lists of the
pointers they hold, head first. -/

/-- `ObjColor` of obj.h. -/
inductive ObjColor where
  | TRANSPARENT | WHITE | GRAY | BLACK
deriving DecidableEq, Repr

/-- The objects of obj.h with the contents the collector and the stringifier
read; a closure comes with the values of its `OutValue`s, which neither of
them reads. -/
inductive HObj where
  | str (buff : String)
  | array (values : List Value)
  | list (items : List Value)
  | dict (key_values : List (Value × Value))
  | record (attrs : Option (List (String × Value)))
  | native (name : String)
  | native_fn (name : String) (arity : Nat) (target : Value)
  | fn (name : String) (arity : Nat)
  | closure (out_values : List Value)
  | native_module (symbols : List (String × Value))
  | module (module : Nat)
deriving DecidableEq, Repr

/-- An object with the color of its header. -/
structure GcObj where
  color : ObjColor
  obj : HObj
deriving DecidableEq, Repr

/-- The part of a `Module` the collector reads: its globals and the link of
the modules stack. -/
structure GcModule where
  globals : List (String × GlobalValue)
  prev : Option Nat
deriving DecidableEq, Repr

/-- The part of the `VM` the collector works on. -/
structure Collector where
  stack : List Value
  modules_stack : Option Nat
  modules : List GcModule
  objs : List (Option GcObj)
  white_objs : List Nat
  gray_objs : List Nat
  black_objs : List Nat
deriving DecidableEq, Repr

/-- What collector code leaves: a state, undefined behaviour of the C code (a
null pointer or a destroyed object is read), or the bound on the turns of a
loop of this embedding was too small. -/
inductive Collected where
  | ok (c : Collector)
  | ub
  | out_of_fuel
deriving DecidableEq, Repr

def Collected.bind (r : Collected) (f : Collector → Collected) : Collected :=
  match r with
  | .ok c => f c
  | .ub => .ub
  | .out_of_fuel => .out_of_fuel

/-- Modelled from the spec: `obj_list_remove` of obj.c, which is not among the
sources: the object leaves the list that holds it. -/
def obj_list_remove (obj : Nat) (c : Collector) : Collector :=
  { c with white_objs := c.white_objs.filter (fun p => p != obj),
           gray_objs := c.gray_objs.filter (fun p => p != obj),
           black_objs := c.black_objs.filter (fun p => p != obj) }

/-- Assignment to `color` in the header of an object. -/
def set_color (obj : Nat) (color : ObjColor) (c : Collector) : Collector :=
  match c.objs[obj]? with
  | some (some o) => { c with objs := c.objs.set obj (some { o with color := color }) }
  | _ => c

/-- The statements every root and every traced reference goes through: a value
that is a white object becomes gray and moves to the gray list (modelled from
the spec: `obj_list_insert` appends). The result tells whether the object was
moved, and its contents. -/
def gray_value (value : Value) (c : Collector) : Option (Collector × Option HObj) :=
  match value with
  | .obj obj =>
    match c.objs[obj]? with
    | some (some o) =>
      if o.color = .WHITE then
        let c1 := obj_list_remove obj (set_color obj .GRAY c)
        some ({ c1 with gray_objs := c1.gray_objs ++ [obj] }, some o.obj)
      else some (c, none)
    | _ => none
  | _ => some (c, none)

/-- The loop of `prepare_module_globals` over the globals of a module; `again`
is the recursive call for the module of a module object that became gray. -/
def prepare_globals_loop (again : Nat → Collector → Collected) :
    List (String × GlobalValue) → Collector → Collected
  | [], c => .ok c
  | (_, global_value) :: globals, c =>
    match gray_value global_value.value c with
    | none => .ub
    | some (c1, some (.module module)) =>
      (again module c1).bind (prepare_globals_loop again globals)
    | some (c1, _) => prepare_globals_loop again globals c1

/-- `prepare_module_globals`; the recursion is bounded by `fuel`. -/
def prepare_module_globals : Nat → Nat → Collector → Collected
  | 0, _, _ => .out_of_fuel
  | fuel + 1, module, c =>
    match c.modules[module]? with
    | none => .ub
    | some m => prepare_globals_loop (prepare_module_globals fuel) m.globals c

/-- The loop of `prepare_worklist` over the slots of the value stack. -/
def prepare_stack_loop (fuel : Nat) : List Value → Collector → Collected
  | [], c => .ok c
  | value :: slots, c =>
    match gray_value value c with
    | none => .ub
    | some (c1, some (.module module)) =>
      (prepare_module_globals fuel module c1).bind (prepare_stack_loop fuel slots)
    | some (c1, _) => prepare_stack_loop fuel slots c1

/-- `prepare_worklist`: the globals of `vm->modules_stack`, the module on top
of the modules stack, and then the value stack. -/
def prepare_worklist (fuel : Nat) (c : Collector) : Collected :=
  match c.modules_stack with
  | none => .ub
  | some module =>
    (prepare_module_globals fuel module c).bind (fun c1 => prepare_stack_loop fuel c1.stack c1)

/-- The values `mark_objs` traces for an object, in the order of its loops, or
`none` when the case reads through a null pointer: the `RECORD_OBJ_TYPE` case
reads `attrs->slots` and `attrs->m` of a record whose `attrs` is null. -/
def traced_values : HObj → Option (List Value)
  | .str _ => some []
  | .array values => some values
  | .list items => some items
  | .dict key_values => some (key_values.flatMap (fun kv => [kv.1, kv.2]))
  | .record (some attrs) => some (attrs.map (fun kv => kv.2))
  | .record none => none
  | .native _ => some []
  | .native_fn _ _ target => some [target]
  | .fn _ _ => some []
  | .closure _ => some []
  | .native_module _ => some []
  | .module _ => some []

/-- The inner loops of `mark_objs`: every traced value that is a white object
becomes gray. -/
def gray_values : List Value → Collector → Option Collector
  | [], c => some c
  | value :: values, c =>
    match gray_value value c with
    | none => none
    | some (c1, _) => gray_values values c1

/-- `mark_objs`; the turns of the `while` loop are bounded by `fuel`. -/
def mark_objs : Nat → Collector → Collected
  | 0, c => if c.gray_objs = [] then .ok c else .out_of_fuel
  | fuel + 1, c =>
    match c.gray_objs with
    | [] => .ok c
    | current :: _ =>
      match c.objs[current]? with
      | some (some o) =>
        match traced_values o.obj with
        | none => .ub
        | some values =>
          match gray_values values c with
          | none => .ub
          | some c1 =>
            let c2 := obj_list_remove current (set_color current .BLACK c1)
            mark_objs fuel { c2 with black_objs := c2.black_objs ++ [current] }
      | _ => .ub

/-- `sweep_objs`: every object of the white list is destroyed, then the list is
emptied. The destructors are embedded by what they leave of the object; the
removal of a string from the intern table is not. -/
def sweep_objs (c : Collector) : Collector :=
  { c with objs := c.white_objs.foldl (fun objs obj => objs.set obj none) c.objs,
           white_objs := [] }

/-- `normalize_objs`: every object of the black list becomes white and moves to
the white list. -/
def normalize_objs (c : Collector) : Collector :=
  c.black_objs.foldl (fun acc obj =>
    let c1 := obj_list_remove obj (set_color obj .WHITE acc)
    { c1 with white_objs := c1.white_objs ++ [obj] }) c

/-- `vmu_gc`. -/
def vmu_gc (fuel : Nat) (c : Collector) : Collected :=
  ((prepare_worklist fuel c).bind (mark_objs fuel)).bind
    (fun c1 => .ok (normalize_objs (sweep_objs c1)))

/-- The color of the object at `p`, when it is alive. -/
def Collector.color (c : Collector) (p : Nat) : Option ObjColor :=
  match c.objs[p]? with
  | some (some o) => some o.color
  | _ => none

/-- The contents of the object at `p`, when it is alive. -/
def Collector.content (c : Collector) (p : Nat) : Option HObj :=
  match c.objs[p]? with
  | some (some o) => some o.obj
  | _ => none

/-- The object `obj` is alive, white and in the white list. -/
def Collector.white_alive (c : Collector) (obj : Nat) : Prop :=
  c.color obj = some .WHITE ∧ obj ∈ c.white_objs

instance (c : Collector) (obj : Nat) : Decidable (c.white_alive obj) := by
  unfold Collector.white_alive
  infer_instance

/-- The object `obj` has been destroyed. -/
def Collector.destroyed (c : Collector) (obj : Nat) : Prop := c.objs[obj]? = some none

instance (c : Collector) (obj : Nat) : Decidable (c.destroyed obj) := by
  unfold Collector.destroyed
  infer_instance

/-- The values an object refers to, in the words of the spec: array elements,
list items, dict keys and values, record attribute values and the bound target
of a native function. -/
def HObj.refs : HObj → List Value
  | .array values => values
  | .list items => items
  | .dict key_values => key_values.flatMap (fun kv => [kv.1, kv.2])
  | .record attrs => (attrs.getD []).map (fun kv => kv.2)
  | .native_fn _ _ target => [target]
  | _ => []

/-- The values the object at `p` refers to. -/
def Collector.refs (c : Collector) (p : Nat) : List Value :=
  match c.content p with
  | some o => o.refs
  | none => []

/-- The values of the globals of module `m`. -/
def Collector.global_values (c : Collector) (m : Nat) : List Value :=
  match c.modules[m]? with
  | some module => module.globals.map (fun kv => kv.2.value)
  | none => []

/-- The globals of the module on top of the modules stack. -/
def Collector.top_global_values (c : Collector) : List Value :=
  match c.modules_stack with
  | some m => c.global_values m
  | none => []

/-- The globals of all modules on the modules stack, the top first; `fuel`
bounds the walk over the `prev` links. -/
def Collector.stacked_global_values (c : Collector) : Nat → Option Nat → List Value
  | 0, _ => []
  | _ + 1, none => []
  | fuel + 1, some m =>
    match c.modules[m]? with
    | some module => c.global_values m ++ c.stacked_global_values fuel module.prev
    | none => []

/-- An object is reachable from `roots` when a root holds it or an object
reachable from `roots` refers to it. -/
inductive Collector.reachable (c : Collector) (roots : List Value) : Nat → Prop where
  | root (p : Nat) : Value.obj p ∈ roots → Collector.reachable c roots p
  | ref (p q : Nat) : Collector.reachable c roots p → Value.obj q ∈ c.refs p →
      Collector.reachable c roots q

/-- An object is within the reach of the root scan from `roots` when it is
reachable from them through the references of objects and, from a module
object, through the globals of its module. -/
inductive Collector.scanned (c : Collector) (roots : List Value) : Nat → Prop where
  | root (p : Nat) : Value.obj p ∈ roots → Collector.scanned c roots p
  | ref (p q : Nat) : Collector.scanned c roots p → Value.obj q ∈ c.refs p →
      Collector.scanned c roots q
  | global (p m q : Nat) : Collector.scanned c roots p → c.content p = some (.module m) →
      Value.obj q ∈ c.global_values m → Collector.scanned c roots q

/-- The state between two collections: the gray and the black list are empty,
the white list holds exactly the alive objects colored white, and every other
alive object is transparent, in no list. -/
def Collector.idle (c : Collector) : Prop :=
  c.gray_objs = [] ∧ c.black_objs = [] ∧
  (∀ p ∈ c.white_objs, c.color p = some .WHITE) ∧
  (∀ p, p < c.objs.length →
    (c.color p = some .WHITE → p ∈ c.white_objs) ∧
    c.color p ≠ some .GRAY ∧ c.color p ≠ some .BLACK)

instance (c : Collector) : Decidable c.idle := by
  unfold Collector.idle
  infer_instance

/-- The value is no pointer to a destroyed or missing object. -/
def Collector.valid (c : Collector) (v : Value) : Bool :=
  match v with
  | .obj p => (c.content p).isSome
  | _ => true

/-- The module of a module object is one of the modules. -/
def Collector.valid_module (c : Collector) (p : Nat) : Bool :=
  match c.content p with
  | some (.module m) => decide (m < c.modules.length)
  | _ => true

/-- No pointer dangles: the stack, the globals of the modules and the alive
objects hold pointers to alive objects only, the modules stack is not empty and
the modules named are there. -/
def Collector.closed (c : Collector) : Prop :=
  (∀ v ∈ c.stack, c.valid v = true) ∧
  (∀ m, m < c.modules.length → ∀ v ∈ c.global_values m, c.valid v = true) ∧
  (∀ p, p < c.objs.length → (∀ v ∈ c.refs p, c.valid v = true) ∧ c.valid_module p = true) ∧
  (∃ m, m < c.modules.length ∧ c.modules_stack = some m)

instance (c : Collector) : Decidable c.closed := by
  unfold Collector.closed
  infer_instance

/-- Every alive object is in one of the lists of the collector. -/
def Collector.managed (c : Collector) : Prop :=
  ∀ p, p < c.objs.length → c.color p ≠ some .TRANSPARENT

instance (c : Collector) : Decidable c.managed := by
  unfold Collector.managed
  infer_instance

/-- No alive object is a record whose `attrs` is null. -/
def Collector.no_null_attrs (c : Collector) : Prop :=
  ∀ p, p < c.objs.length → c.content p ≠ some (.record none)

instance (c : Collector) : Decidable c.no_null_attrs := by
  unfold Collector.no_null_attrs
  infer_instance

/-- The state in which `mark_objs` leaves the collector, when it gets there. -/
def marked (fuel : Nat) (c : Collector) : Collected :=
  (prepare_worklist fuel c).bind (mark_objs fuel)

/-- A white object in the white list. -/
def white (obj : HObj) : Option GcObj := some { color := .WHITE, obj := obj }

/-- A collector state with a cyclic graph on the stack. Object 0 is the entry
function, in slot 0 of the stack. Object 1 is a list in slot 1 that holds
itself, the array 2 and the dict 4. The array 2 holds the string 3 twice. The
dict 4 maps the string 3 to the record 5, whose attribute `next` is the native
function 6 bound to the list 1. Objects 7 (a list holding the string 8) and 8
are referenced by nothing. The main module, alone on the modules stack, has no
globals. -/
def c24_collector : Collector :=
  { stack := [.obj 0, .obj 1],
    modules_stack := some 0,
    modules := [{ globals := [], prev := none }],
    objs := [white (.fn "entry" 0),
             white (.list [.obj 1, .obj 2, .obj 4]),
             white (.array [.obj 3, .obj 3]),
             white (.str "k"),
             white (.dict [(.obj 3, .obj 5)]),
             white (.record (some [("next", .obj 6)])),
             white (.native_fn "len" 0 (.obj 1)),
             white (.list [.obj 8]),
             white (.str "lost")],
    white_objs := [0, 1, 2, 3, 4, 5, 6, 7, 8],
    gray_objs := [],
    black_objs := [] }

/-- A collector state whose stack holds, above the entry function, the record
`\x7b\x7d` created by `OP_RECORD` with length 0, whose `attrs` is null. -/
def c24_collector_empty_record : Collector :=
  { stack := [.obj 0, .obj 1],
    modules_stack := some 0,
    modules := [{ globals := [], prev := none }],
    objs := [white (.fn "entry" 0), white (.record none)],
    white_objs := [0, 1],
    gray_objs := [],
    black_objs := [] }

/-- A collector state while an imported module initializes: module 1 is on top
of the modules stack and the main module 0 below it. The global `xs` of the
main module holds the list 2, which nothing else references; the global `a` of
the main module holds the module object 3 of module 1, made by the compiler
and in none of the lists. The stack holds the two entry functions. -/
def c25_collector : Collector :=
  { stack := [.obj 0, .obj 1],
    modules_stack := some 1,
    modules := [{ globals := [("xs", { access := .PRIVATE, value := .obj 2 }),
                              ("a", { access := .PRIVATE, value := .obj 3 })],
                  prev := none },
                { globals := [("hidden", { access := .PRIVATE, value := .int 1 })],
                  prev := some 0 }],
    objs := [white (.fn "entry" 0), white (.fn "import entry" 0),
             white (.list [.int 1, .int 2]),
             some { color := .TRANSPARENT, obj := .module 1 }],
    white_objs := [0, 1, 2],
    gray_objs := [],
    black_objs := [] }

/-- The state of `c25_collector` with the main module alone on the modules
stack. -/
def c25_collector_main : Collector :=
  { c25_collector with
    modules_stack := some 0,
    modules := [{ globals := [("xs", { access := .PRIVATE, value := .obj 2 }),
                              ("a", { access := .PRIVATE, value := .obj 3 })],
                  prev := none },
                { globals := [("hidden", { access := .PRIVATE, value := .int 1 })],
                  prev := none }] }

/-! ## The stringifier (vmu.c)

`value_to_str` and `obj_to_str` over the objects `HObj` and the globals of the
modules. A `PassValue` is passed by value; the chain a call sees through its
`prev` pointers is the list of the nodes, the node of the call first, each with
its object and whether its `next` pointer is set. -/

/-- The objects and modules the stringifier reads. -/
structure Store where
  objs : List HObj
  globals : List (List (String × GlobalValue))
deriving DecidableEq, Repr

/-- What the stringifier leaves: the text appended to the `LZBStr` and the text
printed with `printf`; undefined behaviour of the C code; or the bound on the
depth of the recursion of this embedding was too small. -/
inductive Rendered where
  | ok (str : String) (stdout : String)
  | ub
  | out_of_fuel
deriving DecidableEq, Repr

/-- One thing after the other. -/
def Rendered.append (a b : Rendered) : Rendered :=
  match a with
  | .ok s1 o1 =>
    match b with
    | .ok s2 o2 => .ok (s1 ++ s2) (o1 ++ o2)
    | .ub => .ub
    | .out_of_fuel => .out_of_fuel
  | .ub => .ub
  | .out_of_fuel => .out_of_fuel

/-- A chain of `PassValue`s: for every node its `obj` and whether `next` is
set; the empty chain stands for the zeroed `PassValue`. -/
abbrev Pass := List (Nat × Bool)

/-- The loop at the head of `obj_to_str`: a node of the chain whose `next` is
set holds the object. -/
def on_path (pass : Pass) (obj : Nat) : Bool :=
  pass.any (fun node => node.2 && node.1 == obj)

/-- The chain `value_to_str` hands to `obj_to_str` for an object: with a
non-null `pass.obj` a new node before the chain, whose first node gets its
`next` set; otherwise the node of the object alone. -/
def next_pass (pass : Pass) (obj : Nat) : Pass :=
  match pass with
  | [] => [(obj, false)]
  | node :: prev => (obj, false) :: (node.1, true) :: prev

/-- The steps the case of an object kind in `obj_to_str` goes through: text
appended to the string, text printed with `printf`, and calls of
`value_to_str`. -/
inductive Piece where
  | text (s : String)
  | printed (s : String)
  | value (v : Value)
deriving DecidableEq, Repr

/-- `is_value_str` on the store. -/
def Store.is_value_str (h : Store) (v : Value) : Bool :=
  match v with
  | .obj p =>
    match h.objs[p]? with
    | some (.str _) => true
    | _ => false
  | _ => false

/-- A value of a container: between quotes when it is a string. -/
def Store.quoted (h : Store) (v : Value) : List Piece :=
  if h.is_value_str v then [.text "'", .value v, .text "'"] else [.value v]

/-- The loops of the array and list cases: the items, with `, ` after each but
the last. -/
def Store.items_pieces (h : Store) : List Value → List Piece
  | [] => []
  | [v] => h.quoted v
  | v :: vs => h.quoted v ++ [.text ", "] ++ h.items_pieces vs

/-- The loop of the dict case: `count` is the number of entries done and `n`
the number of entries of the table. -/
def Store.dict_pieces (h : Store) (n : Nat) : Nat → List (Value × Value) → List Piece
  | _, [] => []
  | count, (key, value) :: kvs =>
    h.quoted key ++ [.text ": "] ++ h.quoted value ++
      (if count + 1 < n then [.text ", "] else []) ++ h.dict_pieces n (count + 1) kvs

/-- The loop of the record case. -/
def Store.record_pieces (h : Store) (n : Nat) : Nat → List (String × Value) → List Piece
  | _, [] => []
  | count, (key, value) :: kvs =>
    [.text (key ++ ": ")] ++ h.quoted value ++
      (if count + 1 < n then [.text ", "] else []) ++ h.record_pieces n (count + 1) kvs

/-- The loop of the native module case; `count` is raised before it is
compared. -/
def native_module_pieces (n : Nat) : Nat → List (String × Value) → List Piece
  | _, [] => []
  | count, (name, value) :: kvs =>
    [.text (name ++ ": "), .value value] ++
      (if count + 1 < n then [.text ", "] else []) ++ native_module_pieces n (count + 1) kvs

/-- The loop of the module case: `u` counts the globals met, raised before the
access is looked at; a private global is skipped. -/
def module_pieces (n : Nat) : Nat → List (String × GlobalValue) → List Piece
  | _, [] => []
  | u, (global_name, global_value) :: globals =>
    if u < n then
      (if global_value.access = .PRIVATE then []
       else [.text (global_name ++ ": "), .value global_value.value] ++
         (if u + 1 + 1 < n then [.text ", "] else [])) ++
        module_pieces n (u + 1) globals
    else []

/-- The text `%p` gives for an object pointer, which C leaves to the
implementation: here `0x` and the index of the object. -/
def pointer_text (obj : Nat) : String := "0x" ++ toString obj

/-- The text `%.6f` gives for a float; the digits are not embedded, the text
names the bit pattern. -/
def float_text (bits : Nat) : String := "<float " ++ toString bits ++ ">"

/-- The `switch` of `obj_to_str`: the steps of the case of the object, or
`none` when the case reads through a null pointer: the `RECORD_OBJ_TYPE` case
reads `attrs->n` of a record whose `attrs` is null. -/
def Store.pieces (h : Store) (obj : Nat) : HObj → Option (List Piece)
  | .str buff => some [.text buff]
  | .array values => some ([.text "["] ++ h.items_pieces values ++ [.text "]"])
  | .list items => some ([.text "("] ++ h.items_pieces items ++ [.text ")"])
  | .dict key_values =>
    some ([.text "\x7b"] ++ h.dict_pieces key_values.length 0 key_values ++ [.text "\x7d"])
  | .record (some attrs) =>
    some ([.text "\x7b"] ++ h.record_pieces attrs.length 0 attrs ++ [.text "\x7d"])
  | .record none => none
  | .native name => some [.printed ("<native '" ++ name ++ "'>")]
  | .native_fn name arity _ =>
    some [.text ("<native function '" ++ name ++ "' " ++ toString arity ++ " " ++
      pointer_text obj ++ ">")]
  | .fn name arity =>
    some [.text ("<function '" ++ name ++ "' " ++ toString arity ++ " " ++
      pointer_text obj ++ ">")]
  | .closure _ => some [.text ("<closure " ++ pointer_text obj ++ ">")]
  | .native_module symbols =>
    some ([.text "\x7b"] ++ native_module_pieces symbols.length 0 symbols ++ [.text "\x7d"])
  | .module module =>
    match h.globals[module]? with
    | some globals => some ([.text "\x7b"] ++ module_pieces globals.length 0 globals ++ [.text "\x7d"])
    | none => none

/-- `value_to_str` for a value, given `obj_to_str`. -/
def value_to_str_with (obj_to_str : Pass → Nat → Rendered) (pass : Pass) :
    Value → Rendered
  | .empty => .ok "empty" ""
  | .bool b => .ok (if b then "true" else "false") ""
  | .int i => .ok (toString i) ""
  | .float bits => .ok (float_text bits) ""
  | .obj obj => obj_to_str (next_pass pass obj) obj

/-- The steps of a case of `obj_to_str`, one after the other. -/
def render_pieces (obj_to_str : Pass → Nat → Rendered) (pass : Pass) :
    List Piece → Rendered
  | [] => .ok "" ""
  | .text s :: ps => (Rendered.ok s "").append (render_pieces obj_to_str pass ps)
  | .printed s :: ps => (Rendered.ok "" s).append (render_pieces obj_to_str pass ps)
  | .value v :: ps =>
    (value_to_str_with obj_to_str pass v).append (render_pieces obj_to_str pass ps)

/-- `obj_to_str`; the depth of the recursion is bounded by `fuel`. -/
def obj_to_str (h : Store) : Nat → Pass → Nat → Rendered
  | 0, pass, obj => if on_path pass obj then .ok "..." "" else .out_of_fuel
  | fuel + 1, pass, obj =>
    if on_path pass obj then .ok "..." ""
    else
      match h.objs[obj]? with
      | none => .ub
      | some o =>
        match h.pieces obj o with
        | none => .ub
        | some ps => render_pieces (obj_to_str h fuel) pass ps

/-- `value_to_str`. -/
def value_to_str (h : Store) (fuel : Nat) (pass : Pass) (value : Value) : Rendered :=
  value_to_str_with (obj_to_str h fuel) pass value

/-- `vmu_value_to_str_w`: `value_to_str` with the zeroed `PassValue`; the depth
granted is one more than the number of objects. -/
def vmu_value_to_str_w (h : Store) (value : Value) : Rendered :=
  value_to_str h (h.objs.length + 1) [] value

/-- A store with cycles. Object 0 is a list that holds itself and the int 1.
Objects 1 and 2 are records that point at each other through `next`. Object 3
is a list that holds the list 4 twice; the list 4 holds the string 5. -/
def c27_store : Store :=
  { objs := [.list [.obj 0, .int 1],
             .record (some [("next", .obj 2)]),
             .record (some [("next", .obj 1)]),
             .list [.obj 4, .obj 4],
             .list [.obj 5],
             .str "x"],
    globals := [] }

/-- A store with the record `\x7b\x7d`, whose `attrs` is null, alone and inside
a list. -/
def c27_store_empty_record : Store :=
  { objs := [.record none, .list [.obj 0]], globals := [] }

/-! ## Concrete inputs: `try` inside `catch` -/

/-- The message of the compile error a compilation was aborted with. -/
def compiler.CRes.failure {α : Type} (r : compiler.CRes α) : Option String :=
  match r with
  | .error msg => some msg
  | _ => none

/-- The body of `proc f() \x7b try \x7b empty \x7d catch \x7b try \x7b empty \x7d catch \x7b empty \x7d \x7d \x7d`:
a try statement directly in a catch block. -/
def c30_direct : List compiler.Stmt :=
  [.TRY (some [.EXPR .EMPTY]) (some [.TRY (some [.EXPR .EMPTY]) (some [.EXPR .EMPTY])])]

/-- The body of `proc f() \x7b try \x7b throw \x7d catch \x7b \x7b try \x7b throw \x7d catch \x7b empty \x7d \x7d \x7d \x7d`:
a try statement in a block inside a catch block. -/
def c30_in_block : List compiler.Stmt :=
  [.TRY (some [.THROW none])
    (some [.BLOCK (some [.TRY (some [.THROW none]) (some [.EXPR .EMPTY])])])]

/-- The function of `c30_in_block`, compiled. -/
def c30_f : Fn :=
  compiler.compiled (compiler.compile_function "f" [] c30_in_block 0 c10_compiler)

/-- The program `f()` around `c30_f` after `n` instructions of `vm_execute`;
entry function and module are those of the recursion program. -/
def c30_state (n : Nat) : VM :=
  (vm_execute n 0 (VM.init [rec_main, c30_f] [] [rec_module] [.fn 1])).vm

/-- The outcome is a normal end: `vm_execute` returns `OK_VMRESULT`. -/
def Outcome.is_ok : Outcome → Prop
  | .halted code _ => code = OK_VMRESULT
  | _ => False

instance (o : Outcome) : Decidable o.is_ok :=
  match o with
  | .halted code _ => inferInstanceAs (Decidable (code = OK_VMRESULT))
  | .running _ => isFalse (fun h => h)
  | .ub => isFalse (fun h => h)
  | .unmodelled => isFalse (fun h => h)

/-! ## Concrete inputs: `export` -/

/-- The static strings a compilation leaves in the module, or none when it
failed. -/
def compiler.CRes.strings {α : Type} (r : compiler.CRes α) : List String :=
  match r with
  | .ok _ c => c.strings
  | _ => []

/-- The statements of `a.ze` of S5: `let hidden = 1`, `export shared`,
`let shared = 42`. -/
def s5_a_source : List compiler.Stmt :=
  [.VAR_DECL "hidden" (some (.INT 1)), .EXPORT ["shared"], .VAR_DECL "shared" (some (.INT 42))]

/-- The entry function the compiler leaves for `s5_a_source`: `INT 1`,
`GDEF hidden`, `GASET shared 1`, `INT 42`, `GDEF shared`, `EMPTY`, `RET`. -/
def s5_a_compiled_entry : Fn :=
  { name := "import entry", arity := 0, module := 1, fconsts := [], iconsts := [1, 42],
    chunks := [OpCode.INT.byte, 0, 0, OpCode.GDEF.byte, 0, 0, OpCode.GASET.byte, 0, 1, 1,
               OpCode.INT.byte, 0, 1, OpCode.GDEF.byte, 0, 2, OpCode.EMPTY.byte,
               OpCode.RET.byte] }

/-- Module `a` of S5 as the compiler leaves it: the static strings of the
compilation of `s5_a_source`, no globals yet, not resolved. -/
def s5_a_compiled_module : Module :=
  { name := "a", entry_fn := 1, strings := ["hidden", "shared", "shared"],
    symbols := [.FUNCTION 1], globals := [], resolved := false, prev := none }

/-- What `vm_execute` leads S5 to within `n` instructions when module `a` is
not yet initialised: `main.ze` without the `println` wrappers, module `a` as
compiled from its statements. -/
def s5_compiled_outcome (n : Nat) : Outcome :=
  vm_execute n 0 (VM.init [s5_main, s5_a_compiled_entry] []
    [s5_main_module, s5_a_compiled_module] [.module 1])

/-- The statements of `a.ze` of S5 with the export statement after the
declarations: `let hidden = 1`, `let shared = 42`, `export shared`. -/
def s5_a_source_export_last : List compiler.Stmt :=
  [.VAR_DECL "hidden" (some (.INT 1)), .VAR_DECL "shared" (some (.INT 42)), .EXPORT ["shared"]]

/-- The entry function the compiler leaves for `s5_a_source_export_last`:
`INT 1`, `GDEF hidden`, `INT 42`, `GDEF shared`, `GASET shared 1`, `EMPTY`,
`RET`. -/
def s5_a_entry_export_last : Fn :=
  { name := "import entry", arity := 0, module := 1, fconsts := [], iconsts := [1, 42],
    chunks := [OpCode.INT.byte, 0, 0, OpCode.GDEF.byte, 0, 0, OpCode.INT.byte, 0, 1,
               OpCode.GDEF.byte, 0, 1, OpCode.GASET.byte, 0, 2, 1, OpCode.EMPTY.byte,
               OpCode.RET.byte] }

/-- The module of `s5_a_source_export_last` as the compiler leaves it. -/
def s5_a_module_export_last : Module :=
  { name := "a", entry_fn := 1, strings := ["hidden", "shared", "shared"],
    symbols := [.FUNCTION 1], globals := [], resolved := false, prev := none }

/-- What `vm_execute` leads S5 to within `n` instructions with the export
statement of `a.ze` after the declarations. -/
def s5_export_last_outcome (n : Nat) : Outcome :=
  vm_execute n 0 (VM.init [s5_main, s5_a_entry_export_last] []
    [s5_main_module, s5_a_module_export_last] [.module 1])

/-- The state of `s5_export_last_outcome`. -/
def s5_export_last_state (n : Nat) : VM := (s5_export_last_outcome n).vm

/-- Module `a` of `s5_a_source_export_last` when its export statement is
reached: both globals are defined and private, and the module is on the modules
stack above the main module. -/
def s5_a_module_at_export : Module :=
  { s5_a_module_export_last with
    globals := [("hidden", { access := .PRIVATE, value := .int 1 }),
                ("shared", { access := .PRIVATE, value := .int 42 })],
    prev := some 0 }

/-- Module `a` of `s5_a_source_export_last` once its entry function has run:
`hidden` is private and holds 1, `shared` has been made public by the export
statement and holds 42. -/
def s5_a_module_exported : Module :=
  { s5_a_module_export_last with
    globals := [("hidden", { access := .PRIVATE, value := .int 1 }),
                ("shared", { access := .PUBLIC, value := .int 42 })],
    resolved := true }

/-! ## Vocabulary and programs for `is` -/

/-- The type of the object a value points to, when it is an object value. -/
def value_obj_type (vm : VM) (v : Value) : Option ObjType := (value_obj vm v).map Obj.type

/-- The statement of the spec, from its words: the value is of the kind the
type keyword names; `proc` covers functions, closures and native functions. -/
def is_of_kind (vm : VM) (v : Value) : compiler.TypeKeyword → Bool
  | .EMPTY => decide (v = .empty)
  | .BOOL =>
    match v with
    | .bool _ => true
    | _ => false
  | .INT =>
    match v with
    | .int _ => true
    | _ => false
  | .FLOAT =>
    match v with
    | .float _ => true
    | _ => false
  | .STR => decide (value_obj_type vm v = some .STR_OBJ_TYPE)
  | .ARRAY => decide (value_obj_type vm v = some .ARRAY_OBJ_TYPE)
  | .LIST => decide (value_obj_type vm v = some .LIST_OBJ_TYPE)
  | .DICT => decide (value_obj_type vm v = some .DICT_OBJ_TYPE)
  | .RECORD => decide (value_obj_type vm v = some .RECORD_OBJ_TYPE)
  | .PROC =>
    decide (value_obj_type vm v = some .FN_OBJ_TYPE ∨
      value_obj_type vm v = some .CLOSURE_OBJ_TYPE ∨
      value_obj_type vm v = some .NATIVE_FN_OBJ_TYPE)

/-- The object types the `switch` of `OP_IS` has no case for: native objects
(byte arrays, files, random generators), native modules and modules. -/
def is_without_case (t : ObjType) : Bool :=
  decide (t = .NATIVE_OBJ_TYPE ∨ t = .NATIVE_MODULE_OBJ_TYPE ∨ t = .MODULE_OBJ_TYPE)

/-- `proc f(r) \x7b r is list \x7d`, compiled. -/
def c23_f : Fn :=
  compiler.compiled (compiler.compile_function "f" ["r"]
    [.EXPR (.IS (.IDENTIFIER "r") .LIST)] 0 c10_compiler)

/-- The program `f(r)` around `c23_f` with the global `r` bound to the heap
object `o`, after `n` instructions of `vm_execute`; entry function and module
are those of the program of C9. -/
def c23_outcome (o : Obj) (n : Nat) : Outcome :=
  vm_execute n 0 (VM.init [c9_main, c23_f] [] [c9_module] [.fn 1, o])

/-- The state of `c23_outcome`. -/
def c23_state (o : Obj) (n : Nat) : VM := (c23_outcome o n).vm

/-! ## Vocabulary and programs for `or` and `and` -/

/-- The opcode `compile_expr` emits for a logical operator. -/
def compiler.LogicalOp.opcode : compiler.LogicalOp → OpCode
  | .OR => .OR
  | .AND => .AND

/-- The value of the left operand at which the operator skips the right
operand: true for `or`, false for `and`. -/
def compiler.LogicalOp.short : compiler.LogicalOp → Bool
  | .OR => true
  | .AND => false

/-- The name of the operator in the message of `OP_OR` and `OP_AND`. -/
def compiler.LogicalOp.lexeme : compiler.LogicalOp → String
  | .OR => "or"
  | .AND => "and"

/-- The emission of the `LOGICAL_EXPRTYPE` case after the left operand, with
the code of the right operand given as chunks: the `or`/`and` jump to the end
label, the code of the right operand, the end label. -/
def c22_emit (operator : compiler.LogicalOp) (body : List Nat) : compiler.Comp PUnit := do
  compiler.jmp_like operator.opcode "L"
  compiler.write_chunks body
  compiler.label "L"

/-- The function `c22_emit` leaves at `c1_start`, with the two bytes after the
opcode set to `b0`, `b1`. -/
def c22_fn (operator : compiler.LogicalOp) (body : List Nat) (b0 b1 : Nat) : Fn :=
  { name := "f", arity := 0, chunks := [operator.opcode.byte, b0, b1] ++ body, iconsts := [],
    fconsts := [], module := 0 }

/-- The unit `c22_emit` leaves at `c1_start`: the jump at offset 0 with its
placeholder at offset 1, and the label at the end of the body. -/
def c22_unit (operator : compiler.LogicalOp) (body : List Nat) : compiler.Unit :=
  { counter := 0,
    labels := [("L", { offset := 3 + body.length, name := "L" })],
    jmps := [{ update_offset := 1, jump_offset := 3, label_name := "L" }],
    marks := [],
    fn := c22_fn operator body 0 0 }

/-- `proc f() \x7b e \x7d` with the expression `e` as an expression statement,
compiled. -/
def c22_f (e : compiler.Expr) : Fn :=
  compiler.compiled (compiler.compile_function "f" [] [.EXPR e] 0 c10_compiler)

/-- The program `f()` around `c22_f e` within `n` instructions of `vm_execute`;
entry function and module are those of the recursion program. -/
def c22_outcome (e : compiler.Expr) (n : Nat) : Outcome :=
  vm_execute n 0 (VM.init [rec_main, c22_f e] [] [rec_module] [.fn 1])

/-- The state of `c22_outcome`. -/
def c22_state (e : compiler.Expr) (n : Nat) : VM := (c22_outcome e n).vm

/-- `true or 7`. -/
def c22_true_or : compiler.Expr := .LOGICAL (.BOOL true) .OR (.INT 7)

/-- `false or 7`. -/
def c22_false_or : compiler.Expr := .LOGICAL (.BOOL false) .OR (.INT 7)

/-- `false and 7`. -/
def c22_false_and : compiler.Expr := .LOGICAL (.BOOL false) .AND (.INT 7)

/-- `true and 7`. -/
def c22_true_and : compiler.Expr := .LOGICAL (.BOOL true) .AND (.INT 7)

/-- `7 or true`. -/
def c22_int_or : compiler.Expr := .LOGICAL (.INT 7) .OR (.BOOL true)

/-- `false or (true and 7)`. -/
def c22_nested : compiler.Expr :=
  .LOGICAL (.BOOL false) .OR (.LOGICAL (.BOOL true) .AND (.INT 7))

/-! ## Invariants of the collector -/

/-- The lists of the collector agree with the colors of the objects: an object
is in the white, gray or black list exactly when it is alive and has that
color. -/
def Collector.coherent (c : Collector) : Prop :=
  ∀ p, (p ∈ c.white_objs ↔ c.color p = some .WHITE) ∧
    (p ∈ c.gray_objs ↔ c.color p = some .GRAY) ∧
    (p ∈ c.black_objs ↔ c.color p = some .BLACK)

/-- The collector state `c` has the stack, the modules and the objects of
`c0`, up to the colors of the objects. -/
def Collector.same_heap (c0 c : Collector) : Prop :=
  c.stack = c0.stack ∧ c.modules = c0.modules ∧ c.modules_stack = c0.modules_stack ∧
  c.objs.length = c0.objs.length ∧ ∀ p, c.content p = c0.content p

/-- From `c` to `c1` no object became white or transparent: an object that is
not white stays so, and so does one that is not transparent. -/
def Collector.darker (c c1 : Collector) : Prop :=
  ∀ p, (c.color p ≠ some .WHITE → c1.color p ≠ some .WHITE) ∧
    (c.color p ≠ some .TRANSPARENT → c1.color p ≠ some .TRANSPARENT)

/-- No black object refers to a white one. -/
def Collector.tricolor (c : Collector) : Prop :=
  ∀ p ∈ c.black_objs, ∀ q, Value.obj q ∈ c.refs p → c.color q ≠ some .WHITE

/-- Every gray and every black object is within the reach of the root scan of
`c0` from `roots`. -/
def Collector.marked_in_reach (c0 : Collector) (roots : List Value) (c : Collector) : Prop :=
  ∀ p, p ∈ c.gray_objs ∨ p ∈ c.black_objs → c0.scanned roots p

/-- The state a white object `p` with header `o` leaves when it becomes gray. -/
def Collector.grayed (c : Collector) (p : Nat) (o : GcObj) : Collector :=
  { stack := c.stack, modules_stack := c.modules_stack, modules := c.modules,
    objs := c.objs.set p (some { o with color := .GRAY }),
    white_objs := c.white_objs.filter (fun q => q != p),
    gray_objs := c.gray_objs.filter (fun q => q != p) ++ [p],
    black_objs := c.black_objs.filter (fun q => q != p) }

/-- The state a gray object `p` with header `o` leaves when it becomes black. -/
def Collector.blackened (c : Collector) (p : Nat) (o : GcObj) : Collector :=
  { stack := c.stack, modules_stack := c.modules_stack, modules := c.modules,
    objs := c.objs.set p (some { o with color := .BLACK }),
    white_objs := c.white_objs.filter (fun q => q != p),
    gray_objs := c.gray_objs.filter (fun q => q != p),
    black_objs := c.black_objs.filter (fun q => q != p) ++ [p] }

/-- The state a black object `p` with header `o` leaves when it becomes white. -/
def Collector.whitened (c : Collector) (p : Nat) (o : GcObj) : Collector :=
  { stack := c.stack, modules_stack := c.modules_stack, modules := c.modules,
    objs := c.objs.set p (some { o with color := .WHITE }),
    white_objs := c.white_objs.filter (fun q => q != p) ++ [p],
    gray_objs := c.gray_objs.filter (fun q => q != p),
    black_objs := c.black_objs.filter (fun q => q != p) }

/-- What holds of the collector state `c` throughout the root scan of a
collection that started in `c0`. -/
def Collector.scanning (c0 : Collector) (roots : List Value) (c : Collector) : Prop :=
  c.coherent ∧ c0.same_heap c ∧ c0.marked_in_reach roots c

/-- What a part of the root scan that leads from `c` to `c1` keeps. -/
def Collector.scan_step (c0 : Collector) (roots : List Value) (c c1 : Collector) : Prop :=
  c0.scanning roots c1 ∧ c.darker c1 ∧ c1.black_objs = c.black_objs ∧
  c1.white_objs.length + c1.gray_objs.length ≤ c.white_objs.length + c.gray_objs.length ∧
  c1.white_objs.length ≤ c.white_objs.length

/-- One turn of the loop of `normalize_objs`. -/
def normalize_turn (acc : Collector) (obj : Nat) : Collector :=
  let c1 := obj_list_remove obj (set_color obj .WHITE acc)
  { c1 with white_objs := c1.white_objs ++ [obj] }

/-! ## Vocabulary for the stringifier -/

/-- The values the rendering of an object goes into, or `none` for an object
the C code cannot render: a record whose `attrs` is null, a module object whose
module is missing. -/
def Store.shown (h : Store) : HObj → Option (List Value)
  | .str _ => some []
  | .array values => some values
  | .list items => some items
  | .dict key_values => some (key_values.flatMap (fun kv => [kv.1, kv.2]))
  | .record (some attrs) => some (attrs.map (fun kv => kv.2))
  | .record none => none
  | .native _ => some []
  | .native_fn _ _ _ => some []
  | .fn _ _ => some []
  | .closure _ => some []
  | .native_module symbols => some (symbols.map (fun kv => kv.2))
  | .module module =>
    match h.globals[module]? with
    | some globals => some (globals.map (fun kv => kv.2.value))
    | none => none

/-- The value is no pointer outside the objects of the store. -/
def Store.valid (h : Store) (v : Value) : Bool :=
  match v with
  | .obj p => decide (p < h.objs.length)
  | _ => true

/-- The object at `p` can be rendered and shows valid values only. -/
def Store.printable (h : Store) (p : Nat) : Bool :=
  match h.objs[p]? with
  | some o =>
    match h.shown o with
    | some values => values.all h.valid
    | none => false
  | none => false

/-- Every object of the store can be rendered: no pointer dangles, no record
has null `attrs`. -/
def Store.closed (h : Store) : Prop := ∀ p, p < h.objs.length → h.printable p = true

instance (h : Store) : Decidable h.closed := by
  unfold Store.closed
  infer_instance

/-- The objects of the nodes of a chain whose `next` is set: the objects being
rendered on the current recursion path. -/
def path_objs (pass : Pass) : List Nat := (pass.filter (fun node => node.2)).map (fun node => node.1)

/-! ## Concrete inputs and vocabulary: arithmetic, closures, returns and loops -/

/-- The outcome is undefined behaviour. -/
def Outcome.is_ub : Outcome → Prop
  | .ub => True
  | _ => False

instance (o : Outcome) : Decidable o.is_ub :=
  match o with
  | .ub => isTrue trivial
  | .running _ => isFalse (fun h => h)
  | .halted _ _ => isFalse (fun h => h)
  | .unmodelled => isFalse (fun h => h)

/-- An entry function that loads the integers 7 and 0 and takes the remainder
of the first by the second, as an expression statement, then the implicit
`EMPTY`, `RET`. -/
def c39_main : Fn :=
  { name := "entry", arity := 0, module := 0, fconsts := [], iconsts := [],
    chunks := [OpCode.CINT.byte, 7, OpCode.CINT.byte, 0, OpCode.MOD.byte, OpCode.POP.byte,
               OpCode.EMPTY.byte, OpCode.RET.byte] }

/-- The program of `c39_main` after `n` instructions of `vm_execute`. -/
def c39_state (n : Nat) : VM := (vm_execute n 0 (VM.init [c39_main] [] [plain_module] [])).vm

/-- The same entry function with `DIV` in the place of `MOD`. -/
def c39_main_div : Fn :=
  { name := "entry", arity := 0, module := 0, fconsts := [], iconsts := [],
    chunks := [OpCode.CINT.byte, 7, OpCode.CINT.byte, 0, OpCode.DIV.byte, OpCode.POP.byte,
               OpCode.EMPTY.byte, OpCode.RET.byte] }

/-- An anonymous function whose `OGET` names local 1 of the enclosing frame:
`OGET 1`, `RET`. -/
def c38_anon : Fn :=
  { name := "anonymous", arity := 0, module := 0, fconsts := [], iconsts := [],
    chunks := [OpCode.OGET.byte, 1, OpCode.RET.byte] }

/-- The program of C7 with `c38_anon` as the anonymous function, after `n`
instructions of `vm_execute`: the closure `mk` creates captures local 0 only
(its `MetaClosure` has the single `at` 0), and the entry function calls it. -/
def c38_state (n : Nat) : VM :=
  (vm_execute n 0 (VM.init [c7_main, c7_mk, c38_anon] [{ meta_out_values := [0], fn := 2 }]
    [cap_module] [.fn 1])).vm

/-- An entry function, which runs in a frame without closure, that starts with
`OGET 0`. -/
def c38_main_plain : Fn :=
  { name := "entry", arity := 0, module := 0, fconsts := [], iconsts := [],
    chunks := [OpCode.OGET.byte, 0, OpCode.POP.byte, OpCode.EMPTY.byte, OpCode.RET.byte] }

/-- `proc f() { try { ret 1 } catch { empty } }`, compiled. -/
def c36_f : Fn :=
  compiler.compiled (compiler.compile_function "f" []
    [.TRY (some [.RETURN (some (.INT 1))]) (some [.EXPR .EMPTY])] 0 c10_compiler)

/-- `proc g() { f(); throw }`: the call of `f` as an expression statement, a
throw without value, then the implicit `EMPTY`, `RET`. -/
def c36_g : Fn :=
  { name := "g", arity := 0, module := 0, fconsts := [], iconsts := [],
    chunks := [OpCode.GGET.byte, 0, 0, OpCode.CALL.byte, 0, OpCode.POP.byte,
               OpCode.THROW.byte, 0, OpCode.EMPTY.byte, OpCode.RET.byte] }

/-- Entry function of the program of C36: `g()` as an expression statement,
then the implicit `EMPTY`, `RET`. -/
def c36_main : Fn :=
  { name := "entry", arity := 0, module := 0, fconsts := [], iconsts := [],
    chunks := [OpCode.GGET.byte, 0, 1, OpCode.CALL.byte, 0, OpCode.POP.byte,
               OpCode.EMPTY.byte, OpCode.RET.byte] }

/-- The module of the program of C36: the function objects of `f` and `g` are
heap objects 0 and 1. -/
def c36_module : Module :=
  { name := "main", entry_fn := 0, strings := ["f", "g"],
    symbols := [.FUNCTION 0, .FUNCTION 1, .FUNCTION 2],
    globals := [("f", { access := .PRIVATE, value := .obj 0 }),
                ("g", { access := .PRIVATE, value := .obj 1 })],
    resolved := false, prev := none }

/-- The program of C36 loaded in a fresh VM. -/
def c36_vm : VM := VM.init [c36_main, c36_f, c36_g] [] [c36_module] [.fn 1, .fn 2]

/-- The program of C36 after `n` instructions of `vm_execute`. -/
def c36_state (n : Nat) : VM := (vm_execute n 0 c36_vm).vm

/-- The same program around `proc f() { try { empty } catch { empty } }`,
whose try block runs to its `TRYC`. -/
def c36_vm_closed : VM := VM.init [c36_main, c10_f_normal, c36_g] [] [c36_module] [.fn 1, .fn 2]

/-- The body of `proc f() { for i = 0 upto 3 { continue } }`. -/
def c37_continue : List compiler.Stmt :=
  [.FOR_RANGE "i" (.INT 0) true (.INT 3) [.CONTINUE]]

/-- The body of `proc f() { for i = 0 upto 3 { empty } }`, whose loop body runs
to its end. -/
def c37_plain : List compiler.Stmt :=
  [.FOR_RANGE "i" (.INT 0) true (.INT 3) [.EXPR .EMPTY]]

/-- `proc f() { for i = 0 upto 3 { continue } }`, compiled. -/
def c37_f : Fn :=
  compiler.compiled (compiler.compile_function "f" [] c37_continue 0 c10_compiler)

/-- `proc f() { for i = 0 upto 3 { empty } }`, compiled. -/
def c37_f_plain : Fn :=
  compiler.compiled (compiler.compile_function "f" [] c37_plain 0 c10_compiler)

/-- The program `f()` around `c37_f`; entry function and module are those of
the recursion program. -/
def c37_vm : VM := VM.init [rec_main, c37_f] [] [rec_module] [.fn 1]

/-- The program `f()` around `c37_f_plain`. -/
def c37_vm_plain : VM := VM.init [rec_main, c37_f_plain] [] [rec_module] [.fn 1]

/-- The program of `c37_vm` after `n` instructions of `vm_execute`. -/
def c37_state (n : Nat) : VM := (vm_execute n 0 c37_vm).vm

/-- The program of `c37_vm_plain` after `n` instructions of `vm_execute`. -/
def c37_state_plain (n : Nat) : VM := (vm_execute n 0 c37_vm_plain).vm

/-- The current frame runs `f` at `ip` with its `locals` base at stack slot
`base`, and the value stack holds `vals` from slot `base + 1` up to the stack
top. -/
def VM.frame_at (vm : VM) (f : Fn) (ip base : Nat) (vals : List Value) : Prop :=
  vm.runs f ∧ vm.frame.ip = ip ∧ vm.frame.locals = base ∧
  vm.stack_top = base + 1 + vals.length ∧
  ∀ i v, vals[i]? = some v → vm.stack (base + 1 + i) = v

/-- The outcome is a state the dispatch loop goes on from. -/
def Outcome.is_running : Outcome → Prop
  | .running _ => True
  | _ => False

instance (o : Outcome) : Decidable o.is_running :=
  match o with
  | .running _ => isTrue trivial
  | .halted _ _ => isFalse (fun h => h)
  | .ub => isFalse (fun h => h)
  | .unmodelled => isFalse (fun h => h)

/-- A collector state after `proc mk() \x7b let xs = list(); ret anon() \x7b ret xs \x7d \x7d`
has returned its closure to a caller that keeps it in a local: object 0 is the
entry function, in slot 0 of the stack; object 1 is the closure, in slot 1,
whose `OutValue` holds the list 2; the list 2, created in the frame of `mk`, is
held by nothing else. The main module, alone on the modules stack, has no
globals. -/
def c35_collector : Collector :=
  { stack := [.obj 0, .obj 1],
    modules_stack := some 0,
    modules := [{ globals := [], prev := none }],
    objs := [white (.fn "entry" 0), white (.closure [.obj 2]), white (.list [.int 1])],
    white_objs := [0, 1, 2],
    gray_objs := [],
    black_objs := [] }

/-- The state of `c35_collector` while the frame of `mk` is still live: the
local `xs` in slot 2 of the stack holds the list too. -/
def c35_collector_live : Collector :=
  { c35_collector with stack := [.obj 0, .obj 1, .obj 2] }

/-- The compilation ran into undefined behaviour of the C code: a failed
`assert`, or the null pointer read behind it. -/
def compiler.CRes.is_ub {α : Type} : compiler.CRes α → Bool
  | .ub => true
  | _ => false

/-- The body of `proc f() \x7b ret 1 \x7d`. -/
def c31_last : List compiler.Stmt := [.RETURN (some (.INT 1))]

/-- The body of `proc f() \x7b ret 1 empty \x7d`: a return followed by a statement. -/
def c31_followed : List compiler.Stmt := [.RETURN (some (.INT 1)), .EXPR .EMPTY]

/-- The body of `anon(y) \x7b ret y \x7d`. -/
def c31_anon_body : List compiler.Stmt := [.RETURN (some (.IDENTIFIER "y"))]

/-- The body of `anon(y) \x7b \x7b ret y \x7d \x7d`: the return is the last statement of a
block statement. -/
def c31_anon_block_body : List compiler.Stmt := [.BLOCK (some [.RETURN (some (.IDENTIFIER "y"))])]

/-- The scopes at an expression of the body of a procedure without locals. -/
def c31_scopes : compiler.ScopeManager :=
  compiler.scope_manager_push .FN [{ type := .GLOBAL, locals := [], returned := false }]

/-- The compiler state at the only statement of the body of a procedure `mk`:
its unit holds the block of the body, with the cursor on the statement. -/
def c31_compiler : compiler.Compiler :=
  { units_stack :=
      [{ compiler.create_unit
           { name := "mk", arity := 0, chunks := [], iconsts := [], fconsts := [], module := 0 }
         with blocks := [{ stmts_len := 1, current_stmt := 1 }] }],
    strings := [] }

/-! ## The random generator (xoshiro256.c, splitmix64.c) -/

/-- `SplitMix64`: the `uint64_t` state `x`. -/
structure SplitMix64 where
  x : Nat
deriving DecidableEq, Repr

/-- `splitmix64_init`. -/
def splitmix64_init (value : Nat) : SplitMix64 := { x := value % 2 ^ 64 }

/-- `splitmix64_next`: the value returned and the generator after the call;
the arithmetic is that of `uint64_t`. -/
def splitmix64_next (sm64 : SplitMix64) : Nat × SplitMix64 :=
  let x := (sm64.x + 0x9e3779b97f4a7c15) % 2 ^ 64
  let z := x
  let z := ((z ^^^ (z >>> 30)) * 0xbf58476d1ce4e5b9) % 2 ^ 64
  let z := ((z ^^^ (z >>> 27)) * 0x94d049bb133111eb) % 2 ^ 64
  (z ^^^ (z >>> 31), { x := x })

/-- `XOShiro256`: the four `uint64_t` words of `s`. -/
structure XOShiro256 where
  s0 : Nat
  s1 : Nat
  s2 : Nat
  s3 : Nat
deriving DecidableEq, Repr

/-- `rotl` on `uint64_t`. -/
def rotl (x : Nat) (k : Nat) : Nat := ((x <<< k) % 2 ^ 64) ||| (x >>> (64 - k))

/-- `xoshiro256_init_seed`: the four calls of `splitmix64_next` in the
initialiser are taken in textual order. -/
def xoshiro256_init_seed (seed : Nat) : XOShiro256 :=
  let sm64 := splitmix64_init seed
  let (a, sm64) := splitmix64_next sm64
  let (b, sm64) := splitmix64_next sm64
  let (c, sm64) := splitmix64_next sm64
  let (d, _) := splitmix64_next sm64
  { s0 := a, s1 := b, s2 := c, s3 := d }

/-- `xoshiro256_next`: the value returned and the state after the call. -/
def xoshiro256_next (xos256 : XOShiro256) : Nat × XOShiro256 :=
  let result := (rotl ((xos256.s1 * 5) % 2 ^ 64) 7 * 9) % 2 ^ 64
  let t := (xos256.s1 <<< 17) % 2 ^ 64
  let s2 := xos256.s2 ^^^ xos256.s0
  let s3 := xos256.s3 ^^^ xos256.s1
  let s1 := xos256.s1 ^^^ s2
  let s0 := xos256.s0 ^^^ s3
  let s2 := s2 ^^^ t
  let s3 := rotl s3 45
  (result, { s0 := s0, s1 := s1, s2 := s2, s3 := s3 })

/-- The state after `n` calls of `xoshiro256_next`. -/
def xoshiro256_after : Nat → XOShiro256 → XOShiro256
  | 0, xos256 => xos256
  | n + 1, xos256 => xoshiro256_after n (xoshiro256_next xos256).2

/-- The state is everywhere zero. -/
def XOShiro256.all_zero (xos256 : XOShiro256) : Prop :=
  xos256.s0 = 0 ∧ xos256.s1 = 0 ∧ xos256.s2 = 0 ∧ xos256.s3 = 0

instance (xos256 : XOShiro256) : Decidable xos256.all_zero := by
  unfold XOShiro256.all_zero
  infer_instance

/-- Every word of the state is a `uint64_t`. -/
def XOShiro256.words (xos256 : XOShiro256) : Prop :=
  xos256.s0 < 2 ^ 64 ∧ xos256.s1 < 2 ^ 64 ∧ xos256.s2 < 2 ^ 64 ∧ xos256.s3 < 2 ^ 64

/-! ## Command line: the search paths (zeus.c) -/

/-- `OS_PATH_SEPARATOR` of utils.h. -/
def OS_PATH_SEPARATOR (windows : Bool) : Char := if windows then ';' else ':'

/-- The `for` loop of `parse_search_paths` from index `i` on, with `left` turns
to go: `raw_search_paths` are the characters before the terminating NUL, and
a search path is the characters of its buffer. -/
def parse_search_paths_loop (separator : Char) (raw_search_paths : List Char) :
    Nat → Nat → Nat → List (List Char) → List (List Char)
  | 0, _, _, search_paths => search_paths
  | left + 1, i, start_idx, search_paths =>
    let c := raw_search_paths.getD i (Char.ofNat 0)
    if i + 1 < raw_search_paths.length ∧ c ≠ separator then
      parse_search_paths_loop separator raw_search_paths left (i + 1) start_idx search_paths
    else
      let buff_len := i - start_idx + (if c = separator then 0 else 1)
      let buff := (raw_search_paths.drop start_idx).take buff_len
      parse_search_paths_loop separator raw_search_paths left (i + 1) (i + 1)
        (search_paths ++ [buff])

/-- `parse_search_paths`: `cwd` is what `utils_files_cwd` returns, and an error
is the message printed before `exit(EXIT_FAILURE)`. -/
def parse_search_paths (separator : Char) (cwd main_search_pathname : List Char)
    (raw_search_paths : Option (List Char)) : Except String (List (List Char)) :=
  let search_paths : List (List Char) := if main_search_pathname = cwd then [] else [cwd]
  match raw_search_paths with
  | none => .ok search_paths
  | some raw =>
    if raw.length = 0 then .ok search_paths
    else if raw.getD 0 (Char.ofNat 0) = separator then
      .error ("'search paths' cannot starts with '" ++ String.singleton separator ++ "'")
    else if raw.getD (raw.length - 1) (Char.ofNat 0) = separator then
      .error ("'search paths' cannot ends with '" ++ String.singleton separator ++ "'")
    else .ok (parse_search_paths_loop separator raw raw.length 0 0 search_paths)

/-- The entry for the current working directory. -/
def cwd_entry (cwd main_search_pathname : List Char) : List (List Char) :=
  if main_search_pathname = cwd then [] else [cwd]

/-- The call printed a message and left through `exit(EXIT_FAILURE)`. -/
def rejected {ε α : Type} : Except ε α → Bool
  | .error _ => true
  | .ok _ => false

/-! ## The hash table (lzohtable.c)

`LZOHTable` with open addressing and Robin Hood probing, over tables whose
values are of a type `ν` (the `void *` the table stores). A key is the bytes
`key_size` counts, so `key_size == slot.key_size && memcmp(...) == 0` is the
equality of keys. A slot with `used == 0` is `none`: no code reads another
field of it. The array of slots is a function on indices; every index the code
uses is masked with `m - 1`. The flags `kcpy` and `vcpy`, which only say who
frees the key and the value, `value_size` and the clean-up helper are left
out. The threshold `lfth`, a `float`, is given by its value, the fraction
`lfth.1 / lfth.2`; a negative threshold behaves as the threshold 0. The load
factor `((float)n) / ((float)m)` is computed as the code computes it, in
single precision: both conversions and the division round to the nearest
`float`, to the even one when two are equally near. -/

namespace lzohtable

/-- `LZOHTableSlot` with `used == 1`. -/
structure LZOHTableSlot (ν : Type) where
  probe : Nat
  hash : Nat
  key : List Nat
  value : ν

/-- `LZOHTable`. -/
structure LZOHTable (ν : Type) where
  n : Nat
  m : Nat
  lfth : Nat × Nat
  slots : Nat → Option (LZOHTableSlot ν)

/-- `fnv_1a_hash` on `uint64_t`. -/
def fnv_1a_hash (key : List Nat) : Nat :=
  key.foldl (fun hash b => ((hash ^^^ b) * 0x00000100000001b3) % 2 ^ 64) 0xcbf29ce484222325

/-- Assignment `*(slots + i) = slot`. -/
def set_slot {ν : Type} (slots : Nat → Option (LZOHTableSlot ν)) (i : Nat)
    (slot : Option (LZOHTableSlot ν)) : Nat → Option (LZOHTableSlot ν) :=
  fun j => if j = i then slot else slots j

/-- The loop of `robin_hood_lookup`, which `lzohtable_lookup` repeats, with
`fuel` turns allowed: `none` when they are used up, else the index of the slot
that holds the key, if any. -/
def robin_hood_lookup_loop {ν : Type} (key : List Nat) (m : Nat)
    (slots : Nat → Option (LZOHTableSlot ν)) : Nat → Nat → Nat → Option (Option Nat)
  | 0, _, _ => none
  | fuel + 1, i, probe =>
    match slots i with
    | none => some none
    | some slot =>
      if slot.probe < probe then some none
      else if key = slot.key then some (some i)
      else robin_hood_lookup_loop key m slots fuel ((i + 1) &&& (m - 1)) (probe + 1)

/-- `robin_hood_lookup`: the index `*out_idx` of the slot found. -/
def robin_hood_lookup {ν : Type} (fuel : Nat) (key : List Nat) (table : LZOHTable ν) :
    Option (Option Nat) :=
  robin_hood_lookup_loop key table.m table.slots fuel
    (fnv_1a_hash key &&& (table.m - 1)) 0

/-- `lzohtable_lookup`: the `int` returned and `*out_value`. -/
def lzohtable_lookup {ν : Type} (fuel : Nat) (key : List Nat) (table : LZOHTable ν) :
    Option (Nat × Option ν) :=
  match robin_hood_lookup_loop key table.m table.slots fuel
      (fnv_1a_hash key &&& (table.m - 1)) 0 with
  | none => none
  | some none => some (0, none)
  | some (some i) =>
    match table.slots i with
    | some slot => some (1, some slot.value)
    | none => some (0, none)

/-- The loop of `robin_hood_insert` with `left = m - count` turns to go: the
`int` returned and the slots. -/
def robin_hood_insert_loop {ν : Type} (m : Nat) :
    Nat → Nat → LZOHTableSlot ν → (Nat → Option (LZOHTableSlot ν)) →
      Nat × (Nat → Option (LZOHTableSlot ν))
  | 0, _, _, slots => (1, slots)
  | left + 1, i, moving_slot, slots =>
    match slots i with
    | some current_slot =>
      if moving_slot.key = current_slot.key then
        (2, set_slot slots i (some { current_slot with value := moving_slot.value }))
      else if moving_slot.probe > current_slot.probe then
        robin_hood_insert_loop m left ((i + 1) &&& (m - 1))
          { current_slot with probe := current_slot.probe + 1 }
          (set_slot slots i (some moving_slot))
      else
        robin_hood_insert_loop m left ((i + 1) &&& (m - 1))
          { moving_slot with probe := moving_slot.probe + 1 } slots
    | none => (3, set_slot slots i (some moving_slot))

/-- `robin_hood_insert`. -/
def robin_hood_insert {ν : Type} (m : Nat) (moving_slot : LZOHTableSlot ν)
    (slots : Nat → Option (LZOHTableSlot ν)) : Nat × (Nat → Option (LZOHTableSlot ν)) :=
  robin_hood_insert_loop m m (moving_slot.hash &&& (m - 1)) moving_slot slots

/-- One turn of the loop of `copy_paste_slots`. -/
def copy_paste_turn {ν : Type} (new_m : Nat) (old_slots : Nat → Option (LZOHTableSlot ν))
    (new_slots : Nat → Option (LZOHTableSlot ν)) (i : Nat) : Nat → Option (LZOHTableSlot ν) :=
  match old_slots i with
  | none => new_slots
  | some old_slot => (robin_hood_insert new_m { old_slot with probe := 0 } new_slots).2

/-- `copy_paste_slots`; `alloc_ok` says whether `grow_slots` got its memory. -/
def copy_paste_slots {ν : Type} (alloc_ok : Bool) (table : LZOHTable ν) : Nat × LZOHTable ν :=
  if !alloc_ok then (1, table)
  else
    let new_m := (table.m * 2) % 2 ^ 64
    let new_slots := (List.range table.m).foldl (copy_paste_turn new_m table.slots)
      (fun _ => none)
    (0, { table with m := new_m, slots := new_slots })

/-- `lzohtable_create` when its allocations succeed. -/
def lzohtable_create {ν : Type} (m : Nat) (lfth : Nat × Nat) : LZOHTable ν :=
  { n := 0, m := m, lfth := lfth, slots := fun _ => none }

/-- The number of binary digits of `n`, with `fuel` digits at most looked at. -/
def bit_length_aux : Nat → Nat → Nat
  | 0, _ => 0
  | fuel + 1, n => if n = 0 then 0 else bit_length_aux fuel (n / 2) + 1

/-- The number of binary digits of `n`. -/
def bit_length (n : Nat) : Nat := bit_length_aux n n

/-- The integer nearest to `num / den`, the even one of the two when `num / den`
lies half way between them: the rounding of the default rounding mode. -/
def round_even (num den : Nat) : Nat :=
  let q := num / den
  let r := num % den
  if 2 * r < den then q
  else if den < 2 * r then q + 1
  else if q % 2 = 0 then q else q + 1

/-- The fraction `(a / b) / 2 ^ e`. -/
def scaled (a b : Nat) (e : Int) : Nat × Nat :=
  if 0 ≤ e then (a, b * 2 ^ e.toNat) else (a * 2 ^ (-e).toNat, b)

/-- The `float` nearest to the positive fraction `a / b`, as `(s, e)` for the
value `s * 2 ^ e`: the exponent `e` is the one with `2 ^ 23 ≤ (a / b) / 2 ^ e
< 2 ^ 24`, and `s` is that quotient rounded to an integer, so `s` has the 24
significant bits of a `float`. The exponent is not bounded: the fractions the
code forms have operands below `2 ^ 64`. -/
def float_of_fraction (a b : Nat) : Nat × Int :=
  let e0 : Int := (bit_length a : Int) - (bit_length b : Int) - 23
  let s0 := scaled a b e0
  let e := if s0.1 < 2 ^ 23 * s0.2 then e0 - 1 else e0
  let s := scaled a b e
  (round_even s.1 s.2, e)

/-- The conversion `(float)n` of a `size_t`. -/
def float_of_size_t (n : Nat) : Nat × Int := float_of_fraction n 1

/-- The quotient `x / y` of two `float` values, `y` not zero, rounded to
`float`. -/
def float_div (x y : Nat × Int) : Nat × Int :=
  let e := min x.2 y.2
  float_of_fraction (x.1 * 2 ^ (x.2 - e).toNat) (y.1 * 2 ^ (y.2 - e).toNat)

/-- `LZOHTABLE_LOAD_FACTOR(table) >= table->lfth`: `n` and `m` are converted
to `float`, the quotient is rounded to `float`, and the comparison with the
threshold is exact. With `m` zero the quotient is infinite, or not a number
when `n` is zero too, and a comparison with that one is false. With `n` zero
and `m` not, the quotient is zero, which only the threshold zero does not
exceed. -/
def load_factor_reached {ν : Type} (table : LZOHTable ν) : Bool :=
  if table.m = 0 then decide (table.n ≠ 0)
  else if table.n = 0 then decide (table.lfth.1 = 0)
  else
    let q := float_div (float_of_size_t table.n) (float_of_size_t table.m)
    decide (q.1 * 2 ^ q.2.toNat * table.lfth.2 ≥ table.lfth.1 * 2 ^ (-q.2).toNat)

/-- `lzohtable_put`: the `int` returned and the table. -/
def lzohtable_put {ν : Type} (alloc_ok : Bool) (key : List Nat) (value : ν)
    (table : LZOHTable ν) : Nat × LZOHTable ν :=
  let grown := if load_factor_reached table then copy_paste_slots alloc_ok table else (0, table)
  if grown.1 ≠ 0 then (1, table)
  else
    let table := grown.2
    let hash := fnv_1a_hash key
    let moving_slot : LZOHTableSlot ν := { probe := 0, hash := hash, key := key, value := value }
    let inserted := robin_hood_insert table.m moving_slot table.slots
    (0, { table with slots := inserted.2,
                     n := if inserted.1 = 3 then table.n + 1 else table.n })

/-- The backward shift of `lzohtable_remove_help` from index `i` on, with
`fuel` turns allowed; `(i - 1) & (m - 1)` is computed on `size_t`. -/
def remove_shift_loop {ν : Type} (m : Nat) :
    Nat → Nat → (Nat → Option (LZOHTableSlot ν)) → Option (Nat → Option (LZOHTableSlot ν))
  | 0, _, _ => none
  | fuel + 1, i, slots =>
    match slots i with
    | some current_slot =>
      if current_slot.probe = 0 then some slots
      else
        let previous := ((i + 2 ^ 64 - 1) % 2 ^ 64) &&& (m - 1)
        let slots := set_slot slots previous
          (some { current_slot with probe := current_slot.probe - 1 })
        let slots := set_slot slots i none
        remove_shift_loop m fuel ((i + 1) &&& (m - 1)) slots
    | none => some slots

/-- `lzohtable_remove_help`, with `fuel` turns allowed to each of its loops:
`none` when they are used up. -/
def lzohtable_remove_help {ν : Type} (fuel : Nat) (key : List Nat) (table : LZOHTable ν) :
    Option (LZOHTable ν) :=
  match robin_hood_lookup fuel key table with
  | none => none
  | some none => some table
  | some (some idx) =>
    match remove_shift_loop table.m fuel ((idx + 1) &&& (table.m - 1))
        (set_slot table.slots idx none) with
    | none => none
    | some slots => some { table with slots := slots, n := table.n - 1 }

/-- The tables the claims are about: made by `lzohtable_create` with a slot
count that is a power of two and a threshold below 1, and then changed by
calls of `lzohtable_put` that returned 0 and of `lzohtable_remove_help`. A
table given to `lzohtable_put` has fewer than `2 ^ 63` slots, so that twice
its slot count is a `size_t`; the loops of `lzohtable_remove_help` are allowed
more than `m * m` turns. -/
inductive Built {ν : Type} : LZOHTable ν → Prop where
  | create (k : Nat) (lfth : Nat × Nat) : k < 64 → lfth.1 < lfth.2 →
      Built (lzohtable_create (2 ^ k) lfth)
  | put (table : LZOHTable ν) (alloc_ok : Bool) (key : List Nat) (value : ν)
      (table1 : LZOHTable ν) : Built table → table.m < 2 ^ 63 →
      lzohtable_put alloc_ok key value table = (0, table1) → Built table1
  | remove (table : LZOHTable ν) (fuel : Nat) (key : List Nat) (table1 : LZOHTable ν) :
      Built table → table.m * table.m < fuel →
      lzohtable_remove_help fuel key table = some table1 → Built table1

end lzohtable

namespace lzohtable

/-- The key `k` is in a slot of the table, with the value `v`. -/
def Holds {ν : Type} (m : Nat) (s : Nat → Option (LZOHTableSlot ν)) (k : List Nat) (v : ν) :
    Prop :=
  ∃ i, i < m ∧ ∃ e, s i = some e ∧ e.key = k ∧ e.value = v

/-- No slot of the table holds the key `k`. -/
def Absent {ν : Type} (m : Nat) (s : Nat → Option (LZOHTableSlot ν)) (k : List Nat) : Prop :=
  ∀ i, i < m → ∀ e, s i = some e → e.key ≠ k

/-- The Robin Hood invariant of the slots: a used slot records the hash of its
key and its distance from the home index of the key; a slot at distance `p > 0`
has a used slot before it whose distance is at least `p - 1`; no two slots hold
the same key. -/
structure Inv {ν : Type} (m : Nat) (s : Nat → Option (LZOHTableSlot ν)) : Prop where
  a : ∀ i, i < m → ∀ e, s i = some e →
    e.probe < m ∧ e.hash = fnv_1a_hash e.key ∧ (e.hash % m + e.probe) % m = i
  b : ∀ i, i < m → ∀ e, s ((i + 1) % m) = some e → 0 < e.probe →
    ∃ e1, s i = some e1 ∧ e.probe ≤ e1.probe + 1
  c : ∀ i j, i < m → j < m → ∀ e e1, s i = some e → s j = some e1 → e.key = e1.key → i = j

/-- The number of used slots. -/
def used_count {ν : Type} (m : Nat) (s : Nat → Option (LZOHTableSlot ν)) : Nat :=
  ((Finset.range m).filter (fun i => (s i).isSome = true)).card

/-- The `probe` of a slot, 0 for a slot that is not used. -/
def probe_of {ν : Type} (slot : Option (LZOHTableSlot ν)) : Nat :=
  match slot with
  | some e => e.probe
  | none => 0

/-- The sum of the `probe` fields of the used slots. -/
def probe_sum {ν : Type} (m : Nat) (s : Nat → Option (LZOHTableSlot ν)) : Nat :=
  ∑ i in Finset.range m, probe_of (s i)

/-- What holds of every table the code builds. -/
structure Valid {ν : Type} (t : LZOHTable ν) : Prop where
  pow : ∃ k, k < 64 ∧ t.m = 2 ^ k
  lfth : t.lfth.1 < t.lfth.2
  inv : Inv t.m t.slots
  count : t.n = used_count t.m t.slots

end lzohtable

namespace lzohtable

/-- The key `k` is in a slot other than slot `i`, with the value `v`. -/
def HoldsOff {ν : Type} (m : Nat) (s : Nat → Option (LZOHTableSlot ν)) (i : Nat) (k : List Nat)
    (v : ν) : Prop :=
  ∃ x, x < m ∧ x ≠ i ∧ ∃ e, s x = some e ∧ e.key = k ∧ e.value = v

end lzohtable

/-- A table of two slots with the threshold 1/2 that holds the key 1 with
the value 11: the next `lzohtable_put` makes it grow. -/
def c33_table : lzohtable.LZOHTable Nat :=
  (lzohtable.lzohtable_put true [1] 11 (lzohtable.lzohtable_create 2 (1, 2))).2

/-- The table `c33_table` after `lzohtable_put` of the key 5, whose home index
is that of the key 1, with the value 15. -/
def c33_table1 : lzohtable.LZOHTable Nat := (lzohtable.lzohtable_put true [5] 15 c33_table).2

/-- A table of four slots with the threshold 9/10 that holds the key 1, whose
home index is 0. -/
def c34_table_a : lzohtable.LZOHTable Nat :=
  (lzohtable.lzohtable_put true [1] 11 (lzohtable.lzohtable_create 4 (9, 10))).2

/-- The table `c34_table_a` after the key 5 (home index 0) was put. -/
def c34_table_b : lzohtable.LZOHTable Nat := (lzohtable.lzohtable_put true [5] 15 c34_table_a).2

/-- The table `c34_table_b` after the key 2 (home index 1) was put. -/
def c34_table_c : lzohtable.LZOHTable Nat := (lzohtable.lzohtable_put true [2] 12 c34_table_b).2

/-- A full table: `c34_table_c` after the key 9 (home index 0) was put, which
takes slot 2 from the key 2. -/
def c34_table : lzohtable.LZOHTable Nat := (lzohtable.lzohtable_put true [9] 19 c34_table_c).2

/-- The keys of the slots of a table with their `probe` fields, by index. -/
def lzohtable.LZOHTable.layout {ν : Type} (table : lzohtable.LZOHTable ν) :
    List (Option (List Nat × Nat)) :=
  (List.range table.m).map (fun i => (table.slots i).map (fun slot => (slot.key, slot.probe)))

/-! ## Concrete inputs: jumps over more than 32767 chunks -/

/-- The current frame runs `f` at `ip` with the values `vals` above its base,
it has no closure, and nothing was written to the error stream. -/
def VM.plain_at (vm : VM) (f : Fn) (ip base : Nat) (vals : List Value) : Prop :=
  vm.frame_at f ip base vals ∧ vm.frame.closure = none ∧ vm.stderr = []

/-- The function an entry unit starts from. -/
def entry_fn0 : Fn :=
  { name := "entry", arity := 0, chunks := [], iconsts := [], fconsts := [], module := 0 }

/-- The expression `empty is bool is bool ...` with `n` tests, each applied to
the one before. -/
def c22_is_chain : Nat → compiler.Expr
  | 0 => .EMPTY
  | n + 1 => .IS (c22_is_chain n) .BOOL

/-- The code of `c22_is_chain n`: `EMPTY`, then `n` times `IS` with the tag of
`bool`. -/
def c22_is_code : Nat → List Nat
  | 0 => [OpCode.EMPTY.byte]
  | n + 1 => c22_is_code n ++ [OpCode.IS.byte, 1]

/-- `true or r` with `r` the chain of `n` tests. -/
def c22_far (n : Nat) : compiler.Expr := .LOGICAL (.BOOL true) .OR (c22_is_chain n)

/-- The entry function of the module whose only statement is the expression
statement `true or r`, `r` the chain of `n` tests, compiled. -/
def c22_far_fn (n : Nat) : Fn :=
  compiler.compiled (compiler.compile_entry "entry" [.EXPR (c22_far n)] 0 c10_compiler)

/-- The program of `c22_far_fn n` within `k` instructions of `vm_execute`. -/
def c22_far_outcome (n k : Nat) : Outcome :=
  vm_execute k 0 (VM.init [c22_far_fn n] [] [plain_module] [])

/-- The unit of the entry function when the expression `c22_far n` is
compiled, `n` being 16384: one label, one pending jump. -/
def c22_far_unit (n : Nat) : compiler.Unit :=
  { counter := 1,
    labels := [("OR_END_0", { offset := 32773, name := "OR_END_0" })],
    jmps := [{ update_offset := 2, jump_offset := 4, label_name := "OR_END_0" }],
    marks := [],
    fn := { name := "entry", arity := 0, module := 0, fconsts := [], iconsts := [],
            chunks := [OpCode.TRUE.byte, OpCode.OR.byte, 0, 0] ++ c22_is_code n } }


/-- The entry function the compiler leaves for `true or r`, `r` the chain of
`n` tests, when `n` is 16384: the delta of `OR` is the two bytes 128, 1. -/
def c22_far_code (n : Nat) : Fn :=
  { name := "entry", arity := 0, module := 0, fconsts := [], iconsts := [],
    chunks := [OpCode.TRUE.byte, OpCode.OR.byte, 128, 1] ++ c22_is_code n ++
      [OpCode.POP.byte, OpCode.EMPTY.byte, OpCode.RET.byte] }

/-- The code of `k` expression statements that are integer literals, the first
of them with the constant of index `s`: for each `INT`, the two bytes of the
index, `POP`. -/
def c38_ints : Nat → Nat → List Nat
  | _, 0 => []
  | s, k + 1 =>
    [OpCode.INT.byte, s / 256 % 256, s % 256, OpCode.POP.byte] ++ c38_ints (s + 1) k

/-- The code of `n` expression statements `empty`: for each `EMPTY`, `POP`. -/
def c38_empties : Nat → List Nat
  | 0 => []
  | n + 1 => [OpCode.EMPTY.byte, OpCode.POP.byte] ++ c38_empties n

/-- The statements of a module: `k` expression statements `0`, then
`for i = 0 upto 0` whose body is `n` expression statements `empty`. -/
def c38_program (k n : Nat) : List compiler.Stmt :=
  List.replicate k (.EXPR (.INT 0)) ++
    [.FOR_RANGE "i" (.INT 0) true (.INT 0) (List.replicate n (.EXPR .EMPTY))]

/-- The entry function of the module `c38_program k n`, compiled. -/
def c38_entry (k n : Nat) : Fn :=
  compiler.compiled (compiler.compile_entry "entry" (c38_program k n) 0 c10_compiler)

/-- The unit with the chunks and the integer constants of its function
replaced. -/
def compiler.Unit.with_code (u : compiler.Unit) (chunks : List Nat) (iconsts : List Int) :
    compiler.Unit :=
  { u with fn := { u.fn with chunks := chunks, iconsts := iconsts } }

/-- The entry function the compiler leaves for `c38_program k n` when `k` is
11265 and `n` is 32755: the `k` expression statements, the initialisation and
the test of the loop with the `JIT` whose delta is the two bytes 255, 241, the
body, the increment with the `JMP` back, the `POP` of the induction variable
and the implicit `EMPTY`, `RET`. -/
def c38_code (k n : Nat) : Fn :=
  { name := "entry", arity := 0, module := 0, fconsts := [],
    iconsts := List.replicate k 0 ++ [0, 0],
    chunks := c38_ints 0 k ++
      [OpCode.INT.byte, k / 256 % 256, k % 256, OpCode.LGET.byte, 0,
       OpCode.INT.byte, (k + 1) / 256 % 256, (k + 1) % 256, OpCode.GE.byte,
       OpCode.JIT.byte, 255, 241] ++
      c38_empties n ++
      [OpCode.LGET.byte, 0, OpCode.CINT.byte, 1, OpCode.ADD.byte, OpCode.LSET.byte, 0,
       OpCode.POP.byte, OpCode.JMP.byte, 0, 6, OpCode.POP.byte, OpCode.EMPTY.byte,
       OpCode.RET.byte] }

/-- The unit of the entry function of `c38_program k n` when `pop_unit` is
reached: the labels of the loop, and the two pending jumps, the `JIT` of the
test and the `JMP` back, with their placeholders. -/
def c38_unit (k n : Nat) : compiler.Unit :=
  { counter := 1,
    labels := [(".FOR(0)_TEST", { offset := 4 * k + 3, name := ".FOR(0)_TEST" }),
               (".FOR(0)_END", { offset := 4 * k + 2 * n + 23, name := ".FOR(0)_END" }),
               (".FOR_RANGE(0)_END",
                 { offset := 4 * k + 2 * n + 23, name := ".FOR_RANGE(0)_END" })],
    jmps := [{ update_offset := 4 * k + 10, jump_offset := 4 * k + 12,
               label_name := ".FOR_RANGE(0)_END" },
             { update_offset := 4 * k + (12 + (2 * n + 9)), jump_offset := 4 * k + 2 * n + 23,
               label_name := ".FOR(0)_TEST" }],
    marks := [],
    fn := { name := "entry", arity := 0, module := 0, fconsts := [],
            iconsts := List.replicate k 0 ++ [0, 0],
            chunks := c38_ints 0 k ++
              ([OpCode.INT.byte, k / 256 % 256, k % 256, OpCode.LGET.byte, 0,
                OpCode.INT.byte, (k + 1) / 256 % 256, (k + 1) % 256, OpCode.GE.byte,
                OpCode.JIT.byte, 0, 0] ++
              (c38_empties n ++
                [OpCode.LGET.byte, 0, OpCode.CINT.byte, 1, OpCode.ADD.byte, OpCode.LSET.byte, 0,
                 OpCode.POP.byte, OpCode.JMP.byte, 0, 0, OpCode.POP.byte, OpCode.EMPTY.byte,
                 OpCode.RET.byte])) } }

/-- The program of `c38_entry k n` within `steps` instructions of
`vm_execute`. -/
def c38_outcome (k n steps : Nat) : Outcome :=
  vm_execute steps 0 (VM.init [c38_entry k n] [] [plain_module] [])

/-! # Theorems -/

/-! ## Immediates: encoding and decoding -/

theorem getElem?_append_add {α : Type} (l r : List α) (k : Nat) :
    (l ++ r)[l.length + k]? = r[k]? := by
  rw [List.getElem?_append_right (by omega)]
  congr 1
  omega

theorem or_low (a b k : Nat) (h : b < 2 ^ k) : (a * 2 ^ k) ||| b = a * 2 ^ k + b := by
  have := Nat.mul_add_lt_is_or h a
  rw [Nat.mul_comm] at this
  exact this.symm

theorem compose_i16_eq (b0 b1 : Nat) (h0 : b0 < 256) (h1 : b1 < 256) :
    compose_i16 b0 b1 = wrapS 16 ((b0 * 256 + b1 : Nat) : Int) := by
  unfold compose_i16 or32 bits32 wrapS wrapU
  norm_num
  have e2 : ((b1 : Int) % 65536) = (b1 : Nat) := by omega
  by_cases hb : b0 < 128
  · have e1 : ((b0 : Int) % 65536 * 256 % 65536) = (b0 * 256 : Nat) := by push_cast; omega
    rw [e1, e2]
    have e3 : ((b0 * 256 : Nat) : Int) < 32768 := by push_cast; omega
    simp only [e3, if_true]
    have e4 : (((b0 * 256 : Nat) : Int) % 4294967296).toNat = b0 * 2 ^ 8 := by omega
    have e5 : (((b1 : Nat) : Int) % 4294967296).toNat = b1 := by omega
    rw [e4, e5, or_low _ _ 8 (by omega)]
    push_cast; norm_num
  · have e1 : ((b0 : Int) % 65536 * 256 % 65536) = (b0 * 256 : Nat) := by push_cast; omega
    rw [e1, e2]
    have e3 : ¬ ((b0 * 256 : Nat) : Int) < 32768 := by push_cast; omega
    simp only [e3, if_false]
    have e4 : ((((b0 * 256 : Nat) : Int) - 65536) % 4294967296).toNat
        = (16776960 + b0) * 2 ^ 8 := by omega
    have e5 : (((b1 : Nat) : Int) % 4294967296).toNat = b1 := by omega
    rw [e4, e5, or_low _ _ 8 (by omega)]
    push_cast
    have : ¬ ((16776960 + (b0:Int)) * 256 + b1) % 65536 < 32768 := by omega
    simp only [this, if_false]
    have : ¬ ((b0:Int) * 256 + b1) % 65536 < 32768 := by omega
    simp only [this, if_false]
    omega

theorem wrapS16_eq (x : Int) :
    wrapS 16 x = if x % 65536 < 32768 then x % 65536 else x % 65536 - 65536 := by
  unfold wrapS; norm_num

theorem wrapS32_eq (x : Int) :
    wrapS 32 x = if x % 4294967296 < 2147483648 then x % 4294967296
      else x % 4294967296 - 4294967296 := by
  unfold wrapS; norm_num

theorem compose_descompose_i16 (v : Int) (h1 : -32768 ≤ v) (h2 : v < 32768) :
    compose_i16 ((v / 2 ^ 8) % 256).toNat (v % 256).toNat = v := by
  rw [compose_i16_eq _ _ (by omega) (by omega)]
  have key : (((((v / 2 ^ 8) % 256).toNat * 256 + (v % 256).toNat : Nat)) : Int)
      = v % 65536 := by push_cast; omega
  rw [key, wrapS16_eq]
  split <;> omega

theorem compose_i32_eq (b0 b1 b2 b3 : Nat) (h0 : b0 < 256) (h1 : b1 < 256) (h2 : b2 < 256)
    (h3 : b3 < 256) :
    compose_i32 b0 b1 b2 b3
      = wrapS 32 ((b0 * 2 ^ 24 + b1 * 2 ^ 16 + b2 * 2 ^ 8 + b3 : Nat) : Int) := by
  unfold compose_i32 bits32
  have e0 : (wrapS 32 (wrapU 32 (wrapU 32 (b0 : Int) * 2 ^ 24)) % 2 ^ 32).toNat = b0 * 2 ^ 24 := by
    rw [wrapS32_eq]; unfold wrapU; norm_num
    split <;> omega
  have e1 : (wrapU 32 (wrapU 32 (b1 : Int) * 2 ^ 16) % 2 ^ 32).toNat = b1 * 2 ^ 16 := by
    unfold wrapU; norm_num; omega
  have e2 : (wrapU 32 (wrapU 32 (b2 : Int) * 2 ^ 8) % 2 ^ 32).toNat = b2 * 2 ^ 8 := by
    unfold wrapU; norm_num; omega
  have e3 : (wrapU 32 (b3 : Int) % 2 ^ 32).toNat = b3 := by
    unfold wrapU; norm_num; omega
  rw [e0, e1, e2, e3]
  rw [or_low b0 (b1 * 2 ^ 16) 24 (by omega)]
  have f1 : b0 * 2 ^ 24 + b1 * 2 ^ 16 = (b0 * 2 ^ 8 + b1) * 2 ^ 16 := by ring
  rw [f1, or_low _ (b2 * 2 ^ 8) 16 (by omega)]
  have f2 : (b0 * 2 ^ 8 + b1) * 2 ^ 16 + b2 * 2 ^ 8 = ((b0 * 2 ^ 8 + b1) * 2 ^ 8 + b2) * 2 ^ 8 := by
    ring
  rw [f2, or_low _ b3 8 (by omega)]

theorem compose_descompose_i32 (v : Int) (h1 : -2147483648 ≤ v) (h2 : v < 2147483648) :
    compose_i32 ((v / 2 ^ 24) % 256).toNat ((v / 2 ^ 16) % 256).toNat
      ((v / 2 ^ 8) % 256).toNat (v % 256).toNat = v := by
  rw [compose_i32_eq _ _ _ _ (by omega) (by omega) (by omega) (by omega)]
  have key : (((((v / 2 ^ 24) % 256).toNat * 2 ^ 24 + ((v / 2 ^ 16) % 256).toNat * 2 ^ 16
      + ((v / 2 ^ 8) % 256).toNat * 2 ^ 8 + (v % 256).toNat : Nat)) : Int)
      = v % 4294967296 := by push_cast; omega
  rw [key, wrapS32_eq]
  split <;> omega

@[simp] theorem bind_apply {α β : Type} (m : Exec α) (f : α → Exec β) (vm : VM) :
    (m >>= f) vm = match m vm with
      | .ok a vm1 => f a vm1
      | .longjmp v vm1 => .longjmp v vm1
      | .ub => .ub
      | .unmodelled => .unmodelled := rfl

@[simp] theorem pure_apply {α : Type} (a : α) (vm : VM) : (pure a : Exec α) vm = .ok a vm := rfl

theorem set_ip_runs {vm : VM} {f : Fn} (h : vm.runs f) (k : Nat) : (vm.set_ip k).runs f := by
  obtain ⟨h0, fi, h1, h2⟩ := h
  exact ⟨h0, fi, by simpa [VM.set_ip, VM.frame] using h1, h2⟩

@[simp] theorem set_ip_ip (vm : VM) (k : Nat) : (vm.set_ip k).frame.ip = k := by
  simp [VM.set_ip, VM.frame]

@[simp] theorem set_ip_set_ip (vm : VM) (k j : Nat) : (vm.set_ip k).set_ip j = vm.set_ip j := by
  simp [VM.set_ip, VM.frame]

theorem advance_at {vm : VM} {f : Fn} (h : vm.runs f) (b : Nat)
    (hb : f.chunks[vm.frame.ip]? = some b) :
    advance vm = .ok b (vm.set_ip (vm.frame.ip + 1)) := by
  obtain ⟨h0, fi, h1, h2⟩ := h
  have hlt : vm.frame.ip < f.chunks.length := by
    by_contra hc
    rw [List.getElem?_eq_none (by omega)] at hb
    cases hb
  unfold VM.frame at h1 hlt hb
  simp [advance, current_frame, h0, frame_chunks, h1, h2, hb, deref, set_frame, VM.set_ip,
    VM.frame, Nat.not_le.mpr hlt]

theorem read_i16_at {vm : VM} {f : Fn} (h : vm.runs f) (b0 b1 : Nat)
    (h0 : f.chunks[vm.frame.ip]? = some b0) (h1 : f.chunks[vm.frame.ip + 1]? = some b1) :
    read_i16 vm = .ok (compose_i16 b0 b1) (vm.set_ip (vm.frame.ip + 2)) := by
  have a0 := advance_at h _ h0
  have a1 := advance_at (set_ip_runs h (vm.frame.ip + 1)) b1 (by simpa using h1)
  simp [read_i16, a0, a1]

theorem read_i32_at {vm : VM} {f : Fn} (h : vm.runs f) (b0 b1 b2 b3 : Nat)
    (h0 : f.chunks[vm.frame.ip]? = some b0) (h1 : f.chunks[vm.frame.ip + 1]? = some b1)
    (h2 : f.chunks[vm.frame.ip + 2]? = some b2) (h3 : f.chunks[vm.frame.ip + 3]? = some b3) :
    read_i32 vm = .ok (compose_i32 b0 b1 b2 b3) (vm.set_ip (vm.frame.ip + 4)) := by
  have a0 := advance_at h _ h0
  have a1 := advance_at (set_ip_runs h (vm.frame.ip + 1)) b1 (by simpa using h1)
  have a2 := advance_at (set_ip_runs h (vm.frame.ip + 2)) b2 (by simpa using h2)
  have a3 := advance_at (set_ip_runs h (vm.frame.ip + 3)) b3 (by simpa using h3)
  simp at a1 a2 a3
  simp [read_i32, a0, a1, a2, a3]

namespace compiler

@[simp] theorem comp_bind_apply {α β : Type} (m : Comp α) (f : α → Comp β) (c : Compiler) :
    (m >>= f) c = match m c with
      | .ok a c1 => f a c1
      | .error msg => .error msg
      | .ub => .ub := rfl

@[simp] theorem comp_pure_apply {α : Type} (a : α) (c : Compiler) :
    (pure a : Comp α) c = .ok a c := rfl

theorem write_i16_eq (c : Compiler) (h : c.units_stack ≠ []) (v : Int) :
    write_i16 v c = .ok c.chunks.length (c.emit (descompose_i16 v)) := by
  match hc : c.units_stack with
  | [] => exact absurd hc h
  | u :: rest =>
    simp [write_i16, descompose_i16, insert_chunk, current_unit, set_unit, chunks_len, hc,
      Compiler.emit, Compiler.chunks]

theorem write_i32_eq (c : Compiler) (h : c.units_stack ≠ []) (v : Int) :
    write_i32 v c = .ok c.chunks.length (c.emit (descompose_i32 v)) := by
  match hc : c.units_stack with
  | [] => exact absurd hc h
  | u :: rest =>
    simp [write_i32, descompose_i32, insert_chunk, current_unit, set_unit, chunks_len, hc,
      Compiler.emit, Compiler.chunks]

theorem emit_chunks (c : Compiler) (h : c.units_stack ≠ []) (bytes : List Nat) :
    (c.emit bytes).chunks = c.chunks ++ bytes := by
  match hc : c.units_stack with
  | [] => exact absurd hc h
  | u :: rest => simp [Compiler.emit, Compiler.chunks, hc]

end compiler

open compiler in
/-- C2: for every 16-bit value `write_i16` appends exactly two bytes, most
significant first, and returns the offset of the first of them, and `read_i16`
of the VM over those two bytes returns the value; likewise `write_i32` appends
four bytes, most significant first, and `read_i32` over them returns the
original 32-bit value. -/
theorem write_read_immediate_roundtrip (c : Compiler) (hc : c.units_stack ≠ [])
    (v16 v32 : Int) (h16 : -32768 ≤ v16 ∧ v16 < 32768)
    (h32 : -2147483648 ≤ v32 ∧ v32 < 2147483648) :
    (∃ b0 b1 : Nat, b0 < 256 ∧ b1 < 256 ∧ (b0 : Int) * 256 + b1 = wrapU 16 v16 ∧
      write_i16 v16 c = .ok c.chunks.length (c.emit [b0, b1]) ∧
      (c.emit [b0, b1]).chunks = c.chunks ++ [b0, b1] ∧
      ∀ (vm : VM) (f : Fn) (rest : List Nat), vm.runs f →
        f.chunks = c.chunks ++ [b0, b1] ++ rest → vm.frame.ip = c.chunks.length →
        read_i16 vm = .ok v16 (vm.set_ip (c.chunks.length + 2))) ∧
    (∃ b0 b1 b2 b3 : Nat, b0 < 256 ∧ b1 < 256 ∧ b2 < 256 ∧ b3 < 256 ∧
      (b0 : Int) * 2 ^ 24 + b1 * 2 ^ 16 + b2 * 2 ^ 8 + b3 = wrapU 32 v32 ∧
      write_i32 v32 c = .ok c.chunks.length (c.emit [b0, b1, b2, b3]) ∧
      (c.emit [b0, b1, b2, b3]).chunks = c.chunks ++ [b0, b1, b2, b3] ∧
      ∀ (vm : VM) (f : Fn) (rest : List Nat), vm.runs f →
        f.chunks = c.chunks ++ [b0, b1, b2, b3] ++ rest → vm.frame.ip = c.chunks.length →
        read_i32 vm = .ok v32 (vm.set_ip (c.chunks.length + 4))) := by
  obtain ⟨l16, u16⟩ := h16
  obtain ⟨l32, u32⟩ := h32
  constructor
  · refine ⟨((v16 / 2 ^ 8) % 256).toNat, (v16 % 256).toNat, ?_, ?_, ?_, ?_, ?_, ?_⟩
    · omega
    · omega
    · unfold wrapU; omega
    · exact write_i16_eq c hc v16
    · exact emit_chunks c hc _
    · intro vm f rest hr hf hip
      have c0 : f.chunks[vm.frame.ip]? = some ((v16 / 2 ^ 8) % 256).toNat := by
        rw [hf, hip, List.append_assoc]; exact getElem?_append_add _ _ 0
      have c1 : f.chunks[vm.frame.ip + 1]? = some (v16 % 256).toNat := by
        rw [hf, hip, List.append_assoc, getElem?_append_add]; simp
      rw [read_i16_at hr _ _ c0 c1, compose_descompose_i16 v16 l16 u16, hip]
  · refine ⟨((v32 / 2 ^ 24) % 256).toNat, ((v32 / 2 ^ 16) % 256).toNat,
      ((v32 / 2 ^ 8) % 256).toNat, (v32 % 256).toNat, ?_, ?_, ?_, ?_, ?_, ?_, ?_, ?_⟩
    · omega
    · omega
    · omega
    · omega
    · unfold wrapU; omega
    · exact write_i32_eq c hc v32
    · exact emit_chunks c hc _
    · intro vm f rest hr hf hip
      have c0 : f.chunks[vm.frame.ip]? = some ((v32 / 2 ^ 24) % 256).toNat := by
        rw [hf, hip, List.append_assoc]; exact getElem?_append_add _ _ 0
      have c1 : f.chunks[vm.frame.ip + 1]? = some ((v32 / 2 ^ 16) % 256).toNat := by
        rw [hf, hip, List.append_assoc, getElem?_append_add]; simp
      have c2 : f.chunks[vm.frame.ip + 2]? = some ((v32 / 2 ^ 8) % 256).toNat := by
        rw [hf, hip, List.append_assoc, getElem?_append_add]; simp
      have c3 : f.chunks[vm.frame.ip + 3]? = some (v32 % 256).toNat := by
        rw [hf, hip, List.append_assoc, getElem?_append_add]; simp
      rw [read_i32_at hr _ _ _ _ c0 c1 c2 c3, compose_descompose_i32 v32 l32 u32, hip]

open compiler in
theorem write_read_immediate_roundtrip_witness :
    (c2_compiler.units_stack ≠ [] ∧ ((-32768 : Int) ≤ -2 ∧ (-2 : Int) < 32768) ∧
      ((-2147483648 : Int) ≤ -70000 ∧ (-70000 : Int) < 2147483648)) ∧
    ((∃ b0 b1 : Nat, b0 < 256 ∧ b1 < 256 ∧ (b0 : Int) * 256 + b1 = wrapU 16 (-2) ∧
      write_i16 (-2) c2_compiler = .ok c2_compiler.chunks.length (c2_compiler.emit [b0, b1]) ∧
      (c2_compiler.emit [b0, b1]).chunks = c2_compiler.chunks ++ [b0, b1] ∧
      ∀ (vm : VM) (f : Fn) (rest : List Nat), vm.runs f →
        f.chunks = c2_compiler.chunks ++ [b0, b1] ++ rest →
        vm.frame.ip = c2_compiler.chunks.length →
        read_i16 vm = .ok (-2) (vm.set_ip (c2_compiler.chunks.length + 2))) ∧
    (∃ b0 b1 b2 b3 : Nat, b0 < 256 ∧ b1 < 256 ∧ b2 < 256 ∧ b3 < 256 ∧
      (b0 : Int) * 2 ^ 24 + b1 * 2 ^ 16 + b2 * 2 ^ 8 + b3 = wrapU 32 (-70000) ∧
      write_i32 (-70000) c2_compiler
        = .ok c2_compiler.chunks.length (c2_compiler.emit [b0, b1, b2, b3]) ∧
      (c2_compiler.emit [b0, b1, b2, b3]).chunks = c2_compiler.chunks ++ [b0, b1, b2, b3] ∧
      ∀ (vm : VM) (f : Fn) (rest : List Nat), vm.runs f →
        f.chunks = c2_compiler.chunks ++ [b0, b1, b2, b3] ++ rest →
        vm.frame.ip = c2_compiler.chunks.length →
        read_i32 vm = .ok (-70000) (vm.set_ip (c2_compiler.chunks.length + 4)))) :=
  ⟨⟨by simp [c2_compiler], by decide, by decide⟩,
    write_read_immediate_roundtrip c2_compiler (by simp [c2_compiler]) (-2) (-70000)
      (by decide) (by decide)⟩

theorem current_fn_at {vm : VM} {f : Fn} (h : vm.runs f) : current_fn vm = .ok f vm := by
  obtain ⟨h0, fi, h1, h2⟩ := h
  unfold VM.frame at h1
  simp [current_fn, current_frame, h0, h1, h2, deref, get_vm]

theorem current_module_at {vm : VM} {f : Fn} (h : vm.runs f) {m : Module}
    (hm : vm.modules[f.module]? = some m) : current_module vm = .ok (f.module, m) vm := by
  simp [current_module, current_fn_at h, get_vm, hm, deref]

open compiler in
/-- C3 at the failing input: with 32768 integer constants already in the pool,
`write_iconst` raises no error, stores the constant at position 32768 and
emits the index bytes `0x80 0x00`; `read_i64_const` decodes them to the
`int16_t` value -32768, that is position `2^64 - 32768`, outside the pool, so
the VM does not read the constant back. With 32768 static strings in the
table, `write_str` emits the same bytes and `read_str` raises a runtime
error. -/
theorem const_index_32768_not_read_back (pool : List Int) (strs : List String)
    (hp : pool.length = 32768) (hq : strs.length = 32768) :
    write_iconst 42 (c3_compiler pool strs)
      = .ok 1 { units_stack := [compiler.create_unit (c3_fn_written pool)], strings := strs } ∧
    (c3_fn_written pool).iconsts[32768]? = some 42 ∧
    compose_i16 128 0 = -32768 ∧ to_size_t (-32768) = 2 ^ 64 - 32768 ∧
    (∀ vm : VM, vm.runs (c3_fn_written pool) → vm.frame.ip = 1 → read_i64_const vm = .ub) ∧
    write_str "s" (c3_compiler pool strs)
      = .ok ⟨⟩ { units_stack := [compiler.create_unit { c3_fn pool with chunks := [OpCode.INT.byte, 128, 0] }],
                 strings := strs ++ ["s"] } ∧
    (strs ++ ["s"])[32768]? = some "s" ∧
    (∀ (vm : VM) (m : Module), vm.runs (c3_fn_written pool) → vm.frame.ip = 1 →
      vm.modules[0]? = some m → m.strings = strs ++ ["s"] →
      ∃ vm1, read_str vm = .longjmp 1 vm1 ∧ vm1.exit_code = ERR_VMRESULT) := by
  have hc : compose_i16 128 0 = -32768 := by decide
  have hs : to_size_t (-32768) = 2 ^ 64 - 32768 := by decide
  refine ⟨?_, ?_, hc, hs, ?_, ?_, ?_, ?_⟩
  · simp [write_iconst, current_unit, c3_compiler, create_unit, set_unit, internal_error,
      UINT16_MAX, c3_fn, write_i16, descompose_i16, insert_chunk, chunks_len, c3_fn_written,
      wrapS, hp]
  · have := getElem?_append_add pool [(42 : Int)] 0
    rw [hp] at this
    simpa [c3_fn_written] using this
  · intro vm hr hip
    have r := read_i16_at hr 128 0 (by rw [hip]; rfl) (by rw [hip]; rfl)
    have hn : (pool ++ [(42 : Int)])[18446744073709518848]? = none := by
      apply List.getElem?_eq_none
      simp [hp]
    simp [read_i64_const, current_fn_at hr, r, hc, hs, deref, undefined_behaviour,
      c3_fn_written, hn]
  · simp [write_str, c3_compiler, create_unit, write_i16, descompose_i16, insert_chunk, chunks_len,
      current_unit, set_unit, c3_fn, wrapS, hq]
  · have := getElem?_append_add strs ["s"] 0
    rw [hq] at this
    simpa using this
  · intro vm m hr hip hm hstr
    have r := read_i16_at hr 128 0 (by rw [hip]; rfl) (by rw [hip]; rfl)
    have hmod : current_module vm = .ok (0, m) vm := current_module_at hr hm
    simp [read_str, hmod, r, hc, hs, hstr, vmu_error, ERR_VMRESULT, hq]

open compiler

@[simp] theorem with_frame_frame (vm : VM) (f : Frame) : (vm.with_frame f).frame = f := by
  simp [VM.with_frame, VM.frame]

@[simp] theorem with_frame_with_frame (vm : VM) (f g : Frame) :
    (vm.with_frame f).with_frame g = vm.with_frame g := by
  simp [VM.with_frame]

@[simp] theorem with_frame_frame_ptr (vm : VM) (f : Frame) :
    (vm.with_frame f).frame_ptr = vm.frame_ptr := rfl

@[simp] theorem with_frame_stack (vm : VM) (f : Frame) : (vm.with_frame f).stack = vm.stack := rfl

@[simp] theorem with_frame_stack_top (vm : VM) (f : Frame) :
    (vm.with_frame f).stack_top = vm.stack_top := rfl

@[simp] theorem with_frame_heap (vm : VM) (f : Frame) : (vm.with_frame f).heap = vm.heap := rfl

@[simp] theorem with_frame_fns (vm : VM) (f : Frame) : (vm.with_frame f).fns = vm.fns := rfl

@[simp] theorem set_ip_frame_ptr (vm : VM) (k : Nat) : (vm.set_ip k).frame_ptr = vm.frame_ptr := rfl

@[simp] theorem set_ip_stack (vm : VM) (k : Nat) : (vm.set_ip k).stack = vm.stack := rfl

@[simp] theorem set_ip_stack_top (vm : VM) (k : Nat) : (vm.set_ip k).stack_top = vm.stack_top := rfl

@[simp] theorem set_ip_heap (vm : VM) (k : Nat) : (vm.set_ip k).heap = vm.heap := rfl

theorem set_ip_eq (vm : VM) (k : Nat) : vm.set_ip k = vm.with_frame { vm.frame with ip := k } :=
  rfl

theorem with_frame_runs {vm : VM} {f : Fn} (h : vm.runs f) (fr : Frame)
    (hfn : fr.fn = vm.frame.fn) : (vm.with_frame fr).runs f := by
  obtain ⟨h0, fi, h1, h2⟩ := h
  exact ⟨h0, fi, by simpa [hfn] using h1, h2⟩

theorem fetched_runs {vm : VM} {f : Fn} (h : vm.runs f) : vm.fetched.runs f :=
  with_frame_runs h _ rfl

@[simp] theorem fetched_ip (vm : VM) : vm.fetched.frame.ip = vm.frame.ip + 1 := by
  simp [VM.fetched]

theorem advance_save_at {vm : VM} {f : Fn} (h : vm.runs f) (b : Nat)
    (hb : f.chunks[vm.frame.ip]? = some b) :
    advance_save vm = .ok b vm.fetched := by
  obtain ⟨h0, fi, h1, h2⟩ := h
  have hlt : vm.frame.ip < f.chunks.length := by
    by_contra hc
    rw [List.getElem?_eq_none (by omega)] at hb
    cases hb
  unfold VM.frame at h1 hlt hb
  simp [advance_save, current_frame, h0, frame_chunks, h1, h2, hb, deref, set_frame,
    VM.fetched, VM.with_frame, VM.frame, Nat.not_le.mpr hlt]

theorem execute_one_at {vm : VM} {f : Fn} (h : vm.runs f) (b : Nat)
    (hb : f.chunks[vm.frame.ip]? = some b) :
    execute_one vm = dispatch b vm.fetched := by
  simp [execute_one, advance_save_at h b hb]

theorem current_frame_at {vm : VM} (h : vm.frame_ptr ≠ 0) :
    current_frame vm = .ok (vm.frame_ptr - 1, vm.frame) vm := by
  simp [current_frame, h, VM.frame]

theorem add_ip_at {vm : VM} (h : vm.frame_ptr ≠ 0) (d : Int) :
    add_ip d vm = .ok () (vm.set_ip (to_size_t ((vm.frame.ip : Int) + d))) := by
  simp [add_ip, current_frame_at h, set_frame, VM.set_ip]

theorem write_chunks_eq (body : List Nat) (hb : ∀ b ∈ body, b < 256) (u : compiler.Unit)
    (rest : List compiler.Unit) (strs : List String) :
    write_chunks body { units_stack := u :: rest, strings := strs }
      = .ok ⟨⟩ { units_stack := { u with fn := { u.fn with chunks := u.fn.chunks ++ body } } :: rest,
                 strings := strs } := by
  induction body generalizing u with
  | nil => simp [write_chunks]
  | cons b bs ih =>
    have hb0 : b % 256 = b := Nat.mod_eq_of_lt (hb b (by simp))
    have ih' := fun u => ih (fun x hx => hb x (by simp [hx])) u
    simp [write_chunks, write_chunk, insert_chunk, current_unit, set_unit, chunks_len, hb0, ih']

/-- C1 at the failing input: a `JMP` emitted at offset 0 whose label lies
32768 chunks after the byte that follows its delta. The emitter and `pop_unit`
raise no error; the patched bytes are `0x80 0x00`, which the VM reads as the
delta -32768, so that delta plus the offset after it is -32765 and not the
label's offset 32771, and executing the `JMP` sets the `ip` to
`2^64 - 32765`. -/
theorem far_jump_delta_wraps (body : List Nat) (hb : ∀ b ∈ body, b < 256)
    (hlen : body.length = 32768) :
    c1_emit body c1_start
      = .ok ⟨⟩ { units_stack := [c1_unit body], strings := [] } ∧
    pop_unit { units_stack := [c1_unit body], strings := [] }
      = .ok (c1_fn body 128 0) { units_stack := [], strings := [] } ∧
    (c1_unit body).labels.lookup "L" = some { offset := 32771, name := "L" } ∧
    compose_i16 128 0 + 3 = -32765 ∧
    (∀ vm : VM, vm.runs (c1_fn body 128 0) → vm.frame.ip = 0 →
      step vm = .running (vm.fetched.set_ip (2 ^ 64 - 32765))) := by
  have hc : compose_i16 128 0 = -32768 := by decide
  refine ⟨?_, ?_, ?_, ?_, ?_⟩
  · simp [c1_emit, jmp, jmp_like, write_chunk, insert_chunk, current_unit, set_unit, chunks_len,
      write_i16, descompose_i16, create_unit, c1_start, c1_fn, write_chunks_eq body hb, label, c1_unit,
      internal_error]
    exact ⟨by omega, by decide⟩
  · simp [pop_unit, current_unit, c1_unit, resolve_jmps, resolve_marks, List.lookup, update_i16,
      c1_fn, hlen, internal_error, set_unit, descompose_i16, wrapS, wrapU, to_size_t]
  · simp [c1_unit, hlen, List.lookup]
  · rw [hc]; norm_num
  · intro vm hr hip
    have e := execute_one_at hr OpCode.JMP.byte (by rw [hip]; rfl)
    have hf := fetched_runs hr
    have r := read_i16_at hf 128 0 (by simp [hip, c1_fn]) (by simp [hip, c1_fn])
    have hd : dispatch OpCode.JMP.byte = op_jmp := rfl
    have h0 : vm.fetched.frame_ptr ≠ 0 := hr.1
    simp [step, e, hd, op_jmp, r, hc, add_ip_at, h0, hip, to_size_t]

open compiler

theorem c1_body_bytes : ∀ b ∈ c1_body, b < 256 := by
  intro b hb
  have := List.eq_of_mem_replicate hb
  rw [this]; decide

theorem far_jump_delta_wraps_witness :
    ((∀ b ∈ c1_body, b < 256) ∧ c1_body.length = 32768) ∧
    (c1_emit c1_body c1_start = .ok ⟨⟩ { units_stack := [c1_unit c1_body], strings := [] } ∧
    pop_unit { units_stack := [c1_unit c1_body], strings := [] }
      = .ok (c1_fn c1_body 128 0) { units_stack := [], strings := [] } ∧
    (c1_unit c1_body).labels.lookup "L" = some { offset := 32771, name := "L" } ∧
    compose_i16 128 0 + 3 = -32765 ∧
    (∀ vm : VM, vm.runs (c1_fn c1_body 128 0) → vm.frame.ip = 0 →
      step vm = .running (vm.fetched.set_ip (2 ^ 64 - 32765)))) :=
  ⟨⟨c1_body_bytes, List.length_replicate _ _⟩,
    far_jump_delta_wraps c1_body c1_body_bytes (List.length_replicate _ _)⟩

theorem const_index_32768_not_read_back_witness :
    (c3_pool.length = 32768 ∧ c3_strings.length = 32768) ∧
    (write_iconst 42 (c3_compiler c3_pool c3_strings)
      = .ok 1 { units_stack := [create_unit (c3_fn_written c3_pool)], strings := c3_strings } ∧
    (c3_fn_written c3_pool).iconsts[32768]? = some 42 ∧
    compose_i16 128 0 = -32768 ∧ to_size_t (-32768) = 2 ^ 64 - 32768 ∧
    (∀ vm : VM, vm.runs (c3_fn_written c3_pool) → vm.frame.ip = 1 →
      read_i64_const vm = .ub) ∧
    write_str "s" (c3_compiler c3_pool c3_strings)
      = .ok ⟨⟩ { units_stack :=
                  [create_unit { c3_fn c3_pool with chunks := [OpCode.INT.byte, 128, 0] }],
                 strings := c3_strings ++ ["s"] } ∧
    (c3_strings ++ ["s"])[32768]? = some "s" ∧
    (∀ (vm : VM) (m : Module), vm.runs (c3_fn_written c3_pool) → vm.frame.ip = 1 →
      vm.modules[0]? = some m → m.strings = c3_strings ++ ["s"] →
      ∃ vm1, read_str vm = .longjmp 1 vm1 ∧ vm1.exit_code = ERR_VMRESULT)) :=
  ⟨⟨List.length_replicate _ _, List.length_replicate _ _⟩,
    const_index_32768_not_read_back c3_pool c3_strings (List.length_replicate _ _)
      (List.length_replicate _ _)⟩

theorem dispatch_at {vm : VM} {f : Fn} {op : OpCode} {operands : List Nat}
    (h : vm.at_op f op operands) :
    ∃ chunk, decode chunk = some op ∧ execute_one vm = dispatch chunk vm.fetched := by
  obtain ⟨hr, chunk, hc, hd, _⟩ := h
  exact ⟨chunk, hd, execute_one_at hr chunk hc⟩

/-- C5: when `RET` executes in a frame that is not the only live one, with no
module initialization in progress, the frame is popped and the value stack
consists of the slots that were strictly below the callable (the frame's
`locals` base) followed by exactly one value, the returned one. -/
theorem ret_replaces_frame_region (vm : VM) (f : Fn) (h : vm.at_op f .RET [])
    (hfp : 1 < vm.frame_ptr) (hmod : vm.modules_stack_len ≤ 1)
    (hloc : vm.frame.locals < vm.stack_top) (htop : vm.stack_top ≤ STACK_LENGTH) :
    ∃ vm1, step vm = .running vm1 ∧
      vm1.frame_ptr = vm.frame_ptr - 1 ∧
      vm1.stack_top = vm.frame.locals + 1 ∧
      vm1.stack vm.frame.locals = vm.stack (vm.stack_top - 1) ∧
      (∀ i, i < vm.frame.locals → vm1.stack i = vm.stack i) ∧
      (∀ j, j < vm.frame_ptr - 1 → vm1.frame_stack j = vm.frame_stack j) := by
  obtain ⟨chunk, hd, he⟩ := dispatch_at h
  have h0 : vm.frame_ptr ≠ 0 := by omega
  have h1 : vm.stack_top ≠ 0 := by omega
  have h2 : ¬ vm.frame_ptr - 1 = 0 := by omega
  have h3 : ¬ vm.modules_stack_len > 1 := by omega
  have h4 : ¬ STACK_LENGTH ≤ vm.frame.locals := by omega
  simp [step, he, dispatch, hd, op_ret, get_vm, ret_close_loop, pop, h1, current_frame, h0,
    pop_frame, h2, h3, push, VM.fetched, VM.with_frame, h4]
  refine ⟨?_, ?_⟩
  · intro i hi
    simp [Function.update_noteq (Nat.ne_of_lt hi)]
  · intro j hj
    simp [Function.update_noteq (Nat.ne_of_lt hj)]

theorem is_callable_of_callee {vm : VM} {ptr gi : Nat} {clo : Option Nat}
    (h : vm.callee ptr gi clo) : is_callable vm (.obj ptr) = true := by
  rcases h with ⟨ho, -⟩ | ⟨mc, outs, m, ho, -, -, -⟩ <;> simp [is_callable, value_obj, ho]

theorem call_step (vm : VM) (f : Fn) (argc : Nat) (h : vm.at_op f .CALL [argc])
    (ptr gi : Nat) (clo : Option Nat) (g : Fn)
    (hslot : argc + 2 ≤ vm.stack_top)
    (hval : vm.stack (vm.stack_top - 1 - argc) = .obj ptr)
    (hobj : vm.callee ptr gi clo) (hg : vm.fns[gi]? = some g) :
    (argc ≠ g.arity → ∃ vm1, step vm = .halted ERR_VMRESULT vm1) ∧
    (argc = g.arity → FRAME_LENGTH ≤ vm.frame_ptr → ∃ vm1, step vm = .halted ERR_VMRESULT vm1) ∧
    (argc = g.arity → vm.frame_ptr < FRAME_LENGTH →
      ∃ vm1, step vm = .running vm1 ∧ vm1.frame_ptr = vm.frame_ptr + 1 ∧
        vm1.frame = { ip := 0, last_offset := 0, fn := some gi, closure := clo,
                      locals := vm.stack_top - 1 - argc, outs_head := none, outs_tail := none } ∧
        vm1.stack = vm.stack ∧ vm1.stack_top = vm.stack_top ∧ vm1.fns = vm.fns ∧
        vm1.heap = vm.heap) := by
  obtain ⟨chunk, hd, he⟩ := dispatch_at h
  obtain ⟨hr, -, -, -, hops⟩ := h
  have ha : f.chunks[vm.fetched.frame.ip]? = some argc := by
    have := hops 0 (by simp)
    simpa using this
  have adv := advance_at (fetched_runs hr) argc ha
  have hp : ¬ ((vm.stack_top : Int) ≤ argc + 1) := by omega
  have hp2 : ¬ ((vm.stack_top : Int) - 1 - argc < 0) := by omega
  have ht : vm.stack_top ≠ 0 := by omega
  have hcal := is_callable_of_callee hobj
  rcases hobj with ⟨ho, hclo⟩ | ⟨mc, outs, m, ho, hm, hmf, hclo⟩
  · refine ⟨?_, ?_, ?_⟩
    · intro hne
      simp only [step, he, dispatch, hd, op_call, bind_apply, adv]
      simp [peek_at, ht, hp, hval, get_vm, ho, deref,
        call_fn, hg, VM.fetched, VM.with_frame, VM.set_ip, hne, vmu_error, after_longjmp,
        ERR_VMRESULT]
    · intro heq hfull
      have heq := heq.symm
      simp only [step, he, dispatch, hd, op_call, bind_apply, adv]
      simp [peek_at, ht, hp, hval, get_vm, ho, deref,
        call_fn, hg, VM.fetched, VM.with_frame, VM.set_ip, heq, vmu_error, after_longjmp,
        ERR_VMRESULT, push_frame, hfull]
    · intro heq hroom
      have heq := heq.symm
      have hroom2 : ¬ FRAME_LENGTH ≤ vm.frame_ptr := by omega
      simp only [step, he, dispatch, hd, op_call, bind_apply, adv]
      simp [peek_at, ht, hp, hval, get_vm, ho, deref,
        call_fn, hg, VM.fetched, VM.with_frame, VM.set_ip, heq, vmu_error, after_longjmp,
        ERR_VMRESULT, push_frame, hroom2, hp2, is_callable, value_obj, modify_frame, VM.frame,
        hclo]
  · refine ⟨?_, ?_, ?_⟩
    · intro hne
      simp only [step, he, dispatch, hd, op_call, bind_apply, adv]
      simp [peek_at, ht, hp, hval, get_vm, ho, deref,
        call_closure, hg, hm, hmf, VM.fetched, VM.with_frame, VM.set_ip, hne, vmu_error,
        after_longjmp, ERR_VMRESULT]
    · intro heq hfull
      have heq := heq.symm
      simp only [step, he, dispatch, hd, op_call, bind_apply, adv]
      simp [peek_at, ht, hp, hval, get_vm, ho, deref,
        call_closure, hg, hm, hmf, VM.fetched, VM.with_frame, VM.set_ip, heq, vmu_error,
        after_longjmp, ERR_VMRESULT, push_frame, hfull]
    · intro heq hroom
      have heq := heq.symm
      have hroom2 : ¬ FRAME_LENGTH ≤ vm.frame_ptr := by omega
      simp only [step, he, dispatch, hd, op_call, bind_apply, adv]
      simp [peek_at, ht, hp, hval, get_vm, ho, deref,
        call_closure, hg, hm, hmf, VM.fetched, VM.with_frame, VM.set_ip, heq, vmu_error,
        after_longjmp, ERR_VMRESULT, push_frame, hroom2, hp2, is_callable, value_obj,
        modify_frame, VM.frame, hclo]

theorem lget_step (vm : VM) (f : Fn) (k : Nat) (h : vm.at_op f .LGET [k])
    (hk : vm.frame.locals + 1 + k < vm.stack_top) (hroom : vm.stack_top < STACK_LENGTH) :
    ∃ vm1, step vm = .running vm1 ∧ vm1.stack_top = vm.stack_top + 1 ∧
      vm1.stack vm.stack_top = vm.stack (vm.frame.locals + 1 + k) ∧
      (∀ i, i < vm.stack_top → vm1.stack i = vm.stack i) ∧ vm1.frame_ptr = vm.frame_ptr := by
  obtain ⟨chunk, hd, he⟩ := dispatch_at h
  obtain ⟨hr, -, -, -, hops⟩ := h
  have ha : f.chunks[vm.fetched.frame.ip]? = some k := by
    have := hops 0 (by simp)
    simpa using this
  have adv := advance_at (fetched_runs hr) k ha
  have h0 : vm.frame_ptr ≠ 0 := hr.1
  have h1 : ¬ vm.stack_top ≤ vm.frame.locals + 1 + k := by omega
  have h2 : ¬ STACK_LENGTH ≤ vm.stack_top := by omega
  simp only [step, he, dispatch, hd, op_lget, bind_apply, adv]
  unfold VM.frame at h1
  simp [frame_local, current_frame, h0, get_vm, VM.fetched, VM.with_frame, VM.set_ip, VM.frame,
    h1, load, push, h2]
  intro i hi
  simp [Function.update_noteq (Nat.ne_of_lt hi)]

/-- C4 (amended): `CALL argc` on a function or closure held above stack slot 0
raises a runtime error iff `argc` differs from the callee's declared arity or
the frame stack already holds `FRAME_LENGTH` frames; otherwise it pushes a
frame with `ip` 0 whose `locals` base is the stack slot holding the callable,
so that base+0 is the callable, base+i for `1 ≤ i ≤ arity` is the i-th
argument, and `LGET k` for `k < arity`, executed first in the new frame with
room on the value stack, pushes argument `k+1`. -/
theorem call_pushes_frame_or_errors (vm : VM) (f : Fn) (argc : Nat)
    (h : vm.at_op f .CALL [argc]) (ptr gi : Nat) (clo : Option Nat) (g : Fn)
    (hslot : argc + 2 ≤ vm.stack_top)
    (hval : vm.stack (vm.stack_top - 1 - argc) = .obj ptr)
    (hobj : vm.callee ptr gi clo) (hg : vm.fns[gi]? = some g) :
    ((step vm).is_error ↔ (argc ≠ g.arity ∨ FRAME_LENGTH ≤ vm.frame_ptr)) ∧
    (argc = g.arity → vm.frame_ptr < FRAME_LENGTH →
      ∃ vm1, step vm = .running vm1 ∧ vm1.frame_ptr = vm.frame_ptr + 1 ∧
        vm1.frame = { ip := 0, last_offset := 0, fn := some gi, closure := clo,
                      locals := vm.stack_top - 1 - argc, outs_head := none, outs_tail := none } ∧
        vm1.stack = vm.stack ∧ vm1.stack_top = vm.stack_top ∧
        vm1.stack vm1.frame.locals = .obj ptr ∧
        (∀ i, 1 ≤ i → i ≤ g.arity →
          vm1.stack (vm1.frame.locals + i) = vm.stack (vm.stack_top - 1 - (argc - i))) ∧
        (∀ c k, g.chunks[0]? = some c → decode c = some .LGET → g.chunks[1]? = some k →
          k < g.arity → vm.stack_top < STACK_LENGTH →
          ∃ vm2, step vm1 = .running vm2 ∧ vm2.stack_top = vm.stack_top + 1 ∧
            vm2.stack vm.stack_top = vm.stack (vm.stack_top - 1 - (argc - (k + 1))))) := by
  obtain ⟨hA, hB, hC⟩ := call_step vm f argc h ptr gi clo g hslot hval hobj hg
  constructor
  · constructor
    · intro herr
      by_contra hcon
      have h1 : argc = g.arity := by
        by_contra hne
        exact hcon (Or.inl hne)
      have h2 : vm.frame_ptr < FRAME_LENGTH := by
        by_contra hge
        exact hcon (Or.inr (by omega))
      obtain ⟨vm1, hs, -⟩ := hC h1 h2
      rw [hs] at herr
      exact herr
    · intro hor
      by_cases hne : argc = g.arity
      · rcases hor with h1 | h2
        · exact absurd hne h1
        · obtain ⟨vm1, hs⟩ := hB hne h2
          rw [hs]; rfl
      · obtain ⟨vm1, hs⟩ := hA hne
        rw [hs]; rfl
  · intro heq hroom
    obtain ⟨vm1, hs, hfp, hfr, hst, htop, hfns, hheap⟩ := hC heq hroom
    refine ⟨vm1, hs, hfp, hfr, hst, htop, ?_, ?_, ?_⟩
    · rw [hfr, hst]; exact hval
    · intro i h1 h2
      rw [hfr, hst]
      congr 1
      show vm.stack_top - 1 - argc + i = vm.stack_top - 1 - (argc - i)
      omega
    · intro c k hc hd hk hlt hr
      have hruns : vm1.runs g := ⟨by omega, gi, by rw [hfr], by rw [hfns]; exact hg⟩
      have hat : vm1.at_op g .LGET [k] := by
        refine ⟨hruns, c, by rw [hfr]; exact hc, hd, ?_⟩
        intro i hi
        have : i = 0 := by simpa using hi
        subst this
        rw [hfr]; simpa using hk
      obtain ⟨vm2, hs2, ht2, hv2, -, -⟩ := lget_step vm1 g k hat
        (by rw [hfr, htop]; show vm.stack_top - 1 - argc + 1 + k < vm.stack_top; omega)
        (by rw [htop]; exact hr)
      refine ⟨vm2, hs2, by rw [ht2, htop], ?_⟩
      rw [htop] at hv2
      rw [hv2, hfr, hst]
      congr 1
      show vm.stack_top - 1 - argc + 1 + k = vm.stack_top - 1 - (argc - (k + 1))
      omega

theorem at_op_intro (vm : VM) (f : Fn) (op : OpCode) (operands : List Nat)
    (h0 : vm.frame_ptr ≠ 0) (fi : Nat) (h1 : vm.frame.fn = some fi) (h2 : vm.fns[fi]? = some f)
    (h3 : (f.chunks[vm.frame.ip]?).bind decode = some op)
    (h4 : ((f.chunks.drop (vm.frame.ip + 1)).take operands.length) = operands) :
    vm.at_op f op operands := by
  refine ⟨⟨h0, fi, h1, h2⟩, ?_⟩
  cases hc : f.chunks[vm.frame.ip]? with
  | none => rw [hc] at h3; cases h3
  | some chunk =>
    rw [hc] at h3
    refine ⟨chunk, rfl, h3, ?_⟩
    intro i hi
    have e : (((f.chunks.drop (vm.frame.ip + 1)).take operands.length))[i]? = operands[i]? := by
      rw [h4]
    rw [List.getElem?_take_of_lt hi, List.getElem?_drop] at e
    rw [e]
    simp [List.getElem?_eq_getElem hi]

theorem call_pushes_frame_or_errors_witness :
    ((s2_state 2).at_op s2_main .CALL [1] ∧ 1 + 2 ≤ (s2_state 2).stack_top ∧
      (s2_state 2).stack ((s2_state 2).stack_top - 1 - 1) = .obj 0 ∧
      (s2_state 2).callee 0 1 none ∧ (s2_state 2).fns[1]? = some s2_make_adder) ∧
    (((step (s2_state 2)).is_error ↔
        (1 ≠ s2_make_adder.arity ∨ FRAME_LENGTH ≤ (s2_state 2).frame_ptr)) ∧
    (1 = s2_make_adder.arity → (s2_state 2).frame_ptr < FRAME_LENGTH →
      ∃ vm1, step (s2_state 2) = .running vm1 ∧ vm1.frame_ptr = (s2_state 2).frame_ptr + 1 ∧
        vm1.frame = { ip := 0, last_offset := 0, fn := some 1, closure := none,
                      locals := (s2_state 2).stack_top - 1 - 1, outs_head := none,
                      outs_tail := none } ∧
        vm1.stack = (s2_state 2).stack ∧ vm1.stack_top = (s2_state 2).stack_top ∧
        vm1.stack vm1.frame.locals = .obj 0 ∧
        (∀ i, 1 ≤ i → i ≤ s2_make_adder.arity →
          vm1.stack (vm1.frame.locals + i)
            = (s2_state 2).stack ((s2_state 2).stack_top - 1 - (1 - i))) ∧
        (∀ c k, s2_make_adder.chunks[0]? = some c → decode c = some .LGET →
          s2_make_adder.chunks[1]? = some k →
          k < s2_make_adder.arity → (s2_state 2).stack_top < STACK_LENGTH →
          ∃ vm2, step vm1 = .running vm2 ∧ vm2.stack_top = (s2_state 2).stack_top + 1 ∧
            vm2.stack (s2_state 2).stack_top
              = (s2_state 2).stack ((s2_state 2).stack_top - 1 - (1 - (k + 1)))))) :=
  have hat : (s2_state 2).at_op s2_main .CALL [1] :=
    at_op_intro _ _ _ _ (by decide!) 0 (by decide!) (by decide!) (by decide!) (by decide!)
  have hslot : 1 + 2 ≤ (s2_state 2).stack_top := by decide!
  have hval : (s2_state 2).stack ((s2_state 2).stack_top - 1 - 1) = .obj 0 := by decide!
  have hcal : (s2_state 2).callee 0 1 none := Or.inl ⟨by decide!, rfl⟩
  have hg : (s2_state 2).fns[1]? = some s2_make_adder := by decide!
  ⟨⟨hat, hslot, hval, hcal, hg⟩,
    call_pushes_frame_or_errors (s2_state 2) s2_main 1 hat 0 1 none s2_make_adder hslot hval hcal
      hg⟩

theorem ret_replaces_frame_region_witness :
    ((s2_state 4).at_op s2_make_adder .RET [] ∧ 1 < (s2_state 4).frame_ptr ∧
      (s2_state 4).modules_stack_len ≤ 1 ∧ (s2_state 4).frame.locals < (s2_state 4).stack_top ∧
      (s2_state 4).stack_top ≤ STACK_LENGTH) ∧
    ∃ vm1, step (s2_state 4) = .running vm1 ∧
      vm1.frame_ptr = (s2_state 4).frame_ptr - 1 ∧
      vm1.stack_top = (s2_state 4).frame.locals + 1 ∧
      vm1.stack (s2_state 4).frame.locals = (s2_state 4).stack ((s2_state 4).stack_top - 1) ∧
      (∀ i, i < (s2_state 4).frame.locals → vm1.stack i = (s2_state 4).stack i) ∧
      (∀ j, j < (s2_state 4).frame_ptr - 1 →
        vm1.frame_stack j = (s2_state 4).frame_stack j) :=
  have hat : (s2_state 4).at_op s2_make_adder .RET [] :=
    at_op_intro _ _ _ _ (by decide!) 1 (by decide!) (by decide!) (by decide!) (by decide!)
  ⟨⟨hat, by decide!, by decide!, by decide!, by decide!⟩,
    ret_replaces_frame_region (s2_state 4) s2_make_adder hat (by decide!) (by decide!)
      (by decide!) (by decide!)⟩

theorem rec_state_509_facts :
    ((rec_state 509).frame_ptr ≠ 0 ∧ (rec_state 509).frame.fn = some 1 ∧
      (rec_state 509).fns[1]? = some rec_f ∧
      (rec_f.chunks[(rec_state 509).frame.ip]?).bind decode = some OpCode.CALL ∧
      ((rec_f.chunks.drop ((rec_state 509).frame.ip + 1)).take [0].length) = [0]) ∧
    (rec_state 509).stack ((rec_state 509).stack_top - 1 - 0) = .obj 0 ∧
    (rec_state 509).heap[0]? = some (.fn 1) ∧ (rec_state 509).fns[1]? = some rec_f ∧
    rec_f.arity = 0 ∧ (rec_state 509).frame_ptr = FRAME_LENGTH ∧
    (step (rec_state 509)).is_error ∧
    (step (rec_state 509)).vm.stderr = ["Runtime error: Frame stack is full"] := by
  decide!

/-- C4 as stated fails at depth 255 of `proc f() \x7b f() \x7d`: the callee `f` has
arity 0 and is called with 0 arguments, yet `CALL` raises the runtime error
"Frame stack is full". -/
theorem call_error_with_matching_arity :
    (rec_state 509).at_op rec_f .CALL [0] ∧
    (rec_state 509).stack ((rec_state 509).stack_top - 1 - 0) = .obj 0 ∧
    (rec_state 509).heap[0]? = some (.fn 1) ∧ (rec_state 509).fns[1]? = some rec_f ∧
    rec_f.arity = 0 ∧ (rec_state 509).frame_ptr = FRAME_LENGTH ∧
    (step (rec_state 509)).is_error ∧
    (step (rec_state 509)).vm.stderr = ["Runtime error: Frame stack is full"] :=
  ⟨at_op_intro (rec_state 509) rec_f .CALL [0] rec_state_509_facts.1.1 1
      rec_state_509_facts.1.2.1 rec_state_509_facts.1.2.2.1 rec_state_509_facts.1.2.2.2.1
      rec_state_509_facts.1.2.2.2.2,
    rec_state_509_facts.2⟩

/-- C7 on the code: when `RET` executes in a frame (more than one frame live,
no module initialization in progress), the heap is left as it was, so every
`OutValue` linked to the returning frame keeps its `linked` flag and the value
it held before, and the frame record keeps its `outs_head` and `outs_tail`:
the closing loop of `OP_RET` starts from a null `current_out` and never runs. -/
theorem ret_leaves_out_values_linked (vm : VM) (f : Fn) (h : vm.at_op f .RET [])
    (hfp : 1 < vm.frame_ptr) (hmod : vm.modules_stack_len ≤ 1)
    (hloc : vm.frame.locals < vm.stack_top) (htop : vm.stack_top ≤ STACK_LENGTH) :
    ∃ vm1, step vm = .running vm1 ∧ vm1.heap = vm.heap ∧
      (vm1.frame_stack (vm.frame_ptr - 1)).outs_head = vm.frame.outs_head ∧
      (vm1.frame_stack (vm.frame_ptr - 1)).outs_tail = vm.frame.outs_tail := by
  obtain ⟨chunk, hd, he⟩ := dispatch_at h
  have h0 : vm.frame_ptr ≠ 0 := by omega
  have h1 : vm.stack_top ≠ 0 := by omega
  have h2 : ¬ vm.frame_ptr - 1 = 0 := by omega
  have h3 : ¬ vm.modules_stack_len > 1 := by omega
  have h4 : ¬ STACK_LENGTH ≤ vm.frame.locals := by omega
  simp [step, he, dispatch, hd, op_ret, get_vm, ret_close_loop, pop, h1, current_frame, h0,
    pop_frame, h2, h3, push, VM.fetched, VM.with_frame, h4]

theorem ret_leaves_out_values_linked_witness :
    ((c7_state 8).at_op c7_mk .RET [] ∧ 1 < (c7_state 8).frame_ptr ∧
      (c7_state 8).modules_stack_len ≤ 1 ∧ (c7_state 8).frame.locals < (c7_state 8).stack_top ∧
      (c7_state 8).stack_top ≤ STACK_LENGTH) ∧
    ((c7_state 8).frame.outs_head = some ⟨2, 0⟩ ∧
      (c7_state 8).heap[2]? = some (.closure 0 [cap_out]) ∧
      (c7_state 8).stack ((c7_state 8).frame.locals + 1 + 0) = .int 5) ∧
    (∃ vm1, step (c7_state 8) = .running vm1 ∧ vm1.heap = (c7_state 8).heap ∧
      (vm1.frame_stack ((c7_state 8).frame_ptr - 1)).outs_head = (c7_state 8).frame.outs_head ∧
      (vm1.frame_stack ((c7_state 8).frame_ptr - 1)).outs_tail
        = (c7_state 8).frame.outs_tail) :=
  have hat : (c7_state 8).at_op c7_mk .RET [] :=
    at_op_intro _ _ _ _ (by decide!) 1 (by decide!) (by decide!) (by decide!) (by decide!)
  ⟨⟨hat, by decide!, by decide!, by decide!, by decide!⟩, by decide!,
    ret_leaves_out_values_linked (c7_state 8) c7_mk hat (by decide!) (by decide!) (by decide!)
      (by decide!)⟩

/-- C8 at the failing input `proc mk(x) \x7b let g = anon() \x7b ret x \x7d;
x = 5; ret g() \x7d` called with 3: when the closure runs `OGET 0` the frame of
`mk` is still live, its local 0 was reassigned to 5 by `LSET` after the
closure was created, and the `OutValue` is flagged linked, yet `OGET` pushes
the value 3 that was copied when the closure was created. -/
theorem oget_reads_creation_time_copy :
    (c8_state 9).at_op cap_anon .OGET [0] ∧
    ((c8_state 4).stack 2 = .int 3 ∧ (c8_state 6).stack 2 = .int 5 ∧
      (c8_state 9).frame.closure = some 2 ∧
      (c8_state 9).heap[2]? = some (.closure 0 [cap_out]) ∧
      (c8_state 9).frame_ptr = 3 ∧ ((c8_state 9).frame_stack 1).fn = some 1 ∧
      ((c8_state 9).frame_stack 1).outs_head = some ⟨2, 0⟩ ∧
      (c8_state 9).stack (((c8_state 9).frame_stack 1).locals + 1 + 0) = .int 5 ∧
      (step (c8_state 9)).vm.top 1 = [.int 3]) :=
  ⟨at_op_intro _ _ _ _ (by decide!) 2 (by decide!) (by decide!) (by decide!) (by decide!),
    by decide!⟩

theorem throw_msg_of_ok (vm : VM) (v : Value) (h : ¬ bad_throw_msg vm v) :
    ∃ m, throw_msg_of v vm = .ok m vm := by
  unfold throw_msg_of
  simp only [bind_apply, get_vm]
  cases ho : value_obj vm v with
  | none => exact ⟨none, rfl⟩
  | some o =>
    cases o with
    | str buff => exact ⟨some buff, rfl⟩
    | record attrs =>
      cases attrs with
      | none => exact ⟨none, rfl⟩
      | some attrs =>
        cases hl : attrs.lookup "msg" with
        | none => simp [hl]
        | some mv =>
          cases hm : value_obj vm mv with
          | none =>
            exact absurd ⟨attrs, mv, ho, hl, by simp [is_value_str, hm]⟩ h
          | some mo =>
            cases mo with
            | str buff => simp [hl, hm]
            | record a => exact absurd ⟨attrs, mv, ho, hl, by simp [is_value_str, hm]⟩ h
            | native_fn a b c => exact absurd ⟨attrs, mv, ho, hl, by simp [is_value_str, hm]⟩ h
            | fn a => exact absurd ⟨attrs, mv, ho, hl, by simp [is_value_str, hm]⟩ h
            | closure a b => exact absurd ⟨attrs, mv, ho, hl, by simp [is_value_str, hm]⟩ h
            | module a => exact absurd ⟨attrs, mv, ho, hl, by simp [is_value_str, hm]⟩ h
            | list a => exact absurd ⟨attrs, mv, ho, hl, by simp [is_value_str, hm]⟩ h
            | nbarray a => exact absurd ⟨attrs, mv, ho, hl, by simp [is_value_str, hm]⟩ h
            | other a => exact absurd ⟨attrs, mv, ho, hl, by simp [is_value_str, hm]⟩ h
    | native_fn a b c => exact ⟨none, rfl⟩
    | fn a => exact ⟨none, rfl⟩
    | closure a b => exact ⟨none, rfl⟩
    | module a => exact ⟨none, rfl⟩
    | list a => exact ⟨none, rfl⟩
    | nbarray a => exact ⟨none, rfl⟩
    | other a => exact ⟨none, rfl⟩

theorem bad_throw_msg_heap (vm vm1 : VM) (v : Value) (hh : vm1.heap = vm.heap) :
    bad_throw_msg vm1 v ↔ bad_throw_msg vm v := by
  simp [bad_throw_msg, is_value_str, value_obj, hh]

/-- C9 (amended): when `THROW` executes while the exception stack is non-empty,
and the thrown value (if any) is not a record whose `msg` attribute is not a
string, and the recorded stack top leaves room for one value, the top
exception frame is removed, the frame recorded by the matching `TRY_OPEN`
becomes the current frame with its `ip` at the recorded catch address, the
value stack is cut back to the recorded top and the thrown value (empty when
`THROW` carries no value) is pushed on it. -/
theorem throw_lands_in_handler (vm : VM) (f : Fn) (has_value : Nat)
    (h : vm.at_op f .THROW [has_value]) (e : Exception) (rest : List Exception)
    (hex : vm.exception_stack = e :: rest) (hroom : e.stack_top < STACK_LENGTH)
    (hval : has_value ≠ 0 →
      vm.stack_top ≠ 0 ∧ ¬ bad_throw_msg vm (vm.stack (vm.stack_top - 1))) :
    ∃ vm1, step vm = .running vm1 ∧ vm1.exception_stack = rest ∧
      vm1.frame_ptr = e.frame + 1 ∧ vm1.frame.ip = e.catch_ip ∧
      vm1.frame.fn = (vm.frame_stack e.frame).fn ∧
      vm1.frame.locals = (vm.frame_stack e.frame).locals ∧
      (∀ j, j < e.frame → j ≠ vm.frame_ptr - 1 → vm1.frame_stack j = vm.frame_stack j) ∧
      vm1.stack_top = e.stack_top + 1 ∧
      vm1.stack e.stack_top
        = (if has_value ≠ 0 then vm.stack (vm.stack_top - 1) else Value.empty) ∧
      (∀ i, i < e.stack_top → vm1.stack i = vm.stack i) := by
  obtain ⟨chunk, hd, he⟩ := dispatch_at h
  obtain ⟨hr, -, -, -, hops⟩ := h
  have ha : f.chunks[vm.fetched.frame.ip]? = some has_value := by
    have := hops 0 (by simp)
    simpa using this
  have adv := advance_at (fetched_runs hr) has_value ha
  have h2 : ¬ STACK_LENGTH ≤ e.stack_top := by omega
  by_cases hv : has_value = 0
  · simp only [step, he, dispatch, hd, op_throw, bind_apply, adv]
    simp [hv, get_vm, hex, after_longjmp, land_throw, landed, modify_frame, push, h2,
      VM.fetched, VM.with_frame, VM.set_ip, VM.frame, Value.zero]
    refine ⟨?_, ?_, ?_, ?_⟩
    · by_cases hj : e.frame = vm.frame_ptr - 1
      · rw [hj]; simp
      · simp [Function.update_noteq hj]
    · by_cases hj : e.frame = vm.frame_ptr - 1
      · rw [hj]; simp
      · simp [Function.update_noteq hj]
    · intro j hj hne
      simp [Function.update_noteq (Nat.ne_of_lt hj), Function.update_noteq hne]
    · intro i hi
      simp [Function.update_noteq (Nat.ne_of_lt hi)]
  · obtain ⟨ht, hb⟩ := hval hv
    obtain ⟨m, hm⟩ := throw_msg_of_ok
      { (vm.fetched.set_ip (vm.fetched.frame.ip + 1)) with stack_top := vm.stack_top - 1 }
      (vm.stack (vm.stack_top - 1)) ((bad_throw_msg_heap _ vm _ rfl).not.mpr hb)
    simp only [step, he, dispatch, hd, op_throw, bind_apply, adv]
    simp [hv, pop, ht, get_vm, hex, after_longjmp, land_throw, landed, modify_frame, push, h2,
      VM.fetched, VM.with_frame, VM.set_ip, VM.frame, Value.zero] at hm ⊢
    rw [hm]
    simp [hv, pop, ht, get_vm, hex, after_longjmp, land_throw, landed, modify_frame, push, h2,
      VM.fetched, VM.with_frame, VM.set_ip, VM.frame, Value.zero]
    refine ⟨?_, ?_, ?_, ?_⟩
    · by_cases hj : e.frame = vm.frame_ptr - 1
      · rw [hj]; simp
      · simp [Function.update_noteq hj]
    · by_cases hj : e.frame = vm.frame_ptr - 1
      · rw [hj]; simp
      · simp [Function.update_noteq hj]
    · intro j hj hne
      simp [Function.update_noteq (Nat.ne_of_lt hj), Function.update_noteq hne]
    · intro i hi
      simp [Function.update_noteq (Nat.ne_of_lt hi)]

theorem throw_lands_in_handler_witness :
    ((c9_state_str 5).at_op c9_f .THROW [1] ∧
      (c9_state_str 5).exception_stack = c9_exception :: [] ∧
      c9_exception.stack_top < STACK_LENGTH ∧
      (c9_state_str 5).stack_top ≠ 0 ∧
      (c9_state_str 5).stack ((c9_state_str 5).stack_top - 1) = .obj 1) ∧
    ∃ vm1, step (c9_state_str 5) = .running vm1 ∧ vm1.exception_stack = [] ∧
      vm1.frame_ptr = c9_exception.frame + 1 ∧ vm1.frame.ip = c9_exception.catch_ip ∧
      vm1.frame.fn = ((c9_state_str 5).frame_stack c9_exception.frame).fn ∧
      vm1.frame.locals = ((c9_state_str 5).frame_stack c9_exception.frame).locals ∧
      (∀ j, j < c9_exception.frame → j ≠ (c9_state_str 5).frame_ptr - 1 →
        vm1.frame_stack j = (c9_state_str 5).frame_stack j) ∧
      vm1.stack_top = c9_exception.stack_top + 1 ∧
      vm1.stack c9_exception.stack_top
        = (if 1 ≠ 0 then (c9_state_str 5).stack ((c9_state_str 5).stack_top - 1)
           else Value.empty) ∧
      (∀ i, i < c9_exception.stack_top → vm1.stack i = (c9_state_str 5).stack i) :=
  have hat : (c9_state_str 5).at_op c9_f .THROW [1] :=
    at_op_intro _ _ _ _ (by decide!) 1 (by decide!) (by decide!) (by decide!) (by decide!)
  have hex : (c9_state_str 5).exception_stack = c9_exception :: [] := by decide!
  have hv : (c9_state_str 5).stack ((c9_state_str 5).stack_top - 1) = .obj 1 := by decide!
  have ho : value_obj (c9_state_str 5) (.obj 1) = some (.record (some [("msg", .obj 2)])) := by
    decide!
  have hs : is_value_str (c9_state_str 5) (.obj 2) = true := by decide!
  have hnb : ¬ bad_throw_msg (c9_state_str 5)
      ((c9_state_str 5).stack ((c9_state_str 5).stack_top - 1)) := by
    rw [hv]
    rintro ⟨attrs, mv, h1, h2, h3⟩
    rw [ho] at h1
    cases h1
    cases h2
    rw [hs] at h3
    cases h3
  ⟨⟨hat, hex, by decide, by decide!, hv⟩,
    throw_lands_in_handler (c9_state_str 5) c9_f 1 hat c9_exception [] hex (by decide)
      (fun _ => ⟨by decide!, hnb⟩)⟩

/-- C9 as stated fails when the thrown value is a record whose `msg` attribute
is not a string: in `proc f(r) \x7b try \x7b throw r \x7d catch \x7b \x7d \x7d`
called with a record whose `msg` is the integer 5, `THROW` executes with a
non-empty exception stack and raises the runtime error "Expect record
attribute 'msg' to be of type 'str'" instead of landing in the handler. -/
theorem throw_with_handler_raises_error :
    (c9_state 5).at_op c9_f .THROW [1] ∧
    ((c9_state 5).exception_stack = [c9_exception] ∧
      (c9_state 5).stack ((c9_state 5).stack_top - 1) = .obj 1 ∧
      (c9_state 5).heap[1]? = some (.record (some [("msg", .int 5)])) ∧
      (step (c9_state 5)).is_error ∧
      (step (c9_state 5)).vm.stderr
        = ["Runtime error: Expect record attribute 'msg' to be of type 'str'"]) :=
  ⟨at_op_intro _ _ _ _ (by decide!) 1 (by decide!) (by decide!) (by decide!) (by decide!),
    by decide!⟩

/-- C10 at the failing input `proc f() \x7b try \x7b throw \x7d catch \x7b empty \x7d \x7d`:
the compiled function opens the try at offset 0 with the value-stack top at 2;
the throw lands at the catch address 9 with the stack cut back to 2 and the
thrown (empty) value pushed; the catch body is balanced and nothing pops the
thrown value, so control reaches the end of the statement (offset 11, the
label `CATCH(0)_END`) in the same frame with the value-stack top at 3, not 2.
When the try body completes normally (`try \x7b empty \x7d`) the top at the
same offset is 2. -/
theorem try_catch_throw_unbalances_stack :
    (c10_state 2).at_op c10_f .TRYO [0, 9] ∧
    (c10_f.chunks = [OpCode.TRYO.byte, 0, 9, OpCode.THROW.byte, 0, OpCode.TRYC.byte,
        OpCode.JMP.byte, 0, 2, OpCode.EMPTY.byte, OpCode.POP.byte, OpCode.EMPTY.byte,
        OpCode.RET.byte] ∧
      (c10_state 2).stack_top = 2 ∧ (c10_state 2).frame_ptr = 2 ∧
      (c10_state 3).exception_stack.map (fun e => (e.catch_ip, e.stack_top, e.frame))
        = [(9, 2, 1)] ∧
      (c10_state 4).frame.ip = 9 ∧ (c10_state 4).stack_top = 3 ∧
      (c10_state 6).frame_ptr = 2 ∧ (c10_state 6).frame.ip = 11 ∧
      (c10_state 6).exception_stack = [] ∧
      (c10_state 6).stack_top = 3 ∧ (c10_state 6).stack_top ≠ (c10_state 2).stack_top ∧
      (c10_state_normal 2).stack_top = 2 ∧ (c10_state_normal 7).frame_ptr = 2 ∧
      (c10_state_normal 7).frame.ip = 11 ∧ (c10_state_normal 7).stack_top = 2) :=
  ⟨at_op_intro _ _ _ _ (by decide!) 1 (by decide!) (by decide!) (by decide!) (by decide!),
    by decide!⟩

/-! ## Captured values are kept by every instruction but `OSET` -/

theorem Keeps.refl (P : Nat → Prop) (vm : VM) : Keeps P vm vm :=
  ⟨rfl, fun _ _ _ h => h, fun _ _ h => h⟩

theorem Keeps.trans {P : Nat → Prop} {a b c : VM} (h1 : Keeps P a b) (h2 : Keeps P b c) :
    Keeps P a c :=
  ⟨h2.1.trans h1.1, fun p x hp h => h2.2.1 p x hp (h1.2.1 p x hp h),
    fun k p h => h2.2.2 k p (h1.2.2 k p h)⟩

theorem Keeps.of_eq {P : Nat → Prop} {vm vm1 : VM} (hh : vm1.heap = vm.heap)
    (hm : vm1.metas = vm.metas) (hs : vm1.runtime_strs = vm.runtime_strs) : Keeps P vm vm1 :=
  ⟨hm, fun c x _ h => by simpa [captured, hh] using h, fun k p h => by rw [hs]; exact h⟩

theorem pres_pure {P : Nat → Prop} {α : Type} (a : α) : Pres P (pure a : Exec α) := by
  refine ⟨fun vm vm1 h => ?_⟩
  cases h
  exact Keeps.refl P vm

theorem pres_bind {P : Nat → Prop} {α β : Type} {m : Exec α} {f : α → Exec β}
    (hm : Pres P m) (hf : ∀ a, Pres P (f a)) : Pres P (m >>= f) := by
  refine ⟨fun vm vm2 h => ?_⟩
  have h1 := hm.keeps vm
  change (Exec.bind m f vm).state = some vm2 at h
  unfold Exec.bind at h
  cases hr : m vm with
  | ok a vm1 =>
    rw [hr] at h h1
    exact (h1 vm1 rfl).trans ((hf a).keeps vm1 vm2 h)
  | longjmp v vm1 =>
    rw [hr] at h h1
    cases h
    exact h1 _ rfl
  | ub => rw [hr] at h; cases h
  | unmodelled => rw [hr] at h; cases h

/-- Code that leaves heap, closure descriptors and intern table as they are. -/
theorem pres_of_eq {P : Nat → Prop} {α : Type} {m : Exec α}
    (h : ∀ vm vm1, (m vm).state = some vm1 →
      vm1.heap = vm.heap ∧ vm1.metas = vm.metas ∧ vm1.runtime_strs = vm.runtime_strs) :
    Pres P m :=
  ⟨fun vm vm1 hs => Keeps.of_eq (h vm vm1 hs).1 (h vm vm1 hs).2.1 (h vm vm1 hs).2.2⟩

theorem pres_get_vm {P : Nat → Prop} : Pres P get_vm :=
  ⟨fun vm vm1 h => by cases h; exact Keeps.refl P _⟩

theorem pres_undefined_behaviour {P : Nat → Prop} {α : Type} :
    Pres P (undefined_behaviour : Exec α) :=
  ⟨fun _ _ h => by cases h⟩

theorem pres_not_modelled {P : Nat → Prop} {α : Type} : Pres P (not_modelled : Exec α) :=
  ⟨fun _ _ h => by cases h⟩

theorem pres_deref {P : Nat → Prop} {α : Type} (o : Option α) : Pres P (deref o) := by
  cases o with
  | none => exact pres_undefined_behaviour
  | some a => exact pres_pure a

theorem pres_vmu_error {P : Nat → Prop} {α : Type} (msg : String) :
    Pres P (vmu_error msg : Exec α) :=
  pres_of_eq (fun _ _ h => by cases h; exact ⟨rfl, rfl, rfl⟩)

theorem pres_vmu_internal_error {P : Nat → Prop} {α : Type} (msg : String) :
    Pres P (vmu_internal_error msg : Exec α) :=
  pres_of_eq (fun _ _ h => by cases h; exact ⟨rfl, rfl, rfl⟩)

theorem pres_ite {P : Nat → Prop} {α : Type} (c : Prop) [Decidable c] {a b : Exec α}
    (ha : Pres P a) (hb : Pres P b) : Pres P (if c then a else b) := by
  split
  · exact ha
  · exact hb

/-- Code that completes with a state of the same heap and descriptors. -/
theorem pres_ok {P : Nat → Prop} {α : Type} (a : VM → α) (g : VM → VM)
    (hh : ∀ vm, (g vm).heap = vm.heap) (hm : ∀ vm, (g vm).metas = vm.metas)
    (hs : ∀ vm, (g vm).runtime_strs = vm.runtime_strs) :
    Pres P (fun vm => Res.ok (a vm) (g vm)) :=
  pres_of_eq (fun vm _ h => by cases h; exact ⟨hh vm, hm vm, hs vm⟩)

/-- A `longjmp` from a state of the same heap and descriptors. -/
theorem pres_longjmp {P : Nat → Prop} {α : Type} (v : Nat) (g : VM → VM)
    (hh : ∀ vm, (g vm).heap = vm.heap) (hm : ∀ vm, (g vm).metas = vm.metas)
    (hs : ∀ vm, (g vm).runtime_strs = vm.runtime_strs) :
    Pres P (fun vm => (Res.longjmp v (g vm) : Res α)) :=
  pres_of_eq (fun vm _ h => by cases h; exact ⟨hh vm, hm vm, hs vm⟩)

theorem pres_current_frame {P : Nat → Prop} : Pres P current_frame := by
  refine pres_of_eq (fun vm vm1 h => ?_)
  unfold current_frame at h
  repeat' (first
    | (simp only [Res.state, vmu_error, vmu_internal_error, Option.some.injEq,
        reduceCtorEq] at h; done)
    | (simp only [Res.state, vmu_error, vmu_internal_error, Option.some.injEq,
        reduceCtorEq] at h; subst h; exact ⟨rfl, rfl, rfl⟩)
    | split at h)

theorem pres_set_frame {P : Nat → Prop} (i : Nat) (f : Frame) : Pres P (set_frame i f) :=
  pres_ok _ _ (fun _ => rfl) (fun _ => rfl) (fun _ => rfl)

theorem pres_alloc_obj {P : Nat → Prop} (o : Obj) : Pres P (alloc_obj o) := by
  refine ⟨fun vm vm1 h => ?_⟩
  simp only [alloc_obj, Res.state, Option.some.injEq] at h
  subst h
  refine ⟨rfl, fun c x _ hc => ?_, fun _ _ h => h⟩
  have hlt : c < vm.heap.length := by
    by_contra hn
    simp [captured, List.getElem?_eq_none (Nat.le_of_not_lt hn)] at hc
  simpa [captured, List.getElem?_append_left hlt] using hc

/-- An assignment to an `OutValue` that leaves `at` and `value` as they are,
or that goes to a closure outside `P`. -/
theorem pres_modify_out {P : Nat → Prop} (p : OutPtr) (g : OutValue → OutValue)
    (hg : (∀ o, (g o).at_ = o.at_ ∧ (g o).value = o.value) ∨ ¬ P p.closure_obj) :
    Pres P (modify_out p g) := by
  refine ⟨fun vm vm1 h => ?_⟩
  unfold modify_out at h
  split at h
  · rename_i mc outs hc
    split at h
    · rename_i o ho
      simp only [Res.state, Option.some.injEq] at h
      subst h
      refine ⟨rfl, fun c x hP hx => ?_, fun _ _ h => h⟩
      by_cases hcp : c = p.closure_obj
      · subst hcp
        rcases hg with hg | hg
        · have hlt : p.closure_obj < vm.heap.length := by
            by_contra hn
            simp [List.getElem?_eq_none (Nat.le_of_not_lt hn)] at hc
          simp only [captured, hc] at hx
          simp only [captured, List.getElem?_set_self hlt]
          rw [← hx]
          congr 2
          rw [List.map_set, (hg o).1, (hg o).2]
          apply List.ext_getElem?
          intro j
          rw [List.getElem?_set]
          split
          · rename_i hj
            subst hj
            split
            · rw [List.getElem?_map, ho]; rfl
            · rename_i hn
              rw [List.getElem?_eq_none (Nat.le_of_not_lt hn)]
          · rfl
        · exact absurd hP hg
      · simpa [captured, List.getElem?_set_ne (Ne.symm hcp)] using hx
    · simp [Res.state] at h
  · simp [Res.state] at h

theorem pres_frame_chunks {P : Nat → Prop} (f : Frame) : Pres P (frame_chunks f) := by
  refine pres_of_eq (fun vm vm1 h => ?_)
  unfold frame_chunks at h
  repeat' (first
    | (simp only [Res.state, vmu_error, vmu_internal_error, Option.some.injEq,
        reduceCtorEq] at h; done)
    | (simp only [Res.state, vmu_error, vmu_internal_error, Option.some.injEq,
        reduceCtorEq] at h; subst h; exact ⟨rfl, rfl, rfl⟩)
    | split at h)

theorem pres_peek {P : Nat → Prop} : Pres P peek := by
  refine pres_of_eq (fun vm vm1 h => ?_)
  unfold peek at h
  repeat' (first
    | (simp only [Res.state, vmu_error, vmu_internal_error, Option.some.injEq,
        reduceCtorEq] at h; done)
    | (simp only [Res.state, vmu_error, vmu_internal_error, Option.some.injEq,
        reduceCtorEq] at h; subst h; exact ⟨rfl, rfl, rfl⟩)
    | split at h)

theorem pres_peek_at_ptr {P : Nat → Prop} (offset : Nat) : Pres P (peek_at_ptr offset) := by
  refine pres_of_eq (fun vm vm1 h => ?_)
  unfold peek_at_ptr at h
  repeat' (first
    | (simp only [Res.state, vmu_error, vmu_internal_error, Option.some.injEq,
        reduceCtorEq] at h; done)
    | (simp only [Res.state, vmu_error, vmu_internal_error, Option.some.injEq,
        reduceCtorEq] at h; subst h; exact ⟨rfl, rfl, rfl⟩)
    | split at h)

theorem pres_peek_at {P : Nat → Prop} (offset : Nat) : Pres P (peek_at offset) := by
  refine pres_of_eq (fun vm vm1 h => ?_)
  unfold peek_at at h
  repeat' (first
    | (simp only [Res.state, vmu_error, vmu_internal_error, Option.some.injEq,
        reduceCtorEq] at h; done)
    | (simp only [Res.state, vmu_error, vmu_internal_error, Option.some.injEq,
        reduceCtorEq] at h; subst h; exact ⟨rfl, rfl, rfl⟩)
    | split at h)

theorem pres_push {P : Nat → Prop} (value : Value) : Pres P (push value) := by
  refine pres_of_eq (fun vm vm1 h => ?_)
  unfold push at h
  repeat' (first
    | (simp only [Res.state, vmu_error, vmu_internal_error, Option.some.injEq,
        reduceCtorEq] at h; done)
    | (simp only [Res.state, vmu_error, vmu_internal_error, Option.some.injEq,
        reduceCtorEq] at h; subst h; exact ⟨rfl, rfl, rfl⟩)
    | split at h)

theorem pres_pop {P : Nat → Prop} : Pres P pop := by
  refine pres_of_eq (fun vm vm1 h => ?_)
  unfold pop at h
  repeat' (first
    | (simp only [Res.state, vmu_error, vmu_internal_error, Option.some.injEq,
        reduceCtorEq] at h; done)
    | (simp only [Res.state, vmu_error, vmu_internal_error, Option.some.injEq,
        reduceCtorEq] at h; subst h; exact ⟨rfl, rfl, rfl⟩)
    | split at h)

theorem pres_pop_frame {P : Nat → Prop} : Pres P pop_frame := by
  refine pres_of_eq (fun vm vm1 h => ?_)
  unfold pop_frame at h
  repeat' (first
    | (simp only [Res.state, vmu_error, vmu_internal_error, Option.some.injEq,
        reduceCtorEq] at h; done)
    | (simp only [Res.state, vmu_error, vmu_internal_error, Option.some.injEq,
        reduceCtorEq] at h; subst h; exact ⟨rfl, rfl, rfl⟩)
    | split at h)

theorem pres_store {P : Nat → Prop} (ptr : Nat) (value : Value) : Pres P (store ptr value) := by
  refine pres_of_eq (fun vm vm1 h => ?_)
  unfold store at h
  repeat' (first
    | (simp only [Res.state, vmu_error, vmu_internal_error, Option.some.injEq,
        reduceCtorEq] at h; done)
    | (simp only [Res.state, vmu_error, vmu_internal_error, Option.some.injEq,
        reduceCtorEq] at h; subst h; exact ⟨rfl, rfl, rfl⟩)
    | split at h)

theorem pres_load {P : Nat → Prop} (ptr : Nat) : Pres P (load ptr) := by
  refine pres_of_eq (fun vm vm1 h => ?_)
  unfold load at h
  repeat' (first
    | (simp only [Res.state, vmu_error, vmu_internal_error, Option.some.injEq,
        reduceCtorEq] at h; done)
    | (simp only [Res.state, vmu_error, vmu_internal_error, Option.some.injEq,
        reduceCtorEq] at h; subst h; exact ⟨rfl, rfl, rfl⟩)
    | split at h)

theorem pres_push_frame {P : Nat → Prop} (argsc : Nat) : Pres P (push_frame argsc) := by
  refine pres_of_eq (fun vm vm1 h => ?_)
  unfold push_frame at h
  repeat' (first
    | (simp only [Res.state, vmu_error, vmu_internal_error, Option.some.injEq,
        reduceCtorEq] at h; done)
    | (simp only [Res.state, vmu_error, vmu_internal_error, Option.some.injEq,
        reduceCtorEq] at h; subst h; exact ⟨rfl, rfl, rfl⟩)
    | split at h)

theorem pres_modify_frame {P : Nat → Prop} (i : Nat) (g : Frame → Frame) :
    Pres P (modify_frame i g) := by
  refine pres_of_eq (fun vm vm1 h => ?_)
  unfold modify_frame at h
  repeat' (first
    | (simp only [Res.state, vmu_error, vmu_internal_error, Option.some.injEq,
        reduceCtorEq] at h; done)
    | (simp only [Res.state, vmu_error, vmu_internal_error, Option.some.injEq,
        reduceCtorEq] at h; subst h; exact ⟨rfl, rfl, rfl⟩)
    | split at h)

theorem pres_set_globals {P : Nat → Prop} (mi : Nat) (g : List (String × GlobalValue)) :
    Pres P (set_globals mi g) := by
  refine pres_of_eq (fun vm vm1 h => ?_)
  unfold set_globals at h
  repeat' (first
    | (simp only [Res.state, vmu_error, vmu_internal_error, Option.some.injEq,
        reduceCtorEq] at h; done)
    | (simp only [Res.state, vmu_error, vmu_internal_error, Option.some.injEq,
        reduceCtorEq] at h; subst h; exact ⟨rfl, rfl, rfl⟩)
    | split at h)

theorem pres_push_module_stack {P : Nat → Prop} (mi : Nat) : Pres P (push_module_stack mi) := by
  refine pres_of_eq (fun vm vm1 h => ?_)
  unfold push_module_stack at h
  repeat' (first
    | (simp only [Res.state, vmu_error, vmu_internal_error, Option.some.injEq,
        reduceCtorEq] at h; done)
    | (simp only [Res.state, vmu_error, vmu_internal_error, Option.some.injEq,
        reduceCtorEq] at h; subst h; exact ⟨rfl, rfl, rfl⟩)
    | split at h)

theorem pres_pop_module_stack {P : Nat → Prop} : Pres P pop_module_stack := by
  refine pres_of_eq (fun vm vm1 h => ?_)
  unfold pop_module_stack at h
  repeat' (first
    | (simp only [Res.state, vmu_error, vmu_internal_error, Option.some.injEq,
        reduceCtorEq] at h; done)
    | (simp only [Res.state, vmu_error, vmu_internal_error, Option.some.injEq,
        reduceCtorEq] at h; subst h; exact ⟨rfl, rfl, rfl⟩)
    | split at h)

theorem pres_op_tryc {P : Nat → Prop} : Pres P op_tryc := by
  refine pres_of_eq (fun vm vm1 h => ?_)
  unfold op_tryc at h
  repeat' (first
    | (simp only [Res.state, vmu_error, vmu_internal_error, Option.some.injEq,
        reduceCtorEq] at h; done)
    | (simp only [Res.state, vmu_error, vmu_internal_error, Option.some.injEq,
        reduceCtorEq] at h; subst h; exact ⟨rfl, rfl, rfl⟩)
    | split at h)

theorem pres_get_out {P : Nat → Prop} (p : OutPtr) : Pres P (get_out p) := by
  refine pres_of_eq (fun vm vm1 h => ?_)
  unfold get_out at h
  repeat' (first
    | (simp only [Res.state, vmu_error, vmu_internal_error, Option.some.injEq,
        reduceCtorEq] at h; done)
    | (simp only [Res.state, vmu_error, vmu_internal_error, Option.some.injEq,
        reduceCtorEq] at h; subst h; exact ⟨rfl, rfl, rfl⟩)
    | split at h)

theorem pres_advance {P : Nat → Prop} : Pres P advance := by
  unfold advance
  repeat' (first
    | with_reducible (first
      | apply pres_current_frame | apply pres_set_frame | apply pres_frame_chunks
      | apply pres_vmu_error | apply pres_vmu_internal_error | apply pres_deref
      | apply pres_get_vm | apply pres_undefined_behaviour | apply pres_not_modelled
      | apply pres_bind | apply pres_pure | apply pres_ite)
    | intro _ | split)

theorem pres_advance_save {P : Nat → Prop} : Pres P advance_save := by
  unfold advance_save
  repeat' (first
    | with_reducible (first
      | apply pres_current_frame | apply pres_set_frame | apply pres_frame_chunks
      | apply pres_vmu_error | apply pres_vmu_internal_error | apply pres_deref
      | apply pres_get_vm | apply pres_undefined_behaviour | apply pres_not_modelled
      | apply pres_bind | apply pres_pure | apply pres_ite)
    | intro _ | split)

theorem pres_read_i16 {P : Nat → Prop} : Pres P read_i16 := by
  unfold read_i16
  repeat' (first
    | with_reducible (first
      | apply pres_advance | apply pres_vmu_error | apply pres_vmu_internal_error
      | apply pres_deref | apply pres_get_vm | apply pres_undefined_behaviour
      | apply pres_not_modelled | apply pres_bind | apply pres_pure | apply pres_ite)
    | intro _ | split)

theorem pres_read_i32 {P : Nat → Prop} : Pres P read_i32 := by
  unfold read_i32
  repeat' (first
    | with_reducible (first
      | apply pres_advance | apply pres_vmu_error | apply pres_vmu_internal_error
      | apply pres_deref | apply pres_get_vm | apply pres_undefined_behaviour
      | apply pres_not_modelled | apply pres_bind | apply pres_pure | apply pres_ite)
    | intro _ | split)

theorem pres_current_fn {P : Nat → Prop} : Pres P current_fn := by
  unfold current_fn
  repeat' (first
    | with_reducible (first
      | apply pres_current_frame | apply pres_vmu_error | apply pres_vmu_internal_error
      | apply pres_deref | apply pres_get_vm | apply pres_undefined_behaviour
      | apply pres_not_modelled | apply pres_bind | apply pres_pure | apply pres_ite)
    | intro _ | split)

theorem pres_current_module {P : Nat → Prop} : Pres P current_module := by
  unfold current_module
  repeat' (first
    | with_reducible (first
      | apply pres_current_fn | apply pres_vmu_error | apply pres_vmu_internal_error
      | apply pres_deref | apply pres_get_vm | apply pres_undefined_behaviour
      | apply pres_not_modelled | apply pres_bind | apply pres_pure | apply pres_ite)
    | intro _ | split)

theorem pres_read_i64_const {P : Nat → Prop} : Pres P read_i64_const := by
  unfold read_i64_const
  repeat' (first
    | with_reducible (first
      | apply pres_current_fn | apply pres_read_i16 | apply pres_vmu_error
      | apply pres_vmu_internal_error | apply pres_deref | apply pres_get_vm
      | apply pres_undefined_behaviour | apply pres_not_modelled | apply pres_bind
      | apply pres_pure | apply pres_ite)
    | intro _ | split)

theorem pres_read_float_const {P : Nat → Prop} : Pres P read_float_const := by
  unfold read_float_const
  repeat' (first
    | with_reducible (first
      | apply pres_current_fn | apply pres_read_i16 | apply pres_vmu_error
      | apply pres_vmu_internal_error | apply pres_deref | apply pres_get_vm
      | apply pres_undefined_behaviour | apply pres_not_modelled | apply pres_bind
      | apply pres_pure | apply pres_ite)
    | intro _ | split)

theorem pres_read_str {P : Nat → Prop} : Pres P read_str := by
  unfold read_str
  repeat' (first
    | with_reducible (first
      | apply pres_current_module | apply pres_read_i16 | apply pres_vmu_error
      | apply pres_vmu_internal_error | apply pres_deref | apply pres_get_vm
      | apply pres_undefined_behaviour | apply pres_not_modelled | apply pres_bind
      | apply pres_pure | apply pres_ite)
    | intro _ | split)

theorem pres_frame_local {P : Nat → Prop} (which : Nat) : Pres P (frame_local which) := by
  unfold frame_local
  repeat' (first
    | with_reducible (first
      | apply pres_current_frame | apply pres_vmu_error | apply pres_vmu_internal_error
      | apply pres_deref | apply pres_get_vm | apply pres_undefined_behaviour
      | apply pres_not_modelled | apply pres_bind | apply pres_pure | apply pres_ite)
    | intro _ | split)

theorem pres_call_fn {P : Nat → Prop} (argsc fn : Nat) : Pres P (call_fn argsc fn) := by
  unfold call_fn
  repeat' (first
    | with_reducible (first
      | apply pres_push_frame | apply pres_modify_frame | apply pres_vmu_error
      | apply pres_vmu_internal_error | apply pres_deref | apply pres_get_vm
      | apply pres_undefined_behaviour | apply pres_not_modelled | apply pres_bind
      | apply pres_pure | apply pres_ite)
    | intro _ | split)

theorem pres_call_closure {P : Nat → Prop} (argsc closure : Nat) :
    Pres P (call_closure argsc closure) := by
  unfold call_closure
  repeat' (first
    | with_reducible (first
      | apply pres_push_frame | apply pres_modify_frame | apply pres_vmu_error
      | apply pres_vmu_internal_error | apply pres_deref | apply pres_get_vm
      | apply pres_undefined_behaviour | apply pres_not_modelled | apply pres_bind
      | apply pres_pure | apply pres_ite)
    | intro _ | split)

theorem pres_add_ip {P : Nat → Prop} (jmp_value : Int) : Pres P (add_ip jmp_value) := by
  unfold add_ip
  repeat' (first
    | with_reducible (first
      | apply pres_current_frame | apply pres_set_frame | apply pres_vmu_error
      | apply pres_vmu_internal_error | apply pres_deref | apply pres_get_vm
      | apply pres_undefined_behaviour | apply pres_not_modelled | apply pres_bind
      | apply pres_pure | apply pres_ite)
    | intro _ | split)

theorem pres_vmu_create_fn {P : Nat → Prop} (fn : Nat) : Pres P (vmu_create_fn fn) := by
  unfold vmu_create_fn
  repeat' (first
    | with_reducible (first
      | apply pres_alloc_obj | apply pres_vmu_error | apply pres_vmu_internal_error
      | apply pres_deref | apply pres_get_vm | apply pres_undefined_behaviour
      | apply pres_not_modelled | apply pres_bind | apply pres_pure | apply pres_ite)
    | intro _ | split)

theorem pres_push_fn {P : Nat → Prop} (fn : Nat) : Pres P (push_fn fn) := by
  unfold push_fn
  repeat' (first
    | with_reducible (first
      | apply pres_vmu_create_fn | apply pres_push | apply pres_vmu_error
      | apply pres_vmu_internal_error | apply pres_deref | apply pres_get_vm
      | apply pres_undefined_behaviour | apply pres_not_modelled | apply pres_bind
      | apply pres_pure | apply pres_ite)
    | intro _ | split)

theorem pres_vmu_create_closure {P : Nat → Prop} (mc : Nat) : Pres P (vmu_create_closure mc) := by
  unfold vmu_create_closure
  repeat' (first
    | with_reducible (first
      | apply pres_alloc_obj | apply pres_vmu_error | apply pres_vmu_internal_error
      | apply pres_deref | apply pres_get_vm | apply pres_undefined_behaviour
      | apply pres_not_modelled | apply pres_bind | apply pres_pure | apply pres_ite)
    | intro _ | split)

theorem pres_add_out_value_to_current_frame {P : Nat → Prop} (value : OutPtr) :
    Pres P (add_out_value_to_current_frame value) := by
  unfold add_out_value_to_current_frame
  repeat' (first
    | with_reducible (first
      | apply pres_current_frame | apply pres_modify_frame
      | exact pres_modify_out _ _ (Or.inl (fun _ => ⟨rfl, rfl⟩)) | apply pres_vmu_error
      | apply pres_vmu_internal_error | apply pres_deref | apply pres_get_vm
      | apply pres_undefined_behaviour | apply pres_not_modelled | apply pres_bind
      | apply pres_pure | apply pres_ite)
    | intro _ | split)

theorem pres_current_closure {P : Nat → Prop} : Pres P current_closure := by
  unfold current_closure
  repeat' (first
    | with_reducible (first
      | apply pres_current_frame | apply pres_vmu_error | apply pres_vmu_internal_error
      | apply pres_deref | apply pres_get_vm | apply pres_undefined_behaviour
      | apply pres_not_modelled | apply pres_bind | apply pres_pure | apply pres_ite)
    | intro _ | split)

theorem pres_op_int {P : Nat → Prop} : Pres P op_int := by
  unfold op_int
  repeat' (first
    | with_reducible (first
      | apply pres_read_i64_const | apply pres_push | apply pres_vmu_error
      | apply pres_vmu_internal_error | apply pres_deref | apply pres_get_vm
      | apply pres_undefined_behaviour | apply pres_not_modelled | apply pres_bind
      | apply pres_pure | apply pres_ite)
    | intro _ | split)

theorem pres_op_float {P : Nat → Prop} : Pres P op_float := by
  unfold op_float
  repeat' (first
    | with_reducible (first
      | apply pres_read_float_const | apply pres_push | apply pres_vmu_error
      | apply pres_vmu_internal_error | apply pres_deref | apply pres_get_vm
      | apply pres_undefined_behaviour | apply pres_not_modelled | apply pres_bind
      | apply pres_pure | apply pres_ite)
    | intro _ | split)

theorem pres_op_cint {P : Nat → Prop} : Pres P op_cint := by
  unfold op_cint
  repeat' (first
    | with_reducible (first
      | apply pres_advance | apply pres_push | apply pres_vmu_error
      | apply pres_vmu_internal_error | apply pres_deref | apply pres_get_vm
      | apply pres_undefined_behaviour | apply pres_not_modelled | apply pres_bind
      | apply pres_pure | apply pres_ite)
    | intro _ | split)

theorem pres_op_add {P : Nat → Prop} : Pres P op_add := by
  unfold op_add
  repeat' (first
    | with_reducible (first
      | apply pres_pop | apply pres_push | apply pres_vmu_error | apply pres_vmu_internal_error
      | apply pres_deref | apply pres_get_vm | apply pres_undefined_behaviour
      | apply pres_not_modelled | apply pres_bind | apply pres_pure | apply pres_ite)
    | intro _ | split)

theorem pres_op_or {P : Nat → Prop} : Pres P op_or := by
  unfold op_or
  repeat' (first
    | with_reducible (first
      | apply pres_read_i16 | apply pres_peek | apply pres_add_ip | apply pres_pop
      | apply pres_vmu_error | apply pres_vmu_internal_error | apply pres_deref
      | apply pres_get_vm | apply pres_undefined_behaviour | apply pres_not_modelled
      | apply pres_bind | apply pres_pure | apply pres_ite)
    | intro _ | split)

theorem pres_op_and {P : Nat → Prop} : Pres P op_and := by
  unfold op_and
  repeat' (first
    | with_reducible (first
      | apply pres_read_i16 | apply pres_peek | apply pres_add_ip | apply pres_pop
      | apply pres_vmu_error | apply pres_vmu_internal_error | apply pres_deref
      | apply pres_get_vm | apply pres_undefined_behaviour | apply pres_not_modelled
      | apply pres_bind | apply pres_pure | apply pres_ite)
    | intro _ | split)

theorem pres_op_not {P : Nat → Prop} : Pres P op_not := by
  unfold op_not
  repeat' (first
    | with_reducible (first
      | apply pres_pop | apply pres_push | apply pres_vmu_error | apply pres_vmu_internal_error
      | apply pres_deref | apply pres_get_vm | apply pres_undefined_behaviour
      | apply pres_not_modelled | apply pres_bind | apply pres_pure | apply pres_ite)
    | intro _ | split)

theorem pres_op_lset {P : Nat → Prop} : Pres P op_lset := by
  unfold op_lset
  repeat' (first
    | with_reducible (first
      | apply pres_peek | apply pres_advance | apply pres_frame_local | apply pres_store
      | apply pres_vmu_error | apply pres_vmu_internal_error | apply pres_deref
      | apply pres_get_vm | apply pres_undefined_behaviour | apply pres_not_modelled
      | apply pres_bind | apply pres_pure | apply pres_ite)
    | intro _ | split)

theorem pres_op_lget {P : Nat → Prop} : Pres P op_lget := by
  unfold op_lget
  repeat' (first
    | with_reducible (first
      | apply pres_advance | apply pres_frame_local | apply pres_load | apply pres_push
      | apply pres_vmu_error | apply pres_vmu_internal_error | apply pres_deref
      | apply pres_get_vm | apply pres_undefined_behaviour | apply pres_not_modelled
      | apply pres_bind | apply pres_pure | apply pres_ite)
    | intro _ | split)

theorem pres_op_oget {P : Nat → Prop} : Pres P op_oget := by
  unfold op_oget
  repeat' (first
    | with_reducible (first
      | apply pres_advance | apply pres_current_closure | apply pres_push
      | apply pres_vmu_error | apply pres_vmu_internal_error | apply pres_deref
      | apply pres_get_vm | apply pres_undefined_behaviour | apply pres_not_modelled
      | apply pres_bind | apply pres_pure | apply pres_ite)
    | intro _ | split)

theorem pres_op_gdef {P : Nat → Prop} : Pres P op_gdef := by
  unfold op_gdef
  repeat' (first
    | with_reducible (first
      | apply pres_read_str | apply pres_pop | apply pres_current_module
      | apply pres_set_globals | apply pres_vmu_error | apply pres_vmu_internal_error
      | apply pres_deref | apply pres_get_vm | apply pres_undefined_behaviour
      | apply pres_not_modelled | apply pres_bind | apply pres_pure | apply pres_ite)
    | intro _ | split)

theorem pres_op_gset {P : Nat → Prop} : Pres P op_gset := by
  unfold op_gset
  repeat' (first
    | with_reducible (first
      | apply pres_read_str | apply pres_peek | apply pres_current_module
      | apply pres_set_globals | apply pres_vmu_error | apply pres_vmu_internal_error
      | apply pres_deref | apply pres_get_vm | apply pres_undefined_behaviour
      | apply pres_not_modelled | apply pres_bind | apply pres_pure | apply pres_ite)
    | intro _ | split)

theorem pres_op_jmp {P : Nat → Prop} : Pres P op_jmp := by
  unfold op_jmp
  repeat' (first
    | with_reducible (first
      | apply pres_read_i16 | apply pres_add_ip | apply pres_vmu_error
      | apply pres_vmu_internal_error | apply pres_deref | apply pres_get_vm
      | apply pres_undefined_behaviour | apply pres_not_modelled | apply pres_bind
      | apply pres_pure | apply pres_ite)
    | intro _ | split)

theorem pres_op_jif {P : Nat → Prop} : Pres P op_jif := by
  unfold op_jif
  repeat' (first
    | with_reducible (first
      | apply pres_read_i16 | apply pres_pop | apply pres_add_ip | apply pres_vmu_error
      | apply pres_vmu_internal_error | apply pres_deref | apply pres_get_vm
      | apply pres_undefined_behaviour | apply pres_not_modelled | apply pres_bind
      | apply pres_pure | apply pres_ite)
    | intro _ | split)

theorem pres_op_jit {P : Nat → Prop} : Pres P op_jit := by
  unfold op_jit
  repeat' (first
    | with_reducible (first
      | apply pres_read_i16 | apply pres_pop | apply pres_add_ip | apply pres_vmu_error
      | apply pres_vmu_internal_error | apply pres_deref | apply pres_get_vm
      | apply pres_undefined_behaviour | apply pres_not_modelled | apply pres_bind
      | apply pres_pure | apply pres_ite)
    | intro _ | split)

theorem pres_op_call {P : Nat → Prop} : Pres P op_call := by
  unfold op_call
  repeat' (first
    | with_reducible (first
      | apply pres_advance | apply pres_peek_at | apply pres_call_fn | apply pres_call_closure
      | apply pres_vmu_error | apply pres_vmu_internal_error | apply pres_deref
      | apply pres_get_vm | apply pres_undefined_behaviour | apply pres_not_modelled
      | apply pres_bind | apply pres_pure | apply pres_ite)
    | intro _ | split)

theorem pres_throw_msg_of {P : Nat → Prop} (raw_value : Value) :
    Pres P (throw_msg_of raw_value) := by
  unfold throw_msg_of
  repeat' (first
    | with_reducible (first
      | apply pres_vmu_error | apply pres_vmu_internal_error | apply pres_deref
      | apply pres_get_vm | apply pres_undefined_behaviour | apply pres_not_modelled
      | apply pres_bind | apply pres_pure | apply pres_ite)
    | intro _ | split)

theorem pres_op_gget {P : Nat → Prop} : Pres P op_gget := by
  unfold op_gget
  repeat' (first
    | with_reducible (first
      | apply pres_read_str | apply pres_current_module | apply pres_current_frame
      | apply pres_set_frame | apply pres_push_module_stack | apply pres_push
      | exact pres_longjmp _ _ (fun _ => rfl) (fun _ => rfl) (fun _ => rfl)
      | exact pres_ok _ _ (fun _ => rfl) (fun _ => rfl) (fun _ => rfl) | apply pres_vmu_error
      | apply pres_vmu_internal_error | apply pres_deref | apply pres_get_vm
      | apply pres_undefined_behaviour | apply pres_not_modelled | apply pres_bind
      | apply pres_pure | apply pres_ite)
    | intro _ | split)

theorem pres_op_tryo {P : Nat → Prop} : Pres P op_tryo := by
  unfold op_tryo
  repeat' (first
    | with_reducible (first
      | apply pres_read_i16 | apply pres_current_frame
      | exact pres_longjmp _ _ (fun _ => rfl) (fun _ => rfl) (fun _ => rfl)
      | exact pres_ok _ _ (fun _ => rfl) (fun _ => rfl) (fun _ => rfl) | apply pres_vmu_error
      | apply pres_vmu_internal_error | apply pres_deref | apply pres_get_vm
      | apply pres_undefined_behaviour | apply pres_not_modelled | apply pres_bind
      | apply pres_pure | apply pres_ite)
    | intro _ | split)

theorem pres_op_throw {P : Nat → Prop} : Pres P op_throw := by
  unfold op_throw
  repeat' (first
    | with_reducible (first
      | apply pres_advance | apply pres_pop | apply pres_throw_msg_of
      | exact pres_longjmp _ _ (fun _ => rfl) (fun _ => rfl) (fun _ => rfl)
      | exact pres_ok _ _ (fun _ => rfl) (fun _ => rfl) (fun _ => rfl) | apply pres_vmu_error
      | apply pres_vmu_internal_error | apply pres_deref | apply pres_get_vm
      | apply pres_undefined_behaviour | apply pres_not_modelled | apply pres_bind
      | apply pres_pure | apply pres_ite)
    | intro _ | split)

theorem pres_get_symbol_fn {P : Nat → Prop} (index module : Nat) :
    Pres P (get_symbol_fn index module) := by
  unfold get_symbol_fn
  repeat' (first
    | with_reducible (first
      | apply pres_vmu_error | apply pres_vmu_internal_error | apply pres_deref
      | apply pres_get_vm | apply pres_undefined_behaviour | apply pres_not_modelled
      | apply pres_bind | apply pres_pure | apply pres_ite)
    | intro _ | split)

theorem pres_land_throw {P : Nat → Prop} : Pres P land_throw := by
  unfold land_throw
  repeat' (first
    | with_reducible (first
      | apply pres_modify_frame | apply pres_push
      | exact pres_longjmp _ _ (fun _ => rfl) (fun _ => rfl) (fun _ => rfl)
      | exact pres_ok _ _ (fun _ => rfl) (fun _ => rfl) (fun _ => rfl) | apply pres_vmu_error
      | apply pres_vmu_internal_error | apply pres_deref | apply pres_get_vm
      | apply pres_undefined_behaviour | apply pres_not_modelled | apply pres_bind
      | apply pres_pure | apply pres_ite)
    | intro _ | split)

theorem pres_land_import {P : Nat → Prop} : Pres P land_import := by
  unfold land_import
  repeat' (first
    | with_reducible (first
      | apply pres_get_symbol_fn | apply pres_push_fn | apply pres_call_fn
      | apply pres_vmu_error | apply pres_vmu_internal_error | apply pres_deref
      | apply pres_get_vm | apply pres_undefined_behaviour | apply pres_not_modelled
      | apply pres_bind | apply pres_pure | apply pres_ite)
    | intro _ | split)

theorem pres_ret_close_loop_none {P : Nat → Prop} (fuel : Nat) :
    Pres P (ret_close_loop fuel none) := by
  cases fuel <;> (unfold ret_close_loop; exact pres_pure _)

theorem pres_op_ret {P : Nat → Prop} : Pres P op_ret := by
  unfold op_ret
  repeat' (first
    | with_reducible (first
      | apply pres_ret_close_loop_none | apply pres_pop | apply pres_current_frame
      | apply pres_pop_frame | apply pres_pop_module_stack | apply pres_push
      | exact pres_ok _ _ (fun _ => rfl) (fun _ => rfl) (fun _ => rfl)
      | apply pres_get_vm | apply pres_bind | apply pres_pure | apply pres_ite)
    | intro _ | split)

/-- The loop of `init_closure` writes only to the `OutValue`s of the closure
it initialises. -/
theorem pres_init_closure_loop (c : Nat) (ats : List Int) :
    ∀ i, Pres (fun p => p ≠ c) (init_closure_loop c ats i) := by
  induction ats with
  | nil =>
    intro i
    unfold init_closure_loop
    exact pres_pure _
  | cons a ats ih =>
    intro i
    unfold init_closure_loop
    repeat' (first
      | with_reducible (first
        | apply pres_frame_local | apply pres_load | apply ih
        | apply pres_add_out_value_to_current_frame
        | apply pres_bind | apply pres_pure | apply pres_ite)
      | exact pres_modify_out _ _ (Or.inr (fun h => h rfl))
      | intro _ | split)

theorem Keeps.mono {P Q : Nat → Prop} {vm vm1 : VM} (h : Keeps P vm vm1)
    (hq : ∀ c, Q c → P c) : Keeps Q vm vm1 :=
  ⟨h.1, fun c x hc hx => h.2.1 c x (hq c hc) hx, h.2.2⟩

theorem captured_lt {vm : VM} {c : Nat} {x : Nat × List (Int × Value)}
    (h : captured vm c = some x) : c < vm.heap.length := by
  by_contra hn
  simp [captured, List.getElem?_eq_none (Nat.le_of_not_lt hn)] at h

theorem pres_init_closure {P : Nat → Prop} (mc : Nat) : Pres P (init_closure mc) := by
  refine ⟨fun vm vm2 h => ?_⟩
  unfold init_closure vmu_create_closure at h
  simp only [bind_apply, get_vm, pure_apply] at h
  cases hm : vm.metas[mc]? with
  | none => simp [hm, deref, undefined_behaviour, Res.state] at h
  | some m =>
    simp only [hm, deref, pure_apply, alloc_obj, List.length_append, List.length_singleton] at h
    have hloop := (pres_init_closure_loop vm.heap.length m.meta_out_values 0).keeps
      { vm with heap := vm.heap ++ [.closure mc (List.replicate m.meta_out_values.length
        { linked := false, at_ := -1, value := Value.zero, prev := none, next := none,
          closure_obj := vm.heap.length })] } vm2
    have hs : (init_closure_loop vm.heap.length m.meta_out_values 0
        { vm with heap := vm.heap ++ [.closure mc (List.replicate m.meta_out_values.length
          { linked := false, at_ := -1, value := Value.zero, prev := none, next := none,
            closure_obj := vm.heap.length })] }).state = some vm2 := by
      revert h
      generalize init_closure_loop vm.heap.length m.meta_out_values 0
        { vm with heap := vm.heap ++ [.closure mc (List.replicate m.meta_out_values.length
          { linked := false, at_ := -1, value := Value.zero, prev := none, next := none,
            closure_obj := vm.heap.length })] } = r
      intro h
      cases r <;> simpa [Res.state] using h
    have hk := hloop hs
    refine ⟨hk.1, fun c x _ hx => ?_, hk.2.2⟩
    have hlt := captured_lt hx
    apply hk.2.1 c x (Nat.ne_of_lt hlt)
    simpa [captured, List.getElem?_append_left hlt] using hx

theorem pres_op_sget {P : Nat → Prop} : Pres P op_sget := by
  unfold op_sget
  repeat' (first
    | with_reducible (first
      | apply pres_read_i32 | apply pres_current_module | apply pres_vmu_create_fn
      | apply pres_push | apply pres_init_closure | apply pres_alloc_obj
      | apply pres_push_module_stack
      | exact pres_longjmp _ _ (fun _ => rfl) (fun _ => rfl) (fun _ => rfl)
      | apply pres_vmu_error | apply pres_deref | apply pres_get_vm | apply pres_not_modelled
      | apply pres_bind | apply pres_pure | apply pres_ite)
    | intro _ | split)

/-! ## Captured values and the handlers of strings, lists and records -/

/-- An assignment to a heap object that is no closure, of an object that is
no closure. -/
theorem keeps_set_obj {P : Nat → Prop} (vm : VM) (ptr : Nat) (o : Obj)
    (h : captured vm ptr = none) :
    Keeps P vm { vm with heap := vm.heap.set ptr o } := by
  refine ⟨rfl, fun c x _ hx => ?_, fun _ _ h => h⟩
  by_cases hc : c = ptr
  · subst hc
    rw [h] at hx
    cases hx
  · simpa [captured, List.getElem?_set_ne (Ne.symm hc)] using hx

theorem lookup_append_of_some {α : Type} (t : List (List Char × α)) (e : List Char × α)
    (k : List Char) (p : α) (h : t.lookup k = some p) : (t ++ [e]).lookup k = some p := by
  induction t with
  | nil => simp at h
  | cons x xs ih =>
    rw [List.cons_append]
    by_cases hx : k == x.1
    · simpa [List.lookup, hx] using h
    · have hx2 : (k == x.1) = false := by simpa using hx
      rw [List.lookup_cons, hx2] at h ⊢
      exact ih h

/-- An entry put under a key that has none leaves the other entries as they
are. -/
theorem lookup_put_ck_of_none {α : Type} (t : List (List Char × α)) (key_size : Nat)
    (key : List Char) (v : α) (hn : lzohtable_lookup key_size key t = none) (k : List Char)
    (p : α) (h : t.lookup k = some p) : (lzohtable_put_ck key_size key v t).lookup k = some p := by
  unfold lzohtable_lookup at hn
  unfold lzohtable_put_ck
  simp only [hn, Option.isSome_none, Bool.false_eq_true, if_false]
  exact lookup_append_of_some t _ k p h

theorem pres_vmu_create_str {P : Nat → Prop} (raw_str : String) :
    Pres P (vmu_create_str raw_str) := by
  refine ⟨fun vm vm1 h => ?_⟩
  unfold vmu_create_str at h
  simp only [bind_apply, get_vm] at h
  cases hl : lzohtable_lookup (create_str_key_len raw_str.length) (c_buffer raw_str)
      vm.runtime_strs with
  | some q =>
    simp only [hl, pure_apply, Res.state, Option.some.injEq] at h
    subst h
    exact Keeps.refl P _
  | none =>
    simp only [hl, bind_apply, alloc_obj, pure_apply, Res.state, Option.some.injEq] at h
    subst h
    refine ⟨rfl, fun c x _ hc => ?_, fun k p hk => ?_⟩
    · have hlt := captured_lt hc
      simpa [captured, List.getElem?_append_left hlt] using hc
    · exact lookup_put_ck_of_none _ _ _ _ hl k p hk

theorem pres_value_to_obj {P : Nat → Prop} (v : Value) : Pres P (value_to_obj v) := by
  unfold value_to_obj
  split
  · exact pres_pure _
  · exact pres_undefined_behaviour

theorem pres_str_buff {P : Nat → Prop} (str_obj : Nat) : Pres P (str_buff str_obj) := by
  unfold str_buff
  repeat' (first
    | with_reducible (first
      | apply pres_get_vm | apply pres_undefined_behaviour | apply pres_bind | apply pres_pure)
    | intro _ | split)

theorem pres_vmu_str_concat {P : Nat → Prop} (a b : Nat) : Pres P (vmu_str_concat a b) := by
  unfold vmu_str_concat
  repeat' (first
    | with_reducible (first
      | apply pres_str_buff | apply pres_vmu_create_str | apply pres_bind | apply pres_pure)
    | intro _ | split)

theorem pres_list_items {P : Nat → Prop} (list_obj : Nat) : Pres P (list_items list_obj) := by
  unfold list_items
  repeat' (first
    | with_reducible (first
      | apply pres_get_vm | apply pres_undefined_behaviour | apply pres_bind | apply pres_pure)
    | intro _ | split)

theorem pres_vmu_list_join {P : Nat → Prop} (a b : Nat) : Pres P (vmu_list_join a b) := by
  unfold vmu_list_join
  repeat' (first
    | with_reducible (first
      | apply pres_list_items | apply pres_alloc_obj | apply pres_bind | apply pres_pure)
    | intro _ | split)

theorem pres_vmu_list_insert_new {P : Nat → Prop} (value : Value) (list_obj : Nat) :
    Pres P (vmu_list_insert_new value list_obj) := by
  unfold vmu_list_insert_new
  repeat' (first
    | with_reducible (first
      | apply pres_list_items | apply pres_alloc_obj | apply pres_bind | apply pres_pure)
    | intro _ | split)

theorem pres_vmu_record_set_attr {P : Nat → Prop} (key : String) (value : Value)
    (record_obj : Nat) : Pres P (vmu_record_set_attr key value record_obj) := by
  refine ⟨fun vm vm1 h => ?_⟩
  unfold vmu_record_set_attr at h
  simp only [bind_apply, get_vm] at h
  cases hh : vm.heap[record_obj]? with
  | none => simp [hh, undefined_behaviour, Res.state] at h
  | some ob =>
    cases ob with
    | record attrs =>
      have hcap : captured vm record_obj = none := by simp [captured, hh]
      cases attrs with
      | none =>
        simp only [hh, vmu_error, Res.state, Option.some.injEq] at h
        subst h
        exact Keeps.of_eq rfl rfl rfl
      | some table =>
        simp only [hh] at h
        by_cases hk : (table.lookup key).isSome
        · simp [hk, set_obj, Res.state] at h
          subst h
          exact keeps_set_obj vm record_obj _ hcap
        · simp [hk, vmu_error, Res.state] at h
          subst h
          exact Keeps.of_eq rfl rfl rfl
    | str _ => simp [hh, undefined_behaviour, Res.state] at h
    | native_fn _ _ _ => simp [hh, undefined_behaviour, Res.state] at h
    | fn _ => simp [hh, undefined_behaviour, Res.state] at h
    | closure _ _ => simp [hh, undefined_behaviour, Res.state] at h
    | module _ => simp [hh, undefined_behaviour, Res.state] at h
    | list _ => simp [hh, undefined_behaviour, Res.state] at h
    | nbarray _ => simp [hh, undefined_behaviour, Res.state] at h
    | other _ => simp [hh, undefined_behaviour, Res.state] at h

theorem pres_vmu_record_get_attr {P : Nat → Prop} (key : String) (record_obj : Nat) :
    Pres P (vmu_record_get_attr key record_obj) := by
  unfold vmu_record_get_attr
  repeat' (first
    | with_reducible (first
      | apply pres_get_vm | apply pres_undefined_behaviour | apply pres_vmu_error
      | apply pres_bind | apply pres_pure)
    | intro _ | split)

theorem pres_aset_obj {P : Nat → Prop} (target : Nat) (idx_value value : Value) :
    Pres P (aset_obj target idx_value value) := by
  refine ⟨fun vm vm1 h => ?_⟩
  unfold aset_obj at h
  simp only [bind_apply, get_vm] at h
  cases hh : vm.heap[target]? with
  | none => simp [hh, deref, undefined_behaviour, Res.state] at h
  | some ob =>
    simp only [hh, deref, pure_apply] at h
    cases ob with
    | nbarray bytes =>
      have hcap : captured vm target = none := by simp [captured, hh]
      cases idx_value with
      | int idx =>
        cases value with
        | int v =>
          simp only [bind_apply] at h
          by_cases hb : idx < 0 ∨ to_size_t idx ≥ bytes.length
          · simp [hb, vmu_error, Res.state] at h
            subst h
            exact Keeps.of_eq rfl rfl rfl
          · simp [hb, set_obj, Res.state] at h
            subst h
            exact keeps_set_obj vm target _ hcap
        | empty => simp only [vmu_error, Res.state, Option.some.injEq] at h; subst h; exact Keeps.of_eq rfl rfl rfl
        | bool _ => simp only [vmu_error, Res.state, Option.some.injEq] at h; subst h; exact Keeps.of_eq rfl rfl rfl
        | float _ => simp only [vmu_error, Res.state, Option.some.injEq] at h; subst h; exact Keeps.of_eq rfl rfl rfl
        | obj _ => simp only [vmu_error, Res.state, Option.some.injEq] at h; subst h; exact Keeps.of_eq rfl rfl rfl
      | empty => simp only [vmu_error, Res.state, Option.some.injEq] at h; subst h; exact Keeps.of_eq rfl rfl rfl
      | bool _ => simp only [vmu_error, Res.state, Option.some.injEq] at h; subst h; exact Keeps.of_eq rfl rfl rfl
      | float _ => simp only [vmu_error, Res.state, Option.some.injEq] at h; subst h; exact Keeps.of_eq rfl rfl rfl
      | obj _ => simp only [vmu_error, Res.state, Option.some.injEq] at h; subst h; exact Keeps.of_eq rfl rfl rfl
    | str _ => simp only [vmu_error, Res.state, Option.some.injEq] at h; subst h; exact Keeps.of_eq rfl rfl rfl
    | record _ => simp only [vmu_error, Res.state, Option.some.injEq] at h; subst h; exact Keeps.of_eq rfl rfl rfl
    | native_fn _ _ _ => simp only [vmu_error, Res.state, Option.some.injEq] at h; subst h; exact Keeps.of_eq rfl rfl rfl
    | fn _ => simp only [vmu_error, Res.state, Option.some.injEq] at h; subst h; exact Keeps.of_eq rfl rfl rfl
    | closure _ _ => simp only [vmu_error, Res.state, Option.some.injEq] at h; subst h; exact Keeps.of_eq rfl rfl rfl
    | module _ => simp only [vmu_error, Res.state, Option.some.injEq] at h; subst h; exact Keeps.of_eq rfl rfl rfl
    | list _ =>
      cases idx_value <;>
        first
        | (simp [not_modelled, Res.state] at h; done)
        | (simp only [vmu_error, Res.state, Option.some.injEq] at h; subst h
           exact Keeps.of_eq rfl rfl rfl)
    | other ty =>
      cases ty <;> cases idx_value <;>
        first
        | (simp [not_modelled, Res.state] at h; done)
        | (simp only [vmu_error, Res.state, Option.some.injEq] at h; subst h
           exact Keeps.of_eq rfl rfl rfl)

theorem pres_vmu_create_list {P : Nat → Prop} : Pres P vmu_create_list := by
  unfold vmu_create_list
  repeat' (first
    | with_reducible (first
      | apply pres_alloc_obj | apply pres_vmu_error | apply pres_vmu_internal_error
      | apply pres_deref | apply pres_get_vm | apply pres_undefined_behaviour
      | apply pres_not_modelled | apply pres_bind | apply pres_pure | apply pres_ite)
    | intro _ | split)

theorem pres_op_string {P : Nat → Prop} : Pres P op_string := by
  unfold op_string
  repeat' (first
    | with_reducible (first
      | apply pres_read_str | apply pres_vmu_create_str | apply pres_push
      | apply pres_vmu_error | apply pres_vmu_internal_error | apply pres_deref
      | apply pres_get_vm | apply pres_undefined_behaviour | apply pres_not_modelled
      | apply pres_bind | apply pres_pure | apply pres_ite)
    | intro _ | split)

theorem pres_op_list {P : Nat → Prop} : Pres P op_list := by
  unfold op_list
  repeat' (first
    | with_reducible (first
      | apply pres_vmu_create_list | apply pres_push | apply pres_vmu_error
      | apply pres_vmu_internal_error | apply pres_deref | apply pres_get_vm
      | apply pres_undefined_behaviour | apply pres_not_modelled | apply pres_bind
      | apply pres_pure | apply pres_ite)
    | intro _ | split)

theorem pres_op_concat {P : Nat → Prop} : Pres P op_concat := by
  unfold op_concat
  repeat' (first
    | with_reducible (first
      | apply pres_peek_at | apply pres_value_to_obj | apply pres_vmu_str_concat
      | apply pres_vmu_list_join | apply pres_vmu_list_insert_new | apply pres_pop
      | apply pres_push | apply pres_vmu_error | apply pres_vmu_internal_error
      | apply pres_deref | apply pres_get_vm | apply pres_undefined_behaviour
      | apply pres_not_modelled | apply pres_bind | apply pres_pure | apply pres_ite)
    | intro _ | split)

theorem pres_op_div {P : Nat → Prop} : Pres P op_div := by
  unfold op_div
  repeat' (first
    | with_reducible (first
      | apply pres_pop | apply pres_push | apply pres_vmu_error | apply pres_vmu_internal_error
      | apply pres_deref | apply pres_get_vm | apply pres_undefined_behaviour
      | apply pres_not_modelled | apply pres_bind | apply pres_pure | apply pres_ite)
    | intro _ | split)

theorem pres_op_sub {P : Nat → Prop} : Pres P op_sub := by
  unfold op_sub
  repeat' (first
    | with_reducible (first
      | apply pres_pop | apply pres_push | apply pres_vmu_error | apply pres_vmu_internal_error
      | apply pres_deref | apply pres_get_vm | apply pres_undefined_behaviour
      | apply pres_not_modelled | apply pres_bind | apply pres_pure | apply pres_ite)
    | intro _ | split)

theorem pres_op_mod {P : Nat → Prop} : Pres P op_mod := by
  unfold op_mod
  repeat' (first
    | with_reducible (first
      | apply pres_pop | apply pres_push | apply pres_vmu_error | apply pres_vmu_internal_error
      | apply pres_deref | apply pres_get_vm | apply pres_undefined_behaviour
      | apply pres_not_modelled | apply pres_bind | apply pres_pure | apply pres_ite)
    | intro _ | split)

theorem pres_op_lt {P : Nat → Prop} : Pres P op_lt := by
  unfold op_lt
  repeat' (first
    | with_reducible (first
      | apply pres_pop | apply pres_push | apply pres_vmu_error | apply pres_vmu_internal_error
      | apply pres_deref | apply pres_get_vm | apply pres_undefined_behaviour
      | apply pres_not_modelled | apply pres_bind | apply pres_pure | apply pres_ite)
    | intro _ | split)

theorem pres_op_ge {P : Nat → Prop} : Pres P op_ge := by
  unfold op_ge
  repeat' (first
    | with_reducible (first
      | apply pres_pop | apply pres_push | apply pres_vmu_error | apply pres_vmu_internal_error
      | apply pres_deref | apply pres_get_vm | apply pres_undefined_behaviour
      | apply pres_not_modelled | apply pres_bind | apply pres_pure | apply pres_ite)
    | intro _ | split)

theorem pres_eq_operands {P : Nat → Prop} (op : String) (left_value right_value : Value) :
    Pres P (eq_operands op left_value right_value) := by
  unfold eq_operands
  repeat' (first
    | with_reducible (first
      | apply pres_value_to_obj | apply pres_vmu_error | apply pres_vmu_internal_error
      | apply pres_deref | apply pres_get_vm | apply pres_undefined_behaviour
      | apply pres_not_modelled | apply pres_bind | apply pres_pure | apply pres_ite)
    | intro _ | split)

theorem pres_op_eq {P : Nat → Prop} : Pres P op_eq := by
  unfold op_eq
  repeat' (first
    | with_reducible (first
      | apply pres_pop | apply pres_eq_operands | apply pres_push | apply pres_vmu_error
      | apply pres_vmu_internal_error | apply pres_deref | apply pres_get_vm
      | apply pres_undefined_behaviour | apply pres_not_modelled | apply pres_bind
      | apply pres_pure | apply pres_ite)
    | intro _ | split)

theorem pres_op_ne {P : Nat → Prop} : Pres P op_ne := by
  unfold op_ne
  repeat' (first
    | with_reducible (first
      | apply pres_pop | apply pres_eq_operands | apply pres_push | apply pres_vmu_error
      | apply pres_vmu_internal_error | apply pres_deref | apply pres_get_vm
      | apply pres_undefined_behaviour | apply pres_not_modelled | apply pres_bind
      | apply pres_pure | apply pres_ite)
    | intro _ | split)

theorem pres_op_aset {P : Nat → Prop} : Pres P op_aset := by
  unfold op_aset
  repeat' (first
    | with_reducible (first
      | apply pres_peek_at | apply pres_aset_obj | apply pres_pop | apply pres_vmu_error
      | apply pres_vmu_internal_error | apply pres_deref | apply pres_get_vm
      | apply pres_undefined_behaviour | apply pres_not_modelled | apply pres_bind
      | apply pres_pure | apply pres_ite)
    | intro _ | split)

theorem pres_op_rset {P : Nat → Prop} : Pres P op_rset := by
  unfold op_rset
  repeat' (first
    | with_reducible (first
      | apply pres_read_str | apply pres_pop | apply pres_peek | apply pres_value_to_obj
      | apply pres_vmu_record_set_attr | apply pres_vmu_error | apply pres_vmu_internal_error
      | apply pres_deref | apply pres_get_vm | apply pres_undefined_behaviour
      | apply pres_not_modelled | apply pres_bind | apply pres_pure | apply pres_ite)
    | intro _ | split)

theorem pres_op_access {P : Nat → Prop} : Pres P op_access := by
  unfold op_access
  repeat' (first
    | with_reducible (first
      | apply pres_peek | apply pres_read_str | apply pres_vmu_record_get_attr | apply pres_pop
      | apply pres_push | apply pres_vmu_error | apply pres_vmu_internal_error
      | apply pres_deref | apply pres_get_vm | apply pres_undefined_behaviour
      | apply pres_not_modelled | apply pres_bind | apply pres_pure | apply pres_ite)
    | intro _ | split)

/-- `OSET` keeps the intern table; it keeps the captured values only of no
closure at all. -/
theorem pres_op_oset {P : Nat → Prop} (hP : ∀ c, ¬ P c) : Pres P op_oset := by
  unfold op_oset
  repeat' (first
    | with_reducible (first
      | apply pres_advance | apply pres_peek | apply pres_current_closure | apply pres_pop
      | apply pres_bind | apply pres_pure | apply pres_ite)
    | exact pres_modify_out _ _ (Or.inr (hP _))
    | intro _ | split)

theorem pres_op_gaset {P : Nat → Prop} : Pres P op_gaset := by
  unfold op_gaset
  repeat' (first
    | with_reducible (first
      | apply pres_read_str | apply pres_advance | apply pres_current_module
      | apply pres_set_globals | apply pres_vmu_error | apply pres_vmu_internal_error
      | apply pres_deref | apply pres_get_vm | apply pres_undefined_behaviour
      | apply pres_not_modelled | apply pres_bind | apply pres_pure | apply pres_ite)
    | intro _ | split)

theorem pres_op_is {P : Nat → Prop} : Pres P op_is := by
  unfold op_is
  repeat' (first
    | with_reducible (first
      | apply pres_pop | apply pres_push | apply pres_advance
      | apply pres_vmu_error | apply pres_vmu_internal_error
      | apply pres_deref | apply pres_get_vm | apply pres_undefined_behaviour
      | apply pres_not_modelled | apply pres_bind | apply pres_pure | apply pres_ite)
    | intro _ | split)

theorem pres_dispatch {P : Nat → Prop} (chunk : Nat)
    (h : decode chunk ≠ some .OSET ∨ ∀ c, ¬ P c) : Pres P (dispatch chunk) := by
  unfold dispatch
  split
  all_goals with_reducible first
    | exact pres_pure _
    | exact pres_not_modelled
    | exact pres_bind (pres_push _) (fun _ => pres_pure _)
    | exact pres_bind pres_pop (fun _ => pres_pure _)
    | exact pres_op_cint | exact pres_op_int | exact pres_op_float | exact pres_op_add
    | exact pres_op_or | exact pres_op_and | exact pres_op_not | exact pres_op_lset
    | exact pres_op_lget | exact pres_op_oget | exact pres_op_gdef | exact pres_op_gset
    | exact pres_op_gget | exact pres_op_sget | exact pres_op_jmp | exact pres_op_jif
    | exact pres_op_jit | exact pres_op_call | exact pres_op_ret | exact pres_op_tryo
    | exact pres_op_tryc | exact pres_op_throw | exact pres_op_string | exact pres_op_list
    | exact pres_op_concat | exact pres_op_div | exact pres_op_eq | exact pres_op_ne
    | exact pres_op_sub | exact pres_op_mod | exact pres_op_lt | exact pres_op_ge
    | exact pres_op_aset | exact pres_op_rset | exact pres_op_access
    | exact pres_op_gaset | exact pres_op_is
    | (rcases h with h | h <;> first | contradiction | exact pres_op_oset h)

theorem landed_keeps {P : Nat → Prop} {m : Exec PUnit} (hm : Pres P m) {vm vm1 : VM}
    (h : landed (m vm) = .running vm1) : Keeps P vm vm1 := by
  have hk := hm.keeps vm
  cases hr : m vm with
  | ok a vmA =>
    rw [hr] at h hk
    simp only [landed, Outcome.running.injEq] at h
    subst h
    exact hk _ rfl
  | longjmp v vmA =>
    rw [hr] at h
    unfold landed at h
    split at h <;> simp_all
  | ub => rw [hr] at h; simp [landed] at h
  | unmodelled => rw [hr] at h; simp [landed] at h

theorem after_longjmp_keeps {P : Nat → Prop} {val : Nat} {vm vm1 : VM}
    (h : after_longjmp val vm = .running vm1) : Keeps P vm vm1 := by
  unfold after_longjmp at h
  split at h
  · simp at h
  · exact landed_keeps pres_land_throw h
  · exact landed_keeps pres_land_import h
  · simp at h

/-- An instruction that leaves the dispatch loop running keeps the intern
table and, when it is not `OSET`, the captured values of every closure. -/
theorem step_keeps {P : Nat → Prop} (vm vm1 : VM)
    (hno : vm.next_op ≠ some .OSET ∨ ∀ c, ¬ P c)
    (h : step vm = .running vm1) : Keeps P vm vm1 := by
  unfold step execute_one at h
  simp only [bind_apply] at h
  have ha := (pres_advance_save (P := P)).keeps vm
  cases hr : advance_save vm with
  | ok chunk vmA =>
    have hno2 : decode chunk ≠ some .OSET ∨ ∀ c, ¬ P c := by
      rcases hno with hno | hno
      · left
        unfold VM.next_op at hno
        rw [hr] at hno
        exact hno
      · exact Or.inr hno
    rw [hr] at h ha
    simp only at h
    have hd := (pres_dispatch chunk hno2).keeps vmA
    have hA := ha vmA rfl
    cases hr2 : dispatch chunk vmA with
    | ok code vmB =>
      rw [hr2] at h hd
      cases code with
      | none =>
        simp only [Outcome.running.injEq] at h
        subst h
        exact hA.trans (hd _ rfl)
      | some c => simp at h
    | longjmp v vmB =>
      rw [hr2] at h hd
      exact (hA.trans (hd vmB rfl)).trans (after_longjmp_keeps h)
    | ub => rw [hr2] at h; simp at h
    | unmodelled => rw [hr2] at h; simp at h
  | longjmp v vmA =>
    rw [hr] at h ha
    exact (ha vmA rfl).trans (after_longjmp_keeps h)
  | ub => rw [hr] at h; simp at h
  | unmodelled => rw [hr] at h; simp at h

theorem run_without_oset_keeps (n : Nat) : ∀ vm vm1, run_without_oset n vm = some vm1 →
    Keeps (fun _ => True) vm vm1 := by
  induction n with
  | zero =>
    intro vm vm1 h
    simp only [run_without_oset, Option.some.injEq] at h
    subst h
    exact Keeps.refl _ _
  | succ n ih =>
    intro vm vm1 h
    unfold run_without_oset at h
    split at h
    · cases h
    · rename_i hno
      cases hs : step vm with
      | running vmA =>
        rw [hs] at h
        exact (step_keeps vm vmA (Or.inl hno) hs).trans (ih vmA vm1 h)
      | halted c v => rw [hs] at h; cases h
      | ub => rw [hs] at h; cases h
      | unmodelled => rw [hs] at h; cases h

/-- Every run of instructions keeps the entries of the intern table. -/
theorem run_keeps (n : Nat) : ∀ vm vm1, run n vm = .running vm1 →
    Keeps (fun _ => False) vm vm1 := by
  induction n with
  | zero =>
    intro vm vm1 h
    simp only [run, Outcome.running.injEq] at h
    subst h
    exact Keeps.refl _ _
  | succ n ih =>
    intro vm vm1 h
    unfold run at h
    cases hs : step vm with
    | running vmA =>
      rw [hs] at h
      exact (step_keeps vm vmA (Or.inr (fun _ hc => hc)) hs).trans (ih vmA vm1 h)
    | halted c v => rw [hs] at h; cases h
    | ub => rw [hs] at h; cases h
    | unmodelled => rw [hs] at h; cases h

/-! ## `SGET` of a closure symbol: what `init_closure` captures -/

theorem modify_out_spec (vm : VM) (p : OutPtr) (g : OutValue → OutValue) (o : OutValue)
    (h : out_at vm p = some o) :
    ∃ hp, modify_out p g vm = .ok () { vm with heap := hp } ∧
      (∀ c, closure_shape { vm with heap := hp } c = closure_shape vm c) ∧
      (∀ q, out_at { vm with heap := hp } q = if q = p then some (g o) else out_at vm q) := by
  unfold out_at at h
  cases hc : vm.heap[p.closure_obj]? with
  | none => simp [hc] at h
  | some ob =>
    cases ob with
    | closure mc outs =>
      simp only [hc] at h
      have hlt : p.closure_obj < vm.heap.length := by
        by_contra hn
        simp [List.getElem?_eq_none (Nat.le_of_not_lt hn)] at hc
      have hl : p.idx < outs.length := by
        by_contra hn
        simp [List.getElem?_eq_none (Nat.le_of_not_lt hn)] at h
      refine ⟨vm.heap.set p.closure_obj (.closure mc (outs.set p.idx (g o))), ?_, ?_, ?_⟩
      · simp [modify_out, hc, h]
      · intro c
        by_cases hcp : c = p.closure_obj
        · subst hcp
          simp [closure_shape, hc, List.getElem?_set_self hlt]
        · simp [closure_shape, List.getElem?_set_ne (Ne.symm hcp)]
      · intro q
        by_cases hq : q = p
        · subst hq
          simp [out_at, List.getElem?_set_self hlt, List.getElem?_set_self hl]
        · simp only [hq, if_false]
          by_cases hcp : q.closure_obj = p.closure_obj
          · have hidx : p.idx ≠ q.idx := by
              intro hi
              apply hq
              cases q; cases p
              simp_all
            simp [out_at, hcp, hc, List.getElem?_set_self hlt, List.getElem?_set_ne hidx]
          · simp [out_at, List.getElem?_set_ne (Ne.symm hcp)]
    | str _ => simp [hc] at h
    | record _ => simp [hc] at h
    | native_fn _ _ _ => simp [hc] at h
    | fn _ => simp [hc] at h
    | module _ => simp [hc] at h
    | list _ => simp [hc] at h
    | nbarray _ => simp [hc] at h
    | other _ => simp [hc] at h

/-- An assignment to fields of an `OutValue` other than `at` and `value`. -/
theorem modify_out_links (vm : VM) (p : OutPtr) (g : OutValue → OutValue)
    (hg : ∀ o, (g o).at_ = o.at_ ∧ (g o).value = o.value) (h : (out_at vm p).isSome) :
    ∃ hp, modify_out p g vm = .ok () { vm with heap := hp } ∧
      (∀ c, closure_shape { vm with heap := hp } c = closure_shape vm c) ∧
      (∀ q, (out_at { vm with heap := hp } q).map (fun o => (o.at_, o.value))
        = (out_at vm q).map (fun o => (o.at_, o.value))) := by
  obtain ⟨o, ho⟩ := Option.isSome_iff_exists.mp h
  obtain ⟨hp, h1, h2, h3⟩ := modify_out_spec vm p g o ho
  refine ⟨hp, h1, h2, fun q => ?_⟩
  rw [h3 q]
  by_cases hq : q = p
  · subst hq
    simp [ho, hg]
  · simp [hq]

theorem out_at_isSome_of_shape {vm vm1 : VM}
    (hs : ∀ c, closure_shape vm1 c = closure_shape vm c) (p : OutPtr)
    (h : (out_at vm p).isSome) : (out_at vm1 p).isSome := by
  have := hs p.closure_obj
  unfold closure_shape at this
  unfold out_at at h ⊢
  cases h1 : vm.heap[p.closure_obj]? with
  | none => simp [h1] at h
  | some ob =>
    cases ob with
    | closure mc outs =>
      simp only [h1] at h this
      cases h2 : vm1.heap[p.closure_obj]? with
      | none => simp [h2] at this
      | some ob1 =>
        cases ob1 with
        | closure mc1 outs1 =>
          simp only [h2, Option.some.injEq, Prod.mk.injEq] at this
          have hl : p.idx < outs.length := by
            by_contra hn
            simp [List.getElem?_eq_none (Nat.le_of_not_lt hn)] at h
          simp [List.getElem?_eq_getElem (this.2 ▸ hl)]
        | str _ => simp [h2] at this
        | record _ => simp [h2] at this
        | native_fn _ _ _ => simp [h2] at this
        | fn _ => simp [h2] at this
        | module _ => simp [h2] at this
        | list _ => simp [h2] at this
        | nbarray _ => simp [h2] at this
        | other _ => simp [h2] at this
    | str _ => simp [h1] at h
    | record _ => simp [h1] at h
    | native_fn _ _ _ => simp [h1] at h
    | fn _ => simp [h1] at h
    | module _ => simp [h1] at h
    | list _ => simp [h1] at h
    | nbarray _ => simp [h1] at h
    | other _ => simp [h1] at h

theorem add_out_value_spec (vm : VM) (value : OutPtr) (h0 : vm.frame_ptr ≠ 0)
    (hv : (out_at vm value).isSome)
    (htail : ∀ p, vm.frame.outs_tail = some p → (out_at vm p).isSome) :
    ∃ vm1, add_out_value_to_current_frame value vm = .ok () vm1 ∧
      vm1.stack = vm.stack ∧ vm1.stack_top = vm.stack_top ∧ vm1.frame_ptr = vm.frame_ptr ∧
      vm1.frame.locals = vm.frame.locals ∧ vm1.metas = vm.metas ∧
      (∀ c1, closure_shape vm1 c1 = closure_shape vm c1) ∧
      (∀ q, (out_at vm1 q).map (fun o => (o.at_, o.value))
        = (out_at vm q).map (fun o => (o.at_, o.value))) ∧
      vm1.frame.outs_tail = some value := by
  unfold add_out_value_to_current_frame
  simp only [bind_apply, current_frame, h0, if_false]
  cases ht : (vm.frame_stack (vm.frame_ptr - 1)).outs_tail with
  | none =>
    simp [modify_frame, VM.frame, closure_shape, out_at]
  | some tail =>
    have htv := htail tail ht
    obtain ⟨hp1, e1, s1, v1⟩ := modify_out_links vm tail (fun o => { o with next := some value })
      (fun _ => ⟨rfl, rfl⟩) htv
    obtain ⟨hp2, e2, s2, v2⟩ := modify_out_links { vm with heap := hp1 } value
      (fun o => { o with prev := some tail }) (fun _ => ⟨rfl, rfl⟩)
      (out_at_isSome_of_shape s1 value hv)
    simp only [e1, e2, modify_frame, bind_apply]
    refine ⟨_, rfl, rfl, rfl, rfl, ?_, rfl, ?_, ?_, ?_⟩
    · simp [VM.frame]
    · intro c1
      exact (s2 c1).trans (s1 c1)
    · intro q
      exact (v2 q).trans (v1 q)
    · simp [VM.frame]

/-- One turn of the loop of `init_closure`, followed by `k`. -/
theorem init_closure_turn (c : Nat) (a : Int) (k : Exec PUnit) (i : Nat) (vm : VM)
    (h0 : vm.frame_ptr ≠ 0) (ha0 : 0 ≤ a) (ha1 : a < 256)
    (hloc : vm.frame.locals + 1 + a.toNat < vm.stack_top)
    (hi : (out_at vm ⟨c, i⟩).isSome)
    (htail : ∀ p, vm.frame.outs_tail = some p → (out_at vm p).isSome) :
    ∃ vm1, (do
        let ptr ← frame_local (wrapU 8 a).toNat
        let v ← load ptr
        modify_out ⟨c, i⟩ (fun o =>
          { o with linked := true, at_ := a, value := v, prev := none, next := none })
        add_out_value_to_current_frame ⟨c, i⟩
        k : Exec PUnit) vm = k vm1 ∧
      vm1.stack = vm.stack ∧ vm1.stack_top = vm.stack_top ∧ vm1.frame_ptr = vm.frame_ptr ∧
      vm1.frame.locals = vm.frame.locals ∧ vm1.metas = vm.metas ∧
      (∀ c1, closure_shape vm1 c1 = closure_shape vm c1) ∧
      (out_at vm1 ⟨c, i⟩).map (fun o => (o.at_, o.value))
        = some (a, vm.stack (vm.frame.locals + 1 + a.toNat)) ∧
      (∀ q, q ≠ ⟨c, i⟩ → (out_at vm1 q).map (fun o => (o.at_, o.value))
        = (out_at vm q).map (fun o => (o.at_, o.value))) ∧
      vm1.frame.outs_tail = some ⟨c, i⟩ := by
  obtain ⟨o, ho⟩ := Option.isSome_iff_exists.mp hi
  have hw : (wrapU 8 a).toNat = a.toNat := by
    unfold wrapU
    rw [Int.emod_eq_of_lt ha0 (by norm_num; exact ha1)]
  have hloc2 : ¬ vm.stack_top ≤ vm.frame.locals + 1 + a.toNat := by omega
  obtain ⟨hp1, e1, s1, v1⟩ := modify_out_spec vm ⟨c, i⟩
    (fun o => { o with linked := true, at_ := a,
                       value := vm.stack (vm.frame.locals + 1 + a.toNat),
                       prev := none, next := none }) o ho
  have hi1 : (out_at { vm with heap := hp1 } ⟨c, i⟩).isSome := by simp [v1]
  have htail1 : ∀ p, (VM.frame { vm with heap := hp1 }).outs_tail = some p →
      (out_at { vm with heap := hp1 } p).isSome :=
    fun p hp => out_at_isSome_of_shape s1 p (htail p hp)
  obtain ⟨vm1, e2, a1, a2, a3, a4, a5, a6, a7, a8⟩ :=
    add_out_value_spec { vm with heap := hp1 } ⟨c, i⟩ h0 hi1 htail1
  refine ⟨vm1, ?_, a1, a2, a3, a4, a5, fun c1 => (a6 c1).trans (s1 c1), ?_, ?_, a8⟩
  · unfold VM.frame at hloc2 e1
    simp only [bind_apply, frame_local, current_frame, h0, if_false, get_vm, hw, hloc2,
      pure_apply, load, e1, e2, ge_iff_le]
  · rw [a7, v1]
    simp
  · intro q hq
    rw [a7, v1]
    simp [hq]

theorem init_closure_loop_spec (c : Nat) : ∀ (ats : List Int) (i : Nat) (vm : VM),
    vm.frame_ptr ≠ 0 →
    (∀ a ∈ ats, 0 ≤ a ∧ a < 256 ∧ vm.frame.locals + 1 + a.toNat < vm.stack_top) →
    (∀ k, k < ats.length → (out_at vm ⟨c, i + k⟩).isSome) →
    (∀ p, vm.frame.outs_tail = some p → (out_at vm p).isSome) →
    ∃ vmF, init_closure_loop c ats i vm = .ok () vmF ∧
      vmF.stack = vm.stack ∧ vmF.stack_top = vm.stack_top ∧ vmF.frame_ptr = vm.frame_ptr ∧
      vmF.metas = vm.metas ∧
      (∀ c1, closure_shape vmF c1 = closure_shape vm c1) ∧
      (∀ k, k < ats.length → (out_at vmF ⟨c, i + k⟩).map (fun o => (o.at_, o.value))
        = (ats[k]?).map (fun a => (a, vm.stack (vm.frame.locals + 1 + a.toNat)))) ∧
      (∀ q : OutPtr, (q.closure_obj ≠ c ∨ q.idx < i) →
        (out_at vmF q).map (fun o => (o.at_, o.value))
          = (out_at vm q).map (fun o => (o.at_, o.value))) := by
  intro ats
  induction ats with
  | nil =>
    intro i vm _ _ _ _
    refine ⟨vm, ?_, rfl, rfl, rfl, rfl, fun _ => rfl, ?_, fun _ _ => rfl⟩
    · simp [init_closure_loop]
    · intro k hk
      simp at hk
  | cons a ats ih =>
    intro i vm h0 hats hsome htail
    obtain ⟨ha0, ha1, hloc⟩ := hats a (List.mem_cons_self _ _)
    obtain ⟨vm1, e1, b1, b2, b3, b4, b5, b6, b7, b8, b9⟩ :=
      init_closure_turn c a (init_closure_loop c ats (i + 1)) i vm h0 ha0 ha1 hloc
        (by simpa using hsome 0 (by simp)) htail
    have hats1 : ∀ a ∈ ats, 0 ≤ a ∧ a < 256 ∧ vm1.frame.locals + 1 + a.toNat < vm1.stack_top := by
      intro x hx
      rw [b4, b2]
      exact hats x (List.mem_cons_of_mem _ hx)
    have hsome1 : ∀ k, k < ats.length → (out_at vm1 ⟨c, i + 1 + k⟩).isSome := by
      intro k hk
      apply out_at_isSome_of_shape b6
      have := hsome (k + 1) (by simpa using hk)
      rwa [show i + (k + 1) = i + 1 + k by omega] at this
    have htail1 : ∀ p, vm1.frame.outs_tail = some p → (out_at vm1 p).isSome := by
      intro p hp
      rw [b9] at hp
      cases hp
      exact out_at_isSome_of_shape b6 _ (by simpa using hsome 0 (by simp))
    obtain ⟨vmF, e2, d1, d2, d3, d4, d5, d6, d7⟩ :=
      ih (i + 1) vm1 (by rwa [b3]) hats1 hsome1 htail1
    refine ⟨vmF, ?_, d1.trans b1, d2.trans b2, d3.trans b3, d4.trans b5,
      fun c1 => (d5 c1).trans (b6 c1), ?_, ?_⟩
    · rw [init_closure_loop]
      exact e1.trans e2
    · intro k hk
      cases k with
      | zero =>
        rw [d7 ⟨c, i + 0⟩ (Or.inr (by simp))]
        simpa using b7
      | succ k =>
        have := d6 k (by simpa using hk)
        rw [show i + (k + 1) = i + 1 + k by omega, this, b1, b4]
        simp
    · intro q hq
      rw [d7 q (by rcases hq with h | h; exact Or.inl h; exact Or.inr (by omega))]
      apply b8
      rintro rfl
      rcases hq with h | h
      · exact h rfl
      · simp at h

theorem captured_of_views (vm : VM) (c mc : Nat) (l : List (Int × Value))
    (hs : closure_shape vm c = some (mc, l.length))
    (hv : ∀ k, k < l.length → (out_at vm ⟨c, k⟩).map (fun o => (o.at_, o.value)) = l[k]?) :
    captured vm c = some (mc, l) := by
  unfold closure_shape at hs
  unfold captured
  cases hc : vm.heap[c]? with
  | none => simp [hc] at hs
  | some ob =>
    cases ob with
    | closure mc1 outs =>
      simp only [hc, Option.some.injEq, Prod.mk.injEq] at hs
      simp only [Option.some.injEq, Prod.mk.injEq]
      refine ⟨hs.1, ?_⟩
      apply List.ext_getElem?
      intro k
      by_cases hk : k < l.length
      · have := hv k hk
        simp only [out_at, hc] at this
        rw [← this, List.getElem?_map]
      · rw [List.getElem?_eq_none (by simpa using hs.2 ▸ Nat.le_of_not_lt hk),
          List.getElem?_eq_none (Nat.le_of_not_lt hk)]
    | str _ => simp [hc] at hs
    | record _ => simp [hc] at hs
    | native_fn _ _ _ => simp [hc] at hs
    | fn _ => simp [hc] at hs
    | module _ => simp [hc] at hs
    | list _ => simp [hc] at hs
    | nbarray _ => simp [hc] at hs
    | other _ => simp [hc] at hs

theorem init_closure_spec (vm : VM) (mc : Nat) (m : MetaClosure) (hmc : vm.metas[mc]? = some m)
    (h0 : vm.frame_ptr ≠ 0)
    (hats : ∀ a ∈ m.meta_out_values,
      0 ≤ a ∧ a < 256 ∧ vm.frame.locals + 1 + a.toNat < vm.stack_top)
    (htail : ∀ p, vm.frame.outs_tail = some p → (out_at vm p).isSome) :
    ∃ vm1, init_closure mc vm = .ok vm.heap.length vm1 ∧
      vm1.stack = vm.stack ∧ vm1.stack_top = vm.stack_top ∧ vm1.frame_ptr = vm.frame_ptr ∧
      vm1.metas = vm.metas ∧
      captured vm1 vm.heap.length = some (mc, m.meta_out_values.map
        (fun a => (a, vm.stack (vm.frame.locals + 1 + a.toNat)))) := by
  let vmA : VM := { vm with heap := vm.heap ++ [.closure mc
    (List.replicate m.meta_out_values.length
      { linked := false, at_ := -1, value := Value.zero, prev := none, next := none,
        closure_obj := vm.heap.length })] }
  have hA : ∀ k, k < m.meta_out_values.length →
      (out_at vmA ⟨vm.heap.length, 0 + k⟩).isSome := by
    intro k hk
    simp [vmA, out_at, List.getElem?_replicate, hk]
  have hT : ∀ p, vmA.frame.outs_tail = some p → (out_at vmA p).isSome := by
    intro p hp
    have := htail p hp
    unfold out_at at this ⊢
    have hlt : p.closure_obj < vm.heap.length := by
      by_contra hn
      simp [List.getElem?_eq_none (Nat.le_of_not_lt hn)] at this
    simpa [vmA, List.getElem?_append_left hlt] using this
  obtain ⟨vmF, e, d1, d2, d3, d4, d5, d6, -⟩ :=
    init_closure_loop_spec vm.heap.length m.meta_out_values 0 vmA h0 hats hA hT
  refine ⟨vmF, ?_, d1, d2, d3, d4, ?_⟩
  · unfold init_closure vmu_create_closure
    simp only [bind_apply, get_vm, hmc, deref, pure_apply, alloc_obj]
    simp only [vmA] at e
    rw [e]
  · apply captured_of_views
    · rw [d5]
      simp [vmA, closure_shape]
    · intro k hk
      have := d6 k (by simpa using hk)
      rw [Nat.zero_add] at this
      rw [this, List.getElem?_map]
      rfl

/-- `SGET` of a closure symbol pushes a new closure object whose captured
values are the current values of the locals its metadata names. -/
theorem sget_closure_step (vm : VM) (f : Fn) (b0 b1 b2 b3 : Nat)
    (h : vm.at_op f .SGET [b0, b1, b2, b3]) (md : Module)
    (hmod : vm.modules[f.module]? = some md) (mc : Nat)
    (hsym : md.symbols[to_size_t (compose_i32 b0 b1 b2 b3)]? = some (.CLOSURE mc))
    (m : MetaClosure) (hmc : vm.metas[mc]? = some m)
    (hats : ∀ a ∈ m.meta_out_values,
      0 ≤ a ∧ a < 256 ∧ vm.frame.locals + 1 + a.toNat < vm.stack_top)
    (htail : ∀ p, vm.frame.outs_tail = some p → (out_at vm p).isSome)
    (hroom : vm.stack_top < STACK_LENGTH) :
    ∃ vm1, step vm = .running vm1 ∧ vm1.stack_top = vm.stack_top + 1 ∧
      vm1.stack vm.stack_top = .obj vm.heap.length ∧
      (∀ i, i < vm.stack_top → vm1.stack i = vm.stack i) ∧
      vm1.metas = vm.metas ∧
      captured vm1 vm.heap.length = some (mc, m.meta_out_values.map
        (fun a => (a, vm.stack (vm.frame.locals + 1 + a.toNat)))) := by
  obtain ⟨chunk, hd, he⟩ := dispatch_at h
  obtain ⟨hr, -, -, -, hops⟩ := h
  have c0 : f.chunks[vm.fetched.frame.ip]? = some b0 := by simpa using hops 0 (by simp)
  have c1 : f.chunks[vm.fetched.frame.ip + 1]? = some b1 := by
    simpa [Nat.add_assoc] using hops 1 (by simp)
  have c2 : f.chunks[vm.fetched.frame.ip + 2]? = some b2 := by
    simpa [Nat.add_assoc] using hops 2 (by simp)
  have c3 : f.chunks[vm.fetched.frame.ip + 3]? = some b3 := by
    simpa [Nat.add_assoc] using hops 3 (by simp)
  have rd := read_i32_at (fetched_runs hr) b0 b1 b2 b3 c0 c1 c2 c3
  have hr2 : (vm.fetched.set_ip (vm.fetched.frame.ip + 4)).runs f :=
    set_ip_runs (fetched_runs hr) _
  have cm := current_module_at hr2 (m := md) (by simpa [VM.fetched, VM.set_ip, VM.with_frame] using hmod)
  have hlen : ¬ md.symbols.length ≤ to_size_t (compose_i32 b0 b1 b2 b3) := by
    intro hle
    rw [List.getElem?_eq_none hle] at hsym
    cases hsym
  obtain ⟨vmC, e, d1, d2, d3, d4, d5⟩ := init_closure_spec
    (vm.fetched.set_ip (vm.fetched.frame.ip + 4)) mc m
    (by simpa [VM.fetched, VM.set_ip, VM.with_frame] using hmc) hr2.1
    (by simpa [VM.fetched, VM.set_ip, VM.with_frame, VM.frame] using hats)
    (by
      intro p hp
      have := htail p (by simpa [VM.fetched, VM.set_ip, VM.with_frame, VM.frame] using hp)
      simpa [out_at, VM.fetched, VM.set_ip, VM.with_frame] using this)
  have h2 : ¬ STACK_LENGTH ≤ vmC.stack_top := by
    rw [d2]
    simpa [VM.fetched, VM.set_ip, VM.with_frame] using hroom
  simp only [step, he, dispatch, hd, op_sget, bind_apply, rd, cm, ge_iff_le, hlen, if_false,
    pure_apply, hsym, deref, e, push, h2]
  have d2b : vmC.stack_top = vm.stack_top := by
    simpa [VM.fetched, VM.set_ip, VM.with_frame] using d2
  refine ⟨_, rfl, ?_, ?_, ?_, ?_, ?_⟩
  · simp [d2, VM.fetched, VM.set_ip, VM.with_frame]
  · show Function.update vmC.stack vmC.stack_top _ vm.stack_top = _
    rw [d2b, Function.update_same]
    rfl
  · intro i hi
    have hne : i ≠ vmC.stack_top := by
      rw [d2]
      simp [VM.fetched, VM.set_ip, VM.with_frame]
      omega
    simp [Function.update_noteq hne, d1, VM.fetched, VM.set_ip, VM.with_frame]
  · simp [d4, VM.fetched, VM.set_ip, VM.with_frame]
  · have : captured vmC vm.heap.length = some (mc, m.meta_out_values.map
        (fun a => (a, vm.stack (vm.frame.locals + 1 + a.toNat)))) := by
      simpa [VM.fetched, VM.set_ip, VM.with_frame, VM.frame] using d5
    simpa [captured] using this

theorem find_out_spec (outs : List OutValue) (k : Nat) (o : OutValue)
    (h : outs.find? (fun o => o.at_ == (k : Int)) = some o) :
    ∃ i, find_out outs outs.length k = some i ∧ outs[i]? = some o := by
  induction outs with
  | nil => simp at h
  | cons x xs ih =>
    unfold find_out
    rw [List.length_cons, List.range_succ_eq_map, List.find?_cons]
    by_cases hx : x.at_ == (k : Int)
    · simp only [List.find?_cons, hx, Option.some.injEq] at h
      subst h
      exact ⟨0, by simp [hx], by simp⟩
    · simp only [List.find?_cons, hx] at h
      obtain ⟨i, h1, h2⟩ := ih h
      refine ⟨i + 1, ?_, by simpa using h2⟩
      simp only [List.getElem?_cons_zero, hx, List.find?_map]
      unfold find_out at h1
      have e := congrArg (Option.map Nat.succ) h1
      simp only [Option.map_some'] at e
      rw [← e]
      congr 2
      funext j
      simp

theorem oget_step (vm : VM) (f : Fn) (k : Nat) (h : vm.at_op f .OGET [k]) (c : Nat)
    (hc : vm.frame.closure = some c) (mc : Nat) (caps : List (Int × Value))
    (hcap : captured vm c = some (mc, caps)) (m : MetaClosure) (hm : vm.metas[mc]? = some m)
    (hlen : m.meta_out_values.length = caps.length) (a : Int) (v : Value)
    (hfind : caps.find? (fun p => p.1 == (k : Int)) = some (a, v))
    (hroom : vm.stack_top < STACK_LENGTH) :
    ∃ vm1, step vm = .running vm1 ∧ vm1.stack_top = vm.stack_top + 1 ∧
      vm1.stack vm.stack_top = v ∧ (∀ i, i < vm.stack_top → vm1.stack i = vm.stack i) := by
  obtain ⟨chunk, hd, he⟩ := dispatch_at h
  obtain ⟨hr, -, -, -, hops⟩ := h
  have ha : f.chunks[vm.fetched.frame.ip]? = some k := by
    have := hops 0 (by simp)
    simpa using this
  have adv := advance_at (fetched_runs hr) k ha
  have h0 : vm.frame_ptr ≠ 0 := hr.1
  have h2 : ¬ STACK_LENGTH ≤ vm.stack_top := by omega
  unfold captured at hcap
  cases hh : vm.heap[c]? with
  | none => simp [hh] at hcap
  | some ob =>
    cases ob with
    | closure mc1 outs =>
      simp only [hh, Option.some.injEq, Prod.mk.injEq] at hcap
      obtain ⟨hmc, hcaps⟩ := hcap
      subst hmc
      subst hcaps
      rw [List.find?_map] at hfind
      cases hf : outs.find? ((fun p : Int × Value => p.1 == (k : Int)) ∘
          (fun o : OutValue => (o.at_, o.value))) with
      | none => simp [hf] at hfind
      | some o =>
        simp only [hf, Option.map_some', Option.some.injEq, Prod.mk.injEq] at hfind
        obtain ⟨i, hi1, hi2⟩ := find_out_spec outs k o hf
        rw [List.length_map] at hlen
        unfold VM.frame at hc
        simp only [step, he, dispatch, hd, op_oget, bind_apply, adv]
        simp [current_closure, current_frame, h0, get_vm, VM.fetched, VM.with_frame, VM.set_ip,
          VM.frame, hc, deref, hh, hm, hlen, hi1, hi2, push, h2, hfind.2]
        intro j hj
        simp [Function.update_noteq (Nat.ne_of_lt hj)]
    | str _ => simp [hh] at hcap
    | record _ => simp [hh] at hcap
    | native_fn _ _ _ => simp [hh] at hcap
    | fn _ => simp [hh] at hcap
    | module _ => simp [hh] at hcap
    | list _ => simp [hh] at hcap
    | nbarray _ => simp [hh] at hcap
    | other _ => simp [hh] at hcap

theorem find_captured (ats : List Int) (V : Int → Value) (k : Int) (hk : k ∈ ats) :
    (ats.map (fun a => (a, V a))).find? (fun p => p.1 == k) = some (k, V k) := by
  induction ats with
  | nil => simp at hk
  | cons a ats ih =>
    rw [List.map_cons, List.find?_cons]
    by_cases ha : a = k
    · subst ha
      simp
    · have hk2 : k ∈ ats := by
        rcases List.mem_cons.mp hk with h | h
        · exact absurd h.symm ha
        · exact h
      have hb : (a == k) = false := by simpa using ha
      simp [hb, ih hk2]

/-- C6 on the VM: when `SGET` creates a closure (its metadata names locals of the
creating frame by offsets `at`, each a live local, and the frame's list of
`OutValue`s is well formed), the new closure object is pushed and holds, for
every entry of its metadata, the value the creating frame's local at offset
`at` has at that moment. After any number of further instructions none of
which is `OSET` (whether or not the creating frame has returned), `OGET at`
executed in a frame running that closure pushes exactly that value: the copy
made when the closure was created, also when the local was assigned since.
For the bytecode S2 would have, which the compiler does not produce, the two
calls of the closure returned by `make_adder(3)` leave 7 (argument 4) and 13
(argument 10) on the stack. -/
theorem closure_keeps_captured_values (vm : VM) (f : Fn) (b0 b1 b2 b3 : Nat)
    (h : vm.at_op f .SGET [b0, b1, b2, b3]) (md : Module)
    (hmod : vm.modules[f.module]? = some md) (mc : Nat)
    (hsym : md.symbols[to_size_t (compose_i32 b0 b1 b2 b3)]? = some (.CLOSURE mc))
    (m : MetaClosure) (hmc : vm.metas[mc]? = some m)
    (hats : ∀ a ∈ m.meta_out_values,
      0 ≤ a ∧ a < 256 ∧ vm.frame.locals + 1 + a.toNat < vm.stack_top)
    (htail : ∀ p, vm.frame.outs_tail = some p → (out_at vm p).isSome)
    (hroom : vm.stack_top < STACK_LENGTH) :
    (∃ vm1, step vm = .running vm1 ∧ vm1.stack_top = vm.stack_top + 1 ∧
      vm1.stack vm.stack_top = .obj vm.heap.length ∧
      captured vm1 vm.heap.length = some (mc, m.meta_out_values.map
        (fun a => (a, vm.stack (vm.frame.locals + 1 + a.toNat)))) ∧
      ∀ n vm2, run_without_oset n vm1 = some vm2 →
        ∀ g k, vm2.at_op g .OGET [k] → vm2.frame.closure = some vm.heap.length →
          (k : Int) ∈ m.meta_out_values → vm2.stack_top < STACK_LENGTH →
          ∃ vm3, step vm2 = .running vm3 ∧ vm3.stack_top = vm2.stack_top + 1 ∧
            vm3.stack vm2.stack_top = vm.stack (vm.frame.locals + 1 + k) ∧
            (∀ i, i < vm2.stack_top → vm3.stack i = vm2.stack i)) ∧
    ((s2_state 13).top 1 = [.int 7] ∧ (s2_state 21).top 1 = [.int 13]) := by
  refine ⟨?_, by decide!⟩
  obtain ⟨vm1, e, d1, d2, -, d4, d5⟩ :=
    sget_closure_step vm f b0 b1 b2 b3 h md hmod mc hsym m hmc hats htail hroom
  refine ⟨vm1, e, d1, d2, d5, ?_⟩
  intro n vm2 hrun g k hat hclo hk hroom2
  have hkeep := run_without_oset_keeps n vm1 vm2 hrun
  have hcap := hkeep.2.1 _ _ trivial d5
  have hm2 : vm2.metas[mc]? = some m := by rw [hkeep.1, d4]; exact hmc
  have hfind := find_captured m.meta_out_values
    (fun a => vm.stack (vm.frame.locals + 1 + a.toNat)) k hk
  have := oget_step vm2 g k hat vm.heap.length hclo mc _ hcap m hm2 (by simp) k _ hfind hroom2
  simpa using this

theorem closure_keeps_captured_values_witness :
    ((s2_state 3).at_op s2_make_adder .SGET [0, 0, 0, 3] ∧
      (s2_state 3).modules[s2_make_adder.module]? = some { s2_module with resolved := true } ∧
      s2_module.symbols[to_size_t (compose_i32 0 0 0 3)]? = some (.CLOSURE 0) ∧
      (s2_state 3).metas[0]? = some { meta_out_values := [0], fn := 2 } ∧
      (s2_state 3).frame.locals + 1 + 0 < (s2_state 3).stack_top ∧
      (s2_state 3).frame.outs_tail = none ∧ (s2_state 3).stack_top < STACK_LENGTH ∧
      (s2_state 3).heap.length = 2 ∧ (s2_state 3).stack ((s2_state 3).frame.locals + 1 + 0) = .int 3 ∧
      (run_without_oset 5 (s2_state 4)).map (fun v => (v.next_op, v.frame.closure))
        = some (some .OGET, some 2) ∧
      (run_without_oset 13 (s2_state 4)).map (fun v => (v.next_op, v.frame.closure))
        = some (some .OGET, some 2)) ∧
    ((∃ vm1, step (s2_state 3) = .running vm1 ∧ vm1.stack_top = (s2_state 3).stack_top + 1 ∧
      vm1.stack (s2_state 3).stack_top = .obj (s2_state 3).heap.length ∧
      captured vm1 (s2_state 3).heap.length = some (0, [(0 : Int)].map
        (fun a => (a, (s2_state 3).stack ((s2_state 3).frame.locals + 1 + a.toNat)))) ∧
      ∀ n vm2, run_without_oset n vm1 = some vm2 →
        ∀ g k, vm2.at_op g .OGET [k] → vm2.frame.closure = some (s2_state 3).heap.length →
          (k : Int) ∈ [(0 : Int)] → vm2.stack_top < STACK_LENGTH →
          ∃ vm3, step vm2 = .running vm3 ∧ vm3.stack_top = vm2.stack_top + 1 ∧
            vm3.stack vm2.stack_top = (s2_state 3).stack ((s2_state 3).frame.locals + 1 + k) ∧
            (∀ i, i < vm2.stack_top → vm3.stack i = vm2.stack i)) ∧
    ((s2_state 13).top 1 = [.int 7] ∧ (s2_state 21).top 1 = [.int 13])) :=
  have hat : (s2_state 3).at_op s2_make_adder .SGET [0, 0, 0, 3] :=
    at_op_intro _ _ _ _ (by decide!) 1 (by decide!) (by decide!) (by decide!) (by decide!)
  have hmod : (s2_state 3).modules[s2_make_adder.module]?
      = some { s2_module with resolved := true } := by decide!
  have hsym : s2_module.symbols[to_size_t (compose_i32 0 0 0 3)]? = some (.CLOSURE 0) := by
    decide!
  have hmc : (s2_state 3).metas[0]? = some { meta_out_values := [0], fn := 2 } := by decide!
  have hloc : (s2_state 3).frame.locals + 1 + 0 < (s2_state 3).stack_top := by decide!
  have htl : (s2_state 3).frame.outs_tail = none := by decide!
  have hroom : (s2_state 3).stack_top < STACK_LENGTH := by decide!
  ⟨⟨hat, hmod, hsym, hmc, hloc, htl, hroom, by decide!, by decide!, by decide!, by decide!⟩,
    closure_keeps_captured_values (s2_state 3) s2_make_adder 0 0 0 3 hat
      { s2_module with resolved := true } hmod 0 hsym { meta_out_values := [0], fn := 2 } hmc
      (fun a ha => by
        rw [List.mem_singleton.mp ha]
        exact ⟨by decide, by decide, hloc⟩)
      (fun p hp => by rw [htl] at hp; cases hp) hroom⟩

/-! ## Modules: initialization on `GGET` and `RET` -/

/-- C12 on the code: `RET` executed while the modules stack holds more than
one module pops the frame, cuts the value stack back to the frame's base
without pushing the returned value, pops the modules stack and marks the
popped module resolved, whatever function the returning frame runs: the
handler tests `modules_stack_len > 1` only. -/
theorem ret_pops_modules_stack_for_any_frame (vm : VM) (f : Fn) (h : vm.at_op f .RET [])
    (htop : vm.stack_top ≠ 0) (hlen : 1 < vm.modules_stack_len) (mi : Nat) (m : Module)
    (hms : vm.modules_stack = some mi) (hm : vm.modules[mi]? = some m) :
    ∃ vm1, step vm = .running vm1 ∧ vm1.frame_ptr = vm.frame_ptr - 1 ∧
      vm1.stack_top = vm.frame.locals ∧
      vm1.modules_stack_len = vm.modules_stack_len - 1 ∧ vm1.modules_stack = m.prev ∧
      vm1.modules[mi]? = some { m with prev := none, resolved := true } := by
  obtain ⟨chunk, hd, he⟩ := dispatch_at h
  have h0 : vm.frame_ptr ≠ 0 := h.1.1
  have hlt : mi < vm.modules.length := by
    by_contra hn
    rw [List.getElem?_eq_none (Nat.le_of_not_lt hn)] at hm
    cases hm
  simp [step, he, dispatch, hd, op_ret, get_vm, ret_close_loop, pop, htop, current_frame, h0,
    pop_frame, hlen, pop_module_stack, hms, hm, VM.fetched, VM.with_frame, VM.frame,
    List.getElem?_set_self hlt]

theorem ret_pops_modules_stack_for_any_frame_witness :
    ((c12_state 4).at_op c12_f .RET [] ∧ (c12_state 4).stack_top ≠ 0 ∧
      1 < (c12_state 4).modules_stack_len ∧ (c12_state 4).modules_stack = some 1 ∧
      (c12_state 4).modules[1]? = some { c12_m_module with prev := some 0 } ∧
      (c12_state 4).frame.fn = some 2 ∧ c12_m_module.entry_fn = 1 ∧
      (c12_state 4).stack ((c12_state 4).stack_top - 1) = .empty ∧
      (c12_state 4).stack_top = 4 ∧ (c12_state 4).frame.locals = 2) ∧
    ∃ vm1, step (c12_state 4) = .running vm1 ∧ vm1.frame_ptr = (c12_state 4).frame_ptr - 1 ∧
      vm1.stack_top = (c12_state 4).frame.locals ∧
      vm1.modules_stack_len = (c12_state 4).modules_stack_len - 1 ∧
      vm1.modules_stack = ({ c12_m_module with prev := some 0 } : Module).prev ∧
      vm1.modules[1]? = some { ({ c12_m_module with prev := some 0 } : Module) with
        prev := none, resolved := true } :=
  have hat : (c12_state 4).at_op c12_f .RET [] :=
    at_op_intro _ _ _ _ (by decide!) 2 (by decide!) (by decide!) (by decide!) (by decide!)
  have hm : (c12_state 4).modules[1]? = some { c12_m_module with prev := some 0 } := by decide!
  ⟨⟨hat, by decide!, by decide!, by decide!, hm, by decide!, by decide!, by decide!, by decide!,
      by decide!⟩,
    ret_pops_modules_stack_for_any_frame (c12_state 4) c12_f hat (by decide!) (by decide!) 1
      { c12_m_module with prev := some 0 } (by decide!) hm⟩

/-- C11 at the failing input (main: `import m`, `m`; module `m`: `import x`,
`try \x7b x \x7d catch \x7b \x7d`; module `x`: `proc g() \x7b throw \x7d`, `g()`): the
entry function of `m` (function 1) starts after the first instruction and
opens its `try`; the `GGET` of `x` starts the entry of `x`, whose `throw`
lands in the catch block of `m` with `x` still on the modules stack; the
`RET` of the entry of `m` pops `x` and marks `x` resolved; the entry frame of
`m` has returned, the flag of `m` is unset, the `GGET` of `m` is dispatched
again and starts the entry function of `m` a second time. -/
theorem module_entry_runs_twice :
    (c11_state 0).at_op imp_main .GGET [0, 0] ∧
    ((c11_state 0).resolved_flags = [true, false, false] ∧
      ((c11_state 1).frame_ptr = 2 ∧ (c11_state 1).frame.fn = some 1 ∧
        (c11_state 1).frame.ip = 0 ∧ (c11_state 1).modules_stack = some 1) ∧
      ((c11_state 5).next_op = some .THROW ∧ (c11_state 5).modules_stack = some 2 ∧
        (c11_state 5).modules_stack_len = 3) ∧
      ((c11_state 7).next_op = some .RET ∧ (c11_state 7).frame_ptr = 2 ∧
        (c11_state 7).frame.fn = some 1 ∧ (c11_state 7).modules_stack = some 2) ∧
      ((c11_state 8).frame_ptr = 1 ∧ (c11_state 8).frame.fn = some 0 ∧
        (c11_state 8).frame.ip = 0 ∧ (c11_state 8).next_op = some .GGET ∧
        (c11_state 8).resolved_flags = [true, false, true]) ∧
      ((c11_state 9).frame_ptr = 2 ∧ (c11_state 9).frame.fn = some 1 ∧
        (c11_state 9).frame.ip = 0 ∧ (c11_state 9).next_op = some .TRYO) ∧
      (c11_state 21).stderr = ["Runtime error: Frame stack is empty"]) :=
  ⟨at_op_intro _ _ _ _ (by decide!) 0 (by decide!) (by decide!) (by decide!) (by decide!),
    by decide!⟩

/-! ## Strings: the intern table -/

theorem lookup_append_self {α : Type} (t : List (List Char × α)) (k : List Char) (v : α)
    (h : t.lookup k = none) : (t ++ [(k, v)]).lookup k = some v := by
  induction t with
  | nil => simp [List.lookup]
  | cons x xs ih =>
    rw [List.cons_append]
    by_cases hx : k == x.1
    · simp [List.lookup, hx] at h
    · have hx2 : (k == x.1) = false := by simpa using hx
      rw [List.lookup_cons, hx2] at h ⊢
      exact ih h

/-- `vmu_create_str` returns the object the intern table holds for the
content, if there is one, and otherwise a new object, which it enters in the
table; either way the content is interned as the returned object. -/
theorem vmu_create_str_spec (vm : VM) (s : String) :
    ∃ flag p vm1, vmu_create_str s vm = .ok (flag, p) vm1 ∧ interned vm1 s p ∧
      (∀ q, interned vm s q → p = q ∧ vm1 = vm) ∧
      vm1.stack = vm.stack ∧ vm1.stack_top = vm.stack_top ∧ vm1.frame_ptr = vm.frame_ptr ∧
      vm1.frame_stack = vm.frame_stack ∧
      (∀ (i : Nat) (o : Obj), vm.heap[i]? = some o → vm1.heap[i]? = some o) := by
  unfold vmu_create_str
  simp only [bind_apply, get_vm]
  cases hl : lzohtable_lookup (create_str_key_len s.length) (c_buffer s) vm.runtime_strs with
  | some q =>
    refine ⟨1, q, vm, rfl, hl, ?_, rfl, rfl, rfl, rfl, fun _ _ h => h⟩
    intro q2 hq2
    unfold interned at hq2
    rw [hl] at hq2
    exact ⟨Option.some.inj hq2, rfl⟩
  | none =>
    simp only [bind_apply, alloc_obj, pure_apply]
    refine ⟨0, vm.heap.length, _, rfl, ?_, ?_, rfl, rfl, rfl, rfl, ?_⟩
    · unfold interned lzohtable_lookup lzohtable_put_ck
      unfold lzohtable_lookup at hl
      simp only [hl, Option.isSome_none, Bool.false_eq_true, if_false]
      exact lookup_append_self _ _ _ hl
    · intro q hq
      unfold interned at hq
      rw [hl] at hq
      cases hq
    · intro i o hi
      have hlt : i < vm.heap.length := by
        by_contra hn
        rw [List.getElem?_eq_none (Nat.le_of_not_lt hn)] at hi
        cases hi
      simpa [List.getElem?_append_left hlt] using hi

theorem read_str_at {vm : VM} {f : Fn} (hr : vm.runs f) (b0 b1 : Nat)
    (c0 : f.chunks[vm.frame.ip]? = some b0) (c1 : f.chunks[vm.frame.ip + 1]? = some b1)
    (md : Module) (hmod : vm.modules[f.module]? = some md) (s : String)
    (hs : md.strings[to_size_t (compose_i16 b0 b1)]? = some s) :
    read_str vm = .ok s (vm.set_ip (vm.frame.ip + 2)) := by
  have hlen : ¬ md.strings.length ≤ to_size_t (compose_i16 b0 b1) := by
    intro hle
    rw [List.getElem?_eq_none hle] at hs
    cases hs
  simp [read_str, current_module_at hr hmod, read_i16_at hr b0 b1 c0 c1, hs, deref, hlen]

/-- The chunks after the opcode of an instruction with a two-byte operand, as
`read_str` and `read_i16` find them once the opcode is fetched. -/
theorem operands2 {vm : VM} {f : Fn} {op : OpCode} {b0 b1 : Nat}
    (h : vm.at_op f op [b0, b1]) :
    f.chunks[vm.fetched.frame.ip]? = some b0 ∧ f.chunks[vm.fetched.frame.ip + 1]? = some b1 := by
  obtain ⟨-, -, -, -, hops⟩ := h
  exact ⟨by simpa using hops 0 (by simp), by simpa [Nat.add_assoc] using hops 1 (by simp)⟩

theorem interned_congr {vm vm1 : VM} (h : vm1.runtime_strs = vm.runtime_strs) (s : String)
    (p : Nat) : interned vm1 s p ↔ interned vm s p := by
  unfold interned
  rw [h]

/-- `STRING` pushes the object `vmu_create_str` gives for the static string. -/
theorem string_step (vm : VM) (f : Fn) (b0 b1 : Nat) (h : vm.at_op f .STRING [b0, b1])
    (md : Module) (hmod : vm.modules[f.module]? = some md) (s : String)
    (hs : md.strings[to_size_t (compose_i16 b0 b1)]? = some s)
    (hroom : vm.stack_top < STACK_LENGTH) :
    ∃ p vm1, step vm = .running vm1 ∧ vm1.stack_top = vm.stack_top + 1 ∧
      vm1.stack vm.stack_top = .obj p ∧ interned vm1 s p ∧ (∀ q, interned vm s q → p = q) := by
  obtain ⟨chunk, hd, he⟩ := dispatch_at h
  obtain ⟨c0, c1⟩ := operands2 h
  have hr := fetched_runs h.1
  have rd := read_str_at hr b0 b1 c0 c1 md
    (by simpa [VM.fetched, VM.with_frame] using hmod) s hs
  obtain ⟨flag, p, vm1, e, hi, hq, d1, d2, d3, d4, d5⟩ :=
    vmu_create_str_spec (vm.fetched.set_ip (vm.fetched.frame.ip + 2)) s
  have h2 : ¬ STACK_LENGTH ≤ vm1.stack_top := by
    rw [d2]
    simpa [VM.fetched, VM.set_ip, VM.with_frame] using hroom
  have d2b : vm1.stack_top = vm.stack_top := by
    simpa [VM.fetched, VM.set_ip, VM.with_frame] using d2
  have hstep : step vm = .running { vm1 with
      stack := Function.update vm1.stack vm1.stack_top (.obj p),
      stack_top := vm1.stack_top + 1 } := by
    simp only [step, he, dispatch, hd, op_string, bind_apply, rd, e, push]
    simp [h2]
  refine ⟨p, _, hstep, ?_, ?_, ?_, ?_⟩
  · simp [d2b]
  · show Function.update vm1.stack vm1.stack_top _ vm.stack_top = _
    rw [d2b, Function.update_same]
  · exact (interned_congr rfl s p).mpr hi
  · intro q hq2
    exact (hq q ((interned_congr rfl s q).mpr hq2)).1

theorem peek_at_ok (vm : VM) (n : Nat) (h : n + 1 < vm.stack_top) :
    peek_at n vm = .ok (vm.stack (vm.stack_top - 1 - n)) vm := by
  have t0 : vm.stack_top ≠ 0 := by omega
  have t1 : ¬ ((vm.stack_top : Int) - 1 - (n : Nat) ≤ 0) := by omega
  simp only [peek_at, t0, t1, if_false]

theorem pop_ok (vm : VM) (h : 0 < vm.stack_top) :
    pop vm = .ok (vm.stack (vm.stack_top - 1)) { vm with stack_top := vm.stack_top - 1 } := by
  have t0 : vm.stack_top ≠ 0 := by omega
  simp only [pop, t0, if_false]

theorem push_ok (vm : VM) (v : Value) (h : vm.stack_top < STACK_LENGTH) :
    push v vm = .ok () { vm with stack := Function.update vm.stack vm.stack_top v,
                                 stack_top := vm.stack_top + 1 } := by
  have t0 : ¬ vm.stack_top ≥ STACK_LENGTH := by omega
  simp only [push, t0, if_false]

/-- `CONCAT` of two strings pushes the object `vmu_create_str` gives for the
joined content. -/
theorem concat_str_step (vm : VM) (f : Fn) (h : vm.at_op f .CONCAT []) (a b : Nat)
    (sa sb : String) (htop : 3 ≤ vm.stack_top) (hmax : vm.stack_top ≤ STACK_LENGTH)
    (hl : vm.stack (vm.stack_top - 2) = .obj a) (hr : vm.stack (vm.stack_top - 1) = .obj b)
    (ha : vm.heap[a]? = some (.str sa)) (hb : vm.heap[b]? = some (.str sb)) :
    ∃ p vm1, step vm = .running vm1 ∧ vm1.stack_top = vm.stack_top - 1 ∧
      vm1.stack (vm.stack_top - 2) = .obj p ∧ interned vm1 (sa ++ sb) p ∧
      (∀ q, interned vm (sa ++ sb) q → p = q) := by
  obtain ⟨chunk, hd, he⟩ := dispatch_at h
  obtain ⟨flag, p, vm1, e, hi, hq, d1, d2, d3, d4, d5⟩ := vmu_create_str_spec vm.fetched (sa ++ sb)
  have d2b : vm1.stack_top = vm.stack_top := by
    simpa [VM.fetched, VM.with_frame] using d2
  have d1b : vm1.stack = vm.stack := by
    simpa [VM.fetched, VM.with_frame] using d1
  have t0 : vm.stack_top ≠ 0 := by omega
  have t1 : ¬ ((vm.stack_top : Int) - 1 - (0 : Nat) ≤ 0) := by omega
  have t2 : ¬ ((vm.stack_top : Int) - 1 - (1 : Nat) ≤ 0) := by omega
  have t3 : vm.stack_top - 1 ≠ 0 := by omega
  have t4 : ¬ STACK_LENGTH ≤ vm1.stack_top - 1 - 1 := by omega
  have t5 : vm1.stack_top ≠ 0 := by omega
  have t6 : vm1.stack_top - 1 ≠ 0 := by omega
  have hl1 : vm.stack (vm.stack_top - 1 - 1) = .obj a := by
    rw [show vm.stack_top - 1 - 1 = vm.stack_top - 2 by omega]
    exact hl
  have cc : vmu_str_concat a b vm.fetched = .ok p vm1 := by
    have ha1 : vm.fetched.heap[a]? = some (.str sa) := by
      simpa [VM.fetched, VM.with_frame] using ha
    have hb1 : vm.fetched.heap[b]? = some (.str sb) := by
      simpa [VM.fetched, VM.with_frame] using hb
    simp only [vmu_str_concat, str_buff, bind_apply, get_vm, ha1, hb1, pure_apply, e]
  have hstep : step vm = .running { vm1 with
      stack := Function.update vm1.stack (vm1.stack_top - 1 - 1) (.obj p),
      stack_top := vm1.stack_top - 1 - 1 + 1 } := by
    have p0 := peek_at_ok vm.fetched 0 (by simpa [VM.fetched, VM.with_frame] using (by omega : 0 + 1 < vm.stack_top))
    have p1 := peek_at_ok vm.fetched 1 (by simpa [VM.fetched, VM.with_frame] using (by omega : 1 + 1 < vm.stack_top))
    have q0 := pop_ok vm1 (by omega)
    have q1 := pop_ok { vm1 with stack_top := vm1.stack_top - 1 } (by show 0 < vm1.stack_top - 1; omega)
    have q2 := push_ok { vm1 with stack_top := vm1.stack_top - 1 - 1 } (.obj p)
      (by show vm1.stack_top - 1 - 1 < STACK_LENGTH; omega)
    have s0 : vm.fetched.stack (vm.fetched.stack_top - 1 - 0) = .obj b := by
      simpa [VM.fetched, VM.with_frame] using hr
    have s1 : vm.fetched.stack (vm.fetched.stack_top - 1 - 1) = .obj a := by
      simpa [VM.fetched, VM.with_frame] using hl1
    have ha1 : vm.fetched.heap[a]? = some (.str sa) := by
      simpa [VM.fetched, VM.with_frame] using ha
    have hb1 : vm.fetched.heap[b]? = some (.str sb) := by
      simpa [VM.fetched, VM.with_frame] using hb
    simp only [step, he, dispatch, hd, op_concat, bind_apply, p0, p1, s0, s1, get_vm,
      is_value_str, value_obj, ha1, hb1, value_to_obj, pure_apply, cc, q0, q1, q2,
      Bool.and_self, if_true]
  refine ⟨p, _, hstep, ?_, ?_, ?_, ?_⟩
  · show vm1.stack_top - 1 - 1 + 1 = _
    omega
  · show Function.update vm1.stack (vm1.stack_top - 1 - 1) _ (vm.stack_top - 2) = _
    rw [d2b, show vm.stack_top - 1 - 1 = vm.stack_top - 2 by omega, Function.update_same]
  · exact (interned_congr rfl _ p).mpr hi
  · intro q hq2
    exact (hq q ((interned_congr rfl _ q).mpr hq2)).1

/-- `EQ` of two strings pushes whether they are the same object. -/
theorem eq_str_step (vm : VM) (f : Fn) (h : vm.at_op f .EQ []) (a b : Nat)
    (sa sb : String) (htop : 2 ≤ vm.stack_top) (hmax : vm.stack_top ≤ STACK_LENGTH)
    (hl : vm.stack (vm.stack_top - 2) = .obj a) (hr : vm.stack (vm.stack_top - 1) = .obj b)
    (ha : vm.heap[a]? = some (.str sa)) (hb : vm.heap[b]? = some (.str sb)) :
    ∃ vm1, step vm = .running vm1 ∧ vm1.stack_top = vm.stack_top - 1 ∧
      vm1.stack (vm.stack_top - 2) = .bool (a == b) := by
  obtain ⟨chunk, hd, he⟩ := dispatch_at h
  have e0 : vm.fetched.stack_top = vm.stack_top := by simp [VM.fetched, VM.with_frame]
  have e1 : vm.fetched.stack = vm.stack := by simp [VM.fetched, VM.with_frame]
  have e2 : vm.fetched.heap = vm.heap := by simp [VM.fetched, VM.with_frame]
  have hl1 : vm.stack (vm.stack_top - 1 - 1) = .obj a := by
    rw [show vm.stack_top - 1 - 1 = vm.stack_top - 2 by omega]
    exact hl
  have q0 := pop_ok vm.fetched (by omega)
  have q1 := pop_ok { vm.fetched with stack_top := vm.fetched.stack_top - 1 }
    (by show 0 < vm.fetched.stack_top - 1; omega)
  have q2 := push_ok { vm.fetched with stack_top := vm.fetched.stack_top - 1 - 1 } (.bool (a == b))
    (by show vm.fetched.stack_top - 1 - 1 < STACK_LENGTH; omega)
  have hstep : step vm = .running { vm.fetched with
      stack := Function.update vm.fetched.stack (vm.fetched.stack_top - 1 - 1) (.bool (a == b)),
      stack_top := vm.fetched.stack_top - 1 - 1 + 1 } := by
    have hr1 : vm.fetched.stack (vm.fetched.stack_top - 1) = .obj b := by rw [e0, e1]; exact hr
    have hl2 : vm.fetched.stack (vm.fetched.stack_top - 1 - 1) = .obj a := by
      rw [e0, e1]; exact hl1
    have ha1 : vm.fetched.heap[a]? = some (.str sa) := by rw [e2]; exact ha
    have hb1 : vm.fetched.heap[b]? = some (.str sb) := by rw [e2]; exact hb
    simp only [step, he, dispatch, hd, op_eq, bind_apply, q0, q1, hr1, hl2, eq_operands,
      get_vm, is_value_str, value_obj, ha1, hb1, value_to_obj, pure_apply, Bool.and_self,
      if_true, q2]
  refine ⟨_, hstep, ?_, ?_⟩
  · show vm.fetched.stack_top - 1 - 1 + 1 = _
    omega
  · show Function.update vm.fetched.stack (vm.fetched.stack_top - 1 - 1) _ (vm.stack_top - 2) = _
    rw [e0, show vm.stack_top - 1 - 1 = vm.stack_top - 2 by omega, Function.update_same]

/-- An entry of the intern table is still there after any run of instructions. -/
theorem interned_run (n : Nat) (vm vm1 : VM) (h : run n vm = .running vm1) (s : String)
    (p : Nat) (hi : interned vm s p) : interned vm1 s p :=
  (run_keeps n vm vm1 h).2.2 _ _ hi

/-- C13: `vmu_create_str`, `STRING` and `CONCAT` of two strings each yield an
object that the intern table then holds for the content produced. When the
intern table holds object `p` for the content `s`, it still does after any
number of instructions (no string is destroyed: collection is not embedded),
and from then on `vmu_create_str` on `s` returns `p` with the hit flag and
changes nothing, `STRING` of a static string with content `s` pushes `p`, and
`CONCAT` of two strings whose contents join to `s` pushes `p`; `EQ` on twice
the same string object pushes true. For the program S6, `"hel" ++ "lo" ==
"hello"` leaves true on the stack. -/
theorem interned_strings_are_one_object (vm : VM) (s : String) (p : Nat)
    (h : interned vm s p) :
    (∀ (vm0 : VM) (s0 : String), ∃ flag q vm1, vmu_create_str s0 vm0 = .ok (flag, q) vm1 ∧
      interned vm1 s0 q) ∧
    (∀ (vm0 : VM) (s0 : String) f b0 b1 md, vm0.at_op f .STRING [b0, b1] →
      vm0.modules[f.module]? = some md →
      md.strings[to_size_t (compose_i16 b0 b1)]? = some s0 → vm0.stack_top < STACK_LENGTH →
      ∃ q vm1, step vm0 = .running vm1 ∧ vm1.stack_top = vm0.stack_top + 1 ∧
        vm1.stack vm0.stack_top = .obj q ∧ interned vm1 s0 q) ∧
    (∀ (vm0 : VM) f a b sa sb, vm0.at_op f .CONCAT [] → 3 ≤ vm0.stack_top →
      vm0.stack_top ≤ STACK_LENGTH → vm0.stack (vm0.stack_top - 2) = .obj a →
      vm0.stack (vm0.stack_top - 1) = .obj b → vm0.heap[a]? = some (.str sa) →
      vm0.heap[b]? = some (.str sb) →
      ∃ q vm1, step vm0 = .running vm1 ∧ vm1.stack_top = vm0.stack_top - 1 ∧
        vm1.stack (vm0.stack_top - 2) = .obj q ∧ interned vm1 (sa ++ sb) q) ∧
    (∀ n vm1, run n vm = .running vm1 → interned vm1 s p) ∧
    vmu_create_str s vm = .ok (1, p) vm ∧
    (∀ f b0 b1 md, vm.at_op f .STRING [b0, b1] → vm.modules[f.module]? = some md →
      md.strings[to_size_t (compose_i16 b0 b1)]? = some s → vm.stack_top < STACK_LENGTH →
      ∃ vm1, step vm = .running vm1 ∧ vm1.stack_top = vm.stack_top + 1 ∧
        vm1.stack vm.stack_top = .obj p) ∧
    (∀ f a b sa sb, vm.at_op f .CONCAT [] → 3 ≤ vm.stack_top →
      vm.stack_top ≤ STACK_LENGTH → vm.stack (vm.stack_top - 2) = .obj a →
      vm.stack (vm.stack_top - 1) = .obj b → vm.heap[a]? = some (.str sa) →
      vm.heap[b]? = some (.str sb) → sa ++ sb = s →
      ∃ vm1, step vm = .running vm1 ∧ vm1.stack_top = vm.stack_top - 1 ∧
        vm1.stack (vm.stack_top - 2) = .obj p) ∧
    (∀ f, vm.at_op f .EQ [] → 2 ≤ vm.stack_top → vm.stack_top ≤ STACK_LENGTH →
      vm.stack (vm.stack_top - 2) = .obj p → vm.stack (vm.stack_top - 1) = .obj p →
      vm.heap[p]? = some (.str s) →
      ∃ vm1, step vm = .running vm1 ∧ vm1.stack_top = vm.stack_top - 1 ∧
        vm1.stack (vm.stack_top - 2) = .bool true) ∧
    (s6_state 9).top 1 = [.bool true] := by
  refine ⟨?_, ?_, ?_, ?_, ?_, ?_, ?_, ?_, by decide!⟩
  · intro vm0 s0
    obtain ⟨flag, q, vm1, e, hi, -⟩ := vmu_create_str_spec vm0 s0
    exact ⟨flag, q, vm1, e, hi⟩
  · intro vm0 s0 f b0 b1 md hat hmod hs hroom
    obtain ⟨q, vm1, e, d1, d2, hi, -⟩ := string_step vm0 f b0 b1 hat md hmod s0 hs hroom
    exact ⟨q, vm1, e, d1, d2, hi⟩
  · intro vm0 f a b sa sb hat htop hmax hl hr ha hb
    obtain ⟨q, vm1, e, d1, d2, hi, -⟩ := concat_str_step vm0 f hat a b sa sb htop hmax hl hr ha hb
    exact ⟨q, vm1, e, d1, d2, hi⟩
  · intro n vm1 hrun
    exact interned_run n vm vm1 hrun s p h
  · unfold interned at h
    simp only [vmu_create_str, bind_apply, get_vm, h, pure_apply]
  · intro f b0 b1 md hat hmod hs hroom
    obtain ⟨q, vm1, e, d1, d2, -, hq⟩ := string_step vm f b0 b1 hat md hmod s hs hroom
    rw [hq p h] at d2
    exact ⟨vm1, e, d1, d2⟩
  · intro f a b sa sb hat htop hmax hl hr ha hb hs
    obtain ⟨q, vm1, e, d1, d2, -, hq⟩ := concat_str_step vm f hat a b sa sb htop hmax hl hr ha hb
    rw [hs] at hq
    rw [hq p h] at d2
    exact ⟨vm1, e, d1, d2⟩
  · intro f hat htop hmax hl hr hp
    obtain ⟨vm1, e, d1, d2⟩ := eq_str_step vm f hat p p s s htop hmax hl hr hp hp
    rw [beq_self_eq_true] at d2
    exact ⟨vm1, e, d1, d2⟩

theorem interned_strings_are_one_object_witness :
    (interned (s6_state 4) "hello" 1 ∧ (s6_state 4).at_op s6_main .CONCAT [] ∧
      (s6_state 4).stack_top = 3 ∧ (s6_state 4).stack 1 = .obj 2 ∧
      (s6_state 4).stack 2 = .obj 3 ∧ (s6_state 4).heap[2]? = some (.str "hel") ∧
      (s6_state 4).heap[3]? = some (.str "lo") ∧ (s6_state 4).heap[1]? = some (.str "hello")) ∧
    (
    (∀ (vm0 : VM) (s0 : String), ∃ flag q vm1, vmu_create_str s0 vm0 = .ok (flag, q) vm1 ∧
      interned vm1 s0 q) ∧
    (∀ (vm0 : VM) (s0 : String) f b0 b1 md, vm0.at_op f .STRING [b0, b1] →
      vm0.modules[f.module]? = some md →
      md.strings[to_size_t (compose_i16 b0 b1)]? = some s0 → vm0.stack_top < STACK_LENGTH →
      ∃ q vm1, step vm0 = .running vm1 ∧ vm1.stack_top = vm0.stack_top + 1 ∧
        vm1.stack vm0.stack_top = .obj q ∧ interned vm1 s0 q) ∧
    (∀ (vm0 : VM) f a b sa sb, vm0.at_op f .CONCAT [] → 3 ≤ vm0.stack_top →
      vm0.stack_top ≤ STACK_LENGTH → vm0.stack (vm0.stack_top - 2) = .obj a →
      vm0.stack (vm0.stack_top - 1) = .obj b → vm0.heap[a]? = some (.str sa) →
      vm0.heap[b]? = some (.str sb) →
      ∃ q vm1, step vm0 = .running vm1 ∧ vm1.stack_top = vm0.stack_top - 1 ∧
        vm1.stack (vm0.stack_top - 2) = .obj q ∧ interned vm1 (sa ++ sb) q) ∧
    (∀ n vm1, run n (s6_state 4) = .running vm1 → interned vm1 "hello" 1) ∧
    vmu_create_str "hello" (s6_state 4) = .ok (1, 1) (s6_state 4) ∧
    (∀ f b0 b1 md, (s6_state 4).at_op f .STRING [b0, b1] → (s6_state 4).modules[f.module]? = some md →
      md.strings[to_size_t (compose_i16 b0 b1)]? = some "hello" → (s6_state 4).stack_top < STACK_LENGTH →
      ∃ vm1, step (s6_state 4) = .running vm1 ∧ vm1.stack_top = (s6_state 4).stack_top + 1 ∧
        vm1.stack (s6_state 4).stack_top = .obj 1) ∧
    (∀ f a b sa sb, (s6_state 4).at_op f .CONCAT [] → 3 ≤ (s6_state 4).stack_top →
      (s6_state 4).stack_top ≤ STACK_LENGTH → (s6_state 4).stack ((s6_state 4).stack_top - 2) = .obj a →
      (s6_state 4).stack ((s6_state 4).stack_top - 1) = .obj b → (s6_state 4).heap[a]? = some (.str sa) →
      (s6_state 4).heap[b]? = some (.str sb) → sa ++ sb = "hello" →
      ∃ vm1, step (s6_state 4) = .running vm1 ∧ vm1.stack_top = (s6_state 4).stack_top - 1 ∧
        vm1.stack ((s6_state 4).stack_top - 2) = .obj 1) ∧
    (∀ f, (s6_state 4).at_op f .EQ [] → 2 ≤ (s6_state 4).stack_top → (s6_state 4).stack_top ≤ STACK_LENGTH →
      (s6_state 4).stack ((s6_state 4).stack_top - 2) = .obj 1 → (s6_state 4).stack ((s6_state 4).stack_top - 1) = .obj 1 →
      (s6_state 4).heap[1]? = some (.str "hello") →
      ∃ vm1, step (s6_state 4) = .running vm1 ∧ vm1.stack_top = (s6_state 4).stack_top - 1 ∧
        vm1.stack ((s6_state 4).stack_top - 2) = .bool true) ∧
    (s6_state 9).top 1 = [.bool true]) :=
  have hat : (s6_state 4).at_op s6_main .CONCAT [] :=
    at_op_intro _ _ _ _ (by decide!) 0 (by decide!) (by decide!) (by decide!) (by decide!)
  have hi : interned (s6_state 4) "hello" 1 := by decide!
  ⟨⟨hi, hat, by decide!, by decide!, by decide!, by decide!, by decide!, by decide!⟩,
    interned_strings_are_one_object (s6_state 4) "hello" 1 hi⟩

/-! ## Strings: `vmu_destroy_str` -/

theorem lookup_none_keys {α : Type} (t : List (List Char × α)) (k : List Char)
    (h : t.lookup k = none) : ∀ kv ∈ t, ¬ (kv.1 == k) = true := by
  induction t with
  | nil => simp
  | cons x xs ih =>
    by_cases hx : k == x.1
    · simp [List.lookup, hx] at h
    · have hx2 : (k == x.1) = false := by simpa using hx
      rw [List.lookup_cons, hx2] at h
      intro kv hkv
      rcases List.mem_cons.mp hkv with e | e
      · subst e
        intro hc
        have e1 : kv.1 = k := eq_of_beq hc
        rw [e1] at hx2
        rw [beq_self_eq_true] at hx2
        cases hx2
      · exact ih h kv e

theorem lookup_eraseP_ne {α : Type} (t : List (List Char × α)) (k k2 : List Char)
    (hk : k ≠ k2) : (t.eraseP (fun kv => kv.1 == k2)).lookup k = t.lookup k := by
  induction t with
  | nil => rfl
  | cons x xs ih =>
    by_cases hx : x.1 == k2
    · rw [List.eraseP_cons_of_pos (p := fun kv : List Char × α => kv.1 == k2) hx]
      have e : (k == x.1) = false := by
        have : x.1 = k2 := by simpa using hx
        rw [this]
        simpa using hk
      rw [List.lookup_cons, e]
    · rw [List.eraseP_cons_of_neg (p := fun kv : List Char × α => kv.1 == k2) hx]
      rw [List.lookup_cons, List.lookup_cons, ih]

theorem create_str_key_len_pos (n : Nat) (h0 : 0 < n) (hn : n < 2 ^ 64) :
    create_str_key_len n = n := by
  have e0 : ¬ n = 0 := by omega
  unfold create_str_key_len to_size_t
  simp only [e0, h0, if_true, if_false]
  have e1 : (((0 : Int) - 0) % 2 ^ 64).toNat = 0 := by decide
  have e2 : (((0 : Int) - 1) % 2 ^ 64).toNat = 2 ^ 64 - 1 := by decide
  rw [e1, e2, Nat.zero_and, Nat.zero_or, Nat.and_comm, Nat.and_pow_two_sub_one_eq_mod]
  exact Nat.mod_eq_of_lt hn

theorem create_str_key_len_zero : create_str_key_len 0 = 1 := by decide

/-- C14 on the code: `vmu_create_str` on a content the intern table does not
hold creates the object and exactly one entry for it. `vmu_destroy_str` on
that object removes the entry when the content is not empty, so that no lookup
of the content succeeds afterwards. For the empty string the entry is made
under a key of one byte (the terminating NUL) while `vmu_destroy_str` removes
the key of `str_obj->len = 0` bytes: the entry stays, and `vmu_create_str` on
the empty string then returns the destroyed object with the hit flag. -/
theorem destroy_str_leaves_entry_of_empty_string (vm : VM) (s : String)
    (hlen : s.length < 2 ^ 64) (h : ∀ q, ¬ interned vm s q) :
    ∃ p vm1 vm2, vmu_create_str s vm = .ok (0, p) vm1 ∧ vm1.heap[p]? = some (.str s) ∧
      interned vm1 s p ∧
      vm1.runtime_strs.countP
        (fun kv => kv.1 == (c_buffer s).take (create_str_key_len s.length)) = 1 ∧
      vmu_destroy_str p vm1 = .ok () vm2 ∧
      (s.length ≠ 0 → ∀ q, ¬ interned vm2 s q) ∧
      (s.length = 0 → interned vm2 s p ∧ vmu_create_str s vm2 = .ok (1, p) vm2) := by
  have hl : vm.runtime_strs.lookup ((c_buffer s).take (create_str_key_len s.length)) = none := by
    cases e : vm.runtime_strs.lookup ((c_buffer s).take (create_str_key_len s.length)) with
    | none => rfl
    | some q => exact absurd e (h q)
  have hkeys := lookup_none_keys _ _ hl
  have hheap : (vm.heap ++ [Obj.str s])[vm.heap.length]? = some (.str s) := by simp
  have c1 : vmu_create_str s vm = .ok (0, vm.heap.length) { vm with
      heap := vm.heap ++ [.str s],
      runtime_strs := vm.runtime_strs ++
        [((c_buffer s).take (create_str_key_len s.length), vm.heap.length)] } := by
    simp only [vmu_create_str, bind_apply, get_vm, lzohtable_lookup, hl, alloc_obj, pure_apply,
      lzohtable_put_ck, Option.isSome_none, Bool.false_eq_true, if_false]
  have c2 : vmu_destroy_str vm.heap.length { vm with
      heap := vm.heap ++ [.str s],
      runtime_strs := vm.runtime_strs ++
        [((c_buffer s).take (create_str_key_len s.length), vm.heap.length)] } = .ok () { vm with
      heap := vm.heap ++ [.str s],
      runtime_strs := lzohtable_remove s.length (c_buffer s) (vm.runtime_strs ++
        [((c_buffer s).take (create_str_key_len s.length), vm.heap.length)]) } := by
    simp only [vmu_destroy_str, bind_apply, get_vm, hheap, set_vm]
  refine ⟨_, _, _, c1, hheap, ?_, ?_, c2, ?_, ?_⟩
  · exact lookup_append_self _ _ _ hl
  · rw [List.countP_append, List.countP_eq_zero.mpr hkeys]
    simp
  · intro h0 q
    have ek := create_str_key_len_pos s.length (by omega) hlen
    unfold interned lzohtable_lookup lzohtable_remove
    show ¬ List.lookup _ (List.eraseP _ _) = some q
    rw [ek] at hkeys hl ⊢
    rw [List.eraseP_append_right _ hkeys]
    simp [List.eraseP, hl]
  · intro h0
    have hi : interned { vm with
        heap := vm.heap ++ [.str s],
        runtime_strs := lzohtable_remove s.length (c_buffer s) (vm.runtime_strs ++
          [((c_buffer s).take (create_str_key_len s.length), vm.heap.length)]) } s
        vm.heap.length := by
      unfold interned lzohtable_lookup lzohtable_remove
      show List.lookup _ (List.eraseP _ _) = _
      rw [lookup_eraseP_ne]
      · exact lookup_append_self _ _ _ hl
      · rw [h0, create_str_key_len_zero]
        simp [c_buffer]
    refine ⟨hi, ?_⟩
    unfold interned at hi
    simp only [vmu_create_str, bind_apply, get_vm, hi, pure_apply]

theorem destroy_str_leaves_entry_of_empty_string_witness :
    ("".length < 2 ^ 64 ∧ ∀ q, ¬ interned (VM.init [] [] [] []) "" q) ∧
    ∃ p vm1 vm2, vmu_create_str "" (VM.init [] [] [] []) = .ok (0, p) vm1 ∧
      vm1.heap[p]? = some (.str "") ∧ interned vm1 "" p ∧
      vm1.runtime_strs.countP
        (fun kv => kv.1 == (c_buffer "").take (create_str_key_len "".length)) = 1 ∧
      vmu_destroy_str p vm1 = .ok () vm2 ∧
      ("".length ≠ 0 → ∀ q, ¬ interned vm2 "" q) ∧
      ("".length = 0 → interned vm2 "" p ∧ vmu_create_str "" vm2 = .ok (1, p) vm2) :=
  have h : ∀ q, ¬ interned (VM.init [] [] [] []) "" q := fun q hq => by
    have e : (VM.init [] [] [] []).runtime_strs = [] := rfl
    unfold interned lzohtable_lookup at hq
    rw [e] at hq
    cases hq
  ⟨⟨by decide, h⟩,
    destroy_str_leaves_entry_of_empty_string (VM.init [] [] [] []) "" (by decide) h⟩

/-! ## `EQ` and `NE` -/

/-- C16 on the code: `DIV` with two int operands raises the runtime error
"Division by zero is undefined" when the divisor is 0; when the divisor is not
0 and the operands are not `INT64_MIN` and -1 it pushes the quotient truncated
toward zero in place of the operands; for `INT64_MIN / -1` the handler
evaluates `left / right` on `int64_t`, whose result is not representable:
undefined behaviour, neither an error nor a quotient. -/
theorem div_of_ints (vm : VM) (f : Fn) (h : vm.at_op f .DIV []) (htop : 2 ≤ vm.stack_top)
    (hmax : vm.stack_top ≤ STACK_LENGTH) (l r : Int)
    (hl : vm.stack (vm.stack_top - 2) = .int l) (hr : vm.stack (vm.stack_top - 1) = .int r) :
    (r = 0 → (step vm).is_error ∧
      (step vm).vm.stderr = vm.stderr ++ ["Runtime error: Division by zero is undefined"]) ∧
    (r ≠ 0 → ¬ (l = -2 ^ 63 ∧ r = -1) →
      ∃ vm1, step vm = .running vm1 ∧ vm1.stack_top = vm.stack_top - 1 ∧
        vm1.stack (vm.stack_top - 2) = .int (Int.tdiv l r)) ∧
    (l = -2 ^ 63 ∧ r = -1 → step vm = .ub) := by
  obtain ⟨chunk, hd, he⟩ := dispatch_at h
  have e0 : vm.fetched.stack_top = vm.stack_top := by simp [VM.fetched, VM.with_frame]
  have e1 : vm.fetched.stack = vm.stack := by simp [VM.fetched, VM.with_frame]
  have e3 : vm.fetched.stderr = vm.stderr := by simp [VM.fetched, VM.with_frame]
  have e2 : vm.stack_top - 1 - 1 = vm.stack_top - 2 := by omega
  have q0 := pop_ok vm.fetched (by omega)
  have q1 := pop_ok { vm.fetched with stack_top := vm.fetched.stack_top - 1 }
    (by show 0 < vm.fetched.stack_top - 1; omega)
  have hr1 : vm.fetched.stack (vm.fetched.stack_top - 1) = .int r := by rw [e0, e1]; exact hr
  have hl1 : vm.fetched.stack (vm.fetched.stack_top - 1 - 1) = .int l := by
    rw [e0, e1, e2]; exact hl
  have q2 := push_ok { vm.fetched with stack_top := vm.fetched.stack_top - 1 - 1 }
    (.int (Int.tdiv l r)) (by show vm.fetched.stack_top - 1 - 1 < STACK_LENGTH; omega)
  refine ⟨?_, ?_, ?_⟩
  · intro h0
    have hstep : step vm = .halted ERR_VMRESULT { vm.fetched with
        stack_top := vm.fetched.stack_top - 1 - 1, exit_code := ERR_VMRESULT,
        stderr := vm.fetched.stderr ++ ["Runtime error: " ++ "Division by zero is undefined"] } := by
      simp only [step, he, dispatch, hd, op_div, bind_apply, q0, q1, hr1, hl1, h0, if_true,
        vmu_error, after_longjmp]
    rw [hstep]
    exact ⟨rfl, by rw [← e3]; rfl⟩
  · intro h0 h1
    refine ⟨{ vm.fetched with
      stack := Function.update vm.fetched.stack (vm.fetched.stack_top - 1 - 1) (.int (Int.tdiv l r)),
      stack_top := vm.fetched.stack_top - 1 - 1 + 1 }, ?_, ?_, ?_⟩
    · simp only [step, he, dispatch, hd, op_div, bind_apply, q0, q1, hr1, hl1, h0, h1, if_false,
        pure_apply, q2]
    · show vm.fetched.stack_top - 1 - 1 + 1 = _
      omega
    · show Function.update vm.fetched.stack (vm.fetched.stack_top - 1 - 1) _ (vm.stack_top - 2) = _
      rw [e0, e2, Function.update_same]
  · intro h1
    obtain ⟨h2, h3⟩ := h1
    subst h2
    subst h3
    have h0 : ¬ ((-1 : Int) = 0) := by decide
    simp only [step, he, dispatch, hd, op_div, bind_apply, q0, q1, hr1, hl1, h0, if_false,
      pure_apply, and_self, if_true, undefined_behaviour]

theorem div_of_ints_witness :
    ((c16_state 2).at_op c16_main .DIV [] ∧ 2 ≤ (c16_state 2).stack_top ∧
      (c16_state 2).stack_top ≤ STACK_LENGTH ∧
      (c16_state 2).stack ((c16_state 2).stack_top - 2) = .int (-2 ^ 63) ∧
      (c16_state 2).stack ((c16_state 2).stack_top - 1) = .int (-1)) ∧
    (((-1 : Int) = 0 → (step (c16_state 2)).is_error ∧
      (step (c16_state 2)).vm.stderr
        = (c16_state 2).stderr ++ ["Runtime error: Division by zero is undefined"]) ∧
    ((-1 : Int) ≠ 0 → ¬ ((-2 ^ 63 : Int) = -2 ^ 63 ∧ (-1 : Int) = -1) →
      ∃ vm1, step (c16_state 2) = .running vm1 ∧ vm1.stack_top = (c16_state 2).stack_top - 1 ∧
        vm1.stack ((c16_state 2).stack_top - 2) = .int (Int.tdiv (-2 ^ 63) (-1))) ∧
    ((-2 ^ 63 : Int) = -2 ^ 63 ∧ (-1 : Int) = -1 → step (c16_state 2) = .ub)) :=
  have hat : (c16_state 2).at_op c16_main .DIV [] :=
    at_op_intro _ _ _ _ (by decide!) 0 (by decide!) (by decide!) (by decide!) (by decide!)
  ⟨⟨hat, by decide!, by decide!, by decide!, by decide!⟩,
    div_of_ints (c16_state 2) c16_main hat (by decide!) (by decide!) (-2 ^ 63) (-1)
      (by decide!) (by decide!)⟩

/-! ## `CONCAT` of a list and a value -/

/-- `OP_ASET` around the assignment itself, which takes place once the opcode
is fetched, with the target on top of the stack, the index below it and the
assigned value below the index. -/
theorem aset_step (vm : VM) (f : Fn) (h : vm.at_op f .ASET []) (htop : 4 ≤ vm.stack_top)
    (t : Nat) (ht : vm.stack (vm.stack_top - 1) = .obj t) :
    (∀ vm1, aset_obj t (vm.stack (vm.stack_top - 2)) (vm.stack (vm.stack_top - 3)) vm.fetched
        = .ok () vm1 → vm1.stack_top = vm.stack_top →
      step vm = .running { vm1 with stack_top := vm.stack_top - 2 }) ∧
    (∀ msg, aset_obj t (vm.stack (vm.stack_top - 2)) (vm.stack (vm.stack_top - 3)) vm.fetched
        = vmu_error msg vm.fetched →
      (step vm).is_error ∧ (step vm).vm.stderr = vm.stderr ++ ["Runtime error: " ++ msg]) := by
  obtain ⟨chunk, hd, he⟩ := dispatch_at h
  have e0 : vm.fetched.stack_top = vm.stack_top := by simp [VM.fetched, VM.with_frame]
  have e1 : vm.fetched.stack = vm.stack := by simp [VM.fetched, VM.with_frame]
  have e3 : vm.fetched.stderr = vm.stderr := by simp [VM.fetched, VM.with_frame]
  have p0 := peek_at_ok vm.fetched 0 (by rw [e0]; omega)
  have p1 := peek_at_ok vm.fetched 1 (by rw [e0]; omega)
  have p2 := peek_at_ok vm.fetched 2 (by rw [e0]; omega)
  have s0 : vm.fetched.stack (vm.fetched.stack_top - 1 - 0) = .obj t := by
    rw [e0, e1]; exact ht
  have s1 : vm.fetched.stack (vm.fetched.stack_top - 1 - 1) = vm.stack (vm.stack_top - 2) := by
    rw [e0, e1, show vm.stack_top - 1 - 1 = vm.stack_top - 2 by omega]
  have s2 : vm.fetched.stack (vm.fetched.stack_top - 1 - 2) = vm.stack (vm.stack_top - 3) := by
    rw [e0, e1, show vm.stack_top - 1 - 2 = vm.stack_top - 3 by omega]
  constructor
  · intro vm1 hok htop1
    have q0 := pop_ok vm1 (by omega)
    have q1 := pop_ok { vm1 with stack_top := vm1.stack_top - 1 }
      (by show 0 < vm1.stack_top - 1; omega)
    simp only [step, he, dispatch, hd, op_aset, bind_apply, p0, p1, p2, s0, s1, s2, hok, q0, q1,
      pure_apply]
    congr 2
    omega
  · intro msg herr
    have hstep : step vm = .halted ERR_VMRESULT { vm.fetched with
        exit_code := ERR_VMRESULT,
        stderr := vm.fetched.stderr ++ ["Runtime error: " ++ msg] } := by
      simp only [vmu_error] at herr
      simp only [step, he, dispatch, hd, op_aset, bind_apply, p0, p1, p2, s0, s1, s2, herr,
        after_longjmp]
    rw [hstep]
    exact ⟨rfl, by rw [← e3]; rfl⟩

/-- C18 on the code: `ASET` with a byte array as target, the index below it
and the assigned value below the index. The handler raises a runtime error
when the index is not an int, when the assigned value is not an int, and when
the index is outside `[0, len)`. Otherwise it succeeds for every int value,
also outside `[0, 255]`: the indexed byte becomes the value converted to
`unsigned char` (its residue modulo 256), every other byte is unchanged, and
target and index are popped. -/
theorem aset_nbarray_stores_truncated_value (vm : VM) (f : Fn) (h : vm.at_op f .ASET [])
    (htop : 4 ≤ vm.stack_top) (t : Nat) (bytes : List Nat)
    (ht : vm.stack (vm.stack_top - 1) = .obj t) (hb : vm.heap[t]? = some (.nbarray bytes)) :
    ((∀ idx, vm.stack (vm.stack_top - 2) ≠ .int idx) →
      (step vm).is_error ∧
      (step vm).vm.stderr = vm.stderr ++ ["Runtime error: Expect index value of type 'int'"]) ∧
    (∀ idx, vm.stack (vm.stack_top - 2) = .int idx →
      (∀ val, vm.stack (vm.stack_top - 3) ≠ .int val) →
      (step vm).is_error ∧
      (step vm).vm.stderr
        = vm.stderr ++ ["Runtime error: Expect assignment value of type 'int'"]) ∧
    (∀ idx val, vm.stack (vm.stack_top - 2) = .int idx →
      vm.stack (vm.stack_top - 3) = .int val → -2 ^ 63 ≤ idx → idx < 2 ^ 63 →
      (idx < 0 ∨ (bytes.length : Int) ≤ idx) →
      (step vm).is_error ∧
      (step vm).vm.stderr = vm.stderr ++ ["Runtime error: Index out of bounds"]) ∧
    (∀ idx val, vm.stack (vm.stack_top - 2) = .int idx →
      vm.stack (vm.stack_top - 3) = .int val → 0 ≤ idx → idx < 2 ^ 63 →
      idx < (bytes.length : Int) →
      ∃ vm1, step vm = .running vm1 ∧ vm1.stack_top = vm.stack_top - 2 ∧
        vm1.stack = vm.stack ∧
        vm1.heap[t]? = some (.nbarray (bytes.set idx.toNat (val % 256).toNat))) := by
  obtain ⟨hok, herr⟩ := aset_step vm f h htop t ht
  have e8 : vm.fetched.heap = vm.heap := by simp [VM.fetched, VM.with_frame]
  have hb1 : vm.fetched.heap[t]? = some (.nbarray bytes) := by rw [e8]; exact hb
  have hlt : t < vm.heap.length := by
    by_contra hn
    rw [List.getElem?_eq_none (Nat.le_of_not_lt hn)] at hb
    cases hb
  refine ⟨?_, ?_, ?_, ?_⟩
  · intro hni
    apply herr
    generalize vm.stack (vm.stack_top - 2) = iv at hni
    cases iv with
    | int idx => exact absurd rfl (hni idx)
    | empty => simp only [aset_obj, bind_apply, get_vm, hb1, deref, pure_apply]
    | bool _ => simp only [aset_obj, bind_apply, get_vm, hb1, deref, pure_apply]
    | float _ => simp only [aset_obj, bind_apply, get_vm, hb1, deref, pure_apply]
    | obj _ => simp only [aset_obj, bind_apply, get_vm, hb1, deref, pure_apply]
  · intro idx hi hnv
    apply herr
    rw [hi]
    generalize vm.stack (vm.stack_top - 3) = v at hnv
    cases v with
    | int val => exact absurd rfl (hnv val)
    | empty => simp only [aset_obj, bind_apply, get_vm, hb1, deref, pure_apply]
    | bool _ => simp only [aset_obj, bind_apply, get_vm, hb1, deref, pure_apply]
    | float _ => simp only [aset_obj, bind_apply, get_vm, hb1, deref, pure_apply]
    | obj _ => simp only [aset_obj, bind_apply, get_vm, hb1, deref, pure_apply]
  · intro idx val hi hv h1 h2 hout
    apply herr
    rw [hi, hv]
    have hc : idx < 0 ∨ to_size_t idx ≥ bytes.length := by
      rcases hout with h3 | h3
      · exact Or.inl h3
      · right
        unfold to_size_t
        omega
    simp only [aset_obj, bind_apply, get_vm, hb1, deref, pure_apply, hc, if_true, vmu_error]
  · intro idx val hi hv h0 h2 hin
    have hc : ¬ (idx < 0 ∨ to_size_t idx ≥ bytes.length) := by
      unfold to_size_t
      omega
    have hts : to_size_t idx = idx.toNat := by
      unfold to_size_t
      omega
    have hw : wrapU 8 val = val % 256 := by
      unfold wrapU
      norm_num
    refine ⟨_, hok { vm.fetched with
        heap := vm.fetched.heap.set t (.nbarray (bytes.set idx.toNat (val % 256).toNat)) }
      ?_ (by simp [VM.fetched, VM.with_frame]), rfl, ?_, ?_⟩
    · rw [hi, hv]
      rw [hts] at hc
      simp only [aset_obj, bind_apply, get_vm, hb1, deref, pure_apply, hts, hw, hc, if_false,
        set_obj]
    · simp [VM.fetched, VM.with_frame]
    · show (vm.fetched.heap.set t _)[t]? = _
      rw [e8, List.getElem?_set_self hlt]

theorem aset_nbarray_stores_truncated_value_witness :
    ((c18_state 3).at_op c18_main .ASET [] ∧ 4 ≤ (c18_state 3).stack_top ∧
      (c18_state 3).stack ((c18_state 3).stack_top - 1) = .obj 0 ∧
      (c18_state 3).heap[0]? = some (.nbarray [7, 7, 7, 7]) ∧
      (c18_state 3).stack ((c18_state 3).stack_top - 2) = .int 1 ∧
      (c18_state 3).stack ((c18_state 3).stack_top - 3) = .int 256 ∧
      (step (c18_state 3)).vm.heap[0]? = some (.nbarray [7, 0, 7, 7])) ∧
    (
    ((∀ idx, (c18_state 3).stack ((c18_state 3).stack_top - 2) ≠ .int idx) →
      (step (c18_state 3)).is_error ∧
      (step (c18_state 3)).vm.stderr = (c18_state 3).stderr ++ ["Runtime error: Expect index value of type 'int'"]) ∧
    (∀ idx, (c18_state 3).stack ((c18_state 3).stack_top - 2) = .int idx →
      (∀ val, (c18_state 3).stack ((c18_state 3).stack_top - 3) ≠ .int val) →
      (step (c18_state 3)).is_error ∧
      (step (c18_state 3)).vm.stderr
        = (c18_state 3).stderr ++ ["Runtime error: Expect assignment value of type 'int'"]) ∧
    (∀ idx val, (c18_state 3).stack ((c18_state 3).stack_top - 2) = .int idx →
      (c18_state 3).stack ((c18_state 3).stack_top - 3) = .int val → -2 ^ 63 ≤ idx → idx < 2 ^ 63 →
      (idx < 0 ∨ ([7, 7, 7, 7].length : Int) ≤ idx) →
      (step (c18_state 3)).is_error ∧
      (step (c18_state 3)).vm.stderr = (c18_state 3).stderr ++ ["Runtime error: Index out of bounds"]) ∧
    (∀ idx val, (c18_state 3).stack ((c18_state 3).stack_top - 2) = .int idx →
      (c18_state 3).stack ((c18_state 3).stack_top - 3) = .int val → 0 ≤ idx → idx < 2 ^ 63 →
      idx < ([7, 7, 7, 7].length : Int) →
      ∃ vm1, step (c18_state 3) = .running vm1 ∧ vm1.stack_top = (c18_state 3).stack_top - 2 ∧
        vm1.stack = (c18_state 3).stack ∧
        vm1.heap[0]? = some (.nbarray ([7, 7, 7, 7].set idx.toNat (val % 256).toNat)))) :=
  have hat : (c18_state 3).at_op c18_main .ASET [] :=
    at_op_intro _ _ _ _ (by decide!) 0 (by decide!) (by decide!) (by decide!) (by decide!)
  ⟨⟨hat, by decide!, by decide!, by decide!, by decide!, by decide!, by decide!⟩,
    aset_nbarray_stores_truncated_value (c18_state 3) c18_main hat (by decide!) 0 [7, 7, 7, 7]
      (by decide!) (by decide!)⟩

/-! ## `RSET` -/

theorem map_update_keys (table : List (String × Value)) (key : String) (v : Value) :
    (table.map (fun kv => if kv.1 = key then (kv.1, v) else kv)).map Prod.fst
      = table.map Prod.fst := by
  induction table with
  | nil => rfl
  | cons x xs ih =>
    simp only [List.map_cons, ih, List.cons.injEq, and_true]
    split <;> rfl

theorem map_update_lookup (table : List (String × Value)) (key : String) (v : Value)
    (k : String) :
    (table.map (fun kv => if kv.1 = key then (kv.1, v) else kv)).lookup k
      = if k = key then (table.lookup k).map (fun _ => v) else table.lookup k := by
  induction table with
  | nil => simp [List.lookup]
  | cons x xs ih =>
    rw [List.map_cons]
    by_cases hx : x.1 = key
    · simp only [hx, if_true]
      by_cases hk : k = key
      · subst hk
        subst hx
        simp [List.lookup]
      · have e : (k == key) = false := by simpa using hk
        have e2 : (k == x.1) = false := by rw [hx]; exact e
        rw [List.lookup_cons, List.lookup_cons, e, e2, ih]
    · simp only [hx, if_false]
      by_cases hk : k == x.1
      · have e : k = x.1 := by simpa using hk
        have e3 : ¬ x.1 = key := hx
        simp [List.lookup, e, e3]
      · have e2 : (k == x.1) = false := by simpa using hk
        rw [List.lookup_cons, List.lookup_cons, e2, ih]

/-- C19: `RSET` with a record on top of the stack and the assigned value below
it. The instruction raises the runtime error "Failed to update record:
attribute '...' does not exist" iff the key is not an attribute of the record,
which is always the case for a record created with no attributes. Otherwise
the record is popped and the record's attributes are the same keys in the
same order, with the assigned value under the key and every other value
unchanged; no other object changes. -/
theorem rset_updates_existing_attribute_only (vm : VM) (f : Fn) (b0 b1 : Nat)
    (h : vm.at_op f .RSET [b0, b1]) (md : Module) (hmod : vm.modules[f.module]? = some md)
    (key : String) (hs : md.strings[to_size_t (compose_i16 b0 b1)]? = some key)
    (htop : 2 ≤ vm.stack_top) (r : Nat) (ht : vm.stack (vm.stack_top - 1) = .obj r)
    (attrs : Option (List (String × Value))) (hr : vm.heap[r]? = some (.record attrs)) :
    ((step vm).is_error ↔ attrs.bind (fun table => table.lookup key) = none) ∧
    (attrs.bind (fun table => table.lookup key) = none →
      (step vm).vm.stderr = vm.stderr ++
        ["Runtime error: " ++
          ("Failed to update record: attribute '" ++ key ++ "' does not exist")]) ∧
    (attrs = none → (step vm).is_error) ∧
    (∀ table old, attrs = some table → table.lookup key = some old →
      ∃ vm1 table1, step vm = .running vm1 ∧ vm1.stack_top = vm.stack_top - 1 ∧
        vm1.stack = vm.stack ∧
        vm1.heap[r]? = some (.record (some table1)) ∧
        table1.map Prod.fst = table.map Prod.fst ∧
        table1.lookup key = some (vm.stack (vm.stack_top - 2)) ∧
        (∀ k, k ≠ key → table1.lookup k = table.lookup k) ∧
        (∀ (i : Nat), i ≠ r → vm1.heap[i]? = vm.heap[i]?)) := by
  obtain ⟨chunk, hd, he⟩ := dispatch_at h
  obtain ⟨c0, c1⟩ := operands2 h
  have hrn := fetched_runs h.1
  have rd := read_str_at hrn b0 b1 c0 c1 md
    (by simpa [VM.fetched, VM.with_frame] using hmod) key hs
  generalize hR : vm.fetched.set_ip (vm.fetched.frame.ip + 2) = vmR at rd
  have e0 : vmR.stack_top = vm.stack_top := by
    rw [← hR]; simp [VM.fetched, VM.set_ip, VM.with_frame]
  have e1 : vmR.stack = vm.stack := by
    rw [← hR]; simp [VM.fetched, VM.set_ip, VM.with_frame]
  have e3 : vmR.stderr = vm.stderr := by
    rw [← hR]; simp [VM.fetched, VM.set_ip, VM.with_frame]
  have e8 : vmR.heap = vm.heap := by
    rw [← hR]; simp [VM.fetched, VM.set_ip, VM.with_frame]
  have hlt : r < vm.heap.length := by
    by_contra hn
    rw [List.getElem?_eq_none (Nat.le_of_not_lt hn)] at hr
    cases hr
  have q0 := pop_ok vmR (by omega)
  have t0 : vmR.stack_top - 1 ≠ 0 := by omega
  have pk : peek { vmR with stack_top := vmR.stack_top - 1 }
      = .ok (vmR.stack (vmR.stack_top - 1 - 1)) { vmR with stack_top := vmR.stack_top - 1 } := by
    simp only [peek, t0, if_false]
  have s0 : vmR.stack (vmR.stack_top - 1) = .obj r := by rw [e0, e1]; exact ht
  have hr1 : vmR.heap[r]? = some (.record attrs) := by rw [e8]; exact hr
  have hrec : is_value_record { vmR with stack_top := vmR.stack_top - 1 } (.obj r) = true := by
    simp only [is_value_record, value_obj, hr1]
  have hr2 : ({ vmR with stack_top := vmR.stack_top - 1 } : VM).heap[r]?
      = some (.record attrs) := hr1
  have hA : attrs.bind (fun table => table.lookup key) = none →
      step vm = .halted ERR_VMRESULT { vmR with
        stack_top := vmR.stack_top - 1, exit_code := ERR_VMRESULT,
        stderr := vmR.stderr ++ ["Runtime error: " ++
          ("Failed to update record: attribute '" ++ key ++ "' does not exist")] } := by
    intro hn
    have hset : vmu_record_set_attr key (vmR.stack (vmR.stack_top - 1 - 1)) r
        { vmR with stack_top := vmR.stack_top - 1 }
        = vmu_error ("Failed to update record: attribute '" ++ key ++ "' does not exist")
          { vmR with stack_top := vmR.stack_top - 1 } := by
      cases attrs with
      | none => simp only [vmu_record_set_attr, bind_apply, get_vm, hr2]
      | some table =>
        have hn2 : table.lookup key = none := by simpa using hn
        simp only [vmu_record_set_attr, bind_apply, get_vm, hr2, hn2, Option.isSome_none,
          Bool.false_eq_true, if_false]
    simp only [vmu_error] at hset
    simp only [step, he, dispatch, hd, op_rset, bind_apply, rd, q0, s0, pk, get_vm, hrec,
      Bool.not_true, Bool.false_eq_true, if_false, pure_apply, value_to_obj, hset, after_longjmp]
  have hB : ∀ table old, attrs = some table → table.lookup key = some old →
      step vm = .running { vmR with
        stack_top := vmR.stack_top - 1,
        heap := vmR.heap.set r (.record (some (table.map (fun kv =>
          if kv.1 = key then (kv.1, vmR.stack (vmR.stack_top - 1 - 1)) else kv)))) } := by
    intro table old hat hlk
    subst hat
    have hset : vmu_record_set_attr key (vmR.stack (vmR.stack_top - 1 - 1)) r
        { vmR with stack_top := vmR.stack_top - 1 }
        = .ok () { vmR with
            stack_top := vmR.stack_top - 1,
            heap := vmR.heap.set r (.record (some (table.map (fun kv =>
              if kv.1 = key then (kv.1, vmR.stack (vmR.stack_top - 1 - 1)) else kv)))) } := by
      simp only [vmu_record_set_attr, bind_apply, get_vm, hr2, hlk, Option.isSome_some, if_true,
        set_obj]
    simp only [step, he, dispatch, hd, op_rset, bind_apply, rd, q0, s0, pk, get_vm, hrec,
      Bool.not_true, Bool.false_eq_true, if_false, pure_apply, value_to_obj, hset]
  refine ⟨⟨?_, ?_⟩, ?_, ?_, ?_⟩
  · intro herr
    cases hb : attrs.bind (fun table => table.lookup key) with
    | none => rfl
    | some old =>
      cases attrs with
      | none => cases hb
      | some table =>
        rw [hB table old rfl hb] at herr
        exact herr.elim
  · intro hn
    rw [hA hn]
    rfl
  · intro hn
    rw [hA hn]
    show vmR.stderr ++ _ = _
    rw [e3]
  · intro hn
    rw [hA (by rw [hn]; rfl)]
    rfl
  · intro table old hat hlk
    refine ⟨_, table.map (fun kv =>
        if kv.1 = key then (kv.1, vmR.stack (vmR.stack_top - 1 - 1)) else kv),
      hB table old hat hlk, ?_, e1, ?_, map_update_keys _ _ _, ?_, ?_, ?_⟩
    · show vmR.stack_top - 1 = _
      rw [e0]
    · show (vmR.heap.set r _)[r]? = _
      rw [e8, List.getElem?_set_self hlt]
    · rw [map_update_lookup, if_pos rfl, hlk, e0, e1,
        show vm.stack_top - 1 - 1 = vm.stack_top - 2 by omega]
      rfl
    · intro k hk
      rw [map_update_lookup, if_neg hk]
    · intro i hi
      show (vmR.heap.set r _)[i]? = _
      rw [e8, List.getElem?_set_ne (Ne.symm hi)]

theorem rset_updates_existing_attribute_only_witness :
    ((c19_state 2).at_op c19_main .RSET [0, 1] ∧
      (c19_state 2).modules[c19_main.module]? = some { c19_module with resolved := true } ∧
      c19_module.strings[to_size_t (compose_i16 0 1)]? = some "msg" ∧
      2 ≤ (c19_state 2).stack_top ∧
      (c19_state 2).stack ((c19_state 2).stack_top - 1) = .obj 0 ∧
      (c19_state 2).stack ((c19_state 2).stack_top - 2) = .int 7 ∧
      (c19_state 2).heap[0]? = some (.record (some [("msg", .int 5), ("code", .int 1)])) ∧
      (step (c19_state 2)).vm.heap[0]?
        = some (.record (some [("msg", .int 7), ("code", .int 1)]))) ∧
    (
    ((step (c19_state 2)).is_error ↔ (some [("msg", Value.int 5), ("code", Value.int 1)]).bind (fun table => table.lookup "msg") = none) ∧
    ((some [("msg", Value.int 5), ("code", Value.int 1)]).bind (fun table => table.lookup "msg") = none →
      (step (c19_state 2)).vm.stderr = (c19_state 2).stderr ++
        ["Runtime error: " ++
          ("Failed to update record: attribute '" ++ "msg" ++ "' does not exist")]) ∧
    ((some [("msg", Value.int 5), ("code", Value.int 1)]) = none → (step (c19_state 2)).is_error) ∧
    (∀ table old, (some [("msg", Value.int 5), ("code", Value.int 1)]) = some table → table.lookup "msg" = some old →
      ∃ vm1 table1, step (c19_state 2) = .running vm1 ∧ vm1.stack_top = (c19_state 2).stack_top - 1 ∧
        vm1.stack = (c19_state 2).stack ∧
        vm1.heap[0]? = some (.record (some table1)) ∧
        table1.map Prod.fst = table.map Prod.fst ∧
        table1.lookup "msg" = some ((c19_state 2).stack ((c19_state 2).stack_top - 2)) ∧
        (∀ k, k ≠ "msg" → table1.lookup k = table.lookup k) ∧
        (∀ (i : Nat), i ≠ 0 → vm1.heap[i]? = (c19_state 2).heap[i]?))) :=
  have hat : (c19_state 2).at_op c19_main .RSET [0, 1] :=
    at_op_intro _ _ _ _ (by decide!) 0 (by decide!) (by decide!) (by decide!) (by decide!)
  have hmod : (c19_state 2).modules[c19_main.module]?
      = some { c19_module with resolved := true } := by decide!
  ⟨⟨hat, hmod, by decide!, by decide!, by decide!, by decide!, by decide!, by decide!⟩,
    rset_updates_existing_attribute_only (c19_state 2) c19_main 0 1 hat
      { c19_module with resolved := true } hmod "msg" (by decide!) (by decide!) 0 (by decide!)
      (some [("msg", .int 5), ("code", .int 1)]) (by decide!)⟩

/-! ## `ACCESS` on a module -/

/-- C20 as the code has it: `ACCESS` with a module object on top of the stack.
When the module has no global under the key, and when the global is private,
the handler calls `vmu_error`: the message is printed and `vm_execute` returns
`ERR_VMRESULT`, whether or not a try block is open (the exception stack is
not consulted), so no catch block runs. When the global is not private its
value replaces the module on the stack. -/
theorem access_private_global_ends_program (vm : VM) (f : Fn) (b0 b1 : Nat)
    (h : vm.at_op f .ACCESS [b0, b1]) (md : Module) (hmod : vm.modules[f.module]? = some md)
    (key : String) (hs : md.strings[to_size_t (compose_i16 b0 b1)]? = some key)
    (htop : 1 ≤ vm.stack_top) (hmax : vm.stack_top ≤ STACK_LENGTH) (t : Nat)
    (ht : vm.stack (vm.stack_top - 1) = .obj t) (mi : Nat)
    (hobj : vm.heap[t]? = some (.module mi)) (m : Module) (hm : vm.modules[mi]? = some m) :
    (m.globals.lookup key = none →
      (step vm).is_error ∧
      (step vm).vm.stderr = vm.stderr ++
        ["Runtime error: " ++ ("Module '" ++ m.name ++ "' do not have '" ++ key ++ "' symbol")]) ∧
    (∀ gv, m.globals.lookup key = some gv → gv.access = .PRIVATE →
      (step vm).is_error ∧
      (step vm).vm.stderr = vm.stderr ++
        ["Runtime error: " ++ ("Symbol '" ++ key ++ "' in module '" ++ m.name ++ "' is private")]) ∧
    (∀ gv, m.globals.lookup key = some gv → gv.access ≠ .PRIVATE →
      ∃ vm1, step vm = .running vm1 ∧ vm1.stack_top = vm.stack_top ∧
        vm1.stack (vm.stack_top - 1) = gv.value ∧ vm1.exception_stack = vm.exception_stack) := by
  obtain ⟨chunk, hd, he⟩ := dispatch_at h
  obtain ⟨c0, c1⟩ := operands2 h
  have hrn := fetched_runs h.1
  have rd := read_str_at hrn b0 b1 c0 c1 md
    (by simpa [VM.fetched, VM.with_frame] using hmod) key hs
  have f0 : vm.fetched.stack_top = vm.stack_top := by simp [VM.fetched, VM.with_frame]
  have f1 : vm.fetched.stack = vm.stack := by simp [VM.fetched, VM.with_frame]
  generalize hR : vm.fetched.set_ip (vm.fetched.frame.ip + 2) = vmR at rd
  have e0 : vmR.stack_top = vm.stack_top := by
    rw [← hR]; simp [VM.fetched, VM.set_ip, VM.with_frame]
  have e1 : vmR.stack = vm.stack := by
    rw [← hR]; simp [VM.fetched, VM.set_ip, VM.with_frame]
  have e3 : vmR.stderr = vm.stderr := by
    rw [← hR]; simp [VM.fetched, VM.set_ip, VM.with_frame]
  have e8 : vmR.heap = vm.heap := by
    rw [← hR]; simp [VM.fetched, VM.set_ip, VM.with_frame]
  have e9 : vmR.modules = vm.modules := by
    rw [← hR]; simp [VM.fetched, VM.set_ip, VM.with_frame]
  have e10 : vmR.exception_stack = vm.exception_stack := by
    rw [← hR]; simp [VM.fetched, VM.set_ip, VM.with_frame]
  have t0 : vm.fetched.stack_top ≠ 0 := by rw [f0]; omega
  have pk : peek vm.fetched = .ok (.obj t) vm.fetched := by
    have t1 : ¬ vm.stack_top = 0 := by omega
    simp only [peek, f0, f1, ht, t1, if_false]
  have hobj1 : vmR.heap[t]? = some (.module mi) := by rw [e8]; exact hobj
  have hm1 : vmR.modules[mi]? = some m := by rw [e9]; exact hm
  have q0 := pop_ok vmR (by omega)
  refine ⟨?_, ?_, ?_⟩
  · intro hn
    have hstep : step vm = .halted ERR_VMRESULT { vmR with
        exit_code := ERR_VMRESULT,
        stderr := vmR.stderr ++ ["Runtime error: " ++
          ("Module '" ++ m.name ++ "' do not have '" ++ key ++ "' symbol")] } := by
      simp only [step, he, dispatch, hd, op_access, bind_apply, pk, rd, get_vm, hobj1, deref,
        hm1, hn, vmu_error, after_longjmp]
    rw [hstep]
    exact ⟨rfl, by rw [← e3]; rfl⟩
  · intro gv hg hp
    have hstep : step vm = .halted ERR_VMRESULT { vmR with
        exit_code := ERR_VMRESULT,
        stderr := vmR.stderr ++ ["Runtime error: " ++
          ("Symbol '" ++ key ++ "' in module '" ++ m.name ++ "' is private")] } := by
      simp only [step, he, dispatch, hd, op_access, bind_apply, pk, rd, get_vm, hobj1, deref,
        hm1, hg, hp, if_true, vmu_error, after_longjmp]
    rw [hstep]
    exact ⟨rfl, by rw [← e3]; rfl⟩
  · intro gv hg hp
    have q2 := push_ok { vmR with stack_top := vmR.stack_top - 1 } gv.value
      (by show vmR.stack_top - 1 < STACK_LENGTH; omega)
    refine ⟨{ vmR with
      stack := Function.update vmR.stack (vmR.stack_top - 1) gv.value,
      stack_top := vmR.stack_top - 1 + 1 }, ?_, ?_, ?_, ?_⟩
    · simp only [step, he, dispatch, hd, op_access, bind_apply, pk, rd, get_vm, hobj1, deref,
        hm1, hg, hp, if_false, pure_apply, q0, q2]
    · show vmR.stack_top - 1 + 1 = _
      omega
    · show Function.update vmR.stack (vmR.stack_top - 1) _ (vm.stack_top - 1) = _
      rw [e0, Function.update_same]
    · exact e10

theorem access_private_global_ends_program_witness :
    ((s5_export_last_state 13).at_op s5_main .ACCESS [0, 2] ∧
      (s5_export_last_state 13).modules[s5_main.module]?
        = some { s5_main_module with resolved := true } ∧
      s5_main_module.strings[to_size_t (compose_i16 0 2)]? = some "hidden" ∧
      1 ≤ (s5_export_last_state 13).stack_top ∧
      (s5_export_last_state 13).stack_top ≤ STACK_LENGTH ∧
      (s5_export_last_state 13).stack ((s5_export_last_state 13).stack_top - 1) = .obj 0 ∧
      (s5_export_last_state 13).heap[0]? = some (.module 1) ∧
      (s5_export_last_state 13).modules[1]? = some s5_a_module_exported ∧
      s5_a_module_exported.globals.lookup "hidden"
        = some { access := .PRIVATE, value := .int 1 }) ∧
    (
    (s5_a_module_exported.globals.lookup "hidden" = none →
      (step (s5_export_last_state 13)).is_error ∧
      (step (s5_export_last_state 13)).vm.stderr = (s5_export_last_state 13).stderr ++
        ["Runtime error: " ++ ("Module '" ++ s5_a_module_exported.name ++ "' do not have '" ++ "hidden" ++ "' symbol")]) ∧
    (∀ gv, s5_a_module_exported.globals.lookup "hidden" = some gv → gv.access = .PRIVATE →
      (step (s5_export_last_state 13)).is_error ∧
      (step (s5_export_last_state 13)).vm.stderr = (s5_export_last_state 13).stderr ++
        ["Runtime error: " ++ ("Symbol '" ++ "hidden" ++ "' in module '" ++ s5_a_module_exported.name ++ "' is private")]) ∧
    (∀ gv, s5_a_module_exported.globals.lookup "hidden" = some gv → gv.access ≠ .PRIVATE →
      ∃ vm1, step (s5_export_last_state 13) = .running vm1 ∧
        vm1.stack_top = (s5_export_last_state 13).stack_top ∧
        vm1.stack ((s5_export_last_state 13).stack_top - 1) = gv.value ∧
        vm1.exception_stack = (s5_export_last_state 13).exception_stack)) :=
  have hat : (s5_export_last_state 13).at_op s5_main .ACCESS [0, 2] :=
    at_op_intro _ _ _ _ (by decide!) 0 (by decide!) (by decide!) (by decide!) (by decide!)
  have hmod : (s5_export_last_state 13).modules[s5_main.module]?
      = some { s5_main_module with resolved := true } := by decide!
  ⟨⟨hat, hmod, by decide!, by decide!, by decide!, by decide!, by decide!, by decide!,
      by decide!⟩,
    access_private_global_ends_program (s5_export_last_state 13) s5_main 0 2 hat
      { s5_main_module with resolved := true } hmod "hidden" (by decide!) (by decide!)
      (by decide!) 0 (by decide!) 1 (by decide!) s5_a_module_exported (by decide!)⟩

/-- C20 as stated fails. S5 as written does not reach the access: the entry
function compiled from `a.ze` ends the program at its export statement, in
frame 2 at the `GASET` of offset 6, with "Global symbol 'shared' does not
exists", before `main.ze` reads anything of module `a`. With the export
statement of `a.ze` after the declarations, the entry function compiled from
`a.ze` runs from the uninitialised module to its end, the public `a.shared`
evaluates to 42, and the access `a.hidden` executes inside the try block, with
the exception frame of `TRYO` on the exception stack: it ends the program with
the runtime error "Symbol 'hidden' in module 'a' is private"; the catch block
at offset 21 is not entered: with 14 and with 100 instructions granted,
`vm_execute` has returned `ERR_VMRESULT`. -/
theorem private_access_in_try_ends_program :
    (compiler.compiled (compiler.compile_entry "import entry" s5_a_source 1 c10_compiler)
        = s5_a_compiled_entry ∧
      (s5_compiled_outcome 3).is_running ∧
      (s5_compiled_outcome 3).vm.at_op s5_a_compiled_entry .GASET [0, 1, 1] ∧
      (s5_compiled_outcome 4).is_error ∧ (s5_compiled_outcome 100).is_error ∧
      (s5_compiled_outcome 100).vm.stderr
        = ["Runtime error: Global symbol 'shared' does not exists"]) ∧
    (compiler.compiled
        (compiler.compile_entry "import entry" s5_a_source_export_last 1 c10_compiler)
        = s5_a_entry_export_last ∧
      (s5_export_last_outcome 13).is_running ∧
      (s5_export_last_state 10).top 1 = [.int 42] ∧
      (s5_export_last_state 13).at_op s5_main .ACCESS [0, 2] ∧
      (s5_export_last_state 13).modules[1]? = some s5_a_module_exported ∧
      (s5_export_last_state 13).exception_stack.map (fun e => e.catch_ip) = [21] ∧
      (s5_export_last_state 13).top 1 = [.obj 0] ∧
      (s5_export_last_state 13).heap[0]? = some (.module 1) ∧
      (step (s5_export_last_state 13)).is_error ∧
      (step (s5_export_last_state 13)).vm.stderr
        = ["Runtime error: Symbol 'hidden' in module 'a' is private"] ∧
      (s5_export_last_outcome 14).is_error ∧ (s5_export_last_outcome 100).is_error ∧
      (s5_export_last_outcome 100).vm.stderr
        = ["Runtime error: Symbol 'hidden' in module 'a' is private"]) :=
  ⟨⟨by decide!, by decide!,
      at_op_intro _ _ _ _ (by decide!) 1 (by decide!) (by decide!) (by decide!) (by decide!),
      by decide!⟩,
    by decide!, by decide!, by decide!,
    at_op_intro _ _ _ _ (by decide!) 0 (by decide!) (by decide!) (by decide!) (by decide!),
    by decide!⟩

/-! ## The allocation hook -/

theorem to_size_t_sub (a b : Nat) (hb : b ≤ a) (ha : a < 2 ^ 64) :
    to_size_t ((a : Int) - b) = a - b := by
  unfold to_size_t
  have h1 : ((a : Int) - b) = ((a - b : Nat) : Int) := by omega
  rw [h1]
  have h2 : (((a - b : Nat) : Int) % (2 : Int) ^ 64) = ((a - b : Nat) : Int) := by
    apply Int.emod_eq_of_lt <;> omega
  rw [h2]
  simp

theorem to_size_t_add (a b : Nat) (h : a + b < 2 ^ 64) :
    to_size_t ((a : Int) + b) = a + b := by
  unfold to_size_t
  have h2 : (((a : Int) + b) % (2 : Int) ^ 64) = ((a + b : Nat) : Int) := by
    rw [Int.emod_eq_of_lt] <;> omega
  rw [h2]
  omega

theorem gc_release_spec (released : List Nat) :
    ∀ a : Accounting, released.sum ≤ a.allocated_bytes → released.sum ≤ a.live_bytes →
      a.allocated_bytes < 2 ^ 64 →
      (gc_release released a).allocated_bytes = a.allocated_bytes - released.sum ∧
      (gc_release released a).live_bytes = a.live_bytes - released.sum := by
  induction released with
  | nil => intro a _ _ _; simp [gc_release]
  | cons size rest ih =>
    intro a h1 h2 h3
    simp only [List.sum_cons] at h1 h2
    have e : gc_release (size :: rest) a = gc_release rest (vm_dealloc size a) := by
      simp [gc_release]
    have d1 : (vm_dealloc size a).allocated_bytes = a.allocated_bytes - size := by
      simp only [vm_dealloc]
      exact to_size_t_sub _ _ (by omega) h3
    have d2 : (vm_dealloc size a).live_bytes = a.live_bytes - size := by
      simp only [vm_dealloc]
    obtain ⟨i1, i2⟩ := ih (vm_dealloc size a) (by rw [d1]; omega) (by rw [d2]; omega)
      (by rw [d1]; omega)
    rw [e, i1, i2, d1, d2, List.sum_cons]
    omega

/-- C26 on the code. Start from an accounting in which `allocated_bytes` is the
sum of the sizes of the live blocks. `vm_dealloc` keeps the two equal, and so
does a `vm_alloc` that triggers no collection. A `vm_alloc` that triggers a
collection stores the `new_allocated_bytes` it computed before the collection:
the bytes the collection released through `vm_dealloc` are counted again, and
`allocated_bytes` ends above the sum of the sizes of the live blocks by exactly
the bytes released. -/
theorem vm_alloc_after_collection_counts_released_bytes (size : Nat) (released : List Nat)
    (a : Accounting) (h0 : a.allocated_bytes = a.live_bytes)
    (hsum : released.sum ≤ a.live_bytes) (hno : a.allocated_bytes + size < 2 ^ 64) :
    (size ≤ a.live_bytes →
      (vm_dealloc size a).allocated_bytes = (vm_dealloc size a).live_bytes) ∧
    (a.allocated_bytes + size < a.allocation_limit_size →
      ∃ a1, vm_alloc size released true a = some a1 ∧ a1.allocated_bytes = a1.live_bytes) ∧
    (a.allocation_limit_size ≤ a.allocated_bytes + size →
      ∃ a1, vm_alloc size released true a = some a1 ∧
        a1.allocated_bytes = a1.live_bytes + released.sum) := by
  have hadd := to_size_t_add a.allocated_bytes size hno
  refine ⟨?_, ?_, ?_⟩
  · intro hs
    simp only [vm_dealloc]
    rw [to_size_t_sub _ _ (by omega) (by omega), h0]
  · intro hlt
    refine ⟨_, rfl, ?_⟩
    simp only [ge_iff_le, hadd]
    rw [if_neg (by omega)]
    show a.allocated_bytes + size = a.live_bytes + size
    rw [h0]
  · intro hge
    obtain ⟨i1, i2⟩ := gc_release_spec released a (by omega) hsum (by omega)
    refine ⟨_, rfl, ?_⟩
    simp only [ge_iff_le, hadd]
    rw [if_pos hge]
    by_cases hf : to_size_t (((gc_release released a).allocated_bytes : Int)
        - (a.allocated_bytes : Int)) < size
    · rw [if_pos hf]
      show a.allocated_bytes + size = (gc_release released a).live_bytes + size + released.sum
      rw [i2]
      omega
    · rw [if_neg hf]
      show a.allocated_bytes + size = (gc_release released a).live_bytes + size + released.sum
      rw [i2]
      omega

theorem vm_alloc_after_collection_counts_released_bytes_witness :
    (c26_accounting.allocated_bytes = c26_accounting.live_bytes ∧
      [4096, 32].sum ≤ c26_accounting.live_bytes ∧
      c26_accounting.allocated_bytes + 64 < 2 ^ 64) ∧
    ((64 ≤ c26_accounting.live_bytes →
      (vm_dealloc 64 c26_accounting).allocated_bytes
        = (vm_dealloc 64 c26_accounting).live_bytes) ∧
    (c26_accounting.allocated_bytes + 64 < c26_accounting.allocation_limit_size →
      ∃ a1, vm_alloc 64 [4096, 32] true c26_accounting = some a1 ∧
        a1.allocated_bytes = a1.live_bytes) ∧
    (c26_accounting.allocation_limit_size ≤ c26_accounting.allocated_bytes + 64 →
      ∃ a1, vm_alloc 64 [4096, 32] true c26_accounting = some a1 ∧
        a1.allocated_bytes = a1.live_bytes + [4096, 32].sum)) :=
  ⟨⟨by decide, by decide, by decide⟩,
    vm_alloc_after_collection_counts_released_bytes 64 [4096, 32] c26_accounting
      (by decide) (by decide) (by decide)⟩

/-! ## Import resolution -/

theorem resolve_loop_spec (fs : Files) (names : List String) (module_name : String)
    (sps : List String) (hsps : ∀ sp ∈ sps, sp ≠ "") :
    ∀ (turns : Nat) (sp : String) (i : Nat), i ≤ sps.length → turns + i = sps.length + 1 →
      sp ≠ "" →
      resolve_loop fs (target_pathname names) module_name sps turns (some sp) i =
        match (sp :: sps.drop i).find?
            (fun s => fs.utils_files_exists (candidate_pathname s (target_pathname names))) with
        | none => .error ("Module '" ++ module_name ++ "' not found")
        | some s =>
          (if fs.utils_files_is_directory (candidate_pathname s (target_pathname names)) then
            Resolved.error ("file with name '" ++ module_name ++ "' found at '" ++
              candidate_pathname s (target_pathname names) ++ "' but is a directory")
          else
            Resolved.ok (candidate_pathname s (target_pathname names))
              (add_new_search_path fs sps (candidate_pathname s (target_pathname names))).1
              (add_new_search_path fs sps (candidate_pathname s (target_pathname names))).2) := by
  intro turns
  induction turns with
  | zero => intro sp i hi ht; omega
  | succ turns ih =>
    intro sp i hi ht hsp
    have hd : ¬ sp.data = [] := by
      intro h
      apply hsp
      cases sp
      simp_all
    simp only [resolve_loop, hd, if_false]
    by_cases hex : fs.utils_files_exists (candidate_pathname sp (target_pathname names)) = true
    · simp only [hex, if_true, List.find?_cons_of_pos]
    · have hex2 : fs.utils_files_exists (candidate_pathname sp (target_pathname names)) = false := by
        simpa using hex
      simp only [hex2]
      rw [List.find?_cons_of_neg _ (by simp [hex2])]
      by_cases hlt : i < sps.length
      · have hget : sps[i]? = some sps[i] := List.getElem?_eq_getElem hlt
        have hdrop : sps.drop i = sps[i] :: sps.drop (i + 1) := List.drop_eq_getElem_cons hlt
        simp only [Bool.false_eq_true, if_false, hlt, if_true]
        rw [hget, ih sps[i] (i + 1) (by omega) (by omega) (hsps _ (List.getElem_mem hlt)), hdrop]
      · have hdrop : sps.drop i = [] := List.drop_eq_nil_of_le (by omega)
        simp only [Bool.false_eq_true, if_false, hlt, hdrop, List.find?_nil]

/-- C28 as the code has it. For import names `n1..nk` (at least one) and
non-empty search paths, `resolve_import_names` looks for `n1/.../nk.ze` under
the main search path and then under the additional search paths in list order,
and stops at the first under which `utils_files_exists` holds. When there is
none it raises "Module '<nk>' not found". When there is one and the pathname
found is a directory it raises "file with name '<nk>' found at '<pathname>'
but is a directory", without looking at the search paths after it; otherwise
it returns the pathname found. -/
theorem resolve_import_names_first_search_path (fs : Files) (names : List String)
    (main_search_pathname : String) (search_pathnames : List String) (hn : names ≠ [])
    (hmain : main_search_pathname ≠ "") (hsps : ∀ sp ∈ search_pathnames, sp ≠ "") :
    ∃ module_name, names.getLast? = some module_name ∧
      resolve_import_names fs names main_search_pathname search_pathnames =
        match first_search_path_with_file fs (target_pathname names) main_search_pathname
            search_pathnames with
        | none => .error ("Module '" ++ module_name ++ "' not found")
        | some search_pathname =>
          if fs.utils_files_is_directory
              (candidate_pathname search_pathname (target_pathname names)) then
            .error ("file with name '" ++ module_name ++ "' found at '" ++
              candidate_pathname search_pathname (target_pathname names) ++
              "' but is a directory")
          else
            .ok (candidate_pathname search_pathname (target_pathname names))
              (add_new_search_path fs search_pathnames
                (candidate_pathname search_pathname (target_pathname names))).1
              (add_new_search_path fs search_pathnames
                (candidate_pathname search_pathname (target_pathname names))).2 := by
  obtain ⟨module_name, hm⟩ : ∃ m, names.getLast? = some m := by
    cases h : names.getLast? with
    | none => exact absurd (List.getLast?_eq_none_iff.mp h) hn
    | some m => exact ⟨m, rfl⟩
  refine ⟨module_name, hm, ?_⟩
  have h := resolve_loop_spec fs names module_name search_pathnames hsps
    (search_pathnames.length + 1) main_search_pathname 0 (by omega) (by omega) hmain
  simp only [resolve_import_names, hm, h, List.drop_zero, first_search_path_with_file]

theorem resolve_import_names_first_search_path_witness :
    (["net", "http"] ≠ [] ∧ "/app" ≠ "" ∧ ∀ sp ∈ ["/lib", "/opt/"], sp ≠ "") ∧
    ∃ module_name, ["net", "http"].getLast? = some module_name ∧
      resolve_import_names (files_of ["/opt/net/http.ze"] []) ["net", "http"] "/app"
          ["/lib", "/opt/"] =
        match first_search_path_with_file (files_of ["/opt/net/http.ze"] [])
            (target_pathname ["net", "http"]) "/app" ["/lib", "/opt/"] with
        | none => .error ("Module '" ++ module_name ++ "' not found")
        | some search_pathname =>
          if (files_of ["/opt/net/http.ze"] []).utils_files_is_directory
              (candidate_pathname search_pathname (target_pathname ["net", "http"])) then
            .error ("file with name '" ++ module_name ++ "' found at '" ++
              candidate_pathname search_pathname (target_pathname ["net", "http"]) ++
              "' but is a directory")
          else
            .ok (candidate_pathname search_pathname (target_pathname ["net", "http"]))
              (add_new_search_path (files_of ["/opt/net/http.ze"] []) ["/lib", "/opt/"]
                (candidate_pathname search_pathname (target_pathname ["net", "http"]))).1
              (add_new_search_path (files_of ["/opt/net/http.ze"] []) ["/lib", "/opt/"]
                (candidate_pathname search_pathname (target_pathname ["net", "http"]))).2 :=
  ⟨⟨by decide, by decide, by decide⟩,
    resolve_import_names_first_search_path (files_of ["/opt/net/http.ze"] []) ["net", "http"]
      "/app" ["/lib", "/opt/"] (by decide) (by decide) (by decide)⟩

/-- C28 as stated fails: `util.ze` exists as a file under the additional search
path `/lib`, so by the claim the import of `util` returns `/lib/util.ze`; under
the main search path `/app` the name `util.ze` is a directory, and
`resolve_import_names` raises the directory error there. -/
theorem resolve_import_names_stops_at_directory :
    (files_of ["/lib/util.ze", "/app/main.ze"] ["/app/util.ze", "/app", "/lib"]).utils_files_exists
        "/lib/util.ze" = true ∧
    (files_of ["/lib/util.ze", "/app/main.ze"]
        ["/app/util.ze", "/app", "/lib"]).utils_files_is_directory "/lib/util.ze" = false ∧
    resolve_import_names
        (files_of ["/lib/util.ze", "/app/main.ze"] ["/app/util.ze", "/app", "/lib"])
        ["util"] "/app" ["/lib"]
      = .error "file with name 'util' found at '/app/util.ze' but is a directory" := by
  decide

/-! ## Import of built-in native modules -/

theorem import_stmt_native_initialized (raylib : Bool) (name : String)
    (alt_name : Option String) (st : NativeImports) (hn : name ∈ native_module_names raylib)
    (hi : name ∈ st.initialized) :
    import_stmt_native raylib name alt_name st
      = some { st with module_symbols := st.module_symbols ++ [alt_name.getD name] } := by
  have e1 : import_native raylib name st = (1, st) := by
    simp [import_native, hn, hi]
  simp only [import_stmt_native, e1]

/-- C29 on the code. The import statement of a built-in native module by its
single name defines the module symbol in the scope manager of the module being
compiled. When the native module has not been initialized in this process it is
initialized, and the module being compiled gets a private global under the
name of the native module, bound to a new `NativeModuleObj`. When it has been
initialized before, `import_native` returns 1 without registering anything:
the module being compiled gets no global. So the same import statement in the
module compiled next, which starts without globals, leaves that module without
any global for the native module. -/
theorem import_native_registers_global_once (raylib : Bool) (name : String)
    (alt_name : Option String) (st : NativeImports) (hn : name ∈ native_module_names raylib) :
    ∃ st1, import_stmt_native raylib name alt_name st = some st1 ∧
      st1.module_symbols = st.module_symbols ++ [alt_name.getD name] ∧
      name ∈ st1.initialized ∧
      (name ∉ st.initialized →
        st1.initialized = st.initialized ++ [name] ∧
        st1.globals = st.globals ++ [(name, { access := .PRIVATE, value := .obj st.objs })]) ∧
      (name ∈ st.initialized →
        st1.initialized = st.initialized ∧ st1.globals = st.globals ∧ st1.objs = st.objs) ∧
      ∃ st2, import_stmt_native raylib name alt_name st1.next_module = some st2 ∧
        st2.module_symbols = [alt_name.getD name] ∧ st2.globals = [] ∧
        st2.initialized = st1.initialized := by
  have key : ∀ st1 : NativeImports, name ∈ st1.initialized →
      ∃ st2, import_stmt_native raylib name alt_name st1.next_module = some st2 ∧
        st2.module_symbols = [alt_name.getD name] ∧ st2.globals = [] ∧
        st2.initialized = st1.initialized := by
    intro st1 h1
    exact ⟨_, import_stmt_native_initialized raylib name alt_name st1.next_module hn h1,
      by simp [NativeImports.next_module], rfl, rfl⟩
  by_cases hi : name ∈ st.initialized
  · exact ⟨_, import_stmt_native_initialized raylib name alt_name st hn hi, rfl, hi,
      fun h => absurd hi h, fun _ => ⟨rfl, rfl, rfl⟩, key _ hi⟩
  · have e1 : import_native raylib name st = (1, { st with
        initialized := st.initialized ++ [name],
        globals := st.globals ++ [(name, { access := .PRIVATE, value := .obj st.objs })],
        objs := st.objs + 1 }) := by
      simp [import_native, hn, hi]
    have h1 : name ∈ st.initialized ++ [name] := by simp
    refine ⟨{ st with
        initialized := st.initialized ++ [name],
        globals := st.globals ++ [(name, { access := .PRIVATE, value := .obj st.objs })],
        objs := st.objs + 1,
        module_symbols := st.module_symbols ++ [alt_name.getD name] }, ?_, rfl, h1,
      fun _ => ⟨rfl, rfl⟩, fun h => absurd h hi, key _ h1⟩
    simp only [import_stmt_native, e1]

theorem import_native_registers_global_once_witness :
    "os" ∈ native_module_names false ∧
    ∃ st1, import_stmt_native false "os" none NativeImports.start = some st1 ∧
      st1.module_symbols = NativeImports.start.module_symbols ++ [(none : Option String).getD "os"] ∧
      "os" ∈ st1.initialized ∧
      ("os" ∉ NativeImports.start.initialized →
        st1.initialized = NativeImports.start.initialized ++ ["os"] ∧
        st1.globals = NativeImports.start.globals ++
          [("os", { access := .PRIVATE, value := .obj NativeImports.start.objs })]) ∧
      ("os" ∈ NativeImports.start.initialized →
        st1.initialized = NativeImports.start.initialized ∧
        st1.globals = NativeImports.start.globals ∧ st1.objs = NativeImports.start.objs) ∧
      ∃ st2, import_stmt_native false "os" none st1.next_module = some st2 ∧
        st2.module_symbols = [(none : Option String).getD "os"] ∧ st2.globals = [] ∧
        st2.initialized = st1.initialized :=
  ⟨by decide, import_native_registers_global_once false "os" none NativeImports.start (by decide)⟩

/-! ## `export` -/

theorem set_access_cons (key : String) (access : GlobalAccess) (k : String) (v : GlobalValue)
    (rest : List (String × GlobalValue)) :
    set_access key access ((k, v) :: rest)
      = (if k = key then (k, { v with access := access }) else (k, v))
        :: set_access key access rest := rfl

theorem set_access_lookup (key : String) (access : GlobalAccess) :
    ∀ (globals : List (String × GlobalValue)) (gv : GlobalValue),
      globals.lookup key = some gv →
      (set_access key access globals).lookup key = some { gv with access := access } := by
  intro globals
  induction globals with
  | nil => intro gv h; cases h
  | cons kv rest ih =>
    intro gv h
    obtain ⟨k, v⟩ := kv
    rw [set_access_cons]
    by_cases hk : k = key
    · subst hk
      have e : v = gv := by simpa [List.lookup] using h
      subst e
      rw [if_pos rfl]
      simp [List.lookup]
    · have hk2 : (key == k) = false := by
        simpa using fun e : key = k => hk e.symm
      have h2 : rest.lookup key = some gv := by simpa [List.lookup, hk2] using h
      rw [if_neg hk]
      simp only [List.lookup, hk2]
      exact ih gv h2

theorem set_access_lookup_ne (key : String) (access : GlobalAccess) (other : String)
    (hne : other ≠ key) :
    ∀ (globals : List (String × GlobalValue)),
      (set_access key access globals).lookup other = globals.lookup other := by
  intro globals
  induction globals with
  | nil => rfl
  | cons kv rest ih =>
    obtain ⟨k, v⟩ := kv
    rw [set_access_cons]
    by_cases hk : k = key
    · subst hk
      have hk2 : (other == k) = false := by simpa using hne
      rw [if_pos rfl]
      simp only [List.lookup, hk2]
      exact ih
    · rw [if_neg hk]
      simp only [List.lookup]
      split
      · rfl
      · exact ih

/-- C21 as the code has it: `GASET` with access type 1, the instruction an
export statement compiles to for each listed name, executed where the export
statement stands. When the current module has no global under the name (the
declaration has not been executed yet) the handler raises the runtime error
"Global symbol '<name>' does not exists" and `vm_execute` returns
`ERR_VMRESULT`. When the module has a global under the name that holds no
module, the global becomes public, keeps its value, and every other global is
left as it was. -/
theorem export_makes_defined_global_public (vm : VM) (f : Fn) (b0 b1 : Nat)
    (h : vm.at_op f .GASET [b0, b1, 1]) (md : Module)
    (hmod : vm.modules[f.module]? = some md) (key : String)
    (hs : md.strings[to_size_t (compose_i16 b0 b1)]? = some key) :
    (md.globals.lookup key = none →
      (step vm).is_error ∧
      (step vm).vm.stderr = vm.stderr ++
        ["Runtime error: " ++ ("Global symbol '" ++ key ++ "' does not exists")]) ∧
    (∀ gv, md.globals.lookup key = some gv → is_value_native_module vm gv.value = false →
      is_value_module vm gv.value = false →
      ∃ vm1 md1, step vm = .running vm1 ∧ vm1.modules[f.module]? = some md1 ∧
        md1.globals.lookup key = some { gv with access := .PUBLIC } ∧
        (∀ other, other ≠ key → md1.globals.lookup other = md.globals.lookup other) ∧
        vm1.stack_top = vm.stack_top) := by
  obtain ⟨chunk, hd, he⟩ := dispatch_at h
  have hrn := fetched_runs h.1
  obtain ⟨-, -, -, -, hops⟩ := h
  have c0 : f.chunks[vm.fetched.frame.ip]? = some b0 := by simpa using hops 0 (by simp)
  have c1 : f.chunks[vm.fetched.frame.ip + 1]? = some b1 := by
    simpa [Nat.add_assoc] using hops 1 (by simp)
  have c2 : f.chunks[vm.fetched.frame.ip + 2]? = some 1 := by
    simpa [Nat.add_assoc] using hops 2 (by simp)
  have hmodf : vm.fetched.modules[f.module]? = some md := by
    simpa [VM.fetched, VM.with_frame] using hmod
  have cm := current_module_at hrn hmodf
  have rd := read_str_at hrn b0 b1 c0 c1 md hmodf key hs
  have hrn2 := set_ip_runs hrn (vm.fetched.frame.ip + 2)
  have adv := advance_at hrn2 1 (by simpa using c2)
  generalize hR : vm.fetched.set_ip (vm.fetched.frame.ip + 2) = vmR at rd adv
  have e3 : vmR.stderr = vm.stderr := by
    rw [← hR]; simp [VM.fetched, VM.set_ip, VM.with_frame]
  have e8 : vmR.heap = vm.heap := by
    rw [← hR]; simp [VM.fetched, VM.set_ip, VM.with_frame]
  have e9 : vmR.modules = vm.modules := by
    rw [← hR]; simp [VM.fetched, VM.set_ip, VM.with_frame]
  have e0 : vmR.stack_top = vm.stack_top := by
    rw [← hR]; simp [VM.fetched, VM.set_ip, VM.with_frame]
  generalize hS : vmR.set_ip (vmR.frame.ip + 1) = vmS at adv
  have s8 : vmS.heap = vm.heap := by
    rw [← hS, ← e8]; simp [VM.set_ip]
  have s9 : vmS.modules = vm.modules := by
    rw [← hS, ← e9]; simp [VM.set_ip]
  have s0 : vmS.stack_top = vm.stack_top := by
    rw [← hS, ← e0]; simp [VM.set_ip]
  refine ⟨?_, ?_⟩
  · intro hn
    have hstep : step vm = .halted ERR_VMRESULT { vmR with
        exit_code := ERR_VMRESULT,
        stderr := vmR.stderr ++ ["Runtime error: " ++
          ("Global symbol '" ++ key ++ "' does not exists")] } := by
      simp only [step, he, dispatch, hd, op_gaset, bind_apply, cm, rd, hn, vmu_error,
        after_longjmp]
    rw [hstep]
    exact ⟨rfl, by rw [← e3]; rfl⟩
  · intro gv hg hnm hmo
    have n1 : is_value_native_module vmS gv.value = false := by
      rw [← hnm]; unfold is_value_native_module value_obj; rw [s8]
    have n2 : is_value_module vmS gv.value = false := by
      rw [← hmo]; unfold is_value_module value_obj; rw [s8]
    have sm : vmS.modules[f.module]? = some md := by rw [s9]; exact hmod
    have hlt : f.module < vmS.modules.length := by
      by_contra hc
      rw [List.getElem?_eq_none (by omega)] at sm
      cases sm
    have hstep : step vm = .running { vmS with
        modules := vmS.modules.set f.module
          ({ md with globals := set_access key .PUBLIC md.globals }) } := by
      simp only [step, he, dispatch, hd, op_gaset, bind_apply, cm, rd, hg, adv, get_vm, n1, n2,
        Bool.or_false, Bool.false_eq_true, if_false, OfNat.ofNat_ne_zero, one_ne_zero, if_true,
        set_globals, sm, pure_apply]
    refine ⟨_, { md with globals := set_access key .PUBLIC md.globals }, hstep, ?_, ?_, ?_, ?_⟩
    · show (vmS.modules.set f.module _)[f.module]? = _
      rw [List.getElem?_set_self hlt]
    · exact set_access_lookup key .PUBLIC md.globals gv hg
    · intro other hne
      exact set_access_lookup_ne key .PUBLIC other hne md.globals
    · exact s0


theorem export_makes_defined_global_public_witness :
    ((s5_export_last_state 5).at_op s5_a_entry_export_last .GASET [0, 2, 1] ∧
      (s5_export_last_state 5).modules[s5_a_entry_export_last.module]?
        = some s5_a_module_at_export ∧
      s5_a_module_at_export.strings[to_size_t (compose_i16 0 2)]? = some "shared") ∧
    (
    (s5_a_module_at_export.globals.lookup "shared" = none →
      (step (s5_export_last_state 5)).is_error ∧
      (step (s5_export_last_state 5)).vm.stderr = (s5_export_last_state 5).stderr ++
        ["Runtime error: " ++ ("Global symbol '" ++ "shared" ++ "' does not exists")]) ∧
    (∀ gv, s5_a_module_at_export.globals.lookup "shared" = some gv → is_value_native_module (s5_export_last_state 5) gv.value = false →
      is_value_module (s5_export_last_state 5) gv.value = false →
      ∃ vm1 md1, step (s5_export_last_state 5) = .running vm1 ∧ vm1.modules[s5_a_entry_export_last.module]? = some md1 ∧
        md1.globals.lookup "shared" = some { gv with access := .PUBLIC } ∧
        (∀ other, other ≠ "shared" → md1.globals.lookup other = s5_a_module_at_export.globals.lookup other) ∧
        vm1.stack_top = (s5_export_last_state 5).stack_top)) :=
  have hat : (s5_export_last_state 5).at_op s5_a_entry_export_last .GASET [0, 2, 1] :=
    at_op_intro _ _ _ _ (by decide!) 1 (by decide!) (by decide!) (by decide!) (by decide!)
  have hmod : (s5_export_last_state 5).modules[s5_a_entry_export_last.module]?
      = some s5_a_module_at_export := by decide!
  ⟨⟨hat, hmod, by decide!⟩,
    export_makes_defined_global_public (s5_export_last_state 5) s5_a_entry_export_last 0 2 hat
      s5_a_module_at_export hmod "shared" (by decide!)⟩

/-- C21 as stated fails on S5. The statements of `a.ze` compile to the entry
function `INT 1`, `GDEF hidden`, `GASET shared 1`, `INT 42`, `GDEF shared`,
`EMPTY`, `RET`: the export stands before the definition of `shared`. When
`main.ze` reads `a`, the entry function of module `a` runs and its third
instruction ends the program with the runtime error "Global symbol 'shared'
does not exists"; module `a` then holds the global `hidden` only, and
`a.shared` is never read. With the export statement after the declarations
the entry function completes and `a.shared` pushes 42. -/
theorem export_before_declaration_ends_program :
    compiler.compiled (compiler.compile_entry "import entry" s5_a_source 1 c10_compiler)
      = s5_a_compiled_entry ∧
    (compiler.compile_entry "import entry" s5_a_source 1 c10_compiler).strings
      = s5_a_compiled_module.strings ∧
    (s5_compiled_outcome 4).is_error ∧
    (s5_compiled_outcome 4).vm.stderr
      = ["Runtime error: Global symbol 'shared' does not exists"] ∧
    (s5_compiled_outcome 4).vm.modules.map (fun m => m.globals)
      = [[("a", { access := .PRIVATE, value := .obj 0 })],
         [("hidden", { access := .PRIVATE, value := .int 1 })]] ∧
    compiler.compiled
        (compiler.compile_entry "import entry" s5_a_source_export_last 1 c10_compiler)
      = s5_a_entry_export_last ∧
    (compiler.compile_entry "import entry" s5_a_source_export_last 1 c10_compiler).strings
      = s5_a_module_export_last.strings ∧
    (s5_export_last_state 10).top 1 = [.int 42] ∧
    (s5_export_last_state 10).modules.map (fun m => m.globals)
      = [[("a", { access := .PRIVATE, value := .obj 0 })],
         [("hidden", { access := .PRIVATE, value := .int 1 }),
          ("shared", { access := .PUBLIC, value := .int 42 })]] := by
  decide!

/-! ## `or` and `and` -/

theorem c22_e1 (n : Nat) (hlen : n < 32768) : to_size_t ((n : Int) + 1 + 1 + 1 - 3) = n := by
  have : (n : Int) + 1 + 1 + 1 - 3 = ((n : Nat) : Int) := by omega
  rw [this]
  unfold to_size_t
  norm_num
  omega

theorem c22_hw (n : Nat) (hlen : n < 32768) : wrapS 16 (wrapU 16 (n : Int)) = n := by
  have h1 : wrapU 16 (n : Int) = n := by
    unfold wrapU
    norm_num
    omega
  rw [h1, wrapS16_eq]
  split <;> omega

theorem c22_t1 (operator : LogicalOp) (body : List Nat) (hb : ∀ b ∈ body, b < 256) :
    c22_emit operator body c1_start
      = .ok ⟨⟩ { units_stack := [c22_unit operator body], strings := [] } := by
  cases operator <;>
  simp [c22_emit, jmp_like, write_chunk, insert_chunk, current_unit, set_unit, chunks_len,
    write_i16, descompose_i16, create_unit, c1_start, c22_fn, write_chunks_eq body hb, label,
    internal_error, c22_unit, LogicalOp.opcode] <;>
  exact ⟨by omega, by decide⟩

theorem c22_t2 (operator : LogicalOp) (body : List Nat) (hlen : body.length < 32768) :
    pop_unit { units_stack := [c22_unit operator body], strings := [] }
      = .ok (c22_fn operator body (((body.length : Int) / 2 ^ 8) % 256).toNat
          ((body.length : Int) % 256).toNat) { units_stack := [], strings := [] } := by
  have e1 : to_size_t ((3 + body.length : Nat) - ((3 : Nat) : Int)) = body.length := by
    have : ((3 + body.length : Nat) - ((3 : Nat) : Int)) = ((body.length : Nat) : Int) := by
      omega
    rw [this]
    unfold to_size_t
    norm_num
    omega
  have hw := c22_hw body.length hlen
  simp only [pop_unit, current_unit, c22_unit, bind, Comp.bind, resolve_jmps, List.lookup]
  simp only [beq_self_eq_true]
  rw [e1]
  simp [update_i16, current_unit, c22_fn, internal_error, set_unit, descompose_i16,
    resolve_marks, bind, Comp.bind, pure, hw]

theorem logical_step (operator : LogicalOp) (vm : VM) (f : Fn) (b0 b1 : Nat)
    (h : vm.at_op f operator.opcode [b0, b1]) (n : Nat) (hc : compose_i16 b0 b1 = n)
    (htop : 1 ≤ vm.stack_top) (hip : vm.frame.ip + 3 + n < 2 ^ 64) :
    (vm.stack (vm.stack_top - 1) = .bool operator.short →
      ∃ vm1, step vm = .running vm1 ∧ vm1.frame.ip = vm.frame.ip + 3 + n ∧
        vm1.stack_top = vm.stack_top ∧ vm1.stack = vm.stack) ∧
    (vm.stack (vm.stack_top - 1) = .bool (!operator.short) →
      ∃ vm1, step vm = .running vm1 ∧ vm1.frame.ip = vm.frame.ip + 3 ∧
        vm1.stack_top = vm.stack_top - 1 ∧ vm1.stack = vm.stack) ∧
    ((∀ b, vm.stack (vm.stack_top - 1) ≠ .bool b) →
      (step vm).is_error ∧
      (step vm).vm.stderr = vm.stderr ++
        ["Runtime error: Unsupported types using '" ++ operator.lexeme ++ "' operator"]) := by
  generalize hlex : operator.lexeme = lex
  cases operator
  all_goals (
    obtain ⟨chunk, hd, he⟩ := dispatch_at h
    simp only [LogicalOp.opcode] at hd
    obtain ⟨c0, c1⟩ := operands2 h
    have hrn := fetched_runs h.1
    have rd := read_i16_at hrn b0 b1 c0 c1
    rw [hc] at rd
    have f0 : vm.fetched.stack_top = vm.stack_top := by simp [VM.fetched, VM.with_frame]
    have f1 : vm.fetched.stack = vm.stack := by simp [VM.fetched, VM.with_frame]
    have fip : vm.fetched.frame.ip = vm.frame.ip + 1 := fetched_ip vm
    generalize hR : vm.fetched.set_ip (vm.fetched.frame.ip + 2) = vmR at rd
    have e0 : vmR.stack_top = vm.stack_top := by
      rw [← hR]; simp [VM.fetched, VM.set_ip, VM.with_frame]
    have e1 : vmR.stack = vm.stack := by
      rw [← hR]; simp [VM.fetched, VM.set_ip, VM.with_frame]
    have e3 : vmR.stderr = vm.stderr := by
      rw [← hR]; simp [VM.fetched, VM.set_ip, VM.with_frame]
    have eip : vmR.frame.ip = vm.frame.ip + 3 := by
      rw [← hR, set_ip_ip, fip]
    have efp : vmR.frame_ptr ≠ 0 := by
      rw [← hR]
      exact h.1.1
    have t1 : ¬ vmR.stack_top = 0 := by omega
    have pk : peek vmR = .ok (vmR.stack (vmR.stack_top - 1)) vmR := by
      simp only [peek, t1, if_false]
    rw [e0, e1] at pk
    have q0 := pop_ok vmR (by omega)
    have aip := add_ip_at efp (n : Int)
    have hto : to_size_t ((vmR.frame.ip : Int) + (n : Int)) = vm.frame.ip + 3 + n := by
      rw [eip]
      have : (((vm.frame.ip + 3 : Nat) : Int) + (n : Int)) = ((vm.frame.ip + 3 + n : Nat) : Int) := by
        push_cast; ring
      rw [this]
      unfold to_size_t
      norm_num
      omega
    rw [hto] at aip
    refine ⟨?_, ?_, ?_⟩
    · intro hv
      rw [hv] at pk
      refine ⟨vmR.set_ip (vm.frame.ip + 3 + n), ?_, set_ip_ip _ _, ?_, ?_⟩
      · simp only [step, he, dispatch, hd, op_or, op_and, bind_apply, rd, pk, LogicalOp.short,
            if_true, aip, pure_apply, Bool.not_false, Bool.not_true, Bool.false_eq_true, if_false]
      · rw [← e0]; simp [VM.set_ip]
      · rw [← e1]; simp [VM.set_ip]
    · intro hv
      rw [hv] at pk
      refine ⟨{ vmR with stack_top := vmR.stack_top - 1 }, ?_, ?_, ?_, ?_⟩
      · simp only [step, he, dispatch, hd, op_or, op_and, bind_apply, rd, pk, LogicalOp.short,
            if_true, q0, pure_apply, Bool.not_false, Bool.not_true, Bool.false_eq_true, if_false]
      · exact eip
      · show vmR.stack_top - 1 = _
        rw [e0]
      · exact e1
    · intro hv
      have hstep : step vm = .halted ERR_VMRESULT { vmR with
          exit_code := ERR_VMRESULT,
          stderr := vmR.stderr ++ ["Runtime error: " ++
            ("Unsupported types using '" ++ lex ++ "' operator")] } := by
        subst hlex
        cases hs : vm.stack (vm.stack_top - 1) with
        | bool b => exact absurd hs (hv b)
        | empty =>
          rw [hs] at pk
          simp only [step, he, dispatch, hd, op_or, op_and, bind_apply, rd, pk, vmu_error,
              after_longjmp]
          rfl
        | int i =>
          rw [hs] at pk
          simp only [step, he, dispatch, hd, op_or, op_and, bind_apply, rd, pk, vmu_error,
              after_longjmp]
          rfl
        | float x =>
          rw [hs] at pk
          simp only [step, he, dispatch, hd, op_or, op_and, bind_apply, rd, pk, vmu_error,
              after_longjmp]
          rfl
        | obj p =>
          rw [hs] at pk
          simp only [step, he, dispatch, hd, op_or, op_and, bind_apply, rd, pk, vmu_error,
              after_longjmp]
          rfl
      rw [hstep]
      refine ⟨rfl, ?_⟩
      show vmR.stderr ++ _ = _
      rw [e3]
      rfl)

/-- C22. The `LOGICAL_EXPRTYPE` case emits, after the code of the left
operand, `OR` (or `AND`) with a delta, the code of the right operand and the
end label. For a right operand whose code `body` is shorter than 32768 chunks,
`pop_unit` patches the delta to the length of `body`. With the left operand on
top of the stack, `OR` on true (`AND` on false) leaves the stack as it is and
moves the `ip` past `body`, so the right operand is not evaluated and the
left operand is the value of the expression; on false (`AND` on true) it pops
the left operand and goes on with `body`, whose value is then the value of
the expression; on a value that is no boolean it raises the runtime error
"Unsupported types using 'or' operator" (`'and'`). The compiled procedures
`true or 7`, `false or 7`, `false and 7`, `true and 7` and
`false or (true and 7)` leave true, 7, false, 7 and 7 as the one value above
the frame; `7 or true` ends with the runtime error. -/
theorem logical_operator_short_circuits (operator : LogicalOp) (body : List Nat)
    (hb : ∀ b ∈ body, b < 256) (hlen : body.length < 32768) :
    (c22_emit operator body c1_start
      = .ok ⟨⟩ { units_stack := [c22_unit operator body], strings := [] } ∧
    ∃ b0 b1, pop_unit { units_stack := [c22_unit operator body], strings := [] }
        = .ok (c22_fn operator body b0 b1) { units_stack := [], strings := [] } ∧
      compose_i16 b0 b1 = body.length) ∧
    (∀ (vm : VM) (f : Fn) (b0 b1 : Nat), vm.at_op f operator.opcode [b0, b1] →
      compose_i16 b0 b1 = body.length → 1 ≤ vm.stack_top →
      vm.frame.ip + 3 + body.length < 2 ^ 64 →
      (vm.stack (vm.stack_top - 1) = .bool operator.short →
        ∃ vm1, step vm = .running vm1 ∧ vm1.frame.ip = vm.frame.ip + 3 + body.length ∧
          vm1.stack_top = vm.stack_top ∧ vm1.stack = vm.stack) ∧
      (vm.stack (vm.stack_top - 1) = .bool (!operator.short) →
        ∃ vm1, step vm = .running vm1 ∧ vm1.frame.ip = vm.frame.ip + 3 ∧
          vm1.stack_top = vm.stack_top - 1 ∧ vm1.stack = vm.stack) ∧
      ((∀ b, vm.stack (vm.stack_top - 1) ≠ .bool b) →
        (step vm).is_error ∧
        (step vm).vm.stderr = vm.stderr ++
          ["Runtime error: Unsupported types using '" ++ operator.lexeme ++ "' operator"])) ∧
    ((c22_f c22_true_or).chunks = [OpCode.TRUE.byte, OpCode.OR.byte, 0, 3, OpCode.INT.byte, 0, 0,
        OpCode.POP.byte, OpCode.EMPTY.byte, OpCode.RET.byte] ∧
      (c22_state c22_true_or 3).frame.ip = 1 ∧ (c22_state c22_true_or 4).frame.ip = 7 ∧
      (c22_state c22_true_or 4).top 1 = [.bool true] ∧
      (c22_state c22_true_or 4).stack_top = (c22_state c22_true_or 2).stack_top + 1) ∧
    ((c22_state c22_false_or 3).frame.ip = 1 ∧ (c22_state c22_false_or 5).frame.ip = 7 ∧
      (c22_state c22_false_or 5).top 1 = [.int 7] ∧
      (c22_state c22_false_or 5).stack_top = (c22_state c22_false_or 2).stack_top + 1) ∧
    ((c22_f c22_false_and).chunks = [OpCode.FALSE.byte, OpCode.AND.byte, 0, 3, OpCode.INT.byte,
        0, 0, OpCode.POP.byte, OpCode.EMPTY.byte, OpCode.RET.byte] ∧
      (c22_state c22_false_and 3).frame.ip = 1 ∧ (c22_state c22_false_and 4).frame.ip = 7 ∧
      (c22_state c22_false_and 4).top 1 = [.bool false] ∧
      (c22_state c22_false_and 4).stack_top = (c22_state c22_false_and 2).stack_top + 1) ∧
    ((c22_state c22_true_and 3).frame.ip = 1 ∧ (c22_state c22_true_and 5).frame.ip = 7 ∧
      (c22_state c22_true_and 5).top 1 = [.int 7] ∧
      (c22_state c22_true_and 5).stack_top = (c22_state c22_true_and 2).stack_top + 1) ∧
    ((c22_outcome c22_int_or 4).is_error ∧
      (c22_outcome c22_int_or 4).vm.stderr
        = ["Runtime error: Unsupported types using 'or' operator"]) ∧
    ((c22_f c22_nested).chunks = [OpCode.FALSE.byte, OpCode.OR.byte, 0, 7, OpCode.TRUE.byte,
        OpCode.AND.byte, 0, 3, OpCode.INT.byte, 0, 0, OpCode.POP.byte, OpCode.EMPTY.byte,
        OpCode.RET.byte] ∧
      (c22_state c22_nested 7).frame.ip = 11 ∧ (c22_state c22_nested 7).top 1 = [.int 7] ∧
      (c22_state c22_nested 7).stack_top = (c22_state c22_nested 2).stack_top + 1) := by
  refine ⟨⟨c22_t1 operator body hb, _, _, c22_t2 operator body hlen, ?_⟩, ?_, ?_⟩
  · have h := compose_descompose_i16 (body.length : Int) (by omega) (by omega)
    exact h
  · intro vm f b0 b1 h hc htop hip
    exact logical_step operator vm f b0 b1 h body.length hc htop hip
  · decide!

theorem logical_operator_short_circuits_witness :
    ((∀ b ∈ [OpCode.INT.byte, 0, 0], b < 256) ∧ [OpCode.INT.byte, 0, 0].length < 32768) ∧
    (
    (c22_emit LogicalOp.OR [OpCode.INT.byte, 0, 0] c1_start
      = .ok ⟨⟩ { units_stack := [c22_unit LogicalOp.OR [OpCode.INT.byte, 0, 0]], strings := [] } ∧
    ∃ b0 b1, pop_unit { units_stack := [c22_unit LogicalOp.OR [OpCode.INT.byte, 0, 0]], strings := [] }
        = .ok (c22_fn LogicalOp.OR [OpCode.INT.byte, 0, 0] b0 b1) { units_stack := [], strings := [] } ∧
      compose_i16 b0 b1 = [OpCode.INT.byte, 0, 0].length) ∧
    (∀ (vm : VM) (f : Fn) (b0 b1 : Nat), vm.at_op f LogicalOp.OR.opcode [b0, b1] →
      compose_i16 b0 b1 = [OpCode.INT.byte, 0, 0].length → 1 ≤ vm.stack_top →
      vm.frame.ip + 3 + [OpCode.INT.byte, 0, 0].length < 2 ^ 64 →
      (vm.stack (vm.stack_top - 1) = .bool LogicalOp.OR.short →
        ∃ vm1, step vm = .running vm1 ∧ vm1.frame.ip = vm.frame.ip + 3 + [OpCode.INT.byte, 0, 0].length ∧
          vm1.stack_top = vm.stack_top ∧ vm1.stack = vm.stack) ∧
      (vm.stack (vm.stack_top - 1) = .bool (!LogicalOp.OR.short) →
        ∃ vm1, step vm = .running vm1 ∧ vm1.frame.ip = vm.frame.ip + 3 ∧
          vm1.stack_top = vm.stack_top - 1 ∧ vm1.stack = vm.stack) ∧
      ((∀ b, vm.stack (vm.stack_top - 1) ≠ .bool b) →
        (step vm).is_error ∧
        (step vm).vm.stderr = vm.stderr ++
          ["Runtime error: Unsupported types using '" ++ LogicalOp.OR.lexeme ++ "' operator"])) ∧
    ((c22_f c22_true_or).chunks = [OpCode.TRUE.byte, OpCode.OR.byte, 0, 3, OpCode.INT.byte, 0, 0,
        OpCode.POP.byte, OpCode.EMPTY.byte, OpCode.RET.byte] ∧
      (c22_state c22_true_or 3).frame.ip = 1 ∧ (c22_state c22_true_or 4).frame.ip = 7 ∧
      (c22_state c22_true_or 4).top 1 = [.bool true] ∧
      (c22_state c22_true_or 4).stack_top = (c22_state c22_true_or 2).stack_top + 1) ∧
    ((c22_state c22_false_or 3).frame.ip = 1 ∧ (c22_state c22_false_or 5).frame.ip = 7 ∧
      (c22_state c22_false_or 5).top 1 = [.int 7] ∧
      (c22_state c22_false_or 5).stack_top = (c22_state c22_false_or 2).stack_top + 1) ∧
    ((c22_f c22_false_and).chunks = [OpCode.FALSE.byte, OpCode.AND.byte, 0, 3, OpCode.INT.byte,
        0, 0, OpCode.POP.byte, OpCode.EMPTY.byte, OpCode.RET.byte] ∧
      (c22_state c22_false_and 3).frame.ip = 1 ∧ (c22_state c22_false_and 4).frame.ip = 7 ∧
      (c22_state c22_false_and 4).top 1 = [.bool false] ∧
      (c22_state c22_false_and 4).stack_top = (c22_state c22_false_and 2).stack_top + 1) ∧
    ((c22_state c22_true_and 3).frame.ip = 1 ∧ (c22_state c22_true_and 5).frame.ip = 7 ∧
      (c22_state c22_true_and 5).top 1 = [.int 7] ∧
      (c22_state c22_true_and 5).stack_top = (c22_state c22_true_and 2).stack_top + 1) ∧
    ((c22_outcome c22_int_or 4).is_error ∧
      (c22_outcome c22_int_or 4).vm.stderr
        = ["Runtime error: Unsupported types using 'or' operator"]) ∧
    ((c22_f c22_nested).chunks = [OpCode.FALSE.byte, OpCode.OR.byte, 0, 7, OpCode.TRUE.byte,
        OpCode.AND.byte, 0, 3, OpCode.INT.byte, 0, 0, OpCode.POP.byte, OpCode.EMPTY.byte,
        OpCode.RET.byte] ∧
      (c22_state c22_nested 7).frame.ip = 11 ∧ (c22_state c22_nested 7).top 1 = [.int 7] ∧
      (c22_state c22_nested 7).stack_top = (c22_state c22_nested 2).stack_top + 1)) :=
  ⟨⟨by decide, by decide⟩,
    logical_operator_short_circuits .OR [OpCode.INT.byte, 0, 0] (by decide) (by decide)⟩

/-! ## `IS` -/

/-- C23 as the code has it: `IS` with the tag byte the compiler emits for the
type keyword `T`. For a value that is no object, and for an object that is a
string, an array, a list, a dict, a record, a function, a closure or a native
function, the value is popped and the boolean "the value is of kind `T`" is
pushed in its place. For an object the `switch` has no case for (a native
object such as a byte array, a native module, a module) the handler calls
`vmu_internal_error`: "FATAL RUNTIME ERROR: Illegal object type" is printed
and `vm_execute` returns `ERR_VMRESULT`, whatever the type keyword. -/
theorem is_tests_kind_of_value (vm : VM) (f : Fn) (T : compiler.TypeKeyword)
    (h : vm.at_op f .IS [T.tag]) (htop : 1 ≤ vm.stack_top)
    (hmax : vm.stack_top ≤ STACK_LENGTH)
    (halive : ∀ p, vm.stack (vm.stack_top - 1) = .obj p → ∃ o, vm.heap[p]? = some o) :
    (∀ t, value_obj_type vm (vm.stack (vm.stack_top - 1)) = some t → is_without_case t = true →
      (step vm).is_error ∧
      (step vm).vm.stderr = vm.stderr ++ ["FATAL RUNTIME ERROR: Illegal object type"]) ∧
    ((∀ t, value_obj_type vm (vm.stack (vm.stack_top - 1)) = some t →
        is_without_case t = false) →
      ∃ vm1, step vm = .running vm1 ∧ vm1.stack_top = vm.stack_top ∧
        vm1.stack (vm.stack_top - 1)
          = .bool (is_of_kind vm (vm.stack (vm.stack_top - 1)) T) ∧
        ∀ i, i < vm.stack_top - 1 → vm1.stack i = vm.stack i) := by
  obtain ⟨chunk, hd, he⟩ := dispatch_at h
  have hrn := fetched_runs h.1
  obtain ⟨-, -, -, -, hops⟩ := h
  have c0 : f.chunks[vm.fetched.frame.ip]? = some T.tag := by simpa using hops 0 (by simp)
  have f0 : vm.fetched.stack_top = vm.stack_top := by simp [VM.fetched, VM.with_frame]
  have f1 : vm.fetched.stack = vm.stack := by simp [VM.fetched, VM.with_frame]
  have q0 := pop_ok vm.fetched (by omega)
  generalize hP : ({ vm.fetched with stack_top := vm.fetched.stack_top - 1 } : VM) = vmP at q0
  have hrnP : vmP.runs f := by
    rw [← hP]
    obtain ⟨h0, fi, h1, h2⟩ := hrn
    exact ⟨h0, fi, h1, h2⟩
  have cP : f.chunks[vmP.frame.ip]? = some T.tag := by rw [← hP]; exact c0
  have adv := advance_at hrnP T.tag cP
  generalize hS : vmP.set_ip (vmP.frame.ip + 1) = vmS at adv
  have s0 : vmS.stack_top = vm.stack_top - 1 := by
    rw [← hS, ← hP]; simp [VM.set_ip, f0]
  have s1 : vmS.stack = vm.stack := by
    rw [← hS, ← hP]; simp [VM.set_ip, f1]
  have s3 : vmS.stderr = vm.stderr := by
    rw [← hS, ← hP]; simp [VM.set_ip, VM.fetched, VM.with_frame]
  have s8 : vmS.heap = vm.heap := by
    rw [← hS, ← hP]; simp [VM.set_ip, VM.fetched, VM.with_frame]
  have q2 : ∀ b : Bool, push (.bool b) vmS = .ok () { vmS with
      stack := Function.update vmS.stack vmS.stack_top (.bool b),
      stack_top := vmS.stack_top + 1 } := fun b => push_ok vmS _ (by omega)
  rw [f0, f1] at q0
  have fin : ∀ b : Bool, (b = is_of_kind vm (vm.stack (vm.stack_top - 1)) T) →
      step vm = .running { vmS with
        stack := Function.update vmS.stack vmS.stack_top (.bool b),
        stack_top := vmS.stack_top + 1 } →
      ∃ vm1, step vm = .running vm1 ∧ vm1.stack_top = vm.stack_top ∧
        vm1.stack (vm.stack_top - 1)
          = .bool (is_of_kind vm (vm.stack (vm.stack_top - 1)) T) ∧
        ∀ i, i < vm.stack_top - 1 → vm1.stack i = vm.stack i := by
    intro b hb hstep
    refine ⟨_, hstep, ?_, ?_, ?_⟩
    · show vmS.stack_top + 1 = _
      omega
    · show Function.update vmS.stack vmS.stack_top _ (vm.stack_top - 1) = _
      rw [s0, Function.update_same, hb]
    · intro i hi
      show Function.update vmS.stack vmS.stack_top _ i = _
      rw [s0, Function.update_noteq (by omega), s1]
  cases hv : vm.stack (vm.stack_top - 1) with
  | empty =>
    refine ⟨fun t ht => by simp [value_obj_type, value_obj] at ht, fun _ => ?_⟩
    rw [hv] at q0 fin
    apply fin (T.tag == 0) (by cases T <;> rfl)
    simp only [step, he, dispatch, hd, op_is, bind_apply, q0, adv, q2, pure_apply]
  | bool b0 =>
    refine ⟨fun t ht => by simp [value_obj_type, value_obj] at ht, fun _ => ?_⟩
    rw [hv] at q0 fin
    apply fin (T.tag == 1) (by cases T <;> rfl)
    simp only [step, he, dispatch, hd, op_is, bind_apply, q0, adv, q2, pure_apply]
  | int i0 =>
    refine ⟨fun t ht => by simp [value_obj_type, value_obj] at ht, fun _ => ?_⟩
    rw [hv] at q0 fin
    apply fin (T.tag == 2) (by cases T <;> rfl)
    simp only [step, he, dispatch, hd, op_is, bind_apply, q0, adv, q2, pure_apply]
  | float x0 =>
    refine ⟨fun t ht => by simp [value_obj_type, value_obj] at ht, fun _ => ?_⟩
    rw [hv] at q0 fin
    apply fin (T.tag == 3) (by cases T <;> rfl)
    simp only [step, he, dispatch, hd, op_is, bind_apply, q0, adv, q2, pure_apply]
  | obj p =>
    obtain ⟨o, ho⟩ := halive p hv
    have hoS : vmS.heap[p]? = some o := by rw [s8]; exact ho
    have hty : value_obj_type vm (.obj p) = some o.type := by
      simp [value_obj_type, value_obj, ho]
    rw [hv] at q0 fin
    refine ⟨fun t ht hw => ?_, fun hw => ?_⟩
    · rw [hty] at ht
      cases ht
      have hstep : step vm = .halted ERR_VMRESULT { vmS with
          exit_code := ERR_VMRESULT,
          stderr := vmS.stderr ++ ["FATAL RUNTIME ERROR: " ++ "Illegal object type"] } := by
        cases hot : o.type <;> rw [hot] at hw <;>
          first
          | exact absurd hw (by decide)
          | simp only [step, he, dispatch, hd, op_is, bind_apply, q0, adv, get_vm, hoS, deref,
              hot, vmu_internal_error, after_longjmp]
      rw [hstep]
      exact ⟨rfl, by rw [← s3]; rfl⟩
    · have hw2 := hw o.type hty
      cases hot : o.type <;> rw [hot] at hw2 <;>
        first
        | exact absurd hw2 (by decide)
        | skip
      · apply fin (T.tag == 4) (by cases T <;> simp [is_of_kind, hty, hot, compiler.TypeKeyword.tag])
        simp only [step, he, dispatch, hd, op_is, bind_apply, q0, adv, get_vm, hoS, deref,
          hot, q2, pure_apply]
      · apply fin (T.tag == 5) (by cases T <;> simp [is_of_kind, hty, hot, compiler.TypeKeyword.tag])
        simp only [step, he, dispatch, hd, op_is, bind_apply, q0, adv, get_vm, hoS, deref,
          hot, q2, pure_apply]
      · apply fin (T.tag == 6) (by cases T <;> simp [is_of_kind, hty, hot, compiler.TypeKeyword.tag])
        simp only [step, he, dispatch, hd, op_is, bind_apply, q0, adv, get_vm, hoS, deref,
          hot, q2, pure_apply]
      · apply fin (T.tag == 7) (by cases T <;> simp [is_of_kind, hty, hot, compiler.TypeKeyword.tag])
        simp only [step, he, dispatch, hd, op_is, bind_apply, q0, adv, get_vm, hoS, deref,
          hot, q2, pure_apply]
      · apply fin (T.tag == 8) (by cases T <;> simp [is_of_kind, hty, hot, compiler.TypeKeyword.tag])
        simp only [step, he, dispatch, hd, op_is, bind_apply, q0, adv, get_vm, hoS, deref,
          hot, q2, pure_apply]
      · apply fin (T.tag == 9) (by cases T <;> simp [is_of_kind, hty, hot, compiler.TypeKeyword.tag])
        simp only [step, he, dispatch, hd, op_is, bind_apply, q0, adv, get_vm, hoS, deref,
          hot, q2, pure_apply]
      · apply fin (T.tag == 9) (by cases T <;> simp [is_of_kind, hty, hot, compiler.TypeKeyword.tag])
        simp only [step, he, dispatch, hd, op_is, bind_apply, q0, adv, get_vm, hoS, deref,
          hot, q2, pure_apply]
      · apply fin (T.tag == 9) (by cases T <;> simp [is_of_kind, hty, hot, compiler.TypeKeyword.tag])
        simp only [step, he, dispatch, hd, op_is, bind_apply, q0, adv, get_vm, hoS, deref,
          hot, q2, pure_apply]

theorem is_tests_kind_of_value_witness :
    ((c23_state (.list [.int 1]) 4).at_op c23_f .IS [compiler.TypeKeyword.LIST.tag] ∧
      1 ≤ (c23_state (.list [.int 1]) 4).stack_top ∧
      (c23_state (.list [.int 1]) 4).stack_top ≤ STACK_LENGTH ∧
      ∀ p, (c23_state (.list [.int 1]) 4).stack ((c23_state (.list [.int 1]) 4).stack_top - 1) = .obj p →
        ∃ o, (c23_state (.list [.int 1]) 4).heap[p]? = some o) ∧
    (
    (∀ t, value_obj_type (c23_state (.list [.int 1]) 4) ((c23_state (.list [.int 1]) 4).stack ((c23_state (.list [.int 1]) 4).stack_top - 1)) = some t → is_without_case t = true →
      (step (c23_state (.list [.int 1]) 4)).is_error ∧
      (step (c23_state (.list [.int 1]) 4)).vm.stderr = (c23_state (.list [.int 1]) 4).stderr ++ ["FATAL RUNTIME ERROR: Illegal object type"]) ∧
    ((∀ t, value_obj_type (c23_state (.list [.int 1]) 4) ((c23_state (.list [.int 1]) 4).stack ((c23_state (.list [.int 1]) 4).stack_top - 1)) = some t →
        is_without_case t = false) →
      ∃ vm1, step (c23_state (.list [.int 1]) 4) = .running vm1 ∧ vm1.stack_top = (c23_state (.list [.int 1]) 4).stack_top ∧
        vm1.stack ((c23_state (.list [.int 1]) 4).stack_top - 1)
          = .bool (is_of_kind (c23_state (.list [.int 1]) 4) ((c23_state (.list [.int 1]) 4).stack ((c23_state (.list [.int 1]) 4).stack_top - 1)) .LIST) ∧
        ∀ i, i < (c23_state (.list [.int 1]) 4).stack_top - 1 → vm1.stack i = (c23_state (.list [.int 1]) 4).stack i)) :=
  have hat : (c23_state (.list [.int 1]) 4).at_op c23_f .IS [compiler.TypeKeyword.LIST.tag] :=
    at_op_intro _ _ _ _ (by decide!) 1 (by decide!) (by decide!) (by decide!) (by decide!)
  have e : (c23_state (.list [.int 1]) 4).stack ((c23_state (.list [.int 1]) 4).stack_top - 1) = .obj 1 := by
    decide!
  have halive : ∀ p, (c23_state (.list [.int 1]) 4).stack ((c23_state (.list [.int 1]) 4).stack_top - 1) = .obj p →
      ∃ o, (c23_state (.list [.int 1]) 4).heap[p]? = some o := by
    intro p hp
    rw [e] at hp
    cases hp
    exact ⟨.list [.int 1], by decide!⟩
  ⟨⟨hat, by decide!, by decide!, halive⟩,
    is_tests_kind_of_value (c23_state (.list [.int 1]) 4) c23_f .LIST hat (by decide!) (by decide!) halive⟩

/-- C23 as stated fails: in `f(r)` with `proc f(r) \x7b r is list \x7d` and `r`
bound to a byte array, `IS` is reached with the byte array on top of the
stack; the value is not of kind list, so by the claim `IS` pushes false. The
handler prints "FATAL RUNTIME ERROR: Illegal object type" and `vm_execute`
returns `ERR_VMRESULT`. -/
theorem is_on_byte_array_ends_program :
    c23_f.chunks = [OpCode.LGET.byte, 0, OpCode.IS.byte, 6, OpCode.POP.byte,
      OpCode.EMPTY.byte, OpCode.RET.byte] ∧
    (c23_state (.nbarray [1, 2]) 4).frame.ip = 2 ∧
    (c23_state (.nbarray [1, 2]) 4).top 1 = [.obj 1] ∧
    (c23_state (.nbarray [1, 2]) 4).heap[1]? = some (.nbarray [1, 2]) ∧
    is_of_kind (c23_state (.nbarray [1, 2]) 4) (.obj 1) .LIST = false ∧
    (c23_outcome (.nbarray [1, 2]) 5).is_error ∧
    (c23_outcome (.nbarray [1, 2]) 5).vm.stderr
      = ["FATAL RUNTIME ERROR: Illegal object type"] := by
  decide!

/-! ## `try` inside `catch` -/

/-- C30 on the code. The `TRY_STMT_TYPE` case looks at the innermost scope
only: a try statement whose innermost scope is a catch scope is rejected with
"Cannot use try statements inside catch scopes", whatever the statement holds
and whatever encloses the catch scope; so is the procedure with a try statement
directly in a catch block. A try statement in a block inside a catch block has
a block scope as innermost scope: the procedure compiles, and when it runs the
inner try is opened while the catch block executes (the `TRYO` at offset 9
records the catch address 18), the inner throw lands in the inner catch block
and the program ends normally. -/
theorem try_in_block_inside_catch_compiles :
    (∀ (try_stmts catch_stmts : Option (List compiler.Stmt)) (locals : List String)
        (returned : Bool) (rest : compiler.ScopeManager) (c : compiler.Compiler),
      (compiler.compile_stmt (.TRY try_stmts catch_stmts)
        ({ type := .CATCH, locals := locals, returned := returned } :: rest) c).failure
        = some "Cannot use try statements inside catch scopes") ∧
    (compiler.compile_function "f" [] c30_direct 0 c10_compiler).failure
      = some "Cannot use try statements inside catch scopes" ∧
    (compiler.compile_function "f" [] c30_in_block 0 c10_compiler).failure = none ∧
    c30_f.chunks = [OpCode.TRYO.byte, 0, 9, OpCode.THROW.byte, 0, OpCode.TRYC.byte,
      OpCode.JMP.byte, 0, 11,
      OpCode.TRYO.byte, 0, 18, OpCode.THROW.byte, 0, OpCode.TRYC.byte, OpCode.JMP.byte, 0, 2,
      OpCode.EMPTY.byte, OpCode.POP.byte, OpCode.EMPTY.byte, OpCode.RET.byte] ∧
    (c30_state 4).frame.ip = 9 ∧ (c30_state 4).exception_stack = [] ∧
    (c30_state 5).exception_stack.map (fun e => (e.catch_ip, e.stack_top, e.frame))
      = [(18, 3, 1)] ∧
    (c30_state 6).frame.ip = 18 ∧ (c30_state 6).exception_stack = [] ∧
    (vm_execute 13 0 (VM.init [rec_main, c30_f] [] [rec_module] [.fn 1])).is_ok := by
  refine ⟨?_, by decide!, by decide!, by decide!, by decide!, by decide!, by decide!, by decide!,
    by decide!, by decide!⟩
  intro try_stmts catch_stmts locals returned rest c
  rfl

/-! ## The collector -/

theorem color_eq_some {c : Collector} {p : Nat} {col : ObjColor} (h : c.color p = some col) :
    ∃ o, c.objs[p]? = some (some o) ∧ o.color = col := by
  unfold Collector.color at h
  split at h
  · rename_i o ho
    exact ⟨o, ho, by simpa using h⟩
  · cases h

theorem color_of_obj {c : Collector} {p : Nat} {o : GcObj} (h : c.objs[p]? = some (some o)) :
    c.color p = some o.color := by
  simp [Collector.color, h]

theorem content_of_obj {c : Collector} {p : Nat} {o : GcObj} (h : c.objs[p]? = some (some o)) :
    c.content p = some o.obj := by
  simp [Collector.content, h]

theorem content_eq_some {c : Collector} {p : Nat} {x : HObj} (h : c.content p = some x) :
    ∃ o, c.objs[p]? = some (some o) ∧ o.obj = x := by
  unfold Collector.content at h
  split at h
  · rename_i o ho
    exact ⟨o, ho, by simpa using h⟩
  · cases h

theorem obj_lt {c : Collector} {p : Nat} {o : Option GcObj} (h : c.objs[p]? = some o) :
    p < c.objs.length := by
  by_contra hc
  rw [List.getElem?_eq_none (by omega)] at h
  cases h

/-- The objects after the header at `p` was replaced. -/
theorem objs_set_color (objs : List (Option GcObj)) (p q : Nat) (o o1 : GcObj)
    (h : objs[p]? = some (some o)) :
    (objs.set p (some o1))[q]? = if q = p then some (some o1) else objs[q]? := by
  have hlt : p < objs.length := by
    by_contra hc
    rw [List.getElem?_eq_none (by omega)] at h
    cases h
  by_cases hq : q = p
  · subst hq
    rw [if_pos rfl, List.getElem?_set_self hlt]
  · rw [if_neg hq, List.getElem?_set_ne (fun e => hq e.symm)]

theorem set_color_eq (p : Nat) (col : ObjColor) (c : Collector) (o : GcObj)
    (h : c.objs[p]? = some (some o)) :
    set_color p col c = { c with objs := c.objs.set p (some { o with color := col }) } := by
  simp [set_color, h]

theorem gray_value_white {c : Collector} {p : Nat} {o : GcObj}
    (h : c.objs[p]? = some (some o)) (hw : o.color = .WHITE) :
    gray_value (.obj p) c = some (c.grayed p o, some o.obj) := by
  simp [gray_value, h, hw, set_color_eq p .GRAY c o h, obj_list_remove, Collector.grayed]

theorem gray_value_other {c : Collector} {p : Nat} {o : GcObj}
    (h : c.objs[p]? = some (some o)) (hw : o.color ≠ .WHITE) :
    gray_value (.obj p) c = some (c, none) := by
  simp [gray_value, h, hw]

theorem gray_value_not_obj {c : Collector} {v : Value} (h : ∀ p, v ≠ .obj p) :
    gray_value v c = some (c, none) := by
  cases v with
  | obj p => exact absurd rfl (h p)
  | _ => rfl

theorem recolor_color (c c1 : Collector) (p : Nat) (o : GcObj) (col : ObjColor)
    (h : c.objs[p]? = some (some o))
    (h1 : c1.objs = c.objs.set p (some { o with color := col })) (q : Nat) :
    c1.color q = if q = p then some col else c.color q := by
  unfold Collector.color
  rw [h1, objs_set_color c.objs p q o _ h]
  by_cases hq : q = p
  · simp [hq]
  · simp [hq]

theorem recolor_content (c c1 : Collector) (p : Nat) (o : GcObj) (col : ObjColor)
    (h : c.objs[p]? = some (some o))
    (h1 : c1.objs = c.objs.set p (some { o with color := col })) (q : Nat) :
    c1.content q = c.content q := by
  unfold Collector.content
  rw [h1, objs_set_color c.objs p q o _ h]
  by_cases hq : q = p
  · subst hq
    simp [h]
  · simp [hq]

theorem recolor_refs (c c1 : Collector) (p : Nat) (o : GcObj) (col : ObjColor)
    (h : c.objs[p]? = some (some o))
    (h1 : c1.objs = c.objs.set p (some { o with color := col })) (q : Nat) :
    c1.refs q = c.refs q := by
  unfold Collector.refs
  rw [recolor_content c c1 p o col h h1 q]

theorem mem_filter_ne {l : List Nat} {p q : Nat} :
    q ∈ l.filter (fun x => x != p) ↔ q ∈ l ∧ q ≠ p := by
  simp [List.mem_filter]

theorem filter_ne_self {l : List Nat} {p : Nat} (h : p ∉ l) :
    l.filter (fun x => x != p) = l := by
  rw [List.filter_eq_self]
  intro a ha
  have : a ≠ p := fun e => h (e ▸ ha)
  simpa using this

theorem length_filter_ne_lt {l : List Nat} {p : Nat} (h : p ∈ l) :
    (l.filter (fun x => x != p)).length < l.length := by
  induction l with
  | nil => cases h
  | cons a rest ih =>
    by_cases ha : a = p
    · subst ha
      have : ((a :: rest).filter (fun x => x != a)) = rest.filter (fun x => x != a) := by
        rw [List.filter_cons_of_neg (by simp)]
      rw [this]
      have := List.length_filter_le (fun x => x != a) rest
      simp only [List.length_cons]
      omega
    · have hp : p ∈ rest := by
        cases h with
        | head => exact absurd rfl ha
        | tail _ h' => exact h'
      have e : ((a :: rest).filter (fun x => x != p)) = a :: rest.filter (fun x => x != p) := by
        rw [List.filter_cons_of_pos (by simpa using ha)]
      rw [e]
      simp only [List.length_cons]
      have := ih hp
      omega

/-- What graying a white object does. -/
theorem grayed_spec {c : Collector} (hc : c.coherent) {p : Nat} {o : GcObj}
    (h : c.objs[p]? = some (some o)) (hw : o.color = .WHITE) :
    (c.grayed p o).coherent ∧ c.same_heap (c.grayed p o) ∧ c.darker (c.grayed p o) ∧
    (c.grayed p o).color p = some .GRAY ∧
    (∀ q, q ≠ p → (c.grayed p o).color q = c.color q) ∧
    (c.grayed p o).gray_objs = c.gray_objs ++ [p] ∧
    (c.grayed p o).black_objs = c.black_objs ∧
    (c.grayed p o).white_objs.length < c.white_objs.length ∧
    (c.grayed p o).white_objs.length + (c.grayed p o).gray_objs.length
      ≤ c.white_objs.length + c.gray_objs.length := by
  have hcol : ∀ q, (c.grayed p o).color q = if q = p then some .GRAY else c.color q :=
    recolor_color c _ p o .GRAY h rfl
  have hcp : c.color p = some .WHITE := by rw [color_of_obj h, hw]
  have hpw : p ∈ c.white_objs := (hc p).1.2 hcp
  have hpg : p ∉ c.gray_objs := fun hg => by
    have := (hc p).2.1.1 hg
    rw [hcp] at this
    cases this
  have hpb : p ∉ c.black_objs := fun hb => by
    have := (hc p).2.2.1 hb
    rw [hcp] at this
    cases this
  have eg : (c.grayed p o).gray_objs = c.gray_objs ++ [p] := by
    show c.gray_objs.filter _ ++ [p] = _
    rw [filter_ne_self hpg]
  have eb : (c.grayed p o).black_objs = c.black_objs := by
    show c.black_objs.filter _ = _
    rw [filter_ne_self hpb]
  have ew : (c.grayed p o).white_objs = c.white_objs.filter (fun q => q != p) := rfl
  have hlen := length_filter_ne_lt hpw
  refine ⟨?_, ?_, ?_, ?_, ?_, eg, eb, ?_, ?_⟩
  · intro q
    rw [hcol q, eg, eb, ew]
    by_cases hq : q = p
    · subst hq
      simp [mem_filter_ne, hpb]
    · simp only [if_neg hq, mem_filter_ne, List.mem_append, List.mem_singleton]
      refine ⟨?_, ?_, (hc q).2.2⟩
      · rw [← (hc q).1]
        exact ⟨fun hh => hh.1, fun hh => ⟨hh, hq⟩⟩
      · rw [← (hc q).2.1]
        exact ⟨fun hh => hh.elim id (fun e => absurd e hq), fun hh => Or.inl hh⟩
  · exact ⟨rfl, rfl, rfl, by simp [Collector.grayed], recolor_content c _ p o .GRAY h rfl⟩
  · intro q
    rw [hcol q]
    by_cases hq : q = p
    · subst hq
      simp
    · simp [hq]
  · rw [hcol p, if_pos rfl]
  · intro q hq
    rw [hcol q, if_neg hq]
  · rw [ew]
    exact hlen
  · rw [ew, eg]
    simp only [List.length_append, List.length_singleton]
    omega

theorem same_heap_refl (c : Collector) : c.same_heap c :=
  ⟨rfl, rfl, rfl, rfl, fun _ => rfl⟩

theorem same_heap_trans {a b c : Collector} (h1 : a.same_heap b) (h2 : b.same_heap c) :
    a.same_heap c :=
  ⟨h2.1.trans h1.1, h2.2.1.trans h1.2.1, h2.2.2.1.trans h1.2.2.1, h2.2.2.2.1.trans h1.2.2.2.1,
    fun p => (h2.2.2.2.2 p).trans (h1.2.2.2.2 p)⟩

theorem same_heap_refs {a b : Collector} (h : a.same_heap b) (p : Nat) : b.refs p = a.refs p := by
  unfold Collector.refs
  rw [h.2.2.2.2 p]

theorem same_heap_valid {a b : Collector} (h : a.same_heap b) (v : Value) :
    b.valid v = a.valid v := by
  cases v with
  | obj p => simp [Collector.valid, h.2.2.2.2 p]
  | _ => rfl

theorem same_heap_global_values {a b : Collector} (h : a.same_heap b) (m : Nat) :
    b.global_values m = a.global_values m := by
  unfold Collector.global_values
  rw [h.2.1]

theorem darker_refl (c : Collector) : c.darker c := fun _ => ⟨id, id⟩

theorem darker_trans {a b c : Collector} (h1 : a.darker b) (h2 : b.darker c) : a.darker c :=
  fun p => ⟨fun h => (h2 p).1 ((h1 p).1 h), fun h => (h2 p).2 ((h1 p).2 h)⟩

theorem tricolor_of_darker {a b : Collector} (hs : a.same_heap b) (hd : a.darker b)
    (hb : b.black_objs = a.black_objs) (ht : a.tricolor) : b.tricolor := by
  intro p hp q hq
  rw [hb] at hp
  rw [same_heap_refs hs p] at hq
  exact (hd q).1 (ht p hp q hq)

theorem valid_obj {c : Collector} {p : Nat} (h : c.valid (.obj p) = true) :
    ∃ o, c.objs[p]? = some (some o) := by
  simp only [Collector.valid, Option.isSome_iff_exists] at h
  obtain ⟨x, hx⟩ := h
  obtain ⟨o, ho, _⟩ := content_eq_some hx
  exact ⟨o, ho⟩

/-- What the statements a root or a traced reference goes through do. -/
theorem gray_value_spec {c : Collector} (hc : c.coherent) (v : Value) (hv : c.valid v = true) :
    ∃ c1 r, gray_value v c = some (c1, r) ∧ c1.coherent ∧ c.same_heap c1 ∧ c.darker c1 ∧
      (∀ q, v = .obj q → c1.color q ≠ some .WHITE) ∧
      (∀ q, q ∈ c.gray_objs → q ∈ c1.gray_objs) ∧
      (∀ q, q ∈ c1.gray_objs → q ∈ c.gray_objs ∨ v = .obj q) ∧
      c1.black_objs = c.black_objs ∧
      c1.white_objs.length + c1.gray_objs.length ≤ c.white_objs.length + c.gray_objs.length ∧
      c1.white_objs.length ≤ c.white_objs.length ∧
      (∀ x, r = some x → ∃ p, v = .obj p ∧ c.content p = some x ∧
        c1.white_objs.length < c.white_objs.length) := by
  by_cases hobj : ∃ p, v = .obj p
  · obtain ⟨p, rfl⟩ := hobj
    obtain ⟨o, ho⟩ := valid_obj hv
    by_cases hw : o.color = .WHITE
    · obtain ⟨g1, g2, g3, g4, g5, g6, g7, g8, g9⟩ := grayed_spec hc ho hw
      refine ⟨_, _, gray_value_white ho hw, g1, g2, g3, ?_, ?_, ?_, g7, g9, by omega, ?_⟩
      · intro q hq
        cases hq
        rw [g4]
        simp
      · intro q hq
        rw [g6]
        exact List.mem_append_left _ hq
      · intro q hq
        rw [g6] at hq
        rcases List.mem_append.mp hq with h1 | h1
        · exact Or.inl h1
        · exact Or.inr (by rw [List.mem_singleton.mp h1])
      · intro x hx
        cases hx
        exact ⟨p, rfl, content_of_obj ho, g8⟩
    · refine ⟨c, none, gray_value_other ho hw, hc, same_heap_refl c, darker_refl c, ?_,
        fun q h => h, fun q h => Or.inl h, rfl, le_refl _, le_refl _, fun x hx => by cases hx⟩
      intro q hq
      cases hq
      rw [color_of_obj ho]
      simpa using hw
  · have hno : ∀ p, v ≠ .obj p := fun p hp => hobj ⟨p, hp⟩
    exact ⟨c, none, gray_value_not_obj hno, hc, same_heap_refl c, darker_refl c,
      fun q hq => absurd hq (hno q), fun q h => h, fun q h => Or.inl h, rfl, le_refl _,
      le_refl _, fun x hx => by cases hx⟩

/-- What the inner loops of `mark_objs` do. -/
theorem gray_values_spec (vs : List Value) :
    ∀ {c : Collector}, c.coherent → (∀ v ∈ vs, c.valid v = true) →
    ∃ c1, gray_values vs c = some c1 ∧ c1.coherent ∧ c.same_heap c1 ∧ c.darker c1 ∧
      (∀ q, Value.obj q ∈ vs → c1.color q ≠ some .WHITE) ∧
      (∀ q, q ∈ c.gray_objs → q ∈ c1.gray_objs) ∧
      (∀ q, q ∈ c1.gray_objs → q ∈ c.gray_objs ∨ Value.obj q ∈ vs) ∧
      c1.black_objs = c.black_objs ∧
      c1.white_objs.length + c1.gray_objs.length
        ≤ c.white_objs.length + c.gray_objs.length := by
  induction vs with
  | nil =>
    intro c hc _
    exact ⟨c, rfl, hc, same_heap_refl c, darker_refl c, fun q hq => (by cases hq),
      fun q h => h, fun q h => Or.inl h, rfl, le_refl _⟩
  | cons v rest ih =>
    intro c hc hv
    obtain ⟨c1, r, e1, a1, a2, a3, a4, a5, a6, a7, a8, -, -⟩ :=
      gray_value_spec hc v (hv v (List.mem_cons_self _ _))
    have hv1 : ∀ w ∈ rest, c1.valid w = true := by
      intro w hw
      rw [same_heap_valid a2 w]
      exact hv w (List.mem_cons_of_mem _ hw)
    obtain ⟨c2, e2, b1, b2, b3, b4, b5, b6, b7, b8⟩ := ih a1 hv1
    refine ⟨c2, ?_, b1, same_heap_trans a2 b2, darker_trans a3 b3, ?_, fun q h => b5 q (a5 q h),
      ?_, b7.trans a7, by omega⟩
    · simp only [gray_values, e1, e2]
    · intro q hq
      rcases List.mem_cons.mp hq with h1 | h1
      · exact (b3 q).1 (a4 q h1.symm)
      · exact b4 q h1
    · intro q hq
      rcases b6 q hq with h1 | h1
      · rcases a6 q h1 with h2 | h2
        · exact Or.inl h2
        · exact Or.inr (by rw [h2]; exact List.mem_cons_self _ _)
      · exact Or.inr (List.mem_cons_of_mem _ h1)

/-- What blackening a gray object does. -/
theorem blackened_spec {c : Collector} (hc : c.coherent) {p : Nat} {o : GcObj}
    (h : c.objs[p]? = some (some o)) (hg : o.color = .GRAY) :
    (c.blackened p o).coherent ∧ c.same_heap (c.blackened p o) ∧
    c.darker (c.blackened p o) ∧
    (c.blackened p o).color p = some .BLACK ∧
    (c.blackened p o).gray_objs = c.gray_objs.filter (fun q => q != p) ∧
    (c.blackened p o).black_objs = c.black_objs ++ [p] ∧
    (c.blackened p o).white_objs = c.white_objs ∧
    (c.blackened p o).gray_objs.length < c.gray_objs.length := by
  have hcol : ∀ q, (c.blackened p o).color q = if q = p then some .BLACK else c.color q :=
    recolor_color c _ p o .BLACK h rfl
  have hcp : c.color p = some .GRAY := by rw [color_of_obj h, hg]
  have hpg : p ∈ c.gray_objs := (hc p).2.1.2 hcp
  have hpw : p ∉ c.white_objs := fun hw => by
    have := (hc p).1.1 hw
    rw [hcp] at this
    cases this
  have hpb : p ∉ c.black_objs := fun hb => by
    have := (hc p).2.2.1 hb
    rw [hcp] at this
    cases this
  have ew : (c.blackened p o).white_objs = c.white_objs := by
    show c.white_objs.filter _ = _
    rw [filter_ne_self hpw]
  have eb : (c.blackened p o).black_objs = c.black_objs ++ [p] := by
    show c.black_objs.filter _ ++ [p] = _
    rw [filter_ne_self hpb]
  have eg : (c.blackened p o).gray_objs = c.gray_objs.filter (fun q => q != p) := rfl
  refine ⟨?_, ?_, ?_, ?_, eg, eb, ew, ?_⟩
  · intro q
    rw [hcol q, eg, eb, ew]
    by_cases hq : q = p
    · subst hq
      simp [mem_filter_ne, hpw]
    · simp only [if_neg hq, mem_filter_ne, List.mem_append, List.mem_singleton]
      refine ⟨(hc q).1, ?_, ?_⟩
      · rw [← (hc q).2.1]
        exact ⟨fun hh => hh.1, fun hh => ⟨hh, hq⟩⟩
      · rw [← (hc q).2.2]
        exact ⟨fun hh => hh.elim id (fun e => absurd e hq), fun hh => Or.inl hh⟩
  · exact ⟨rfl, rfl, rfl, by simp [Collector.blackened], recolor_content c _ p o .BLACK h rfl⟩
  · intro q
    rw [hcol q]
    by_cases hq : q = p
    · subst hq
      simp
    · simp [hq]
  · rw [hcol p, if_pos rfl]
  · rw [eg]
    exact length_filter_ne_lt hpg

theorem traced_values_refs {h : HObj} {vs : List Value} (e : traced_values h = some vs) :
    vs = h.refs := by
  cases h with
  | record attrs =>
    cases attrs with
    | none => cases e
    | some a => simpa [traced_values, HObj.refs] using e.symm
  | _ => simpa [traced_values, HObj.refs] using e.symm

theorem traced_values_none {h : HObj} (e : traced_values h = none) : h = .record none := by
  cases h with
  | record attrs =>
    cases attrs with
    | none => rfl
    | some a => cases e
  | _ => cases e

/-- One turn of the loop of `mark_objs`. -/
theorem mark_objs_turn {fuel : Nat} {c c1 : Collector} {current : Nat} {rest : List Nat}
    {o o1 : GcObj} {values : List Value} (hg : c.gray_objs = current :: rest)
    (ho : c.objs[current]? = some (some o)) (ht : traced_values o.obj = some values)
    (hv : gray_values values c = some c1) (ho1 : c1.objs[current]? = some (some o1)) :
    mark_objs (fuel + 1) c = mark_objs fuel (c1.blackened current o1) := by
  simp only [mark_objs, hg, ho, ht, hv, set_color_eq current .BLACK c1 o1 ho1, obj_list_remove,
    Collector.blackened]

/-- The loop of `mark_objs`: with fuel for every object that is white or gray it
ends with an empty gray list, unless it meets a record whose `attrs` is null. -/
theorem mark_objs_spec (c0 : Collector) (roots : List Value)
    (hrefs : ∀ p v, v ∈ c0.refs p → c0.valid v = true) :
    ∀ (fuel : Nat) (c : Collector), c.coherent → c0.same_heap c → c.tricolor →
      c0.marked_in_reach roots c → c.white_objs.length + c.gray_objs.length ≤ fuel →
      (∃ c1, mark_objs fuel c = .ok c1 ∧ c1.coherent ∧ c0.same_heap c1 ∧ c.darker c1 ∧
        c1.tricolor ∧ c0.marked_in_reach roots c1 ∧ c1.gray_objs = [] ∧
        (∀ p ∈ c.gray_objs, c0.content p ≠ some (.record none))) ∨
      (mark_objs fuel c = .ub ∧ ∃ p, c0.content p = some (.record none)) := by
  intro fuel
  induction fuel with
  | zero =>
    intro c hc hs ht hr hm
    have hg : c.gray_objs = [] := List.length_eq_zero.mp (by omega)
    refine Or.inl ⟨c, by simp [mark_objs, hg], hc, hs, darker_refl c, ht, hr, hg, ?_⟩
    intro p hp
    rw [hg] at hp
    cases hp
  | succ fuel ih =>
    intro c hc hs ht hr hm
    cases hgl : c.gray_objs with
    | nil =>
      refine Or.inl ⟨c, by simp [mark_objs, hgl], hc, hs, darker_refl c, ht, hr, hgl, ?_⟩
      intro p hp
      cases hp
    | cons current rest =>
      have hcur : current ∈ c.gray_objs := by rw [hgl]; exact List.mem_cons_self _ _
      obtain ⟨o, ho, hcolor⟩ := color_eq_some ((hc current).2.1.1 hcur)
      have hcont : c0.content current = some o.obj := by
        rw [← hs.2.2.2.2 current]
        exact content_of_obj ho
      cases htr : traced_values o.obj with
      | none =>
        refine Or.inr ⟨by simp [mark_objs, hgl, ho, htr], current, ?_⟩
        rw [hcont, traced_values_none htr]
      | some values =>
        have hvr : values = c0.refs current := by
          rw [traced_values_refs htr]
          simp [Collector.refs, hcont]
        have hval : ∀ v ∈ values, c.valid v = true := by
          intro v hv
          rw [same_heap_valid hs v]
          exact hrefs current v (hvr ▸ hv)
        obtain ⟨c1, e1, b1, b2, b3, b4, b5, b6, b7, b8⟩ := gray_values_spec values hc hval
        obtain ⟨o1, ho1, hcol1⟩ := color_eq_some ((b1 current).2.1.1 (b5 current hcur))
        obtain ⟨k1, k2, k3, k4, k5, k6, k7, k8⟩ := blackened_spec b1 ho1 hcol1
        have hturn : mark_objs (fuel + 1) c = mark_objs fuel (c1.blackened current o1) :=
          mark_objs_turn hgl ho htr e1 ho1
        have hs3 : c0.same_heap (c1.blackened current o1) :=
          same_heap_trans hs (same_heap_trans b2 k2)
        have hd3 : c.darker (c1.blackened current o1) := darker_trans b3 k3
        have ht3 : (c1.blackened current o1).tricolor := by
          intro p hp q hq
          rw [k6, b7] at hp
          rw [same_heap_refs k2 p, same_heap_refs b2 p] at hq
          rcases List.mem_append.mp hp with h1 | h1
          · exact (hd3 q).1 (ht p h1 q hq)
          · rw [List.mem_singleton.mp h1] at hq
            have hq2 : Value.obj q ∈ values := by
              rw [hvr, ← same_heap_refs hs current]
              exact hq
            exact (k3 q).1 (b4 q hq2)
        have hr3 : c0.marked_in_reach roots (c1.blackened current o1) := by
          have hcs : c0.scanned roots current := hr current (Or.inl hcur)
          intro p hp
          rcases hp with h1 | h1
          · rw [k5] at h1
            have h2 := (mem_filter_ne.mp h1).1
            rcases b6 p h2 with h3 | h3
            · exact hr p (Or.inl h3)
            · exact Collector.scanned.ref current p hcs (hvr ▸ h3)
          · rw [k6, b7] at h1
            rcases List.mem_append.mp h1 with h2 | h2
            · exact hr p (Or.inr h2)
            · rw [List.mem_singleton.mp h2]
              exact hcs
        have hm3 : (c1.blackened current o1).white_objs.length
            + (c1.blackened current o1).gray_objs.length ≤ fuel := by
          rw [k7]
          omega
        have hnull : o.obj ≠ .record none := by
          intro e
          rw [e] at htr
          cases htr
        rcases ih (c1.blackened current o1) k1 hs3 ht3 hr3 hm3 with
          ⟨c2, m1, m2, m3, m4, m5, m6, m7, m9⟩ | ⟨m1, m2⟩
        · refine Or.inl ⟨c2, by rw [hturn]; exact m1, m2, m3, darker_trans hd3 m4, m5, m6, m7,
            ?_⟩
          · intro p hp
            by_cases hpc : p = current
            · rw [hpc, hcont]
              intro e
              exact hnull (Option.some.inj e)
            · apply m9 p
              rw [k5]
              exact mem_filter_ne.mpr ⟨b5 p (by rw [hgl]; exact hp), hpc⟩
        · exact Or.inr ⟨by rw [hturn]; exact m1, m2⟩

theorem scan_step_refl {c0 : Collector} {roots : List Value} {c : Collector}
    (h : c0.scanning roots c) : c0.scan_step roots c c :=
  ⟨h, darker_refl c, rfl, le_refl _, le_refl _⟩

theorem scan_step_trans {c0 : Collector} {roots : List Value} {a b c : Collector}
    (h1 : c0.scan_step roots a b) (h2 : c0.scan_step roots b c) : c0.scan_step roots a c :=
  ⟨h2.1, darker_trans h1.2.1 h2.2.1, h2.2.2.1.trans h1.2.2.1, le_trans h2.2.2.2.1 h1.2.2.2.1,
    le_trans h2.2.2.2.2 h1.2.2.2.2⟩

/-- The root scan of one value. -/
theorem gray_value_scan {c0 : Collector} {roots : List Value} {c : Collector}
    (hpre : c0.scanning roots c) (v : Value) (hv : c0.valid v = true)
    (hsc : ∀ q, v = .obj q → c0.scanned roots q) :
    ∃ c1 r, gray_value v c = some (c1, r) ∧ c0.scan_step roots c c1 ∧
      (∀ q, v = .obj q → c1.color q ≠ some .WHITE) ∧
      (∀ x, r = some x → ∃ p, v = .obj p ∧ c0.content p = some x ∧
        c1.white_objs.length < c.white_objs.length) := by
  obtain ⟨hc, hs, hr⟩ := hpre
  obtain ⟨c1, r, e1, a1, a2, a3, a4, a5, a6, a7, a8, a9, a10⟩ :=
    gray_value_spec hc v (by rw [same_heap_valid hs v]; exact hv)
  refine ⟨c1, r, e1, ⟨⟨a1, same_heap_trans hs a2, ?_⟩, a3, a7, a8, a9⟩, a4, ?_⟩
  · intro p hp
    rcases hp with h1 | h1
    · rcases a6 p h1 with h2 | h2
      · exact hr p (Or.inl h2)
      · exact hsc p h2
    · rw [a7] at h1
      exact hr p (Or.inr h1)
  · intro x hx
    obtain ⟨p, hp, hcont, hlt⟩ := a10 x hx
    exact ⟨p, hp, by rw [← hs.2.2.2.2 p]; exact hcont, hlt⟩

theorem prepare_globals_loop_cons_module {again : Nat → Collector → Collected}
    {name : String} {gv : GlobalValue} {rest : List (String × GlobalValue)} {c c1 : Collector}
    {m : Nat} (h : gray_value gv.value c = some (c1, some (.module m))) :
    prepare_globals_loop again ((name, gv) :: rest) c
      = (again m c1).bind (prepare_globals_loop again rest) := by
  simp only [prepare_globals_loop, h]

theorem prepare_globals_loop_cons_other {again : Nat → Collector → Collected}
    {name : String} {gv : GlobalValue} {rest : List (String × GlobalValue)} {c c1 : Collector}
    {r : Option HObj} (h : gray_value gv.value c = some (c1, r))
    (hr : ∀ m, r ≠ some (.module m)) :
    prepare_globals_loop again ((name, gv) :: rest) c = prepare_globals_loop again rest c1 := by
  cases r with
  | none => simp only [prepare_globals_loop, h]
  | some x =>
    cases x with
    | module m => exact absurd rfl (hr m)
    | _ => simp only [prepare_globals_loop, h]

/-- The loop over the globals of a module, given what the recursive call does
on states with fewer than `n` white objects. -/
theorem prepare_globals_loop_spec (c0 : Collector) (roots : List Value) (hclosed : c0.closed)
    (again : Nat → Collector → Collected) (n : Nat)
    (hagain : ∀ m c, c0.scanning roots c → m < c0.modules.length →
      (∀ q, Value.obj q ∈ c0.global_values m → c0.scanned roots q) →
      c.white_objs.length < n → ∃ c1, again m c = .ok c1 ∧ c0.scan_step roots c c1) :
    ∀ (globals : List (String × GlobalValue)) (c : Collector), c0.scanning roots c →
      (∀ g ∈ globals, c0.valid g.2.value = true ∧
        ∀ q, g.2.value = .obj q → c0.scanned roots q) →
      c.white_objs.length < n + 1 →
      ∃ c1, prepare_globals_loop again globals c = .ok c1 ∧ c0.scan_step roots c c1 ∧
        ∀ g ∈ globals, ∀ q, g.2.value = .obj q → c1.color q ≠ some .WHITE := by
  intro globals
  induction globals with
  | nil =>
    intro c hpre _ _
    exact ⟨c, rfl, scan_step_refl hpre, fun g hg => (by cases hg)⟩
  | cons g rest ih =>
    intro c hpre hg hlen
    obtain ⟨name, gv⟩ := g
    obtain ⟨hval, hsc⟩ := hg (name, gv) (List.mem_cons_self _ _)
    obtain ⟨c1, r, e1, s1, nw1, hr⟩ := gray_value_scan hpre gv.value hval hsc
    have hrest : ∀ g ∈ rest, c0.valid g.2.value = true ∧
        ∀ q, g.2.value = .obj q → c0.scanned roots q :=
      fun g hg' => hg g (List.mem_cons_of_mem _ hg')
    by_cases hm : ∃ m, r = some (.module m)
    · obtain ⟨m, rfl⟩ := hm
      obtain ⟨p, hp, hcont, hlt⟩ := hr _ rfl
      have hplt : p < c0.objs.length := by
        obtain ⟨o, ho, _⟩ := content_eq_some hcont
        exact obj_lt ho
      have hmlt : m < c0.modules.length := by
        have := (hclosed.2.2.1 p hplt).2
        simpa [Collector.valid_module, hcont] using this
      have hgm : ∀ q, Value.obj q ∈ c0.global_values m → c0.scanned roots q :=
        fun q hq => Collector.scanned.global p m q (hsc p hp) hcont hq
      obtain ⟨c2, e2, s2⟩ := hagain m c1 s1.1 hmlt hgm (by omega)
      obtain ⟨c3, e3, s3, nw3⟩ := ih c2 s2.1 hrest (by have := s2.2.2.2.2; omega)
      refine ⟨c3, ?_, scan_step_trans s1 (scan_step_trans s2 s3), ?_⟩
      · rw [prepare_globals_loop_cons_module e1, e2]
        exact e3
      · intro g' hg' q hq
        rcases List.mem_cons.mp hg' with h1 | h1
        · rw [h1] at hq
          exact (s3.2.1 q).1 ((s2.2.1 q).1 (nw1 q hq))
        · exact nw3 g' h1 q hq
    · have hno : ∀ m, r ≠ some (.module m) := fun m e => hm ⟨m, e⟩
      obtain ⟨c3, e3, s3, nw3⟩ := ih c1 s1.1 hrest (by have := s1.2.2.2.2; omega)
      refine ⟨c3, ?_, scan_step_trans s1 s3, ?_⟩
      · rw [prepare_globals_loop_cons_other e1 hno]
        exact e3
      · intro g' hg' q hq
        rcases List.mem_cons.mp hg' with h1 | h1
        · rw [h1] at hq
          exact (s3.2.1 q).1 (nw1 q hq)
        · exact nw3 g' h1 q hq

/-- `prepare_module_globals`: with fuel for every white object it scans the
globals of the module and of every module met through a module object. -/
theorem prepare_module_globals_spec (c0 : Collector) (roots : List Value)
    (hclosed : c0.closed) :
    ∀ (fuel m : Nat) (c : Collector), c0.scanning roots c → m < c0.modules.length →
      (∀ q, Value.obj q ∈ c0.global_values m → c0.scanned roots q) →
      c.white_objs.length < fuel →
      ∃ c1, prepare_module_globals fuel m c = .ok c1 ∧ c0.scan_step roots c c1 ∧
        ∀ q, Value.obj q ∈ c0.global_values m → c1.color q ≠ some .WHITE := by
  intro fuel
  induction fuel with
  | zero =>
    intro m c _ _ _ hlen
    omega
  | succ fuel ih =>
    intro m c hpre hm hg hlen
    have hM : c0.modules[m]? = some c0.modules[m] := List.getElem?_eq_getElem hm
    have hMc : c.modules[m]? = some c0.modules[m] := by rw [hpre.2.1.2.1]; exact hM
    have hgv : c0.global_values m = c0.modules[m].globals.map (fun kv => kv.2.value) := by
      simp [Collector.global_values, hM]
    have hvals : ∀ g ∈ c0.modules[m].globals, c0.valid g.2.value = true ∧
        ∀ q, g.2.value = .obj q → c0.scanned roots q := by
      intro g hgm
      have hmem : g.2.value ∈ c0.global_values m := by
        rw [hgv]
        exact List.mem_map.mpr ⟨g, hgm, rfl⟩
      exact ⟨hclosed.2.1 m hm _ hmem, fun q hq => hg q (hq ▸ hmem)⟩
    obtain ⟨c1, e1, s1, nw⟩ := prepare_globals_loop_spec c0 roots hclosed
      (prepare_module_globals fuel) fuel
      (fun m c h1 h2 h3 h4 => by
        obtain ⟨c1, e, s, _⟩ := ih m c h1 h2 h3 h4
        exact ⟨c1, e, s⟩)
      c0.modules[m].globals c hpre hvals (by omega)
    refine ⟨c1, ?_, s1, ?_⟩
    · simp only [prepare_module_globals, hMc]
      exact e1
    · intro q hq
      rw [hgv] at hq
      obtain ⟨g, hgm, hgq⟩ := List.mem_map.mp hq
      exact nw g hgm q hgq

theorem prepare_stack_loop_eq (fuel : Nat) :
    ∀ (slots : List Value) (c : Collector),
      prepare_stack_loop fuel slots c
        = prepare_globals_loop (prepare_module_globals fuel)
            (slots.map (fun v => ("", ({ access := .PRIVATE, value := v } : GlobalValue)))) c := by
  intro slots
  induction slots with
  | nil => intro c; rfl
  | cons v rest ih =>
    intro c
    have hf : prepare_stack_loop fuel rest
        = prepare_globals_loop (prepare_module_globals fuel)
            (rest.map (fun v => ("", ({ access := .PRIVATE, value := v } : GlobalValue)))) :=
      funext ih
    cases hg : gray_value v c with
    | none => simp only [prepare_stack_loop, prepare_globals_loop, List.map_cons, hg]
    | some x =>
      obtain ⟨c1, r⟩ := x
      cases r with
      | none => simp only [prepare_stack_loop, prepare_globals_loop, List.map_cons, hg, ih]
      | some o =>
        cases o <;>
          simp only [prepare_stack_loop, prepare_globals_loop, List.map_cons, hg, ih, hf]

theorem idle_coherent {c : Collector} (h : c.idle) : c.coherent := by
  obtain ⟨hg, hb, hw, hall⟩ := h
  intro p
  have hlt : ∀ col, c.color p = some col → p < c.objs.length := by
    intro col hcol
    obtain ⟨o, ho, _⟩ := color_eq_some hcol
    exact obj_lt ho
  refine ⟨⟨hw p, fun hc => (hall p (hlt _ hc)).1 hc⟩, ?_, ?_⟩
  · rw [hg]
    exact ⟨fun hm => (by cases hm), fun hc => absurd hc (hall p (hlt _ hc)).2.1⟩
  · rw [hb]
    exact ⟨fun hm => (by cases hm), fun hc => absurd hc (hall p (hlt _ hc)).2.2⟩

theorem idle_scanning {c : Collector} (h : c.idle) (roots : List Value) :
    c.scanning roots c := by
  refine ⟨idle_coherent h, same_heap_refl c, ?_⟩
  intro p hp
  rw [h.1, h.2.1] at hp
  rcases hp with h1 | h1 <;> cases h1

/-- `prepare_worklist`: the root scan completes; the objects of the stack slots
and of the globals of the module on top of the modules stack are no longer
white, and the black list is still empty. -/
theorem prepare_worklist_spec (c : Collector) (fuel : Nat) (hidle : c.idle)
    (hclosed : c.closed) (hfuel : c.white_objs.length < fuel) :
    ∃ c1, prepare_worklist fuel c = .ok c1 ∧
      c.scan_step (c.stack ++ c.top_global_values) c c1 ∧
      (∀ q, Value.obj q ∈ c.stack → c1.color q ≠ some .WHITE) ∧
      c1.black_objs = [] ∧ c1.white_objs.length + c1.gray_objs.length < fuel := by
  obtain ⟨m, hm, hms⟩ := hclosed.2.2.2
  have htop : c.top_global_values = c.global_values m := by
    simp [Collector.top_global_values, hms]
  have hpre := idle_scanning hidle (c.stack ++ c.top_global_values)
  have hgm : ∀ q, Value.obj q ∈ c.global_values m →
      c.scanned (c.stack ++ c.top_global_values) q := by
    intro q hq
    exact Collector.scanned.root q (List.mem_append_right _ (htop ▸ hq))
  obtain ⟨cA, eA, sA, -⟩ := prepare_module_globals_spec c _ hclosed fuel m c hpre hm hgm hfuel
  have hstackA : cA.stack = c.stack := sA.1.2.1.1
  have hvals : ∀ g ∈ c.stack.map
      (fun v => ("", ({ access := .PRIVATE, value := v } : GlobalValue))),
      c.valid g.2.value = true ∧
        ∀ q, g.2.value = .obj q → c.scanned (c.stack ++ c.top_global_values) q := by
    intro g hg
    obtain ⟨v, hv, rfl⟩ := List.mem_map.mp hg
    exact ⟨hclosed.1 v hv, fun q hq =>
      Collector.scanned.root q (List.mem_append_left _ (by rw [← hq]; exact hv))⟩
  obtain ⟨cB, eB, sB, nwB⟩ := prepare_globals_loop_spec c _ hclosed
    (prepare_module_globals fuel) fuel
    (fun m2 c2 h1 h2 h3 h4 => by
      obtain ⟨c1, e, s, _⟩ := prepare_module_globals_spec c _ hclosed fuel m2 c2 h1 h2 h3 h4
      exact ⟨c1, e, s⟩)
    _ cA sA.1 hvals (by have := sA.2.2.2.2; omega)
  have sAB := scan_step_trans sA sB
  refine ⟨cB, ?_, sAB, ?_, ?_, ?_⟩
  · simp only [prepare_worklist, hms, eA, Collected.bind, hstackA, prepare_stack_loop_eq]
    exact eB
  · intro q hq
    exact nwB ("", { access := .PRIVATE, value := .obj q })
      (List.mem_map.mpr ⟨.obj q, hq, rfl⟩) q rfl
  · rw [sAB.2.2.1, hidle.2.1]
  · have := sAB.2.2.2.1
    rw [hidle.1] at this
    simp only [List.length_nil] at this
    omega

theorem foldl_set_none (l : List Nat) :
    ∀ (objs : List (Option GcObj)) (q : Nat),
      (l.foldl (fun objs p => objs.set p none) objs)[q]?
        = if q ∈ l ∧ q < objs.length then some none else objs[q]? := by
  induction l with
  | nil => intro objs q; simp
  | cons a rest ih =>
    intro objs q
    rw [List.foldl_cons, ih (objs.set a none) q, List.length_set]
    by_cases hq : q < objs.length
    · by_cases hr : q ∈ rest
      · simp [hr, hq]
      · by_cases ha : q = a
        · subst ha
          simp [hq]
        · have ha2 : ¬ a = q := fun e => ha e.symm
          simp [hr, ha, List.getElem?_set_ne ha2]
    · have hn : (objs.set a none)[q]? = objs[q]? := by
        rw [List.getElem?_eq_none (by rw [List.length_set]; omega),
          List.getElem?_eq_none (by omega)]
      simp [hq, hn]

/-- What `sweep_objs` does to a coherent state. -/
theorem sweep_objs_spec {c : Collector} (hc : c.coherent) :
    (sweep_objs c).coherent ∧ (sweep_objs c).white_objs = [] ∧
    (sweep_objs c).gray_objs = c.gray_objs ∧ (sweep_objs c).black_objs = c.black_objs ∧
    (∀ p ∈ c.white_objs, (sweep_objs c).objs[p]? = some none) ∧
    (∀ p, p ∉ c.white_objs → (sweep_objs c).objs[p]? = c.objs[p]?) := by
  have hobj : ∀ q, (sweep_objs c).objs[q]?
      = if q ∈ c.white_objs ∧ q < c.objs.length then some none else c.objs[q]? :=
    fun q => foldl_set_none c.white_objs c.objs q
  have hin : ∀ p ∈ c.white_objs, (sweep_objs c).objs[p]? = some none := by
    intro p hp
    obtain ⟨o, ho, _⟩ := color_eq_some ((hc p).1.1 hp)
    rw [hobj p, if_pos ⟨hp, obj_lt ho⟩]
  have hout : ∀ p, p ∉ c.white_objs → (sweep_objs c).objs[p]? = c.objs[p]? := by
    intro p hp
    rw [hobj p, if_neg (fun h => hp h.1)]
  have hcol : ∀ p, (sweep_objs c).color p
      = if p ∈ c.white_objs then none else c.color p := by
    intro p
    unfold Collector.color
    by_cases hp : p ∈ c.white_objs
    · rw [hin p hp, if_pos hp]
    · rw [hout p hp, if_neg hp]
  refine ⟨?_, rfl, rfl, rfl, hin, hout⟩
  intro p
  rw [hcol p]
  show (p ∈ ([] : List Nat) ↔ _) ∧ (p ∈ c.gray_objs ↔ _) ∧ (p ∈ c.black_objs ↔ _)
  by_cases hp : p ∈ c.white_objs
  · have hw := (hc p).1.1 hp
    rw [if_pos hp]
    refine ⟨by simp, ?_, ?_⟩
    · constructor
      · intro hg
        have := (hc p).2.1.1 hg
        rw [hw] at this
        cases this
      · intro h
        cases h
    · constructor
      · intro hb
        have := (hc p).2.2.1 hb
        rw [hw] at this
        cases this
      · intro h
        cases h
  · rw [if_neg hp]
    refine ⟨?_, (hc p).2.1, (hc p).2.2⟩
    constructor
    · intro h
      cases h
    · intro h
      exact absurd ((hc p).1.2 h) hp

/-- What whitening an alive object does. -/
theorem whitened_spec {c : Collector} (hc : c.coherent) {p : Nat} {o : GcObj}
    (h : c.objs[p]? = some (some o)) :
    (c.whitened p o).coherent ∧ (c.whitened p o).color p = some .WHITE ∧
    (∀ q, q ≠ p → (c.whitened p o).objs[q]? = c.objs[q]?) ∧
    (c.whitened p o).objs[p]? = some (some { o with color := .WHITE }) ∧
    (∀ q, q ∈ (c.whitened p o).gray_objs ↔ q ∈ c.gray_objs ∧ q ≠ p) ∧
    (∀ q, q ∈ (c.whitened p o).black_objs ↔ q ∈ c.black_objs ∧ q ≠ p) := by
  have hcol : ∀ q, (c.whitened p o).color q = if q = p then some .WHITE else c.color q :=
    recolor_color c _ p o .WHITE h rfl
  have hobjs : ∀ q, (c.whitened p o).objs[q]?
      = if q = p then some (some { o with color := .WHITE }) else c.objs[q]? :=
    fun q => objs_set_color c.objs p q o _ h
  refine ⟨?_, by rw [hcol p, if_pos rfl], fun q hq => by rw [hobjs q, if_neg hq],
    by rw [hobjs p, if_pos rfl], fun q => mem_filter_ne, fun q => mem_filter_ne⟩
  intro q
  rw [hcol q]
  show (q ∈ c.white_objs.filter _ ++ [p] ↔ _) ∧ (q ∈ c.gray_objs.filter _ ↔ _) ∧
    (q ∈ c.black_objs.filter _ ↔ _)
  by_cases hq : q = p
  · subst hq
    simp [mem_filter_ne]
  · simp only [if_neg hq, mem_filter_ne, List.mem_append, List.mem_singleton]
    refine ⟨?_, ?_, ?_⟩
    · rw [← (hc q).1]
      exact ⟨fun hh => hh.elim (fun x => x.1) (fun e => absurd e hq), fun hh => Or.inl ⟨hh, hq⟩⟩
    · rw [← (hc q).2.1]
      exact ⟨fun hh => hh.1, fun hh => ⟨hh, hq⟩⟩
    · rw [← (hc q).2.2]
      exact ⟨fun hh => hh.1, fun hh => ⟨hh, hq⟩⟩

theorem normalize_turn_eq {c : Collector} {p : Nat} {o : GcObj}
    (h : c.objs[p]? = some (some o)) : normalize_turn c p = c.whitened p o := by
  simp only [normalize_turn, set_color_eq p .WHITE c o h, obj_list_remove, Collector.whitened]

theorem normalize_objs_eq (c : Collector) :
    normalize_objs c = c.black_objs.foldl normalize_turn c := rfl

/-- The loop of `normalize_objs` over a list of alive objects. -/
theorem normalize_fold_spec (l : List Nat) :
    ∀ (c : Collector), c.coherent → (∀ p ∈ l, ∃ o, c.objs[p]? = some (some o)) →
      (l.foldl normalize_turn c).coherent ∧
      (∀ q, q ∈ (l.foldl normalize_turn c).gray_objs ↔ q ∈ c.gray_objs ∧ q ∉ l) ∧
      (∀ q, q ∈ (l.foldl normalize_turn c).black_objs ↔ q ∈ c.black_objs ∧ q ∉ l) ∧
      (∀ q ∈ l, (l.foldl normalize_turn c).color q = some .WHITE) ∧
      (∀ q : Nat, q ∉ l → (l.foldl normalize_turn c).objs[q]? = c.objs[q]?) ∧
      (∀ q : Nat, c.objs[q]? = some none →
        (l.foldl normalize_turn c).objs[q]? = some none) := by
  induction l with
  | nil =>
    intro c hc _
    exact ⟨hc, fun q => (by simp), fun q => (by simp), fun q hq => (by cases hq),
      fun q _ => rfl, fun q h => h⟩
  | cons p rest ih =>
    intro c hc halive
    obtain ⟨o, ho⟩ := halive p (List.mem_cons_self _ _)
    obtain ⟨w1, w2, w3, w4, w5, w6⟩ := whitened_spec hc ho
    have halive2 : ∀ q ∈ rest, ∃ o2, (c.whitened p o).objs[q]? = some (some o2) := by
      intro q hq
      by_cases hqp : q = p
      · rw [hqp]
        exact ⟨_, w4⟩
      · obtain ⟨o2, ho2⟩ := halive q (List.mem_cons_of_mem _ hq)
        exact ⟨o2, by rw [w3 q hqp]; exact ho2⟩
    obtain ⟨i1, i2, i3, i4, i5, i6⟩ := ih (c.whitened p o) w1 halive2
    rw [List.foldl_cons, normalize_turn_eq ho]
    refine ⟨i1, ?_, ?_, ?_, ?_, ?_⟩
    · intro q
      rw [i2 q, w5 q]
      simp only [List.mem_cons, not_or]
      tauto
    · intro q
      rw [i3 q, w6 q]
      simp only [List.mem_cons, not_or]
      tauto
    · intro q hq
      by_cases hr : q ∈ rest
      · exact i4 q hr
      · have hqp : q = p := by
          rcases List.mem_cons.mp hq with h1 | h1
          · exact h1
          · exact absurd h1 hr
        rw [hqp] at hr ⊢
        have e := i5 p hr
        rw [w4] at e
        rw [color_of_obj e]
    · intro q hq
      have hqp : q ≠ p := fun e => hq (e ▸ List.mem_cons_self _ _)
      have hqr : q ∉ rest := fun h => hq (List.mem_cons_of_mem _ h)
      rw [i5 q hqr, w3 q hqp]
    · intro q hq
      apply i6 q
      by_cases hqp : q = p
      · rw [hqp, ho] at hq
        cases hq
      · rw [w3 q hqp]
        exact hq

/-- `sweep_objs` and `normalize_objs` after a marking that left no gray
object. -/
theorem sweep_normalize_spec {c : Collector} (hc : c.coherent) (hg : c.gray_objs = []) :
    (normalize_objs (sweep_objs c)).gray_objs = [] ∧
    (normalize_objs (sweep_objs c)).black_objs = [] ∧
    (∀ p ∈ c.black_objs, (normalize_objs (sweep_objs c)).white_alive p) ∧
    (∀ p ∈ c.white_objs, (normalize_objs (sweep_objs c)).destroyed p) := by
  obtain ⟨s1, s2, s3, s4, s5, s6⟩ := sweep_objs_spec hc
  have halive : ∀ p ∈ (sweep_objs c).black_objs,
      ∃ o, (sweep_objs c).objs[p]? = some (some o) := by
    intro p hp
    rw [s4] at hp
    have hb := (hc p).2.2.1 hp
    obtain ⟨o, ho, _⟩ := color_eq_some hb
    have hnw : p ∉ c.white_objs := by
      intro hw
      have := (hc p).1.1 hw
      rw [hb] at this
      cases this
    exact ⟨o, by rw [s6 p hnw]; exact ho⟩
  obtain ⟨n1, n2, n3, n4, n5, n6⟩ :=
    normalize_fold_spec (sweep_objs c).black_objs (sweep_objs c) s1 halive
  rw [normalize_objs_eq]
  refine ⟨?_, ?_, ?_, ?_⟩
  · apply List.eq_nil_iff_forall_not_mem.mpr
    intro q hq
    have := ((n2 q).mp hq).1
    rw [s3, hg] at this
    cases this
  · apply List.eq_nil_iff_forall_not_mem.mpr
    intro q hq
    have := (n3 q).mp hq
    exact this.2 this.1
  · intro p hp
    have hcol := n4 p (by rw [s4]; exact hp)
    exact ⟨hcol, (n1 p).1.2 hcol⟩
  · intro p hp
    exact n6 p (s5 p hp)

theorem refs_valid {c : Collector} (hclosed : c.closed) :
    ∀ p v, v ∈ c.refs p → c.valid v = true := by
  intro p v hv
  by_cases hlt : p < c.objs.length
  · exact (hclosed.2.2.1 p hlt).1 v hv
  · have : c.refs p = [] := by
      simp [Collector.refs, Collector.content, List.getElem?_eq_none (Nat.le_of_not_lt hlt)]
    rw [this] at hv
    cases hv

theorem color_of_content {c : Collector} {p : Nat} {x : HObj} (h : c.content p = some x) :
    ∃ col, c.color p = some col := by
  obtain ⟨o, ho, _⟩ := content_eq_some h
  exact ⟨o.color, color_of_obj ho⟩

theorem content_of_valid {c : Collector} {p : Nat} (h : c.valid (.obj p) = true) :
    ∃ x, c.content p = some x := by
  obtain ⟨o, ho⟩ := valid_obj h
  exact ⟨o.obj, content_of_obj ho⟩

theorem content_lt {c : Collector} {p : Nat} {x : HObj} (h : c.content p = some x) :
    p < c.objs.length := by
  obtain ⟨o, ho, _⟩ := content_eq_some h
  exact obj_lt ho

/-- An alive object that is neither white nor transparent, in a coherent state
without gray objects, is black. -/
theorem black_of_not_white {c : Collector} (hc : c.coherent) (hg : c.gray_objs = [])
    {p : Nat} {x : HObj} (h : c.content p = some x) (hw : c.color p ≠ some .WHITE)
    (ht : c.color p ≠ some .TRANSPARENT) : p ∈ c.black_objs := by
  obtain ⟨col, hcol⟩ := color_of_content h
  cases col with
  | WHITE => exact absurd hcol hw
  | TRANSPARENT => exact absurd hcol ht
  | GRAY =>
    have := (hc p).2.1.2 hcol
    rw [hg] at this
    cases this
  | BLACK => exact (hc p).2.2.2 hcol

/-- What a collection does up to the end of the marking. -/
theorem marked_spec (c : Collector) (fuel : Nat) (hidle : c.idle) (hclosed : c.closed)
    (hfuel : c.white_objs.length < fuel) :
    ∃ cP, prepare_worklist fuel c = .ok cP ∧ c.darker cP ∧ cP.coherent ∧ c.same_heap cP ∧
      cP.black_objs = [] ∧ (∀ q, Value.obj q ∈ c.stack → cP.color q ≠ some .WHITE) ∧
      ((∃ c1, mark_objs fuel cP = .ok c1 ∧ c1.coherent ∧ c.same_heap c1 ∧ cP.darker c1 ∧
          c1.tricolor ∧ c.marked_in_reach (c.stack ++ c.top_global_values) c1 ∧
          c1.gray_objs = [] ∧ (∀ p ∈ cP.gray_objs, c.content p ≠ some (.record none))) ∨
        (mark_objs fuel cP = .ub ∧ ∃ p, c.content p = some (.record none))) := by
  obtain ⟨cP, eP, sP, nwP, bP, mP⟩ := prepare_worklist_spec c fuel hidle hclosed hfuel
  have htri : cP.tricolor := by
    intro p hp
    rw [bP] at hp
    cases hp
  exact ⟨cP, eP, sP.2.1, sP.1.1, sP.1.2.1, bP, nwP,
    mark_objs_spec c _ (refs_valid hclosed) fuel cP sP.1.1 sP.1.2.1 htri sP.1.2.2 (by omega)⟩

/-- C24 on the code. Start from a state between two collections in which no
pointer dangles and every alive object is in the white list, with fuel for
every white object. When no alive record has null `attrs`, `vmu_gc` completes:
the gray and black lists are empty afterwards, every object reachable from a
stack slot through array elements, list items, dict keys and values, record
attribute values and bound targets of native functions is alive, white and in
the white list, and every object left in the white list by the marking has
been destroyed. When a stack slot holds a record whose `attrs` is null (the
record `OP_RECORD` creates for length 0), `mark_objs` reads `attrs->slots`
through the null pointer: the collection has undefined behaviour. -/
theorem vmu_gc_keeps_reachable_and_sweeps_white (c : Collector) (fuel : Nat)
    (hidle : c.idle) (hclosed : c.closed) (hmanaged : c.managed)
    (hfuel : c.white_objs.length < fuel) :
    (c.no_null_attrs →
      ∃ c1 c2, marked fuel c = .ok c1 ∧ vmu_gc fuel c = .ok c2 ∧
        c2.gray_objs = [] ∧ c2.black_objs = [] ∧
        (∀ p, c.reachable c.stack p → c2.white_alive p) ∧
        (∀ p ∈ c1.white_objs, c2.destroyed p)) ∧
    (∀ p, Value.obj p ∈ c.stack → c.content p = some (.record none) →
      vmu_gc fuel c = .ub) ∧
    vmu_gc 3 c24_collector_empty_record = .ub := by
  obtain ⟨cP, eP, dP, hcP, hsP, bP, nwP, hmark⟩ := marked_spec c fuel hidle hclosed hfuel
  have hnt : ∀ (c1 : Collector), cP.darker c1 → ∀ p x, c.content p = some x →
      c1.color p ≠ some .TRANSPARENT := by
    intro c1 hd p x hx
    exact (hd p).2 ((dP p).2 (hmanaged p (content_lt hx)))
  refine ⟨?_, ?_, by decide⟩
  · intro hnn
    rcases hmark with ⟨c1, m1, m2, m3, m4, m5, m6, m7, -⟩ | ⟨-, p, hp⟩
    · obtain ⟨f1, f2, f3, f4⟩ := sweep_normalize_spec m2 m7
      have hblack : ∀ p, c.reachable c.stack p → p ∈ c1.black_objs := by
        intro p hp
        induction hp with
        | root q hq =>
          obtain ⟨x, hx⟩ := content_of_valid (hclosed.1 _ hq)
          exact black_of_not_white m2 m7 (by rw [m3.2.2.2.2 q]; exact hx)
            ((m4 q).1 (nwP q hq)) (hnt c1 m4 q x hx)
        | ref q r _ hr ih =>
          obtain ⟨x, hx⟩ := content_of_valid (refs_valid hclosed q _ hr)
          have hnw : c1.color r ≠ some .WHITE :=
            m5 q ih r (by rw [same_heap_refs m3 q]; exact hr)
          exact black_of_not_white m2 m7 (by rw [m3.2.2.2.2 r]; exact hx) hnw
            (hnt c1 m4 r x hx)
      refine ⟨c1, _, ?_, ?_, f1, f2, fun p hp => f3 p (hblack p hp), f4⟩
      · simp only [marked, eP, Collected.bind, m1]
      · simp only [vmu_gc, eP, Collected.bind, m1]
    · exact absurd hp (hnn p (content_lt hp))
  · intro p hps hpc
    have hpP : cP.content p = some (.record none) := by rw [hsP.2.2.2.2 p]; exact hpc
    have hgray : p ∈ cP.gray_objs := by
      obtain ⟨col, hcol⟩ := color_of_content hpP
      cases col with
      | WHITE => exact absurd hcol (nwP p hps)
      | TRANSPARENT => exact absurd hcol ((dP p).2 (hmanaged p (content_lt hpc)))
      | GRAY => exact (hcP p).2.1.2 hcol
      | BLACK =>
        have := (hcP p).2.2.2 hcol
        rw [bP] at this
        cases this
    rcases hmark with ⟨c1, m1, m2, m3, m4, m5, m6, m7, m8⟩ | ⟨m1, -⟩
    · exact absurd hpc (m8 p hgray)
    · simp only [vmu_gc, eP, Collected.bind, m1]

theorem vmu_gc_keeps_reachable_and_sweeps_white_witness :
    (c24_collector.idle ∧ c24_collector.closed ∧ c24_collector.managed ∧
      c24_collector.white_objs.length < 10) ∧
    ((c24_collector.no_null_attrs →
      ∃ c1 c2, marked 10 c24_collector = .ok c1 ∧ vmu_gc 10 c24_collector = .ok c2 ∧
        c2.gray_objs = [] ∧ c2.black_objs = [] ∧
        (∀ p, c24_collector.reachable c24_collector.stack p → c2.white_alive p) ∧
        (∀ p ∈ c1.white_objs, c2.destroyed p)) ∧
    (∀ p, Value.obj p ∈ c24_collector.stack →
      c24_collector.content p = some (.record none) → vmu_gc 10 c24_collector = .ub) ∧
    vmu_gc 3 c24_collector_empty_record = .ub) :=
  ⟨⟨by decide, by decide, by decide, by decide⟩,
    vmu_gc_keeps_reachable_and_sweeps_white c24_collector 10 (by decide) (by decide)
      (by decide) (by decide)⟩

/-- C25 on the code. `prepare_worklist` scans the stack and the globals of
`vm->modules_stack`, the module on top of the modules stack, and from there the
globals of the modules of the module objects it meets; it does not walk the
`prev` links of the modules stack. So in a state between two collections in
which no pointer dangles, an object of the white list that is not within the
reach of the scan from the stack and the globals of the top module is
destroyed by `vmu_gc`, whether or not a global of a module further down the
modules stack holds it. -/
theorem vmu_gc_roots_top_module_only (c : Collector) (fuel : Nat) (hidle : c.idle)
    (hclosed : c.closed) (hnn : c.no_null_attrs) (hfuel : c.white_objs.length < fuel)
    (p : Nat) (hp : p ∈ c.white_objs)
    (hns : ¬ c.scanned (c.stack ++ c.top_global_values) p) :
    ∃ c2, vmu_gc fuel c = .ok c2 ∧ c2.destroyed p := by
  obtain ⟨cP, eP, dP, hcP, hsP, bP, nwP, hmark⟩ := marked_spec c fuel hidle hclosed hfuel
  rcases hmark with ⟨c1, m1, m2, m3, m4, m5, m6, m7, -⟩ | ⟨-, q, hq⟩
  · obtain ⟨f1, f2, f3, f4⟩ := sweep_normalize_spec m2 m7
    refine ⟨_, by simp only [vmu_gc, eP, Collected.bind, m1], f4 p ?_⟩
    have hw : c.color p = some .WHITE := hidle.2.2.1 p hp
    obtain ⟨o, ho, _⟩ := color_eq_some hw
    have hc1 : c1.content p = some o.obj := by
      rw [m3.2.2.2.2 p]
      exact content_of_obj ho
    obtain ⟨col, hcol⟩ := color_of_content hc1
    cases col with
    | WHITE => exact (m2 p).1.2 hcol
    | TRANSPARENT =>
      exact absurd hcol ((m4 p).2 ((dP p).2 (by rw [hw]; simp)))
    | GRAY =>
      have := (m2 p).2.1.2 hcol
      rw [m7] at this
      cases this
    | BLACK => exact absurd (m6 p (Or.inr ((m2 p).2.2.2 hcol))) hns
  · exact absurd hq (hnn q (content_lt hq))

theorem c25_scanned (q : Nat)
    (h : c25_collector.scanned (c25_collector.stack ++ c25_collector.top_global_values) q) :
    q = 0 ∨ q = 1 := by
  induction h with
  | root q hq =>
    have e : c25_collector.stack ++ c25_collector.top_global_values
        = [.obj 0, .obj 1, .int 1] := by decide
    rw [e] at hq
    simpa using hq
  | ref p q _ hq ih =>
    rcases ih with h1 | h1 <;> subst h1
    · have e : c25_collector.refs 0 = [] := by decide
      rw [e] at hq
      cases hq
    · have e : c25_collector.refs 1 = [] := by decide
      rw [e] at hq
      cases hq
  | global p m q _ hc _ ih =>
    rcases ih with h1 | h1 <;> subst h1
    · have e : c25_collector.content 0 = some (.fn "entry" 0) := by decide
      rw [e] at hc
      cases hc
    · have e : c25_collector.content 1 = some (.fn "import entry" 0) := by decide
      rw [e] at hc
      cases hc

theorem vmu_gc_roots_top_module_only_witness :
    (c25_collector.idle ∧ c25_collector.closed ∧ c25_collector.no_null_attrs ∧
      c25_collector.white_objs.length < 4 ∧ 2 ∈ c25_collector.white_objs ∧
      ¬ c25_collector.scanned (c25_collector.stack ++ c25_collector.top_global_values) 2) ∧
    (Value.obj 2 ∈ c25_collector.stacked_global_values 2 c25_collector.modules_stack ∧
      ∃ c3, vmu_gc 4 c25_collector_main = .ok c3 ∧ c3.white_alive 2) ∧
    ∃ c2, vmu_gc 4 c25_collector = .ok c2 ∧ c2.destroyed 2 :=
  have hns : ¬ c25_collector.scanned
      (c25_collector.stack ++ c25_collector.top_global_values) 2 := fun h => by
    rcases c25_scanned 2 h with h1 | h1 <;> cases h1
  ⟨⟨by decide, by decide, by decide, by decide, by decide, hns⟩,
    ⟨by decide, _, rfl, by decide⟩,
    vmu_gc_roots_top_module_only c25_collector 4 (by decide) (by decide) (by decide)
      (by decide) 2 (by decide) hns⟩

/-! ## The stringifier -/

theorem on_path_iff (pass : Pass) (obj : Nat) : on_path pass obj = true ↔ obj ∈ path_objs pass := by
  unfold on_path path_objs
  simp only [List.any_eq_true, Bool.and_eq_true, beq_iff_eq, List.mem_map, List.mem_filter]
  constructor
  · rintro ⟨node, hn, h2, h1⟩
    exact ⟨node, ⟨hn, h2⟩, h1⟩
  · rintro ⟨node, ⟨hn, h2⟩, h1⟩
    exact ⟨node, hn, h2, h1⟩

theorem path_objs_next_pass (prev : Pass) (obj child : Nat) :
    path_objs (next_pass ((obj, false) :: prev) child) = obj :: path_objs prev := by
  simp [path_objs, next_pass, List.filter]

theorem path_objs_own (prev : Pass) (obj : Nat) :
    path_objs ((obj, false) :: prev) = path_objs prev := by
  simp [path_objs, List.filter]

theorem nodup_length_le (l : List Nat) (n : Nat) (hn : l.Nodup) (hl : ∀ q ∈ l, q < n) :
    l.length ≤ n := by
  have h1 : l.toFinset.card = l.length := List.toFinset_card_of_nodup hn
  have h2 : l.toFinset ⊆ Finset.range n := by
    intro q hq
    exact Finset.mem_range.mpr (hl q (List.mem_toFinset.mp hq))
  have h3 := Finset.card_le_card h2
  rw [Finset.card_range] at h3
  omega

theorem quoted_values (h : Store) (v x : Value) (hx : Piece.value x ∈ h.quoted v) : x = v := by
  unfold Store.quoted at hx
  split at hx
  · simpa using hx
  · simpa using hx

theorem items_pieces_values (h : Store) :
    ∀ (vs : List Value) (x : Value), Piece.value x ∈ h.items_pieces vs → x ∈ vs := by
  intro vs
  induction vs with
  | nil => intro x hx; simp [Store.items_pieces] at hx
  | cons v rest ih =>
    intro x hx
    cases rest with
    | nil =>
      simp only [Store.items_pieces] at hx
      rw [quoted_values h v x hx]
      exact List.mem_cons_self _ _
    | cons w rest2 =>
      simp only [Store.items_pieces, List.mem_append] at hx
      rcases hx with (h1 | h1) | h1
      · rw [quoted_values h v x h1]
        exact List.mem_cons_self _ _
      · simp at h1
      · exact List.mem_cons_of_mem _ (ih x h1)

theorem dict_pieces_values (h : Store) (n : Nat) :
    ∀ (kvs : List (Value × Value)) (count : Nat) (x : Value),
      Piece.value x ∈ h.dict_pieces n count kvs →
      x ∈ kvs.flatMap (fun kv => [kv.1, kv.2]) := by
  intro kvs
  induction kvs with
  | nil => intro count x hx; simp [Store.dict_pieces] at hx
  | cons kv rest ih =>
    intro count x hx
    obtain ⟨k, v⟩ := kv
    simp only [Store.dict_pieces, List.mem_append] at hx
    simp only [List.flatMap_cons, List.mem_append]
    rcases hx with (((h1 | h1) | h1) | h1) | h1
    · left
      rw [quoted_values h k x h1]
      simp
    · simp at h1
    · left
      rw [quoted_values h v x h1]
      simp
    · split at h1 <;> simp at h1
    · right
      exact ih _ x h1

theorem record_pieces_values (h : Store) (n : Nat) :
    ∀ (kvs : List (String × Value)) (count : Nat) (x : Value),
      Piece.value x ∈ h.record_pieces n count kvs → x ∈ kvs.map (fun kv => kv.2) := by
  intro kvs
  induction kvs with
  | nil => intro count x hx; simp [Store.record_pieces] at hx
  | cons kv rest ih =>
    intro count x hx
    obtain ⟨k, v⟩ := kv
    simp only [Store.record_pieces, List.mem_append] at hx
    simp only [List.map_cons, List.mem_cons]
    rcases hx with ((h1 | h1) | h1) | h1
    · simp at h1
    · left
      exact quoted_values h v x h1
    · split at h1 <;> simp at h1
    · right
      exact ih _ x h1

theorem native_module_pieces_values (n : Nat) :
    ∀ (kvs : List (String × Value)) (count : Nat) (x : Value),
      Piece.value x ∈ native_module_pieces n count kvs → x ∈ kvs.map (fun kv => kv.2) := by
  intro kvs
  induction kvs with
  | nil => intro count x hx; simp [native_module_pieces] at hx
  | cons kv rest ih =>
    intro count x hx
    obtain ⟨k, v⟩ := kv
    simp only [native_module_pieces, List.mem_append] at hx
    simp only [List.map_cons, List.mem_cons]
    rcases hx with (h1 | h1) | h1
    · left
      simpa using h1
    · split at h1 <;> simp at h1
    · right
      exact ih _ x h1

theorem module_pieces_values (n : Nat) :
    ∀ (globals : List (String × GlobalValue)) (u : Nat) (x : Value),
      Piece.value x ∈ module_pieces n u globals → x ∈ globals.map (fun kv => kv.2.value) := by
  intro globals
  induction globals with
  | nil => intro u x hx; simp [module_pieces] at hx
  | cons kv rest ih =>
    intro u x hx
    obtain ⟨k, gv⟩ := kv
    simp only [module_pieces] at hx
    simp only [List.map_cons, List.mem_cons]
    split at hx
    · simp only [List.mem_append] at hx
      rcases hx with h1 | h1
      · split at h1
        · simp at h1
        · simp only [List.mem_append] at h1
          rcases h1 with h2 | h2
          · left
            simpa using h2
          · split at h2 <;> simp at h2
      · right
        exact ih _ x h1
    · simp at hx

theorem mem_text_append {x : Value} {a : String} {ps : List Piece} {b : String}
    (h : Piece.value x ∈ [Piece.text a] ++ ps ++ [Piece.text b]) : Piece.value x ∈ ps := by
  simp only [List.mem_append, List.mem_singleton] at h
  rcases h with (h1 | h1) | h1
  · cases h1
  · exact h1
  · cases h1

/-- The steps of a renderable object go into the values it shows only. -/
theorem pieces_spec (h : Store) (obj : Nat) (o : HObj) (vs : List Value)
    (hs : h.shown o = some vs) :
    ∃ ps, h.pieces obj o = some ps ∧ ∀ x, Piece.value x ∈ ps → x ∈ vs := by
  cases o with
  | str buff => exact ⟨_, rfl, fun x hx => by simp at hx⟩
  | array values =>
    simp only [Store.shown, Option.some.injEq] at hs
    subst hs
    exact ⟨_, rfl, fun x hx => items_pieces_values h _ x (mem_text_append hx)⟩
  | list items =>
    simp only [Store.shown, Option.some.injEq] at hs
    subst hs
    exact ⟨_, rfl, fun x hx => items_pieces_values h _ x (mem_text_append hx)⟩
  | dict key_values =>
    simp only [Store.shown, Option.some.injEq] at hs
    subst hs
    exact ⟨_, rfl, fun x hx => dict_pieces_values h _ _ _ x (mem_text_append hx)⟩
  | record attrs =>
    cases attrs with
    | none => cases hs
    | some a =>
      simp only [Store.shown, Option.some.injEq] at hs
      subst hs
      exact ⟨_, rfl, fun x hx => record_pieces_values h _ _ _ x (mem_text_append hx)⟩
  | native name => exact ⟨_, rfl, fun x hx => by simp at hx⟩
  | native_fn name arity target => exact ⟨_, rfl, fun x hx => by simp at hx⟩
  | fn name arity => exact ⟨_, rfl, fun x hx => by simp at hx⟩
  | closure out_values => exact ⟨_, rfl, fun x hx => by simp at hx⟩
  | native_module symbols =>
    simp only [Store.shown, Option.some.injEq] at hs
    subst hs
    exact ⟨_, rfl, fun x hx => native_module_pieces_values _ _ _ x (mem_text_append hx)⟩
  | module m =>
    cases hg : h.globals[m]? with
    | none => simp [Store.shown, hg] at hs
    | some globals =>
      simp only [Store.shown, hg, Option.some.injEq] at hs
      subst hs
      refine ⟨[Piece.text "\x7b"] ++ module_pieces globals.length 0 globals ++ [Piece.text "\x7d"],
        by simp only [Store.pieces, hg], fun x hx => ?_⟩
      exact module_pieces_values _ _ _ x (mem_text_append hx)

theorem rendered_append_ok {a b : Rendered} (ha : ∃ s o, a = .ok s o) (hb : ∃ s o, b = .ok s o) :
    ∃ s o, a.append b = .ok s o := by
  obtain ⟨s1, o1, rfl⟩ := ha
  obtain ⟨s2, o2, rfl⟩ := hb
  exact ⟨_, _, rfl⟩

/-- The steps of a case complete when the calls of `obj_to_str` they make do. -/
theorem render_pieces_ok (h : Store) (f : Pass → Nat → Rendered) (pass : Pass)
    (hf : ∀ child, child < h.objs.length → ∃ s o, f (next_pass pass child) child = .ok s o) :
    ∀ ps : List Piece, (∀ x, Piece.value x ∈ ps → h.valid x = true) →
      ∃ s o, render_pieces f pass ps = .ok s o := by
  intro ps
  induction ps with
  | nil => intro _; exact ⟨_, _, rfl⟩
  | cons piece rest ih =>
    intro hv
    have hrest := ih (fun x hx => hv x (List.mem_cons_of_mem _ hx))
    cases piece with
    | text t => exact rendered_append_ok ⟨_, _, rfl⟩ hrest
    | printed t => exact rendered_append_ok ⟨_, _, rfl⟩ hrest
    | value v =>
      have hvv := hv v (List.mem_cons_self _ _)
      refine rendered_append_ok ?_ hrest
      cases v with
      | obj p =>
        have hp : p < h.objs.length := by simpa [Store.valid] using hvv
        exact hf p hp
      | empty => exact ⟨_, _, rfl⟩
      | bool b => exact ⟨_, _, rfl⟩
      | int i => exact ⟨_, _, rfl⟩
      | float x => exact ⟨_, _, rfl⟩

/-- `obj_to_str` returns: the recursion goes no deeper than the number of
objects, because the objects on the current path are pairwise different. -/
theorem obj_to_str_returns (h : Store) (hclosed : h.closed) :
    ∀ (fuel : Nat) (prev : Pass) (obj : Nat), (path_objs prev).Nodup →
      (∀ q ∈ path_objs prev, q < h.objs.length) → obj < h.objs.length →
      h.objs.length + 1 ≤ fuel + (path_objs prev).length →
      ∃ s o, obj_to_str h fuel ((obj, false) :: prev) obj = .ok s o := by
  intro fuel
  induction fuel with
  | zero =>
    intro prev obj hn hl hobj hf
    have := nodup_length_le _ _ hn hl
    omega
  | succ fuel ih =>
    intro prev obj hn hl hobj hf
    by_cases hon : on_path ((obj, false) :: prev) obj = true
    · exact ⟨"...", "", by simp only [obj_to_str, hon, if_true]⟩
    · have hnot : obj ∉ path_objs prev := by
        intro hmem
        apply hon
        rw [on_path_iff, path_objs_own]
        exact hmem
      have hget : h.objs[obj]? = some h.objs[obj] := List.getElem?_eq_getElem hobj
      have hpr := hclosed obj hobj
      simp only [Store.printable, hget] at hpr
      cases hsh : h.shown h.objs[obj] with
      | none => simp [hsh] at hpr
      | some vs =>
        simp only [hsh, List.all_eq_true] at hpr
        obtain ⟨ps, hps, hval⟩ := pieces_spec h obj _ vs hsh
        have hn2 : (obj :: path_objs prev).Nodup := List.nodup_cons.mpr ⟨hnot, hn⟩
        have hl2 : ∀ q ∈ obj :: path_objs prev, q < h.objs.length := by
          intro q hq
          rcases List.mem_cons.mp hq with h1 | h1
          · rw [h1]; exact hobj
          · exact hl q h1
        have hchild : ∀ child, child < h.objs.length →
            ∃ s o, obj_to_str h fuel (next_pass ((obj, false) :: prev) child) child
              = .ok s o := by
          intro child hc
          have e : next_pass ((obj, false) :: prev) child
              = (child, false) :: (obj, true) :: prev := rfl
          rw [e]
          have hp2 : path_objs ((obj, true) :: prev) = obj :: path_objs prev := by
            simp [path_objs, List.filter]
          exact ih ((obj, true) :: prev) child (by rw [hp2]; exact hn2)
            (by rw [hp2]; exact hl2) hc
            (by rw [hp2]; simp only [List.length_cons]; omega)
        obtain ⟨s, o, hr⟩ := render_pieces_ok h (obj_to_str h fuel) ((obj, false) :: prev)
          hchild ps (fun x hx => hpr x (hval x hx))
        refine ⟨s, o, ?_⟩
        have hon2 : on_path ((obj, false) :: prev) obj = false := by simpa using hon
        simp only [obj_to_str, hon2, Bool.false_eq_true, if_false, hget, hps]
        exact hr

/-- C27 on the code. On a store in which every object can be rendered (no
pointer dangles, no record has null `attrs`) `vmu_value_to_str_w` returns for
every value: the recursion of `obj_to_str` is no deeper than the number of
objects. An object that is on the current recursion path is rendered as `...`
and not entered; a list that holds the same object twice renders it twice with
the same chain, so in full both times. In `c27_store` the list that holds
itself renders as `(..., 1)`, the two records that point at each other as
`\x7bnext: \x7bnext: ...\x7d\x7d`, and the list that holds the same list twice as
`(('x'), ('x'))`. For a record whose `attrs` is null, the record `OP_RECORD`
creates for length 0, `obj_to_str` reads `attrs->n` through the null pointer:
the rendering of the record, alone or inside a list, has undefined
behaviour. -/
theorem value_to_str_returns_and_cuts_cycles (h : Store) (hclosed : h.closed) (v : Value)
    (hv : h.valid v = true) :
    (∃ str out, vmu_value_to_str_w h v = .ok str out) ∧
    (∀ (fuel : Nat) (pass : Pass) (obj : Nat), on_path pass obj = true →
      obj_to_str h fuel pass obj = .ok "..." "") ∧
    (∀ (fuel : Nat) (pass : Pass) (p q : Nat), on_path pass p = false →
      h.objs[p]? = some (.list [.obj q, .obj q]) → h.is_value_str (.obj q) = false →
      obj_to_str h (fuel + 1) pass p
        = (Rendered.ok "(" "").append ((obj_to_str h fuel (next_pass pass q) q).append
            ((Rendered.ok ", " "").append ((obj_to_str h fuel (next_pass pass q) q).append
              (Rendered.ok ")" ""))))) ∧
    (vmu_value_to_str_w c27_store (.obj 0) = .ok "(..., 1)" "" ∧
      vmu_value_to_str_w c27_store (.obj 1) = .ok "\x7bnext: \x7bnext: ...\x7d\x7d" "" ∧
      vmu_value_to_str_w c27_store (.obj 3) = .ok "(('x'), ('x'))" "") ∧
    (∀ (h2 : Store) (p : Nat), h2.objs[p]? = some (.record none) →
      vmu_value_to_str_w h2 (.obj p) = .ub) ∧
    vmu_value_to_str_w c27_store_empty_record (.obj 0) = .ub ∧
    vmu_value_to_str_w c27_store_empty_record (.obj 1) = .ub := by
  refine ⟨?_, ?_, ?_, by decide, ?_, by decide, by decide⟩
  · cases v with
    | obj p =>
      have hp : p < h.objs.length := by simpa [Store.valid] using hv
      exact obj_to_str_returns h hclosed (h.objs.length + 1) [] p (by simp [path_objs])
        (by simp [path_objs]) hp (by omega)
    | empty => exact ⟨_, _, rfl⟩
    | bool b => exact ⟨_, _, rfl⟩
    | int i => exact ⟨_, _, rfl⟩
    | float x => exact ⟨_, _, rfl⟩
  · intro fuel pass obj hon
    cases fuel with
    | zero => simp only [obj_to_str, hon, if_true]
    | succ n => simp only [obj_to_str, hon, if_true]
  · intro fuel pass p q hon hl hq
    simp only [obj_to_str, hon, Bool.false_eq_true, if_false, hl, Store.pieces,
      Store.items_pieces, Store.quoted, hq, List.singleton_append, List.cons_append,
      List.nil_append, render_pieces, value_to_str_with]
    cases obj_to_str h fuel (next_pass pass q) q <;> rfl
  · intro h2 p hp
    have hon : on_path (next_pass [] p) p = false := by
      simp [on_path, next_pass]
    simp only [vmu_value_to_str_w, value_to_str, value_to_str_with, obj_to_str, hon,
      Bool.false_eq_true, if_false, hp, Store.pieces]

theorem value_to_str_returns_and_cuts_cycles_witness :
    (c27_store.closed ∧ c27_store.valid (.obj 0) = true) ∧
    (
    (∃ str out, vmu_value_to_str_w c27_store (.obj 0) = .ok str out) ∧
    (∀ (fuel : Nat) (pass : Pass) (obj : Nat), on_path pass obj = true →
      obj_to_str c27_store fuel pass obj = .ok "..." "") ∧
    (∀ (fuel : Nat) (pass : Pass) (p q : Nat), on_path pass p = false →
      c27_store.objs[p]? = some (.list [.obj q, .obj q]) → c27_store.is_value_str (.obj q) = false →
      obj_to_str c27_store (fuel + 1) pass p
        = (Rendered.ok "(" "").append ((obj_to_str c27_store fuel (next_pass pass q) q).append
            ((Rendered.ok ", " "").append ((obj_to_str c27_store fuel (next_pass pass q) q).append
              (Rendered.ok ")" ""))))) ∧
    (vmu_value_to_str_w c27_store (.obj 0) = .ok "(..., 1)" "" ∧
      vmu_value_to_str_w c27_store (.obj 1) = .ok "\x7bnext: \x7bnext: ...\x7d\x7d" "" ∧
      vmu_value_to_str_w c27_store (.obj 3) = .ok "(('x'), ('x'))" "") ∧
    (∀ (h2 : Store) (p : Nat), h2.objs[p]? = some (.record none) →
      vmu_value_to_str_w h2 (.obj p) = .ub) ∧
    vmu_value_to_str_w c27_store_empty_record (.obj 0) = .ub ∧
    vmu_value_to_str_w c27_store_empty_record (.obj 1) = .ub) :=
  ⟨⟨by decide, by decide⟩,
    value_to_str_returns_and_cuts_cycles c27_store (by decide) (.obj 0) (by decide)⟩

/-! ## `MOD` -/

theorem tmod_sign (l r : Int) (hr : r ≠ 0) :
    (0 ≤ l → 0 ≤ Int.tmod l r) ∧ (l ≤ 0 → Int.tmod l r ≤ 0) ∧
    (Int.tmod l r).natAbs < r.natAbs := by
  rcases l with n | n <;> rcases r with m | m
  · have hm : 0 < m := by
      rcases Nat.eq_zero_or_pos m with h | h
      · subst h; exact absurd rfl hr
      · exact h
    have h1 := Nat.mod_lt n hm
    have e : Int.tmod (Int.ofNat n) (Int.ofNat m) = Int.ofNat (n % m) := rfl
    rw [e]
    refine ⟨fun _ => Int.ofNat_nonneg _, fun h => ?_, ?_⟩
    · have hn : n = 0 := by
        have : (n : Int) ≤ 0 := h
        omega
      subst hn
      simp
    · simpa using h1
  · have h1 := Nat.mod_lt n (Nat.succ_pos m)
    have e : Int.tmod (Int.ofNat n) (Int.negSucc m) = Int.ofNat (n % Nat.succ m) := rfl
    rw [e]
    refine ⟨fun _ => Int.ofNat_nonneg _, fun h => ?_, ?_⟩
    · have hn : n = 0 := by
        have : (n : Int) ≤ 0 := h
        omega
      subst hn
      simp
    · simpa using h1
  · have hm : 0 < m := by
      rcases Nat.eq_zero_or_pos m with h | h
      · subst h; exact absurd rfl hr
      · exact h
    have h1 := Nat.mod_lt (Nat.succ n) hm
    have e : Int.tmod (Int.negSucc n) (Int.ofNat m) = -Int.ofNat (Nat.succ n % m) := rfl
    rw [e]
    refine ⟨fun h => ?_, fun _ => ?_, ?_⟩
    · exact absurd h (by simp [Int.negSucc_lt_zero])
    · exact Int.neg_nonpos_of_nonneg (Int.ofNat_nonneg _)
    · simpa using h1
  · have h1 := Nat.mod_lt (Nat.succ n) (Nat.succ_pos m)
    have e : Int.tmod (Int.negSucc n) (Int.negSucc m) = -Int.ofNat (Nat.succ n % Nat.succ m) := rfl
    rw [e]
    refine ⟨fun h => ?_, fun _ => ?_, ?_⟩
    · exact absurd h (by simp [Int.negSucc_lt_zero])
    · exact Int.neg_nonpos_of_nonneg (Int.ofNat_nonneg _)
    · simpa using h1

/-- C39 on the code: `MOD` with two int operands has no test of the divisor.
With the divisor 0 the handler evaluates `left % right` on `int64_t`, a
remainder by zero: undefined behaviour, not a runtime error; so it does for
`INT64_MIN % -1`, whose quotient is not representable. For every other pair
it pushes, in place of the operands, the remainder of the division truncated
toward zero: its sign follows the dividend, it is smaller than the divisor in
absolute value, and the quotient times the divisor plus the remainder is the
dividend. -/
theorem mod_of_ints (vm : VM) (f : Fn) (h : vm.at_op f .MOD []) (htop : 2 ≤ vm.stack_top)
    (hmax : vm.stack_top ≤ STACK_LENGTH) (l r : Int)
    (hl : vm.stack (vm.stack_top - 2) = .int l) (hr : vm.stack (vm.stack_top - 1) = .int r) :
    (r = 0 → step vm = .ub ∧ ¬ (step vm).is_error) ∧
    (l = -2 ^ 63 ∧ r = -1 → step vm = .ub) ∧
    (r ≠ 0 → ¬ (l = -2 ^ 63 ∧ r = -1) →
      ∃ vm1, step vm = .running vm1 ∧ vm1.stack_top = vm.stack_top - 1 ∧
        vm1.stack (vm.stack_top - 2) = .int (Int.tmod l r) ∧
        (0 ≤ l → 0 ≤ Int.tmod l r) ∧ (l ≤ 0 → Int.tmod l r ≤ 0) ∧
        (Int.tmod l r).natAbs < r.natAbs ∧ r * Int.tdiv l r + Int.tmod l r = l) := by
  obtain ⟨chunk, hd, he⟩ := dispatch_at h
  have e0 : vm.fetched.stack_top = vm.stack_top := by simp [VM.fetched, VM.with_frame]
  have e1 : vm.fetched.stack = vm.stack := by simp [VM.fetched, VM.with_frame]
  have e2 : vm.stack_top - 1 - 1 = vm.stack_top - 2 := by omega
  have q0 := pop_ok vm.fetched (by omega)
  have q1 := pop_ok { vm.fetched with stack_top := vm.fetched.stack_top - 1 }
    (by show 0 < vm.fetched.stack_top - 1; omega)
  have hr1 : vm.fetched.stack (vm.fetched.stack_top - 1) = .int r := by rw [e0, e1]; exact hr
  have hl1 : vm.fetched.stack (vm.fetched.stack_top - 1 - 1) = .int l := by
    rw [e0, e1, e2]; exact hl
  have q2 := push_ok { vm.fetched with stack_top := vm.fetched.stack_top - 1 - 1 }
    (.int (Int.tmod l r)) (by show vm.fetched.stack_top - 1 - 1 < STACK_LENGTH; omega)
  refine ⟨?_, ?_, ?_⟩
  · intro h0
    have hstep : step vm = .ub := by
      simp only [step, he, dispatch, hd, op_mod, bind_apply, q0, q1, hr1, hl1, h0, if_true,
        undefined_behaviour]
    rw [hstep]
    exact ⟨rfl, by simp [Outcome.is_error]⟩
  · intro h1
    obtain ⟨h2, h3⟩ := h1
    subst h2
    subst h3
    have h0 : ¬ ((-1 : Int) = 0) := by decide
    simp only [step, he, dispatch, hd, op_mod, bind_apply, q0, q1, hr1, hl1, h0, if_false,
      pure_apply, and_self, if_true, undefined_behaviour]
  · intro h0 h1
    refine ⟨{ vm.fetched with
      stack := Function.update vm.fetched.stack (vm.fetched.stack_top - 1 - 1) (.int (Int.tmod l r)),
      stack_top := vm.fetched.stack_top - 1 - 1 + 1 }, ?_, ?_, ?_, ?_, ?_, ?_, ?_⟩
    · simp only [step, he, dispatch, hd, op_mod, bind_apply, q0, q1, hr1, hl1, h0, h1, if_false,
        pure_apply, q2]
    · show vm.fetched.stack_top - 1 - 1 + 1 = _
      omega
    · show Function.update vm.fetched.stack (vm.fetched.stack_top - 1 - 1) _ (vm.stack_top - 2) = _
      rw [e0, e2, Function.update_same]
    · exact (tmod_sign l r h0).1
    · exact (tmod_sign l r h0).2.1
    · exact (tmod_sign l r h0).2.2
    · exact Int.tdiv_add_tmod l r

theorem mod_of_ints_witness :
    ((c39_state 2).at_op c39_main .MOD [] ∧ 2 ≤ (c39_state 2).stack_top ∧
      (c39_state 2).stack_top ≤ STACK_LENGTH ∧
      (c39_state 2).stack ((c39_state 2).stack_top - 2) = .int 7 ∧
      (c39_state 2).stack ((c39_state 2).stack_top - 1) = .int 0) ∧
    (((0 : Int) = 0 → step (c39_state 2) = .ub ∧ ¬ (step (c39_state 2)).is_error) ∧
    ((7 : Int) = -2 ^ 63 ∧ (0 : Int) = -1 → step (c39_state 2) = .ub) ∧
    ((0 : Int) ≠ 0 → ¬ ((7 : Int) = -2 ^ 63 ∧ (0 : Int) = -1) →
      ∃ vm1, step (c39_state 2) = .running vm1 ∧ vm1.stack_top = (c39_state 2).stack_top - 1 ∧
        vm1.stack ((c39_state 2).stack_top - 2) = .int (Int.tmod 7 0) ∧
        ((0 : Int) ≤ 7 → 0 ≤ Int.tmod 7 0) ∧ ((7 : Int) ≤ 0 → Int.tmod 7 0 ≤ 0) ∧
        (Int.tmod 7 0).natAbs < (0 : Int).natAbs ∧ 0 * Int.tdiv 7 0 + Int.tmod 7 0 = 7)) :=
  have hat : (c39_state 2).at_op c39_main .MOD [] :=
    at_op_intro _ _ _ _ (by decide!) 0 (by decide!) (by decide!) (by decide!) (by decide!)
  ⟨⟨hat, by decide!, by decide!, by decide!, by decide!⟩,
    mod_of_ints (c39_state 2) c39_main hat (by decide!) (by decide!) 7 0
      (by decide!) (by decide!)⟩

/-- C39 as stated fails for `7 mod 0`: the run of the entry function reaches
`MOD` with 7 and 0 on the stack and ends in undefined behaviour, with nothing
written to the error stream, where the same program with `DIV` ends with the
runtime error "Division by zero is undefined". -/
theorem mod_by_zero_is_no_runtime_error :
    (vm_execute 3 0 (VM.init [c39_main] [] [plain_module] [])).is_ub ∧
    (c39_state 2).stderr = [] ∧
    (vm_execute 3 0 (VM.init [c39_main_div] [] [plain_module] [])).is_error ∧
    (vm_execute 3 0 (VM.init [c39_main_div] [] [plain_module] [])).vm.stderr
      = ["Runtime error: Division by zero is undefined"] := by
  decide!

/-! ## `OGET` -/

theorem find_out_none (outs : List OutValue) (len k : Nat)
    (h : outs.find? (fun o => o.at_ == (k : Int)) = none) : find_out outs len k = none := by
  unfold find_out
  rw [List.find?_eq_none]
  intro i _
  cases ho : outs[i]? with
  | none => simp
  | some o =>
    rw [List.find?_eq_none] at h
    have := h o (List.getElem?_mem ho)
    simpa using this

/-- C38 on the code: `OGET index` searches the `OutValue`s of the closure of
the current frame for one whose `at` is `index`. When there is one (and the
stack has room) it pushes its value, exactly one value. When there is none the
loop ends and the handler leaves through its `break`: the machine keeps running
at the next instruction with the stack, the stack top and the error stream
unchanged, no runtime error is raised. When the current frame has no closure
the handler reads `closure->out_values` through a null pointer: undefined
behaviour, not a runtime error either. -/
theorem oget_without_match_continues (vm : VM) (f : Fn) (k : Nat) (h : vm.at_op f .OGET [k]) :
    (∀ c mc caps m, vm.frame.closure = some c → captured vm c = some (mc, caps) →
        vm.metas[mc]? = some m → m.meta_out_values.length = caps.length →
      (∀ a v, caps.find? (fun p => p.1 == (k : Int)) = some (a, v) →
        vm.stack_top < STACK_LENGTH →
        ∃ vm1, step vm = .running vm1 ∧ vm1.stack_top = vm.stack_top + 1 ∧
          vm1.stack vm.stack_top = v ∧ ∀ i, i < vm.stack_top → vm1.stack i = vm.stack i) ∧
      (caps.find? (fun p => p.1 == (k : Int)) = none →
        ∃ vm1, step vm = .running vm1 ∧ vm1.stack_top = vm.stack_top ∧
          vm1.stack = vm.stack ∧ vm1.stderr = vm.stderr ∧ vm1.frame_ptr = vm.frame_ptr ∧
          vm1.frame.ip = vm.frame.ip + 2)) ∧
    (vm.frame.closure = none → (step vm).is_ub) := by
  refine ⟨?_, ?_⟩
  · intro c mc caps m hc hcap hm hlen
    refine ⟨fun a v hfind hroom => oget_step vm f k h c hc mc caps hcap m hm hlen a v hfind hroom,
      ?_⟩
    intro hnone
    obtain ⟨chunk, hd, he⟩ := dispatch_at h
    obtain ⟨hr, -, -, -, hops⟩ := h
    have ha : f.chunks[vm.fetched.frame.ip]? = some k := by
      have := hops 0 (by simp)
      simpa using this
    have adv := advance_at (fetched_runs hr) k ha
    have h0 : vm.frame_ptr ≠ 0 := hr.1
    unfold captured at hcap
    cases hh : vm.heap[c]? with
    | none => simp [hh] at hcap
    | some ob =>
      cases ob with
      | closure mc1 outs =>
        simp only [hh, Option.some.injEq, Prod.mk.injEq] at hcap
        obtain ⟨hmc, hcaps⟩ := hcap
        subst hmc
        subst hcaps
        rw [List.find?_map] at hnone
        have hf : outs.find? (fun o => o.at_ == (k : Int)) = none := by
          cases hq : outs.find? (fun o => o.at_ == (k : Int)) with
          | none => rfl
          | some o =>
            have : outs.find? ((fun p : Int × Value => p.1 == (k : Int)) ∘
                (fun o : OutValue => (o.at_, o.value))) = some o := hq
            rw [this] at hnone
            simp at hnone
        have hfo := find_out_none outs m.meta_out_values.length k hf
        unfold VM.frame at hc
        simp only [step, he, dispatch, hd, op_oget, bind_apply, adv]
        simp [current_closure, current_frame, h0, get_vm, VM.fetched, VM.with_frame, VM.set_ip,
          VM.frame, hc, deref, hh, hm, hfo]
      | str _ => simp [hh] at hcap
      | record _ => simp [hh] at hcap
      | native_fn _ _ _ => simp [hh] at hcap
      | fn _ => simp [hh] at hcap
      | module _ => simp [hh] at hcap
      | list _ => simp [hh] at hcap
      | nbarray _ => simp [hh] at hcap
      | other _ => simp [hh] at hcap
  · intro hc
    obtain ⟨chunk, hd, he⟩ := dispatch_at h
    obtain ⟨hr, -, -, -, hops⟩ := h
    have ha : f.chunks[vm.fetched.frame.ip]? = some k := by
      have := hops 0 (by simp)
      simpa using this
    have adv := advance_at (fetched_runs hr) k ha
    have h0 : vm.frame_ptr ≠ 0 := hr.1
    unfold VM.frame at hc
    simp only [step, he, dispatch, hd, op_oget, bind_apply, adv]
    simp [current_closure, current_frame, h0, get_vm, VM.fetched, VM.with_frame, VM.set_ip,
      VM.frame, hc, deref, Outcome.is_ub, undefined_behaviour]

/-- The handler of `OGET` on hand-assembled code, which this compiler does not
emit (it writes `OGET` only for an offset it also records in the
`MetaClosure`). In a closure whose only `OutValue` is bound to local 0 and
whose code runs `OGET 1`: after twelve instructions the closure is at `OGET 1`
with one captured value, `at` 0; the instruction leaves the stack top at 2 and
the error stream empty, and the machine runs on with the `RET` that follows.
For `OGET` as first instruction of an entry function, whose frame has no
closure, the first instruction is undefined behaviour. -/
theorem oget_without_match_pushes_nothing :
    (c38_state 12).frame.closure = some 2 ∧
    captured (c38_state 12) 2 = some (0, [(0, .int 3)]) ∧
    (c38_state 12).stack_top = 2 ∧
    (c38_state 13).stack_top = 2 ∧ (c38_state 13).stderr = [] ∧
    (c38_state 13).next_op = some .RET ∧
    ¬ (vm_execute 13 0 (VM.init [c7_main, c7_mk, c38_anon] [{ meta_out_values := [0], fn := 2 }]
      [cap_module] [.fn 1])).is_error ∧
    (VM.init [c38_main_plain] [] [plain_module] []).frame.closure = none ∧
    (vm_execute 1 0 (VM.init [c38_main_plain] [] [plain_module] [])).is_ub := by
  decide!

/-! ## `RET` between `TRYO` and `TRYC` -/

/-- C36 on the code: when `RET` executes in a frame (more than one frame live,
no module initialization in progress), the frame is popped and the exception
stack is left as it was: every exception frame the returning frame opened and
did not close is still on the exception stack, and the frame it refers to is
no longer below the frame pointer. -/
theorem ret_keeps_exception_frames (vm : VM) (f : Fn) (h : vm.at_op f .RET [])
    (hfp : 1 < vm.frame_ptr) (hmod : vm.modules_stack_len ≤ 1)
    (hloc : vm.frame.locals < vm.stack_top) (htop : vm.stack_top ≤ STACK_LENGTH) :
    ∃ vm1, step vm = .running vm1 ∧ vm1.frame_ptr = vm.frame_ptr - 1 ∧
      vm1.exception_stack = vm.exception_stack ∧
      ∀ e ∈ vm.exception_stack, e.frame = vm.frame_ptr - 1 →
        e ∈ vm1.exception_stack ∧ ¬ e.frame < vm1.frame_ptr := by
  obtain ⟨chunk, hd, he⟩ := dispatch_at h
  have h0 : vm.frame_ptr ≠ 0 := by omega
  have h1 : vm.stack_top ≠ 0 := by omega
  have h2 : ¬ vm.frame_ptr - 1 = 0 := by omega
  have h3 : ¬ vm.modules_stack_len > 1 := by omega
  have h4 : ¬ STACK_LENGTH ≤ vm.frame.locals := by omega
  simp [step, he, dispatch, hd, op_ret, get_vm, ret_close_loop, pop, h1, current_frame, h0,
    pop_frame, h2, h3, push, VM.fetched, VM.with_frame, h4]
  intro e hmem hf
  exact ⟨hmem, by omega⟩

theorem ret_keeps_exception_frames_witness :
    ((c36_state 6).at_op c36_f .RET [] ∧ 1 < (c36_state 6).frame_ptr ∧
      (c36_state 6).modules_stack_len ≤ 1 ∧ (c36_state 6).frame.locals < (c36_state 6).stack_top ∧
      (c36_state 6).stack_top ≤ STACK_LENGTH) ∧
    ((c36_state 6).frame_ptr = 3 ∧
      (c36_state 6).exception_stack.map (fun e => (e.catch_ip, e.stack_top, e.frame))
        = [(11, 3, 2)]) ∧
    (∃ vm1, step (c36_state 6) = .running vm1 ∧ vm1.frame_ptr = (c36_state 6).frame_ptr - 1 ∧
      vm1.exception_stack = (c36_state 6).exception_stack ∧
      ∀ e ∈ (c36_state 6).exception_stack, e.frame = (c36_state 6).frame_ptr - 1 →
        e ∈ vm1.exception_stack ∧ ¬ e.frame < vm1.frame_ptr) :=
  have hat : (c36_state 6).at_op c36_f .RET [] :=
    at_op_intro _ _ _ _ (by decide!) 1 (by decide!) (by decide!) (by decide!) (by decide!)
  ⟨⟨hat, by decide!, by decide!, by decide!, by decide!⟩, by decide!,
    ret_keeps_exception_frames (c36_state 6) c36_f hat (by decide!) (by decide!) (by decide!)
      (by decide!)⟩

/-- C36 as stated fails for `proc f() \x7b try \x7b ret 1 \x7d catch \x7b empty \x7d \x7d`,
`proc g() \x7b f(); throw \x7d` and the entry code `g()`. The compiled `f` has the
`RET` of the return statement before the `TRYC` of its try block. After six
instructions `f` (frame 2 of three) is at that `RET` with its exception frame
open; after the `RET` two frames are live and the exception frame, which names
frame 2 and the stack top 3, is still there; `g` pops the result (stack top 2)
and is at `THROW`; after the `THROW` three frames are live again and the
current one runs `f` at its catch address 11. The program then ends normally,
with nothing on the error stream, where the same program around
`proc f() \x7b try \x7b empty \x7d catch \x7b empty \x7d \x7d` ends with the runtime error
of an uncaught throw. -/
theorem throw_after_ret_resumes_returned_frame :
    c36_f.chunks = [OpCode.TRYO.byte, 0, 11, OpCode.INT.byte, 0, 0, OpCode.RET.byte,
      OpCode.TRYC.byte, OpCode.JMP.byte, 0, 2, OpCode.EMPTY.byte, OpCode.POP.byte,
      OpCode.EMPTY.byte, OpCode.RET.byte] ∧
    ((c36_state 6).frame_ptr = 3 ∧ (c36_state 6).frame.fn = some 1 ∧
      (c36_state 6).next_op = some .RET) ∧
    ((c36_state 7).frame_ptr = 2 ∧ (c36_state 7).frame.fn = some 2 ∧
      (c36_state 7).exception_stack.map (fun e => (e.catch_ip, e.stack_top, e.frame))
        = [(11, 3, 2)]) ∧
    ((c36_state 8).frame_ptr = 2 ∧ (c36_state 8).frame.fn = some 2 ∧
      (c36_state 8).stack_top = 2 ∧ (c36_state 8).next_op = some .THROW ∧
      (c36_state 8).exception_stack.map (fun e => (e.catch_ip, e.stack_top, e.frame))
        = [(11, 3, 2)]) ∧
    ((c36_state 9).frame_ptr = 3 ∧ (c36_state 9).frame.fn = some 1 ∧
      (c36_state 9).frame.ip = 11 ∧ (c36_state 9).exception_stack = []) ∧
    (vm_execute 18 0 c36_vm).is_ok ∧ (vm_execute 18 0 c36_vm).vm.stderr = [] ∧
    (vm_execute 13 0 c36_vm_closed).is_error ∧
    (vm_execute 13 0 c36_vm_closed).vm.stderr = ["Runtime error: "] := by
  decide!

/-! ## `continue` in a `for` loop -/

theorem run_add (a b : Nat) : ∀ vm : VM, run (a + b) vm =
    match run a vm with
    | .running vm1 => run b vm1
    | o => o := by
  induction a with
  | zero => intro vm; simp [run]
  | succ a ih =>
    intro vm
    have e : a + 1 + b = (a + b) + 1 := by omega
    rw [e]
    show (match step vm with | .running vm1 => run (a + b) vm1 | o => o) =
      match (match step vm with | .running vm1 => run a vm1 | o => o) with
      | .running vm1 => run b vm1
      | o => o
    cases hs : step vm with
    | running vmA => exact ih vmA
    | halted c v => rfl
    | ub => rfl
    | unmodelled => rfl

theorem frame_at_op {vm : VM} {f : Fn} {ip base : Nat} {vals : List Value}
    (h : vm.frame_at f ip base vals) (op : OpCode) (operands : List Nat)
    (h3 : (f.chunks[ip]?).bind decode = some op)
    (h4 : ((f.chunks.drop (ip + 1)).take operands.length) = operands) :
    vm.at_op f op operands := by
  obtain ⟨⟨h0, fi, h1, h2⟩, hip, -, -, -⟩ := h
  exact at_op_intro vm f op operands h0 fi h1 h2 (by rw [hip]; exact h3) (by rw [hip]; exact h4)

theorem vals_push {s : Nat → Value} {b : Nat} {vals : List Value}
    (h : ∀ i v, vals[i]? = some v → s (b + 1 + i) = v) (x : Value) :
    ∀ i v, (vals ++ [x])[i]? = some v →
      Function.update s (b + 1 + vals.length) x (b + 1 + i) = v := by
  intro i v hv
  by_cases hi : i < vals.length
  · rw [List.getElem?_append_left hi] at hv
    rw [Function.update_noteq (by omega)]
    exact h i v hv
  · rw [List.getElem?_append_right (by omega)] at hv
    have hi2 : i - vals.length = 0 := by
      by_contra hc
      rw [List.getElem?_eq_none (by simp; omega)] at hv
      cases hv
    rw [hi2] at hv
    have e : i = vals.length := by omega
    subst e
    rw [Function.update_same]
    simpa using hv

theorem vals_pop {s : Nat → Value} {b : Nat} {vals : List Value} {x : Value}
    (h : ∀ i v, (vals ++ [x])[i]? = some v → s (b + 1 + i) = v) :
    (∀ i v, vals[i]? = some v → s (b + 1 + i) = v) ∧ s (b + 1 + vals.length) = x := by
  refine ⟨?_, ?_⟩
  · intro i v hv
    have hi : i < vals.length := by
      by_contra hc
      rw [List.getElem?_eq_none (by omega)] at hv
      cases hv
    exact h i v (by rw [List.getElem?_append_left hi]; exact hv)
  · exact h vals.length x (by simp)

theorem frame_at_lget {vm : VM} {f : Fn} {ip base : Nat} {vals : List Value}
    (h : vm.frame_at f ip base vals) (k : Nat)
    (h3 : (f.chunks[ip]?).bind decode = some .LGET)
    (h4 : ((f.chunks.drop (ip + 1)).take 1) = [k])
    (v : Value) (hv : vals[k]? = some v) (hroom : base + 1 + vals.length < STACK_LENGTH) :
    ∃ vm1, step vm = .running vm1 ∧ vm1.frame_at f (ip + 2) base (vals ++ [v]) := by
  have hat := frame_at_op h .LGET [k] h3 h4
  obtain ⟨chunk, hd, he⟩ := dispatch_at hat
  obtain ⟨hr, -, -, -, hops⟩ := hat
  obtain ⟨-, hip, hloc, htop, hvals⟩ := h
  have ha : f.chunks[vm.fetched.frame.ip]? = some k := by
    have := hops 0 (by simp)
    simpa using this
  have adv := advance_at (fetched_runs hr) k ha
  have h0 : vm.frame_ptr ≠ 0 := hr.1
  have hk : k < vals.length := by
    by_contra hc
    rw [List.getElem?_eq_none (by omega)] at hv
    cases hv
  have h1 : ¬ vm.stack_top ≤ vm.frame.locals + 1 + k := by omega
  have h2 : ¬ STACK_LENGTH ≤ vm.stack_top := by omega
  obtain ⟨-, fi, hfn, hfns⟩ := hr
  have hstep : step vm = .running { (vm.fetched.set_ip (vm.fetched.frame.ip + 1)) with
      stack := Function.update vm.stack vm.stack_top (vm.stack (vm.frame.locals + 1 + k)),
      stack_top := vm.stack_top + 1 } := by
    simp only [step, he, dispatch, hd, op_lget, bind_apply, adv]
    unfold VM.frame at h1
    simp [frame_local, current_frame, h0, get_vm, VM.fetched, VM.with_frame, VM.set_ip, VM.frame,
      h1, load, push, h2]
  refine ⟨_, hstep, ⟨h0, fi, ?_, hfns⟩, ?_, ?_, ?_, ?_⟩
  · unfold VM.frame at hfn ⊢
    simp [VM.fetched, VM.with_frame, VM.set_ip, VM.frame, hfn]
  · unfold VM.frame at hip ⊢
    simp [VM.fetched, VM.with_frame, VM.set_ip, VM.frame, hip]
  · unfold VM.frame at hloc ⊢
    simp [VM.fetched, VM.with_frame, VM.set_ip, VM.frame, hloc]
  · show vm.stack_top + 1 = _
    rw [htop, List.length_append]
    simp
    omega
  · show ∀ i w, (vals ++ [v])[i]? = some w →
      Function.update vm.stack vm.stack_top (vm.stack (vm.frame.locals + 1 + k)) (base + 1 + i) = w
    rw [htop, hloc, hvals k v hv]
    exact vals_push hvals v

theorem frame_at_int {vm : VM} {f : Fn} {ip base : Nat} {vals : List Value}
    (h : vm.frame_at f ip base vals) (b0 b1 : Nat)
    (h3 : (f.chunks[ip]?).bind decode = some .INT)
    (h4 : ((f.chunks.drop (ip + 1)).take 2) = [b0, b1])
    (c : Int) (hc : f.iconsts[to_size_t (compose_i16 b0 b1)]? = some c)
    (hroom : base + 1 + vals.length < STACK_LENGTH) :
    ∃ vm1, step vm = .running vm1 ∧ vm1.frame_at f (ip + 3) base (vals ++ [.int c]) := by
  have hat := frame_at_op h .INT [b0, b1] h3 h4
  obtain ⟨chunk, hd, he⟩ := dispatch_at hat
  obtain ⟨c0, c1⟩ := operands2 hat
  obtain ⟨hr, -⟩ := hat
  obtain ⟨-, hip, hloc, htop, hvals⟩ := h
  have hrn := fetched_runs hr
  have cf := current_fn_at hrn
  have rd := read_i16_at hrn b0 b1 c0 c1
  have h0 : vm.frame_ptr ≠ 0 := hr.1
  have h2 : ¬ STACK_LENGTH ≤ vm.stack_top := by omega
  obtain ⟨-, fi, hfn, hfns⟩ := hr
  have hstep : step vm = .running { (vm.fetched.set_ip (vm.fetched.frame.ip + 2)) with
      stack := Function.update vm.stack vm.stack_top (.int c),
      stack_top := vm.stack_top + 1 } := by
    simp only [step, he, dispatch, hd, op_int, read_i64_const, bind_apply, cf, rd, hc, deref,
      pure_apply]
    simp [push, h2, VM.fetched, VM.with_frame, VM.set_ip, VM.frame]
  refine ⟨_, hstep, ⟨h0, fi, ?_, hfns⟩, ?_, ?_, ?_, ?_⟩
  · unfold VM.frame at hfn ⊢
    simp [VM.fetched, VM.with_frame, VM.set_ip, VM.frame, hfn]
  · unfold VM.frame at hip ⊢
    simp [VM.fetched, VM.with_frame, VM.set_ip, VM.frame, hip]
  · unfold VM.frame at hloc ⊢
    simp [VM.fetched, VM.with_frame, VM.set_ip, VM.frame, hloc]
  · show vm.stack_top + 1 = _
    rw [htop, List.length_append]
    simp
    omega
  · show ∀ i w, (vals ++ [Value.int c])[i]? = some w →
      Function.update vm.stack vm.stack_top (.int c) (base + 1 + i) = w
    rw [htop]
    exact vals_push hvals _

theorem frame_at_ge {vm : VM} {f : Fn} {ip base : Nat} {vals : List Value} {l r : Int}
    (h : vm.frame_at f ip base (vals ++ [.int l] ++ [.int r]))
    (h3 : (f.chunks[ip]?).bind decode = some .GE)
    (hroom : base + 1 + vals.length < STACK_LENGTH) :
    ∃ vm1, step vm = .running vm1 ∧
      vm1.frame_at f (ip + 1) base (vals ++ [.bool (decide (l ≥ r))]) := by
  have hat := frame_at_op h .GE [] h3 rfl
  obtain ⟨chunk, hd, he⟩ := dispatch_at hat
  obtain ⟨hr, -⟩ := hat
  obtain ⟨-, hip, hloc, htop, hvals⟩ := h
  obtain ⟨hvals1, hr0⟩ := vals_pop hvals
  obtain ⟨hvals2, hl0⟩ := vals_pop hvals1
  have h0 : vm.frame_ptr ≠ 0 := hr.1
  simp only [List.length_append, List.length_singleton] at htop hr0
  have e0 : vm.fetched.stack_top = vm.stack_top := by simp [VM.fetched, VM.with_frame]
  have e1 : vm.fetched.stack = vm.stack := by simp [VM.fetched, VM.with_frame]
  have q0 := pop_ok vm.fetched (by omega)
  have q1 := pop_ok { vm.fetched with stack_top := vm.fetched.stack_top - 1 }
    (by show 0 < vm.fetched.stack_top - 1; omega)
  have hr1 : vm.fetched.stack (vm.fetched.stack_top - 1) = .int r := by
    rw [e0, e1, htop]
    have : base + 1 + (vals.length + 1 + 1) - 1 = base + 1 + (vals.length + 1) := by omega
    rw [this]
    exact hr0
  have hl1 : vm.fetched.stack (vm.fetched.stack_top - 1 - 1) = .int l := by
    rw [e0, e1, htop]
    have : base + 1 + (vals.length + 1 + 1) - 1 - 1 = base + 1 + vals.length := by omega
    rw [this]
    exact hl0
  have q2 := push_ok { vm.fetched with stack_top := vm.fetched.stack_top - 1 - 1 }
    (.bool (decide (l ≥ r))) (by show vm.fetched.stack_top - 1 - 1 < STACK_LENGTH; omega)
  obtain ⟨-, fi, hfn, hfns⟩ := hr
  have hstep : step vm = .running { vm.fetched with
      stack := Function.update vm.fetched.stack (vm.fetched.stack_top - 1 - 1)
        (.bool (decide (l ≥ r))),
      stack_top := vm.fetched.stack_top - 1 - 1 + 1 } := by
    simp only [step, he, dispatch, hd, op_ge, bind_apply, q0, q1, hr1, hl1, pure_apply, q2]
  refine ⟨_, hstep, ⟨h0, fi, ?_, hfns⟩, ?_, ?_, ?_, ?_⟩
  · unfold VM.frame at hfn ⊢
    simp [VM.fetched, VM.with_frame, VM.set_ip, VM.frame, hfn]
  · unfold VM.frame at hip ⊢
    simp [VM.fetched, VM.with_frame, VM.set_ip, VM.frame, hip]
  · unfold VM.frame at hloc ⊢
    simp [VM.fetched, VM.with_frame, VM.set_ip, VM.frame, hloc]
  · show vm.fetched.stack_top - 1 - 1 + 1 = _
    rw [e0, htop, List.length_append]
    simp
    omega
  · show ∀ i w, (vals ++ [Value.bool (decide (l ≥ r))])[i]? = some w →
      Function.update vm.fetched.stack (vm.fetched.stack_top - 1 - 1) _ (base + 1 + i) = w
    rw [e0, e1, htop]
    have : base + 1 + (vals.length + 1 + 1) - 1 - 1 = base + 1 + vals.length := by omega
    rw [this]
    exact vals_push hvals2 _

theorem frame_at_jit {vm : VM} {f : Fn} {ip base : Nat} {vals : List Value} {b : Bool}
    (h : vm.frame_at f ip base (vals ++ [.bool b])) (b0 b1 : Nat)
    (h3 : (f.chunks[ip]?).bind decode = some .JIT)
    (h4 : ((f.chunks.drop (ip + 1)).take 2) = [b0, b1]) (ip1 : Nat)
    (hto : to_size_t (((ip + 3 : Nat) : Int) + (if b then compose_i16 b0 b1 else 0)) = ip1) :
    ∃ vm1, step vm = .running vm1 ∧ vm1.frame_at f ip1 base vals := by
  have hat := frame_at_op h .JIT [b0, b1] h3 h4
  obtain ⟨chunk, hd, he⟩ := dispatch_at hat
  obtain ⟨c0, c1⟩ := operands2 hat
  obtain ⟨hr, -⟩ := hat
  obtain ⟨-, hip, hloc, htop, hvals⟩ := h
  obtain ⟨hvals1, hb0⟩ := vals_pop hvals
  have hrn := fetched_runs hr
  have rd := read_i16_at hrn b0 b1 c0 c1
  have h0 : vm.frame_ptr ≠ 0 := hr.1
  simp only [List.length_append, List.length_singleton] at htop
  have fip : vm.fetched.frame.ip = vm.frame.ip + 1 := fetched_ip vm
  generalize hR : vm.fetched.set_ip (vm.fetched.frame.ip + 2) = vmR at rd
  have e0 : vmR.stack_top = vm.stack_top := by
    rw [← hR]; simp [VM.fetched, VM.set_ip, VM.with_frame]
  have e1 : vmR.stack = vm.stack := by
    rw [← hR]; simp [VM.fetched, VM.set_ip, VM.with_frame]
  have eip : vmR.frame.ip = ip + 3 := by
    rw [← hR, set_ip_ip, fip, hip]
  have efp : vmR.frame_ptr = vm.frame_ptr := by
    rw [← hR]; simp [VM.fetched, VM.set_ip, VM.with_frame]
  have efn : vmR.frame.fn = vm.frame.fn := by
    rw [← hR]; unfold VM.frame; simp [VM.fetched, VM.set_ip, VM.with_frame, VM.frame]
  have eloc : vmR.frame.locals = vm.frame.locals := by
    rw [← hR]; unfold VM.frame; simp [VM.fetched, VM.set_ip, VM.with_frame, VM.frame]
  have efns : vmR.fns = vm.fns := by
    rw [← hR]; simp [VM.fetched, VM.set_ip, VM.with_frame]
  have q0 := pop_ok vmR (by omega)
  have hb1 : vmR.stack (vmR.stack_top - 1) = .bool b := by
    rw [e0, e1, htop]
    have : base + 1 + (vals.length + 1) - 1 = base + 1 + vals.length := by omega
    rw [this]
    exact hb0
  have aip := @add_ip_at { vmR with stack_top := vmR.stack_top - 1 }
    (by show vmR.frame_ptr ≠ 0; rw [efp]; exact h0) (if b then compose_i16 b0 b1 else 0)
  have efr : ({ vmR with stack_top := vmR.stack_top - 1 } : VM).frame = vmR.frame := rfl
  rw [efr, eip, hto] at aip
  obtain ⟨-, fi, hfn, hfns⟩ := hr
  have hstep : step vm = .running
      (({ vmR with stack_top := vmR.stack_top - 1 } : VM).set_ip ip1) := by
    simp only [step, he, dispatch, hd, op_jit, bind_apply, rd, q0, hb1, aip, pure_apply]
  refine ⟨_, hstep, ⟨?_, fi, ?_, ?_⟩, ?_, ?_, ?_, ?_⟩
  · show vmR.frame_ptr ≠ 0
    rw [efp]; exact h0
  · rw [← hfn, ← efn]
    unfold VM.frame
    simp [VM.set_ip, VM.frame]
  · show vmR.fns[fi]? = some f
    rw [efns]; exact hfns
  · exact set_ip_ip _ _
  · rw [← hloc, ← eloc]
    unfold VM.frame
    simp [VM.set_ip, VM.frame]
  · show vmR.stack_top - 1 = _
    rw [e0, htop]
    omega
  · show ∀ i w, vals[i]? = some w → vmR.stack (base + 1 + i) = w
    rw [e1]
    exact hvals1

theorem frame_at_jmp {vm : VM} {f : Fn} {ip base : Nat} {vals : List Value}
    (h : vm.frame_at f ip base vals) (b0 b1 : Nat)
    (h3 : (f.chunks[ip]?).bind decode = some .JMP)
    (h4 : ((f.chunks.drop (ip + 1)).take 2) = [b0, b1]) (ip1 : Nat)
    (hto : to_size_t (((ip + 3 : Nat) : Int) + compose_i16 b0 b1) = ip1) :
    ∃ vm1, step vm = .running vm1 ∧ vm1.frame_at f ip1 base vals := by
  have hat := frame_at_op h .JMP [b0, b1] h3 h4
  obtain ⟨chunk, hd, he⟩ := dispatch_at hat
  obtain ⟨c0, c1⟩ := operands2 hat
  obtain ⟨hr, -⟩ := hat
  obtain ⟨-, hip, hloc, htop, hvals⟩ := h
  have hrn := fetched_runs hr
  have rd := read_i16_at hrn b0 b1 c0 c1
  have h0 : vm.frame_ptr ≠ 0 := hr.1
  have fip : vm.fetched.frame.ip = vm.frame.ip + 1 := fetched_ip vm
  generalize hR : vm.fetched.set_ip (vm.fetched.frame.ip + 2) = vmR at rd
  have e0 : vmR.stack_top = vm.stack_top := by
    rw [← hR]; simp [VM.fetched, VM.set_ip, VM.with_frame]
  have e1 : vmR.stack = vm.stack := by
    rw [← hR]; simp [VM.fetched, VM.set_ip, VM.with_frame]
  have eip : vmR.frame.ip = ip + 3 := by
    rw [← hR, set_ip_ip, fip, hip]
  have efp : vmR.frame_ptr = vm.frame_ptr := by
    rw [← hR]; simp [VM.fetched, VM.set_ip, VM.with_frame]
  have efn : vmR.frame.fn = vm.frame.fn := by
    rw [← hR]; unfold VM.frame; simp [VM.fetched, VM.set_ip, VM.with_frame, VM.frame]
  have eloc : vmR.frame.locals = vm.frame.locals := by
    rw [← hR]; unfold VM.frame; simp [VM.fetched, VM.set_ip, VM.with_frame, VM.frame]
  have efns : vmR.fns = vm.fns := by
    rw [← hR]; simp [VM.fetched, VM.set_ip, VM.with_frame]
  have aip := @add_ip_at vmR (by rw [efp]; exact h0) (compose_i16 b0 b1)
  rw [eip, hto] at aip
  obtain ⟨-, fi, hfn, hfns⟩ := hr
  have hstep : step vm = .running (vmR.set_ip ip1) := by
    simp only [step, he, dispatch, hd, op_jmp, bind_apply, rd, aip, pure_apply]
  refine ⟨_, hstep, ⟨?_, fi, ?_, ?_⟩, ?_, ?_, ?_, ?_⟩
  · show vmR.frame_ptr ≠ 0
    rw [efp]; exact h0
  · rw [← hfn, ← efn]
    unfold VM.frame
    simp [VM.set_ip, VM.frame]
  · show vmR.fns[fi]? = some f
    rw [efns]; exact hfns
  · exact set_ip_ip _ _
  · rw [← hloc, ← eloc]
    unfold VM.frame
    simp [VM.set_ip, VM.frame]
  · show vmR.stack_top = _
    rw [e0, htop]
  · show ∀ i w, vals[i]? = some w → vmR.stack (base + 1 + i) = w
    rw [e1]
    exact hvals

theorem vm_execute_add (a b : Nat) (module : Nat) (vm : VM) :
    vm_execute (a + b) module vm =
      match vm_execute a module vm with
      | .running vm1 => run b vm1
      | o => o := by
  unfold vm_execute
  cases landed (vm_start module vm) with
  | running vm0 => exact run_add a b vm0
  | halted c v => rfl
  | ub => rfl
  | unmodelled => rfl

theorem vm_execute_running_prefix (a b : Nat) (module : Nat) (vm : VM)
    (h : (vm_execute (a + b) module vm).is_running) : (vm_execute a module vm).is_running := by
  rw [vm_execute_add] at h
  cases ho : vm_execute a module vm with
  | running vm1 => trivial
  | halted c v => rw [ho] at h; exact h
  | ub => rw [ho] at h; exact h
  | unmodelled => rw [ho] at h; exact h

theorem running_eq (o : Outcome) (h : o.is_running) : o = .running o.vm := by
  cases o with
  | running vm => rfl
  | halted c v => exact absurd h (fun h => h)
  | ub => exact absurd h (fun h => h)
  | unmodelled => exact absurd h (fun h => h)

/-- One turn of the loop of `c37_f`: from the test section with the induction
variable 0, five instructions (`LGET 0`, `INT 3`, `GE`, `JIT`, the `JMP` of
`continue`) lead back to the test section with the induction variable 0. -/
theorem c37_cycle (vm : VM) (h : vm.frame_at c37_f 3 1 [.int 0]) :
    ∃ vm1, run 5 vm = .running vm1 ∧ vm1.frame_at c37_f 3 1 [.int 0] := by
  obtain ⟨v1, s1, h1⟩ := frame_at_lget h 0 (by decide!) (by decide!) (.int 0) rfl (by decide)
  obtain ⟨v2, s2, h2⟩ := frame_at_int h1 0 1 (by decide!) (by decide!) 3 (by decide!)
    (by decide)
  have h2a : v2.frame_at c37_f 8 1 ([.int 0] ++ [.int 0] ++ [.int 3]) := h2
  obtain ⟨v3, s3, h3⟩ := frame_at_ge h2a (by decide!) (by decide)
  have h3a : v3.frame_at c37_f 9 1 ([.int 0] ++ [.bool false]) := h3
  obtain ⟨v4, s4, h4⟩ := frame_at_jit h3a 0 14 (by decide!) (by decide!) 12 (by decide!)
  obtain ⟨v5, s5, h5⟩ := frame_at_jmp h4 255 244 (by decide!) (by decide!) 3 (by decide!)
  exact ⟨v5, by simp only [run, s1, s2, s3, s4, s5], h5⟩

theorem frame_at_one (vm : VM) (f : Fn) (ip base : Nat) (x : Value)
    (h0 : vm.frame_ptr ≠ 0) (fi : Nat) (h1 : vm.frame.fn = some fi) (h2 : vm.fns[fi]? = some f)
    (h3 : vm.frame.ip = ip) (h4 : vm.frame.locals = base) (h5 : vm.stack_top = base + 2)
    (h6 : vm.stack (base + 1) = x) : vm.frame_at f ip base [x] := by
  refine ⟨⟨h0, fi, h1, h2⟩, h3, h4, h5, ?_⟩
  intro i v hv
  have hi : i = 0 := by
    by_contra hc
    rw [List.getElem?_eq_none (by simp; omega)] at hv
    cases hv
  subst hi
  simp only [List.getElem?_cons_zero, Option.some.injEq] at hv
  rw [← hv]
  exact h6

theorem c37_loop (m : Nat) :
    ∃ vm, vm_execute (3 + 5 * m) 0 c37_vm = .running vm ∧ vm.frame_at c37_f 3 1 [.int 0] := by
  induction m with
  | zero =>
    exact ⟨c37_state 3, running_eq (vm_execute 3 0 c37_vm) (by decide!),
      frame_at_one (c37_state 3) c37_f 3 1 (.int 0) (by decide!) 1 (by decide!) (by decide!)
        (by decide!) (by decide!) (by decide!) (by decide!)⟩
  | succ m ih =>
    obtain ⟨vm, hvm, hat⟩ := ih
    obtain ⟨vm1, hrun, hat1⟩ := c37_cycle vm hat
    have e : 3 + 5 * (m + 1) = (3 + 5 * m) + 5 := by omega
    refine ⟨vm1, ?_, hat1⟩
    rw [e, vm_execute_add, hvm]
    exact hrun

/-- C37 on the code: for `proc f() \x7b for i = 0 upto 3 \x7b continue \x7d \x7d` the
compiler emits, for `continue`, the `JMP` at offset 12, whose target is offset
3, the test section (`LGET 0`, `INT 3`, `GE`, `JIT`); the increment section
(`LGET 0`, `CINT 1`, `ADD`, `LSET 0`, `POP`) starts at offset 15, behind that
jump, and is never reached. The program `f()` never ends: after every number of
instructions the machine is still running, and after every 3 + 5m instructions
it is back at the test section with the induction variable 0. The same loop
with the body `empty` runs the increment section at the end of the body (the
induction variable is 1 at the second test) and the program ends after 49
instructions. -/
theorem continue_in_for_skips_increment :
    c37_f.chunks = [OpCode.INT.byte, 0, 0, OpCode.LGET.byte, 0, OpCode.INT.byte, 0, 1,
      OpCode.GE.byte, OpCode.JIT.byte, 0, 14, OpCode.JMP.byte, 255, 244,
      OpCode.LGET.byte, 0, OpCode.CINT.byte, 1, OpCode.ADD.byte, OpCode.LSET.byte, 0,
      OpCode.POP.byte, OpCode.JMP.byte, 255, 233, OpCode.POP.byte, OpCode.EMPTY.byte,
      OpCode.RET.byte] ∧
    to_size_t (((12 + 3 : Nat) : Int) + compose_i16 255 244) = 3 ∧
    (∀ n, (vm_execute n 0 c37_vm).is_running) ∧
    (∀ m, (c37_state (3 + 5 * m)).frame_at c37_f 3 1 [.int 0]) ∧
    ((c37_state 7).next_op = some .JMP ∧ (c37_state 7).frame.ip = 12 ∧
      (c37_state 8).frame.ip = 3 ∧ (c37_state 8).stack 2 = .int 0) ∧
    ((c37_state_plain 3).frame.ip = 3 ∧ (c37_state_plain 3).stack 2 = .int 0 ∧
      (c37_state_plain 15).frame.ip = 3 ∧ (c37_state_plain 15).stack 2 = .int 1 ∧
      (vm_execute 49 0 c37_vm_plain).is_ok) := by
  refine ⟨by decide!, by decide!, ?_, ?_, by decide!, by decide!⟩
  · intro n
    obtain ⟨vm, hvm, -⟩ := c37_loop n
    have e : 3 + 5 * n = n + (3 + 4 * n) := by omega
    rw [e] at hvm
    exact vm_execute_running_prefix n (3 + 4 * n) 0 c37_vm (by rw [hvm]; trivial)
  · intro m
    obtain ⟨vm, hvm, hat⟩ := c37_loop m
    have : c37_state (3 + 5 * m) = vm := by
      unfold c37_state
      rw [hvm]
      rfl
    rw [this]
    exact hat

/-! ## The captured values of a closure -/

theorem normalize_turn_content (c : Collector) (p q : Nat) :
    (normalize_turn c p).content q = c.content q := by
  cases h : c.objs[p]? with
  | none => simp [normalize_turn, set_color, h, obj_list_remove, Collector.content]
  | some x =>
    cases x with
    | none => simp [normalize_turn, set_color, h, obj_list_remove, Collector.content]
    | some o =>
      exact recolor_content c _ p o .WHITE h
        (by simp [normalize_turn, set_color_eq p .WHITE c o h, obj_list_remove]) q

theorem normalize_fold_content (l : List Nat) :
    ∀ (c : Collector) (q : Nat), (l.foldl normalize_turn c).content q = c.content q := by
  induction l with
  | nil => intro c q; rfl
  | cons p rest ih =>
    intro c q
    rw [List.foldl_cons, ih, normalize_turn_content]

theorem sweep_normalize_content {c : Collector} (hc : c.coherent) (q : Nat)
    (hq : q ∉ c.white_objs) : (normalize_objs (sweep_objs c)).content q = c.content q := by
  rw [normalize_objs_eq, normalize_fold_content]
  unfold Collector.content
  rw [(sweep_objs_spec hc).2.2.2.2.2 q hq]

/-- C35 on the code: `mark_objs` has no loop over the `OutValue`s of a closure,
its `CLOSURE_OBJ_TYPE` case is empty. Start from a state between two
collections in which no pointer dangles and no alive record has null `attrs`,
with fuel for every white object. A closure held in a stack slot survives the
collection with its captured values as they were; an object of the white list
that one of these captured values points to, and that the root scan reaches in
no other way, is destroyed: the closure is left with a pointer to a destroyed
object. -/
theorem closure_captured_object_is_swept (c : Collector) (fuel : Nat) (hidle : c.idle)
    (hclosed : c.closed) (hnn : c.no_null_attrs) (hfuel : c.white_objs.length < fuel)
    (q p : Nat) (out_values : List Value) (hq : Value.obj q ∈ c.stack)
    (hqw : q ∈ c.white_objs) (hqc : c.content q = some (.closure out_values))
    (hpo : Value.obj p ∈ out_values) (hp : p ∈ c.white_objs)
    (hns : ¬ c.scanned (c.stack ++ c.top_global_values) p) :
    ∃ c2, vmu_gc fuel c = .ok c2 ∧ c2.white_alive q ∧
      c2.content q = some (.closure out_values) ∧ Value.obj p ∈ out_values ∧
      c2.destroyed p := by
  obtain ⟨cP, eP, dP, hcP, hsP, bP, nwP, hmark⟩ := marked_spec c fuel hidle hclosed hfuel
  rcases hmark with ⟨c1, m1, m2, m3, m4, m5, m6, m7, -⟩ | ⟨-, r, hr⟩
  · obtain ⟨f1, f2, f3, f4⟩ := sweep_normalize_spec m2 m7
    have hqc1 : c1.content q = some (.closure out_values) := by
      rw [m3.2.2.2.2 q]; exact hqc
    have hqnw : c1.color q ≠ some .WHITE := (m4 q).1 (nwP q hq)
    have hqnt : c1.color q ≠ some .TRANSPARENT :=
      (m4 q).2 ((dP q).2 (by rw [hidle.2.2.1 q hqw]; simp))
    have hqb : q ∈ c1.black_objs := black_of_not_white m2 m7 hqc1 hqnw hqnt
    have hqnl : q ∉ c1.white_objs := fun h => hqnw ((m2 q).1.1 h)
    have hpw1 : p ∈ c1.white_objs := by
      have hw : c.color p = some .WHITE := hidle.2.2.1 p hp
      obtain ⟨o, ho, _⟩ := color_eq_some hw
      have hc1 : c1.content p = some o.obj := by
        rw [m3.2.2.2.2 p]
        exact content_of_obj ho
      obtain ⟨col, hcol⟩ := color_of_content hc1
      cases col with
      | WHITE => exact (m2 p).1.2 hcol
      | TRANSPARENT =>
        exact absurd hcol ((m4 p).2 ((dP p).2 (by rw [hw]; simp)))
      | GRAY =>
        have := (m2 p).2.1.2 hcol
        rw [m7] at this
        cases this
      | BLACK => exact absurd (m6 p (Or.inr ((m2 p).2.2.2 hcol))) hns
    refine ⟨_, by simp only [vmu_gc, eP, Collected.bind, m1], f3 q hqb, ?_, hpo, f4 p hpw1⟩
    rw [sweep_normalize_content m2 q hqnl]
    exact hqc1
  · exact absurd hr (hnn r (content_lt hr))

theorem c35_scanned (q : Nat)
    (h : c35_collector.scanned (c35_collector.stack ++ c35_collector.top_global_values) q) :
    q = 0 ∨ q = 1 := by
  induction h with
  | root q hq =>
    have e : c35_collector.stack ++ c35_collector.top_global_values
        = [.obj 0, .obj 1] := by decide
    rw [e] at hq
    simpa using hq
  | ref p q _ hq ih =>
    rcases ih with h1 | h1 <;> subst h1
    · have e : c35_collector.refs 0 = [] := by decide
      rw [e] at hq
      cases hq
    · have e : c35_collector.refs 1 = [] := by decide
      rw [e] at hq
      cases hq
  | global p m q _ hc _ ih =>
    rcases ih with h1 | h1 <;> subst h1
    · have e : c35_collector.content 0 = some (.fn "entry" 0) := by decide
      rw [e] at hc
      cases hc
    · have e : c35_collector.content 1 = some (.closure [.obj 2]) := by decide
      rw [e] at hc
      cases hc

theorem closure_captured_object_is_swept_witness :
    (c35_collector.idle ∧ c35_collector.closed ∧ c35_collector.no_null_attrs ∧
      c35_collector.white_objs.length < 4 ∧ Value.obj 1 ∈ c35_collector.stack ∧
      1 ∈ c35_collector.white_objs ∧ c35_collector.content 1 = some (.closure [.obj 2]) ∧
      Value.obj 2 ∈ [Value.obj 2] ∧ 2 ∈ c35_collector.white_objs ∧
      ¬ c35_collector.scanned (c35_collector.stack ++ c35_collector.top_global_values) 2) ∧
    ∃ c2, vmu_gc 4 c35_collector = .ok c2 ∧ c2.white_alive 1 ∧
      c2.content 1 = some (.closure [.obj 2]) ∧ Value.obj 2 ∈ [Value.obj 2] ∧
      c2.destroyed 2 :=
  have hns : ¬ c35_collector.scanned
      (c35_collector.stack ++ c35_collector.top_global_values) 2 := fun h => by
    rcases c35_scanned 2 h with h1 | h1 <;> cases h1
  ⟨⟨by decide, by decide, by decide, by decide, by decide, by decide, by decide, by decide,
      by decide, hns⟩,
    closure_captured_object_is_swept c35_collector 4 (by decide) (by decide) (by decide)
      (by decide) 1 2 [.obj 2] (by decide) (by decide) (by decide) (by decide) (by decide) hns⟩

/-- C35 as stated fails for the closure that
`proc mk() \x7b let xs = list(); ret anon() \x7b ret xs \x7d \x7d` returns, once the frame
of `mk` has returned: the collection leaves the closure (object 1) alive with
its captured value, the pointer to the list (object 2), and destroys the list.
While the frame of `mk` is live and its local holds the list, the same
collection keeps the list. -/
theorem captured_list_destroyed_after_frame_returned :
    vmu_gc 4 c35_collector = .ok
      { c35_collector with
        objs := [white (.fn "entry" 0), white (.closure [.obj 2]), none],
        white_objs := [0, 1] } ∧
    (∃ c2, vmu_gc 4 c35_collector_live = .ok c2 ∧ c2.white_alive 2 ∧
      c2.content 1 = some (.closure [.obj 2]) ∧ c2.content 2 = some (.list [.int 1])) := by
  refine ⟨by decide, _, rfl, by decide, by decide, by decide⟩

/-! ## `return` and the stack of blocks -/

/-- C31 on the code. The `RETURN_STMT_TYPE` case reads the innermost block of
the current unit. Outside the global scope: when the unit has no block,
`peek_block` fails its `assert` (or returns the null pointer that is read
next), which is undefined behaviour and no compile error; when the cursor of
the innermost block is before the end of the block, the statement is rejected
with "Return statements must be the last in the scope"; when the cursor is at
the end, a return without expression emits `RET` and marks the scope as
returned. An anonymous function pushes a unit and no block, so a return that
is directly a statement of its body finds no block, whatever it returns and
whatever follows. -/
theorem return_reads_innermost_block (ret_expr : Option compiler.Expr) (s : compiler.LocalScope)
    (rest : compiler.ScopeManager) (u : compiler.Unit) (us : List compiler.Unit)
    (strs : List String) (hs : s.type ≠ .GLOBAL) :
    (u.blocks = [] →
      (compiler.compile_stmt (.RETURN ret_expr) (s :: rest)
        { units_stack := u :: us, strings := strs }).is_ub = true) ∧
    (∀ block prev, u.blocks = block :: prev → block.current_stmt < block.stmts_len →
      (compiler.compile_stmt (.RETURN ret_expr) (s :: rest)
        { units_stack := u :: us, strings := strs }).failure
        = some "Return statements must be the last in the scope") ∧
    (∀ block prev, u.blocks = block :: prev → ¬ block.current_stmt < block.stmts_len →
      ret_expr = none →
      compiler.compile_stmt (.RETURN ret_expr) (s :: rest)
          { units_stack := u :: us, strings := strs }
        = .ok ({ s with returned := true } :: rest)
            { units_stack :=
                { u with fn := { u.fn with chunks := u.fn.chunks ++ [OpCode.RET.byte] } } :: us,
              strings := strs }) ∧
    (∀ (stmts : List compiler.Stmt) (module : Nat) (m : compiler.ScopeManager)
        (c : compiler.Compiler),
      (compiler.compile_anon [] (.RETURN ret_expr :: stmts) module m c).is_ub = true) := by
  have hg : compiler.scope_manager_is_global_scope (s :: rest) = false := by
    simp [compiler.scope_manager_is_global_scope, hs]
  have hbody : compiler.compile_stmt (.RETURN ret_expr) (s :: rest)
      { units_stack := u :: us, strings := strs }
      = (do
          if compiler.scope_manager_is_global_scope (s :: rest) then
            compiler.error "Return statements not allowed in global scope"
          let block ← compiler.peek_block
          if block.current_stmt < block.stmts_len then
            compiler.error "Return statements must be the last in the scope"
          let m1 : compiler.ScopeManager := { s with returned := true } :: rest
          match ret_expr with
          | some e => compiler.compile_expr e m1
          | none => pure ⟨⟩
          let _ ← compiler.write_chunk OpCode.RET.byte
          pure m1 : compiler.Comp compiler.ScopeManager)
        { units_stack := u :: us, strings := strs } := rfl
  refine ⟨?_, ?_, ?_, ?_⟩
  · intro hb
    rw [hbody]
    simp [hg, compiler.peek_block, compiler.current_unit, hb, compiler.CRes.is_ub]
  · intro block prev hb hlt
    rw [hbody]
    simp [hg, compiler.peek_block, compiler.current_unit, hb, hlt, compiler.error,
      compiler.CRes.failure]
  · intro block prev hb hlt he
    rw [hbody]
    subst he
    simp [hg, compiler.peek_block, compiler.current_unit, hb, hlt, compiler.write_chunk,
      compiler.insert_chunk, compiler.chunks_len, compiler.set_unit]
    decide
  · intro stmts module m c
    rfl

theorem return_reads_innermost_block_witness :
    compiler.ScopeType.FN ≠ .GLOBAL ∧
    (compiler.create_unit
        { name := "anonymous", arity := 1, chunks := [], iconsts := [], fconsts := [],
          module := 0 }).blocks = [] ∧
    (compiler.compile_stmt (.RETURN (some (.IDENTIFIER "y")))
      ({ type := .FN, locals := ["y"], returned := false } :: c31_scopes)
      { units_stack := compiler.create_unit
          { name := "anonymous", arity := 1, chunks := [], iconsts := [], fconsts := [],
            module := 0 } :: c31_compiler.units_stack,
        strings := [] }).is_ub = true :=
  ⟨by decide, rfl,
    (return_reads_innermost_block (some (.IDENTIFIER "y"))
      { type := .FN, locals := ["y"], returned := false } c31_scopes
      (compiler.create_unit
        { name := "anonymous", arity := 1, chunks := [], iconsts := [], fconsts := [],
          module := 0 })
      c31_compiler.units_stack [] (by decide)).1 rfl⟩

/-- C31 as stated fails for `anon(y) \x7b ret y \x7d` inside a procedure: the
compilation of the anonymous function ends in undefined behaviour (the failed
`assert` of `peek_block`), although the return is the final statement of the
body; with the return inside a block statement, `anon(y) \x7b \x7b ret y \x7d \x7d`,
it compiles. In a procedure the claim holds: `proc f() \x7b ret 1 \x7d` and
`proc f(y) \x7b ret y \x7d` compile, to `INT 1`, `RET` and `LGET 0`, `RET` with no
implicit return appended, so do a return that ends a try block or the body of
a for loop, and `proc f() \x7b ret 1 empty \x7d` is rejected with "Return statements
must be the last in the scope". -/
theorem return_in_anon_body_finds_no_block :
    (compiler.compile_anon ["y"] c31_anon_body 0 c31_scopes c31_compiler).is_ub = true ∧
    (compiler.compile_anon ["y"] c31_anon_body 0 c31_scopes c31_compiler).failure = none ∧
    ((compiler.compile_anon ["y"] c31_anon_block_body 0 c31_scopes c31_compiler).is_ub = false ∧
      (compiler.compile_anon ["y"] c31_anon_block_body 0 c31_scopes c31_compiler).failure
        = none ∧
      (compiler.compiled
          (compiler.compile_anon ["y"] c31_anon_block_body 0 c31_scopes c31_compiler)).chunks
        = [OpCode.LGET.byte, 0, OpCode.RET.byte, OpCode.EMPTY.byte, OpCode.RET.byte]) ∧
    ((compiler.compile_function "f" [] c31_last 0 c10_compiler).failure = none ∧
      (compiler.compiled (compiler.compile_function "f" [] c31_last 0 c10_compiler)).chunks
        = [OpCode.INT.byte, 0, 0, OpCode.RET.byte]) ∧
    ((compiler.compile_function "f" ["y"] c31_anon_body 0 c10_compiler).failure = none ∧
      (compiler.compiled (compiler.compile_function "f" ["y"] c31_anon_body 0 c10_compiler)).chunks
        = [OpCode.LGET.byte, 0, OpCode.RET.byte]) ∧
    (compiler.compile_function "f" [] [.TRY (some [.RETURN none]) none] 0 c10_compiler).failure
      = none ∧
    (compiler.compile_function "f" []
      [.FOR_RANGE "i" (.INT 0) true (.INT 3) [.RETURN none]] 0 c10_compiler).failure = none ∧
    (compiler.compile_function "f" [] c31_followed 0 c10_compiler).failure
      = some "Return statements must be the last in the scope" ∧
    (compiler.compile_function "f" [] [.BLOCK (some [.RETURN none, .EXPR .EMPTY])] 0
      c10_compiler).failure = some "Return statements must be the last in the scope" := by
  decide!

/-! ## The random generator -/

theorem xor_shift_eq_zero (z k : Nat) (hk : 0 < k) (h : z ^^^ (z >>> k) = 0) : z = 0 := by
  have h1 : z = z >>> k := Nat.xor_eq_zero.mp h
  rw [Nat.shiftRight_eq_div_pow] at h1
  by_contra hz
  have h2 : z / 2 ^ k < z := Nat.div_lt_self (Nat.pos_of_ne_zero hz) (Nat.one_lt_two_pow (by omega))
  omega

theorem xor_shift_lt (z k : Nat) (hz : z < 2 ^ 64) : z ^^^ (z >>> k) < 2 ^ 64 := by
  apply Nat.xor_lt_two_pow hz
  rw [Nat.shiftRight_eq_div_pow]
  exact lt_of_le_of_lt (Nat.div_le_self _ _) hz


theorem mul_odd_mod_eq_zero (w c : Nat) (hw : w < 2 ^ 64) (hc : c % 2 = 1)
    (h : (w * c) % 2 ^ 64 = 0) : w = 0 := by
  have hd : 2 ^ 64 ∣ w * c := Nat.dvd_of_mod_eq_zero h
  have hodd : Nat.Coprime 2 c := by
    rw [Nat.coprime_comm]
    exact Nat.odd_iff.mpr hc |>.coprime_two_right
  have hcop : Nat.Coprime (2 ^ 64) c := Nat.Coprime.pow_left 64 hodd
  have hd2 : 2 ^ 64 ∣ w := hcop.dvd_of_dvd_mul_right hd
  exact Nat.eq_zero_of_dvd_of_lt hd2 hw

/-- The output function of `splitmix64_next` sends only the state 0 to 0. -/
theorem splitmix64_next_eq_zero (sm64 : SplitMix64) (h : (splitmix64_next sm64).1 = 0) :
    (splitmix64_next sm64).2.x = 0 := by
  simp only [splitmix64_next] at h ⊢
  have hx : (sm64.x + 0x9e3779b97f4a7c15) % 2 ^ 64 < 2 ^ 64 := Nat.mod_lt _ (by decide)
  generalize (sm64.x + 0x9e3779b97f4a7c15) % 2 ^ 64 = x at h hx ⊢
  have h1 := xor_shift_eq_zero _ 31 (by decide) h
  have h2 := mul_odd_mod_eq_zero _ _ (xor_shift_lt _ 27 (Nat.mod_lt _ (by decide))) (by decide) h1
  have h3 := xor_shift_eq_zero _ 27 (by decide) h2
  have h4 := mul_odd_mod_eq_zero _ _ (xor_shift_lt _ 30 hx) (by decide) h3
  exact xor_shift_eq_zero _ 30 (by decide) h4

theorem splitmix64_next_lt (sm64 : SplitMix64) : (splitmix64_next sm64).1 < 2 ^ 64 := by
  simp only [splitmix64_next]
  exact xor_shift_lt _ 31 (Nat.mod_lt _ (by decide))

theorem splitmix64_next_x (sm64 : SplitMix64) :
    (splitmix64_next sm64).2.x = (sm64.x + 0x9e3779b97f4a7c15) % 2 ^ 64 := rfl

/-- Two calls of `splitmix64_next` in a row do not both return 0. -/
theorem splitmix64_next_twice (sm64 : SplitMix64) (h : (splitmix64_next sm64).1 = 0) :
    (splitmix64_next (splitmix64_next sm64).2).1 ≠ 0 := by
  intro h2
  have e1 := splitmix64_next_eq_zero _ h
  have e2 := splitmix64_next_eq_zero _ h2
  rw [splitmix64_next_x, e1] at e2
  revert e2
  decide

theorem xoshiro256_init_seed_spec (seed : Nat) :
    (xoshiro256_init_seed seed).words ∧ ¬ (xoshiro256_init_seed seed).all_zero := by
  constructor
  · exact ⟨splitmix64_next_lt _, splitmix64_next_lt _, splitmix64_next_lt _, splitmix64_next_lt _⟩
  · intro h
    exact splitmix64_next_twice _ h.1 h.2.1

theorem rotl_lt (x k : Nat) (hx : x < 2 ^ 64) : rotl x k < 2 ^ 64 := by
  unfold rotl
  apply Nat.or_lt_two_pow (Nat.mod_lt _ (by decide))
  rw [Nat.shiftRight_eq_div_pow]
  exact lt_of_le_of_lt (Nat.div_le_self _ _) hx

theorem lor_eq_zero (a b : Nat) (h : a ||| b = 0) : a = 0 ∧ b = 0 := by
  have hb : ∀ i, (a.testBit i || b.testBit i) = false := by
    intro i
    rw [← Nat.testBit_or, h, Nat.zero_testBit]
  constructor
  · apply Nat.eq_of_testBit_eq
    intro i
    have := hb i
    rw [Nat.zero_testBit]
    cases h1 : a.testBit i <;> simp_all
  · apply Nat.eq_of_testBit_eq
    intro i
    have := hb i
    rw [Nat.zero_testBit]
    cases h1 : b.testBit i <;> simp_all

theorem rotl_eq_zero (x : Nat) (hx : x < 2 ^ 64) (h : rotl x 45 = 0) : x = 0 := by
  unfold rotl at h
  have h1 : (x <<< 45) % 2 ^ 64 = 0 ∧ x >>> (64 - 45) = 0 := lor_eq_zero _ _ h
  obtain ⟨ha, hb⟩ := h1
  rw [Nat.shiftLeft_eq] at ha
  rw [Nat.shiftRight_eq_div_pow] at hb
  norm_num at ha hb
  omega

theorem shift17_fixed (x : Nat) (hx : x < 2 ^ 64) (h : x = (x <<< 17) % 2 ^ 64) : x = 0 := by
  rw [Nat.shiftLeft_eq] at h
  have h1 : (x * (2 ^ 17 - 1)) % 2 ^ 64 = 0 := by
    have e : x * 2 ^ 17 = x * (2 ^ 17 - 1) + x := by
      have : (2 : Nat) ^ 17 = (2 ^ 17 - 1) + 1 := by norm_num
      nth_rewrite 1 [this]
      ring
    rw [e] at h
    have h2 : (x * (2 ^ 17 - 1) + x) % 2 ^ 64 = (0 + x) % 2 ^ 64 := by
      rw [← h, Nat.zero_add, Nat.mod_eq_of_lt hx]
    have h3 : (x * (2 ^ 17 - 1)) ≡ 0 [MOD 2 ^ 64] := Nat.ModEq.add_right_cancel' x h2
    exact h3
  exact mul_odd_mod_eq_zero x _ hx (by decide) h1

theorem xoshiro256_next_spec (xos256 : XOShiro256) (hw : xos256.words)
    (hz : ¬ xos256.all_zero) :
    (xoshiro256_next xos256).2.words ∧ ¬ (xoshiro256_next xos256).2.all_zero := by
  obtain ⟨w0, w1, w2, w3⟩ := hw
  constructor
  · simp only [xoshiro256_next, XOShiro256.words]
    refine ⟨?_, ?_, ?_, ?_⟩
    · exact Nat.xor_lt_two_pow w0 (Nat.xor_lt_two_pow w3 w1)
    · exact Nat.xor_lt_two_pow w1 (Nat.xor_lt_two_pow w2 w0)
    · exact Nat.xor_lt_two_pow (Nat.xor_lt_two_pow w2 w0) (Nat.mod_lt _ (by decide))
    · exact rotl_lt _ _ (Nat.xor_lt_two_pow w3 w1)
  · intro h
    simp only [xoshiro256_next, XOShiro256.all_zero] at h
    obtain ⟨h0, h1, h2, h3⟩ := h
    have e31 : xos256.s3 ^^^ xos256.s1 = 0 := rotl_eq_zero _ (Nat.xor_lt_two_pow w3 w1) h3
    rw [e31, Nat.xor_zero] at h0
    rw [h0, Nat.xor_zero] at h1 h2
    have e12 : xos256.s1 = xos256.s2 := Nat.xor_eq_zero.mp h1
    have e2t : xos256.s2 = (xos256.s1 <<< 17) % 2 ^ 64 := Nat.xor_eq_zero.mp h2
    have e1 : xos256.s1 = 0 := shift17_fixed _ w1 (e12.trans e2t)
    have e3 : xos256.s3 = xos256.s1 := Nat.xor_eq_zero.mp e31
    exact hz ⟨h0, e1, by rw [← e12, e1], by rw [e3, e1]⟩

theorem xoshiro256_after_spec (n : Nat) : ∀ (xos256 : XOShiro256), xos256.words →
    ¬ xos256.all_zero →
    (xoshiro256_after n xos256).words ∧ ¬ (xoshiro256_after n xos256).all_zero := by
  induction n with
  | zero => intro x hw hz; exact ⟨hw, hz⟩
  | succ n ih =>
    intro x hw hz
    obtain ⟨a, b⟩ := xoshiro256_next_spec x hw hz
    exact ih _ a b

/-- C40: for every seed, the state `xoshiro256_init_seed` produces is not
everywhere zero, and it is not everywhere zero after any number of calls of
`xoshiro256_next`; every word of it stays a 64-bit value. -/
theorem xoshiro256_state_never_all_zero (seed n : Nat) :
    ¬ (xoshiro256_init_seed seed).all_zero ∧
    ¬ (xoshiro256_after n (xoshiro256_init_seed seed)).all_zero ∧
    (xoshiro256_after n (xoshiro256_init_seed seed)).words := by
  obtain ⟨hw, hz⟩ := xoshiro256_init_seed_spec seed
  obtain ⟨a, b⟩ := xoshiro256_after_spec n _ hw hz
  exact ⟨hz, b, a⟩

/-! ## The search paths -/

theorem splitOnP_go_free {α : Type} (p : α → Bool) :
    ∀ (l acc : List α), (∀ x ∈ acc, p x = false) →
      ∀ seg ∈ List.splitOnP.go p l acc, ∀ x ∈ seg, p x = false := by
  intro l
  induction l with
  | nil =>
    intro acc hacc seg hseg x hx
    simp only [List.splitOnP.go, List.mem_singleton] at hseg
    subst hseg
    exact hacc x (List.mem_reverse.mp hx)
  | cons a t ih =>
    intro acc hacc seg hseg x hx
    simp only [List.splitOnP.go] at hseg
    by_cases ha : p a = true
    · rw [if_pos ha] at hseg
      rcases List.mem_cons.mp hseg with h | h
      · subst h
        exact hacc x (List.mem_reverse.mp hx)
      · exact ih [] (by simp) seg h x hx
    · rw [if_neg ha] at hseg
      refine ih (a :: acc) ?_ seg hseg x hx
      intro y hy
      rcases List.mem_cons.mp hy with h | h
      · subst h
        simpa using ha
      · exact hacc y h

theorem parse_search_paths_loop_spec (separator : Char) (raw : List Char)
    (hlast : raw.getD (raw.length - 1) (Char.ofNat 0) ≠ separator) :
    ∀ (left i start_idx : Nat) (search_paths : List (List Char)),
      0 < left → i + left = raw.length → start_idx ≤ i →
      parse_search_paths_loop separator raw left i start_idx search_paths =
        search_paths ++ List.splitOnP.go (fun x => x == separator) (raw.drop i)
          ((raw.drop start_idx).take (i - start_idx)).reverse := by
  intro left
  induction left with
  | zero => intro i s P h; omega
  | succ left ih =>
    intro i s P _ hlen hs
    have hi : i < raw.length := by omega
    have hget : raw.getD i (Char.ofNat 0) = raw[i] := by
      simp [List.getD, List.getElem?_eq_getElem hi]
    have hdrop : raw.drop i = raw[i] :: raw.drop (i + 1) := List.drop_eq_getElem_cons hi
    have hseg : (raw.drop s).take (i - s + 1) = (raw.drop s).take (i - s) ++ [raw[i]] := by
      rw [List.take_succ]
      congr 1
      have : (raw.drop s)[i - s]? = some raw[i] := by
        rw [List.getElem?_drop]
        have : s + (i - s) = i := by omega
        rw [this, List.getElem?_eq_getElem hi]
      rw [this]
      rfl
    unfold parse_search_paths_loop
    simp only [hget]
    by_cases hl : left = 0
    · subst hl
      have hc : raw[i] ≠ separator := by
        have e : raw.length - 1 = i := by omega
        rw [e, hget] at hlast
        exact hlast
      have h1 : ¬ (i + 1 < raw.length ∧ raw[i] ≠ separator) := by
        intro h
        omega
      rw [if_neg h1]
      simp only [parse_search_paths_loop, if_neg hc]
      rw [hdrop]
      have hnil : raw.drop (i + 1) = [] := List.drop_eq_nil_of_le (by omega)
      simp only [List.splitOnP.go, hnil, beq_iff_eq, hc, if_false, Bool.false_eq_true]
      rw [hseg]
      simp
    · have hlt : i + 1 < raw.length := by omega
      by_cases hc : raw[i] = separator
      · have h1 : ¬ (i + 1 < raw.length ∧ raw[i] ≠ separator) := by
          intro h
          exact h.2 hc
        rw [if_neg h1]
        simp only [hc, if_true, Nat.add_zero]
        rw [ih (i + 1) (i + 1) _ (Nat.pos_of_ne_zero hl) (by omega) (le_refl _)]
        rw [hdrop]
        simp [List.splitOnP.go, hc]
      · have h1 : i + 1 < raw.length ∧ raw[i] ≠ separator := ⟨hlt, hc⟩
        rw [if_pos h1]
        rw [ih (i + 1) s _ (Nat.pos_of_ne_zero hl) (by omega) (by omega)]
        have e : i + 1 - s = i - s + 1 := by omega
        rw [hdrop, e, hseg]
        simp [List.splitOnP.go, hc]

/-- C32: `parse_search_paths` rejects a list that starts or ends with the
separator; for every other non-empty list it returns, after the entry for the
current working directory (present when it differs from the main search path),
the pieces of the list between the separators in their order: none of them
holds a separator and joining them with the separator gives the list back. -/
theorem parse_search_paths_splits_at_separators (separator : Char)
    (cwd main_search_pathname raw : List Char) (hne : raw ≠ []) :
    ((raw.head? = some separator ∨ raw.getLast? = some separator) →
      rejected (parse_search_paths separator cwd main_search_pathname (some raw)) = true) ∧
    (raw.head? ≠ some separator → raw.getLast? ≠ some separator →
      ∃ paths, parse_search_paths separator cwd main_search_pathname (some raw) =
          .ok (cwd_entry cwd main_search_pathname ++ paths) ∧
        paths = raw.splitOn separator ∧
        (∀ path ∈ paths, separator ∉ path) ∧
        [separator].intercalate paths = raw) := by
  have hlen : raw.length ≠ 0 := by
    intro h
    exact hne (List.length_eq_zero.mp h)
  have hpos : 0 < raw.length := Nat.pos_of_ne_zero hlen
  have hhead : raw.head? = some (raw.getD 0 (Char.ofNat 0)) := by
    cases raw with
    | nil => exact absurd rfl hne
    | cons a t => simp
  have hlast : raw.getLast? = some (raw.getD (raw.length - 1) (Char.ofNat 0)) := by
    rw [List.getLast?_eq_getElem?]
    simp [List.getD, List.getElem?_eq_getElem (show raw.length - 1 < raw.length by omega)]
  constructor
  · intro h
    simp only [parse_search_paths]
    rw [if_neg hlen]
    by_cases h0 : raw.getD 0 (Char.ofNat 0) = separator
    · rw [if_pos h0]
      rfl
    · rw [if_neg h0]
      rcases h with h | h
      · rw [hhead] at h
        exact absurd (Option.some.inj h) h0
      · rw [hlast] at h
        rw [if_pos (Option.some.inj h)]
        rfl
  · intro h0 h1
    have g0 : raw.getD 0 (Char.ofNat 0) ≠ separator := by
      intro h
      exact h0 (by rw [hhead, h])
    have g1 : raw.getD (raw.length - 1) (Char.ofNat 0) ≠ separator := by
      intro h
      exact h1 (by rw [hlast, h])
    refine ⟨raw.splitOn separator, ?_, rfl, ?_, List.intercalate_splitOn raw separator⟩
    · simp only [parse_search_paths]
      rw [if_neg hlen, if_neg g0, if_neg g1]
      rw [parse_search_paths_loop_spec separator raw g1 raw.length 0 0 _ hpos (by omega) (le_refl _)]
      simp [cwd_entry, List.splitOn, List.splitOnP]
    · intro path hp hs
      have := splitOnP_go_free (fun x => x == separator) raw [] (by simp) path
        (by simpa [List.splitOn, List.splitOnP] using hp) separator hs
      simp at this

theorem parse_search_paths_splits_at_separators_witness :
    (['a', ':', 'b', 'c'] : List Char) ≠ [] ∧
    (((['a', ':', 'b', 'c'] : List Char).head? = some ':' ∨
        (['a', ':', 'b', 'c'] : List Char).getLast? = some ':' →
      rejected (parse_search_paths ':' ['/', 'w'] ['/', 's'] (some ['a', ':', 'b', 'c']))
        = true) ∧
    ((['a', ':', 'b', 'c'] : List Char).head? ≠ some ':' →
      (['a', ':', 'b', 'c'] : List Char).getLast? ≠ some ':' →
      ∃ paths, parse_search_paths ':' ['/', 'w'] ['/', 's'] (some ['a', ':', 'b', 'c']) =
          .ok (cwd_entry ['/', 'w'] ['/', 's'] ++ paths) ∧
        paths = (['a', ':', 'b', 'c'] : List Char).splitOn ':' ∧
        (∀ path ∈ paths, ':' ∉ path) ∧
        [':'].intercalate paths = ['a', ':', 'b', 'c'])) ∧
    parse_search_paths ':' ['/', 'w'] ['/', 's'] (some ['a', ':', 'b', 'c'])
      = .ok [['/', 'w'], ['a'], ['b', 'c']] ∧
    parse_search_paths ':' ['/', 'w'] ['/', 'w'] (some ['a', ':', ':', 'c'])
      = .ok [['a'], [], ['c']] ∧
    rejected (parse_search_paths ':' ['/', 'w'] ['/', 's'] (some [':', 'a'])) = true ∧
    rejected (parse_search_paths ':' ['/', 'w'] ['/', 's'] (some ['a', ':'])) = true :=
  ⟨List.cons_ne_nil _ _,
    parse_search_paths_splits_at_separators ':' ['/', 'w'] ['/', 's'] ['a', ':', 'b', 'c']
      (List.cons_ne_nil _ _),
    by rfl, by rfl, by decide!, by decide!⟩

/-! ## The hash table -/

namespace lzohtable

theorem mask_eq {m k : Nat} (hm : m = 2 ^ k) (x : Nat) : x &&& (m - 1) = x % m := by
  subst hm
  exact Nat.and_pow_two_sub_one_eq_mod x k

theorem pow_pos_of {m k : Nat} (hm : m = 2 ^ k) : 0 < m := by
  subst hm
  exact Nat.pos_pow_of_pos k (by decide)

theorem pos_ne {m h j j1 : Nat} (hj : j < j1) (hjj : j1 < j + m) :
    (h + j) % m ≠ (h + j1) % m := by
  intro heq
  have h1 : ((h + j1) - (h + j)) % m = 0 := Nat.sub_mod_eq_zero_of_mod_eq heq.symm
  have h2 : (h + j1) - (h + j) = j1 - j := by omega
  rw [h2] at h1
  have h3 : m ∣ j1 - j := Nat.dvd_of_mod_eq_zero h1
  have h4 : m ≤ j1 - j := Nat.le_of_dvd (by omega) h3
  omega

theorem nxt_inj {m x y : Nat} (hx : x < m) (hy : y < m) (h : (x + 1) % m = (y + 1) % m) :
    x = y := by
  by_contra hne
  rcases Nat.lt_or_gt_of_ne hne with hlt | hlt
  · have := @pos_ne m 1 x y hlt (by omega)
    apply this
    rw [Nat.add_comm 1 x, Nat.add_comm 1 y]
    exact h
  · have := @pos_ne m 1 y x hlt (by omega)
    apply this
    rw [Nat.add_comm 1 x, Nat.add_comm 1 y]
    exact h.symm

theorem pred_nxt {m i : Nat} (hi : i < m) : ((i + m - 1) % m + 1) % m = i := by
  rw [Nat.mod_add_mod]
  have : i + m - 1 + 1 = i + m := by omega
  rw [this, Nat.add_mod_right, Nat.mod_eq_of_lt hi]

theorem chain {ν : Type} {m : Nat} {s : Nat → Option (LZOHTableSlot ν)} (inv : Inv m s)
    (hm : 0 < m) {i : Nat} (hi : i < m) {e : LZOHTableSlot ν} (he : s i = some e) :
    ∀ d, d ≤ e.probe →
      ∃ e1, s ((e.hash % m + (e.probe - d)) % m) = some e1 ∧ e.probe - d ≤ e1.probe := by
  intro d
  induction d with
  | zero =>
    intro _
    refine ⟨e, ?_, by omega⟩
    rw [Nat.sub_zero, (inv.a i hi e he).2.2]
    exact he
  | succ d ih =>
    intro hd
    obtain ⟨e1, h1, h2⟩ := ih (by omega)
    have hx : (e.hash % m + (e.probe - d)) % m =
        ((e.hash % m + (e.probe - (d + 1))) % m + 1) % m := by
      rw [Nat.mod_add_mod (e.hash % m + (e.probe - (d + 1))) m 1]
      congr 1
      omega
    rw [hx] at h1
    obtain ⟨e2, h3, h4⟩ := inv.b _ (Nat.mod_lt _ hm) e1 h1 (by omega)
    exact ⟨e2, h3, by omega⟩

theorem chain_at {ν : Type} {m : Nat} {s : Nat → Option (LZOHTableSlot ν)} (inv : Inv m s)
    (hm : 0 < m) {i : Nat} (hi : i < m) {e : LZOHTableSlot ν} (he : s i = some e)
    (j : Nat) (hj : j ≤ e.probe) :
    ∃ e1, s ((e.hash % m + j) % m) = some e1 ∧ j ≤ e1.probe := by
  obtain ⟨e1, h1, h2⟩ := chain inv hm hi he (e.probe - j) (by omega)
  have : e.probe - (e.probe - j) = j := by omega
  rw [this] at h1 h2
  exact ⟨e1, h1, h2⟩

theorem lookup_loop_found {ν : Type} {m k : Nat} (hm : m = 2 ^ k)
    {s : Nat → Option (LZOHTableSlot ν)} (inv : Inv m s) {i : Nat} (hi : i < m)
    {e : LZOHTableSlot ν} (he : s i = some e) :
    ∀ fuel j, j ≤ e.probe → e.probe - j < fuel →
      robin_hood_lookup_loop e.key m s fuel ((e.hash % m + j) % m) j = some (some i) := by
  have hpos := pow_pos_of hm
  obtain ⟨hp, -, hposn⟩ := inv.a i hi e he
  intro fuel
  induction fuel with
  | zero => intro j _ h; omega
  | succ fuel ih =>
    intro j hj hf
    obtain ⟨e1, h1, h2⟩ := chain_at inv hpos hi he j hj
    unfold robin_hood_lookup_loop
    simp only [h1]
    rw [if_neg (by omega)]
    by_cases hjp : j = e.probe
    · subst hjp
      rw [hposn] at h1 ⊢
      rw [he] at h1
      cases h1
      simp
    · have hne : e.key ≠ e1.key := by
        intro hk
        have := inv.c i _ hi (Nat.mod_lt _ hpos) e e1 he h1 hk
        rw [← hposn] at this
        exact (@pos_ne m (e.hash % m) j e.probe (by omega) (by omega)) this.symm
      rw [if_neg hne, mask_eq hm, Nat.mod_add_mod]
      exact ih (j + 1) (by omega) (by omega)

theorem lookup_loop_absent {ν : Type} {m k : Nat} (hm : m = 2 ^ k)
    {s : Nat → Option (LZOHTableSlot ν)} (inv : Inv m s) {key : List Nat}
    (habs : Absent m s key) :
    ∀ fuel probe i, i < m → probe ≤ m → m - probe < fuel →
      robin_hood_lookup_loop key m s fuel i probe = some none := by
  have hpos := pow_pos_of hm
  intro fuel
  induction fuel with
  | zero => intro p i _ _ h; omega
  | succ fuel ih =>
    intro p i hi hp hf
    unfold robin_hood_lookup_loop
    cases hs : s i with
    | none => rfl
    | some e =>
      simp only
      by_cases h1 : e.probe < p
      · rw [if_pos h1]
      · rw [if_neg h1]
        have hne : key ≠ e.key := fun h => habs i hi e hs h.symm
        rw [if_neg hne, mask_eq hm]
        have := (inv.a i hi e hs).1
        exact ih (p + 1) _ (Nat.mod_lt _ hpos) (by omega) (by omega)

theorem holds_or_absent {ν : Type} (m : Nat) (s : Nat → Option (LZOHTableSlot ν))
    (key : List Nat) : (∃ v, Holds m s key v) ∨ Absent m s key := by
  by_cases h : ∃ v, Holds m s key v
  · exact Or.inl h
  · right
    intro i hi e he hk
    exact h ⟨e.value, i, hi, e, he, hk, rfl⟩

theorem holds_unique {ν : Type} {m : Nat} {s : Nat → Option (LZOHTableSlot ν)} (inv : Inv m s)
    {key : List Nat} {v v1 : ν} (h : Holds m s key v) (h1 : Holds m s key v1) : v = v1 := by
  obtain ⟨i, hi, e, he, hk, hv⟩ := h
  obtain ⟨j, hj, e1, he1, hk1, hv1⟩ := h1
  have := inv.c i j hi hj e e1 he he1 (hk.trans hk1.symm)
  subst this
  rw [he] at he1
  cases he1
  exact hv.symm.trans hv1

theorem holds_not_absent {ν : Type} {m : Nat} {s : Nat → Option (LZOHTableSlot ν)}
    {key : List Nat} {v : ν} (h : Holds m s key v) (h1 : Absent m s key) : False := by
  obtain ⟨i, hi, e, he, hk, -⟩ := h
  exact h1 i hi e he hk

theorem robin_hood_lookup_holds {ν : Type} {t : LZOHTable ν} (hv : Valid t) {key : List Nat}
    {i : Nat} (hi : i < t.m) {e : LZOHTableSlot ν} (he : t.slots i = some e)
    (hk : e.key = key) (fuel : Nat) (hf : t.m < fuel) :
    robin_hood_lookup fuel key t = some (some i) := by
  obtain ⟨k, -, hm⟩ := hv.pow
  obtain ⟨hp, hh, -⟩ := hv.inv.a i hi e he
  unfold robin_hood_lookup
  have h0 := lookup_loop_found hm hv.inv hi he fuel 0 (Nat.zero_le _) (by omega)
  rw [Nat.add_zero, Nat.mod_mod] at h0
  rw [mask_eq hm, ← hk, ← hh]
  exact h0

theorem robin_hood_lookup_absent {ν : Type} {t : LZOHTable ν} (hv : Valid t) {key : List Nat}
    (h : Absent t.m t.slots key) (fuel : Nat) (hf : t.m < fuel) :
    robin_hood_lookup fuel key t = some none := by
  obtain ⟨k, -, hm⟩ := hv.pow
  unfold robin_hood_lookup
  rw [mask_eq hm]
  exact lookup_loop_absent hm hv.inv h fuel 0 _ (Nat.mod_lt _ (pow_pos_of hm)) (Nat.zero_le _)
    (by omega)

theorem lookup_holds {ν : Type} {t : LZOHTable ν} (hv : Valid t) {key : List Nat} {v : ν}
    (h : Holds t.m t.slots key v) (fuel : Nat) (hf : t.m < fuel) :
    lzohtable_lookup fuel key t = some (1, some v) := by
  obtain ⟨i, hi, e, he, hk, hval⟩ := h
  have := robin_hood_lookup_holds hv hi he hk fuel hf
  unfold robin_hood_lookup at this
  unfold lzohtable_lookup
  rw [this]
  simp only [he, hval]

theorem lookup_absent {ν : Type} {t : LZOHTable ν} (hv : Valid t) {key : List Nat}
    (h : Absent t.m t.slots key) (fuel : Nat) (hf : t.m < fuel) :
    lzohtable_lookup fuel key t = some (0, none) := by
  have := robin_hood_lookup_absent hv h fuel hf
  unfold robin_hood_lookup at this
  unfold lzohtable_lookup
  rw [this]

end lzohtable

namespace lzohtable

theorem set_slot_same {ν : Type} (s : Nat → Option (LZOHTableSlot ν)) (i : Nat)
    (v : Option (LZOHTableSlot ν)) : set_slot s i v i = v := by
  simp [set_slot]

theorem set_slot_ne {ν : Type} (s : Nat → Option (LZOHTableSlot ν)) (i : Nat)
    (v : Option (LZOHTableSlot ν)) {j : Nat} (h : j ≠ i) : set_slot s i v j = s j := by
  simp [set_slot, h]

theorem holds_set {ν : Type} {m : Nat} (s : Nat → Option (LZOHTableSlot ν)) {i : Nat}
    (hi : i < m) (e : LZOHTableSlot ν) (k : List Nat) (v : ν) :
    Holds m (set_slot s i (some e)) k v ↔ ((e.key = k ∧ e.value = v) ∨ HoldsOff m s i k v) := by
  constructor
  · rintro ⟨x, hx, e1, h1, h2, h3⟩
    by_cases hxi : x = i
    · subst hxi
      rw [set_slot_same] at h1
      cases h1
      exact Or.inl ⟨h2, h3⟩
    · rw [set_slot_ne _ _ _ hxi] at h1
      exact Or.inr ⟨x, hx, hxi, e1, h1, h2, h3⟩
  · rintro (⟨h2, h3⟩ | ⟨x, hx, hxi, e1, h1, h2, h3⟩)
    · exact ⟨i, hi, e, set_slot_same _ _ _, h2, h3⟩
    · exact ⟨x, hx, e1, by rw [set_slot_ne _ _ _ hxi]; exact h1, h2, h3⟩

theorem holds_set_none {ν : Type} {m : Nat} (s : Nat → Option (LZOHTableSlot ν)) (i : Nat)
    (k : List Nat) (v : ν) :
    Holds m (set_slot s i none) k v ↔ HoldsOff m s i k v := by
  constructor
  · rintro ⟨x, hx, e1, h1, h2, h3⟩
    by_cases hxi : x = i
    · subst hxi
      rw [set_slot_same] at h1
      cases h1
    · rw [set_slot_ne _ _ _ hxi] at h1
      exact ⟨x, hx, hxi, e1, h1, h2, h3⟩
  · rintro ⟨x, hx, hxi, e1, h1, h2, h3⟩
    exact ⟨x, hx, e1, by rw [set_slot_ne _ _ _ hxi]; exact h1, h2, h3⟩

theorem holds_split_some {ν : Type} {m : Nat} {s : Nat → Option (LZOHTableSlot ν)} {i : Nat}
    (hi : i < m) {e : LZOHTableSlot ν} (he : s i = some e) (k : List Nat) (v : ν) :
    Holds m s k v ↔ ((e.key = k ∧ e.value = v) ∨ HoldsOff m s i k v) := by
  constructor
  · rintro ⟨x, hx, e1, h1, h2, h3⟩
    by_cases hxi : x = i
    · subst hxi
      rw [he] at h1
      cases h1
      exact Or.inl ⟨h2, h3⟩
    · exact Or.inr ⟨x, hx, hxi, e1, h1, h2, h3⟩
  · rintro (⟨h2, h3⟩ | ⟨x, hx, -, e1, h1, h2, h3⟩)
    · exact ⟨i, hi, e, he, h2, h3⟩
    · exact ⟨x, hx, e1, h1, h2, h3⟩

theorem holds_split_none {ν : Type} {m : Nat} {s : Nat → Option (LZOHTableSlot ν)} {i : Nat}
    (he : s i = none) (k : List Nat) (v : ν) :
    Holds m s k v ↔ HoldsOff m s i k v := by
  constructor
  · rintro ⟨x, hx, e1, h1, h2, h3⟩
    by_cases hxi : x = i
    · subst hxi
      rw [he] at h1
      cases h1
    · exact ⟨x, hx, hxi, e1, h1, h2, h3⟩
  · rintro ⟨x, hx, -, e1, h1, h2, h3⟩
    exact ⟨x, hx, e1, h1, h2, h3⟩

theorem used_count_set_some_of_none {ν : Type} {m : Nat} {s : Nat → Option (LZOHTableSlot ν)}
    {i : Nat} (hi : i < m) (h : s i = none) (e : LZOHTableSlot ν) :
    used_count m (set_slot s i (some e)) = used_count m s + 1 := by
  unfold used_count
  have hni : i ∉ (Finset.range m).filter (fun x => (s x).isSome = true) := by
    simp [h]
  rw [← Finset.card_insert_of_not_mem hni]
  congr 1
  ext x
  simp only [Finset.mem_filter, Finset.mem_range, Finset.mem_insert]
  by_cases hx : x = i
  · subst hx
    simp [set_slot_same, hi]
  · simp [set_slot_ne _ _ _ hx, hx]

theorem used_count_set_some_of_some {ν : Type} {m : Nat} {s : Nat → Option (LZOHTableSlot ν)}
    {i : Nat} {c : LZOHTableSlot ν} (h : s i = some c) (e : LZOHTableSlot ν) :
    used_count m (set_slot s i (some e)) = used_count m s := by
  unfold used_count
  congr 1
  ext x
  simp only [Finset.mem_filter, Finset.mem_range]
  by_cases hx : x = i
  · subst hx
    simp [set_slot_same, h]
  · simp [set_slot_ne _ _ _ hx]

theorem used_count_set_none_of_some {ν : Type} {m : Nat} {s : Nat → Option (LZOHTableSlot ν)}
    {i : Nat} (hi : i < m) {c : LZOHTableSlot ν} (h : s i = some c) :
    used_count m (set_slot s i none) + 1 = used_count m s := by
  have h1 : (set_slot s i none) i = none := set_slot_same _ _ _
  have h2 := used_count_set_some_of_none hi h1 c
  rw [← h2]
  congr 1
  funext x
  by_cases hx : x = i
  · subst hx
    rw [set_slot_same, h]
  · rw [set_slot_ne _ _ _ hx, set_slot_ne _ _ _ hx]

theorem used_count_le {ν : Type} (m : Nat) (s : Nat → Option (LZOHTableSlot ν)) :
    used_count m s ≤ m := by
  unfold used_count
  calc ((Finset.range m).filter (fun i => (s i).isSome = true)).card
      ≤ (Finset.range m).card := Finset.card_filter_le _ _
    _ = m := Finset.card_range m

theorem exists_free {ν : Type} {m : Nat} {s : Nat → Option (LZOHTableSlot ν)}
    (h : used_count m s < m) : ∃ x, x < m ∧ s x = none := by
  by_contra hcon
  have hall : ∀ x, x < m → (s x).isSome = true := by
    intro x hx
    cases hs : s x with
    | none => exact absurd ⟨x, hx, hs⟩ hcon
    | some e => rfl
  have : (Finset.range m).filter (fun i => (s i).isSome = true) = Finset.range m := by
    apply Finset.filter_true_of_mem
    intro x hx
    exact hall x (Finset.mem_range.mp hx)
  unfold used_count at h
  rw [this, Finset.card_range] at h
  omega

theorem inv_set {ν : Type} {m : Nat} {s : Nat → Option (LZOHTableSlot ν)} (inv : Inv m s)
    {i : Nat} (hi : i < m) (mv : LZOHTableSlot ν) (hp : mv.probe < m)
    (hh : mv.hash = fnv_1a_hash mv.key) (hpos : (mv.hash % m + mv.probe) % m = i)
    (habs : ∀ x, x < m → x ≠ i → ∀ e, s x = some e → e.key ≠ mv.key)
    (hpred : 0 < mv.probe → ∀ g, g < m → (g + 1) % m = i →
      ∃ e1, s g = some e1 ∧ mv.probe ≤ e1.probe + 1)
    (hnext : ∀ e, s ((i + 1) % m) = some e → 0 < e.probe → (i + 1) % m ≠ i →
      e.probe ≤ mv.probe + 1) :
    Inv m (set_slot s i (some mv)) := by
  constructor
  · intro x hx e he
    by_cases hxi : x = i
    · subst hxi
      rw [set_slot_same] at he
      cases he
      exact ⟨hp, hh, hpos⟩
    · rw [set_slot_ne _ _ _ hxi] at he
      exact inv.a x hx e he
  · intro x hx e he hpe
    by_cases hn : (x + 1) % m = i
    · rw [hn, set_slot_same] at he
      cases he
      by_cases hxi : x = i
      · subst hxi
        exact ⟨mv, set_slot_same _ _ _, by omega⟩
      · rw [set_slot_ne _ _ _ hxi]
        exact hpred hpe x hx hn
    · rw [set_slot_ne _ _ _ hn] at he
      by_cases hxi : x = i
      · subst hxi
        exact ⟨mv, set_slot_same _ _ _, hnext e he hpe hn⟩
      · rw [set_slot_ne _ _ _ hxi]
        exact inv.b x hx e he hpe
  · intro x y hx hy e e1 he he1 hk
    by_cases hxi : x = i
    · by_cases hyi : y = i
      · rw [hxi, hyi]
      · subst hxi
        rw [set_slot_same] at he
        cases he
        rw [set_slot_ne _ _ _ hyi] at he1
        exact absurd hk.symm (habs y hy hyi e1 he1)
    · rw [set_slot_ne _ _ _ hxi] at he
      by_cases hyi : y = i
      · subst hyi
        rw [set_slot_same] at he1
        cases he1
        exact absurd hk (habs x hx hxi e he)
      · rw [set_slot_ne _ _ _ hyi] at he1
        exact inv.c x y hx hy e e1 he he1 hk

theorem inv_value {ν : Type} {m : Nat} {s : Nat → Option (LZOHTableSlot ν)} (inv : Inv m s)
    {i : Nat} (hi : i < m) {e : LZOHTableSlot ν} (he : s i = some e) (v : ν) :
    Inv m (set_slot s i (some { e with value := v })) := by
  obtain ⟨hp, hh, hpos⟩ := inv.a i hi e he
  apply inv_set inv hi { e with value := v } hp hh hpos
  · intro x hx hxi e1 he1 hk
    exact hxi (inv.c x i hx hi e1 e he1 he hk)
  · intro hpe g hg hgi
    have he2 : s ((g + 1) % m) = some e := by rw [hgi]; exact he
    exact inv.b g hg e he2 hpe
  · intro e1 he1 hpe _
    obtain ⟨e2, h2, h3⟩ := inv.b i hi e1 he1 hpe
    rw [he] at h2
    cases h2
    exact h3

theorem step_pos {m h p i : Nat} (hpos : (h % m + p) % m = i) :
    (h % m + (p + 1)) % m = (i + 1) % m := by
  rw [← hpos, Nat.mod_add_mod (h % m + p) m 1, Nat.add_assoc]

theorem insert_loop_absent {ν : Type} {m k : Nat} (hm : m = 2 ^ k) :
    ∀ (left i : Nat) (mv : LZOHTableSlot ν) (s : Nat → Option (LZOHTableSlot ν)),
      Inv m s → i < m → mv.hash = fnv_1a_hash mv.key → (mv.hash % m + mv.probe) % m = i →
      mv.probe + left ≤ m → Absent m s mv.key →
      (0 < mv.probe → ∀ g, g < m → (g + 1) % m = i →
        ∃ e1, s g = some e1 ∧ mv.probe ≤ e1.probe + 1) →
      (∃ d, d < left ∧ s ((i + d) % m) = none) →
      ∃ s1, robin_hood_insert_loop m left i mv s = (3, s1) ∧ Inv m s1 ∧
        (∀ k v, Holds m s1 k v ↔ (Holds m s k v ∨ (mv.key = k ∧ mv.value = v))) ∧
        used_count m s1 = used_count m s + 1 := by
  have hpos := pow_pos_of hm
  intro left
  induction left with
  | zero =>
    intro i mv s _ _ _ _ _ _ _ hfree
    obtain ⟨d, hd, -⟩ := hfree
    omega
  | succ left ih =>
    intro i mv s inv hi hh hposn hbud habs hpred hfree
    unfold robin_hood_insert_loop
    cases hs : s i with
    | none =>
      simp only
      refine ⟨_, rfl, ?_, ?_, used_count_set_some_of_none hi hs mv⟩
      · apply inv_set inv hi mv (by omega) hh hposn (fun x hx _ e he => habs x hx e he) hpred
        intro e he hpe _
        obtain ⟨e1, h1, -⟩ := inv.b i hi e he hpe
        rw [hs] at h1
        cases h1
      · intro k1 v1
        rw [holds_set s hi, holds_split_none hs]
        tauto
    | some cur =>
      simp only
      have hkey : mv.key ≠ cur.key := fun h => habs i hi cur hs h.symm
      rw [if_neg hkey, mask_eq hm]
      obtain ⟨hcp, hch, hcpos⟩ := inv.a i hi cur hs
      have hi2 : (i + 1) % m < m := Nat.mod_lt _ hpos
      obtain ⟨d, hd, hdn⟩ := hfree
      have hd0 : d ≠ 0 := by
        intro h0
        subst h0
        rw [Nat.add_zero, Nat.mod_eq_of_lt hi, hs] at hdn
        cases hdn
      have hdpos : ((i + 1) % m + (d - 1)) % m = (i + d) % m := by
        rw [Nat.mod_add_mod]
        congr 1
        omega
      have hdi : (i + d) % m ≠ i := by
        intro h
        rw [h, hs] at hdn
        cases hdn
      by_cases hsw : mv.probe > cur.probe
      · rw [if_pos hsw]
        have inv2 : Inv m (set_slot s i (some mv)) := by
          apply inv_set inv hi mv (by omega) hh hposn (fun x hx _ e he => habs x hx e he) hpred
          intro e he hpe _
          obtain ⟨e1, h1, h2⟩ := inv.b i hi e he hpe
          rw [hs] at h1
          cases h1
          omega
        obtain ⟨s1, r1, r2, r3, r4⟩ := ih ((i + 1) % m) { cur with probe := cur.probe + 1 }
          (set_slot s i (some mv)) inv2 hi2 hch
          (step_pos hcpos)
          (by show cur.probe + 1 + left ≤ m; omega)
          (by
            intro x hx e he
            by_cases hxi : x = i
            · subst hxi
              rw [set_slot_same] at he
              cases he
              exact hkey
            · rw [set_slot_ne _ _ _ hxi] at he
              intro hk
              exact hxi (inv.c x i hx hi e cur he hs hk))
          (by
            intro _ g hg hgi
            have := nxt_inj hg hi hgi
            subst this
            exact ⟨mv, set_slot_same _ _ _, by show cur.probe + 1 ≤ mv.probe + 1; omega⟩)
          ⟨d - 1, by omega, by rw [hdpos, set_slot_ne _ _ _ hdi]; exact hdn⟩
        refine ⟨s1, r1, r2, ?_, ?_⟩
        · intro k1 v1
          rw [r3, holds_set s hi, holds_split_some hi hs]
          tauto
        · rw [r4, used_count_set_some_of_some hs]
      · rw [if_neg hsw]
        obtain ⟨s1, r1, r2, r3, r4⟩ := ih ((i + 1) % m) { mv with probe := mv.probe + 1 } s inv
          hi2 hh
          (step_pos hposn)
          (by show mv.probe + 1 + left ≤ m; omega)
          habs
          (by
            intro _ g hg hgi
            have := nxt_inj hg hi hgi
            subst this
            exact ⟨cur, hs, by show mv.probe + 1 ≤ cur.probe + 1; omega⟩)
          ⟨d - 1, by omega, by rw [hdpos]; exact hdn⟩
        exact ⟨s1, r1, r2, r3, r4⟩

theorem insert_loop_present {ν : Type} {m k : Nat} (hm : m = 2 ^ k)
    {s : Nat → Option (LZOHTableSlot ν)} (inv : Inv m s) {i0 : Nat} (hi : i0 < m)
    {e0 : LZOHTableSlot ν} (he : s i0 = some e0) (v : ν) :
    ∀ (left j : Nat) (mv : LZOHTableSlot ν), j ≤ e0.probe → e0.probe - j < left →
      mv.key = e0.key → mv.value = v → mv.probe = j →
      robin_hood_insert_loop m left ((e0.hash % m + j) % m) mv s =
        (2, set_slot s i0 (some { e0 with value := v })) := by
  have hpos := pow_pos_of hm
  obtain ⟨hp, -, hposn⟩ := inv.a i0 hi e0 he
  intro left
  induction left with
  | zero => intro j mv _ h; omega
  | succ left ih =>
    intro j mv hj hf hk hv hpj
    obtain ⟨e1, h1, h2⟩ := chain_at inv hpos hi he j hj
    unfold robin_hood_insert_loop
    simp only [h1]
    by_cases hjp : j = e0.probe
    · subst hjp
      rw [hposn] at h1 ⊢
      rw [he] at h1
      cases h1
      rw [if_pos hk, hv]
    · have hne : mv.key ≠ e1.key := by
        intro hk1
        have := inv.c i0 _ hi (Nat.mod_lt _ hpos) e0 e1 he h1 (hk.symm.trans hk1)
        rw [← hposn] at this
        exact (@pos_ne m (e0.hash % m) j e0.probe (by omega) (by omega)) this.symm
      rw [if_neg hne, if_neg (by omega), mask_eq hm, Nat.mod_add_mod]
      exact ih (j + 1) _ (by omega) (by omega) hk hv (by show mv.probe + 1 = j + 1; omega)

theorem free_ahead {ν : Type} {m : Nat} {s : Nat → Option (LZOHTableSlot ν)} {i : Nat}
    (hi : i < m) (h : used_count m s < m) : ∃ d, d < m ∧ s ((i + d) % m) = none := by
  obtain ⟨x, hx, hs⟩ := exists_free h
  refine ⟨(x + m - i) % m, Nat.mod_lt _ (by omega), ?_⟩
  rw [Nat.add_mod_mod]
  have : i + (x + m - i) = x + m := by omega
  rw [this, Nat.add_mod_right, Nat.mod_eq_of_lt hx]
  exact hs

/-- `robin_hood_insert` of a slot with `probe` 0 whose key is not in the table,
when a slot is free. -/
theorem insert_absent {ν : Type} {m k : Nat} (hm : m = 2 ^ k)
    {s : Nat → Option (LZOHTableSlot ν)} (inv : Inv m s) (mv : LZOHTableSlot ν)
    (hp : mv.probe = 0) (hh : mv.hash = fnv_1a_hash mv.key) (habs : Absent m s mv.key)
    (hfree : used_count m s < m) :
    ∃ s1, robin_hood_insert m mv s = (3, s1) ∧ Inv m s1 ∧
      (∀ k v, Holds m s1 k v ↔ (Holds m s k v ∨ (mv.key = k ∧ mv.value = v))) ∧
      used_count m s1 = used_count m s + 1 := by
  have hpos := pow_pos_of hm
  unfold robin_hood_insert
  rw [mask_eq hm]
  have hi : mv.hash % m < m := Nat.mod_lt _ hpos
  apply insert_loop_absent hm m (mv.hash % m) mv s inv hi hh
    (by rw [hp, Nat.add_zero, Nat.mod_mod]) (by omega) habs (by intro h; omega)
    (free_ahead hi hfree)

/-- `robin_hood_insert` of a slot with `probe` 0 whose key is in the table. -/
theorem insert_present {ν : Type} {m k : Nat} (hm : m = 2 ^ k)
    {s : Nat → Option (LZOHTableSlot ν)} (inv : Inv m s) (mv : LZOHTableSlot ν)
    (hp : mv.probe = 0) (hh : mv.hash = fnv_1a_hash mv.key) {v0 : ν}
    (hold : Holds m s mv.key v0) :
    ∃ s1, robin_hood_insert m mv s = (2, s1) ∧ Inv m s1 ∧
      (∀ k v, Holds m s1 k v ↔ ((k = mv.key ∧ v = mv.value) ∨ (k ≠ mv.key ∧ Holds m s k v))) ∧
      used_count m s1 = used_count m s := by
  obtain ⟨i0, hi, e0, he, hk, -⟩ := hold
  obtain ⟨hp0, hh0, -⟩ := inv.a i0 hi e0 he
  have hhash : mv.hash = e0.hash := by rw [hh, hh0, hk]
  unfold robin_hood_insert
  rw [mask_eq hm]
  have h1 := insert_loop_present hm inv hi he mv.value m 0 mv (Nat.zero_le _) (by omega) hk.symm
    rfl hp
  have hposz : (e0.hash % m + 0) % m = mv.hash % m := by
    rw [Nat.add_zero, Nat.mod_mod, hhash]
  rw [hposz] at h1
  refine ⟨_, h1, inv_value inv hi he _, ?_, used_count_set_some_of_some he _⟩
  intro k1 v1
  rw [holds_set s hi]
  constructor
  · rintro (⟨h2, h3⟩ | ⟨x, hx, hxi, e1, h4, h5, h6⟩)
    · exact Or.inl ⟨by rw [← h2]; exact hk, h3.symm⟩
    · right
      refine ⟨?_, x, hx, e1, h4, h5, h6⟩
      intro hkk
      exact hxi (inv.c x i0 hx hi e1 e0 h4 he (by rw [h5, hkk, hk]))
  · rintro (⟨h2, h3⟩ | ⟨h2, x, hx, e1, h4, h5, h6⟩)
    · exact Or.inl ⟨by rw [h2]; exact hk, h3.symm⟩
    · right
      refine ⟨x, hx, ?_, e1, h4, h5, h6⟩
      intro hxi
      subst hxi
      rw [he] at h4
      cases h4
      exact h2 (h5.symm.trans hk)

end lzohtable

namespace lzohtable

theorem holds_succ {ν : Type} (j : Nat) (s : Nat → Option (LZOHTableSlot ν)) (k : List Nat)
    (v : ν) :
    Holds (j + 1) s k v ↔ (Holds j s k v ∨ ∃ e, s j = some e ∧ e.key = k ∧ e.value = v) := by
  constructor
  · rintro ⟨x, hx, e, h1, h2, h3⟩
    by_cases hxj : x = j
    · subst hxj
      exact Or.inr ⟨e, h1, h2, h3⟩
    · exact Or.inl ⟨x, by omega, e, h1, h2, h3⟩
  · rintro (⟨x, hx, e, h1, h2, h3⟩ | ⟨e, h1, h2, h3⟩)
    · exact ⟨x, by omega, e, h1, h2, h3⟩
    · exact ⟨j, by omega, e, h1, h2, h3⟩

theorem used_count_succ {ν : Type} (j : Nat) (s : Nat → Option (LZOHTableSlot ν)) :
    used_count (j + 1) s = used_count j s + (if (s j).isSome = true then 1 else 0) := by
  unfold used_count
  rw [Finset.range_succ, Finset.filter_insert]
  by_cases h : (s j).isSome = true
  · rw [if_pos h, if_pos h, Finset.card_insert_of_not_mem]
    simp
  · rw [if_neg h, if_neg h]
    rfl

theorem inv_empty {ν : Type} (m : Nat) : Inv m (fun _ => (none : Option (LZOHTableSlot ν))) := by
  constructor
  · intro i _ e he
    cases he
  · intro i _ e he
    cases he
  · intro i j _ _ e e1 he
    cases he

theorem used_count_empty {ν : Type} (m : Nat) :
    used_count m (fun _ => (none : Option (LZOHTableSlot ν))) = 0 := by
  unfold used_count
  simp

theorem not_holds_empty {ν : Type} (m : Nat) (k : List Nat) (v : ν) :
    ¬ Holds m (fun _ => (none : Option (LZOHTableSlot ν))) k v := by
  rintro ⟨x, -, e, h1, -⟩
  cases h1

theorem copy_paste_loop_spec {ν : Type} {m k M K : Nat} (hm : m = 2 ^ k) (hM : M = 2 ^ K)
    (hmM : m < M) {old : Nat → Option (LZOHTableSlot ν)} (inv : Inv m old) :
    ∀ j, j ≤ m →
      Inv M ((List.range j).foldl (copy_paste_turn M old) (fun _ => none)) ∧
      (∀ k v, Holds M ((List.range j).foldl (copy_paste_turn M old) (fun _ => none)) k v ↔
        Holds j old k v) ∧
      used_count M ((List.range j).foldl (copy_paste_turn M old) (fun _ => none)) =
        used_count j old := by
  intro j
  induction j with
  | zero =>
    intro _
    refine ⟨inv_empty M, ?_, ?_⟩
    · intro k1 v1
      constructor
      · intro h
        exact absurd h (not_holds_empty M k1 v1)
      · rintro ⟨x, hx, -⟩
        omega
    · simp only [List.range_zero, List.foldl_nil]
      rw [used_count_empty]
      unfold used_count
      simp
  | succ j ih =>
    intro hj
    obtain ⟨i1, i2, i3⟩ := ih (by omega)
    rw [List.range_succ, List.foldl_append]
    simp only [List.foldl_cons, List.foldl_nil]
    generalize (List.range j).foldl (copy_paste_turn M old) (fun _ => none) = ns at i1 i2 i3 ⊢
    unfold copy_paste_turn
    cases hs : old j with
    | none =>
      simp only
      refine ⟨i1, ?_, ?_⟩
      · intro k1 v1
        rw [holds_succ, i2]
        constructor
        · intro h
          exact Or.inl h
        · rintro (h | ⟨e, h1, -⟩)
          · exact h
          · rw [hs] at h1
            cases h1
      · rw [used_count_succ, i3, hs]
        rfl
    | some e =>
      simp only
      obtain ⟨-, hh, -⟩ := inv.a j (by omega) e hs
      have habs : Absent M ns e.key := by
        intro x hx e1 he1 hk
        have h1 : Holds M ns e.key e1.value := ⟨x, hx, e1, he1, hk, rfl⟩
        rw [i2] at h1
        obtain ⟨y, hy, e2, h2, h3, -⟩ := h1
        have := inv.c y j (by omega) (by omega) e2 e h2 hs h3
        omega
      have hfree : used_count M ns < M := by
        rw [i3]
        have := used_count_le j old
        omega
      obtain ⟨s1, r1, r2, r3, r4⟩ := insert_absent hM i1 { e with probe := 0 } rfl hh habs hfree
      rw [r1]
      refine ⟨r2, ?_, ?_⟩
      · intro k1 v1
        rw [r3, holds_succ, i2]
        constructor
        · rintro (h | ⟨h1, h2⟩)
          · exact Or.inl h
          · exact Or.inr ⟨e, hs, h1, h2⟩
        · rintro (h | ⟨e1, h1, h2, h3⟩)
          · exact Or.inl h
          · rw [hs] at h1
            cases h1
            exact Or.inr ⟨h2, h3⟩
      · rw [r4, used_count_succ, i3, hs]
        rfl

/-- `copy_paste_slots` when `grow_slots` got its memory: the table has twice
the slots and holds the same keys with the same values. -/
theorem copy_paste_slots_spec {ν : Type} {t : LZOHTable ν} (hv : Valid t) (hm : t.m < 2 ^ 63) :
    (copy_paste_slots true t).1 = 0 ∧ Valid (copy_paste_slots true t).2 ∧
    (copy_paste_slots true t).2.m = 2 * t.m ∧
    (copy_paste_slots true t).2.n = t.n ∧
    (copy_paste_slots true t).2.lfth = t.lfth ∧
    (∀ k v, Holds (copy_paste_slots true t).2.m (copy_paste_slots true t).2.slots k v ↔
      Holds t.m t.slots k v) ∧
    used_count (copy_paste_slots true t).2.m (copy_paste_slots true t).2.slots < 
      (copy_paste_slots true t).2.m := by
  obtain ⟨k, hk, hmk⟩ := hv.pow
  have hk63 : k < 63 := by
    by_contra hcon
    have : (2 : Nat) ^ 63 ≤ 2 ^ k := Nat.pow_le_pow_right (by decide) (by omega)
    omega
  have hnew : (t.m * 2) % 2 ^ 64 = 2 ^ (k + 1) := by
    rw [Nat.mod_eq_of_lt (by omega), hmk, pow_succ]
  have hpos := pow_pos_of hmk
  have hlt : t.m < 2 ^ (k + 1) := by
    rw [pow_succ, ← hmk]
    omega
  obtain ⟨i1, i2, i3⟩ := copy_paste_loop_spec hmk (rfl : 2 ^ (k + 1) = 2 ^ (k + 1)) hlt hv.inv t.m
    (le_refl _)
  simp only [copy_paste_slots, Bool.not_true, Bool.false_eq_true, if_false, hnew]
  refine ⟨trivial, ⟨⟨k + 1, by omega, rfl⟩, hv.lfth, i1, ?_⟩, ?_, trivial, trivial, i2, ?_⟩
  · show t.n = _
    rw [i3]
    exact hv.count
  · rw [pow_succ, ← hmk]
    omega
  · rw [i3]
    have := used_count_le t.m t.slots
    omega

theorem bit_length_aux_zero (fuel : Nat) : bit_length_aux fuel 0 = 0 := by
  cases fuel <;> simp [bit_length_aux]

theorem pow_bit_length_le (fuel : Nat) : ∀ n, 0 < n → n ≤ fuel →
    2 ^ (bit_length_aux fuel n - 1) ≤ n := by
  induction fuel with
  | zero => intro n h0 h1; omega
  | succ fuel ih =>
    intro n h0 h1
    have hn : n ≠ 0 := by omega
    simp only [bit_length_aux, hn, if_false, Nat.add_sub_cancel]
    by_cases h2 : n / 2 = 0
    · rw [h2, bit_length_aux_zero]
      simpa using h0
    · have h3 := ih (n / 2) (by omega) (by omega)
      have h4 : bit_length_aux fuel (n / 2) ≠ 0 := by
        cases fuel with
        | zero => omega
        | succ f => simp [bit_length_aux, h2]
      have h5 : bit_length_aux fuel (n / 2) = (bit_length_aux fuel (n / 2) - 1) + 1 := by omega
      rw [h5, pow_succ]
      omega

theorem round_even_ge (num den : Nat) : num / den ≤ round_even num den := by
  unfold round_even
  simp only
  split
  · exact le_rfl
  · split
    · omega
    · split <;> omega

theorem scaled_div_pos (n : Nat) (h : 0 < n) (e : Int)
    (hle : e ≤ (bit_length n : Int) - 24) : 0 < (scaled n 1 e).1 / (scaled n 1 e).2 := by
  have hb := pow_bit_length_le n n h le_rfl
  have hb1 : bit_length n = bit_length_aux n n := rfl
  unfold scaled
  split
  · apply Nat.div_pos _ (Nat.mul_pos (by decide) (Nat.two_pow_pos _))
    show 1 * 2 ^ e.toNat ≤ n
    rw [one_mul]
    apply le_trans _ hb
    apply Nat.pow_le_pow_right (by decide)
    omega
  · apply Nat.div_pos _ Nat.one_pos
    show 1 ≤ n * 2 ^ (-e).toNat
    exact Nat.mul_pos h (Nat.two_pow_pos _)

theorem float_of_size_t_pos (n : Nat) (h : 0 < n) : 0 < (float_of_size_t n).1 := by
  have b1 : bit_length 1 = 1 := by decide
  unfold float_of_size_t float_of_fraction
  simp only [b1]
  apply Nat.lt_of_lt_of_le (scaled_div_pos n h _ _) (round_even_ge _ _)
  split <;> push_cast <;> omega

theorem float_div_self (x : Nat × Int) (h : 0 < x.1) : float_div x x = (2 ^ 23, -23) := by
  unfold float_div float_of_fraction
  simp only [min_self, sub_self, Int.toNat_zero, pow_zero, mul_one]
  have e1 : scaled x.1 x.1 (-23) = (x.1 * 2 ^ 23, x.1) := by
    unfold scaled
    simp
  have e2 : ¬ (x.1 * 2 ^ 23 < 2 ^ 23 * x.1) := by omega
  have e3 : round_even (x.1 * 2 ^ 23) x.1 = 2 ^ 23 := by
    unfold round_even
    have q : x.1 * 2 ^ 23 / x.1 = 2 ^ 23 := Nat.mul_div_cancel_left _ h
    have r : x.1 * 2 ^ 23 % x.1 = 0 := Nat.mul_mod_right _ _
    simp only [q, r]
    simp [h]
  simp only [zero_sub, e1, e2, if_false, e3]

theorem below_threshold {ν : Type} {t : LZOHTable ν} (hv : Valid t)
    (h : load_factor_reached t = false) : used_count t.m t.slots < t.m := by
  by_contra hc
  obtain ⟨k, -, hm⟩ := hv.pow
  have mpos : 0 < t.m := by rw [hm]; exact Nat.two_pow_pos _
  have hle : used_count t.m t.slots ≤ t.m := by
    unfold used_count
    exact le_trans (Finset.card_filter_le _ _) (by simp)
  have hn : t.n = t.m := by
    rw [hv.count]
    omega
  have hl := hv.lfth
  have h1 : load_factor_reached t = true := by
    unfold load_factor_reached
    have m0 : t.m ≠ 0 := by omega
    have n0 : t.n ≠ 0 := by omega
    simp only [m0, n0, if_false, hn]
    rw [float_div_self _ (float_of_size_t_pos t.m mpos)]
    apply decide_eq_true
    show 2 ^ 23 * 2 ^ (-23 : Int).toNat * t.lfth.2 ≥ t.lfth.1 * 2 ^ (-(-23 : Int)).toNat
    have a1 : (-23 : Int).toNat = 0 := by decide
    have a2 : (-(-23 : Int)).toNat = 23 := by decide
    rw [a1, a2]
    have : t.lfth.1 * 2 ^ 23 ≤ t.lfth.2 * 2 ^ 23 := Nat.mul_le_mul_right _ (by omega)
    omega
  rw [h] at h1
  cases h1

/-- The load factor is rounded: with 16777219 entries in `2 ^ 25` slots,
`(float)n` is 16777220 and the quotient is the threshold 4194305 / 8388608
itself, which the exact quotient does not reach. -/
theorem load_factor_rounds :
    float_of_size_t 16777219 = (8388610, 1) ∧
    load_factor_reached (⟨16777219, 2 ^ 25, (4194305, 8388608), fun _ => none⟩ :
      LZOHTable Nat) = true ∧
    16777219 * 8388608 < 4194305 * 2 ^ 25 := by
  decide!

/-- `lzohtable_put` that returned 0. -/
theorem put_spec {ν : Type} {t : LZOHTable ν} (hv : Valid t) (hm : t.m < 2 ^ 63)
    (alloc_ok : Bool) (key : List Nat) (value : ν) (t1 : LZOHTable ν)
    (h : lzohtable_put alloc_ok key value t = (0, t1)) :
    Valid t1 ∧
    (∀ k v, Holds t1.m t1.slots k v ↔
      ((k = key ∧ v = value) ∨ (k ≠ key ∧ Holds t.m t.slots k v))) ∧
    ((∃ v0, Holds t.m t.slots key v0) → t1.n = t.n) ∧
    (Absent t.m t.slots key → t1.n = t.n + 1) ∧
    (t1.m = if load_factor_reached t then 2 * t.m else t.m) := by
  -- the table the insertion works on
  have hg : ∃ t2 : LZOHTable ν,
      (if load_factor_reached t then copy_paste_slots alloc_ok t else (0, t)) = (0, t2) ∧
      Valid t2 ∧ t2.n = t.n ∧ t2.lfth = t.lfth ∧
      (t2.m = if load_factor_reached t then 2 * t.m else t.m) ∧
      (∀ k v, Holds t2.m t2.slots k v ↔ Holds t.m t.slots k v) ∧
      used_count t2.m t2.slots < t2.m := by
    cases hl : load_factor_reached t with
    | false =>
      exact ⟨t, by simp, hv, rfl, rfl, by simp, fun _ _ => Iff.rfl, below_threshold hv hl⟩
    | true =>
      cases alloc_ok with
      | false =>
        simp [lzohtable_put, hl, copy_paste_slots] at h
      | true =>
        obtain ⟨c1, c2, c3, c4, c5, c6, c7⟩ := copy_paste_slots_spec hv hm
        refine ⟨(copy_paste_slots true t).2, ?_, c2, c4, c5, by simpa using c3, c6, c7⟩
        simp only [if_true]
        exact Prod.ext c1 rfl
  obtain ⟨t2, g1, g2, g3, g4, g5, g6, g7⟩ := hg
  obtain ⟨k, hk, hmk⟩ := g2.pow
  simp only [lzohtable_put, g1, ne_eq, not_true_eq_false, if_false] at h
  have hmv : ∀ (mv : LZOHTableSlot ν), mv = ⟨0, fnv_1a_hash key, key, value⟩ →
      mv.probe = 0 ∧ mv.hash = fnv_1a_hash mv.key ∧ mv.key = key ∧ mv.value = value := by
    intro mv hmv
    subst hmv
    exact ⟨rfl, rfl, rfl, rfl⟩
  generalize hmvd : (⟨0, fnv_1a_hash key, key, value⟩ : LZOHTableSlot ν) = mv at h
  obtain ⟨m1, m2, m3, m4⟩ := hmv mv hmvd.symm
  rcases holds_or_absent t2.m t2.slots key with ⟨v0, hold⟩ | habs
  · have hold2 : Holds t2.m t2.slots mv.key v0 := by rw [m3]; exact hold
    obtain ⟨s1, r1, r2, r3, r4⟩ := insert_present hmk g2.inv mv m1 m2 hold2
    rw [r1] at h
    simp only [Prod.mk.injEq, true_and] at h
    subst h
    refine ⟨⟨⟨k, hk, hmk⟩, by show t2.lfth.1 < t2.lfth.2; exact g2.lfth, r2, ?_⟩, ?_, ?_, ?_, g5⟩
    · show (if (2 : Nat) = 3 then t2.n + 1 else t2.n) = _
      rw [if_neg (by decide), r4]
      exact g2.count
    · intro k1 v1
      show Holds t2.m s1 k1 v1 ↔ _
      rw [r3, m3, m4, g6]
    · intro _
      show (if (2 : Nat) = 3 then t2.n + 1 else t2.n) = _
      rw [if_neg (by decide), g3]
    · intro habs
      exact absurd ((g6 key v0).mp hold) (fun hh => holds_not_absent hh habs)
  · have habs2 : Absent t2.m t2.slots mv.key := by rw [m3]; exact habs
    obtain ⟨s1, r1, r2, r3, r4⟩ := insert_absent hmk g2.inv mv m1 m2 habs2 g7
    rw [r1] at h
    simp only [Prod.mk.injEq, true_and] at h
    subst h
    refine ⟨⟨⟨k, hk, hmk⟩, by show t2.lfth.1 < t2.lfth.2; exact g2.lfth, r2, ?_⟩, ?_, ?_, ?_, g5⟩
    · show (if (3 : Nat) = 3 then t2.n + 1 else t2.n) = _
      rw [if_pos rfl, r4, g2.count]
    · intro k1 v1
      show Holds t2.m s1 k1 v1 ↔ _
      rw [r3, m3, m4, g6]
      constructor
      · rintro (h1 | ⟨h1, h2⟩)
        · right
          refine ⟨?_, h1⟩
          intro hk1
          subst hk1
          exact holds_not_absent ((g6 _ _).mpr h1) habs
        · exact Or.inl ⟨h1.symm, h2.symm⟩
      · rintro (⟨h1, h2⟩ | ⟨-, h2⟩)
        · exact Or.inr ⟨h1.symm, h2.symm⟩
        · exact Or.inl h2
    · rintro ⟨v0, hold⟩
      exact absurd ((g6 key v0).mpr hold) (fun hh => holds_not_absent hh habs)
    · intro _
      show (if (3 : Nat) = 3 then t2.n + 1 else t2.n) = _
      rw [if_pos rfl, g3]

end lzohtable

namespace lzohtable

theorem probe_sum_set {ν : Type} {m : Nat} (s : Nat → Option (LZOHTableSlot ν)) {x : Nat}
    (hx : x < m) (v : Option (LZOHTableSlot ν)) :
    probe_sum m (set_slot s x v) + probe_of (s x) = probe_sum m s + probe_of v := by
  unfold probe_sum
  have hmem : x ∈ Finset.range m := Finset.mem_range.mpr hx
  rw [← Finset.add_sum_erase _ _ hmem, ← Finset.add_sum_erase (Finset.range m) (fun i => probe_of (s i)) hmem]
  have hrest : ∑ i in (Finset.range m).erase x, probe_of (set_slot s x v i) =
      ∑ i in (Finset.range m).erase x, probe_of (s i) := by
    apply Finset.sum_congr rfl
    intro i hi
    rw [set_slot_ne _ _ _ (Finset.ne_of_mem_erase hi)]
  rw [hrest, set_slot_same]
  omega

theorem prev_mask {m k : Nat} (hm : m = 2 ^ k) (hk : k ≤ 64) {g : Nat} (hg : g < m) :
    (((g + 1) % m + 2 ^ 64 - 1) % 2 ^ 64) &&& (m - 1) = g := by
  have hpos := pow_pos_of hm
  rw [mask_eq hm]
  have hdvd : m ∣ 2 ^ 64 := by
    rw [hm]
    exact pow_dvd_pow 2 hk
  rw [Nat.mod_mod_of_dvd _ hdvd]
  obtain ⟨c, hc⟩ := hdvd
  have hcpos : 0 < c := by
    rcases Nat.eq_zero_or_pos c with h0 | h0
    · rw [h0, Nat.mul_zero] at hc
      exact absurd hc (by decide)
    · exact h0
  have hi : (g + 1) % m < m := Nat.mod_lt _ hpos
  have e1 : (g + 1) % m + 2 ^ 64 - 1 = ((g + 1) % m + (m - 1)) + m * (c - 1) := by
    rw [hc]
    have : m * c = m * (c - 1) + m := by
      have : c = (c - 1) + 1 := by omega
      nth_rewrite 1 [this]
      rw [Nat.mul_add, Nat.mul_one]
    omega
  rw [e1, Nat.add_mul_mod_self_left, Nat.mod_add_mod]
  have e2 : g + 1 + (m - 1) = g + m := by omega
  rw [e2, Nat.add_mod_right, Nat.mod_eq_of_lt hg]

theorem shift_loop_spec {ν : Type} {m k : Nat} (hm : m = 2 ^ k) (hk : k ≤ 64) :
    ∀ (fuel g : Nat) (s : Nat → Option (LZOHTableSlot ν)),
      g < m → s g = none →
      (∀ i, i < m → ∀ e, s i = some e →
        e.probe < m ∧ e.hash = fnv_1a_hash e.key ∧ (e.hash % m + e.probe) % m = i) →
      (∀ i j, i < m → j < m → ∀ e e1, s i = some e → s j = some e1 → e.key = e1.key → i = j) →
      (∀ x, x < m → x ≠ g → ∀ e, s ((x + 1) % m) = some e → 0 < e.probe →
        ∃ e1, s x = some e1 ∧ e.probe ≤ e1.probe + 1) →
      (∀ e, s ((g + 1) % m) = some e → 2 ≤ e.probe → ∀ g0, g0 < m → (g0 + 1) % m = g →
        ∃ e1, s g0 = some e1 ∧ e.probe ≤ e1.probe + 2) →
      probe_sum m s < fuel →
      ∃ s1, remove_shift_loop m fuel ((g + 1) % m) s = some s1 ∧ Inv m s1 ∧
        (∀ k v, Holds m s1 k v ↔ Holds m s k v) ∧ used_count m s1 = used_count m s := by
  have hpos := pow_pos_of hm
  intro fuel
  induction fuel with
  | zero => intro g s _ _ _ _ _ _ h; omega
  | succ fuel ih =>
    intro g s hg hsg A C B B2 hf
    have hi : (g + 1) % m < m := Nat.mod_lt _ hpos
    unfold remove_shift_loop
    cases hs : s ((g + 1) % m) with
    | none =>
      simp only
      refine ⟨s, rfl, ⟨A, ?_, C⟩, fun _ _ => Iff.rfl, rfl⟩
      intro x hx e he hpe
      by_cases hxg : x = g
      · subst hxg
        rw [hs] at he
        cases he
      · exact B x hx hxg e he hpe
    | some cur =>
      simp only
      by_cases hp0 : cur.probe = 0
      · rw [if_pos hp0]
        refine ⟨s, rfl, ⟨A, ?_, C⟩, fun _ _ => Iff.rfl, rfl⟩
        intro x hx e he hpe
        by_cases hxg : x = g
        · subst hxg
          rw [hs] at he
          cases he
          omega
        · exact B x hx hxg e he hpe
      · rw [if_neg hp0, prev_mask hm hk hg, mask_eq hm]
        have hig : (g + 1) % m ≠ g := by
          intro h
          rw [h, hsg] at hs
          cases hs
        obtain ⟨hcp, hch, hcpos⟩ := A _ hi cur hs
        -- the slots after the move
        have hs2i : set_slot (set_slot s g (some { cur with probe := cur.probe - 1 }))
            ((g + 1) % m) none ((g + 1) % m) = none := set_slot_same _ _ _
        have hs2g : set_slot (set_slot s g (some { cur with probe := cur.probe - 1 }))
            ((g + 1) % m) none g = some { cur with probe := cur.probe - 1 } := by
          rw [set_slot_ne _ _ _ (Ne.symm hig), set_slot_same]
        have hs2o : ∀ x, x ≠ g → x ≠ (g + 1) % m →
            set_slot (set_slot s g (some { cur with probe := cur.probe - 1 }))
              ((g + 1) % m) none x = s x := by
          intro x h1 h2
          rw [set_slot_ne _ _ _ h2, set_slot_ne _ _ _ h1]
        have hsum : probe_sum m (set_slot (set_slot s g (some { cur with probe := cur.probe - 1 }))
            ((g + 1) % m) none) + 1 = probe_sum m s := by
          have h1 := probe_sum_set s hg (some { cur with probe := cur.probe - 1 })
          have h2 := probe_sum_set (set_slot s g (some { cur with probe := cur.probe - 1 })) hi none
          rw [set_slot_ne _ _ _ hig, hs] at h2
          rw [hsg] at h1
          simp only [probe_of] at h1 h2
          omega
        have hcnt : used_count m (set_slot (set_slot s g
            (some { cur with probe := cur.probe - 1 })) ((g + 1) % m) none) = used_count m s := by
          have h1 := used_count_set_some_of_none hg hsg { cur with probe := cur.probe - 1 }
          have h2 : (set_slot s g (some { cur with probe := cur.probe - 1 })) ((g + 1) % m) =
              some cur := by
            rw [set_slot_ne _ _ _ hig, hs]
          have h3 := used_count_set_none_of_some hi h2
          omega
        generalize hs2 : set_slot (set_slot s g (some { cur with probe := cur.probe - 1 }))
          ((g + 1) % m) none = s2 at hs2i hs2g hs2o hsum hcnt ⊢
        have hsplit : ∀ x e, s2 x = some e →
            (x = g ∧ e = { cur with probe := cur.probe - 1 }) ∨
            (x ≠ g ∧ x ≠ (g + 1) % m ∧ s x = some e) := by
          intro x e he
          by_cases h1 : x = g
          · subst h1
            rw [hs2g] at he
            cases he
            exact Or.inl ⟨rfl, rfl⟩
          · by_cases h2 : x = (g + 1) % m
            · rw [h2, hs2i] at he
              cases he
            · rw [hs2o x h1 h2] at he
              exact Or.inr ⟨h1, h2, he⟩
        have hposg : (cur.hash % m + (cur.probe - 1)) % m = g := by
          apply nxt_inj (Nat.mod_lt _ hpos) hg
          rw [Nat.mod_add_mod, ← hcpos]
          congr 1
          omega
        obtain ⟨s1, r1, r2, r3, r4⟩ := ih ((g + 1) % m) s2 hi hs2i
          (by
            intro x hx e he
            rcases hsplit x e he with ⟨h1, h2⟩ | ⟨-, -, h3⟩
            · subst h1
              subst h2
              exact ⟨by show cur.probe - 1 < m; omega, hch, hposg⟩
            · exact A x hx e h3)
          (by
            intro x y hx hy e e1 he he1 hkk
            rcases hsplit x e he with ⟨h1, h2⟩ | ⟨h1, h2, h3⟩
            · rcases hsplit y e1 he1 with ⟨h4, h5⟩ | ⟨h4, h5, h6⟩
              · rw [h1, h4]
              · subst h2
                exact absurd (C _ y hi hy cur e1 hs h6 hkk).symm h5
            · rcases hsplit y e1 he1 with ⟨h4, h5⟩ | ⟨h4, h5, h6⟩
              · subst h5
                exact absurd (C x _ hx hi e cur h3 hs hkk) h2
              · exact C x y hx hy e e1 h3 h6 hkk)
          (by
            intro x hx hxi e he hpe
            by_cases hxg : x = g
            · subst hxg
              rw [hs2i] at he
              cases he
            · rw [hs2o x hxg hxi]
              rcases hsplit _ e he with ⟨h1, h2⟩ | ⟨-, -, h3⟩
              · subst h2
                have hp2 : 2 ≤ cur.probe := by
                  have : 0 < cur.probe - 1 := hpe
                  omega
                obtain ⟨e1, h4, h5⟩ := B2 cur hs hp2 x hx h1
                exact ⟨e1, h4, by show cur.probe - 1 ≤ e1.probe + 1; omega⟩
              · exact B x hx hxg e h3 hpe)
          (by
            intro e he hpe g0 hg0 hg0i
            have := nxt_inj hg0 hg hg0i
            subst this
            refine ⟨_, hs2g, ?_⟩
            show e.probe ≤ cur.probe - 1 + 2
            rcases hsplit _ e he with ⟨-, h2⟩ | ⟨-, -, h3⟩
            · subst h2
              show cur.probe - 1 ≤ cur.probe - 1 + 2
              omega
            · obtain ⟨e1, h4, h5⟩ := B _ hi hig e h3 (by omega)
              rw [hs] at h4
              cases h4
              omega)
          (by omega)
        refine ⟨s1, r1, r2, ?_, by rw [r4, hcnt]⟩
        intro k1 v1
        rw [r3]
        constructor
        · rintro ⟨x, hx, e, he, h1, h2⟩
          rcases hsplit x e he with ⟨-, h4⟩ | ⟨-, -, h5⟩
          · subst h4
            exact ⟨_, hi, cur, hs, h1, h2⟩
          · exact ⟨x, hx, e, h5, h1, h2⟩
        · rintro ⟨x, hx, e, he, h1, h2⟩
          by_cases hxi : x = (g + 1) % m
          · subst hxi
            rw [hs] at he
            cases he
            exact ⟨g, hg, _, hs2g, h1, h2⟩
          · have hxg : x ≠ g := by
              intro h
              subst h
              rw [hsg] at he
              cases he
            exact ⟨x, hx, e, by rw [hs2o x hxg hxi]; exact he, h1, h2⟩

theorem probe_sum_le {ν : Type} {m : Nat} {s : Nat → Option (LZOHTableSlot ν)}
    (h : ∀ i, i < m → ∀ e, s i = some e → e.probe < m) : probe_sum m s ≤ m * m := by
  unfold probe_sum
  have h1 : ∀ i ∈ Finset.range m, probe_of (s i) ≤ m := by
    intro i hi
    cases hs : s i with
    | none => simp [probe_of]
    | some e =>
      have := h i (Finset.mem_range.mp hi) e hs
      simp only [probe_of]
      omega
  have := Finset.sum_le_card_nsmul (Finset.range m) (fun i => probe_of (s i)) m h1
  simpa using this

/-- `lzohtable_remove_help` with enough turns allowed. -/
theorem remove_spec {ν : Type} {t : LZOHTable ν} (hv : Valid t) (key : List Nat) (fuel : Nat)
    (hf : t.m * t.m < fuel) :
    ∃ t1, lzohtable_remove_help fuel key t = some t1 ∧ Valid t1 ∧ t1.m = t.m ∧
      (∀ k v, Holds t1.m t1.slots k v ↔ (k ≠ key ∧ Holds t.m t.slots k v)) ∧
      ((∃ v0, Holds t.m t.slots key v0) → t1.n + 1 = t.n) ∧
      (Absent t.m t.slots key → t1 = t) := by
  obtain ⟨k, hk, hmk⟩ := hv.pow
  have hpos := pow_pos_of hmk
  have hfm : t.m < fuel := by
    have : t.m ≤ t.m * t.m := Nat.le_mul_self t.m
    omega
  rcases holds_or_absent t.m t.slots key with ⟨v0, hold⟩ | habs
  · obtain ⟨i, hi, e, he, hke, hve⟩ := hold
    have hl := robin_hood_lookup_holds hv hi he hke fuel hfm
    unfold lzohtable_remove_help
    rw [hl]
    simp only
    rw [mask_eq hmk]
    have inv := hv.inv
    have hsplit : ∀ x e1, set_slot t.slots i none x = some e1 → x ≠ i ∧ t.slots x = some e1 := by
      intro x e1 h1
      by_cases hxi : x = i
      · subst hxi
        rw [set_slot_same] at h1
        cases h1
      · rw [set_slot_ne _ _ _ hxi] at h1
        exact ⟨hxi, h1⟩
    have hA : ∀ x, x < t.m → ∀ e1, set_slot t.slots i none x = some e1 → e1.probe < t.m := by
      intro x hx e1 h1
      exact (inv.a x hx e1 (hsplit x e1 h1).2).1
    have hsum : probe_sum t.m (set_slot t.slots i none) < fuel := by
      have := probe_sum_le hA
      omega
    obtain ⟨s1, r1, r2, r3, r4⟩ := shift_loop_spec hmk (by omega) fuel i (set_slot t.slots i none)
      hi (set_slot_same _ _ _)
      (fun x hx e1 h1 => inv.a x hx e1 (hsplit x e1 h1).2)
      (fun x y hx hy e1 e2 h1 h2 hkk =>
        inv.c x y hx hy e1 e2 (hsplit x e1 h1).2 (hsplit y e2 h2).2 hkk)
      (by
        intro x hx hxi e1 h1 hpe
        obtain ⟨e2, h2, h3⟩ := inv.b x hx e1 (hsplit _ e1 h1).2 hpe
        exact ⟨e2, by rw [set_slot_ne _ _ _ hxi]; exact h2, h3⟩)
      (by
        intro e1 h1 hpe g0 hg0 hg0i
        obtain ⟨hne, h2⟩ := hsplit _ e1 h1
        obtain ⟨e2, h3, h4⟩ := inv.b i hi e1 h2 (by omega)
        rw [he] at h3
        cases h3
        have he' : t.slots ((g0 + 1) % t.m) = some e := by rw [hg0i]; exact he
        obtain ⟨e3, h5, h6⟩ := inv.b g0 hg0 e he' (by omega)
        have hg0ne : g0 ≠ i := by
          intro h
          subst h
          exact hne hg0i
        exact ⟨e3, by rw [set_slot_ne _ _ _ hg0ne]; exact h5, by omega⟩)
      hsum
    rw [r1]
    have hc := used_count_set_none_of_some hi he
    refine ⟨_, rfl, ⟨⟨k, hk, hmk⟩, hv.lfth, r2, ?_⟩, rfl, ?_, ?_, ?_⟩
    · show t.n - 1 = used_count t.m s1
      rw [r4, hv.count]
      omega
    · intro k1 v1
      show Holds t.m s1 k1 v1 ↔ _
      rw [r3, holds_set_none, holds_split_some hi he]
      constructor
      · rintro ⟨x, hx, hxi, e1, h1, h2, h3⟩
        refine ⟨?_, Or.inr ⟨x, hx, hxi, e1, h1, h2, h3⟩⟩
        intro hkk
        exact hxi (inv.c x i hx hi e1 e h1 he (by rw [h2, hkk, hke]))
      · rintro ⟨hne, (⟨h1, -⟩ | h)⟩
        · exact absurd (h1.symm.trans hke) hne
        · exact h
    · intro _
      show t.n - 1 + 1 = t.n
      have := hv.count
      have h2 : 0 < used_count t.m t.slots := by omega
      omega
    · intro habs
      exact absurd he (fun h => habs i hi e h hke)
  · have hl := robin_hood_lookup_absent hv habs fuel hfm
    unfold lzohtable_remove_help
    rw [hl]
    refine ⟨t, rfl, hv, rfl, ?_, ?_, fun _ => rfl⟩
    · intro k1 v1
      constructor
      · intro h
        refine ⟨?_, h⟩
        intro hkk
        subst hkk
        exact holds_not_absent h habs
      · rintro ⟨-, h⟩
        exact h
    · rintro ⟨v0, hold⟩
      exact absurd hold (fun h => holds_not_absent h habs)

end lzohtable

namespace lzohtable

theorem built_valid {ν : Type} {t : LZOHTable ν} (h : Built t) : Valid t := by
  induction h with
  | create k lfth hk hl =>
    exact ⟨⟨k, hk, rfl⟩, hl, inv_empty _, (used_count_empty _).symm⟩
  | put table alloc_ok key value table1 _ hm hput ih =>
    exact (put_spec ih hm alloc_ok key value table1 hput).1
  | remove table fuel key table1 _ hf hrem ih =>
    obtain ⟨t1, h1, h2, -⟩ := remove_spec ih key fuel hf
    rw [hrem] at h1
    cases h1
    exact h2

theorem lookup_congr {ν : Type} {t t1 : LZOHTable ν} (hv : Valid t) (hv1 : Valid t1)
    {key : List Nat} (h : ∀ v, Holds t1.m t1.slots key v ↔ Holds t.m t.slots key v)
    (fuel fuel1 : Nat) (hf : t.m < fuel) (hf1 : t1.m < fuel1) :
    lzohtable_lookup fuel1 key t1 = lzohtable_lookup fuel key t := by
  rcases holds_or_absent t.m t.slots key with ⟨v0, hold⟩ | habs
  · rw [lookup_holds hv hold fuel hf, lookup_holds hv1 ((h v0).mpr hold) fuel1 hf1]
  · have habs1 : Absent t1.m t1.slots key := by
      intro i hi e he hk
      exact holds_not_absent ((h e.value).mp ⟨i, hi, e, he, hk, rfl⟩) habs
    rw [lookup_absent hv habs fuel hf, lookup_absent hv1 habs1 fuel1 hf1]

end lzohtable

/-- C33: for a table built by `lzohtable_create`, `lzohtable_put` and
`lzohtable_remove_help`, after `lzohtable_put(key, value)` returned 0 the
lookup of `key` returns 1 with `value`, the lookup of every other key returns
what it returned before, `n` grew by one when the key was absent and is
unchanged when it was present, and the table has twice the slots when the
load factor had reached the threshold. -/
theorem lzohtable_put_then_lookup {ν : Type} (table : lzohtable.LZOHTable ν)
    (hb : lzohtable.Built table) (hm : table.m < 2 ^ 63) (alloc_ok : Bool) (key : List Nat)
    (value : ν) (table1 : lzohtable.LZOHTable ν)
    (hput : lzohtable.lzohtable_put alloc_ok key value table = (0, table1)) :
    (∀ fuel, table1.m < fuel →
      lzohtable.lzohtable_lookup fuel key table1 = some (1, some value)) ∧
    (∀ other, other ≠ key → ∀ fuel fuel1, table.m < fuel → table1.m < fuel1 →
      lzohtable.lzohtable_lookup fuel1 other table1 =
        lzohtable.lzohtable_lookup fuel other table) ∧
    (∀ fuel, table.m < fuel →
      (lzohtable.lzohtable_lookup fuel key table = some (0, none) ∧ table1.n = table.n + 1) ∨
      (∃ old, lzohtable.lzohtable_lookup fuel key table = some (1, some old) ∧
        table1.n = table.n)) ∧
    (table1.m = if lzohtable.load_factor_reached table then 2 * table.m else table.m) ∧
    lzohtable.Built table1 := by
  have hv := lzohtable.built_valid hb
  obtain ⟨v1, p1, p2, p3, p4⟩ := lzohtable.put_spec hv hm alloc_ok key value table1 hput
  refine ⟨?_, ?_, ?_, p4, lzohtable.Built.put table alloc_ok key value table1 hb hm hput⟩
  · intro fuel hf
    exact lzohtable.lookup_holds v1 ((p1 key value).mpr (Or.inl ⟨rfl, rfl⟩)) fuel hf
  · intro other hne fuel fuel1 hf hf1
    apply lzohtable.lookup_congr hv v1 _ fuel fuel1 hf hf1
    intro v
    rw [p1]
    constructor
    · rintro (⟨h1, -⟩ | ⟨-, h2⟩)
      · exact absurd h1 hne
      · exact h2
    · intro h
      exact Or.inr ⟨hne, h⟩
  · intro fuel hf
    rcases lzohtable.holds_or_absent table.m table.slots key with ⟨v0, hold⟩ | habs
    · exact Or.inr ⟨v0, lzohtable.lookup_holds hv hold fuel hf, p2 ⟨v0, hold⟩⟩
    · exact Or.inl ⟨lzohtable.lookup_absent hv habs fuel hf, p3 habs⟩

theorem lzohtable_put_then_lookup_witness :
    lzohtable.Built c33_table ∧ c33_table.m < 2 ^ 63 ∧
    lzohtable.lzohtable_put true [5] 15 c33_table = (0, c33_table1) ∧
    ((∀ fuel, c33_table1.m < fuel →
      lzohtable.lzohtable_lookup fuel [5] c33_table1 = some (1, some 15)) ∧
    (∀ other, other ≠ [5] → ∀ fuel fuel1, c33_table.m < fuel → c33_table1.m < fuel1 →
      lzohtable.lzohtable_lookup fuel1 other c33_table1 =
        lzohtable.lzohtable_lookup fuel other c33_table) ∧
    (∀ fuel, c33_table.m < fuel →
      (lzohtable.lzohtable_lookup fuel [5] c33_table = some (0, none) ∧
        c33_table1.n = c33_table.n + 1) ∨
      (∃ old, lzohtable.lzohtable_lookup fuel [5] c33_table = some (1, some old) ∧
        c33_table1.n = c33_table.n)) ∧
    (c33_table1.m = if lzohtable.load_factor_reached c33_table then 2 * c33_table.m
      else c33_table.m) ∧
    lzohtable.Built c33_table1) ∧
    c33_table.layout = [some ([1], 0), none] ∧
    c33_table1.layout = [some ([1], 0), some ([5], 1), none, none] ∧ c33_table1.n = 2 ∧
    lzohtable.lzohtable_lookup 5 [1] c33_table1 = some (1, some 11) :=
  have hb : lzohtable.Built c33_table :=
    lzohtable.Built.put (lzohtable.lzohtable_create 2 (1, 2)) true [1] 11 c33_table
      (lzohtable.Built.create 1 (1, 2) (by decide) (by decide)) (by decide)
      (Prod.ext (by decide) rfl)
  have hput : lzohtable.lzohtable_put true [5] 15 c33_table = (0, c33_table1) :=
    Prod.ext (by decide) rfl
  ⟨hb, by decide, hput,
    lzohtable_put_then_lookup c33_table hb (by decide) true [5] 15 c33_table1 hput,
    by decide!, by decide!, by decide!, by decide!⟩

/-- C34: for a table built by `lzohtable_create`, `lzohtable_put` and
`lzohtable_remove_help`, `lzohtable_remove_help(key)` returns, and after it
the lookup of `key` returns 0, the lookup of every other key returns what it
returned before, and `n` is one less when the key was present and unchanged
when it was absent. -/
theorem lzohtable_remove_then_lookup {ν : Type} (table : lzohtable.LZOHTable ν)
    (hb : lzohtable.Built table) (key : List Nat) (fuel : Nat)
    (hf : table.m * table.m < fuel) :
    ∃ table1, lzohtable.lzohtable_remove_help fuel key table = some table1 ∧
      (∀ fuel1, table1.m < fuel1 →
        lzohtable.lzohtable_lookup fuel1 key table1 = some (0, none)) ∧
      (∀ other, other ≠ key → ∀ fuel1 fuel2, table.m < fuel1 → table1.m < fuel2 →
        lzohtable.lzohtable_lookup fuel2 other table1 =
          lzohtable.lzohtable_lookup fuel1 other table) ∧
      (∀ fuel1, table.m < fuel1 →
        (lzohtable.lzohtable_lookup fuel1 key table = some (0, none) ∧ table1.n = table.n) ∨
        (∃ old, lzohtable.lzohtable_lookup fuel1 key table = some (1, some old) ∧
          table1.n + 1 = table.n)) ∧
      lzohtable.Built table1 := by
  have hv := lzohtable.built_valid hb
  obtain ⟨t1, r1, r2, r3, r4, r5, r6⟩ := lzohtable.remove_spec hv key fuel hf
  refine ⟨t1, r1, ?_, ?_, ?_, lzohtable.Built.remove table fuel key t1 hb hf r1⟩
  · intro fuel1 hf1
    apply lzohtable.lookup_absent r2 _ fuel1 hf1
    intro i hi e he hk
    have := (r4 key e.value).mp ⟨i, hi, e, he, hk, rfl⟩
    exact this.1 rfl
  · intro other hne fuel1 fuel2 hf1 hf2
    apply lzohtable.lookup_congr hv r2 _ fuel1 fuel2 hf1 hf2
    intro v
    rw [r4]
    constructor
    · rintro ⟨-, h⟩
      exact h
    · intro h
      exact ⟨hne, h⟩
  · intro fuel1 hf1
    rcases lzohtable.holds_or_absent table.m table.slots key with ⟨v0, hold⟩ | habs
    · exact Or.inr ⟨v0, lzohtable.lookup_holds hv hold fuel1 hf1, r5 ⟨v0, hold⟩⟩
    · refine Or.inl ⟨lzohtable.lookup_absent hv habs fuel1 hf1, ?_⟩
      rw [r6 habs]

theorem lzohtable_remove_then_lookup_witness :
    lzohtable.Built c34_table ∧ c34_table.m * c34_table.m < 17 ∧
    (∃ table1, lzohtable.lzohtable_remove_help 17 [1] c34_table = some table1 ∧
      (∀ fuel1, table1.m < fuel1 →
        lzohtable.lzohtable_lookup fuel1 [1] table1 = some (0, none)) ∧
      (∀ other, other ≠ [1] → ∀ fuel1 fuel2, c34_table.m < fuel1 → table1.m < fuel2 →
        lzohtable.lzohtable_lookup fuel2 other table1 =
          lzohtable.lzohtable_lookup fuel1 other c34_table) ∧
      (∀ fuel1, c34_table.m < fuel1 →
        (lzohtable.lzohtable_lookup fuel1 [1] c34_table = some (0, none) ∧
          table1.n = c34_table.n) ∨
        (∃ old, lzohtable.lzohtable_lookup fuel1 [1] c34_table = some (1, some old) ∧
          table1.n + 1 = c34_table.n)) ∧
      lzohtable.Built table1) ∧
    c34_table.layout = [some ([1], 0), some ([5], 1), some ([9], 2), some ([2], 2)] ∧
    c34_table.n = 4 ∧
    (lzohtable.lzohtable_remove_help 17 [1] c34_table).map
        (fun table1 => (table1.layout, table1.n, lzohtable.lzohtable_lookup 5 [9] table1)) =
      some ([some ([5], 0), some ([9], 1), some ([2], 1), none], 3, some (1, some 19)) :=
  have h0 : lzohtable.Built (lzohtable.lzohtable_create 4 (9, 10) : lzohtable.LZOHTable Nat) :=
    lzohtable.Built.create 2 (9, 10) (by decide) (by decide)
  have h1 : lzohtable.Built c34_table_a :=
    lzohtable.Built.put (lzohtable.lzohtable_create 4 (9, 10)) true [1] 11 c34_table_a h0
      (by decide) (Prod.ext (by decide!) rfl)
  have h2 : lzohtable.Built c34_table_b :=
    lzohtable.Built.put c34_table_a true [5] 15 c34_table_b h1 (by decide!)
      (Prod.ext (by decide!) rfl)
  have h3 : lzohtable.Built c34_table_c :=
    lzohtable.Built.put c34_table_b true [2] 12 c34_table_c h2 (by decide!)
      (Prod.ext (by decide!) rfl)
  have h4 : lzohtable.Built c34_table :=
    lzohtable.Built.put c34_table_c true [9] 19 c34_table h3 (by decide!)
      (Prod.ext (by decide!) rfl)
  ⟨h4, by decide!, lzohtable_remove_then_lookup c34_table h4 [1] 17 (by decide!),
    by decide!, by decide!, by decide!⟩

/-! ## Programs whose jumps wrap: steps of a frame without closure -/

theorem entry_start (f : Fn) (ha : f.arity = 0) :
    ∃ vm0, landed (vm_start 0 (VM.init [f] [] [plain_module] [])) = .running vm0 ∧
      vm0.plain_at f 0 0 [] := by
  obtain ⟨name, arity, chunks, iconsts, fconsts, module⟩ := f
  simp only at ha
  subst ha
  refine ⟨_, rfl, ⟨⟨?_, 0, ?_, ?_⟩, ?_, ?_, ?_, ?_⟩, ?_, ?_⟩
  · show (1 : Nat) ≠ 0
    decide
  · rfl
  · rfl
  · rfl
  · rfl
  · rfl
  · intro i v hv
    simp at hv
  · rfl
  · rfl

theorem plain_push {vm : VM} {f : Fn} {ip base : Nat} {vals : List Value}
    (h : vm.plain_at f ip base vals) (op : OpCode) (x : Value)
    (h3 : (f.chunks[ip]?).bind decode = some op)
    (hop : ∀ chunk, decode chunk = some op → dispatch chunk = (do push x; pure none))
    (hroom : base + 1 + vals.length < STACK_LENGTH) :
    ∃ vm1, step vm = .running vm1 ∧ vm1.plain_at f (ip + 1) base (vals ++ [x]) := by
  obtain ⟨h, hclo, herr⟩ := h
  have hat := frame_at_op h op [] h3 rfl
  obtain ⟨chunk, hd, he⟩ := dispatch_at hat
  obtain ⟨hr, -⟩ := hat
  obtain ⟨-, hip, hloc, htop, hvals⟩ := h
  have h0 : vm.frame_ptr ≠ 0 := hr.1
  have h2 : ¬ STACK_LENGTH ≤ vm.stack_top := by omega
  obtain ⟨-, fi, hfn, hfns⟩ := hr
  have hstep : step vm = .running { vm.fetched with
      stack := Function.update vm.stack vm.stack_top x,
      stack_top := vm.stack_top + 1 } := by
    simp only [step, he, hop chunk hd, bind_apply, pure_apply]
    simp [push, h2, VM.fetched, VM.with_frame, VM.frame]
  refine ⟨_, hstep, ⟨⟨h0, fi, ?_, hfns⟩, ?_, ?_, ?_, ?_⟩, ?_, ?_⟩
  · unfold VM.frame at hfn ⊢
    simp [VM.fetched, VM.with_frame, VM.set_ip, VM.frame, hfn]
  · unfold VM.frame at hip ⊢
    simp [VM.fetched, VM.with_frame, VM.set_ip, VM.frame, hip]
  · unfold VM.frame at hloc ⊢
    simp [VM.fetched, VM.with_frame, VM.set_ip, VM.frame, hloc]
  · show vm.stack_top + 1 = _
    rw [htop, List.length_append]
    simp
    omega
  · show ∀ i w, (vals ++ [x])[i]? = some w →
      Function.update vm.stack vm.stack_top x (base + 1 + i) = w
    rw [htop]
    exact vals_push hvals _
  · unfold VM.frame at hclo ⊢
    simp [VM.fetched, VM.with_frame, VM.set_ip, VM.frame, hclo]
  · show vm.fetched.stderr = []
    rw [← herr]
    simp [VM.fetched, VM.with_frame]

theorem plain_true {vm : VM} {f : Fn} {ip base : Nat} {vals : List Value}
    (h : vm.plain_at f ip base vals)
    (h3 : (f.chunks[ip]?).bind decode = some .TRUE)
    (hroom : base + 1 + vals.length < STACK_LENGTH) :
    ∃ vm1, step vm = .running vm1 ∧ vm1.plain_at f (ip + 1) base (vals ++ [.bool true]) :=
  plain_push h .TRUE (.bool true) h3 (fun chunk hd => by simp only [dispatch, hd]) hroom

theorem plain_pop {vm : VM} {f : Fn} {ip base : Nat} {vals : List Value} {x : Value}
    (h : vm.plain_at f ip base (vals ++ [x]))
    (h3 : (f.chunks[ip]?).bind decode = some .POP) :
    ∃ vm1, step vm = .running vm1 ∧ vm1.plain_at f (ip + 1) base vals := by
  obtain ⟨h, hclo, herr⟩ := h
  have hat := frame_at_op h .POP [] h3 rfl
  obtain ⟨chunk, hd, he⟩ := dispatch_at hat
  obtain ⟨hr, -⟩ := hat
  obtain ⟨-, hip, hloc, htop, hvals⟩ := h
  obtain ⟨hvals1, -⟩ := vals_pop hvals
  have h0 : vm.frame_ptr ≠ 0 := hr.1
  simp only [List.length_append, List.length_singleton] at htop
  have e0 : vm.fetched.stack_top = vm.stack_top := by simp [VM.fetched, VM.with_frame]
  have e1 : vm.fetched.stack = vm.stack := by simp [VM.fetched, VM.with_frame]
  have q0 := pop_ok vm.fetched (by omega)
  obtain ⟨-, fi, hfn, hfns⟩ := hr
  have hstep : step vm = .running { vm.fetched with stack_top := vm.fetched.stack_top - 1 } := by
    simp only [step, he, dispatch, hd, bind_apply, q0, pure_apply]
  refine ⟨_, hstep, ⟨⟨h0, fi, ?_, hfns⟩, ?_, ?_, ?_, ?_⟩, ?_, ?_⟩
  · unfold VM.frame at hfn ⊢
    simp [VM.fetched, VM.with_frame, VM.set_ip, VM.frame, hfn]
  · unfold VM.frame at hip ⊢
    simp [VM.fetched, VM.with_frame, VM.set_ip, VM.frame, hip]
  · unfold VM.frame at hloc ⊢
    simp [VM.fetched, VM.with_frame, VM.set_ip, VM.frame, hloc]
  · show vm.fetched.stack_top - 1 = _
    rw [e0, htop]
    omega
  · show ∀ i w, vals[i]? = some w → vm.fetched.stack (base + 1 + i) = w
    rw [e1]
    exact hvals1
  · unfold VM.frame at hclo ⊢
    simp [VM.fetched, VM.with_frame, VM.set_ip, VM.frame, hclo]
  · show vm.fetched.stderr = []
    rw [← herr]
    simp [VM.fetched, VM.with_frame]

theorem plain_int {vm : VM} {f : Fn} {ip base : Nat} {vals : List Value}
    (h : vm.plain_at f ip base vals) (b0 b1 : Nat)
    (h3 : (f.chunks[ip]?).bind decode = some .INT)
    (h4 : ((f.chunks.drop (ip + 1)).take 2) = [b0, b1])
    (c : Int) (hc : f.iconsts[to_size_t (compose_i16 b0 b1)]? = some c)
    (hroom : base + 1 + vals.length < STACK_LENGTH) :
    ∃ vm1, step vm = .running vm1 ∧ vm1.plain_at f (ip + 3) base (vals ++ [.int c]) := by
  obtain ⟨h, hclo, herr⟩ := h
  have hat := frame_at_op h .INT [b0, b1] h3 h4
  obtain ⟨chunk, hd, he⟩ := dispatch_at hat
  obtain ⟨c0, c1⟩ := operands2 hat
  obtain ⟨hr, -⟩ := hat
  obtain ⟨-, hip, hloc, htop, hvals⟩ := h
  have hrn := fetched_runs hr
  have cf := current_fn_at hrn
  have rd := read_i16_at hrn b0 b1 c0 c1
  have h0 : vm.frame_ptr ≠ 0 := hr.1
  have h2 : ¬ STACK_LENGTH ≤ vm.stack_top := by omega
  obtain ⟨-, fi, hfn, hfns⟩ := hr
  have hstep : step vm = .running { (vm.fetched.set_ip (vm.fetched.frame.ip + 2)) with
      stack := Function.update vm.stack vm.stack_top (.int c),
      stack_top := vm.stack_top + 1 } := by
    simp only [step, he, dispatch, hd, op_int, read_i64_const, bind_apply, cf, rd, hc, deref,
      pure_apply]
    simp [push, h2, VM.fetched, VM.with_frame, VM.set_ip, VM.frame]
  refine ⟨_, hstep, ⟨⟨h0, fi, ?_, hfns⟩, ?_, ?_, ?_, ?_⟩, ?_, ?_⟩
  · unfold VM.frame at hfn ⊢
    simp [VM.fetched, VM.with_frame, VM.set_ip, VM.frame, hfn]
  · unfold VM.frame at hip ⊢
    simp [VM.fetched, VM.with_frame, VM.set_ip, VM.frame, hip]
  · unfold VM.frame at hloc ⊢
    simp [VM.fetched, VM.with_frame, VM.set_ip, VM.frame, hloc]
  · show vm.stack_top + 1 = _
    rw [htop, List.length_append]
    simp
    omega
  · show ∀ i w, (vals ++ [Value.int c])[i]? = some w →
      Function.update vm.stack vm.stack_top (.int c) (base + 1 + i) = w
    rw [htop]
    exact vals_push hvals _
  · unfold VM.frame at hclo ⊢
    simp [VM.fetched, VM.with_frame, VM.set_ip, VM.frame, hclo]
  · show (vm.fetched.set_ip (vm.fetched.frame.ip + 2)).stderr = []
    rw [← herr]
    simp [VM.fetched, VM.with_frame, VM.set_ip]

theorem plain_lget {vm : VM} {f : Fn} {ip base : Nat} {vals : List Value}
    (h : vm.plain_at f ip base vals) (k : Nat)
    (h3 : (f.chunks[ip]?).bind decode = some .LGET)
    (h4 : ((f.chunks.drop (ip + 1)).take 1) = [k])
    (v : Value) (hv : vals[k]? = some v) (hroom : base + 1 + vals.length < STACK_LENGTH) :
    ∃ vm1, step vm = .running vm1 ∧ vm1.plain_at f (ip + 2) base (vals ++ [v]) := by
  obtain ⟨h, hclo, herr⟩ := h
  have hat := frame_at_op h .LGET [k] h3 h4
  obtain ⟨chunk, hd, he⟩ := dispatch_at hat
  obtain ⟨hr, -, -, -, hops⟩ := hat
  obtain ⟨-, hip, hloc, htop, hvals⟩ := h
  have ha : f.chunks[vm.fetched.frame.ip]? = some k := by
    have := hops 0 (by simp)
    simpa using this
  have adv := advance_at (fetched_runs hr) k ha
  have h0 : vm.frame_ptr ≠ 0 := hr.1
  have hk : k < vals.length := by
    by_contra hc
    rw [List.getElem?_eq_none (by omega)] at hv
    cases hv
  have h1 : ¬ vm.stack_top ≤ vm.frame.locals + 1 + k := by omega
  have h2 : ¬ STACK_LENGTH ≤ vm.stack_top := by omega
  obtain ⟨-, fi, hfn, hfns⟩ := hr
  have hstep : step vm = .running { (vm.fetched.set_ip (vm.fetched.frame.ip + 1)) with
      stack := Function.update vm.stack vm.stack_top (vm.stack (vm.frame.locals + 1 + k)),
      stack_top := vm.stack_top + 1 } := by
    simp only [step, he, dispatch, hd, op_lget, bind_apply, adv]
    unfold VM.frame at h1
    simp [frame_local, current_frame, h0, get_vm, VM.fetched, VM.with_frame, VM.set_ip, VM.frame,
      h1, load, push, h2]
  refine ⟨_, hstep, ⟨⟨h0, fi, ?_, hfns⟩, ?_, ?_, ?_, ?_⟩, ?_, ?_⟩
  · unfold VM.frame at hfn ⊢
    simp [VM.fetched, VM.with_frame, VM.set_ip, VM.frame, hfn]
  · unfold VM.frame at hip ⊢
    simp [VM.fetched, VM.with_frame, VM.set_ip, VM.frame, hip]
  · unfold VM.frame at hloc ⊢
    simp [VM.fetched, VM.with_frame, VM.set_ip, VM.frame, hloc]
  · show vm.stack_top + 1 = _
    rw [htop, List.length_append]
    simp
    omega
  · show ∀ i w, (vals ++ [v])[i]? = some w →
      Function.update vm.stack vm.stack_top (vm.stack (vm.frame.locals + 1 + k)) (base + 1 + i) = w
    rw [htop, hloc, hvals k v hv]
    exact vals_push hvals v
  · unfold VM.frame at hclo ⊢
    simp [VM.fetched, VM.with_frame, VM.set_ip, VM.frame, hclo]
  · show (vm.fetched.set_ip (vm.fetched.frame.ip + 1)).stderr = []
    rw [← herr]
    simp [VM.fetched, VM.with_frame, VM.set_ip]

theorem plain_ge {vm : VM} {f : Fn} {ip base : Nat} {vals : List Value} {l r : Int}
    (h : vm.plain_at f ip base (vals ++ [.int l] ++ [.int r]))
    (h3 : (f.chunks[ip]?).bind decode = some .GE)
    (hroom : base + 1 + vals.length < STACK_LENGTH) :
    ∃ vm1, step vm = .running vm1 ∧
      vm1.plain_at f (ip + 1) base (vals ++ [.bool (decide (l ≥ r))]) := by
  obtain ⟨h, hclo, herr⟩ := h
  have hat := frame_at_op h .GE [] h3 rfl
  obtain ⟨chunk, hd, he⟩ := dispatch_at hat
  obtain ⟨hr, -⟩ := hat
  obtain ⟨-, hip, hloc, htop, hvals⟩ := h
  obtain ⟨hvals1, hr0⟩ := vals_pop hvals
  obtain ⟨hvals2, hl0⟩ := vals_pop hvals1
  have h0 : vm.frame_ptr ≠ 0 := hr.1
  simp only [List.length_append, List.length_singleton] at htop hr0
  have e0 : vm.fetched.stack_top = vm.stack_top := by simp [VM.fetched, VM.with_frame]
  have e1 : vm.fetched.stack = vm.stack := by simp [VM.fetched, VM.with_frame]
  have q0 := pop_ok vm.fetched (by omega)
  have q1 := pop_ok { vm.fetched with stack_top := vm.fetched.stack_top - 1 }
    (by show 0 < vm.fetched.stack_top - 1; omega)
  have hr1 : vm.fetched.stack (vm.fetched.stack_top - 1) = .int r := by
    rw [e0, e1, htop]
    have : base + 1 + (vals.length + 1 + 1) - 1 = base + 1 + (vals.length + 1) := by omega
    rw [this]
    exact hr0
  have hl1 : vm.fetched.stack (vm.fetched.stack_top - 1 - 1) = .int l := by
    rw [e0, e1, htop]
    have : base + 1 + (vals.length + 1 + 1) - 1 - 1 = base + 1 + vals.length := by omega
    rw [this]
    exact hl0
  have q2 := push_ok { vm.fetched with stack_top := vm.fetched.stack_top - 1 - 1 }
    (.bool (decide (l ≥ r))) (by show vm.fetched.stack_top - 1 - 1 < STACK_LENGTH; omega)
  obtain ⟨-, fi, hfn, hfns⟩ := hr
  have hstep : step vm = .running { vm.fetched with
      stack := Function.update vm.fetched.stack (vm.fetched.stack_top - 1 - 1)
        (.bool (decide (l ≥ r))),
      stack_top := vm.fetched.stack_top - 1 - 1 + 1 } := by
    simp only [step, he, dispatch, hd, op_ge, bind_apply, q0, q1, hr1, hl1, pure_apply, q2]
  refine ⟨_, hstep, ⟨⟨h0, fi, ?_, hfns⟩, ?_, ?_, ?_, ?_⟩, ?_, ?_⟩
  · unfold VM.frame at hfn ⊢
    simp [VM.fetched, VM.with_frame, VM.set_ip, VM.frame, hfn]
  · unfold VM.frame at hip ⊢
    simp [VM.fetched, VM.with_frame, VM.set_ip, VM.frame, hip]
  · unfold VM.frame at hloc ⊢
    simp [VM.fetched, VM.with_frame, VM.set_ip, VM.frame, hloc]
  · show vm.fetched.stack_top - 1 - 1 + 1 = _
    rw [e0, htop, List.length_append]
    simp
    omega
  · show ∀ i w, (vals ++ [Value.bool (decide (l ≥ r))])[i]? = some w →
      Function.update vm.fetched.stack (vm.fetched.stack_top - 1 - 1) _ (base + 1 + i) = w
    rw [e0, e1, htop]
    have : base + 1 + (vals.length + 1 + 1) - 1 - 1 = base + 1 + vals.length := by omega
    rw [this]
    exact vals_push hvals2 _
  · unfold VM.frame at hclo ⊢
    simp [VM.fetched, VM.with_frame, VM.set_ip, VM.frame, hclo]
  · show vm.fetched.stderr = []
    rw [← herr]
    simp [VM.fetched, VM.with_frame]

theorem plain_jit {vm : VM} {f : Fn} {ip base : Nat} {vals : List Value} {b : Bool}
    (h : vm.plain_at f ip base (vals ++ [.bool b])) (b0 b1 : Nat)
    (h3 : (f.chunks[ip]?).bind decode = some .JIT)
    (h4 : ((f.chunks.drop (ip + 1)).take 2) = [b0, b1]) (ip1 : Nat)
    (hto : to_size_t (((ip + 3 : Nat) : Int) + (if b then compose_i16 b0 b1 else 0)) = ip1) :
    ∃ vm1, step vm = .running vm1 ∧ vm1.plain_at f ip1 base vals := by
  obtain ⟨h, hclo, herr⟩ := h
  have hat := frame_at_op h .JIT [b0, b1] h3 h4
  obtain ⟨chunk, hd, he⟩ := dispatch_at hat
  obtain ⟨c0, c1⟩ := operands2 hat
  obtain ⟨hr, -⟩ := hat
  obtain ⟨-, hip, hloc, htop, hvals⟩ := h
  obtain ⟨hvals1, hb0⟩ := vals_pop hvals
  have hrn := fetched_runs hr
  have rd := read_i16_at hrn b0 b1 c0 c1
  have h0 : vm.frame_ptr ≠ 0 := hr.1
  simp only [List.length_append, List.length_singleton] at htop
  have fip : vm.fetched.frame.ip = vm.frame.ip + 1 := fetched_ip vm
  generalize hR : vm.fetched.set_ip (vm.fetched.frame.ip + 2) = vmR at rd
  have e0 : vmR.stack_top = vm.stack_top := by
    rw [← hR]; simp [VM.fetched, VM.set_ip, VM.with_frame]
  have e1 : vmR.stack = vm.stack := by
    rw [← hR]; simp [VM.fetched, VM.set_ip, VM.with_frame]
  have e3 : vmR.stderr = vm.stderr := by
    rw [← hR]; simp [VM.fetched, VM.set_ip, VM.with_frame]
  have eip : vmR.frame.ip = ip + 3 := by
    rw [← hR, set_ip_ip, fip, hip]
  have efp : vmR.frame_ptr = vm.frame_ptr := by
    rw [← hR]; simp [VM.fetched, VM.set_ip, VM.with_frame]
  have efn : vmR.frame.fn = vm.frame.fn := by
    rw [← hR]; unfold VM.frame; simp [VM.fetched, VM.set_ip, VM.with_frame, VM.frame]
  have eloc : vmR.frame.locals = vm.frame.locals := by
    rw [← hR]; unfold VM.frame; simp [VM.fetched, VM.set_ip, VM.with_frame, VM.frame]
  have eclo : vmR.frame.closure = vm.frame.closure := by
    rw [← hR]; unfold VM.frame; simp [VM.fetched, VM.set_ip, VM.with_frame, VM.frame]
  have efns : vmR.fns = vm.fns := by
    rw [← hR]; simp [VM.fetched, VM.set_ip, VM.with_frame]
  have q0 := pop_ok vmR (by omega)
  have hb1 : vmR.stack (vmR.stack_top - 1) = .bool b := by
    rw [e0, e1, htop]
    have : base + 1 + (vals.length + 1) - 1 = base + 1 + vals.length := by omega
    rw [this]
    exact hb0
  have aip := @add_ip_at { vmR with stack_top := vmR.stack_top - 1 }
    (by show vmR.frame_ptr ≠ 0; rw [efp]; exact h0) (if b then compose_i16 b0 b1 else 0)
  have efr : ({ vmR with stack_top := vmR.stack_top - 1 } : VM).frame = vmR.frame := rfl
  rw [efr, eip, hto] at aip
  obtain ⟨-, fi, hfn, hfns⟩ := hr
  have hstep : step vm = .running
      (({ vmR with stack_top := vmR.stack_top - 1 } : VM).set_ip ip1) := by
    simp only [step, he, dispatch, hd, op_jit, bind_apply, rd, q0, hb1, aip, pure_apply]
  refine ⟨_, hstep, ⟨⟨?_, fi, ?_, ?_⟩, ?_, ?_, ?_, ?_⟩, ?_, ?_⟩
  · show vmR.frame_ptr ≠ 0
    rw [efp]; exact h0
  · rw [← hfn, ← efn]
    unfold VM.frame
    simp [VM.set_ip, VM.frame]
  · show vmR.fns[fi]? = some f
    rw [efns]; exact hfns
  · exact set_ip_ip _ _
  · rw [← hloc, ← eloc]
    unfold VM.frame
    simp [VM.set_ip, VM.frame]
  · show vmR.stack_top - 1 = _
    rw [e0, htop]
    omega
  · show ∀ i w, vals[i]? = some w → vmR.stack (base + 1 + i) = w
    rw [e1]
    exact hvals1
  · rw [← hclo, ← eclo]
    unfold VM.frame
    simp [VM.set_ip, VM.frame]
  · show vmR.stderr = []
    rw [e3, herr]

theorem plain_or_true {vm : VM} {f : Fn} {ip base : Nat} {vals : List Value}
    (h : vm.plain_at f ip base (vals ++ [.bool true])) (b0 b1 : Nat)
    (h3 : (f.chunks[ip]?).bind decode = some .OR)
    (h4 : ((f.chunks.drop (ip + 1)).take 2) = [b0, b1]) (ip1 : Nat)
    (hto : to_size_t (((ip + 3 : Nat) : Int) + compose_i16 b0 b1) = ip1) :
    ∃ vm1, step vm = .running vm1 ∧ vm1.plain_at f ip1 base (vals ++ [.bool true]) := by
  obtain ⟨h, hclo, herr⟩ := h
  have hat := frame_at_op h .OR [b0, b1] h3 h4
  obtain ⟨chunk, hd, he⟩ := dispatch_at hat
  obtain ⟨c0, c1⟩ := operands2 hat
  obtain ⟨hr, -⟩ := hat
  obtain ⟨-, hip, hloc, htop, hvals⟩ := h
  obtain ⟨-, hb0⟩ := vals_pop hvals
  have hrn := fetched_runs hr
  have rd := read_i16_at hrn b0 b1 c0 c1
  have h0 : vm.frame_ptr ≠ 0 := hr.1
  simp only [List.length_append, List.length_singleton] at htop
  have fip : vm.fetched.frame.ip = vm.frame.ip + 1 := fetched_ip vm
  generalize hR : vm.fetched.set_ip (vm.fetched.frame.ip + 2) = vmR at rd
  have e0 : vmR.stack_top = vm.stack_top := by
    rw [← hR]; simp [VM.fetched, VM.set_ip, VM.with_frame]
  have e1 : vmR.stack = vm.stack := by
    rw [← hR]; simp [VM.fetched, VM.set_ip, VM.with_frame]
  have e3 : vmR.stderr = vm.stderr := by
    rw [← hR]; simp [VM.fetched, VM.set_ip, VM.with_frame]
  have eip : vmR.frame.ip = ip + 3 := by
    rw [← hR, set_ip_ip, fip, hip]
  have efp : vmR.frame_ptr = vm.frame_ptr := by
    rw [← hR]; simp [VM.fetched, VM.set_ip, VM.with_frame]
  have efn : vmR.frame.fn = vm.frame.fn := by
    rw [← hR]; unfold VM.frame; simp [VM.fetched, VM.set_ip, VM.with_frame, VM.frame]
  have eloc : vmR.frame.locals = vm.frame.locals := by
    rw [← hR]; unfold VM.frame; simp [VM.fetched, VM.set_ip, VM.with_frame, VM.frame]
  have eclo : vmR.frame.closure = vm.frame.closure := by
    rw [← hR]; unfold VM.frame; simp [VM.fetched, VM.set_ip, VM.with_frame, VM.frame]
  have efns : vmR.fns = vm.fns := by
    rw [← hR]; simp [VM.fetched, VM.set_ip, VM.with_frame]
  have t1 : ¬ vmR.stack_top = 0 := by omega
  have pk : peek vmR = .ok (.bool true) vmR := by
    have hb1 : vmR.stack (vmR.stack_top - 1) = .bool true := by
      rw [e0, e1, htop]
      have : base + 1 + (vals.length + 1) - 1 = base + 1 + vals.length := by omega
      rw [this]
      exact hb0
    simp only [peek, t1, if_false, hb1]
  have aip := @add_ip_at vmR (by rw [efp]; exact h0) (compose_i16 b0 b1)
  rw [eip, hto] at aip
  obtain ⟨-, fi, hfn, hfns⟩ := hr
  have hstep : step vm = .running (vmR.set_ip ip1) := by
    simp only [step, he, dispatch, hd, op_or, bind_apply, rd, pk, if_true, aip, pure_apply]
  refine ⟨_, hstep, ⟨⟨?_, fi, ?_, ?_⟩, ?_, ?_, ?_, ?_⟩, ?_, ?_⟩
  · show vmR.frame_ptr ≠ 0
    rw [efp]; exact h0
  · rw [← hfn, ← efn]
    unfold VM.frame
    simp [VM.set_ip, VM.frame]
  · show vmR.fns[fi]? = some f
    rw [efns]; exact hfns
  · exact set_ip_ip _ _
  · rw [← hloc, ← eloc]
    unfold VM.frame
    simp [VM.set_ip, VM.frame]
  · show vmR.stack_top = _
    rw [e0, htop]
    simp
  · show ∀ i w, (vals ++ [Value.bool true])[i]? = some w → vmR.stack (base + 1 + i) = w
    rw [e1]
    exact hvals
  · rw [← hclo, ← eclo]
    unfold VM.frame
    simp [VM.set_ip, VM.frame]
  · show vmR.stderr = []
    rw [e3, herr]

theorem plain_outside {vm : VM} {f : Fn} {ip base : Nat} {vals : List Value}
    (h : vm.plain_at f ip base vals) (hout : f.chunks.length ≤ ip) :
    step vm = .halted ERR_VMRESULT
      { vm with
        exit_code := ERR_VMRESULT,
        stderr := ["Runtime error: IP excceded chunks length"] } := by
  obtain ⟨⟨⟨h0, fi, hfn, hfns⟩, hip, -, -, -⟩, -, herr⟩ := h
  unfold VM.frame at hfn hip
  have hge : f.chunks.length ≤ (vm.frame_stack (vm.frame_ptr - 1)).ip := by rw [hip]; exact hout
  simp [step, execute_one, advance_save, current_frame, h0, frame_chunks, hfn, hfns, hge,
    vmu_error, after_longjmp, herr, bind_apply]

theorem plain_oget {vm : VM} {f : Fn} {ip base : Nat} {vals : List Value}
    (h : vm.plain_at f ip base vals) (k : Nat)
    (h3 : (f.chunks[ip]?).bind decode = some .OGET)
    (h4 : ((f.chunks.drop (ip + 1)).take 1) = [k]) :
    step vm = .ub := by
  obtain ⟨h, hc, -⟩ := h
  have hat := frame_at_op h .OGET [k] h3 h4
  obtain ⟨chunk, hd, he⟩ := dispatch_at hat
  obtain ⟨hr, -, -, -, hops⟩ := hat
  have ha : f.chunks[vm.fetched.frame.ip]? = some k := by
    have := hops 0 (by simp)
    simpa using this
  have adv := advance_at (fetched_runs hr) k ha
  have h0 : vm.frame_ptr ≠ 0 := hr.1
  unfold VM.frame at hc
  simp only [step, he, dispatch, hd, op_oget, bind_apply, adv]
  simp [current_closure, current_frame, h0, get_vm, VM.fetched, VM.with_frame, VM.set_ip,
    VM.frame, hc, deref, undefined_behaviour]

/-! ## `or` with a right operand of 32769 chunks -/

theorem c22_is_code_length (n : Nat) : (c22_is_code n).length = 2 * n + 1 := by
  induction n with
  | zero => rfl
  | succ n ih => simp [c22_is_code, ih]; omega

theorem compile_is_chain (n : Nat) (m : ScopeManager) (u : compiler.Unit)
    (rest : List compiler.Unit) (strs : List String) :
    compile_expr (c22_is_chain n) m { units_stack := u :: rest, strings := strs }
      = .ok ⟨⟩ { units_stack :=
          { u with fn := { u.fn with chunks := u.fn.chunks ++ c22_is_code n } } :: rest,
                 strings := strs } := by
  induction n with
  | zero =>
    simp [c22_is_chain, c22_is_code, compile_expr, write_chunk, insert_chunk, current_unit,
      set_unit, chunks_len, bind, Comp.bind]
    decide
  | succ n ih =>
    simp [c22_is_chain, c22_is_code, compile_expr, write_chunk, insert_chunk, current_unit,
      set_unit, chunks_len, bind, Comp.bind, ih, TypeKeyword.tag]
    decide

theorem c22_far_expr (n : Nat) (hn : n = 16384) (m : ScopeManager) :
    compile_expr (c22_far n) m { units_stack := [create_unit entry_fn0], strings := [] }
      = .ok ⟨⟩ { units_stack := [c22_far_unit n], strings := [] } := by
  have hlen : (c22_is_code n).length = 32769 := by rw [c22_is_code_length, hn]
  have hname : (toString "OR_END_" ++ toString (0 : Int) ++ toString "" : String) = "OR_END_0" := by decide
  simp only [c22_far, c22_far_unit, entry_fn0, compile_expr, bind, Comp.bind, create_unit, write_chunk, insert_chunk,
    current_unit, set_unit, chunks_len, generate_id, compiler.or, jmp_like, write_i16,
    descompose_i16, compile_is_chain, label, pure, List.lookup, List.nil_append,
    List.cons_append, List.length_append, List.length_cons, List.length_nil, hlen, hname,
    if_true]
  simp [Comp.bind, set_unit, wrapS]
  exact ⟨by decide, by decide⟩

theorem c22_far_fn_eq (n : Nat) (hn : n = 16384) :
    compiler.compile_entry "entry" [.EXPR (c22_far n)] 0 c10_compiler
      = .ok (c22_far_code n) c10_compiler := by
  have hs : compile_stmt (.EXPR (c22_far n))
      [{ type := .GLOBAL, locals := [], returned := false }]
      = (do
          compile_expr (c22_far n) [{ type := .GLOBAL, locals := [], returned := false }]
          let _ ← write_chunk OpCode.POP.byte
          pure [{ type := .GLOBAL, locals := [], returned := false }]) := rfl
  have hlen : (c22_is_code n).length = 32769 := by rw [c22_is_code_length, hn]
  have he := c22_far_expr n hn [{ type := .GLOBAL, locals := [], returned := false }]
  unfold entry_fn0 at he
  have hb : wrapS 16 (wrapU 16 (to_size_t ((32773 : Nat) - (4 : Nat) : Int))) = -32767 := by
    decide
  simp only [c22_far_code, compile_entry, compile_all, hs, bind, Comp.bind, push_unit, c10_compiler, he,
    List.nil_append, c22_far_unit, write_chunk, insert_chunk, current_unit,
    set_unit, chunks_len, pure, pop_unit, resolve_jmps, resolve_marks, List.lookup, beq_self_eq_true,
    update_i16, hb, descompose_i16, List.length_append, List.length_cons, List.length_nil, hlen,
    List.cons_append, List.tail]
  simp [Comp.bind, set_unit]
  exact ⟨by decide, by decide, by decide⟩

theorem c22_far_run (n : Nat) (hn : n = 16384) :
    (∃ vm1, c22_far_outcome n 1 = .running vm1 ∧
      vm1.plain_at (c22_far_fn n) 1 0 [.bool true]) ∧
    (∃ vm2, c22_far_outcome n 2 = .running vm2 ∧
      vm2.plain_at (c22_far_fn n) (2 ^ 64 - 32763) 0 [.bool true]) ∧
    (c22_far_outcome n 3).is_error ∧
    (c22_far_outcome n 3).vm.stderr = ["Runtime error: IP excceded chunks length"] := by
  have hf : c22_far_fn n = c22_far_code n := by
    unfold c22_far_fn
    rw [c22_far_fn_eq n hn]
    rfl
  have hlen : (c22_is_code n).length = 32769 := by rw [c22_is_code_length, hn]
  rw [hf]
  obtain ⟨vm0, s0, h0⟩ := entry_start (c22_far_code n) rfl
  obtain ⟨vm1, s1, h1⟩ := plain_true h0 (by rfl) (by decide)
  have h1a : vm1.plain_at (c22_far_code n) 1 0 ([] ++ [.bool true]) := h1
  obtain ⟨vm2, s2, h2⟩ := plain_or_true h1a 128 1 (by rfl) (by rfl) (2 ^ 64 - 32763) (by decide)
  have s3 := plain_outside h2 (by
    show ([OpCode.TRUE.byte, OpCode.OR.byte, 128, 1] ++ c22_is_code n ++
      [OpCode.POP.byte, OpCode.EMPTY.byte, OpCode.RET.byte]).length ≤ 2 ^ 64 - 32763
    simp only [List.length_append, List.length_cons, List.length_nil, hlen]
    decide)
  have e1 : c22_far_outcome n 1 = .running vm1 := by
    unfold c22_far_outcome vm_execute
    rw [hf, s0]
    simp only [run, s1]
  have e2 : c22_far_outcome n 2 = .running vm2 := by
    unfold c22_far_outcome vm_execute
    rw [hf, s0]
    simp only [run, s1, s2]
  have e3 : c22_far_outcome n 3 = .halted ERR_VMRESULT
      { vm2 with
        exit_code := ERR_VMRESULT,
        stderr := ["Runtime error: IP excceded chunks length"] } := by
    unfold c22_far_outcome vm_execute
    rw [hf, s0]
    simp only [run, s1, s2, s3]
  refine ⟨⟨vm1, e1, h1⟩, ⟨vm2, e2, h2⟩, ?_, ?_⟩
  · rw [e3]
    rfl
  · rw [e3]
    rfl

/-- C22 as stated fails when the code of the right operand is 32768 chunks or
longer. The module whose only statement is the expression statement
`true or r`, with `r` the expression `empty is bool is bool ...` of 16384
tests, compiles to an entry function whose `OR` is followed by the bytes 128,
1: the code of `r` has 32769 chunks and `pop_unit` stored `(uint16_t)32769`,
which the VM reads as -32767. When the program runs, `TRUE` pushes the left
operand, `OR` leaves it on the stack and moves the `ip` from 4 to 4 - 32767 as
a `size_t`, which is `2 ^ 64 - 32763` and lies outside the function, and the
next turn of the loop ends the program with the runtime error "IP excceded
chunks length". By the claim the expression leaves true, the right operand is
skipped and the program goes on with the `POP` behind it. -/
theorem logical_far_right_operand_ends_program :
    compile_entry "entry" [.EXPR (c22_far 16384)] 0 c10_compiler
      = .ok (c22_far_code 16384) c10_compiler ∧
    (c22_is_code 16384).length = 32769 ∧
    compose_i16 128 1 = -32767 ∧
    (∃ vm1, c22_far_outcome 16384 1 = .running vm1 ∧
      vm1.plain_at (c22_far_fn 16384) 1 0 [.bool true]) ∧
    (∃ vm2, c22_far_outcome 16384 2 = .running vm2 ∧
      vm2.plain_at (c22_far_fn 16384) (2 ^ 64 - 32763) 0 [.bool true]) ∧
    (c22_far_outcome 16384 3).is_error ∧
    (c22_far_outcome 16384 3).vm.stderr = ["Runtime error: IP excceded chunks length"] :=
  ⟨c22_far_fn_eq 16384 rfl, c22_is_code_length 16384, by decide, c22_far_run 16384 rfl⟩

/-! ## A loop whose exit jump wraps onto an operand byte -/

theorem index_bytes (s : Nat) (hs : s < 32768) :
    descompose_i16 (wrapS 16 (s : Int)) = [s / 256 % 256, s % 256] := by
  have h1 : wrapS 16 (s : Int) = s := by
    rw [wrapS16_eq]
    split <;> omega
  rw [h1]
  unfold descompose_i16
  have a : (((s : Int) / 2 ^ 8) % 256).toNat = s / 256 % 256 := by omega
  have b : ((s : Int) % 256).toNat = s % 256 := by omega
  rw [a, b]

theorem compile_int_stmt (v : Int) (m : ScopeManager) (u : compiler.Unit)
    (rest : List compiler.Unit) (strs : List String) (hs : u.fn.iconsts.length < 32768) :
    compile_stmt (.EXPR (.INT v)) m { units_stack := u :: rest, strings := strs }
      = .ok m ⟨u.with_code
          (u.fn.chunks ++ [OpCode.INT.byte, u.fn.iconsts.length / 256 % 256,
            u.fn.iconsts.length % 256, OpCode.POP.byte])
          (u.fn.iconsts ++ [v]) :: rest, strs⟩ := by
  have hst : compile_stmt (.EXPR (.INT v)) m
      = (do
          compile_expr (.INT v) m
          let _ ← write_chunk OpCode.POP.byte
          pure m) := rfl
  have hlt : ¬ UINT16_MAX ≤ u.fn.iconsts.length := by unfold UINT16_MAX; omega
  have hcast : ((u.fn.iconsts.length + 1 : Nat) : Int) - 1 = (u.fn.iconsts.length : Int) := by
    omega
  have hb := index_bytes u.fn.iconsts.length hs
  rw [hst]
  simp only [compile_expr, bind, Comp.bind, write_chunk, insert_chunk, current_unit, set_unit,
    chunks_len, write_iconst, write_i16, pure, compiler.Unit.with_code, ge_iff_le, hlt, if_false, List.length_append,
    List.length_cons, List.length_nil, hcast, hb]
  have i1 : OpCode.INT.byte % 256 = OpCode.INT.byte := by decide
  have i2 : OpCode.POP.byte % 256 = OpCode.POP.byte := by decide
  simp [i1, i2]

theorem compile_all_append (xs ys : List Stmt) (m : ScopeManager) (c : Compiler) :
    compile_all (xs ++ ys) m c
      = match compile_all xs m c with
        | .ok m1 c1 => compile_all ys m1 c1
        | .error msg => .error msg
        | .ub => .ub := by
  induction xs generalizing m c with
  | nil => simp [compile_all]
  | cons x xs ih =>
    simp only [List.cons_append, compile_all, bind, Comp.bind]
    cases compile_stmt x m c with
    | ok m1 c1 => exact ih m1 c1
    | error msg => rfl
    | ub => rfl

theorem with_code_fn (u : compiler.Unit) (chunks : List Nat) (iconsts : List Int) :
    (u.with_code chunks iconsts).fn.chunks = chunks ∧
    (u.with_code chunks iconsts).fn.iconsts = iconsts := ⟨rfl, rfl⟩

theorem with_code_twice (u : compiler.Unit) (c1 c2 : List Nat) (i1 i2 : List Int) :
    (u.with_code c1 i1).with_code c2 i2 = u.with_code c2 i2 := rfl

theorem compile_ints (k : Nat) : ∀ (m : ScopeManager) (u : compiler.Unit)
    (rest : List compiler.Unit) (strs : List String), u.fn.iconsts.length + k ≤ 32768 →
    compile_all (List.replicate k (.EXPR (.INT 0))) m ⟨u :: rest, strs⟩
      = .ok m ⟨u.with_code (u.fn.chunks ++ c38_ints u.fn.iconsts.length k)
          (u.fn.iconsts ++ List.replicate k 0) :: rest, strs⟩ := by
  induction k with
  | zero =>
    intro m u rest strs _
    simp [compile_all, c38_ints, compiler.Unit.with_code]
  | succ k ih =>
    intro m u rest strs hk
    have h1 := compile_int_stmt 0 m u rest strs (by omega)
    simp only [List.replicate_succ, compile_all, bind, Comp.bind, h1]
    rw [ih m _ rest strs (by rw [(with_code_fn _ _ _).2]; simp; omega)]
    simp only [with_code_twice, (with_code_fn _ _ _).1, (with_code_fn _ _ _).2, c38_ints,
      List.append_assoc, List.length_append, List.length_cons, List.length_nil,
      List.replicate_succ, List.singleton_append]

theorem compile_empties (msg : String) (n : Nat) : ∀ (i : Nat) (s : LocalScope)
    (m : ScopeManager) (u : compiler.Unit) (b : Block) (bs : List Block)
    (rest : List compiler.Unit) (strs : List String), s.returned = false →
    u.blocks = b :: bs → b.current_stmt = i →
    compile_stmts msg (List.replicate n (.EXPR .EMPTY)) i (s :: m) ⟨u :: rest, strs⟩
      = .ok (s :: m) ⟨{ u.with_code (u.fn.chunks ++ c38_empties n) u.fn.iconsts with
          blocks := { b with current_stmt := i + n } :: bs } :: rest, strs⟩ := by
  induction n with
  | zero =>
    intro i s m u b bs rest strs _ hb hi
    obtain ⟨sl, cs⟩ := b
    simp only at hi
    subst hi
    simp [compile_stmts, c38_empties, compiler.Unit.with_code, ← hb]
  | succ n ih =>
    intro i s m u b bs rest strs hr hb hi
    have hst : compile_stmt (.EXPR .EMPTY) (s :: m)
        = (do
            compile_expr .EMPTY (s :: m)
            let _ ← write_chunk OpCode.POP.byte
            pure (s :: m)) := rfl
    have i1 : OpCode.EMPTY.byte % 256 = OpCode.EMPTY.byte := by decide
    have i2 : OpCode.POP.byte % 256 = OpCode.POP.byte := by decide
    simp only [List.replicate_succ, compile_stmts, scope_returned, hr, bind, Comp.bind,
      set_block, current_unit, set_unit, hb, hst, compile_expr, write_chunk, insert_chunk,
      chunks_len, pure, i1, i2, Bool.false_eq_true, if_false]
    rw [ih (i + 1) s m _ { b with current_stmt := i + 1 } bs rest strs hr rfl rfl]
    simp [compiler.Unit.with_code, c38_empties]
    omega

theorem compile_int_expr (v : Int) (m : ScopeManager) (counter : Int)
    (labels : List (String × Label)) (jmps : List Jmp) (marks : List Mark) (fn : Fn)
    (loops : List Int) (blocks : List Block)
    (rest : List compiler.Unit) (strs : List String) (hs : fn.iconsts.length < 32768) :
    compile_expr (.INT v) m ⟨⟨counter, labels, jmps, marks, fn, loops, blocks⟩ :: rest, strs⟩
      = .ok ⟨⟩ ⟨⟨counter, labels, jmps, marks,
          ⟨fn.name, fn.arity, fn.chunks ++ [OpCode.INT.byte, fn.iconsts.length / 256 % 256,
            fn.iconsts.length % 256], fn.iconsts ++ [v], fn.fconsts, fn.module⟩,
          loops, blocks⟩ :: rest, strs⟩ := by
  have hlt : ¬ UINT16_MAX ≤ fn.iconsts.length := by unfold UINT16_MAX; omega
  have hcast : ((fn.iconsts.length + 1 : Nat) : Int) - 1 = (fn.iconsts.length : Int) := by
    omega
  have hb := index_bytes fn.iconsts.length hs
  simp only [compile_expr, bind, Comp.bind, write_chunk, insert_chunk, current_unit, set_unit,
    chunks_len, write_iconst, write_i16, pure, ge_iff_le, hlt, if_false, List.length_append,
    List.length_cons, List.length_nil, hcast, hb]
  have i1 : OpCode.INT.byte % 256 = OpCode.INT.byte := by decide
  simp [i1]

theorem compile_empties_mk (msg : String) (n i : Nat) (s : LocalScope) (m : ScopeManager)
    (counter : Int) (labels : List (String × Label)) (jmps : List Jmp) (marks : List Mark)
    (fn : Fn) (loops : List Int) (sl : Nat) (bs : List Block)
    (rest : List compiler.Unit) (strs : List String) (hr : s.returned = false) :
    compile_stmts msg (List.replicate n (.EXPR .EMPTY)) i (s :: m)
        ⟨⟨counter, labels, jmps, marks, fn, loops, ⟨sl, i⟩ :: bs⟩ :: rest, strs⟩
      = .ok (s :: m) ⟨⟨counter, labels, jmps, marks,
          ⟨fn.name, fn.arity, fn.chunks ++ c38_empties n, fn.iconsts, fn.fconsts, fn.module⟩,
          loops, ⟨sl, i + n⟩ :: bs⟩ :: rest, strs⟩ :=
  (compile_empties msg n i s m ⟨counter, labels, jmps, marks, fn, loops, ⟨sl, i⟩ :: bs⟩ ⟨sl, i⟩ bs
    rest strs hr rfl rfl).trans rfl

theorem c38_ints_length (k : Nat) : ∀ s, (c38_ints s k).length = 4 * k := by
  induction k with
  | zero => intro s; rfl
  | succ k ih => intro s; simp [c38_ints, ih]; omega

theorem c38_empties_length (n : Nat) : (c38_empties n).length = 2 * n := by
  induction n with
  | zero => rfl
  | succ n ih => simp [c38_empties, ih]; omega

theorem compile_for_range (symbol : String) (left_expr : Expr) (upto : Bool) (right_expr : Expr)
    (stmts : List Stmt) (m : ScopeManager) :
    compile_stmt (.FOR_RANGE symbol left_expr upto right_expr stmts) m = (do
      let for_id ← generate_id
      let m1 := scope_manager_push .BLOCK m
      let m2 ← scope_manager_define_local symbol m1
      let offset ← (match local_offset symbol m2 with
        | some offset => pure offset
        | none => fun _ => .ub : Comp Nat)
      let m3 := scope_manager_push .FOR m2
      push_loop for_id
      push_block
      set_block (fun block => { block with stmts_len := stmts.length })
      compile_expr left_expr m3
      label s!".FOR({for_id})_TEST"
      let _ ← write_chunk OpCode.LGET.byte
      let _ ← write_chunk offset
      compile_expr right_expr m3
      let _ ← write_chunk (if upto then OpCode.GE.byte else OpCode.LT.byte)
      jit s!".FOR_RANGE({for_id})_END"
      let m4 ← compile_stmts "Cannot exists statements after the scope returned" stmts 0 m3
      pop_locals m4
      let _ ← write_chunk OpCode.LGET.byte
      let _ ← write_chunk offset
      let _ ← write_chunk OpCode.CINT.byte
      let _ ← write_chunk 1
      let _ ← write_chunk (if upto then OpCode.ADD.byte else OpCode.SUB.byte)
      let _ ← write_chunk OpCode.LSET.byte
      let _ ← write_chunk offset
      let _ ← write_chunk OpCode.POP.byte
      jmp s!".FOR({for_id})_TEST"
      label s!".FOR({for_id})_END"
      pop_block
      pop_loop
      pop_locals m4
      let m5 := scope_manager_pop m4
      label s!".FOR_RANGE({for_id})_END"
      pop_locals m5
      pure (scope_manager_pop m5)) := rfl

theorem set_at_append {α : Type} (A L : List α) (m i : Nat) (x : α) (hm : A.length = m) :
    (A ++ L).set (m + i) x = A ++ L.set i x := by
  subst hm
  induction A with
  | nil => simp
  | cons a A ih =>
    have e : (a :: A).length + i = (A.length + i) + 1 := by simp; omega
    rw [e]
    simp [ih]

theorem set_two_jumps (A H B T R : List Nat) (x0 x1 y0 y1 a b c d : Nat) (p q : Nat)
    (hA : A.length = p) (hB : B.length = q) (hH : H.length = 10) (hT : T.length = 9) :
    ((((A ++ (H ++ x0 :: x1 :: (B ++ (T ++ y0 :: y1 :: R)))).set (p + 10) a).set
      (p + 10 + 1) b).set (p + (12 + (q + 9))) c).set (p + (12 + (q + 9)) + 1) d
      = A ++ (H ++ a :: b :: (B ++ (T ++ c :: d :: R))) := by
  have e1 : p + 10 + 1 = p + (10 + 1) := rfl
  have e2 : p + (12 + (q + 9)) + 1 = p + (10 + (2 + (q + (9 + 1)))) := by omega
  have e3 : p + (12 + (q + 9)) = p + (10 + (2 + (q + (9 + 0)))) := by omega
  rw [e1, e2, e3]
  rw [set_at_append A _ p 10 a hA, set_at_append A _ p _ b hA, set_at_append A _ p _ c hA,
    set_at_append A _ p _ d hA]
  have f1 : (10 : Nat) = 10 + 0 := rfl
  nth_rewrite 1 [f1]
  rw [set_at_append H _ 10 0 a hH, set_at_append H _ 10 1 b hH, set_at_append H _ 10 _ c hH,
    set_at_append H _ 10 _ d hH]
  simp only [List.set_cons_zero, List.set_cons_succ]
  have g : ∀ (l : List Nat) (u v : Nat) (j : Nat) (w : Nat),
      (u :: v :: l).set (2 + j) w = u :: v :: l.set j w := by
    intro l u v j w
    have : 2 + j = j + 1 + 1 := by omega
    rw [this]
    rfl
  rw [g, g, set_at_append B _ q _ c hB, set_at_append B _ q _ d hB,
    set_at_append T _ 9 0 c hT, set_at_append T _ 9 1 d hT]
  rfl

theorem c38_pop (k n : Nat) (hk : k = 11265) (hn : n = 32755) :
    pop_unit ⟨[c38_unit k n], []⟩ = .ok (c38_code k n) ⟨[], []⟩ := by
  have hil := c38_ints_length k 0
  have hel := c38_empties_length n
  have d1 : wrapS 16 (wrapU 16 (to_size_t (((4 * k + 2 * n + 23 : Nat) : Int)
      - ((4 * k + 12 : Nat) : Int)))) = -15 := by
    subst hk hn
    decide
  have d2 : wrapS 16 (wrapU 16 (to_size_t (((4 * k + 3 : Nat) : Int)
      - ((4 * k + 2 * n + 23 : Nat) : Int)))) = 6 := by
    subst hk hn
    decide
  have l1 : ¬ 4 * k + 10 ≥ 4 * k + (12 + (2 * n + 14)) := by omega
  have l2 : ¬ 4 * k + (12 + (2 * n + 9)) ≥ 4 * k + (12 + (2 * n + 14)) := by omega
  have s1 : (".FOR_RANGE(0)_END" == ".FOR(0)_TEST") = false := by decide
  have s2 : (".FOR_RANGE(0)_END" == ".FOR(0)_END") = false := by decide
  have s3 : (".FOR_RANGE(0)_END" == ".FOR_RANGE(0)_END") = true := by decide
  have s4 : (".FOR(0)_TEST" == ".FOR(0)_TEST") = true := by decide
  have b1 : ((-15 : Int) / 2 ^ 8 % 256).toNat = 255 := by decide
  have b2 : ((-15 : Int) % 256).toNat = 241 := by decide
  have b3 : ((6 : Int) / 2 ^ 8 % 256).toNat = 0 := by decide
  have b4 : ((6 : Int) % 256).toNat = 6 := by decide
  have e1 : 4 * k + 12 + (2 * n + 14) = 4 * k + (12 + (2 * n + 14)) := by omega
  simp only [pop_unit, current_unit, c38_unit, resolve_jmps, resolve_marks, List.lookup, bind,
    Comp.bind, pure, update_i16, List.length_append, List.length_cons, List.length_nil, hil, hel,
    s1, s2, s3, s4, d1, d2, b1, b2, b3, b4, descompose_i16, set_unit, internal_error, l1, l2,
    if_false, List.length_set, List.tail]
  have hp := set_two_jumps (c38_ints 0 k)
    [OpCode.INT.byte, k / 256 % 256, k % 256, OpCode.LGET.byte, 0,
      OpCode.INT.byte, (k + 1) / 256 % 256, (k + 1) % 256, OpCode.GE.byte, OpCode.JIT.byte]
    (c38_empties n)
    [OpCode.LGET.byte, 0, OpCode.CINT.byte, 1, OpCode.ADD.byte, OpCode.LSET.byte, 0,
      OpCode.POP.byte, OpCode.JMP.byte]
    [OpCode.POP.byte, OpCode.EMPTY.byte, OpCode.RET.byte] 0 0 0 0 255 241 0 6 (4 * k) (2 * n)
    hil hel rfl rfl
  have hch : ((((c38_ints 0 k ++
      ([OpCode.INT.byte, k / 256 % 256, k % 256, OpCode.LGET.byte, 0,
        OpCode.INT.byte, (k + 1) / 256 % 256, (k + 1) % 256, OpCode.GE.byte,
        OpCode.JIT.byte, 0, 0] ++
      (c38_empties n ++
        [OpCode.LGET.byte, 0, OpCode.CINT.byte, 1, OpCode.ADD.byte, OpCode.LSET.byte, 0,
         OpCode.POP.byte, OpCode.JMP.byte, 0, 0, OpCode.POP.byte, OpCode.EMPTY.byte,
         OpCode.RET.byte]))).set (4 * k + 10) 255).set (4 * k + 10 + 1) 241).set
           (4 * k + (12 + (2 * n + 9))) 0).set (4 * k + (12 + (2 * n + 9)) + 1) 6
      = (c38_code k n).chunks := by
    refine Eq.trans hp ?_
    simp [c38_code]
  rw [hch]
  rfl

theorem c38_compiles (k n : Nat) (hk : k = 11265) (hn : n = 32755) :
    compile_entry "entry" (c38_program k n) 0 c10_compiler = .ok (c38_code k n) c10_compiler := by
  have hil := c38_ints_length k 0
  have hel := c38_empties_length n
  have hints := compile_ints k [{ type := .GLOBAL, locals := [], returned := false }]
    (create_unit entry_fn0) [] [] (by subst hk; decide)
  unfold entry_fn0 at hints
  have n1 : (toString ".FOR(" ++ toString (0 : Int) ++ toString ")_TEST" : String) = ".FOR(0)_TEST" := by decide
  have n2 : (toString ".FOR(" ++ toString (0 : Int) ++ toString ")_END" : String) = ".FOR(0)_END" := by decide
  have n3 : (toString ".FOR_RANGE(" ++ toString (0 : Int) ++ toString ")_END" : String) = ".FOR_RANGE(0)_END" := by decide
  have hlt1 : k < 32768 := by omega
  have hlt2 : k + 1 < 32768 := by omega
  have hoff : local_offset "i" [{ type := .BLOCK, locals := ["i"], returned := false },
      { type := .GLOBAL, locals := [], returned := false }] = some 0 := by decide
  simp only [compile_entry, c38_program, bind, Comp.bind, push_unit, c10_compiler,
    compile_all_append, hints, compile_all, compile_for_range]
  simp only [generate_id, current_unit, set_unit, bind, Comp.bind, pure, create_unit,
    compiler.Unit.with_code, scope_manager_push, scope_manager_define_local, List.not_mem_nil,
    if_false, List.nil_append, hoff, push_loop, push_block, set_block, List.length_replicate,
    compile_int_expr, hlt1, hlt2, n1, n2, n3, label, chunks_len, List.lookup,
    List.length_append, List.length_cons, List.length_nil, hil, hel, Option.isSome_none,
    Bool.false_eq_true, write_chunk, insert_chunk, jit, jmp, jmp_like, write_i16, descompose_i16,
    compile_empties_mk, pop_locals, scope_manager_locals_count, write_chunks, List.replicate,
    pop_block, pop_loop, scope_manager_pop, List.tail, if_true]
  simp [Comp.bind, set_unit, internal_error, wrapS, hil, hel]
  refine Eq.trans ?_ (c38_pop k n hk hn)
  have a1 : 4 * k + 3 + 1 + 1 + 3 + 1 + 1 + 1 + 1 + 2 * n + 1 + 1 + 1 + 1 + 1 + 1 + 1 + 1 + 1 + 1
      + 1 = 4 * k + 2 * n + 23 := by omega
  have a2 : 4 * k + (2 * n + 11 + 1 + 1 + 1 + 1 + 1 + 1 + 1 + 1 + 1 + 1 + 1 + 1)
      = 4 * k + 2 * n + 23 := by omega
  have a3 : 4 * k + 3 + 1 + 1 + 3 + 1 + 1 + 1 + 1 = 4 * k + 12 := by omega
  have a4 : 4 * k + 3 + 1 + 1 + 3 + 1 + 1 + 1 + 1 + 2 * n + 9 = 4 * k + (12 + (2 * n + 9)) := by
    omega
  have c1 : OpCode.LGET.byte % 256 = OpCode.LGET.byte := by decide
  have c2 : OpCode.GE.byte % 256 = OpCode.GE.byte := by decide
  have c3 : OpCode.JIT.byte % 256 = OpCode.JIT.byte := by decide
  have c4 : OpCode.CINT.byte % 256 = OpCode.CINT.byte := by decide
  have c5 : OpCode.ADD.byte % 256 = OpCode.ADD.byte := by decide
  have c6 : OpCode.LSET.byte % 256 = OpCode.LSET.byte := by decide
  have c7 : OpCode.POP.byte % 256 = OpCode.POP.byte := by decide
  have c8 : OpCode.JMP.byte % 256 = OpCode.JMP.byte := by decide
  have c9 : OpCode.EMPTY.byte % 256 = OpCode.EMPTY.byte := by decide
  have c10 : OpCode.RET.byte % 256 = OpCode.RET.byte := by decide
  rw [a1, a2, a4, a3, c1, c2, c3, c4, c5, c6, c7, c8, c9, c10]
  rfl

theorem c38_ints_drop (j : Nat) : ∀ (k s : Nat) (L : List Nat), j < k →
    (c38_ints s k ++ L).drop (4 * j)
      = [OpCode.INT.byte, (s + j) / 256 % 256, (s + j) % 256, OpCode.POP.byte] ++
          (c38_ints (s + j + 1) (k - j - 1) ++ L) := by
  induction j with
  | zero =>
    intro k s L hk
    obtain ⟨k1, rfl⟩ : ∃ k1, k = k1 + 1 := ⟨k - 1, by omega⟩
    simp [c38_ints]
  | succ j ih =>
    intro k s L hk
    obtain ⟨k1, rfl⟩ : ∃ k1, k = k1 + 1 := ⟨k - 1, by omega⟩
    have e : 4 * (j + 1) = 4 + 4 * j := by omega
    have e2 : s + 1 + j = s + (j + 1) := by omega
    have e3 : k1 + 1 - (j + 1) - 1 = k1 - j - 1 := by omega
    rw [e]
    simp only [c38_ints, List.append_assoc]
    rw [← List.drop_drop]
    simp only [List.cons_append, List.nil_append, List.drop_succ_cons, List.drop_zero]
    rw [ih k1 (s + 1) L (by omega), e2, e3]
    simp

theorem index_compose (s : Nat) (hs : s < 32768) :
    to_size_t (compose_i16 (s / 256 % 256) (s % 256)) = s := by
  rw [compose_i16_eq _ _ (by omega) (by omega), wrapS16_eq]
  have e : (((s / 256 % 256 * 256 + s % 256 : Nat)) : Int) = s := by omega
  rw [e]
  unfold to_size_t
  split <;> omega

theorem c38_chunks (k n : Nat) :
    (c38_code k n).chunks = c38_ints 0 k ++
      ([OpCode.INT.byte, k / 256 % 256, k % 256, OpCode.LGET.byte, 0,
        OpCode.INT.byte, (k + 1) / 256 % 256, (k + 1) % 256, OpCode.GE.byte,
        OpCode.JIT.byte, 255, 241] ++
      (c38_empties n ++
        [OpCode.LGET.byte, 0, OpCode.CINT.byte, 1, OpCode.ADD.byte, OpCode.LSET.byte, 0,
         OpCode.POP.byte, OpCode.JMP.byte, 0, 6, OpCode.POP.byte, OpCode.EMPTY.byte,
         OpCode.RET.byte])) := by
  simp [c38_code]

theorem drop_add_getElem? {α : Type} (l L : List α) (p i : Nat) (h : l.drop p = L) :
    l[p + i]? = L[i]? := by
  rw [← h, List.getElem?_drop]

theorem drop_add_drop {α : Type} (l L : List α) (p i : Nat) (h : l.drop p = L) :
    l.drop (p + i) = L.drop i := by
  rw [← h, List.drop_drop]

theorem c38_iconst (k n j : Nat) (hk : k + 1 < 32768) (hj : j < k + 2) :
    (c38_code k n).iconsts[to_size_t (compose_i16 (j / 256 % 256) (j % 256))]? = some 0 := by
  rw [index_compose j (by omega)]
  show (List.replicate k (0 : Int) ++ [0, 0])[j]? = some 0
  by_cases h : j < k
  · rw [List.getElem?_append_left (by simpa using h)]
    simp [List.getElem?_replicate, h]
  · rw [List.getElem?_append_right (by simp; omega)]
    simp only [List.length_replicate]
    have : j - k = 0 ∨ j - k = 1 := by omega
    rcases this with e | e <;> rw [e] <;> rfl

theorem c38_statements_run (k n : Nat) (hk : k + 1 < 32768) (vm0 : VM)
    (h0 : vm0.plain_at (c38_code k n) 0 0 []) :
    ∀ j, j ≤ k → ∃ vm, run (2 * j) vm0 = .running vm ∧ vm.plain_at (c38_code k n) (4 * j) 0 [] := by
  intro j
  induction j with
  | zero =>
    intro _
    exact ⟨vm0, rfl, h0⟩
  | succ j ih =>
    intro hj
    obtain ⟨vm, hrun, hat⟩ := ih (by omega)
    have hd := c38_ints_drop j k 0 _ (by omega) ▸ congrArg (List.drop (4 * j)) (c38_chunks k n)
    simp only [Nat.zero_add] at hd
    have g0 := drop_add_getElem? _ _ (4 * j) 0 hd
    have g3 := drop_add_getElem? _ _ (4 * j) 3 hd
    have g1 := drop_add_drop _ _ (4 * j) 1 hd
    simp only [Nat.add_zero, List.cons_append, List.nil_append, List.getElem?_cons_zero] at g0
    simp only [List.cons_append, List.nil_append, List.getElem?_cons_succ,
      List.getElem?_cons_zero] at g3
    simp only [List.cons_append, List.nil_append, List.drop_succ_cons, List.drop_zero] at g1
    obtain ⟨vm1, s1, h1⟩ := plain_int hat (j / 256 % 256) (j % 256)
      (by rw [g0]; rfl) (by rw [g1]; rfl) 0 (c38_iconst k n j hk (by omega)) (by decide)
    obtain ⟨vm2, s2, h2⟩ := plain_pop h1 (by rw [g3]; rfl)
    refine ⟨vm2, ?_, ?_⟩
    · have e : 2 * (j + 1) = 2 * j + 2 := by omega
      rw [e, run_add, hrun]
      simp only [run, s1, s2]
    · have e : 4 * (j + 1) = 4 * j + 3 + 1 := by omega
      rw [e]
      exact h2

theorem c38_header_drop (k n : Nat) :
    (c38_code k n).chunks.drop (4 * k) =
      [OpCode.INT.byte, k / 256 % 256, k % 256, OpCode.LGET.byte, 0,
        OpCode.INT.byte, (k + 1) / 256 % 256, (k + 1) % 256, OpCode.GE.byte,
        OpCode.JIT.byte, 255, 241] ++
      (c38_empties n ++
        [OpCode.LGET.byte, 0, OpCode.CINT.byte, 1, OpCode.ADD.byte, OpCode.LSET.byte, 0,
         OpCode.POP.byte, OpCode.JMP.byte, 0, 6, OpCode.POP.byte, OpCode.EMPTY.byte,
         OpCode.RET.byte]) := by
  rw [c38_chunks]
  exact List.drop_left' (c38_ints_length k 0)

theorem c38_header_run (k n : Nat) (hk : k = 11265) (vm : VM)
    (h : vm.plain_at (c38_code k n) (4 * k) 0 []) :
    ∃ vm5, run 5 vm = .running vm5 ∧
      vm5.plain_at (c38_code k n) (4 * (k - 1) + 1) 0 [.int 0] := by
  have hd := c38_header_drop k n
  have hk2 : k + 1 < 32768 := by omega
  have g : ∀ i, (c38_code k n).chunks[4 * k + i]? = _ := fun i =>
    drop_add_getElem? _ _ (4 * k) i hd
  have d : ∀ i, (c38_code k n).chunks.drop (4 * k + i) = _ := fun i =>
    drop_add_drop _ _ (4 * k) i hd
  obtain ⟨v1, s1, h1⟩ := plain_int h (k / 256 % 256) (k % 256)
    (by rw [show 4 * k = 4 * k + 0 from rfl, g 0]; rfl)
    (by rw [show 4 * k + 1 = 4 * k + 1 from rfl, d 1]; rfl) 0
    (c38_iconst k n k hk2 (by omega)) (by decide)
  have h1a : v1.plain_at (c38_code k n) (4 * k + 3) 0 [.int 0] := h1
  obtain ⟨v2, s2, h2⟩ := plain_lget h1a 0 (by rw [g 3]; rfl) (by rw [d 4]; rfl) (.int 0) rfl
    (by decide)
  have h2a : v2.plain_at (c38_code k n) (4 * k + 5) 0 [.int 0, .int 0] := h2
  obtain ⟨v3, s3, h3⟩ := plain_int h2a ((k + 1) / 256 % 256) ((k + 1) % 256)
    (by rw [g 5]; rfl) (by rw [d 6]; rfl) 0 (c38_iconst k n (k + 1) hk2 (by omega)) (by decide)
  have h3a : v3.plain_at (c38_code k n) (4 * k + 8) 0 ([.int 0] ++ [.int 0] ++ [.int 0]) := h3
  obtain ⟨v4, s4, h4⟩ := plain_ge h3a (by rw [g 8]; rfl) (by decide)
  have h4a : v4.plain_at (c38_code k n) (4 * k + 9) 0 ([.int 0] ++ [.bool true]) := h4
  obtain ⟨v5, s5, h5⟩ := plain_jit h4a 255 241 (by rw [g 9]; rfl) (by rw [d 10]; rfl)
    (4 * (k - 1) + 1) (by subst hk; decide)
  exact ⟨v5, by simp only [run, s1, s2, s3, s4, s5], h5⟩

/-- The module `c38_program 11265 32755`, compiled and run. -/
theorem c38_run (k n : Nat) (hk : k = 11265) (hn : n = 32755) :
    (∃ vm, c38_outcome k n (2 * k + 5) = .running vm ∧
      vm.plain_at (c38_entry k n) (4 * (k - 1) + 1) 0 [.int 0] ∧
      vm.at_op (c38_entry k n) .OGET [0]) ∧
    c38_outcome k n (2 * k + 6) = .ub := by
  have hf : c38_entry k n = c38_code k n := by
    unfold c38_entry
    rw [c38_compiles k n hk hn]
    rfl
  rw [hf]
  obtain ⟨vm0, s0, h0⟩ := entry_start (c38_code k n) rfl
  obtain ⟨vm1, s1, h1⟩ := c38_statements_run k n (by omega) vm0 h0 k le_rfl
  obtain ⟨vm2, s2, h2⟩ := c38_header_run k n hk vm1 h1
  have hd := c38_ints_drop (k - 1) k 0 _ (by omega) ▸
    congrArg (List.drop (4 * (k - 1))) (c38_chunks k n)
  simp only [Nat.zero_add] at hd
  have g1 := drop_add_getElem? _ _ (4 * (k - 1)) 1 hd
  have g2 := drop_add_drop _ _ (4 * (k - 1)) 2 hd
  simp only [List.cons_append, List.nil_append, List.getElem?_cons_succ,
    List.getElem?_cons_zero] at g1
  simp only [List.cons_append, List.nil_append, List.drop_succ_cons, List.drop_zero] at g2
  have b1 : (k - 1) / 256 % 256 = OpCode.OGET.byte := by subst hk; decide
  have b2 : (k - 1) % 256 = 0 := by subst hk; decide
  rw [b1] at g1
  rw [b2] at g2
  have h3 : ((c38_code k n).chunks[4 * (k - 1) + 1]?).bind decode = some .OGET := by
    rw [g1]; rfl
  have h4 : ((c38_code k n).chunks.drop (4 * (k - 1) + 1 + 1)).take 1 = [0] := by
    rw [show 4 * (k - 1) + 1 + 1 = 4 * (k - 1) + 2 from rfl, g2]; rfl
  have s3 := plain_oget h2 0 h3 h4
  have e1 : c38_outcome k n (2 * k + 5) = .running vm2 := by
    unfold c38_outcome vm_execute
    rw [hf, s0]
    show run (2 * k + 5) vm0 = _
    rw [run_add, s1]
    exact s2
  have e2 : c38_outcome k n (2 * k + 6) = .ub := by
    unfold c38_outcome vm_execute
    rw [hf, s0]
    show run (2 * k + 5 + 1) vm0 = _
    rw [run_add, show run (2 * k + 5) vm0 = .running vm2 from by rw [run_add, s1]; exact s2]
    simp only [run, s3]
  exact ⟨⟨vm2, e1, h2, frame_at_op h2.1 .OGET [0] h3 h4⟩, e2⟩

theorem c38_statement_at (k n : Nat) (hk : k = 11265) :
    ((c38_code k n).chunks.drop (4 * (k - 1))).take 4
      = [OpCode.INT.byte, OpCode.OGET.byte, 0, OpCode.POP.byte] := by
  have hd := c38_ints_drop (k - 1) k 0 _ (by omega) ▸
    congrArg (List.drop (4 * (k - 1))) (c38_chunks k n)
  simp only [Nat.zero_add] at hd
  have b1 : (k - 1) / 256 % 256 = OpCode.OGET.byte := by subst hk; decide
  have b2 : (k - 1) % 256 = 0 := by subst hk; decide
  rw [hd, b1, b2]
  rfl

theorem oget_without_match_continues_witness :
    (c38_outcome 11265 32755 22535).vm.at_op (c38_entry 11265 32755) .OGET [0] ∧
    ((∀ c mc caps m, (c38_outcome 11265 32755 22535).vm.frame.closure = some c →
        captured (c38_outcome 11265 32755 22535).vm c = some (mc, caps) →
        (c38_outcome 11265 32755 22535).vm.metas[mc]? = some m →
        m.meta_out_values.length = caps.length →
      (∀ a v, caps.find? (fun p => p.1 == ((0 : Nat) : Int)) = some (a, v) →
        (c38_outcome 11265 32755 22535).vm.stack_top < STACK_LENGTH →
        ∃ vm1, step (c38_outcome 11265 32755 22535).vm = .running vm1 ∧
          vm1.stack_top = (c38_outcome 11265 32755 22535).vm.stack_top + 1 ∧
          vm1.stack (c38_outcome 11265 32755 22535).vm.stack_top = v ∧
          ∀ i, i < (c38_outcome 11265 32755 22535).vm.stack_top →
            vm1.stack i = (c38_outcome 11265 32755 22535).vm.stack i) ∧
      (caps.find? (fun p => p.1 == ((0 : Nat) : Int)) = none →
        ∃ vm1, step (c38_outcome 11265 32755 22535).vm = .running vm1 ∧
          vm1.stack_top = (c38_outcome 11265 32755 22535).vm.stack_top ∧
          vm1.stack = (c38_outcome 11265 32755 22535).vm.stack ∧
          vm1.stderr = (c38_outcome 11265 32755 22535).vm.stderr ∧
          vm1.frame_ptr = (c38_outcome 11265 32755 22535).vm.frame_ptr ∧
          vm1.frame.ip = (c38_outcome 11265 32755 22535).vm.frame.ip + 2)) ∧
    ((c38_outcome 11265 32755 22535).vm.frame.closure = none →
      (step (c38_outcome 11265 32755 22535).vm).is_ub)) :=
  have hat : (c38_outcome 11265 32755 22535).vm.at_op (c38_entry 11265 32755) .OGET [0] := by
    obtain ⟨vm, e, -, h⟩ := (c38_run 11265 32755 rfl rfl).1
    have e2 : c38_outcome 11265 32755 22535 = .running vm := e
    rw [e2]
    exact h
  ⟨hat, oget_without_match_continues _ _ 0 hat⟩

/-- C38 as stated fails in a program the compiler produces. The module
`c38_program 11265 32755` (11265 expression statements `0`, then
`for i = 0 upto 0` with a body of 32755 expression statements `empty`)
compiles to `c38_code 11265 32755`. Its 11265th statement is `INT` with the
constant index 11264, the bytes 44 and 0, at offset 45056; 44 is the byte of
`OGET` (for another numbering of the opcodes the module has 256 times the
byte of `OGET` plus one statements, and the jump lands the same way, three
chunks before the loop). The `JIT` that leaves the loop is 65521 chunks before
its label;
`pop_unit` stored `(uint16_t)65521`, the bytes 255, 241, which the VM reads as
-15. After 22535 instructions the `JIT` has been taken and the `ip` is 45057,
inside that statement: the machine is at `OGET 0` in the frame of the entry
function, which has no closure, and nothing was written to the error stream.
The next instruction reads the closure through the null pointer: undefined
behaviour, where the claim has a runtime error or one value pushed. -/
theorem wrapped_jump_runs_oget_without_closure :
    compile_entry "entry" (c38_program 11265 32755) 0 c10_compiler
      = .ok (c38_code 11265 32755) c10_compiler ∧
    ((c38_code 11265 32755).chunks.drop 45056).take 4
      = [OpCode.INT.byte, OpCode.OGET.byte, 0, OpCode.POP.byte] ∧
    compose_i16 255 241 = -15 ∧
    (∃ vm, c38_outcome 11265 32755 22535 = .running vm ∧
      vm.plain_at (c38_entry 11265 32755) 45057 0 [.int 0] ∧
      vm.at_op (c38_entry 11265 32755) .OGET [0]) ∧
    c38_outcome 11265 32755 22536 = .ub :=
  ⟨c38_compiles 11265 32755 rfl rfl,
    c38_statement_at 11265 32755 rfl, by decide, c38_run 11265 32755 rfl rfl⟩

/-! ## S2: the anonymous function -/

/-- C6 as stated fails on S2: the anonymous function `anon(y) \x7b ret x + y \x7d`
is not compiled. Whatever the returned expression, the statements that follow
and the scopes and the compiler state the anonymous function is met in, the
`return` that is directly a statement of the body reaches `peek_block` with an
empty stack of blocks, which is undefined behaviour (the `assert` fails), so
no closure of S2 is ever created or called. With the body in a block
statement, `anon(y) \x7b \x7b ret y \x7d \x7d`, the function compiles. The bytecode
S2 would have, `s2_anon`, run on the VM, leaves 7 and 13. -/
theorem s2_anonymous_function_aborts_compilation :
    (∀ (ret_expr : Option Expr) (stmts : List Stmt) (module : Nat) (m : ScopeManager)
        (c : Compiler),
      (compile_anon ["y"] (.RETURN ret_expr :: stmts) module m c).is_ub = true) ∧
    (compile_anon ["y"] [.BLOCK (some [.RETURN (some (.IDENTIFIER "y"))])] 0
      [{ type := .FN, locals := ["x"], returned := false },
       { type := .GLOBAL, locals := [], returned := false }] c10_compiler).failure = none ∧
    (compiled (compile_anon ["y"] [.BLOCK (some [.RETURN (some (.IDENTIFIER "y"))])] 0
      [{ type := .FN, locals := ["x"], returned := false },
       { type := .GLOBAL, locals := [], returned := false }] c10_compiler)).chunks
      = [OpCode.LGET.byte, 0, OpCode.RET.byte, OpCode.EMPTY.byte, OpCode.RET.byte] ∧
    s2_anon.chunks = [OpCode.OGET.byte, 0, OpCode.LGET.byte, 0, OpCode.ADD.byte,
      OpCode.RET.byte] ∧
    (s2_state 13).top 1 = [.int 7] ∧ (s2_state 21).top 1 = [.int 13] :=
  ⟨fun _ _ _ _ _ => rfl, by decide!, by decide!, by decide!, by decide!, by decide!⟩

end Zeus
